import Mathlib

/-!
Buddy allocator core of `mm/page_alloc.c`

A shallow embedding of the buddy engine of the page allocator (free-area
tables, split, merge, fallback) together with the properties claimed for it.

Conventions of the embedding:

* a `struct page *` is represented by its page frame number; pointer
  arithmetic `page + (a - b)` on `unsigned long` indices becomes `page + a - b`
  on naturals (the pointer never leaves the `MAX_ORDER` block of `page`, so the
  natural-number subtraction is exact);
* a `struct list_head` list is the list of the frame numbers linked on it, head
  first; `list_add` conses, `list_add_tail` appends, `list_del` unlinks the
  node from whichever list holds it;
* `VM_BUG_ON` assertions (compiled only under `CONFIG_DEBUG_VM`) and trace
  hooks are not part of the model; `BUG_ON` is modelled by `none`.
-/

namespace PageAlloc

/-! ## Constants and configuration taken from headers -/

/-- Build-time and boot-time parameters. `MAX_ORDER` and `pageblock_order`
come from `mmzone.h` and `pageblock-flags.h`, which are not part of the
sources at hand, so they are parameters (the comparisons `order < MAX_ORDER-1`
and `order < MAX_ORDER-2` are the C ones for `MAX_ORDER ≥ 2`).
`BITS_PER_LONG` is the width of `unsigned long`. `PAGE_SHIFT` (`page.h`) and
`PAGE_ALLOC_COSTLY_ORDER` (`mmzone.h`) are parameters for the same reason;
`CONFIG_MMU` and `CONFIG_PM_SLEEP` select the `#ifdef` branches of
`zone_batchsize` and `pm_suspended_storage`. -/
structure Config where
  MAX_ORDER : Nat := 11
  pageblock_order : Nat := 10
  BITS_PER_LONG : Nat := 64
  CONFIG_DEBUG_PAGEALLOC : Bool := false
  CONFIG_HOLES_IN_ZONE : Bool := false
  _debug_guardpage_minorder : Nat := 0
  page_group_by_mobility_disabled : Bool := false
  PAGE_SHIFT : Nat := 12
  PAGE_ALLOC_COSTLY_ORDER : Nat := 3
  CONFIG_MMU : Bool := true
  CONFIG_PM_SLEEP : Bool := true

/-- Modelled from the spec: the mobility classes of `enum migratetype`
(`mmzone.h` is not among the sources): Unmovable. -/
def MIGRATE_UNMOVABLE : Nat := 0
/-- Modelled from the spec: mobility class Reclaimable. -/
def MIGRATE_RECLAIMABLE : Nat := 1
/-- Modelled from the spec: mobility class Movable. -/
def MIGRATE_MOVABLE : Nat := 2
/-- Modelled from the spec: the number of per-CPU list classes (three). -/
def MIGRATE_PCPTYPES : Nat := 3
/-- Modelled from the spec: mobility class Reserve. -/
def MIGRATE_RESERVE : Nat := 3
/-- Modelled from the spec: mobility class Isolate. -/
def MIGRATE_ISOLATE : Nat := 4
/-- Modelled from the spec: the number of mobility classes (five). -/
def MIGRATE_TYPES : Nat := 5

/-- `pageblock_nr_pages` is `1UL << pageblock_order`. -/
def pageblock_nr_pages (cfg : Config) : Nat := 1 <<< cfg.pageblock_order

/-- Increment of an `unsigned long` counter. -/
def ulong_inc (cfg : Config) (n : Nat) : Nat := (n + 1) % 2 ^ cfg.BITS_PER_LONG

/-- Decrement of an `unsigned long` counter (wraps at zero). -/
def ulong_dec (cfg : Config) (n : Nat) : Nat :=
  (n + 2 ^ cfg.BITS_PER_LONG - 1) % 2 ^ cfg.BITS_PER_LONG

/-! ## Data model -/

/-- A page descriptor, restricted to the fields the buddy engine reads or
writes (`count` and `mapcount` are the fields `_count` and `_mapcount`).
`PageBuddy` is `_mapcount == -2`; `zone_id` stands for the zone bits of
`page->flags`; `guard` is `PAGE_DEBUG_FLAG_GUARD`; `lru_prev` is the slot of
the first tail page that holds the order of a compound page. `mapping` is
the pointer of that name (zero for `NULL`, bit 0 is `PAGE_MAPPING_ANON`);
`check_at_free` and `check_at_prep` say that some bit of
`PAGE_FLAGS_CHECK_AT_FREE`, of `PAGE_FLAGS_CHECK_AT_PREP`, is set in
`page->flags` (the masks are in `page-flags.h`, not among the sources);
`memcg_bad` is the answer of `mem_cgroup_bad_page_check(page)`, a function of
the memory controller. -/
structure Page where
  count : Int := 0
  mapcount : Int := -1
  private_ : Nat := 0
  zone_id : Nat := 0
  guard : Bool := false
  PG_head : Bool := false
  PG_tail : Bool := false
  first_page : Nat := 0
  lru_prev : Nat := 0
  mapping : Nat := 0
  check_at_free : Bool := false
  check_at_prep : Bool := false
  memcg_bad : Bool := false
  PG_mlocked : Bool := false

/-- One zone together with the page descriptor array it draws from.
`free_list k m` is `zone->free_area[k].free_list[m]`, `nr_free k` is
`zone->free_area[k].nr_free`, `NR_FREE_PAGES` the zone counter of that name,
`mem_map` the descriptor array indexed by frame number, `pfn_valid` the
predicate `pfn_valid`, `pageblock_flags b` the migrate bits of page-block
number `b` (frame number shifted right by `pageblock_order`), and
`lowmem_reserve i` is `zone->lowmem_reserve[i]`, an `unsigned long` (the
source prints it with `%lu`), and `present_pages` the field of that name. -/
structure State where
  free_list : Nat → Nat → List Nat
  nr_free : Nat → Nat
  zone_start_pfn : Nat
  spanned_pages : Nat
  NR_FREE_PAGES : Int
  mem_map : Nat → Page
  pfn_valid : Nat → Bool
  pageblock_flags : Nat → Nat
  lowmem_reserve : Nat → Nat := fun _ => 0
  present_pages : Nat := 0

/-- Pointwise update of a table. -/
def upd {α : Type} (f : Nat → α) (i : Nat) (v : α) : Nat → α :=
  fun j => if j = i then v else f j

/-- Replace one free list. -/
def upd_list (fl : Nat → Nat → List Nat) (k m : Nat) (l : List Nat) :
    Nat → Nat → List Nat :=
  fun k' m' => if k' = k ∧ m' = m then l else fl k' m'

/-! ## List primitives -/

/-- `list_del(&page->lru)`: unlink the page from the list it is on. -/
def list_del (s : State) (page : Nat) : State :=
  { s with free_list := fun k m => (s.free_list k m).erase page }

/-- `list_add(&page->lru, &zone->free_area[order].free_list[mt])`. -/
def list_add (s : State) (page order mt : Nat) : State :=
  { s with free_list := upd_list s.free_list order mt (page :: s.free_list order mt) }

/-- `list_add_tail(&page->lru, &zone->free_area[order].free_list[mt])`. -/
def list_add_tail (s : State) (page order mt : Nat) : State :=
  { s with free_list := upd_list s.free_list order mt (s.free_list order mt ++ [page]) }

/-- `list_move`: unlink, then add at the head of the target list. -/
def list_move (s : State) (page order mt : Nat) : State :=
  list_add (list_del s page) page order mt

/-! ## Page flag helpers -/

/-- `PageBuddy(page)`: the page heads a block held by the buddy system. -/
def PageBuddy (p : Page) : Bool := p.mapcount == -2

/-- `PageCompound(page)`. -/
def PageCompound (p : Page) : Bool := p.PG_head || p.PG_tail

/-- `page_order(page)` is `page_private(page)`. -/
def page_order (p : Page) : Nat := p.private_

/-- `page_is_guard(page)`: constant false unless `CONFIG_DEBUG_PAGEALLOC`. -/
def page_is_guard (cfg : Config) (p : Page) : Bool :=
  cfg.CONFIG_DEBUG_PAGEALLOC && p.guard

/-- `debug_guardpage_minorder()`: zero unless `CONFIG_DEBUG_PAGEALLOC`. -/
def debug_guardpage_minorder (cfg : Config) : Nat :=
  if cfg.CONFIG_DEBUG_PAGEALLOC then cfg._debug_guardpage_minorder else 0

/-- `pfn_valid_within(pfn)`: constant true unless `CONFIG_HOLES_IN_ZONE`. -/
def pfn_valid_within (cfg : Config) (s : State) (pfn : Nat) : Bool :=
  if cfg.CONFIG_HOLES_IN_ZONE then s.pfn_valid pfn else true

/-- `page_zone_id(page)`. -/
def page_zone_id (s : State) (page : Nat) : Nat := (s.mem_map page).zone_id

/-- `set_page_private(page, v)`. -/
def set_page_private (s : State) (page v : Nat) : State :=
  { s with mem_map := upd s.mem_map page { s.mem_map page with private_ := v } }

/-- `set_page_guard_flag(page)`: a no-op unless `CONFIG_DEBUG_PAGEALLOC`. -/
def set_page_guard_flag (cfg : Config) (s : State) (page : Nat) : State :=
  if cfg.CONFIG_DEBUG_PAGEALLOC then
    { s with mem_map := upd s.mem_map page { s.mem_map page with guard := true } }
  else s

/-- `clear_page_guard_flag(page)`: a no-op unless `CONFIG_DEBUG_PAGEALLOC`. -/
def clear_page_guard_flag (cfg : Config) (s : State) (page : Nat) : State :=
  if cfg.CONFIG_DEBUG_PAGEALLOC then
    { s with mem_map := upd s.mem_map page { s.mem_map page with guard := false } }
  else s

/-- `set_page_order`: record the order, then `__SetPageBuddy`. -/
def set_page_order (s : State) (page order : Nat) : State :=
  { s with
    mem_map :=
      upd s.mem_map page { s.mem_map page with private_ := order, mapcount := -2 } }

/-- `rmv_page_order`: `__ClearPageBuddy`, then reset the private slot. -/
def rmv_page_order (s : State) (page : Nat) : State :=
  { s with
    mem_map :=
      upd s.mem_map page { s.mem_map page with mapcount := -1, private_ := 0 } }

/-- `__mod_zone_page_state(zone, NR_FREE_PAGES, delta)`. -/
def mod_free_pages (s : State) (delta : Int) : State :=
  { s with NR_FREE_PAGES := s.NR_FREE_PAGES + delta }

/-- `zone->free_area[order].nr_free++`. -/
def nr_free_inc (cfg : Config) (s : State) (order : Nat) : State :=
  { s with nr_free := upd s.nr_free order (ulong_inc cfg (s.nr_free order)) }

/-- `zone->free_area[order].nr_free--`. -/
def nr_free_dec (cfg : Config) (s : State) (order : Nat) : State :=
  { s with nr_free := upd s.nr_free order (ulong_dec cfg (s.nr_free order)) }

/-! ## Buddy arithmetic -/

/-- Index of the buddy of the block at `page_idx` of the given order. -/
def __find_buddy_index (page_idx order : Nat) : Nat :=
  page_idx ^^^ (1 <<< order)

/-- `page_is_buddy(page, buddy, order)`. -/
def page_is_buddy (cfg : Config) (s : State) (page buddy order : Nat) : Bool :=
  if !pfn_valid_within cfg s buddy then false
  else if page_zone_id s page != page_zone_id s buddy then false
  else if page_is_guard cfg (s.mem_map buddy) && page_order (s.mem_map buddy) == order then true
  else if PageBuddy (s.mem_map buddy) && page_order (s.mem_map buddy) == order then true
  else false

/-! ## Compound pages on free -/

/-- `compound_order(page)`: zero unless the page is a head page, else the
order kept in the first tail page. -/
def compound_order (s : State) (page : Nat) : Nat :=
  if !(s.mem_map page).PG_head then 0 else (s.mem_map (page + 1)).lru_prev

/-- `bad_page(page)`: the report is not modelled; in both of its branches the
function ends with `reset_page_mapcount(page)`, which is what remains. -/
def bad_page (s : State) (page : Nat) : State :=
  { s with mem_map := upd s.mem_map page { s.mem_map page with mapcount := -1 } }

/-- `__ClearPageHead(page)`. -/
def __ClearPageHead (s : State) (page : Nat) : State :=
  { s with mem_map := upd s.mem_map page { s.mem_map page with PG_head := false } }

/-- `__ClearPageTail(page)`. -/
def __ClearPageTail (s : State) (page : Nat) : State :=
  { s with mem_map := upd s.mem_map page { s.mem_map page with PG_tail := false } }

/-- The `for (i = 1; i < nr_pages; i++)` loop of `destroy_compound_page`,
run for `n` further iterations from index `i`; the second component counts
the faults. -/
def destroy_compound_loop (page : Nat) : Nat → Nat → State × Nat → State × Nat
  | 0, _, r => r
  | n + 1, i, (s, bad) =>
    if !(s.mem_map (page + i)).PG_tail || (s.mem_map (page + i)).first_page != page then
      destroy_compound_loop page n (i + 1)
        (__ClearPageTail (bad_page s page) (page + i), bad + 1)
    else
      destroy_compound_loop page n (i + 1) (__ClearPageTail s (page + i), bad)

/-- `destroy_compound_page(page, order)`: returns the new state and `bad`. -/
def destroy_compound_page (s : State) (page order : Nat) : State × Nat :=
  if compound_order s page != order || !(s.mem_map page).PG_head then
    destroy_compound_loop page ((1 <<< order) - 1) 1
      (__ClearPageHead (bad_page s page) page, 1)
  else
    destroy_compound_loop page ((1 <<< order) - 1) 1 (__ClearPageHead s page, 0)

/-! ## Freeing: `__free_one_page` -/

/-- The local variables of `__free_one_page` that live across its loop. -/
structure FreeVars where
  s : State
  page : Nat
  page_idx : Nat
  order : Nat
  buddy_idx : Nat
  buddy : Nat

/-- The merge branch of the loop of `__free_one_page`: a guard buddy loses
its guard flag and its pages are counted free again; a buddy on a free list
is unlinked, `nr_free` of its order decremented and its order record removed. -/
def merge_buddy (cfg : Config) (s : State) (page buddy order : Nat) : State :=
  if page_is_guard cfg (s.mem_map buddy) then
    mod_free_pages (set_page_private (clear_page_guard_flag cfg s buddy) page 0)
      (1 <<< order : Nat)
  else
    rmv_page_order (nr_free_dec cfg (list_del s buddy) order) buddy

/-- The `while (order < MAX_ORDER-1)` loop of `__free_one_page`, for at most
`n` iterations. The caller passes `MAX_ORDER - 1 - order`, which the loop
cannot exceed since every iteration increments `order`. -/
def free_merge_loop (cfg : Config) : Nat → FreeVars → FreeVars
  | 0, v => v
  | n + 1, v =>
    if v.order < cfg.MAX_ORDER - 1 then
      let buddy_idx := __find_buddy_index v.page_idx v.order
      let buddy := v.page + buddy_idx - v.page_idx
      if !page_is_buddy cfg v.s v.page buddy v.order then
        { v with buddy_idx := buddy_idx, buddy := buddy }
      else
        let combined_idx := buddy_idx &&& v.page_idx
        free_merge_loop cfg n
          { s := merge_buddy cfg v.s v.page buddy v.order,
            page := v.page + combined_idx - v.page_idx,
            page_idx := combined_idx, order := v.order + 1,
            buddy_idx := buddy_idx, buddy := buddy }
    else v

/-- The test that sends the merged block to the tail of its list: the block
is below `MAX_ORDER-2`, its last buddy is a valid frame, and the buddy of
the parent block is free at the next order. -/
def free_tail_test (cfg : Config) (s : State) (v : FreeVars) : Bool :=
  if v.order < cfg.MAX_ORDER - 2 && pfn_valid_within cfg s v.buddy then
    let combined_idx := v.buddy_idx &&& v.page_idx
    let higher_page := v.page + combined_idx - v.page_idx
    let buddy_idx := __find_buddy_index combined_idx (v.order + 1)
    let higher_buddy := higher_page + buddy_idx - combined_idx
    page_is_buddy cfg s higher_page higher_buddy (v.order + 1)
  else false

/-- The part of `__free_one_page` after the compound check. The variables
`buddy` and `buddy_idx` are uninitialised in the source until the loop runs;
they are read only after it ran (then `order < MAX_ORDER-2` can hold only if
the loop left through `break`), so their initial value here is immaterial. -/
def free_one_page_core (cfg : Config) (s : State) (page order migratetype : Nat) :
    State :=
  let page_idx := page &&& ((1 <<< cfg.MAX_ORDER) - 1)
  let v := free_merge_loop cfg (cfg.MAX_ORDER - 1 - order)
    { s := s, page := page, page_idx := page_idx, order := order,
      buddy_idx := 0, buddy := 0 }
  let s1 := set_page_order v.s v.page v.order
  let s2 :=
    if free_tail_test cfg s1 v then list_add_tail s1 v.page v.order migratetype
    else list_add s1 v.page v.order migratetype
  nr_free_inc cfg s2 v.order

/-- `__free_one_page(page, zone, order, migratetype)`. -/
def __free_one_page (cfg : Config) (s : State) (page order migratetype : Nat) :
    State :=
  if PageCompound (s.mem_map page) then
    let r := destroy_compound_page s page order
    if r.2 != 0 then r.1 else free_one_page_core cfg r.1 page order migratetype
  else free_one_page_core cfg s page order migratetype

/-! ## Allocation: `expand` and `__rmqueue_smallest` -/

/-- `expand(zone, page, low, high, area, migratetype)`; the arguments that
change in the loop come last: `high`, the index `area` into `free_area`, and
`size`, which the caller sets to `1 << high`. -/
def expand (cfg : Config) (page low migratetype : Nat) :
    Nat → Nat → Nat → State → State
  | 0, _, _, s => s
  | high + 1, area, size, s =>
    if high + 1 > low then
      let area := area - 1
      let size := size >>> 1
      if cfg.CONFIG_DEBUG_PAGEALLOC && decide (high < debug_guardpage_minorder cfg) then
        let s1 := set_page_guard_flag cfg s (page + size)
        let s2 := set_page_private s1 (page + size) high
        let s3 := mod_free_pages s2 (-((1 <<< high : Nat) : Int))
        expand cfg page low migratetype high area size s3
      else
        let s1 := list_add s (page + size) area migratetype
        let s2 := nr_free_inc cfg s1 area
        let s3 := set_page_order s2 (page + size) high
        expand cfg page low migratetype high area size s3
    else s

/-- The `for` loop of `__rmqueue_smallest`, for at most `n` iterations from
`current_order`; the caller passes `MAX_ORDER - order`. The result is the
returned page (`none` for `NULL`) and the new state. -/
def rmqueue_smallest_loop (cfg : Config) (s : State) (order migratetype : Nat) :
    Nat → Nat → Option Nat × State
  | 0, _ => (none, s)
  | n + 1, current_order =>
    if current_order < cfg.MAX_ORDER then
      match s.free_list current_order migratetype with
      | [] => rmqueue_smallest_loop cfg s order migratetype n (current_order + 1)
      | page :: _ =>
        let s1 := list_del s page
        let s2 := rmv_page_order s1 page
        let s3 := nr_free_dec cfg s2 current_order
        (some page,
          expand cfg page order migratetype current_order current_order
            (1 <<< current_order) s3)
    else (none, s)

/-- `__rmqueue_smallest(zone, order, migratetype)`. -/
def __rmqueue_smallest (cfg : Config) (s : State) (order migratetype : Nat) :
    Option Nat × State :=
  rmqueue_smallest_loop cfg s order migratetype (cfg.MAX_ORDER - order) order

/-! ## Fallback: `__rmqueue_fallback` -/

/-- The table `fallbacks[MIGRATE_TYPES][MIGRATE_TYPES-1]`. The source gives
three entries per row for the rows Unmovable to Reserve; each row has
`MIGRATE_TYPES-1` columns, and C initialises what is not listed to zero. -/
def fallbacks (start_migratetype i : Nat) : Nat :=
  match start_migratetype, i with
  | 0, 0 => MIGRATE_RECLAIMABLE
  | 0, 1 => MIGRATE_MOVABLE
  | 0, 2 => MIGRATE_RESERVE
  | 1, 0 => MIGRATE_UNMOVABLE
  | 1, 1 => MIGRATE_MOVABLE
  | 1, 2 => MIGRATE_RESERVE
  | 2, 0 => MIGRATE_RECLAIMABLE
  | 2, 1 => MIGRATE_UNMOVABLE
  | 2, 2 => MIGRATE_RESERVE
  | 3, 0 => MIGRATE_RESERVE
  | 3, 1 => MIGRATE_RESERVE
  | 3, 2 => MIGRATE_RESERVE
  | _, _ => 0

/-- `set_pageblock_migratetype(page, migratetype)`; the bitmap write of
`set_pageblock_flags_group` is the update of the entry of the page-block. -/
def set_pageblock_migratetype (cfg : Config) (s : State) (page migratetype : Nat) :
    State :=
  let migratetype :=
    if cfg.page_group_by_mobility_disabled && decide (migratetype < MIGRATE_PCPTYPES) then
      MIGRATE_UNMOVABLE
    else migratetype
  { s with pageblock_flags := upd s.pageblock_flags (page >>> cfg.pageblock_order) migratetype }

/-- The loop of `move_freepages`, for at most `n` iterations from `page`;
the second component is `pages_moved`. -/
def move_freepages_loop (cfg : Config) (end_page migratetype : Nat) :
    Nat → Nat → State × Nat → State × Nat
  | 0, _, r => r
  | n + 1, page, (s, pages_moved) =>
    if page ≤ end_page then
      if !pfn_valid_within cfg s page then
        move_freepages_loop cfg end_page migratetype n (page + 1) (s, pages_moved)
      else if !PageBuddy (s.mem_map page) then
        move_freepages_loop cfg end_page migratetype n (page + 1) (s, pages_moved)
      else
        let order := page_order (s.mem_map page)
        move_freepages_loop cfg end_page migratetype n (page + (1 <<< order))
          (list_move s page order migratetype, pages_moved + (1 <<< order))
    else (s, pages_moved)

/-- `move_freepages(zone, start_page, end_page, migratetype)`; `none` is the
`BUG_ON` that guards the two ends lying in one zone. Every iteration advances
`page` by at least one, so `end_page + 1 - start_page` iterations suffice. -/
def move_freepages (cfg : Config) (s : State) (start_page end_page migratetype : Nat) :
    Option (State × Nat) :=
  if !cfg.CONFIG_HOLES_IN_ZONE && page_zone_id s start_page != page_zone_id s end_page then
    none
  else
    some (move_freepages_loop cfg end_page migratetype (end_page + 1 - start_page)
      start_page (s, 0))

/-- `move_freepages_block(zone, page, migratetype)`. The mask
`~(pageblock_nr_pages-1)` is taken in `unsigned long`. -/
def move_freepages_block (cfg : Config) (s : State) (page migratetype : Nat) :
    Option (State × Nat) :=
  let start_pfn := page &&& ((2 ^ cfg.BITS_PER_LONG - 1) ^^^ (pageblock_nr_pages cfg - 1))
  let end_page := start_pfn + pageblock_nr_pages cfg - 1
  let end_pfn := start_pfn + pageblock_nr_pages cfg - 1
  let start_page := if start_pfn < s.zone_start_pfn then page else start_pfn
  if end_pfn ≥ s.zone_start_pfn + s.spanned_pages then some (s, 0)
  else move_freepages cfg s start_page end_page migratetype

/-- The loop of `change_pageblock_range`, for `n` page-blocks. -/
def change_pageblock_loop (cfg : Config) (migratetype : Nat) : Nat → Nat → State → State
  | 0, _, s => s
  | n + 1, pageblock_page, s =>
    change_pageblock_loop cfg migratetype n (pageblock_page + pageblock_nr_pages cfg)
      (set_pageblock_migratetype cfg s pageblock_page migratetype)

/-- `change_pageblock_range(pageblock_page, start_order, migratetype)`. -/
def change_pageblock_range (cfg : Config) (s : State)
    (pageblock_page start_order migratetype : Nat) : State :=
  change_pageblock_loop cfg migratetype (1 <<< (start_order - cfg.pageblock_order))
    pageblock_page s

/-- The inner `for (i = 0; i < MIGRATE_TYPES - 1; i++)` loop of
`__rmqueue_fallback` up to the point where it commits to a list: the first
class of the row that is not Reserve and whose list at `current_order` is
non-empty. -/
def fallback_find (s : State) (start_migratetype current_order : Nat) :
    Nat → Nat → Option Nat
  | 0, _ => none
  | n + 1, i =>
    if i < MIGRATE_TYPES - 1 then
      let migratetype := fallbacks start_migratetype i
      if migratetype == MIGRATE_RESERVE then
        fallback_find s start_migratetype current_order n (i + 1)
      else if (s.free_list current_order migratetype).isEmpty then
        fallback_find s start_migratetype current_order n (i + 1)
      else some migratetype
    else none

/-- The body of `__rmqueue_fallback` once a non-empty list is found: steal,
unlink, re-tag, split. `none` is the `BUG_ON` of `move_freepages`. -/
def fallback_take (cfg : Config) (s : State)
    (order start_migratetype current_order migratetype : Nat) :
    Option (Option Nat × State) :=
  match s.free_list current_order migratetype with
  | [] => some (none, s)
  | page :: _ =>
    let s1 := nr_free_dec cfg s current_order
    let stolen : Option (State × Nat) :=
      if decide (current_order ≥ cfg.pageblock_order >>> 1) ||
          start_migratetype == MIGRATE_RECLAIMABLE ||
          cfg.page_group_by_mobility_disabled then
        match move_freepages_block cfg s1 page start_migratetype with
        | none => none
        | some (s2, pages) =>
          if decide (pages ≥ 1 <<< (cfg.pageblock_order - 1)) ||
              cfg.page_group_by_mobility_disabled then
            some (set_pageblock_migratetype cfg s2 page start_migratetype, start_migratetype)
          else some (s2, start_migratetype)
      else some (s1, migratetype)
    match stolen with
    | none => none
    | some (s3, migratetype) =>
      let s4 := rmv_page_order (list_del s3 page) page
      let s5 :=
        if current_order ≥ cfg.pageblock_order then
          change_pageblock_range cfg s4 page current_order start_migratetype
        else s4
      some (some page,
        expand cfg page order migratetype current_order current_order
          (1 <<< current_order) s5)

/-- The outer loop of `__rmqueue_fallback`; the argument is
`current_order + 1`, counting down from `MAX_ORDER`. -/
def rmqueue_fallback_loop (cfg : Config) (s : State) (order start_migratetype : Nat) :
    Nat → Option (Option Nat × State)
  | 0 => some (none, s)
  | current_order + 1 =>
    if current_order ≥ order then
      match fallback_find s start_migratetype current_order (MIGRATE_TYPES - 1) 0 with
      | some migratetype =>
        fallback_take cfg s order start_migratetype current_order migratetype
      | none => rmqueue_fallback_loop cfg s order start_migratetype current_order
    else some (none, s)

/-- `__rmqueue_fallback(zone, order, start_migratetype)`: `none` for the
`BUG_ON`, else the returned page (`none` for `NULL`) and the new state. The
parameter `order` is an `int` in the source and a natural number here: the
definition is that of the source for orders from 0 up to `2^31 - 1`. -/
def __rmqueue_fallback (cfg : Config) (s : State) (order start_migratetype : Nat) :
    Option (Option Nat × State) :=
  rmqueue_fallback_loop cfg s order start_migratetype cfg.MAX_ORDER

/-! ## `__rmqueue` and the head of the slow path -/

/-- `__rmqueue(zone, order, migratetype)`: `__rmqueue_smallest`, then, unless
the class is Reserve, `__rmqueue_fallback`, then one more `__rmqueue_smallest`
on the Reserve lists (the `goto retry_reserve`, after which the class is
Reserve and the second test fails). `none` is the `BUG_ON` of
`move_freepages`. The source hands its `unsigned int order` to the `int order`
of `__rmqueue_fallback`; the conversion changes nothing below `2^31`, and the
definition is that of the source for those orders only (from `2^31` on the
`int` is negative and the scan of `__rmqueue_fallback` runs over every
order). -/
def __rmqueue (cfg : Config) (s : State) (order migratetype : Nat) :
    Option (Option Nat × State) :=
  match __rmqueue_smallest cfg s order migratetype with
  | (some page, s1) => some (some page, s1)
  | (none, s1) =>
    if migratetype != MIGRATE_RESERVE then
      match __rmqueue_fallback cfg s1 order migratetype with
      | none => none
      | some (some page, s2) => some (some page, s2)
      | some (none, s2) => some (__rmqueue_smallest cfg s2 order MIGRATE_RESERVE)
    else some (none, s1)

/-- What `__alloc_pages_slowpath` does beyond the buddy engine, in the order
it does it; the callees live in other files. -/
inductive SlowStep
  | warn_on_once
  | wake_all_kswapd
  | get_page_from_freelist
  | high_priority
  | direct_compact
  | direct_reclaim
  | may_oom
  | warn_alloc_failed
  deriving DecidableEq, Repr

/-- The steps that reclaim, compact or invoke the OOM killer. -/
def SlowStep.is_heavy : SlowStep → Bool
  | .wake_all_kswapd => true
  | .direct_compact => true
  | .direct_reclaim => true
  | .may_oom => true
  | _ => false

/-- The flag `__GFP_NOWARN` as a bit of `gfp_mask` (`gfp.h` is not among the
sources, so the bit is a parameter). -/
def gfp_has (gfp_mask bit : Nat) : Bool := gfp_mask &&& bit != 0

/-- The head of `__alloc_pages_slowpath(gfp_mask, order, ..)`: the sanity
check `order >= MAX_ORDER` that warns once (unless `__GFP_NOWARN`) and returns
`NULL`. Everything after the check (waking `kswapd`, the allocation
attempts, compaction, reclaim, OOM) is the argument `rest`: the page it ends
with and the steps it takes. -/
def __alloc_pages_slowpath (cfg : Config) (gfp_mask __GFP_NOWARN order : Nat)
    (rest : Option Nat × List SlowStep) : Option Nat × List SlowStep :=
  if order ≥ cfg.MAX_ORDER then
    (none, if !gfp_has gfp_mask __GFP_NOWARN then [SlowStep.warn_on_once] else [])
  else rest

/-! ## The free path above the buddy engine -/

/-- `page_mapcount(page)` is `_mapcount + 1`. -/
def page_mapcount (p : Page) : Int := p.mapcount + 1

/-- `PageAnon(page)`: bit `PAGE_MAPPING_ANON` of `page->mapping`. -/
def PageAnon (p : Page) : Bool := p.mapping &&& 1 != 0

/-- `free_pages_check(page)`: the new state and the returned value. -/
def free_pages_check (s : State) (page : Nat) : State × Nat :=
  if page_mapcount (s.mem_map page) != 0 || (s.mem_map page).mapping != 0 ||
      (s.mem_map page).count != 0 || (s.mem_map page).check_at_free ||
      (s.mem_map page).memcg_bad then
    (bad_page s page, 1)
  else if (s.mem_map page).check_at_prep then
    ({ s with
        mem_map :=
          upd s.mem_map page { s.mem_map page with check_at_prep := false } }, 0)
  else (s, 0)

/-- The loop `for (i = 0; i < (1 << order); i++) bad += free_pages_check(page + i)`
of `free_pages_prepare`, for `n` further iterations from index `i`. -/
def free_pages_check_loop (page : Nat) : Nat → Nat → State × Nat → State × Nat
  | 0, _, r => r
  | n + 1, i, (s, bad) =>
    free_pages_check_loop page n (i + 1)
      ((free_pages_check s (page + i)).1, bad + (free_pages_check s (page + i)).2)

/-- `free_pages_prepare(page, order)`: the new state and the returned
truth value. Tracing, kmemcheck, lock and object debugging and the kernel
mapping are outside the model. -/
def free_pages_prepare (s : State) (page order : Nat) : State × Bool :=
  let s0 :=
    if PageAnon (s.mem_map page) then
      { s with mem_map := upd s.mem_map page { s.mem_map page with mapping := 0 } }
    else s
  let r := free_pages_check_loop page (1 <<< order) 0 (s0, 0)
  if r.2 != 0 then (r.1, false) else (r.1, true)

/-- `get_pageblock_migratetype(page)`. -/
def get_pageblock_migratetype (cfg : Config) (s : State) (page : Nat) : Nat :=
  s.pageblock_flags (page >>> cfg.pageblock_order)

/-- `free_one_page(zone, page, order, migratetype)`, the zone lock being
held; `all_unreclaimable` and `pages_scanned` are outside the model. The
source adds the `int` `1 << order` to `NR_FREE_PAGES`: the definition is that
of the source for orders below 31, where the shift is `2^order`. -/
def free_one_page (cfg : Config) (s : State) (page order migratetype : Nat) : State :=
  mod_free_pages (__free_one_page cfg s page order migratetype) ((1 <<< order : Nat) : Int)

/-- `__free_pages_ok(page, order)`; the mlock and event counters are outside
the model. -/
def __free_pages_ok (cfg : Config) (s : State) (page order : Nat) : State :=
  let s0 : State :=
    { s with mem_map := upd s.mem_map page { s.mem_map page with PG_mlocked := false } }
  let r := free_pages_prepare s0 page order
  if !r.2 then r.1
  else free_one_page cfg r.1 page order (get_pageblock_migratetype cfg r.1 page)

/-! ## Watermarks: `__zone_watermark_ok` -/

/-- `ALLOC_HARDER`. -/
def ALLOC_HARDER : Nat := 0x10
/-- `ALLOC_HIGH`. -/
def ALLOC_HIGH : Nat := 0x20

/-- A value brought into the range of `long` (two's complement on
`BITS_PER_LONG` bits). -/
def wrap_long (cfg : Config) (x : Int) : Int :=
  (x + 2 ^ (cfg.BITS_PER_LONG - 1)) % 2 ^ cfg.BITS_PER_LONG - 2 ^ (cfg.BITS_PER_LONG - 1)

/-- A value brought into the range of `int` (two's complement on 32 bits). -/
def wrap_int (x : Int) : Int := (x + 2 ^ 31) % 2 ^ 32 - 2 ^ 31

/-- Conversion to `unsigned long`. -/
def to_ulong (cfg : Config) (x : Int) : Nat := (x % 2 ^ cfg.BITS_PER_LONG).toNat

/-- Modelled from the spec: `zone_page_state(z, NR_FREE_PAGES)` is the value
of the zone's free-page counter, an `unsigned long` (`vmstat.h` is not among
the sources). -/
def zone_page_state (cfg : Config) (z : State) : Nat := to_ulong cfg z.NR_FREE_PAGES

/-- The value of `min` in `__zone_watermark_ok` when the first test is made:
`long min = mark`, less a half under `ALLOC_HIGH`, then less a quarter of
what is left under `ALLOC_HARDER`. Division is that of C, towards zero. -/
def watermark_min (cfg : Config) (mark alloc_flags : Nat) : Int :=
  let min := wrap_long cfg mark
  let min :=
    if alloc_flags &&& ALLOC_HIGH != 0 then wrap_long cfg (min - Int.tdiv min 2) else min
  let min :=
    if alloc_flags &&& ALLOC_HARDER != 0 then wrap_long cfg (min - Int.tdiv min 4) else min
  min

/-- The loop `for (o = 0; o < order; o++)` of `__zone_watermark_ok`, with
`n = order - o` iterations left. The product `nr_free << o` is taken in
`unsigned long`, the shift of `min` is arithmetic, the comparison is signed. -/
def watermark_loop (cfg : Config) (z : State) : Nat → Nat → Int → Int → Bool
  | 0, _, _, _ => true
  | n + 1, o, free_pages, min =>
    let free_pages :=
      wrap_long cfg (free_pages - ((z.nr_free o <<< o) % 2 ^ cfg.BITS_PER_LONG : Nat))
    let min := min >>> (1 : Nat)
    if free_pages ≤ min then false
    else watermark_loop cfg z n (o + 1) free_pages min

/-- `__zone_watermark_ok(z, order, mark, classzone_idx, alloc_flags,
free_pages)`. `1 << order` is an `int`; the sum `min + lowmem_reserve[...]`
and the first comparison are taken in `unsigned long`, as C does for a `long`
and an `unsigned long`. -/
def __zone_watermark_ok (cfg : Config) (z : State)
    (order mark classzone_idx alloc_flags : Nat) (free_pages : Int) : Bool :=
  let min := watermark_min cfg mark alloc_flags
  let free_pages := wrap_long cfg (free_pages - wrap_int (wrap_int (2 ^ order) - 1))
  if to_ulong cfg free_pages ≤
      (to_ulong cfg min + z.lowmem_reserve classzone_idx) % 2 ^ cfg.BITS_PER_LONG then
    false
  else watermark_loop cfg z order 0 free_pages min

/-- `zone_watermark_ok(z, order, mark, classzone_idx, alloc_flags)`. -/
def zone_watermark_ok (cfg : Config) (z : State)
    (order mark classzone_idx alloc_flags : Nat) : Bool :=
  __zone_watermark_ok cfg z order mark classzone_idx alloc_flags
    (wrap_long cfg (zone_page_state cfg z))

/-! ## Request flags: `should_alloc_retry` and `gfp_to_alloc_flags` -/

/-- Modelled from the spec: the request-flag masks of `gfp.h`, which is not
among the sources; each is a parameter. `GFP_IOFS` is the mask of the two
I/O flags that suspend takes away from `gfp_allowed_mask`. -/
structure GfpMasks where
  __GFP_WAIT : Nat
  __GFP_COLD : Nat
  __GFP_REPEAT : Nat
  __GFP_NOFAIL : Nat
  __GFP_NORETRY : Nat
  __GFP_COMP : Nat
  __GFP_ZERO : Nat
  __GFP_NOMEMALLOC : Nat
  __GFP_NO_KSWAPD : Nat
  GFP_IOFS : Nat

/-- `__GFP_HIGH`: the `BUILD_BUG_ON` of `gfp_to_alloc_flags` makes it the
same bit as `ALLOC_HIGH`. -/
def __GFP_HIGH : Nat := 0x20

/-- Modelled from the spec: the watermarks are indexed min, low, high
(`enum zone_watermarks` of `mmzone.h`): `WMARK_MIN`. -/
def WMARK_MIN : Nat := 0
/-- `ALLOC_WMARK_MIN`. -/
def ALLOC_WMARK_MIN : Nat := WMARK_MIN
/-- `ALLOC_NO_WATERMARKS`. -/
def ALLOC_NO_WATERMARKS : Nat := 0x04
/-- `ALLOC_WMARK_MASK`. -/
def ALLOC_WMARK_MASK : Nat := ALLOC_NO_WATERMARKS - 1
/-- `ALLOC_CPUSET`. -/
def ALLOC_CPUSET : Nat := 0x40

/-- What `gfp_to_alloc_flags` reads of the calling context:
`rt_task(current)`, `in_interrupt()`, `current->flags & PF_MEMALLOC` and
`test_thread_flag(TIF_MEMDIE)`. -/
structure TaskContext where
  rt_task : Bool
  in_interrupt : Bool
  pf_memalloc : Bool
  tif_memdie : Bool

/-- `pm_suspended_storage()`, reading the global `gfp_allowed_mask`; without
`CONFIG_PM_SLEEP` it is constant false. -/
def pm_suspended_storage (cfg : Config) (g : GfpMasks) (gfp_allowed_mask : Nat) : Bool :=
  if cfg.CONFIG_PM_SLEEP then
    if gfp_allowed_mask &&& g.GFP_IOFS == g.GFP_IOFS then false else true
  else false

/-- `should_alloc_retry(gfp_mask, order, did_some_progress, pages_reclaimed)`.
`1 << order` is an `int`, compared with the `unsigned long`
`pages_reclaimed`. -/
def should_alloc_retry (cfg : Config) (g : GfpMasks) (gfp_allowed_mask : Nat)
    (gfp_mask order did_some_progress pages_reclaimed : Nat) : Int :=
  if gfp_mask &&& g.__GFP_NORETRY != 0 then 0
  else if gfp_mask &&& g.__GFP_NOFAIL != 0 then 1
  else if did_some_progress == 0 && pm_suspended_storage cfg g gfp_allowed_mask then 0
  else if order ≤ cfg.PAGE_ALLOC_COSTLY_ORDER then 1
  else if gfp_mask &&& g.__GFP_REPEAT != 0 &&
      decide (pages_reclaimed < to_ulong cfg (wrap_int (2 ^ order))) then 1
  else 0

/-- `gfp_to_alloc_flags(gfp_mask)`. The complement `~ALLOC_CPUSET` is taken
on the 32 bits of an `int`. -/
def gfp_to_alloc_flags (g : GfpMasks) (t : TaskContext) (gfp_mask : Nat) : Nat :=
  let alloc_flags := ALLOC_WMARK_MIN ||| ALLOC_CPUSET
  let atomic := gfp_mask &&& (g.__GFP_WAIT ||| g.__GFP_NO_KSWAPD) == 0
  let alloc_flags := alloc_flags ||| (gfp_mask &&& __GFP_HIGH)
  let alloc_flags :=
    if atomic then
      let alloc_flags :=
        if gfp_mask &&& g.__GFP_NOMEMALLOC == 0 then alloc_flags ||| ALLOC_HARDER
        else alloc_flags
      alloc_flags &&& ((2 ^ 32 - 1) ^^^ ALLOC_CPUSET)
    else if t.rt_task && !t.in_interrupt then alloc_flags ||| ALLOC_HARDER
    else alloc_flags
  let alloc_flags :=
    if gfp_mask &&& g.__GFP_NOMEMALLOC == 0 then
      if !t.in_interrupt && (t.pf_memalloc || t.tif_memdie) then
        alloc_flags ||| ALLOC_NO_WATERMARKS
      else alloc_flags
    else alloc_flags
  alloc_flags

/-! ## Per-CPU pagesets: sizing -/

/-- Modelled from the spec: `struct per_cpu_pages` of `mmzone.h`, which is
not among the sources: the `int` fields `count`, `high` and `batch`, and one
list of pages per per-CPU class, `lists[MIGRATE_PCPTYPES]`, each given from
its head to its tail. -/
structure per_cpu_pages where
  count : Int := 0
  high : Int := 0
  batch : Int := 0
  lists : Nat → List Nat := fun _ => []

/-- The position of the highest set bit among the low `b` bits of `n`,
counted from 1; zero if none is set. -/
def fls_bits (n : Nat) : Nat → Nat
  | 0 => 0
  | b + 1 => if n.testBit b then b + 1 else fls_bits n b

/-- Modelled from the spec: `rounddown_pow_of_two(n)` of `log2.h`, which is
not among the sources: the largest power of two not above the
`unsigned long` `n`, computed as `1UL << (fls_long(n) - 1)`. -/
def rounddown_pow_of_two (cfg : Config) (n : Nat) : Nat :=
  (1 <<< (fls_bits n cfg.BITS_PER_LONG - 1)) % 2 ^ cfg.BITS_PER_LONG

/-- `PAGE_SIZE`, the `unsigned long` `1UL << PAGE_SHIFT`. -/
def PAGE_SIZE (cfg : Config) : Nat := (1 <<< cfg.PAGE_SHIFT) % 2 ^ cfg.BITS_PER_LONG

/-- `zone_batchsize(zone)`. `batch` is an `int`; the product
`batch * PAGE_SIZE` and the quotient `(512 * 1024) / PAGE_SIZE` are taken in
`unsigned long`. Without `CONFIG_MMU` the function returns 0. -/
def zone_batchsize (cfg : Config) (zone : State) : Int :=
  if cfg.CONFIG_MMU then
    let batch := wrap_int ((zone.present_pages / 1024 : Nat) : Int)
    let batch :=
      if (to_ulong cfg batch * PAGE_SIZE cfg) % 2 ^ cfg.BITS_PER_LONG > 512 * 1024 then
        wrap_int (((512 * 1024) / PAGE_SIZE cfg : Nat) : Int)
      else batch
    let batch := Int.tdiv batch 4
    let batch := if batch < 1 then 1 else batch
    let batch :=
      wrap_int
        (((rounddown_pow_of_two cfg (to_ulong cfg (wrap_int (batch + Int.tdiv batch 2))) +
          2 ^ cfg.BITS_PER_LONG - 1) % 2 ^ cfg.BITS_PER_LONG : Nat) : Int)
    batch
  else 0

/-- `setup_pageset(p, batch)`: the pageset it leaves in `p->pcp`. The
products are taken in `unsigned long` and stored in `int` fields; the rest
of the pageset, zeroed by `memset`, is outside the model. -/
def setup_pageset (cfg : Config) (batch : Nat) : per_cpu_pages :=
  { count := 0
    high := wrap_int (((6 * batch) % 2 ^ cfg.BITS_PER_LONG : Nat) : Int)
    batch := wrap_int ((max 1 ((1 * batch) % 2 ^ cfg.BITS_PER_LONG) : Nat) : Int)
    lists := fun _ => [] }

/-- `setup_pagelist_highmark(p, high)`. -/
def setup_pagelist_highmark (cfg : Config) (p : per_cpu_pages) (high : Nat) :
    per_cpu_pages :=
  let p1 := { p with high := wrap_int (high : Int),
                     batch := wrap_int ((max 1 (high / 4) : Nat) : Int) }
  if high / 4 > cfg.PAGE_SHIFT * 8 then { p1 with batch := ((cfg.PAGE_SHIFT * 8 : Nat) : Int) }
  else p1

/-- The body of the loop of `setup_zone_pageset(zone)`: the pageset it sets
up for each possible CPU; `percpu_pagelist_fraction` is the global of that
name. -/
def setup_zone_pageset (cfg : Config) (zone : State) (percpu_pagelist_fraction : Nat) :
    per_cpu_pages :=
  let pcp := setup_pageset cfg (to_ulong cfg (zone_batchsize cfg zone))
  if percpu_pagelist_fraction != 0 then
    setup_pagelist_highmark cfg pcp (zone.present_pages / percpu_pagelist_fraction)
  else pcp

/-! ## Per-CPU pagesets: refill, allocation, free and drain -/

/-- `check_new_page(page)`: the new state and the returned value. -/
def check_new_page (s : State) (page : Nat) : State × Nat :=
  if page_mapcount (s.mem_map page) != 0 || (s.mem_map page).mapping != 0 ||
      (s.mem_map page).count != 0 || (s.mem_map page).check_at_prep ||
      (s.mem_map page).memcg_bad then
    (bad_page s page, 1)
  else (s, 0)

/-- The loop `for (i = 0; i < (1 << order); i++)` of `prep_new_page`, for `n`
further iterations from index `i`; the second component says that a check
failed and the function returns 1. -/
def check_new_page_loop (page : Nat) : Nat → Nat → State → State × Bool
  | 0, _, s => (s, false)
  | n + 1, i, s =>
    if (check_new_page s (page + i)).2 != 0 then ((check_new_page s (page + i)).1, true)
    else check_new_page_loop page n (i + 1) (check_new_page s (page + i)).1

/-- `set_page_refcounted(page)`: the reference count becomes 1. -/
def set_page_refcounted (s : State) (page : Nat) : State :=
  { s with mem_map := upd s.mem_map page { s.mem_map page with count := 1 } }

/-- The loop `for (i = 1; i < nr_pages; i++)` of `prep_compound_page`, for `n`
further iterations from index `i`. -/
def prep_compound_loop (page : Nat) : Nat → Nat → State → State
  | 0, _, s => s
  | n + 1, i, s =>
    prep_compound_loop page n (i + 1)
      { s with
        mem_map :=
          upd s.mem_map (page + i)
            { s.mem_map (page + i) with PG_tail := true, count := 0, first_page := page } }

/-- `prep_compound_page(page, order)`; the destructor slot is outside the
model. -/
def prep_compound_page (s : State) (page order : Nat) : State :=
  let s1 : State :=
    { s with
      mem_map := upd s.mem_map (page + 1) { s.mem_map (page + 1) with lru_prev := order } }
  let s2 : State :=
    { s1 with mem_map := upd s1.mem_map page { s1.mem_map page with PG_head := true } }
  prep_compound_loop page ((1 <<< order) - 1) 1 s2

/-- `prep_new_page(page, order, gfp_flags)`: the new state and the returned
value. The kernel mapping and the zeroing of the page contents are outside
the model. -/
def prep_new_page (g : GfpMasks) (s : State) (page order gfp_flags : Nat) : State × Nat :=
  let r := check_new_page_loop page (1 <<< order) 0 s
  if r.2 then (r.1, 1)
  else
    let s1 := set_page_refcounted (set_page_private r.1 page 0) page
    if order != 0 && gfp_flags &&& g.__GFP_COMP != 0 then
      (prep_compound_page s1 page order, 0)
    else (s1, 0)

/-- The list `l` with `x` put at position `i`. -/
def list_insert (l : List Nat) (i x : Nat) : List Nat := l.take i ++ x :: l.drop i

/-- The loop of `rmqueue_bulk`, for `n` further iterations; `i` counts the
pages placed and `l` is the list being filled, which had `len0` entries at
the call. The pointer `list` starts at the list head and then follows the
page just added: with `cold == 0` each page goes right after it (position
`i`), otherwise right before it (position `len0`). `none` is the `BUG_ON` of
`move_freepages`. -/
def rmqueue_bulk_loop (cfg : Config) (order migratetype cold len0 : Nat) :
    Nat → Nat → State → List Nat → Option (Nat × State × List Nat)
  | 0, i, z, l => some (i, z, l)
  | n + 1, i, z, l =>
    match __rmqueue cfg z order migratetype with
    | none => none
    | some (none, z1) => some (i, z1, l)
    | some (some page, z1) =>
      rmqueue_bulk_loop cfg order migratetype cold len0 n (i + 1)
        (set_page_private z1 page migratetype)
        (if cold == 0 then list_insert l i page else list_insert l len0 page)

/-- `rmqueue_bulk(zone, order, count, list, migratetype, cold)`: the number
of pages placed, the new zone state and the new list. -/
def rmqueue_bulk (cfg : Config) (z : State) (order count : Nat) (l : List Nat)
    (migratetype cold : Nat) : Option (Nat × State × List Nat) :=
  match rmqueue_bulk_loop cfg order migratetype cold l.length count 0 z l with
  | none => none
  | some (i, z1, l1) => some (i, mod_free_pages z1 (-((i <<< order : Nat) : Int)), l1)

/-- How one pass through the body of `buffered_rmqueue` ends: with a page,
at the label `failed`, or at `goto again`. -/
inductive PassOutcome
  | got (page : Nat)
  | failed
  | again
  deriving DecidableEq, Repr

/-- One pass through the body of `buffered_rmqueue(preferred_zone, zone,
order, gfp_flags, migratetype)`, from the label `again` on, with the pageset
of the current CPU. Statistics and the debug-only `VM_BUG_ON` are outside the
model; `none` is the `BUG_ON` of `move_freepages`. -/
def buffered_rmqueue_pass (cfg : Config) (g : GfpMasks) (z : State) (pcp : per_cpu_pages)
    (order gfp_flags migratetype : Nat) : Option (PassOutcome × State × per_cpu_pages) :=
  let cold : Nat := if gfp_flags &&& g.__GFP_COLD != 0 then 1 else 0
  let taken : Option (Option Nat × State × per_cpu_pages) :=
    if order == 0 then
      let filled : Option (State × per_cpu_pages) :=
        if (pcp.lists migratetype).isEmpty then
          match rmqueue_bulk cfg z 0 (to_ulong cfg pcp.batch) (pcp.lists migratetype)
              migratetype cold with
          | none => none
          | some (i, z1, l1) =>
            some (z1, { pcp with count := pcp.count + i, lists := upd pcp.lists migratetype l1 })
        else some (z, pcp)
      match filled with
      | none => none
      | some (z1, pcp1) =>
        if cold != 0 then
          match (pcp1.lists migratetype).getLast? with
          | none => some (none, z1, pcp1)
          | some page =>
            some (some page, z1,
              { pcp1 with count := pcp1.count - 1,
                          lists := upd pcp1.lists migratetype
                            (pcp1.lists migratetype).dropLast })
        else
          match pcp1.lists migratetype with
          | [] => some (none, z1, pcp1)
          | page :: rest =>
            some (some page, z1,
              { pcp1 with count := pcp1.count - 1,
                          lists := upd pcp1.lists migratetype rest })
    else
      match __rmqueue cfg z order migratetype with
      | none => none
      | some (none, z1) => some (none, z1, pcp)
      | some (some page, z1) =>
        some (some page, mod_free_pages z1 (-((1 <<< order : Nat) : Int)), pcp)
  match taken with
  | none => none
  | some (none, z1, pcp1) => some (PassOutcome.failed, z1, pcp1)
  | some (some page, z1, pcp1) =>
    if (prep_new_page g z1 page order gfp_flags).2 != 0 then
      some (PassOutcome.again, (prep_new_page g z1 page order gfp_flags).1, pcp1)
    else some (PassOutcome.got page, (prep_new_page g z1 page order gfp_flags).1, pcp1)

/-- `buffered_rmqueue`, allowed `n` passes through its body: the page
returned (`none` for `NULL`), the zone and the pageset. The outer `none` is
the `BUG_ON` of `move_freepages`, or a page that fails `prep_new_page` in
each of the `n` passes. -/
def buffered_rmqueue (cfg : Config) (g : GfpMasks) :
    Nat → State → per_cpu_pages → Nat → Nat → Nat →
      Option (Option Nat × State × per_cpu_pages)
  | 0, _, _, _, _, _ => none
  | n + 1, z, pcp, order, gfp_flags, migratetype =>
    match buffered_rmqueue_pass cfg g z pcp order gfp_flags migratetype with
    | none => none
    | some (PassOutcome.got page, z1, pcp1) => some (some page, z1, pcp1)
    | some (PassOutcome.failed, z1, pcp1) => some (none, z1, pcp1)
    | some (PassOutcome.again, z1, pcp1) =>
      buffered_rmqueue cfg g n z1 pcp1 order gfp_flags migratetype

/-- The number of pages on the lists of a pageset. -/
def pcp_pages (pcp : per_cpu_pages) : Nat :=
  ((List.range MIGRATE_PCPTYPES).map (fun m => (pcp.lists m).length)).sum

/-- The variables of `free_pcppages_bulk` at the head of its `while` loop. -/
structure DrainVars where
  z : State
  pcp : per_cpu_pages
  migratetype : Nat
  batch_free : Int
  to_free : Int

/-- The first `do ... while (list_empty(list))` loop of `free_pcppages_bulk`,
for at most `n` rounds: the list index and `batch_free` it ends with. The
caller allows `MIGRATE_PCPTYPES` rounds; when they are used up every list is
empty and the loop of the source does not end: `none`. -/
def pcp_next_list (pcp : per_cpu_pages) : Nat → Nat → Int → Option (Nat × Int)
  | 0, _, _ => none
  | n + 1, migratetype, batch_free =>
    if (pcp.lists (if migratetype + 1 = MIGRATE_PCPTYPES then 0 else migratetype + 1)).isEmpty
    then
      pcp_next_list pcp n (if migratetype + 1 = MIGRATE_PCPTYPES then 0 else migratetype + 1)
        (batch_free + 1)
    else some (if migratetype + 1 = MIGRATE_PCPTYPES then 0 else migratetype + 1, batch_free + 1)

/-- The second `do ... while` loop of `free_pcppages_bulk`, on the list of
index `v.migratetype`, for at most `n` rounds (the caller passes the length
of the list): the page at the tail of the list is unlinked and given to
`__free_one_page` at order 0 with the class kept in its `private` field. -/
def pcp_drain_list (cfg : Config) : Nat → DrainVars → DrainVars
  | 0, v => v
  | n + 1, v =>
    match (v.pcp.lists v.migratetype).getLast? with
    | none => v
    | some page =>
      let pcp1 : per_cpu_pages :=
        { v.pcp with lists := upd v.pcp.lists v.migratetype
                      (v.pcp.lists v.migratetype).dropLast }
      let z1 := __free_one_page cfg v.z page 0 (v.z.mem_map page).private_
      if v.to_free - 1 = 0 then
        { v with z := z1, pcp := pcp1, to_free := v.to_free - 1 }
      else if v.batch_free - 1 = 0 then
        { v with z := z1, pcp := pcp1, to_free := v.to_free - 1,
                 batch_free := v.batch_free - 1 }
      else if (pcp1.lists v.migratetype).isEmpty then
        { v with z := z1, pcp := pcp1, to_free := v.to_free - 1,
                 batch_free := v.batch_free - 1 }
      else
        pcp_drain_list cfg n
          { v with z := z1, pcp := pcp1, to_free := v.to_free - 1,
                   batch_free := v.batch_free - 1 }

/-- One pass through the body of the `while (to_free)` loop of
`free_pcppages_bulk`. -/
def free_pcppages_pass (cfg : Config) (v : DrainVars) : Option DrainVars :=
  match pcp_next_list v.pcp MIGRATE_PCPTYPES v.migratetype v.batch_free with
  | none => none
  | some (migratetype, batch_free) =>
    some (pcp_drain_list cfg (v.pcp.lists migratetype).length
      { v with migratetype := migratetype,
               batch_free := if batch_free = MIGRATE_PCPTYPES then v.to_free else batch_free })

/-- The `while (to_free)` loop of `free_pcppages_bulk`, for at most `n`
passes. -/
def free_pcppages_loop (cfg : Config) : Nat → DrainVars → Option DrainVars
  | 0, _ => none
  | n + 1, v =>
    if v.to_free = 0 then some v
    else
      match free_pcppages_pass cfg v with
      | none => none
      | some v1 => free_pcppages_loop cfg n v1

/-- `free_pcppages_bulk(zone, count, pcp)`, the zone lock being held:
`none` when the loop of the source does not end (every list is empty and
pages remain to be freed). Each pass frees at least one page, so one pass
more than there are pages on the lists is allowed. -/
def free_pcppages_bulk (cfg : Config) (z : State) (count : Int) (pcp : per_cpu_pages) :
    Option (State × per_cpu_pages) :=
  match free_pcppages_loop cfg (pcp_pages pcp + 1)
      { z := z, pcp := pcp, migratetype := 0, batch_free := 0, to_free := count } with
  | none => none
  | some v => some (mod_free_pages v.z count, v.pcp)

/-- `free_hot_cold_page(page, cold)` with the zone of the page and the
pageset of the current CPU; the mlock and event counters are outside the
model. `none` when `free_pcppages_bulk` does not return. -/
def free_hot_cold_page (cfg : Config) (z : State) (pcp : per_cpu_pages) (page cold : Nat) :
    Option (State × per_cpu_pages) :=
  let z0 : State :=
    { z with mem_map := upd z.mem_map page { z.mem_map page with PG_mlocked := false } }
  let r := free_pages_prepare z0 page 0
  if !r.2 then some (r.1, pcp)
  else
    let migratetype := get_pageblock_migratetype cfg r.1 page
    let z1 := set_page_private r.1 page migratetype
    if migratetype ≥ MIGRATE_PCPTYPES && migratetype == MIGRATE_ISOLATE then
      some (free_one_page cfg z1 page 0 migratetype, pcp)
    else
      let migratetype := if migratetype ≥ MIGRATE_PCPTYPES then MIGRATE_MOVABLE else migratetype
      let pcp1 : per_cpu_pages :=
        { pcp with
          lists := upd pcp.lists migratetype
            (if cold != 0 then pcp.lists migratetype ++ [page]
              else page :: pcp.lists migratetype)
          count := pcp.count + 1 }
      if pcp1.count ≥ pcp1.high then
        match free_pcppages_bulk cfg z1 pcp1.batch pcp1 with
        | none => none
        | some (z2, pcp2) => some (z2, { pcp2 with count := pcp2.count - pcp1.batch })
      else some (z1, pcp1)

/-- All zones of the machine with the pagesets of each CPU: `zones i` for
`i < nr_zones` in the order of `for_each_populated_zone`, `pageset i cpu` the
pageset of zone `i` on CPU `cpu`, and `nr_cpus` online CPUs. -/
structure Machine where
  nr_zones : Nat
  nr_cpus : Nat
  zones : Nat → State
  pageset : Nat → Nat → per_cpu_pages

/-- The body of the loop of `drain_pages(cpu)` for zone `i`; zones that are
not populated are skipped by `for_each_populated_zone`. -/
def drain_zone (cfg : Config) (sys : Machine) (cpu i : Nat) : Option Machine :=
  if (sys.zones i).present_pages != 0 && (sys.pageset i cpu).count != 0 then
    match free_pcppages_bulk cfg (sys.zones i) (sys.pageset i cpu).count
        (sys.pageset i cpu) with
    | none => none
    | some (z1, pcp1) =>
      some { sys with
              zones := upd sys.zones i z1
              pageset := upd sys.pageset i (upd (sys.pageset i) cpu { pcp1 with count := 0 }) }
  else some sys

/-- The loop of `drain_pages(cpu)` over the zones from index `i`, `n` of
them. -/
def drain_pages_loop (cfg : Config) (cpu : Nat) : Nat → Nat → Machine → Option Machine
  | 0, _, sys => some sys
  | n + 1, i, sys =>
    match drain_zone cfg sys cpu i with
    | none => none
    | some sys1 => drain_pages_loop cfg cpu n (i + 1) sys1

/-- `drain_pages(cpu)`. -/
def drain_pages (cfg : Config) (sys : Machine) (cpu : Nat) : Option Machine :=
  drain_pages_loop cfg cpu sys.nr_zones 0 sys

/-- The test of `drain_all_pages` for one CPU: some populated zone has pages
counted in the pageset of that CPU. -/
def has_pcps (sys : Machine) (cpu : Nat) : Bool :=
  (List.range sys.nr_zones).any (fun i =>
    (sys.zones i).present_pages != 0 && (sys.pageset i cpu).count != 0)

/-- `on_each_cpu_mask(&cpus_with_pcps, drain_local_pages, NULL, 1)`: the
CPUs of the mask drain their pagesets, here one after the other. -/
def drain_cpus (cfg : Config) : List Nat → Machine → Option Machine
  | [], sys => some sys
  | cpu :: rest, sys =>
    match drain_pages cfg sys cpu with
    | none => none
    | some sys1 => drain_cpus cfg rest sys1

/-- `drain_all_pages()`: the mask of the online CPUs that hold pages is
computed first, then those CPUs drain. -/
def drain_all_pages (cfg : Config) (sys : Machine) : Option Machine :=
  drain_cpus cfg ((List.range sys.nr_cpus).filter (fun cpu => has_pcps sys cpu)) sys

/-! ## `split_page` and `split_free_page` -/

/-- The loop `for (i = 1; i < (1 << order); i++) set_page_refcounted(page + i)`
of `split_page`, for `n` further iterations from index `i`. -/
def split_page_loop (page : Nat) : Nat → Nat → State → State
  | 0, _, s => s
  | n + 1, i, s => split_page_loop page n (i + 1) (set_page_refcounted s (page + i))

/-- `split_page(page, order)`; the debug-only `VM_BUG_ON`s and kmemcheck are
outside the model. -/
def split_page (s : State) (page order : Nat) : State :=
  split_page_loop page ((1 <<< order) - 1) 1 s

/-- The loop `for (; page < endpage; page += pageblock_nr_pages)` of
`split_free_page`, for at most `n` iterations. -/
def split_retag_loop (cfg : Config) (endpage : Nat) : Nat → Nat → State → State
  | 0, _, s => s
  | n + 1, page, s =>
    if page < endpage then
      split_retag_loop cfg endpage n (page + pageblock_nr_pages cfg)
        (set_pageblock_migratetype cfg s page MIGRATE_MOVABLE)
    else s

/-- `split_free_page(page)` for a page of the zone: the value returned and
the new state, `none` for the `BUG_ON`. Modelled from the spec:
`low_wmark_pages(zone)` is the low watermark of the zone, a macro of
`mmzone.h`, which is not among the sources; it is the parameter `low_wmark`.
The sum `low_wmark_pages(zone) + (1 << order)` is taken in `unsigned long`
and the test `order >= pageblock_order - 1` in `unsigned int`; the loop over
the page-blocks advances by at least one frame, so `1 << order` iterations
suffice. -/
def split_free_page (cfg : Config) (s : State) (low_wmark page : Nat) :
    Option (Nat × State) :=
  if !PageBuddy (s.mem_map page) then none
  else
    let order := page_order (s.mem_map page)
    let watermark := to_ulong cfg ((low_wmark : Int) + wrap_int (2 ^ order))
    if !zone_watermark_ok cfg s 0 watermark 0 0 then some (0, s)
    else
      let s1 := list_del s page
      let s2 := nr_free_dec cfg s1 order
      let s3 := rmv_page_order s2 page
      let s4 := mod_free_pages s3 (-((1 <<< order : Nat) : Int))
      let s5 := set_page_refcounted s4 page
      let s6 := split_page s5 page order
      let s7 :=
        if order % 2 ^ 32 ≥ (cfg.pageblock_order + 2 ^ 32 - 1) % 2 ^ 32 then
          split_retag_loop cfg (page + (1 <<< order) - 1) (1 <<< order) page s6
        else s6
      some (1 <<< order, s7)

/-- `zone_init_free_lists(zone)`: every list is made empty and every count
zero. Modelled from the spec: `for_each_migratetype_order` (of `mmzone.h`,
not among the sources) runs over the orders below `MAX_ORDER` and the
`MIGRATE_TYPES` classes. -/
def zone_init_free_lists (cfg : Config) (s : State) : State :=
  { s with
    free_list := fun k m => if k < cfg.MAX_ORDER ∧ m < MIGRATE_TYPES then [] else s.free_list k m
    nr_free := fun k => if k < cfg.MAX_ORDER then 0 else s.nr_free k }

/-! ## Zone lists: `build_zonelists_node` and the node order -/

/-- A `struct zoneref`. The pointer `zone` is `none` for `NULL`, else the
node of the zone and its index in `node_zones` of that node. -/
structure zoneref where
  zone : Option (Nat × Nat) := none
  zone_idx : Nat := 0

/-- A `pg_data_t`, restricted to the node identifier and, for each entry of
`node_zones`, its `present_pages`. -/
structure pg_data_t where
  node_id : Nat
  present_pages : Nat → Nat

/-- Modelled from the spec: `populated_zone(zone)` says that the zone has
pages present (`mmzone.h` is not among the sources). -/
def populated_zone (pgdat : pg_data_t) (zone_type : Nat) : Bool :=
  pgdat.present_pages zone_type != 0

/-- `zoneref_set_zone(zone, zoneref)` for the zone `node_zones + zone_type`
of `pgdat`. Modelled from the spec: `zone_idx(zone)` is the index of the zone
in `node_zones` (`mmzone.h` is not among the sources). -/
def zoneref_set_zone (pgdat : pg_data_t) (zone_type : Nat) : zoneref :=
  { zone := some (pgdat.node_id, zone_type), zone_idx := zone_type }

/-- The `do ... while (zone_type)` loop of `build_zonelists_node`, with
`n = zone_type + 1` iterations left: the iteration handles the zone of index
`n - 1`. `check_highest_zone` (memory policy) is outside the model. -/
def build_zonelists_node_loop (pgdat : pg_data_t) :
    Nat → (Nat → zoneref) → Nat → (Nat → zoneref) × Nat
  | 0, zonerefs, nr_zones => (zonerefs, nr_zones)
  | n + 1, zonerefs, nr_zones =>
    if populated_zone pgdat n then
      build_zonelists_node_loop pgdat n (upd zonerefs nr_zones (zoneref_set_zone pgdat n))
        (nr_zones + 1)
    else build_zonelists_node_loop pgdat n zonerefs nr_zones

/-- `build_zonelists_node(pgdat, zonelist, nr_zones, zone_type)`: the array
`_zonerefs` of the zone list and the returned value; `none` is the `BUG_ON`.
`max_nr_zones` is `MAX_NR_ZONES`. -/
def build_zonelists_node (max_nr_zones : Nat) (pgdat : pg_data_t) (zonerefs : Nat → zoneref)
    (nr_zones zone_type : Nat) : Option ((Nat → zoneref) × Nat) :=
  if zone_type ≥ max_nr_zones then none
  else some (build_zonelists_node_loop pgdat (zone_type + 1) zonerefs nr_zones)

/-- Modelled from the spec: what the zone-list code takes from outside the
file. `MAX_NR_ZONES`; the number of entries of `_zonerefs`; the nodes of
`for_each_node_state(n, N_HIGH_MEMORY)`, in the order of the iteration;
`node_distance`; whether `cpumask_of_node(n)` is non-empty;
`PENALTY_FOR_NODE_WITH_CPUS`; `nr_online_nodes`; `MAX_NUMNODES`; and
`NODE_DATA`. -/
structure NumaEnv where
  MAX_NR_ZONES : Nat
  zonerefs_len : Nat
  high_memory_nodes : List Nat
  node_distance : Nat → Nat → Int
  node_has_cpus : Nat → Bool
  PENALTY_FOR_NODE_WITH_CPUS : Int
  nr_online_nodes : Int
  MAX_NUMNODES : Int
  NODE_DATA : Nat → pg_data_t

/-- The loop `for (j = 0; zonelist->_zonerefs[j].zone != NULL; j++)` of
`build_zonelists_in_node_order`, for at most `n` entries from `j`; `none`
when no `NULL` entry is among them. -/
def first_null_zoneref (zonerefs : Nat → zoneref) : Nat → Nat → Option Nat
  | 0, _ => none
  | n + 1, j =>
    if (zonerefs j).zone.isNone then some j else first_null_zoneref zonerefs n (j + 1)

/-- `build_zonelists_in_node_order(pgdat, node)` on the array `_zonerefs` of
`pgdat->node_zonelists[0]`; `none` when the array has no `NULL` entry or the
`BUG_ON` of `build_zonelists_node` fires. -/
def build_zonelists_in_node_order (env : NumaEnv) (zonerefs : Nat → zoneref) (node : Nat) :
    Option (Nat → zoneref) :=
  match first_null_zoneref zonerefs env.zonerefs_len 0 with
  | none => none
  | some j =>
    match build_zonelists_node env.MAX_NR_ZONES (env.NODE_DATA node) zonerefs j
        (env.MAX_NR_ZONES - 1) with
    | none => none
    | some (zonerefs1, j1) => some (upd zonerefs1 j1 { zone := none, zone_idx := 0 })

/-- The value `val` that `find_next_best_node(node, ..)` computes for the
candidate `n`: the distance, one more for a node below `node`, the penalty
for a node with CPUs, times `MAX_NODE_LOAD * MAX_NUMNODES`, plus the load of
the node; the arithmetic is that of `int`, and `MAX_NODE_LOAD` is
`nr_online_nodes`. -/
def best_node_val (env : NumaEnv) (node_load : Nat → Int) (node n : Nat) : Int :=
  let val := env.node_distance node n
  let val := wrap_int (val + (if n < node then 1 else 0))
  let val :=
    if env.node_has_cpus n then wrap_int (val + env.PENALTY_FOR_NODE_WITH_CPUS) else val
  let val := wrap_int (val * wrap_int (env.nr_online_nodes * env.MAX_NUMNODES))
  wrap_int (val + node_load n)

/-- The loop `for_each_node_state(n, N_HIGH_MEMORY)` of
`find_next_best_node` over the nodes still to visit, with the current
`min_val` and `best_node` (`none` for -1). -/
def best_node_loop (env : NumaEnv) (node_load : Nat → Int) (node : Nat) (used : List Nat) :
    List Nat → Int → Option Nat → Option Nat
  | [], _, best_node => best_node
  | n :: rest, min_val, best_node =>
    if n ∈ used then best_node_loop env node_load node used rest min_val best_node
    else if best_node_val env node_load node n < min_val then
      best_node_loop env node_load node used rest (best_node_val env node_load node n) (some n)
    else best_node_loop env node_load node used rest min_val best_node

/-- `find_next_best_node(node, used_node_mask)`: the node returned (`none`
for -1) and the new mask, a list of the nodes that are set. -/
def find_next_best_node (env : NumaEnv) (node_load : Nat → Int) (node : Nat)
    (used_node_mask : List Nat) : Option Nat × List Nat :=
  if node ∉ used_node_mask then (some node, node :: used_node_mask)
  else
    match best_node_loop env node_load node used_node_mask env.high_memory_nodes
        (2 ^ 31 - 1) none with
    | some best_node => (some best_node, best_node :: used_node_mask)
    | none => (none, used_node_mask)

/-- The variables of `build_zonelists` that live across its `while` loop,
with `_zonerefs` of `pgdat->node_zonelists[0]` and the array `node_load`. -/
structure ZonelistVars where
  used_mask : List Nat
  node_load : Nat → Int
  prev_node : Nat
  load : Int
  zonerefs : Nat → zoneref

/-- The `while ((node = find_next_best_node(local_node, &used_mask)) >= 0)`
loop of `build_zonelists` when the order is `ZONELIST_ORDER_NODE`, for at
most `n` calls of `find_next_best_node`; `zone_reclaim_mode` is outside the
model. `none` when the calls do not suffice or
`build_zonelists_in_node_order` fails. -/
def build_zonelists_loop (env : NumaEnv) (local_node : Nat) :
    Nat → ZonelistVars → Option ZonelistVars
  | 0, _ => none
  | n + 1, v =>
    match find_next_best_node env v.node_load local_node v.used_mask with
    | (none, used) => some { v with used_mask := used }
    | (some node, used) =>
      match build_zonelists_in_node_order env v.zonerefs node with
      | none => none
      | some zonerefs1 =>
        build_zonelists_loop env local_node n
          { used_mask := used
            node_load :=
              if env.node_distance local_node node ≠ env.node_distance local_node v.prev_node
              then upd v.node_load node v.load else v.node_load
            prev_node := node
            load := wrap_int (v.load - 1)
            zonerefs := zonerefs1 }

/-- `build_zonelists(pgdat)` of a NUMA build with
`current_zonelist_order == ZONELIST_ORDER_NODE`, up to the call of
`build_thisnode_zonelists`, which fills another list: the variables after
the `while` loop. Every call of `find_next_best_node` but the last marks a
node that was not marked, the local node or one of the nodes with memory, so
two calls more than there are such nodes suffice. -/
def build_zonelists (env : NumaEnv) (pgdat : pg_data_t) (node_load : Nat → Int)
    (zonerefs : Nat → zoneref) : Option ZonelistVars :=
  build_zonelists_loop env pgdat.node_id (env.high_memory_nodes.length + 2)
    { used_mask := []
      node_load := node_load
      prev_node := pgdat.node_id
      load := wrap_int env.nr_online_nodes
      zonerefs := upd zonerefs 0 { zone := none, zone_idx := 0 } }

/-! ## `alloc_pages_exact` and `free_pages_exact` -/

/-- Modelled from the spec: `get_order(size)` of `asm-generic/getorder.h`,
which is not among the sources: the order of the smallest block of pages
that holds `size` bytes, computed as `fls_long((size - 1) >> PAGE_SHIFT)`
with `size - 1` taken in `unsigned long`. -/
def get_order (cfg : Config) (size : Nat) : Nat :=
  fls_bits (ulong_dec cfg size >>> cfg.PAGE_SHIFT) cfg.BITS_PER_LONG

/-- Modelled from the spec: `PAGE_ALIGN(addr)` of `mm.h`, which is not among
the sources: `(addr + PAGE_SIZE - 1) & ~(PAGE_SIZE - 1)` in `unsigned long`. -/
def PAGE_ALIGN (cfg : Config) (addr : Nat) : Nat :=
  ((addr + ulong_dec cfg (PAGE_SIZE cfg)) % 2 ^ cfg.BITS_PER_LONG) &&&
    ((2 ^ cfg.BITS_PER_LONG - 1) ^^^ ulong_dec cfg (PAGE_SIZE cfg))

/-- The calls that `make_alloc_exact` and `free_pages_exact` make into the
page allocator, in the order made. A page is named by its virtual address:
`split_page addr order` is `split_page(virt_to_page(addr), order)` and
`__free_pages addr order` is `__free_pages(virt_to_page(addr), order)`. -/
inductive ExactCall
  | split_page (addr order : Nat)
  | __free_pages (addr order : Nat)
  deriving DecidableEq

/-- `free_pages(addr, order)`: a null address is ignored; the debug-only
`VM_BUG_ON` is outside the model. -/
def free_pages (addr order : Nat) : List ExactCall :=
  if addr ≠ 0 then [ExactCall.__free_pages addr order] else []

/-- `free_page(addr)` is `free_pages(addr, 0)`. -/
def free_page (addr : Nat) : List ExactCall := free_pages addr 0

/-- The loop `while (used < alloc_end) { free_page(used); used += PAGE_SIZE; }`
of `make_alloc_exact`, which is also the loop of `free_pages_exact`; `none`
when the iterations allowed do not suffice. -/
def free_page_loop (cfg : Config) (alloc_end : Nat) : Nat → Nat → Option (List ExactCall)
  | 0, _ => none
  | n + 1, used =>
    if used < alloc_end then
      match free_page_loop cfg alloc_end n ((used + PAGE_SIZE cfg) % 2 ^ cfg.BITS_PER_LONG) with
      | none => none
      | some l => some (free_page used ++ l)
    else some []

/-- `make_alloc_exact(addr, order, size)`: the address returned and the calls
made. The loop is allowed the number of steps of `PAGE_SIZE` between `used`
and `alloc_end`, and one more. -/
def make_alloc_exact (cfg : Config) (addr order size : Nat) : Option (Nat × List ExactCall) :=
  if addr ≠ 0 then
    let alloc_end := (addr + (PAGE_SIZE cfg <<< order) % 2 ^ cfg.BITS_PER_LONG) %
      2 ^ cfg.BITS_PER_LONG
    let used := (addr + PAGE_ALIGN cfg size) % 2 ^ cfg.BITS_PER_LONG
    match free_page_loop cfg alloc_end ((alloc_end - used) / PAGE_SIZE cfg + 1) used with
    | none => none
    | some l => some (addr, ExactCall.split_page addr order :: l)
  else some (addr, [])

/-- `alloc_pages_exact(size, gfp_mask)`. The allocation itself is the
argument `__get_free_pages`: the address that `__get_free_pages(gfp_mask,
order)` returns, zero when it fails. -/
def alloc_pages_exact (cfg : Config) (__get_free_pages : Nat → Nat → Nat)
    (size gfp_mask : Nat) : Option (Nat × List ExactCall) :=
  let order := get_order cfg size
  let addr := __get_free_pages gfp_mask order
  make_alloc_exact cfg addr order size

/-- `free_pages_exact(virt, size)`: the calls made. -/
def free_pages_exact (cfg : Config) (virt size : Nat) : Option (List ExactCall) :=
  let addr := virt
  let end_addr := (addr + PAGE_ALIGN cfg size) % 2 ^ cfg.BITS_PER_LONG
  free_page_loop cfg end_addr ((end_addr - addr) / PAGE_SIZE cfg + 1) addr

/-! ## `setup_zone_migrate_reserve` -/

/-- Modelled from the spec: `roundup(x, y)` of `kernel.h`, which is not among
the sources: `((x + (y - 1)) / y) * y` in `unsigned long`. -/
def roundup (cfg : Config) (x y : Nat) : Nat :=
  ((x + ulong_dec cfg y) % 2 ^ cfg.BITS_PER_LONG / y * y) % 2 ^ cfg.BITS_PER_LONG

/-- What `setup_zone_migrate_reserve` reads that the zone model does not
hold, none of it written by the function: `PageReserved pfn` is
`PageReserved(pfn_to_page(pfn))`, a bit of `page->flags`; `page_to_nid pfn`
is the node of the descriptor of frame `pfn`; `zone_to_nid` is the node of
the zone; `min_wmark_pages` is `min_wmark_pages(zone)`, that is
`zone->watermark[WMARK_MIN]`. -/
structure ReserveEnv where
  PageReserved : Nat → Bool
  page_to_nid : Nat → Nat
  zone_to_nid : Nat
  min_wmark_pages : Nat

/-- The loop of `pageblock_is_reserved`, for at most `n` iterations from
`pfn`. -/
def pageblock_is_reserved_loop (cfg : Config) (s : State) (env : ReserveEnv) (end_pfn : Nat) :
    Nat → Nat → Nat
  | 0, _ => 0
  | n + 1, pfn =>
    if pfn < end_pfn then
      if !pfn_valid_within cfg s pfn || env.PageReserved pfn then 1
      else pageblock_is_reserved_loop cfg s env end_pfn n (ulong_inc cfg pfn)
    else 0

/-- `pageblock_is_reserved(start_pfn, end_pfn)`. Every iteration advances
`pfn` by one, so `end_pfn - start_pfn` iterations suffice. -/
def pageblock_is_reserved (cfg : Config) (s : State) (env : ReserveEnv)
    (start_pfn end_pfn : Nat) : Nat :=
  pageblock_is_reserved_loop cfg s env end_pfn (end_pfn - start_pfn) start_pfn

/-- The last statement of the loop body of `setup_zone_migrate_reserve`: a
page-block tagged Reserve is taken back. `none` is the `BUG_ON` of
`move_freepages`. -/
def migrate_reserve_return (cfg : Config) (s : State) (page block_migratetype : Nat) :
    Option State :=
  if block_migratetype = MIGRATE_RESERVE then
    match move_freepages_block cfg (set_pageblock_migratetype cfg s page MIGRATE_MOVABLE)
        page MIGRATE_MOVABLE with
    | none => none
    | some r => some r.1
  else some s

/-- The body of the loop of `setup_zone_migrate_reserve` for the page-block
at `pfn`: the new value of `reserve` and the new zone. `reserve--` is taken
where `reserve > 0`. -/
def migrate_reserve_block (cfg : Config) (env : ReserveEnv) (end_pfn pfn : Nat)
    (reserve : Int) (s : State) : Option (Int × State) :=
  if !s.pfn_valid pfn then some (reserve, s)
  else
    let page := pfn
    if env.page_to_nid page != env.zone_to_nid then some (reserve, s)
    else
      let block_migratetype := get_pageblock_migratetype cfg s page
      if reserve > 0 then
        let block_end_pfn :=
          min ((pfn + pageblock_nr_pages cfg) % 2 ^ cfg.BITS_PER_LONG) end_pfn
        if pageblock_is_reserved cfg s env pfn block_end_pfn != 0 then some (reserve, s)
        else if block_migratetype = MIGRATE_RESERVE then some (reserve - 1, s)
        else if block_migratetype = MIGRATE_MOVABLE then
          match move_freepages_block cfg
              (set_pageblock_migratetype cfg s page MIGRATE_RESERVE) page MIGRATE_RESERVE with
          | none => none
          | some r => some (reserve - 1, r.1)
        else
          match migrate_reserve_return cfg s page block_migratetype with
          | none => none
          | some s1 => some (reserve, s1)
      else
        match migrate_reserve_return cfg s page block_migratetype with
        | none => none
        | some s1 => some (reserve, s1)

/-- The loop `for (pfn = start_pfn; pfn < end_pfn; pfn += pageblock_nr_pages)`
of `setup_zone_migrate_reserve`, for at most `n` iterations from `pfn`; `none`
when they do not suffice, or at the `BUG_ON` of `move_freepages`. -/
def migrate_reserve_loop (cfg : Config) (env : ReserveEnv) (end_pfn : Nat) :
    Nat → Nat → Int × State → Option (Int × State)
  | 0, pfn, r => if pfn < end_pfn then none else some r
  | n + 1, pfn, r =>
    if pfn < end_pfn then
      match migrate_reserve_block cfg env end_pfn pfn r.1 r.2 with
      | none => none
      | some r1 =>
        migrate_reserve_loop cfg env end_pfn n
          ((pfn + pageblock_nr_pages cfg) % 2 ^ cfg.BITS_PER_LONG) r1
    else some r

/-- `setup_zone_migrate_reserve(zone)`. The `int reserve` takes the
`unsigned long` quotient; the loop is allowed one iteration for every step of
`pageblock_nr_pages` between `start_pfn` and `end_pfn`, and one more. -/
def setup_zone_migrate_reserve (cfg : Config) (env : ReserveEnv) (s : State) : Option State :=
  let start_pfn := s.zone_start_pfn
  let end_pfn := (start_pfn + s.spanned_pages) % 2 ^ cfg.BITS_PER_LONG
  let start_pfn := roundup cfg start_pfn (pageblock_nr_pages cfg)
  let reserve := wrap_int
    ((roundup cfg env.min_wmark_pages (pageblock_nr_pages cfg) >>> cfg.pageblock_order : Nat) :
      Int)
  let reserve := min 2 reserve
  match migrate_reserve_loop cfg env end_pfn
      ((end_pfn - start_pfn) / pageblock_nr_pages cfg + 1) start_pfn (reserve, s) with
  | none => none
  | some r => some r.2

/-! ## Specification vocabulary -/

/-- Block `(p, k)` is on a free list of the zone. -/
def Free (s : State) (p k : Nat) : Prop := ∃ m, p ∈ s.free_list k m

/-- Block `(p, k)` is a debug guard block of the zone with identifier `zid`. -/
def Guard (cfg : Config) (zid : Nat) (s : State) (p k : Nat) : Prop :=
  pfn_valid_within cfg s p = true ∧ page_zone_id s p = zid ∧
    page_is_guard cfg (s.mem_map p) = true ∧ page_order (s.mem_map p) = k

/-- Block `(p, k)` is held by the buddy system: on a free list, or (debug
builds) kept aside as a guard block. -/
def Blk (cfg : Config) (zid : Nat) (s : State) (p k : Nat) : Prop :=
  Free s p k ∨ Guard cfg zid s p k

/-- The frame ranges of the blocks `(p, k)` and `(q, j)` intersect. -/
def Overlap (p k q j : Nat) : Prop := p < q + 2 ^ j ∧ q < p + 2 ^ k

/-- First frame of the order-`k` block that contains frame `p`: `p` with its
low `k` bits cleared. -/
def block_start (p k : Nat) : Nat := p / 2 ^ k * 2 ^ k

/-- Block `(p, k)` is a legal block of the zone: the order is below
`MAX_ORDER`, the start is aligned and not below the zone start, and every
frame of it exists, belongs to the zone and has reference count zero. -/
def BlockOK (cfg : Config) (zid : Nat) (s : State) (p k : Nat) : Prop :=
  k < cfg.MAX_ORDER ∧ 2 ^ k ∣ p ∧ s.zone_start_pfn ≤ p ∧
    ∀ i, i < 2 ^ k →
      pfn_valid_within cfg s (p + i) = true ∧ page_zone_id s (p + i) = zid ∧
        (s.mem_map (p + i)).count = 0

/-- The four properties of free-list well-formedness: every block on
`free_list[k][*]` has reference count zero, `PG_buddy` set, `private == k`
and a start aligned to `2^k`. -/
def FreeListInv (s : State) : Prop :=
  ∀ k m p, p ∈ s.free_list k m →
    (∀ i, i < 2 ^ k → (s.mem_map (p + i)).count = 0) ∧
      PageBuddy (s.mem_map p) = true ∧ page_order (s.mem_map p) = k ∧ p % 2 ^ k = 0

/-- Well-formed zone state: the free-list properties together with the
structural facts of the data model (a page is linked on at most one list,
`PG_buddy` marks exactly the listed block heads of the zone, blocks held by
the buddy system are pairwise disjoint and lie in the zone). -/
structure WF (cfg : Config) (zid : Nat) (s : State) : Prop where
  listed : ∀ k m p, p ∈ s.free_list k m →
    m < MIGRATE_TYPES ∧ BlockOK cfg zid s p k ∧ PageBuddy (s.mem_map p) = true ∧
      page_order (s.mem_map p) = k
  nodup : ∀ k m, (s.free_list k m).Nodup
  one_list : ∀ k m m' p, p ∈ s.free_list k m → p ∈ s.free_list k m' → m = m'
  flagged : ∀ p, pfn_valid_within cfg s p = true → page_zone_id s p = zid →
    PageBuddy (s.mem_map p) = true → Free s p (page_order (s.mem_map p))
  guards : ∀ p k, Guard cfg zid s p k →
    BlockOK cfg zid s p k ∧ PageBuddy (s.mem_map p) = false
  disjoint : ∀ p k q j, Blk cfg zid s p k → Blk cfg zid s q j → Overlap p k q j →
    p = q ∧ k = j
  span : ∀ x, s.zone_start_pfn ≤ x → x < s.zone_start_pfn + s.spanned_pages →
    pfn_valid_within cfg s x = true → page_zone_id s x = zid

/-- Block `(p, k)` is in use: a legal block of the zone that meets no block
held by the buddy system. This is what a caller of `__free_one_page` owes,
and what holds of the block being split or merged inside the operations. -/
structure Pending (cfg : Config) (zid : Nat) (s : State) (p k : Nat) : Prop where
  wf : WF cfg zid s
  ok : BlockOK cfg zid s p k
  apart : ∀ q j, Blk cfg zid s q j → ¬ Overlap p k q j

/-- No two blocks on the free lists are buddies of each other, at any order
below `MAX_ORDER - 1` (the largest order is never merged). -/
def NoBuddyPair (cfg : Config) (s : State) : Prop :=
  ∀ p k, k + 1 < cfg.MAX_ORDER → Free s p k → ¬ Free s (__find_buddy_index p k) k

/-- One full iteration of the merge loop of `__free_one_page`, written with
frame numbers: the buddy is merged and the variables move to the parent
block. -/
def merge_next (cfg : Config) (v : FreeVars) : FreeVars :=
  { s := merge_buddy cfg v.s v.page (__find_buddy_index v.page v.order) v.order
    page := block_start v.page (v.order + 1)
    page_idx := block_start v.page (v.order + 1) % 2 ^ cfg.MAX_ORDER
    order := v.order + 1
    buddy_idx := __find_buddy_index v.page_idx v.order
    buddy := __find_buddy_index v.page v.order }

/-- The variables of `__free_one_page` when its loop leaves through
`break`. -/
def merge_stop (v : FreeVars) : FreeVars :=
  { v with buddy_idx := __find_buddy_index v.page_idx v.order
           buddy := __find_buddy_index v.page v.order }

/-- The data no buddy operation writes agree in the two states: frame
validity, the zone span, and zone and reference count of every page. -/
def SameStatic (s s1 : State) : Prop :=
  s1.pfn_valid = s.pfn_valid ∧ s1.zone_start_pfn = s.zone_start_pfn ∧
    s1.spanned_pages = s.spanned_pages ∧
    ∀ x, (s1.mem_map x).zone_id = (s.mem_map x).zone_id ∧
      (s1.mem_map x).count = (s.mem_map x).count

/-- Page `x` looks the same to the buddy system in the two states: same
`PG_buddy`, same guard flag, and the same recorded order if either is set. -/
def SameFlags (cfg : Config) (s s1 : State) (x : Nat) : Prop :=
  PageBuddy (s1.mem_map x) = PageBuddy (s.mem_map x) ∧
    page_is_guard cfg (s1.mem_map x) = page_is_guard cfg (s.mem_map x) ∧
    ((PageBuddy (s.mem_map x) = true ∨ page_is_guard cfg (s.mem_map x) = true) →
      page_order (s1.mem_map x) = page_order (s.mem_map x))

/-- The initial values of the loop variables of `__free_one_page`. -/
def free_vars_init (cfg : Config) (s : State) (page order : Nat) : FreeVars :=
  { s := s, page := page, page_idx := page &&& ((1 <<< cfg.MAX_ORDER) - 1), order := order,
    buddy_idx := 0, buddy := 0 }

/-- The loop variables of `__free_one_page` when its loop is left. -/
def free_vars_final (cfg : Config) (s : State) (page order : Nat) : FreeVars :=
  free_merge_loop cfg (cfg.MAX_ORDER - 1 - order) (free_vars_init cfg s page order)

/-- Invariant of the merge loop of `__free_one_page` freeing block
`(p0, o0)` into state `s0`: the current block is in use in the current
state, it is the order-`v.order` block around `p0`, every buddy merged so far
was held by the buddy system in `s0`, and the current state holds exactly the
blocks of `s0` that do not meet the current block. -/
structure MergeInv (cfg : Config) (zid : Nat) (s0 : State) (p0 o0 : Nat) (v : FreeVars) :
    Prop where
  pending : Pending cfg zid v.s v.page v.order
  idx : v.page_idx = v.page % 2 ^ cfg.MAX_ORDER
  ge : o0 ≤ v.order
  page_eq : v.page = block_start p0 v.order
  static : SameStatic s0 v.s
  free_iff : ∀ x i, Free v.s x i ↔ Free s0 x i ∧ ¬ Overlap v.page v.order x i
  guard_iff : ∀ x i, Guard cfg zid v.s x i ↔ Guard cfg zid s0 x i ∧ ¬ Overlap v.page v.order x i
  merged : ∀ j, o0 ≤ j → j < v.order →
    Blk cfg zid s0 (__find_buddy_index (block_start p0 j) j) j
  lists : ∀ i m, v.order ≤ i → v.s.free_list i m = s0.free_list i m
  frame : ∀ x, (x < v.page ∨ v.page + 2 ^ v.order ≤ x) → v.s.mem_map x = s0.mem_map x

/-- The order at which `__free_one_page` inserts the block it was given:
the value of `order` when the merge loop is left. -/
def free_merged_order (cfg : Config) (s : State) (page order : Nat) : Nat :=
  (free_vars_final cfg s page order).order

/-- The condition, read on the state before the call, under which the block
freed at frame `p` and merged up to order `k` goes to the tail of its list:
`k` is below `MAX_ORDER - 2`, the frame of the order-`k` buddy is valid, and
`page_is_buddy` holds of the order-`k+1` block around `p` and its buddy. -/
def free_tail_cond (cfg : Config) (s : State) (p k : Nat) : Bool :=
  decide (k + 2 < cfg.MAX_ORDER) &&
    pfn_valid_within cfg s (__find_buddy_index (block_start p k) k) &&
    page_is_buddy cfg s (block_start p (k + 1))
      (__find_buddy_index (block_start p (k + 1)) (k + 1)) (k + 1)

/-- The state in which `__free_one_page` starts to merge: that left by the
compound check at its head. -/
def free_entry (s : State) (page order : Nat) : State :=
  if PageCompound (s.mem_map page) then (destroy_compound_page s page order).1 else s

/-- The compound check at the head of `__free_one_page` lets the page
through: it is no compound page, or `destroy_compound_page` finds no fault. -/
def free_passes (s : State) (page order : Nat) : Prop :=
  PageCompound (s.mem_map page) = true → (destroy_compound_page s page order).2 = 0

/-- The order of the block that `__free_one_page(page, zone, order, ..)`
puts on a free list. -/
def free_order (cfg : Config) (s : State) (page order : Nat) : Nat :=
  free_merged_order cfg (free_entry s page order) page order

/-- The test of `expand` that turns the upper half of order `high` into a
guard block instead of a free block. -/
def guard_level (cfg : Config) (high : Nat) : Bool :=
  cfg.CONFIG_DEBUG_PAGEALLOC && decide (high < debug_guardpage_minorder cfg)

/-- What the allocation paths establish for the page they return: block
`(p, o)` is in use in `s1`, and `s1` holds the blocks of `s` other than the
block at `p` together with the upper halves split off from order `k` down to
order `o`. -/
def Taken (cfg : Config) (zid : Nat) (s s1 : State) (p o k : Nat) : Prop :=
  Pending cfg zid s1 p o ∧ SameStatic s s1 ∧
    (∀ x i, Free s1 x i ↔
      (Free s x i ∧ x ≠ p) ∨ (o ≤ i ∧ i < k ∧ x = p + 2 ^ i ∧ guard_level cfg i = false)) ∧
    (∀ x i, Guard cfg zid s1 x i ↔
      (Guard cfg zid s x i ∧ x ≠ p) ∨ (o ≤ i ∧ i < k ∧ x = p + 2 ^ i ∧ guard_level cfg i = true))

/-- One operation of the buddy system on a zone, made by a caller that keeps
its side of the contract: `__free_one_page` of a block in use that passes
the compound check, `__rmqueue_smallest`, or a `__rmqueue_fallback` that
returns; the list class is one of the `MIGRATE_TYPES` classes. -/
inductive Step (cfg : Config) (zid : Nat) : State → State → Prop
  | free (s : State) (p o mt : Nat) : Pending cfg zid s p o → free_passes s p o →
      mt < MIGRATE_TYPES → Step cfg zid s (__free_one_page cfg s p o mt)
  | smallest (s : State) (o mt : Nat) : mt < MIGRATE_TYPES →
      Step cfg zid s (__rmqueue_smallest cfg s o mt).2
  | fallback (s : State) (o mt : Nat) (r : Option Nat × State) : mt < MIGRATE_TYPES →
      __rmqueue_fallback cfg s o mt = some r → Step cfg zid s r.2

/-- The zone states reachable from `s0` by operations of the buddy system. -/
inductive Reachable (cfg : Config) (zid : Nat) (s0 : State) : State → Prop
  | init : Reachable cfg zid s0 s0
  | step (s s1 : State) : Reachable cfg zid s0 s → Step cfg zid s s1 →
      Reachable cfg zid s0 s1

/-- Frame `x` lies in a block held by the buddy system. -/
def Covered (cfg : Config) (zid : Nat) (s : State) (x : Nat) : Prop :=
  ∃ p k, Blk cfg zid s p k ∧ p ≤ x ∧ x < p + 2 ^ k

/-- Frame `x` lies in one of the blocks `out` handed out to callers. -/
def Outstanding (out : List (Nat × Nat)) (x : Nat) : Prop :=
  ∃ b, b ∈ out ∧ b.1 ≤ x ∧ x < b.1 + 2 ^ b.2

/-- No two blocks held by the buddy system (free, or guard blocks in debug
builds) are buddies of each other, at any order below `MAX_ORDER - 1`. -/
def Canon (cfg : Config) (zid : Nat) (s : State) : Prop :=
  ∀ p k, k + 1 < cfg.MAX_ORDER → Blk cfg zid s p k →
    ¬ Blk cfg zid s (__find_buddy_index p k) k

/-- The free blocks of the zone as pairs (first frame, order), list by
list. -/
def free_blocks (cfg : Config) (s : State) : List (Nat × Nat) :=
  (List.range cfg.MAX_ORDER).flatMap (fun k =>
    (List.range MIGRATE_TYPES).flatMap (fun m => (s.free_list k m).map (fun p => (p, k))))

/-- A run of buddy allocations and frees from `s0`: `Run cfg s0 s out` says
that the run has reached state `s` and that `out` are the blocks (first
frame, allocation order) handed out by the run and not yet freed. A free
gives back one of these blocks, at its allocation order, and passes the
compound check; `__rmqueue_fallback` returns. -/
inductive Run (cfg : Config) (s0 : State) : State → List (Nat × Nat) → Prop
  | init : Run cfg s0 s0 []
  | smallest_hit (s : State) (out : List (Nat × Nat)) (o mt p : Nat) :
      Run cfg s0 s out → mt < MIGRATE_TYPES → (__rmqueue_smallest cfg s o mt).1 = some p →
      Run cfg s0 (__rmqueue_smallest cfg s o mt).2 ((p, o) :: out)
  | smallest_miss (s : State) (out : List (Nat × Nat)) (o mt : Nat) :
      Run cfg s0 s out → mt < MIGRATE_TYPES → (__rmqueue_smallest cfg s o mt).1 = none →
      Run cfg s0 (__rmqueue_smallest cfg s o mt).2 out
  | fallback_hit (s : State) (out : List (Nat × Nat)) (o mt p : Nat)
      (r : Option Nat × State) :
      Run cfg s0 s out → mt < MIGRATE_TYPES → __rmqueue_fallback cfg s o mt = some r →
      r.1 = some p → Run cfg s0 r.2 ((p, o) :: out)
  | fallback_miss (s : State) (out : List (Nat × Nat)) (o mt : Nat)
      (r : Option Nat × State) :
      Run cfg s0 s out → mt < MIGRATE_TYPES → __rmqueue_fallback cfg s o mt = some r →
      r.1 = none → Run cfg s0 r.2 out
  | free (s : State) (out : List (Nat × Nat)) (p o mt : Nat) :
      Run cfg s0 s out → (p, o) ∈ out → mt < MIGRATE_TYPES → free_passes s p o →
      Run cfg s0 (__free_one_page cfg s p o mt) (out.erase (p, o))

/-- Invariant of a run from `s0`: the state is well formed with no two held
buddies, the outstanding blocks are in use and pairwise apart, the frames
held by the buddy system or outstanding are those held at the start, and
free blocks and outstanding blocks lie in blocks that were free at the
start. -/
structure RunInv (cfg : Config) (zid : Nat) (s0 s : State) (out : List (Nat × Nat)) :
    Prop where
  wf : WF cfg zid s
  canon : Canon cfg zid s
  static : SameStatic s0 s
  pend : ∀ b, b ∈ out → Pending cfg zid s b.1 b.2
  nodup : out.Nodup
  apart : ∀ a, a ∈ out → ∀ b, b ∈ out → a ≠ b → ¬ Overlap a.1 a.2 b.1 b.2
  cover : ∀ x, (Covered cfg zid s x ∨ Outstanding out x) ↔ Covered cfg zid s0 x
  out_free : ∀ b, b ∈ out → ∀ x i, Blk cfg zid s0 x i → Overlap b.1 b.2 x i → Free s0 x i
  free_in : ∀ q j x i, Free s q j → Blk cfg zid s0 x i → Overlap q j x i → Free s0 x i
  guard_in : ∀ q j, Guard cfg zid s q j → Blk cfg zid s0 q j → Guard cfg zid s0 q j

/-- The pages `move_freepages` counts when its scan stands on frame `x`: the
size of the block recorded there if the frame is valid and `PG_buddy` is set,
else none. -/
def moved_at (cfg : Config) (s : State) (x : Nat) : Nat :=
  if pfn_valid_within cfg s x && PageBuddy (s.mem_map x) then
    2 ^ page_order (s.mem_map x)
  else 0

/-- The pages of the free blocks whose first frame is one of the `n` frames
from `start` on. -/
def pages_headed (cfg : Config) (s : State) : Nat → Nat → Nat
  | _, 0 => 0
  | start, n + 1 => moved_at cfg s start + pages_headed cfg s (start + 1) n

/-- The class that `set_pageblock_migratetype(page, m)` writes: Unmovable in
place of a per-CPU class when grouping by mobility is disabled. -/
def effective_migratetype (cfg : Config) (m : Nat) : Nat :=
  if cfg.page_group_by_mobility_disabled && decide (m < MIGRATE_PCPTYPES) then
    MIGRATE_UNMOVABLE
  else m

/-- The test of `__rmqueue_fallback` that makes it steal the free blocks of
the page-block for the requester `sm`: the order `k` of the block found is at
least `pageblock_order / 2`, or the requester is Reclaimable, or grouping by
mobility is disabled. -/
def steal_cond (cfg : Config) (sm k : Nat) : Bool :=
  decide (k ≥ cfg.pageblock_order >>> 1) || sm == MIGRATE_RECLAIMABLE ||
    cfg.page_group_by_mobility_disabled

/-- First frame past the page-block of `page`. -/
def scan_end (cfg : Config) (page : Nat) : Nat :=
  block_start page cfg.pageblock_order + 2 ^ cfg.pageblock_order

/-- First frame that `move_freepages_block` scans for `page`: the start of
its page-block, or `page` when the page-block starts below the zone. -/
def scan_start (cfg : Config) (s : State) (page : Nat) : Nat :=
  if block_start page cfg.pageblock_order < s.zone_start_pfn then page
  else block_start page cfg.pageblock_order

/-- The pages that the steal step of `__rmqueue_fallback` counts as moved
for `page`: those of the free blocks whose first frame is in the scanned part
of the page-block, none when the page-block ends beyond the zone. -/
def stolen_pages (cfg : Config) (s : State) (page : Nat) : Nat :=
  if scan_end cfg page ≤ s.zone_start_pfn + s.spanned_pages then
    pages_headed cfg s (scan_start cfg s page) (scan_end cfg page - scan_start cfg s page)
  else 0

/-- The classes that `__rmqueue_fallback` may take from for a requester of
class `m`, in the order it tries them: the row of the fallback table without
Reserve. -/
def fallback_row (m : Nat) : List Nat :=
  match m with
  | 0 => [MIGRATE_RECLAIMABLE, MIGRATE_MOVABLE]
  | 1 => [MIGRATE_UNMOVABLE, MIGRATE_MOVABLE]
  | 2 => [MIGRATE_RECLAIMABLE, MIGRATE_UNMOVABLE]
  | _ => []

/-- The pages held in the free blocks of order below `o`, by the counts
`nr_free`. -/
def pages_below (z : State) : Nat → Nat
  | 0 => 0
  | o + 1 => pages_below z o + z.nr_free o * 2 ^ o

/-- The threshold as the specification describes it, in natural numbers:
`mark`, less `mark / 2` under `ALLOC_HIGH`, then less a quarter of the
current value under `ALLOC_HARDER`. -/
def spec_min (mark alloc_flags : Nat) : Nat :=
  let min := if alloc_flags &&& ALLOC_HIGH ≠ 0 then mark - mark / 2 else mark
  if alloc_flags &&& ALLOC_HARDER ≠ 0 then min - min / 4 else min

/-- The number of blocks on the free lists of order `j`, all classes
together. -/
def listed_blocks (z : State) (j : Nat) : Nat :=
  ((List.range MIGRATE_TYPES).map (fun m => (z.free_list j m).length)).sum

/-- The list index that follows `m` in the rotation of
`free_pcppages_bulk`. -/
def next_pcp_list (m : Nat) : Nat := if m + 1 = MIGRATE_PCPTYPES then 0 else m + 1

/-- `DrainSteps cfg m d z pcp z2 pcp2`: from zone `z` and pageset `pcp`, `d`
times over, the page at the tail of list `m` of the pageset is unlinked and
given to `__free_one_page` at order 0 with the class kept in its `private`
field; the outcome is `z2` and `pcp2`. -/
inductive DrainSteps (cfg : Config) (m : Nat) :
    Nat → State → per_cpu_pages → State → per_cpu_pages → Prop
  | zero (z : State) (pcp : per_cpu_pages) : DrainSteps cfg m 0 z pcp z pcp
  | succ (d : Nat) (z : State) (pcp : per_cpu_pages) (page : Nat) (z2 : State)
      (pcp2 : per_cpu_pages) :
      (pcp.lists m).getLast? = some page →
      DrainSteps cfg m d (__free_one_page cfg z page 0 (z.mem_map page).private_)
        { pcp with lists := upd pcp.lists m (pcp.lists m).dropLast } z2 pcp2 →
      DrainSteps cfg m (d + 1) z pcp z2 pcp2

/-- What holds of the variables of `free_pcppages_bulk` at the head of its
`while` loop, for a call that asks for no more pages than the lists hold:
`to_free` is between zero and the number of pages on the lists and, while
pages remain to be freed, `batch_free` is 0, or it is 1 and the list the
index stands on is empty. -/
def DrainHead (v : DrainVars) : Prop :=
  v.migratetype < MIGRATE_PCPTYPES ∧ 0 ≤ v.to_free ∧ v.to_free ≤ (pcp_pages v.pcp : Int) ∧
    (v.to_free ≠ 0 →
      v.batch_free = 0 ∨ (v.batch_free = 1 ∧ v.pcp.lists v.migratetype = []))

/-- The values of the loop variables of `free_pcppages_bulk` at the head of
its `while` loop in a run that starts with the variables `v0`. -/
inductive DrainReach (cfg : Config) (v0 : DrainVars) : DrainVars → Prop
  | init : DrainReach cfg v0 v0
  | pass (v v1 : DrainVars) : DrainReach cfg v0 v → v.to_free ≠ 0 →
      free_pcppages_pass cfg v = some v1 → DrainReach cfg v0 v1

/-- `Drained cfg d z pcp z2 pcp2`: from zone `z` and pageset `pcp`, `d`
times over, the page at the tail of one of the per-CPU lists is unlinked and
given to `__free_one_page` at order 0 with the class kept in its `private`
field; the outcome is `z2` and `pcp2`. -/
inductive Drained (cfg : Config) : Nat → State → per_cpu_pages → State → per_cpu_pages → Prop
  | zero (z : State) (pcp : per_cpu_pages) : Drained cfg 0 z pcp z pcp
  | succ (d m : Nat) (z : State) (pcp : per_cpu_pages) (page : Nat) (z2 : State)
      (pcp2 : per_cpu_pages) :
      m < MIGRATE_PCPTYPES → (pcp.lists m).getLast? = some page →
      Drained cfg d (__free_one_page cfg z page 0 (z.mem_map page).private_)
        { pcp with lists := upd pcp.lists m (pcp.lists m).dropLast } z2 pcp2 →
      Drained cfg (d + 1) z pcp z2 pcp2

/-- The pageset holds nothing: its counter is zero and its three lists are
empty. -/
def pcp_drained (pcp : per_cpu_pages) : Prop :=
  pcp.count = 0 ∧ ∀ m, m < MIGRATE_PCPTYPES → pcp.lists m = []

/-- On CPU `cpu` the counter of the pageset of every zone is the number of
pages on its lists. -/
def PcpCounted (sys : Machine) (cpu : Nat) : Prop :=
  ∀ i, i < sys.nr_zones → (sys.pageset i cpu).count = (pcp_pages (sys.pageset i cpu) : Int)

/-- The call `free_hot_cold_page(page, 0)` for a page that goes to the
per-CPU lists: it passes `free_pages_prepare` and its page-block is not
isolated; `none` if the page does not, or the call does not return. -/
def free_page_to_pcp (cfg : Config) (z : State) (pcp : per_cpu_pages) (page : Nat) :
    Option (State × per_cpu_pages) :=
  if (free_pages_prepare
        { z with mem_map := upd z.mem_map page { z.mem_map page with PG_mlocked := false } }
        page 0).2 &&
      get_pageblock_migratetype cfg z page != MIGRATE_ISOLATE then
    free_hot_cold_page cfg z pcp page 0
  else none

/-- The calls `free_hot_cold_page(page, 0)` for the pages of the list, one
after the other on the same pageset, every page going to the per-CPU
lists. -/
def free_to_pcp (cfg : Config) :
    List Nat → State → per_cpu_pages → Option (State × per_cpu_pages)
  | [], z, pcp => some (z, pcp)
  | page :: rest, z, pcp =>
    match free_page_to_pcp cfg z pcp page with
    | none => none
    | some r => free_to_pcp cfg rest r.1 r.2

/-- The counter of a pageset after `n` pages were pushed on its lists, from
the value `c`: each push adds one, and `batch` is taken off when the counter
has then reached `high`. -/
def pcp_count_after (high batch : Int) : Nat → Int → Int
  | 0, c => c
  | n + 1, c => pcp_count_after high batch n (if c + 1 ≥ high then c + 1 - batch else c + 1)

/-- The zone as `free_hot_cold_page(page, cold)` has it when it turns to the
per-CPU lists: the mlock flag cleared, the page checked by
`free_pages_prepare`, the class of its page-block kept in its `private`
field. -/
def free_prepared (cfg : Config) (z : State) (page : Nat) : State :=
  set_page_private
    (free_pages_prepare
      { z with mem_map := upd z.mem_map page { z.mem_map page with PG_mlocked := false } }
      page 0).1
    page (get_pageblock_migratetype cfg z page)

/-- The per-CPU list that takes a page of a page-block of class
`migratetype`: Movable for the classes without a list of their own. -/
def pcp_class (migratetype : Nat) : Nat :=
  if migratetype ≥ MIGRATE_PCPTYPES then MIGRATE_MOVABLE else migratetype

/-- The pageset after `page` was put on list `c`, at the tail if `cold`, and
counted. -/
def pcp_push (pcp : per_cpu_pages) (c page cold : Nat) : per_cpu_pages :=
  { pcp with
    lists := upd pcp.lists c (if cold != 0 then pcp.lists c ++ [page] else page :: pcp.lists c)
    count := pcp.count + 1 }

/-- The pages on the free lists of the zone: the sum over the orders `k` and
the classes `m` of `2^k` times the length of `free_list[k][m]`. -/
def free_pages_total (cfg : Config) (z : State) : Nat :=
  ((List.range cfg.MAX_ORDER).map (fun k =>
    ((List.range MIGRATE_TYPES).map (fun m => 2 ^ k * (z.free_list k m).length)).sum)).sum

/-- The pages in a list of blocks given as pairs (first frame, order). -/
def pages_of (l : List (Nat × Nat)) : Nat := (l.map (fun b => 2 ^ b.2)).sum

/-- The quantity of the conservation law of a zone: the pages on its free
lists, the pages on the per-CPU lists, and the pages that are allocated,
reserved and isolated. The source keeps no count of the last three; they are
given. -/
def zone_pages (cfg : Config) (z : State) (pcp : per_cpu_pages)
    (allocated reserved isolated : Nat) : Nat :=
  free_pages_total cfg z + pcp_pages pcp + allocated + reserved + isolated

/-- The pages of a pageset as the buddy system must find them when they are
drained: every page on a list is an order-0 block in use in the zone, not a
compound page, with the class of a free list in its `private` field, and no
page is on the lists twice. -/
structure PcpOK (cfg : Config) (zid : Nat) (z : State) (pcp : per_cpu_pages) : Prop where
  wf : WF cfg zid z
  pend : ∀ m, m < MIGRATE_PCPTYPES → ∀ q, q ∈ pcp.lists m → Pending cfg zid z q 0
  plain : ∀ m, m < MIGRATE_PCPTYPES → ∀ q, q ∈ pcp.lists m →
    PageCompound (z.mem_map q) = false
  cls : ∀ m, m < MIGRATE_PCPTYPES → ∀ q, q ∈ pcp.lists m →
    (z.mem_map q).private_ < MIGRATE_TYPES
  nodup : ∀ m, m < MIGRATE_PCPTYPES → (pcp.lists m).Nodup
  one_list : ∀ m m' q, m < MIGRATE_PCPTYPES → m' < MIGRATE_PCPTYPES →
    q ∈ pcp.lists m → q ∈ pcp.lists m' → m = m'

/-- The two page descriptors agree in every field the buddy system reads:
reference count, `_mapcount`, `private`, zone, guard flag and the compound
flags. -/
def SameBuddyFields (a b : Page) : Prop :=
  a.count = b.count ∧ a.mapcount = b.mapcount ∧ a.private_ = b.private_ ∧
    a.zone_id = b.zone_id ∧ a.guard = b.guard ∧ a.PG_head = b.PG_head ∧ a.PG_tail = b.PG_tail

/-- The faults that `free_pages_check` tests a page descriptor for: a
non-zero `page_mapcount`, a non-null `mapping`, a non-zero `_count`, a bit of
`PAGE_FLAGS_CHECK_AT_FREE`, or a positive answer of
`mem_cgroup_bad_page_check`. -/
def free_fault (p : Page) : Prop :=
  page_mapcount p ≠ 0 ∨ p.mapping ≠ 0 ∨ p.count ≠ 0 ∨ p.check_at_free = true ∨
    p.memcg_bad = true

instance (p : Page) : Decidable (free_fault p) := by
  unfold free_fault
  exact inferInstance

/-- The descriptor of the first page of a block as `free_pages_check` finds
it in `free_pages_prepare`: an anonymous `mapping` has been reset. -/
def anon_cleared (p : Page) : Page := if PageAnon p then { p with mapping := 0 } else p

/-- The descriptor of page `page + i` of a block as `free_pages_check` finds
it in `free_pages_prepare`. -/
def checked_page (s : State) (page i : Nat) : Page :=
  if i = 0 then anon_cleared (s.mem_map page) else s.mem_map (page + i)

/-- `n` successive calls `__rmqueue_smallest(zone, 0, m)`, the caller doing
`after zone page` to the zone for each page it gets: the values returned, in
order, and the zone at the end. -/
def smallest_calls (cfg : Config) (m : Nat) (after : State → Nat → State) :
    Nat → State → List (Option Nat) × State
  | 0, s => ([], s)
  | n + 1, s =>
    let t := smallest_calls cfg m after n
      (match (__rmqueue_smallest cfg s 0 m).1 with
        | some page => after (__rmqueue_smallest cfg s 0 m).2 page
        | none => (__rmqueue_smallest cfg s 0 m).2)
    ((__rmqueue_smallest cfg s 0 m).1 :: t.1, t.2)

/-- The block-count invariant of the free areas: for every order, `nr_free`
is the number of blocks on the free lists of that order, all classes
together. -/
def CountOK (cfg : Config) (z : State) : Prop :=
  ∀ k, k < cfg.MAX_ORDER → z.nr_free k = listed_blocks z k

/-- The block counts leave room in an `unsigned long` for one more block of
each order. -/
def CountsFit (cfg : Config) (z : State) : Prop :=
  ∀ k, k < cfg.MAX_ORDER → listed_blocks z k + 1 < 2 ^ cfg.BITS_PER_LONG

/-- The free-page counter agrees with the block counts: `NR_FREE_PAGES` is
the sum over the orders `k` of `nr_free[k] * 2^k`. -/
def FreeCounterOK (cfg : Config) (z : State) : Prop :=
  z.NR_FREE_PAGES = ((pages_below z cfg.MAX_ORDER : Nat) : Int)

/-- The zones that `build_zonelists_node(pgdat, .., .., zone_type)` adds: the
populated zones of the node with index at most `zone_type`, highest index
first. -/
def node_zones_desc (pgdat : pg_data_t) (zone_type : Nat) : List Nat :=
  (List.range (zone_type + 1)).reverse.filter (fun t => populated_zone pgdat t)

/-- The array `zonerefs` holds, from position `n` on, references to the
zones `l` of the node of `pgdat`, in the order of `l`. -/
def holds_zones (zonerefs : Nat → zoneref) (n : Nat) (pgdat : pg_data_t) (l : List Nat) :
    Prop :=
  ∀ i t, l[i]? = some t → zonerefs (n + i) = zoneref_set_zone pgdat t

/-- The zone list `zonerefs` is the list `l` of zones (node and index),
closed by a `NULL` entry. -/
def zonelist_is (zonerefs : Nat → zoneref) (l : List (Nat × Nat)) : Prop :=
  (∀ i e, l[i]? = some e → (zonerefs i).zone = some e ∧ (zonerefs i).zone_idx = e.2) ∧
    (zonerefs l.length).zone = none

/-- The entries that `build_zonelists_in_node_order(pgdat, node)` adds to
the zone list: the populated zones of the node, highest index first. -/
def node_entries (env : NumaEnv) (node : Nat) : List (Nat × Nat) :=
  (node_zones_desc (env.NODE_DATA node) (env.MAX_NR_ZONES - 1)).map (fun t => (node, t))

/-- What holds of the variables of `build_zonelists(pgdat)` at the head of
its `while` loop, `order` being the nodes returned by `find_next_best_node`
so far, first to last: these are the marked nodes, each one once, each the
local node or a node with memory, the local node first; and the zone list is
made of the entries of these nodes, node after node. -/
def ZonelistInv (env : NumaEnv) (local_node : Nat) (v : ZonelistVars) (order : List Nat) :
    Prop :=
  (∀ n, n ∈ v.used_mask ↔ n ∈ order) ∧
    zonelist_is v.zonerefs (order.flatMap (node_entries env)) ∧
    order.Nodup ∧ (∀ n, n ∈ order → n = local_node ∨ n ∈ env.high_memory_nodes) ∧
    (order = [] ∨ ∃ t, order = local_node :: t)

/-- The first frames of `n` consecutive page-blocks from `pfn` on. -/
def pageblocks_from (cfg : Config) : Nat → Nat → List Nat
  | _, 0 => []
  | pfn, n + 1 => pfn :: pageblocks_from cfg (pfn + 2 ^ cfg.pageblock_order) n

/-- The page-blocks of the zone in the order `setup_zone_migrate_reserve`
walks them, each named by its first frame: the aligned frames from the zone
start up to the zone end. -/
def zone_pageblocks (cfg : Config) (s : State) : List Nat :=
  pageblocks_from cfg
    ((s.zone_start_pfn + 2 ^ cfg.pageblock_order - 1) / 2 ^ cfg.pageblock_order *
      2 ^ cfg.pageblock_order)
    ((s.zone_start_pfn + s.spanned_pages + 2 ^ cfg.pageblock_order - 1 -
        (s.zone_start_pfn + 2 ^ cfg.pageblock_order - 1) / 2 ^ cfg.pageblock_order *
          2 ^ cfg.pageblock_order) / 2 ^ cfg.pageblock_order)

/-- The quota of reserve page-blocks:
`min(2, ceil(min_wmark_pages / pageblock_nr_pages))`. -/
def reserve_quota (cfg : Config) (env : ReserveEnv) : Nat :=
  min 2 ((env.min_wmark_pages + 2 ^ cfg.pageblock_order - 1) / 2 ^ cfg.pageblock_order)

/-- The walk of `setup_zone_migrate_reserve` looks at the page-block at
`pfn`: its first frame is valid and lies on the node of the zone. -/
def block_visited (env : ReserveEnv) (s : State) (pfn : Nat) : Bool :=
  s.pfn_valid pfn && env.page_to_nid pfn == env.zone_to_nid

/-- Some frame of the page-block at `pfn`, below the end of the zone, is a
hole or has `PG_reserved` set. -/
def block_holds_reserved (cfg : Config) (env : ReserveEnv) (s : State) (pfn : Nat) : Bool :=
  (List.range (min (pfn + 2 ^ cfg.pageblock_order) (s.zone_start_pfn + s.spanned_pages) - pfn)).any
    (fun i => !pfn_valid_within cfg s (pfn + i) || env.PageReserved (pfn + i))

/-- The page-block at `pfn` is tagged Reserve. -/
def tagged_reserve (cfg : Config) (s : State) (pfn : Nat) : Bool :=
  get_pageblock_migratetype cfg s pfn == MIGRATE_RESERVE

/-- The number of page-blocks of `l` tagged Reserve in `s1`. -/
def reserve_tagged (cfg : Config) (s1 : State) (l : List Nat) : Nat :=
  l.countP (fun pfn => tagged_reserve cfg s1 pfn)

/-- The number of page-blocks of `l` tagged Reserve in `s1`, among those the
walk looks at and that hold neither a reserved frame nor a hole (both judged
in `s`). -/
def reserve_held (cfg : Config) (env : ReserveEnv) (s s1 : State) (l : List Nat) : Nat :=
  l.countP (fun pfn => block_visited env s pfn && !block_holds_reserved cfg env s pfn &&
    tagged_reserve cfg s1 pfn)

/-- The number of passes of `buffered_rmqueue`, out of at most `n`, that end
at `goto again`: the page taken failed `prep_new_page` and is dropped. -/
def rejected_passes (cfg : Config) (g : GfpMasks) :
    Nat → State → per_cpu_pages → Nat → Nat → Nat → Nat
  | 0, _, _, _, _, _ => 0
  | n + 1, z, pcp, order, gfp_flags, migratetype =>
    match buffered_rmqueue_pass cfg g z pcp order gfp_flags migratetype with
    | some (PassOutcome.again, z1, pcp1) =>
      rejected_passes cfg g n z1 pcp1 order gfp_flags migratetype + 1
    | _ => 0

/-! ## Concrete zones of the end-to-end scenarios -/

/-- The default build: `MAX_ORDER = 11`, no debug guard pages, no holes. -/
def default_config : Config := {}

/-- A zone of `2^n` frames starting at frame 0 whose free blocks are
`blocks` (first frame and order), all on the lists of class `m`; frames past
the zone belong to another zone. -/
def zone_of_blocks (n : Nat) (blocks : List (Nat × Nat)) (m : Nat) : State :=
  { free_list := fun k m' =>
      if m' = m then (blocks.filter (fun b => b.2 = k)).map (fun b => b.1) else []
    nr_free := fun k => (blocks.filter (fun b => b.2 = k)).length
    zone_start_pfn := 0
    spanned_pages := 2 ^ n
    NR_FREE_PAGES := (((blocks.map (fun b => 2 ^ b.2)).sum : Nat) : Int)
    mem_map := fun pfn =>
      match blocks.find? (fun b => b.1 = pfn) with
      | some b => { mapcount := -2, private_ := b.2, zone_id := if pfn < 2 ^ n then 0 else 1 }
      | none => { zone_id := if pfn < 2 ^ n then 0 else 1 }
    pfn_valid := fun _ => true
    pageblock_flags := fun _ => m }

/-- The list `blocks` describes legal free blocks of a zone of `2^n` frames:
orders below `MAX_ORDER`, aligned starts, inside the zone, distinct starts,
pairwise disjoint. -/
def blocks_ok (cfg : Config) (n : Nat) (blocks : List (Nat × Nat)) : Bool :=
  blocks.all (fun b => decide (b.2 < cfg.MAX_ORDER) && decide (b.1 % 2 ^ b.2 = 0) &&
    decide (b.1 + 2 ^ b.2 ≤ 2 ^ n)) &&
  blocks.all (fun b => blocks.all (fun c =>
    decide (b = c) || !(decide (b.1 < c.1 + 2 ^ c.2) && decide (c.1 < b.1 + 2 ^ b.2)))) &&
  decide ((blocks.map (fun b => b.1)).Nodup)

/-- Block `(p, k)` is a legal block of a zone of `2^n` frames that meets none
of `blocks`. -/
def in_use_ok (cfg : Config) (n : Nat) (blocks : List (Nat × Nat)) (p k : Nat) : Bool :=
  decide (k < cfg.MAX_ORDER) && decide (p % 2 ^ k = 0) && decide (p + 2 ^ k ≤ 2 ^ n) &&
  blocks.all (fun c => !(decide (p < c.1 + 2 ^ c.2) && decide (c.1 < p + 2 ^ k)))

/-- A zone of `2^k` frames whose only free block is the order-`k` block at
frame 0, on the list of class `m`. -/
def single_block_zone (k m : Nat) : State := zone_of_blocks k [(0, k)] m

/-- The scenario of two allocations: the state after two order-0
`__rmqueue_smallest` calls on the zone whose only free block is `(0, 4)`, on
the list of class `m`. -/
def scenario_allocated (m : Nat) : State :=
  (__rmqueue_smallest default_config
    (__rmqueue_smallest default_config (single_block_zone 4 m) 0 m).2 0 m).2

/-- The scenario continued: frame 1, then frame 0, freed at order 0. -/
def scenario_final (m : Nat) : State :=
  __free_one_page default_config
    (__free_one_page default_config (scenario_allocated m) 1 0 m) 0 0 m

/-- The build of the steal scenario: `pageblock_order = 4`, the rest as in
the default build. -/
def steal_config : Config := { pageblock_order := 4 }

/-- The zone of the watermark scenario: frames 0 and 2 free as two blocks of
order 0, no block of a higher order, and the free-page counter at
`min + 2`. -/
def gate_zone (min : Nat) : State :=
  { zone_of_blocks 2 [(0, 0), (2, 0)] MIGRATE_MOVABLE with NR_FREE_PAGES := min + 2 }

/-- A choice of distinct bits for the request-flag masks (those of Linux 3.2),
for concrete runs. -/
def gfp_bits : GfpMasks :=
  { __GFP_WAIT := 0x10, __GFP_COLD := 0x100, __GFP_REPEAT := 0x400, __GFP_NOFAIL := 0x800,
    __GFP_NORETRY := 0x1000, __GFP_COMP := 0x4000, __GFP_ZERO := 0x8000,
    __GFP_NOMEMALLOC := 0x10000, __GFP_NO_KSWAPD := 0x400000, GFP_IOFS := 0xc0 }

/-- A pageset with `batch = 3` and `high = 18`, no page on its lists. -/
def scenario_pcp : per_cpu_pages := { count := 0, high := 18, batch := 3 }

/-- A zone of 64 pages for the conservation law: the lower 32 free as one
block of order 5 on the Movable list, the upper 32 in use. -/
def ledger_zone : State :=
  { zone_of_blocks 6 [(0, 5)] MIGRATE_MOVABLE with present_pages := 64 }

/-- A pageset for the conservation law, with `batch = 1` and `high = 6`:
frame 40 on the Movable list. -/
def ledger_pcp : per_cpu_pages :=
  { count := 1, high := 6, batch := 1, lists := fun m => if m = 2 then [40] else [] }

/-- A pageset with frame 6 on list 0 and frames 4 and 2 on list 2. -/
def uneven_pcp : per_cpu_pages :=
  { count := 3, high := 18, batch := 3,
    lists := fun m => if m = 2 then [4, 2] else if m = 0 then [6] else [] }

/-- A zone of four frames, none free, in which the memory controller reports
frame 1 bad; frame 1 is otherwise clean. -/
def charged_zone : State :=
  { zone_of_blocks 2 [] MIGRATE_MOVABLE with
    mem_map := fun pfn => if pfn = 1 then { memcg_bad := true } else {} }

/-- A machine of two nodes with three zones each, of which the zone of index
1 is empty. -/
def two_node_env : NumaEnv :=
  { MAX_NR_ZONES := 3, zonerefs_len := 10, high_memory_nodes := [0, 1],
    node_distance := fun a b => if a = b then 10 else 20,
    node_has_cpus := fun _ => true, PENALTY_FOR_NODE_WITH_CPUS := 1,
    nr_online_nodes := 2, MAX_NUMNODES := 4,
    NODE_DATA := fun n => { node_id := n, present_pages := fun t => if t = 1 then 0 else 100 } }

/-- A zone of 64 frames in four page-blocks of 16 (`steal_config`), nothing
free: the first page-block tagged Reserve, the other three Movable. -/
def tagged_zone : State :=
  { zone_of_blocks 6 [] MIGRATE_MOVABLE with
    pageblock_flags := fun b => if b = 0 then MIGRATE_RESERVE else MIGRATE_MOVABLE }

/-- One node, frame 3 with `PG_reserved` set, and a minimum watermark of 32
pages, two page-blocks of 16. -/
def reserved_env : ReserveEnv :=
  { PageReserved := fun pfn => pfn == 3, page_to_nid := fun _ => 0, zone_to_nid := 0,
    min_wmark_pages := 32 }

/-- The zone `ledger_zone` with a bit of `PAGE_FLAGS_CHECK_AT_PREP` set on
frame 0, the first page of its free block of order 5. -/
def tainted_zone : State :=
  { ledger_zone with
    mem_map := (upd ledger_zone.mem_map 0 { ledger_zone.mem_map 0 with check_at_prep := true }) }

/-! # Properties -/

/-! ## Bit arithmetic of block indices -/


theorem and_mask_eq_mod (p n : Nat) : p &&& ((1 <<< n) - 1) = p % 2 ^ n := by
  rw [Nat.one_shiftLeft]; exact Nat.and_pow_two_sub_one_eq_mod p n

theorem xor_one_eq (y : Nat) : y ^^^ 1 = if y % 2 = 0 then y + 1 else y - 1 := by
  apply Nat.eq_of_testBit_eq
  intro i
  cases i with
  | zero =>
    split
    · simp [Nat.testBit_zero]
    · simp [Nat.testBit_zero]; omega
  | succ m =>
    have h1 : (1:Nat).testBit (m+1) = false := by
      rw [Nat.testBit_succ]; simp
    rw [Nat.testBit_xor, h1]
    simp only [Bool.xor_false]
    split
    · rw [Nat.testBit_succ, Nat.testBit_succ]; congr 1; omega
    · rw [Nat.testBit_succ, Nat.testBit_succ]; congr 1; omega

theorem and_xor_one_eq (y : Nat) : (y ^^^ 1) &&& y = y / 2 * 2 := by
  apply Nat.eq_of_testBit_eq
  intro i
  cases i with
  | zero =>
    rw [xor_one_eq]
    split <;> simp [Nat.testBit_zero] <;> omega
  | succ m =>
    rw [Nat.testBit_and, Nat.testBit_succ, Nat.testBit_succ, Nat.testBit_succ]
    have h1 : (y ^^^ 1) / 2 = y / 2 := by
      rw [xor_one_eq]; split <;> omega
    have h2 : y / 2 * 2 / 2 = y / 2 := by omega
    rw [h1, h2, Bool.and_self]

theorem mul_xor_pow (j y : Nat) : (2 ^ j * y) ^^^ (2 ^ j) = 2 ^ j * (y ^^^ 1) := by
  apply Nat.eq_of_testBit_eq
  intro i
  rw [Nat.testBit_xor, Nat.testBit_mul_pow_two, Nat.testBit_mul_pow_two, Nat.testBit_xor,
    Nat.testBit_two_pow]
  by_cases h : j ≤ i
  · by_cases h2 : j = i
    · subst h2; simp
    · have : i - j = (i - j - 1) + 1 := by omega
      have h1 : Nat.testBit 1 (i - j) = false := by
        rw [this, Nat.testBit_succ]; simp
      simp [h, h2, h1]
  · have : ¬ j = i := by omega
    simp [h, this]

theorem mul_and_pow (j a b : Nat) : (2 ^ j * a) &&& (2 ^ j * b) = 2 ^ j * (a &&& b) := by
  apply Nat.eq_of_testBit_eq
  intro i
  simp only [Nat.testBit_and, Nat.testBit_mul_pow_two]
  by_cases h : j ≤ i <;> simp [h]

/-- Buddy index of an aligned block, arithmetically. -/
theorem xor_pow_of_dvd (x j : Nat) (h : 2 ^ j ∣ x) :
    x ^^^ (1 <<< j) = if x / 2 ^ j % 2 = 0 then x + 2 ^ j else x - 2 ^ j := by
  obtain ⟨y, rfl⟩ := h
  have h2 : (0:Nat) < 2 ^ j := Nat.two_pow_pos j
  rw [Nat.mul_div_cancel_left _ h2, Nat.one_shiftLeft, mul_xor_pow, xor_one_eq]
  split
  · rw [Nat.mul_add, Nat.mul_one]
  · rw [Nat.mul_sub, Nat.mul_one]

theorem and_xor_pow_of_dvd (x j : Nat) (h : 2 ^ j ∣ x) :
    (x ^^^ (1 <<< j)) &&& x = x / 2 ^ (j + 1) * 2 ^ (j + 1) := by
  obtain ⟨y, rfl⟩ := h
  have h2 : (0:Nat) < 2 ^ j := Nat.two_pow_pos j
  rw [Nat.one_shiftLeft, mul_xor_pow, mul_and_pow, and_xor_one_eq, Nat.pow_succ,
    ← Nat.div_div_eq_div_mul, Nat.mul_div_cancel_left _ h2]
  ring



theorem block_start_eq_sub (p k : Nat) : block_start p k = p - p % 2 ^ k := by
  unfold block_start
  have := Nat.div_add_mod p (2 ^ k)
  rw [Nat.mul_comm] at this
  omega

theorem block_start_le (p k : Nat) : block_start p k ≤ p := by
  rw [block_start_eq_sub]; omega

theorem lt_block_start_add (p k : Nat) : p < block_start p k + 2 ^ k := by
  rw [block_start_eq_sub]
  have := Nat.mod_lt p (Nat.two_pow_pos k)
  have := Nat.mod_le p (2 ^ k)
  omega

theorem dvd_block_start (p k : Nat) : 2 ^ k ∣ block_start p k :=
  Dvd.intro_left _ rfl

theorem block_start_of_dvd (p k : Nat) (h : 2 ^ k ∣ p) : block_start p k = p := by
  unfold block_start; exact Nat.div_mul_cancel h

theorem block_start_block_start (p i j : Nat) (h : i ≤ j) :
    block_start (block_start p i) j = block_start p j := by
  unfold block_start
  obtain ⟨d, rfl⟩ := Nat.exists_eq_add_of_le h
  rw [Nat.pow_add, ← Nat.div_div_eq_div_mul, ← Nat.div_div_eq_div_mul,
    Nat.mul_div_cancel _ (Nat.two_pow_pos i)]

theorem pow_dvd_mod_pow (p j M : Nat) (h : 2 ^ j ∣ p) (hj : j ≤ M) : 2 ^ j ∣ p % 2 ^ M :=
  (Nat.dvd_mod_iff (pow_dvd_pow 2 hj)).2 h

theorem mod_pow_mod_pow (p j M : Nat) (hj : j ≤ M) : p % 2 ^ M % 2 ^ j = p % 2 ^ j :=
  Nat.mod_mod_of_dvd p (pow_dvd_pow 2 hj)

theorem div_pow_mod_two (p j : Nat) : p / 2 ^ j % 2 = p % 2 ^ (j + 1) / 2 ^ j := by
  rw [Nat.pow_succ]; exact (Nat.mod_mul_right_div_self p (2 ^ j) 2).symm

/-- The buddy of an aligned block lies one block above or below it. -/
theorem find_buddy_index_of_dvd (p j : Nat) (h : 2 ^ j ∣ p) :
    __find_buddy_index p j = if p / 2 ^ j % 2 = 0 then p + 2 ^ j else p - 2 ^ j :=
  xor_pow_of_dvd p j h

theorem two_pow_le_of_odd (p j : Nat) (h : p / 2 ^ j % 2 ≠ 0) : 2 ^ j ≤ p := by
  by_contra hc
  have : p / 2 ^ j = 0 := Nat.div_eq_of_lt (by omega)
  rw [this] at h; exact h rfl

/-- Pointer arithmetic of the merge loop: the buddy pointer. -/
theorem buddy_ptr_eq (page j M : Nat) (h : 2 ^ j ∣ page) (hj : j < M) :
    page + __find_buddy_index (page % 2 ^ M) j - page % 2 ^ M = __find_buddy_index page j := by
  have hidx : 2 ^ j ∣ page % 2 ^ M := pow_dvd_mod_pow page j M h (by omega)
  rw [find_buddy_index_of_dvd _ _ hidx, find_buddy_index_of_dvd _ _ h]
  have hpar : page % 2 ^ M / 2 ^ j % 2 = page / 2 ^ j % 2 := by
    rw [div_pow_mod_two, div_pow_mod_two, mod_pow_mod_pow page (j + 1) M (by omega)]
  have hle := Nat.mod_le page (2 ^ M)
  rw [hpar]
  split
  · omega
  · rename_i hodd
    have := two_pow_le_of_odd (page % 2 ^ M) j (by rw [hpar]; exact hodd)
    omega

/-- Pointer arithmetic of the merge loop: the combined index and page. -/
theorem combined_eq (page j M : Nat) (h : 2 ^ j ∣ page) (hj : j < M) :
    (__find_buddy_index (page % 2 ^ M) j &&& page % 2 ^ M) = block_start page (j + 1) % 2 ^ M ∧
    page + (__find_buddy_index (page % 2 ^ M) j &&& page % 2 ^ M) - page % 2 ^ M
      = block_start page (j + 1) := by
  have hidx : 2 ^ j ∣ page % 2 ^ M := pow_dvd_mod_pow page j M h (by omega)
  have h1 : (__find_buddy_index (page % 2 ^ M) j &&& page % 2 ^ M)
      = block_start (page % 2 ^ M) (j + 1) := and_xor_pow_of_dvd _ j hidx
  rw [h1, block_start_eq_sub, block_start_eq_sub, mod_pow_mod_pow page (j + 1) M (by omega)]
  have hle := Nat.mod_le page (2 ^ M)
  have h2 : page % 2 ^ (j + 1) ≤ page % 2 ^ M := by
    rw [← mod_pow_mod_pow page (j + 1) M (by omega)]; exact Nat.mod_le _ _
  constructor
  · have hd : 2 ^ (j + 1) ∣ 2 ^ M := pow_dvd_pow 2 (by omega)
    have hm := Nat.div_add_mod page (2 ^ M)
    have : page - page % 2 ^ (j + 1) = (page % 2 ^ M - page % 2 ^ (j + 1)) + 2 ^ M * (page / 2 ^ M) := by
      generalize 2 ^ M * (page / 2 ^ M) = t at hm ⊢
      omega
    have hlt := Nat.mod_lt page (Nat.two_pow_pos M)
    rw [this, Nat.add_mul_mod_self_left]
    exact (Nat.mod_eq_of_lt (by omega)).symm
  · omega

/-- C8: `__find_buddy_index(p, o)` is `p XOR (1 << o)`; the combined index
`buddy_idx & page_idx` of `__free_one_page` is `p AND NOT (1 << o)` (the
complement taken in `unsigned long`); for `p` aligned to `2^o` that parent
index is aligned to `2^(o+1)`. -/
theorem find_buddy_index_spec (cfg : Config) (p o : Nat)
    (hp : p < 2 ^ cfg.BITS_PER_LONG) :
    __find_buddy_index p o = p ^^^ (1 <<< o) ∧
    (__find_buddy_index p o &&& p) = p &&& ((2 ^ cfg.BITS_PER_LONG - 1) ^^^ (1 <<< o)) ∧
    (p % 2 ^ o = 0 → (__find_buddy_index p o &&& p) % 2 ^ (o + 1) = 0) := by
  refine ⟨rfl, ?_, ?_⟩
  · apply Nat.eq_of_testBit_eq
    intro i
    simp only [__find_buddy_index, Nat.testBit_and, Nat.testBit_xor, Nat.one_shiftLeft,
      Nat.testBit_two_pow, Nat.testBit_two_pow_sub_one]
    by_cases hi : i < cfg.BITS_PER_LONG
    · by_cases hoi : o = i
      · subst hoi
        cases p.testBit o <;> simp [hi]
      · cases p.testBit i <;> simp [hi, hoi]
    · have hpi : p.testBit i = false := by
        apply Nat.testBit_lt_two_pow
        exact Nat.lt_of_lt_of_le hp (Nat.pow_le_pow_right (by decide) (by omega))
      simp [hpi]
  · intro hal
    have hd : 2 ^ o ∣ p := Nat.dvd_of_mod_eq_zero hal
    rw [show __find_buddy_index p o = p ^^^ (1 <<< o) from rfl, and_xor_pow_of_dvd p o hd]
    exact Nat.mul_mod_left _ _

theorem find_buddy_index_spec_witness :
    __find_buddy_index 8 1 = 8 ^^^ (1 <<< 1) ∧
    (__find_buddy_index 8 1 &&& 8) = 8 &&& ((2 ^ 64 - 1) ^^^ (1 <<< 1)) ∧
    (8 % 2 ^ 1 = 0 → (__find_buddy_index 8 1 &&& 8) % 2 ^ (1 + 1) = 0) :=
  find_buddy_index_spec {} 8 1 (by decide)

theorem page_is_buddy_iff (cfg : Config) (s : State) (page buddy order : Nat) :
    page_is_buddy cfg s page buddy order = true ↔
      pfn_valid_within cfg s buddy = true ∧ page_zone_id s page = page_zone_id s buddy ∧
        ((PageBuddy (s.mem_map buddy) = true ∧ page_order (s.mem_map buddy) = order) ∨
          (page_is_guard cfg (s.mem_map buddy) = true ∧
            page_order (s.mem_map buddy) = order)) := by
  unfold page_is_buddy
  by_cases hv : pfn_valid_within cfg s buddy = true
  · by_cases hz : page_zone_id s page = page_zone_id s buddy
    · by_cases hg : page_is_guard cfg (s.mem_map buddy) = true
      · by_cases ho : page_order (s.mem_map buddy) = order
        · simp [hv, hz, hg, ho]
        · simp [hv, hz, hg, ho]
      · by_cases hb : PageBuddy (s.mem_map buddy) = true
        · by_cases ho : page_order (s.mem_map buddy) = order
          · simp [hv, hz, hg, ho, hb]
          · simp [hv, hz, hg, ho, hb]
        · simp [hv, hz, hg, hb]
    · simp [hv, hz]
  · simp [hv]


/-! ## Splitting: `expand` -/

theorem expand_le (cfg : Config) (p low m : Nat) :
    ∀ (high area size : Nat) (s : State), high ≤ low →
      expand cfg p low m high area size s = s := by
  intro high area size s h
  cases high with
  | zero => rfl
  | succ n =>
    have : ¬ (n + 1 > low) := by omega
    simp [expand, this]

theorem expand_succ (cfg : Config) (p low m h : Nat) (s : State) (hl : low ≤ h) :
    expand cfg p low m (h + 1) (h + 1) (1 <<< (h + 1)) s =
      if cfg.CONFIG_DEBUG_PAGEALLOC && decide (h < debug_guardpage_minorder cfg) then
        expand cfg p low m h h (1 <<< h)
          (mod_free_pages (set_page_private (set_page_guard_flag cfg s (p + 1 <<< h))
            (p + 1 <<< h) h) (-((1 <<< h : Nat) : Int)))
      else
        expand cfg p low m h h (1 <<< h)
          (set_page_order (nr_free_inc cfg (list_add s (p + 1 <<< h) h m) h) (p + 1 <<< h) h) := by
  have h1 : h + 1 > low := by omega
  have h2 : (1 <<< (h + 1)) >>> 1 = 1 <<< h := by
    rw [Nat.one_shiftLeft, Nat.one_shiftLeft, Nat.shiftRight_eq_div_pow, Nat.pow_succ]
    simp
  simp only [expand, h1, if_true, Nat.add_sub_cancel, h2]

/-- What `expand` leaves alone, in every build: lists and counters of the
orders from `high` up, lists of the other classes, every descriptor outside
the upper part of the block, and all the static data. -/
theorem expand_frame (cfg : Config) (p low m : Nat) :
    ∀ (h : Nat) (s : State),
      let s' := expand cfg p low m h h (1 <<< h) s
      (∀ k m', (h ≤ k ∨ k < low ∨ m' ≠ m) → s'.free_list k m' = s.free_list k m') ∧
      (∀ k, (h ≤ k ∨ k < low) → s'.nr_free k = s.nr_free k) ∧
      (∀ q, (q ≤ p ∨ p + 2 ^ h ≤ q) → s'.mem_map q = s.mem_map q) ∧
      s'.pfn_valid = s.pfn_valid ∧ s'.pageblock_flags = s.pageblock_flags ∧
      s'.zone_start_pfn = s.zone_start_pfn ∧ s'.spanned_pages = s.spanned_pages := by
  intro h
  induction h with
  | zero => intro s; simp [expand]
  | succ h ih =>
    intro s
    by_cases hl : low ≤ h
    · rw [expand_succ cfg p low m h s hl]
      have hpow : (2:Nat) ^ (h + 1) = 2 * 2 ^ h := by rw [Nat.pow_succ]; omega
      have hpos : 0 < 2 ^ h := Nat.two_pow_pos h
      split
      · rename_i hg
        obtain ⟨i1, i2, i3, i4, i5, i6, i7⟩ := ih
          (mod_free_pages (set_page_private (set_page_guard_flag cfg s (p + 1 <<< h))
            (p + 1 <<< h) h) (-((1 <<< h : Nat) : Int)))
        refine ⟨?_, ?_, ?_, ?_, ?_, ?_, ?_⟩
        · intro k m' hk
          rw [i1 k m' (by omega)]
          simp [mod_free_pages, set_page_private, set_page_guard_flag]
          split <;> rfl
        · intro k hk
          rw [i2 k (by omega)]
          simp [mod_free_pages, set_page_private, set_page_guard_flag]
          split <;> rfl
        · intro q hq
          rw [i3 q (by omega)]
          have hne : q ≠ p + 1 <<< h := by rw [Nat.one_shiftLeft]; omega
          simp [mod_free_pages, set_page_private, set_page_guard_flag, upd, hne]
          split <;> simp [upd, hne]
        · rw [i4]; simp [mod_free_pages, set_page_private, set_page_guard_flag]; split <;> rfl
        · rw [i5]; simp [mod_free_pages, set_page_private, set_page_guard_flag]; split <;> rfl
        · rw [i6]; simp [mod_free_pages, set_page_private, set_page_guard_flag]; split <;> rfl
        · rw [i7]; simp [mod_free_pages, set_page_private, set_page_guard_flag]; split <;> rfl
      · obtain ⟨i1, i2, i3, i4, i5, i6, i7⟩ := ih
          (set_page_order (nr_free_inc cfg (list_add s (p + 1 <<< h) h m) h) (p + 1 <<< h) h)
        refine ⟨?_, ?_, ?_, ?_, ?_, ?_, ?_⟩
        · intro k m' hk
          rw [i1 k m' (by omega)]
          have : ¬ (k = h ∧ m' = m) := by omega
          simp [set_page_order, nr_free_inc, list_add, upd_list, this]
        · intro k hk
          rw [i2 k (by omega)]
          have : k ≠ h := by omega
          simp [set_page_order, nr_free_inc, list_add, upd, this]
        · intro q hq
          rw [i3 q (by omega)]
          have hne : q ≠ p + 1 <<< h := by rw [Nat.one_shiftLeft]; omega
          simp [set_page_order, nr_free_inc, list_add, upd, hne]
        · rw [i4]; rfl
        · rw [i5]; rfl
        · rw [i6]; rfl
        · rw [i7]; rfl
    · rw [expand_le cfg p low m (h + 1) _ _ s (by omega)]
      simp


/-- The effect of `expand` when no guard pages are made: one block per
order from `low` up to `high - 1`, at the head of the list of the class. -/
theorem expand_lists (cfg : Config) (p low m : Nat)
    (hg : debug_guardpage_minorder cfg = 0) :
    ∀ (h : Nat) (s : State),
      let s' := expand cfg p low m h h (1 <<< h) s
      (∀ j, low ≤ j → j < h →
        s'.free_list j m = (p + 2 ^ j) :: s.free_list j m ∧
        s'.nr_free j = ulong_inc cfg (s.nr_free j) ∧
        PageBuddy (s'.mem_map (p + 2 ^ j)) = true ∧
        page_order (s'.mem_map (p + 2 ^ j)) = j) := by
  intro h
  induction h with
  | zero => intro s s' j _ hj; omega
  | succ h ih =>
    intro s s' j hlj hj
    have hl : low ≤ h := by omega
    have hs' : s' = expand cfg p low m h h (1 <<< h)
        (set_page_order (nr_free_inc cfg (list_add s (p + 1 <<< h) h m) h) (p + 1 <<< h) h) := by
      show expand cfg p low m (h + 1) (h + 1) (1 <<< (h + 1)) s = _
      rw [expand_succ cfg p low m h s hl]
      simp [hg]
    by_cases hjh : j = h
    · subst hjh
      obtain ⟨f1, f2, f3, _⟩ := expand_frame cfg p low m j
        (set_page_order (nr_free_inc cfg (list_add s (p + 1 <<< j) j m) j) (p + 1 <<< j) j)
      rw [hs', f1 j m (Or.inl (Nat.le_refl j)), f2 j (Or.inl (Nat.le_refl j)),
        f3 (p + 2 ^ j) (Or.inr (Nat.le_refl _))]
      simp [set_page_order, nr_free_inc, list_add, upd_list, upd, Nat.one_shiftLeft,
        PageBuddy, page_order]
    · have hj' : j < h := by omega
      have := ih (set_page_order (nr_free_inc cfg (list_add s (p + 1 <<< h) h m) h)
        (p + 1 <<< h) h) j hlj hj'
      rw [hs']
      obtain ⟨g1, g2, g3, g4⟩ := this
      refine ⟨?_, ?_, g3, g4⟩
      · rw [g1]
        simp [set_page_order, nr_free_inc, list_add, upd_list, hjh]
      · rw [g2]
        simp [set_page_order, nr_free_inc, list_add, upd, hjh]

/-! ## Allocation: `__rmqueue_smallest` -/

/-- The state `__rmqueue_smallest` hands to `expand`: the block unlinked, its
order record removed and the counter of its order decremented. -/
theorem rmqueue_smallest_loop_none (cfg : Config) (s : State) (order m : Nat) :
    ∀ (n co : Nat), (∀ j, co ≤ j → j < cfg.MAX_ORDER → j < co + n → s.free_list j m = []) →
      rmqueue_smallest_loop cfg s order m n co = (none, s) := by
  intro n
  induction n with
  | zero => intro co _; rfl
  | succ n ih =>
    intro co h
    unfold rmqueue_smallest_loop
    by_cases hc : co < cfg.MAX_ORDER
    · rw [if_pos hc, h co (Nat.le_refl co) hc (by omega)]
      exact ih (co + 1) (fun j h1 h2 h3 => h j (by omega) h2 (by omega))
    · rw [if_neg hc]

theorem rmqueue_smallest_loop_some (cfg : Config) (s : State) (order m k p : Nat)
    (rest : List Nat) (hk : k < cfg.MAX_ORDER) (hl : s.free_list k m = p :: rest) :
    ∀ (n co : Nat), co ≤ k → k < co + n → (∀ j, co ≤ j → j < k → s.free_list j m = []) →
      rmqueue_smallest_loop cfg s order m n co =
        (some p, expand cfg p order m k k (1 <<< k)
          (nr_free_dec cfg (rmv_page_order (list_del s p) p) k)) := by
  intro n
  induction n with
  | zero => intro co h1 h2; omega
  | succ n ih =>
    intro co h1 h2 h3
    unfold rmqueue_smallest_loop
    have hc : co < cfg.MAX_ORDER := by omega
    rw [if_pos hc]
    by_cases hck : co = k
    · subst hck
      rw [hl]
    · rw [h3 co (Nat.le_refl co) (by omega)]
      exact ih (co + 1) (by omega) (by omega) (fun j h4 h5 => h3 j (by omega) h5)

theorem rmqueue_smallest_loop_none_iff (cfg : Config) (s : State) (order m : Nat) :
    ∀ (n co : Nat),
      (rmqueue_smallest_loop cfg s order m n co).1 = none ↔
        ∀ j, co ≤ j → j < cfg.MAX_ORDER → j < co + n → s.free_list j m = [] := by
  intro n
  induction n with
  | zero => intro co; simp [rmqueue_smallest_loop]; intro j h1 _ h3; omega
  | succ n ih =>
    intro co
    constructor
    · intro h j h1 h2 h3
      unfold rmqueue_smallest_loop at h
      have hc : co < cfg.MAX_ORDER := by omega
      rw [if_pos hc] at h
      cases hco : s.free_list co m with
      | nil =>
        rw [hco] at h
        by_cases hj : j = co
        · rw [hj]; exact hco
        · exact (ih (co + 1)).1 h j (by omega) h2 (by omega)
      | cons x xs =>
        rw [hco] at h
        simp at h
    · intro h
      rw [rmqueue_smallest_loop_none cfg s order m (n + 1) co h]


/-- C3: `__rmqueue_smallest(zone, o, m)` takes the head block of
`free_list[k][m]` for the smallest order `k` with `o <= k < MAX_ORDER` whose
list is non-empty: it returns that block, the list loses its head,
`nr_free[k]` is decremented, and `PG_buddy` and `private` of the returned
page are cleared; a page is returned only in that way; and it returns `NULL`
exactly when all those lists are empty, then leaving the zone unchanged. -/
theorem rmqueue_smallest_spec (cfg : Config) (s : State) (o m : Nat) :
    (∀ k p rest, o ≤ k → k < cfg.MAX_ORDER → s.free_list k m = p :: rest →
      (∀ j, o ≤ j → j < k → s.free_list j m = []) →
        (__rmqueue_smallest cfg s o m).1 = some p ∧
        (__rmqueue_smallest cfg s o m).2.free_list k m = rest ∧
        (__rmqueue_smallest cfg s o m).2.nr_free k = ulong_dec cfg (s.nr_free k) ∧
        PageBuddy ((__rmqueue_smallest cfg s o m).2.mem_map p) = false ∧
        page_order ((__rmqueue_smallest cfg s o m).2.mem_map p) = 0) ∧
    (∀ p, (__rmqueue_smallest cfg s o m).1 = some p →
      ∃ k rest, o ≤ k ∧ k < cfg.MAX_ORDER ∧ s.free_list k m = p :: rest ∧
        ∀ j, o ≤ j → j < k → s.free_list j m = []) ∧
    ((__rmqueue_smallest cfg s o m).1 = none ↔
      ∀ k, o ≤ k → k < cfg.MAX_ORDER → s.free_list k m = []) ∧
    ((__rmqueue_smallest cfg s o m).1 = none → (__rmqueue_smallest cfg s o m).2 = s) := by
  have hnone : (__rmqueue_smallest cfg s o m).1 = none ↔
      ∀ k, o ≤ k → k < cfg.MAX_ORDER → s.free_list k m = [] := by
    unfold __rmqueue_smallest
    rw [rmqueue_smallest_loop_none_iff]
    constructor
    · intro h k h1 h2; exact h k h1 h2 (by omega)
    · intro h k h1 h2 _; exact h k h1 h2
  have hsome : ∀ k p rest, o ≤ k → k < cfg.MAX_ORDER → s.free_list k m = p :: rest →
      (∀ j, o ≤ j → j < k → s.free_list j m = []) →
      __rmqueue_smallest cfg s o m = (some p, expand cfg p o m k k (1 <<< k)
          (nr_free_dec cfg (rmv_page_order (list_del s p) p) k)) := by
    intro k p rest h1 h2 h3 h4
    unfold __rmqueue_smallest
    exact rmqueue_smallest_loop_some cfg s o m k p rest h2 h3 _ o h1 (by omega) h4
  refine ⟨?_, ?_, hnone, ?_⟩
  · intro k p rest h1 h2 h3 h4
    rw [hsome k p rest h1 h2 h3 h4]
    obtain ⟨f1, f2, f3, _⟩ := expand_frame cfg p o m k
      (nr_free_dec cfg (rmv_page_order (list_del s p) p) k)
    refine ⟨rfl, ?_, ?_, ?_, ?_⟩
    · show (expand cfg p o m k k (1 <<< k) _).free_list k m = rest
      rw [f1 k m (Or.inl (Nat.le_refl k))]
      simp [nr_free_dec, rmv_page_order, list_del, h3]
    · show (expand cfg p o m k k (1 <<< k) _).nr_free k = _
      rw [f2 k (Or.inl (Nat.le_refl k))]
      simp [nr_free_dec, rmv_page_order, list_del, upd]
    · show PageBuddy ((expand cfg p o m k k (1 <<< k) _).mem_map p) = false
      rw [f3 p (Or.inl (Nat.le_refl p))]
      simp [nr_free_dec, rmv_page_order, list_del, upd, PageBuddy]
    · show page_order ((expand cfg p o m k k (1 <<< k) _).mem_map p) = 0
      rw [f3 p (Or.inl (Nat.le_refl p))]
      simp [nr_free_dec, rmv_page_order, list_del, upd, page_order]
  · intro p hp
    have hex : ∃ k, o ≤ k ∧ k < cfg.MAX_ORDER ∧ s.free_list k m ≠ [] := by
      by_contra hc
      have : (__rmqueue_smallest cfg s o m).1 = none := by
        rw [hnone]
        intro k h1 h2
        by_contra h3
        exact hc ⟨k, h1, h2, h3⟩
      rw [this] at hp
      exact Option.noConfusion hp
    classical
    have hmin := Nat.find_spec hex
    obtain ⟨h1, h2, h3⟩ := hmin
    obtain ⟨x, rest, hx⟩ := List.exists_cons_of_ne_nil h3
    have hfirst : ∀ j, o ≤ j → j < Nat.find hex → s.free_list j m = [] := by
      intro j hj1 hj2
      by_contra hj3
      exact Nat.find_min hex hj2 ⟨hj1, by omega, hj3⟩
    rw [hsome _ x rest h1 h2 hx hfirst] at hp
    have hxp : x = p := by simpa using hp
    exact ⟨Nat.find hex, rest, h1, h2, hxp ▸ hx, hfirst⟩
  · intro h
    unfold __rmqueue_smallest
    rw [rmqueue_smallest_loop_none]
    have := hnone.1 h
    intro j h1 h2 _
    exact this j h1 h2

theorem rmqueue_smallest_spec_witness :
    (__rmqueue_smallest default_config (single_block_zone 3 2) 0 2).1 = some 0 ∧
    (__rmqueue_smallest default_config (single_block_zone 3 2) 0 2).2.free_list 3 2 = [] ∧
    (__rmqueue_smallest default_config (single_block_zone 3 2) 0 2).2.nr_free 3
      = ulong_dec default_config ((single_block_zone 3 2).nr_free 3) ∧
    PageBuddy ((__rmqueue_smallest default_config (single_block_zone 3 2) 0 2).2.mem_map 0)
      = false ∧
    page_order ((__rmqueue_smallest default_config (single_block_zone 3 2) 0 2).2.mem_map 0)
      = 0 :=
  (rmqueue_smallest_spec default_config (single_block_zone 3 2) 0 2).1 3 0 []
    (by decide) (by decide) (by decide) (by decide)


/-- C2: with debug-guard mode off, splitting the order-`k` block at frame
`p` down to order `o <= k` inserts, for each `j` with `o <= j < k`, exactly
one block, of order `j` at frame `p + 2^j`, at the head of `free_list[j][m]`,
with `PG_buddy` set and `private == j`, and increments `nr_free[j]`; no other
list or counter changes; and `__rmqueue_smallest`, finding that block as the
head of the first non-empty list from order `o`, returns frame `p` and leaves
the zone so split. -/
theorem expand_split_spec (cfg : Config) (s : State) (o m k p : Nat)
    (hg : debug_guardpage_minorder cfg = 0) (hok : o ≤ k) :
    (∀ j, o ≤ j → j < k →
      (expand cfg p o m k k (1 <<< k) s).free_list j m = (p + 2 ^ j) :: s.free_list j m ∧
      (expand cfg p o m k k (1 <<< k) s).nr_free j = ulong_inc cfg (s.nr_free j) ∧
      PageBuddy ((expand cfg p o m k k (1 <<< k) s).mem_map (p + 2 ^ j)) = true ∧
      page_order ((expand cfg p o m k k (1 <<< k) s).mem_map (p + 2 ^ j)) = j) ∧
    (∀ j m', ¬ (o ≤ j ∧ j < k ∧ m' = m) →
      (expand cfg p o m k k (1 <<< k) s).free_list j m' = s.free_list j m') ∧
    (∀ j, ¬ (o ≤ j ∧ j < k) →
      (expand cfg p o m k k (1 <<< k) s).nr_free j = s.nr_free j) ∧
    (∀ rest, k < cfg.MAX_ORDER → s.free_list k m = p :: rest →
      (∀ j, o ≤ j → j < k → s.free_list j m = []) →
      __rmqueue_smallest cfg s o m =
        (some p, expand cfg p o m k k (1 <<< k)
          (nr_free_dec cfg (rmv_page_order (list_del s p) p) k)) ∧
      ∀ j, o ≤ j → j < k → (__rmqueue_smallest cfg s o m).2.free_list j m = [p + 2 ^ j]) := by
  obtain ⟨f1, f2, _⟩ := expand_frame cfg p o m k s
  refine ⟨expand_lists cfg p o m hg k s, ?_, ?_, ?_⟩
  · intro j m' h
    apply f1
    by_cases h1 : k ≤ j
    · exact Or.inl h1
    · by_cases h2 : j < o
      · exact Or.inr (Or.inl h2)
      · exact Or.inr (Or.inr (fun h3 => h ⟨by omega, by omega, h3⟩))
  · intro j h
    apply f2
    by_cases h1 : k ≤ j
    · exact Or.inl h1
    · exact Or.inr (by omega)
  · intro rest hk hl hfirst
    have heq : __rmqueue_smallest cfg s o m =
        (some p, expand cfg p o m k k (1 <<< k)
          (nr_free_dec cfg (rmv_page_order (list_del s p) p) k)) := by
      unfold __rmqueue_smallest
      exact rmqueue_smallest_loop_some cfg s o m k p rest hk hl _ o hok (by omega) hfirst
    refine ⟨heq, ?_⟩
    intro j h1 h2
    rw [heq]
    show (expand cfg p o m k k (1 <<< k) _).free_list j m = _
    rw [(expand_lists cfg p o m hg k _ j h1 h2).1]
    simp [nr_free_dec, rmv_page_order, list_del, hfirst j h1 h2]

theorem expand_split_spec_witness :
    (__rmqueue_smallest default_config (single_block_zone 3 2) 0 2).1 = some 0 ∧
    (__rmqueue_smallest default_config (single_block_zone 3 2) 0 2).2.free_list 0 2 = [1] ∧
    (__rmqueue_smallest default_config (single_block_zone 3 2) 0 2).2.free_list 1 2 = [2] ∧
    (__rmqueue_smallest default_config (single_block_zone 3 2) 0 2).2.free_list 2 2 = [4] :=
  have h := (expand_split_spec default_config (single_block_zone 3 2) 0 2 3 0
    (by decide) (by decide)).2.2.2 [] (by decide) (by decide) (by decide)
  ⟨by rw [h.1], h.2 0 (by decide) (by decide), h.2 1 (by decide) (by decide),
    h.2 2 (by decide) (by decide)⟩

/-! ## The merge loop of `__free_one_page` -/

theorem free_merge_loop_succ (cfg : Config) (n : Nat) (v : FreeVars)
    (hidx : v.page_idx = v.page % 2 ^ cfg.MAX_ORDER) (hal : 2 ^ v.order ∣ v.page)
    (ho : v.order < cfg.MAX_ORDER - 1) :
    free_merge_loop cfg (n + 1) v =
      if page_is_buddy cfg v.s v.page (__find_buddy_index v.page v.order) v.order = true then
        free_merge_loop cfg n (merge_next cfg v)
      else merge_stop v := by
  have hj : v.order < cfg.MAX_ORDER := by omega
  have hb := buddy_ptr_eq v.page v.order cfg.MAX_ORDER hal hj
  have hc := combined_eq v.page v.order cfg.MAX_ORDER hal hj
  rw [← hidx] at hb hc
  rw [free_merge_loop, if_pos ho]
  simp only [hb]
  rw [hc.2, hc.1]
  by_cases h : page_is_buddy cfg v.s v.page (__find_buddy_index v.page v.order) v.order = true
  · simp [h, merge_next]
  · simp [h, merge_stop]

theorem free_merge_loop_done (cfg : Config) (n : Nat) (v : FreeVars)
    (ho : ¬ v.order < cfg.MAX_ORDER - 1) : free_merge_loop cfg n v = v := by
  cases n with
  | zero => rfl
  | succ n => rw [free_merge_loop, if_neg ho]

/-- Loop rule for the merge loop: an invariant `P` that every merge step
keeps yields `Q` at either exit, provided `Q` follows from `P` at both. -/
theorem free_merge_loop_rule (cfg : Config) (P Q : FreeVars → Prop)
    (hidx : ∀ v, P v → v.page_idx = v.page % 2 ^ cfg.MAX_ORDER ∧ 2 ^ v.order ∣ v.page)
    (hstep : ∀ v, P v → v.order < cfg.MAX_ORDER - 1 →
      page_is_buddy cfg v.s v.page (__find_buddy_index v.page v.order) v.order = true →
      P (merge_next cfg v))
    (htop : ∀ v, P v → ¬ v.order < cfg.MAX_ORDER - 1 → Q v)
    (hbreak : ∀ v, P v → v.order < cfg.MAX_ORDER - 1 →
      page_is_buddy cfg v.s v.page (__find_buddy_index v.page v.order) v.order = false →
      Q (merge_stop v)) :
    ∀ (n : Nat) (v : FreeVars), cfg.MAX_ORDER - 1 ≤ v.order + n → P v →
      Q (free_merge_loop cfg n v) := by
  intro n
  induction n with
  | zero =>
    intro v hn hP
    exact htop v hP (by omega)
  | succ n ih =>
    intro v hn hP
    by_cases ho : v.order < cfg.MAX_ORDER - 1
    · obtain ⟨h1, h2⟩ := hidx v hP
      rw [free_merge_loop_succ cfg n v h1 h2 ho]
      by_cases hb : page_is_buddy cfg v.s v.page (__find_buddy_index v.page v.order) v.order
          = true
      · rw [if_pos hb]
        apply ih
        · show cfg.MAX_ORDER - 1 ≤ v.order + 1 + n
          omega
        · exact hstep v hP ho hb
      · rw [if_neg hb]
        exact hbreak v hP ho (by simpa using hb)
    · rw [free_merge_loop_done cfg _ v ho]
      exact htop v hP ho

/-! ## Well-formedness under the elementary changes -/

theorem SameStatic.refl (s : State) : SameStatic s s :=
  ⟨rfl, rfl, rfl, fun _ => ⟨rfl, rfl⟩⟩

theorem SameStatic.trans {s s1 s2 : State} (h1 : SameStatic s s1) (h2 : SameStatic s1 s2) :
    SameStatic s s2 :=
  ⟨h2.1.trans h1.1, h2.2.1.trans h1.2.1, h2.2.2.1.trans h1.2.2.1,
    fun x => ⟨((h2.2.2.2 x).1).trans ((h1.2.2.2 x).1), ((h2.2.2.2 x).2).trans ((h1.2.2.2 x).2)⟩⟩

theorem SameFlags.flags_refl (cfg : Config) (s : State) (x : Nat) : SameFlags cfg s s x :=
  ⟨rfl, rfl, fun _ => rfl⟩

theorem SameStatic.valid {s s1 : State} (h : SameStatic s s1) (cfg : Config) (x : Nat) :
    pfn_valid_within cfg s1 x = pfn_valid_within cfg s x := by
  unfold pfn_valid_within; rw [h.1]

theorem SameStatic.zone {s s1 : State} (h : SameStatic s s1) (x : Nat) :
    page_zone_id s1 x = page_zone_id s x := (h.2.2.2 x).1

theorem SameStatic.blockOK {s s1 : State} (h : SameStatic s s1) {cfg : Config} {zid p k : Nat}
    (hb : BlockOK cfg zid s p k) : BlockOK cfg zid s1 p k := by
  obtain ⟨h1, h2, h3, h4⟩ := hb
  refine ⟨h1, h2, by rw [h.2.1]; exact h3, ?_⟩
  intro i hi
  obtain ⟨a, b, c⟩ := h4 i hi
  exact ⟨by rw [h.valid]; exact a, by rw [h.zone]; exact b, by rw [(h.2.2.2 _).2]; exact c⟩

theorem Blk.ok_of_wf {cfg : Config} {zid : Nat} {s : State} (hwf : WF cfg zid s) {p k : Nat}
    (h : Blk cfg zid s p k) : BlockOK cfg zid s p k := by
  rcases h with ⟨m, hm⟩ | hg
  · exact (hwf.listed k m p hm).2.1
  · exact (hwf.guards p k hg).1

theorem BlockOK.page {cfg : Config} {zid : Nat} {s : State} {p k : Nat}
    (h : BlockOK cfg zid s p k) {x : Nat} (h1 : p ≤ x) (h2 : x < p + 2 ^ k) :
    pfn_valid_within cfg s x = true ∧ page_zone_id s x = zid ∧ (s.mem_map x).count = 0 := by
  have := h.2.2.2 (x - p) (by omega)
  rwa [show p + (x - p) = x by omega] at this

theorem BlockOK.head {cfg : Config} {zid : Nat} {s : State} {p k : Nat}
    (h : BlockOK cfg zid s p k) :
    pfn_valid_within cfg s p = true ∧ page_zone_id s p = zid :=
  have := h.page (Nat.le_refl p) (by have := Nat.two_pow_pos k; omega)
  ⟨this.1, this.2.1⟩

theorem Pending.not_blk {cfg : Config} {zid : Nat} {s : State} {p k : Nat}
    (h : Pending cfg zid s p k) {x : Nat} (h1 : p ≤ x) (h2 : x < p + 2 ^ k) (i : Nat) :
    ¬ Blk cfg zid s x i := by
  intro hb
  apply h.apart x i hb
  have := Nat.two_pow_pos i
  exact ⟨by omega, h2⟩

theorem Pending.unflagged {cfg : Config} {zid : Nat} {s : State} {p k : Nat}
    (h : Pending cfg zid s p k) {x : Nat} (h1 : p ≤ x) (h2 : x < p + 2 ^ k) :
    PageBuddy (s.mem_map x) = false ∧ page_is_guard cfg (s.mem_map x) = false := by
  obtain ⟨hv, hz, _⟩ := h.ok.page h1 h2
  constructor
  · by_contra hc
    have hb : PageBuddy (s.mem_map x) = true := by simpa using hc
    exact h.not_blk h1 h2 _ (Or.inl (h.wf.flagged x hv hz hb))
  · by_contra hc
    have hg : page_is_guard cfg (s.mem_map x) = true := by simpa using hc
    exact h.not_blk h1 h2 _ (Or.inr ⟨hv, hz, hg, rfl⟩)

/-- Under well-formedness the buddy test of the code is membership in the
set of blocks held by the buddy system. -/
theorem page_is_buddy_iff_blk {cfg : Config} {zid : Nat} {s : State} (hwf : WF cfg zid s)
    {page : Nat} (hz : page_zone_id s page = zid) (b j : Nat) :
    page_is_buddy cfg s page b j = true ↔ Blk cfg zid s b j := by
  rw [page_is_buddy_iff]
  constructor
  · rintro ⟨hv, hzb, h | h⟩
    · have := hwf.flagged b hv (by rw [← hzb, hz]) h.1
      rw [h.2] at this
      exact Or.inl this
    · exact Or.inr ⟨hv, by rw [← hzb, hz], h.1, h.2⟩
  · intro h
    have hok := (Blk.ok_of_wf hwf h).head
    refine ⟨hok.1, by rw [hz, hok.2], ?_⟩
    rcases h with ⟨m, hm⟩ | hg
    · exact Or.inl (hwf.listed j m b hm).2.2
    · exact Or.inr ⟨hg.2.2.1, hg.2.2.2⟩


/-- A change the buddy system cannot see (same lists, same flags and
recorded orders, same static data) keeps everything. -/
theorem WF.same_view {cfg : Config} {zid : Nat} {s s1 : State} (hwf : WF cfg zid s)
    (hst : SameStatic s s1) (hl : s1.free_list = s.free_list)
    (hfl : ∀ x, SameFlags cfg s s1 x) :
    WF cfg zid s1 ∧ (∀ q i, Free s1 q i ↔ Free s q i) ∧
      (∀ q i, Guard cfg zid s1 q i ↔ Guard cfg zid s q i) := by
  have hfree : ∀ q i, Free s1 q i ↔ Free s q i := by
    intro q i; unfold Free; rw [hl]
  have hguard : ∀ q i, Guard cfg zid s1 q i ↔ Guard cfg zid s q i := by
    intro q i
    unfold Guard
    rw [hst.valid, hst.zone, (hfl q).2.1]
    constructor
    · rintro ⟨a, b, c, d⟩
      exact ⟨a, b, c, by rw [← (hfl q).2.2 (Or.inr c)]; exact d⟩
    · rintro ⟨a, b, c, d⟩
      exact ⟨a, b, c, by rw [(hfl q).2.2 (Or.inr c)]; exact d⟩
  have hblk : ∀ q i, Blk cfg zid s1 q i ↔ Blk cfg zid s q i := by
    intro q i; unfold Blk; rw [hfree, hguard]
  refine ⟨⟨?_, ?_, ?_, ?_, ?_, ?_, ?_⟩, hfree, hguard⟩
  · intro k m p hp
    rw [hl] at hp
    obtain ⟨a, b, c, d⟩ := hwf.listed k m p hp
    exact ⟨a, hst.blockOK b, by rw [(hfl p).1]; exact c,
      by rw [(hfl p).2.2 (Or.inl c)]; exact d⟩
  · intro k m; rw [hl]; exact hwf.nodup k m
  · intro k m m' p; rw [hl]; exact hwf.one_list k m m' p
  · intro p hv hz hb
    rw [hst.valid] at hv; rw [hst.zone] at hz; rw [(hfl p).1] at hb
    rw [hfree, (hfl p).2.2 (Or.inl hb)]
    exact hwf.flagged p hv hz hb
  · intro p k hg
    obtain ⟨a, b⟩ := hwf.guards p k ((hguard p k).1 hg)
    exact ⟨hst.blockOK a, by rw [(hfl p).1]; exact b⟩
  · intro p k q j h1 h2
    exact hwf.disjoint p k q j ((hblk p k).1 h1) ((hblk q j).1 h2)
  · intro x h1 h2 h3
    rw [hst.2.1] at h1 h2; rw [hst.2.2.1] at h2; rw [hst.valid] at h3; rw [hst.zone]
    exact hwf.span x h1 h2 h3

theorem Pending.of_same_view {cfg : Config} {zid : Nat} {s s1 : State} {p k : Nat}
    (hp : Pending cfg zid s p k)
    (hst : SameStatic s s1) (hl : s1.free_list = s.free_list)
    (hfl : ∀ x, SameFlags cfg s s1 x) : Pending cfg zid s1 p k := by
  obtain ⟨hwf, hfree, hguard⟩ := hp.wf.same_view hst hl hfl
  refine ⟨hwf, hst.blockOK hp.ok, ?_⟩
  intro q j hb
  apply hp.apart q j
  rcases hb with h | h
  · exact Or.inl ((hfree q j).1 h)
  · exact Or.inr ((hguard q j).1 h)

/-- Taking block `(b, j)` out of the buddy system: it is unlinked and
loses its flag; it is then a block in use. -/
theorem WF.remove {cfg : Config} {zid : Nat} {s s1 : State} {b j : Nat}
    (hwf : WF cfg zid s) (hb : Blk cfg zid s b j) (hst : SameStatic s s1)
    (hl : ∀ i m, s1.free_list i m = (s.free_list i m).erase b)
    (hfl : ∀ x, x ≠ b → SameFlags cfg s s1 x)
    (hb1 : PageBuddy (s1.mem_map b) = false)
    (hb2 : page_is_guard cfg (s1.mem_map b) = false) :
    Pending cfg zid s1 b j ∧ (∀ q i, Free s1 q i ↔ Free s q i ∧ q ≠ b) ∧
      (∀ q i, Guard cfg zid s1 q i ↔ Guard cfg zid s q i ∧ q ≠ b) := by
  have hmem : ∀ q i m, q ∈ s1.free_list i m ↔ q ∈ s.free_list i m ∧ q ≠ b := by
    intro q i m
    rw [hl, (hwf.nodup i m).mem_erase_iff]
    exact And.comm
  have hfree : ∀ q i, Free s1 q i ↔ Free s q i ∧ q ≠ b := by
    intro q i
    unfold Free
    constructor
    · rintro ⟨m, hm⟩
      exact ⟨⟨m, ((hmem q i m).1 hm).1⟩, ((hmem q i m).1 hm).2⟩
    · rintro ⟨⟨m, hm⟩, hne⟩
      exact ⟨m, (hmem q i m).2 ⟨hm, hne⟩⟩
  have hguard : ∀ q i, Guard cfg zid s1 q i ↔ Guard cfg zid s q i ∧ q ≠ b := by
    intro q i
    unfold Guard
    rw [hst.valid, hst.zone]
    by_cases hq : q = b
    · subst hq
      simp [hb2]
    · rw [(hfl q hq).2.1]
      constructor
      · rintro ⟨a, b', c, d⟩
        exact ⟨⟨a, b', c, by rw [← (hfl q hq).2.2 (Or.inr c)]; exact d⟩, hq⟩
      · rintro ⟨⟨a, b', c, d⟩, _⟩
        exact ⟨a, b', c, by rw [(hfl q hq).2.2 (Or.inr c)]; exact d⟩
  have hblk : ∀ q i, Blk cfg zid s1 q i → Blk cfg zid s q i ∧ q ≠ b := by
    intro q i h
    rcases h with h | h
    · exact ⟨Or.inl ((hfree q i).1 h).1, ((hfree q i).1 h).2⟩
    · exact ⟨Or.inr ((hguard q i).1 h).1, ((hguard q i).1 h).2⟩
  have hwf1 : WF cfg zid s1 := by
    refine ⟨?_, ?_, ?_, ?_, ?_, ?_, ?_⟩
    · intro k m p hp
      obtain ⟨hp1, hne⟩ := (hmem p k m).1 hp
      obtain ⟨a, b', c, d⟩ := hwf.listed k m p hp1
      exact ⟨a, hst.blockOK b', by rw [(hfl p hne).1]; exact c,
        by rw [(hfl p hne).2.2 (Or.inl c)]; exact d⟩
    · intro k m; rw [hl]; exact (hwf.nodup k m).erase b
    · intro k m m' p h1 h2
      exact hwf.one_list k m m' p ((hmem p k m).1 h1).1 ((hmem p k m').1 h2).1
    · intro p hv hz hpb
      have hne : p ≠ b := by
        intro h; rw [h, hb1] at hpb; exact Bool.noConfusion hpb
      rw [hst.valid] at hv; rw [hst.zone] at hz; rw [(hfl p hne).1] at hpb
      rw [hfree, (hfl p hne).2.2 (Or.inl hpb)]
      exact ⟨hwf.flagged p hv hz hpb, hne⟩
    · intro p k hg
      obtain ⟨hg1, hne⟩ := (hguard p k).1 hg
      obtain ⟨a, b'⟩ := hwf.guards p k hg1
      exact ⟨hst.blockOK a, by rw [(hfl p hne).1]; exact b'⟩
    · intro p k q i h1 h2
      exact hwf.disjoint p k q i (hblk p k h1).1 (hblk q i h2).1
    · intro x h1 h2 h3
      rw [hst.2.1] at h1 h2; rw [hst.2.2.1] at h2; rw [hst.valid] at h3; rw [hst.zone]
      exact hwf.span x h1 h2 h3
  refine ⟨⟨hwf1, hst.blockOK (Blk.ok_of_wf hwf hb), ?_⟩, hfree, hguard⟩
  intro q i hq hov
  obtain ⟨hq1, hne⟩ := hblk q i hq
  exact hne (hwf.disjoint b j q i hb hq1 hov).1.symm


/-- Putting the block in use `(p, k)` on a free list, at either end. -/
theorem Pending.insert_free {cfg : Config} {zid : Nat} {s s1 : State} {p k m : Nat}
    (hp : Pending cfg zid s p k) (hm : m < MIGRATE_TYPES) (hst : SameStatic s s1)
    (hl1 : ∀ i m', ¬ (i = k ∧ m' = m) → s1.free_list i m' = s.free_list i m')
    (hl2 : s1.free_list k m = p :: s.free_list k m ∨
      s1.free_list k m = s.free_list k m ++ [p])
    (hfl : ∀ x, x ≠ p → SameFlags cfg s s1 x)
    (hp1 : PageBuddy (s1.mem_map p) = true) (hp2 : page_order (s1.mem_map p) = k)
    (hp3 : page_is_guard cfg (s1.mem_map p) = false) :
    WF cfg zid s1 ∧ (∀ q i, Free s1 q i ↔ Free s q i ∨ (q = p ∧ i = k)) ∧
      (∀ q i, Guard cfg zid s1 q i ↔ Guard cfg zid s q i) := by
  have hwf := hp.wf
  have hpos := Nat.two_pow_pos k
  have hnot : ∀ i m', p ∉ s.free_list i m' := by
    intro i m' h
    exact hp.not_blk (Nat.le_refl p) (by omega) i (Or.inl ⟨m', h⟩)
  have hmem : ∀ q i m', q ∈ s1.free_list i m' ↔
      q ∈ s.free_list i m' ∨ (q = p ∧ i = k ∧ m' = m) := by
    intro q i m'
    by_cases h : i = k ∧ m' = m
    · obtain ⟨rfl, rfl⟩ := h
      rcases hl2 with h2 | h2
      · rw [h2]; simp; exact or_comm
      · rw [h2]; simp
    · rw [hl1 i m' h]
      constructor
      · intro h1; exact Or.inl h1
      · rintro (h1 | ⟨_, h2, h3⟩)
        · exact h1
        · exact absurd ⟨h2, h3⟩ h
  have hfree : ∀ q i, Free s1 q i ↔ Free s q i ∨ (q = p ∧ i = k) := by
    intro q i
    unfold Free
    constructor
    · rintro ⟨m', h⟩
      rcases (hmem q i m').1 h with h1 | ⟨h1, h2, _⟩
      · exact Or.inl ⟨m', h1⟩
      · exact Or.inr ⟨h1, h2⟩
    · rintro (⟨m', h⟩ | ⟨h1, h2⟩)
      · exact ⟨m', (hmem q i m').2 (Or.inl h)⟩
      · exact ⟨m, (hmem q i m).2 (Or.inr ⟨h1, h2, rfl⟩)⟩
  have hguard : ∀ q i, Guard cfg zid s1 q i ↔ Guard cfg zid s q i := by
    intro q i
    unfold Guard
    rw [hst.valid, hst.zone]
    by_cases hq : q = p
    · subst hq
      have := (hp.unflagged (Nat.le_refl q) (by omega)).2
      simp [hp3, this]
    · rw [(hfl q hq).2.1]
      constructor
      · rintro ⟨a, b', c, d⟩
        exact ⟨a, b', c, by rw [← (hfl q hq).2.2 (Or.inr c)]; exact d⟩
      · rintro ⟨a, b', c, d⟩
        exact ⟨a, b', c, by rw [(hfl q hq).2.2 (Or.inr c)]; exact d⟩
  have hblk : ∀ q i, Blk cfg zid s1 q i → Blk cfg zid s q i ∨ (q = p ∧ i = k) := by
    intro q i h
    rcases h with h | h
    · rcases (hfree q i).1 h with h1 | h1
      · exact Or.inl (Or.inl h1)
      · exact Or.inr h1
    · exact Or.inl (Or.inr ((hguard q i).1 h))
  refine ⟨⟨?_, ?_, ?_, ?_, ?_, ?_, ?_⟩, hfree, hguard⟩
  · intro i m' q hq
    rcases (hmem q i m').1 hq with h1 | ⟨h1, h2, h3⟩
    · have hne : q ≠ p := by intro h; rw [h] at h1; exact hnot i m' h1
      obtain ⟨a, b', c, d⟩ := hwf.listed i m' q h1
      exact ⟨a, hst.blockOK b', by rw [(hfl q hne).1]; exact c,
        by rw [(hfl q hne).2.2 (Or.inl c)]; exact d⟩
    · subst h1 h2 h3
      exact ⟨hm, hst.blockOK hp.ok, hp1, hp2⟩
  · intro i m'
    by_cases h : i = k ∧ m' = m
    · obtain ⟨rfl, rfl⟩ := h
      rcases hl2 with h2 | h2
      · rw [h2]; exact List.nodup_cons.2 ⟨hnot _ _, hwf.nodup _ _⟩
      · rw [h2]
        apply List.Nodup.append (hwf.nodup _ _) (List.nodup_singleton p)
        intro a ha hb
        rw [List.mem_singleton] at hb
        rw [hb] at ha
        exact hnot _ _ ha
    · rw [hl1 i m' h]; exact hwf.nodup i m'
  · intro i m' m'' q h1 h2
    rcases (hmem q i m').1 h1 with a | ⟨a1, a2, a3⟩
    · rcases (hmem q i m'').1 h2 with b' | ⟨b1, _, _⟩
      · exact hwf.one_list i m' m'' q a b'
      · rw [b1] at a; exact absurd a (hnot _ _)
    · rcases (hmem q i m'').1 h2 with b' | ⟨_, _, b3⟩
      · rw [a1] at b'; exact absurd b' (hnot _ _)
      · rw [a3, b3]
  · intro q hv hz hpb
    by_cases hq : q = p
    · subst hq
      rw [hp2, hfree]
      exact Or.inr ⟨rfl, rfl⟩
    · rw [hst.valid] at hv; rw [hst.zone] at hz; rw [(hfl q hq).1] at hpb
      rw [hfree, (hfl q hq).2.2 (Or.inl hpb)]
      exact Or.inl (hwf.flagged q hv hz hpb)
  · intro q i hg
    have hg1 := (hguard q i).1 hg
    have hq : q ≠ p := by
      intro h
      rw [h] at hg
      have := hg.2.2.1
      rw [hp3] at this
      exact Bool.noConfusion this
    obtain ⟨a, b'⟩ := hwf.guards q i hg1
    exact ⟨hst.blockOK a, by rw [(hfl q hq).1]; exact b'⟩
  · intro q i q' i' h1 h2 hov
    rcases hblk q i h1 with a | ⟨a1, a2⟩
    · rcases hblk q' i' h2 with b' | ⟨b1, b2⟩
      · exact hwf.disjoint q i q' i' a b' hov
      · subst b1 b2
        exact absurd ⟨hov.2, hov.1⟩ (hp.apart q i a)
    · rcases hblk q' i' h2 with b' | ⟨b1, b2⟩
      · subst a1 a2
        exact absurd hov (hp.apart q' i' b')
      · exact ⟨a1.trans b1.symm, a2.trans b2.symm⟩
  · intro x h1 h2 h3
    rw [hst.2.1] at h1 h2; rw [hst.2.2.1] at h2; rw [hst.valid] at h3; rw [hst.zone]
    exact hwf.span x h1 h2 h3

/-- Setting the block in use `(p, k)` aside as a guard block. -/
theorem Pending.insert_guard {cfg : Config} {zid : Nat} {s s1 : State} {p k : Nat}
    (hp : Pending cfg zid s p k) (hst : SameStatic s s1)
    (hl : s1.free_list = s.free_list)
    (hfl : ∀ x, x ≠ p → SameFlags cfg s s1 x)
    (hp1 : PageBuddy (s1.mem_map p) = false) (hp2 : page_order (s1.mem_map p) = k)
    (hp3 : page_is_guard cfg (s1.mem_map p) = true) :
    WF cfg zid s1 ∧ (∀ q i, Free s1 q i ↔ Free s q i) ∧
      (∀ q i, Guard cfg zid s1 q i ↔ Guard cfg zid s q i ∨ (q = p ∧ i = k)) := by
  have hwf := hp.wf
  have hpos := Nat.two_pow_pos k
  have hfree : ∀ q i, Free s1 q i ↔ Free s q i := by
    intro q i; unfold Free; rw [hl]
  have hunfl := hp.unflagged (Nat.le_refl p) (by omega)
  have hguard : ∀ q i, Guard cfg zid s1 q i ↔ Guard cfg zid s q i ∨ (q = p ∧ i = k) := by
    intro q i
    unfold Guard
    rw [hst.valid, hst.zone]
    by_cases hq : q = p
    · subst hq
      have hh := hp.ok.head
      simp [hp3, hp2, hunfl.2, hh.1, hh.2]
      exact eq_comm
    · rw [(hfl q hq).2.1]
      constructor
      · rintro ⟨a, b', c, d⟩
        exact Or.inl ⟨a, b', c, by rw [← (hfl q hq).2.2 (Or.inr c)]; exact d⟩
      · rintro (⟨a, b', c, d⟩ | ⟨h, _⟩)
        · exact ⟨a, b', c, by rw [(hfl q hq).2.2 (Or.inr c)]; exact d⟩
        · exact absurd h hq
  have hblk : ∀ q i, Blk cfg zid s1 q i → Blk cfg zid s q i ∨ (q = p ∧ i = k) := by
    intro q i h
    rcases h with h | h
    · exact Or.inl (Or.inl ((hfree q i).1 h))
    · rcases (hguard q i).1 h with h1 | h1
      · exact Or.inl (Or.inr h1)
      · exact Or.inr h1
  have hnot : ∀ i m', p ∉ s.free_list i m' := by
    intro i m' h
    exact hp.not_blk (Nat.le_refl p) (by omega) i (Or.inl ⟨m', h⟩)
  refine ⟨⟨?_, ?_, ?_, ?_, ?_, ?_, ?_⟩, hfree, hguard⟩
  · intro i m' q hq
    rw [hl] at hq
    have hne : q ≠ p := by intro h; rw [h] at hq; exact hnot i m' hq
    obtain ⟨a, b', c, d⟩ := hwf.listed i m' q hq
    exact ⟨a, hst.blockOK b', by rw [(hfl q hne).1]; exact c,
      by rw [(hfl q hne).2.2 (Or.inl c)]; exact d⟩
  · intro i m'; rw [hl]; exact hwf.nodup i m'
  · intro i m' m'' q; rw [hl]; exact hwf.one_list i m' m'' q
  · intro q hv hz hpb
    have hq : q ≠ p := by
      intro h; rw [h, hp1] at hpb; exact Bool.noConfusion hpb
    rw [hst.valid] at hv; rw [hst.zone] at hz; rw [(hfl q hq).1] at hpb
    rw [hfree, (hfl q hq).2.2 (Or.inl hpb)]
    exact hwf.flagged q hv hz hpb
  · intro q i hg
    rcases (hguard q i).1 hg with h | ⟨h1, h2⟩
    · have hq : q ≠ p := by
        intro h'
        rw [h'] at h
        have := h.2.2.1
        rw [hunfl.2] at this
        exact Bool.noConfusion this
      obtain ⟨a, b'⟩ := hwf.guards q i h
      exact ⟨hst.blockOK a, by rw [(hfl q hq).1]; exact b'⟩
    · subst h1 h2
      exact ⟨hst.blockOK hp.ok, hp1⟩
  · intro q i q' i' h1 h2 hov
    rcases hblk q i h1 with a | ⟨a1, a2⟩
    · rcases hblk q' i' h2 with b' | ⟨b1, b2⟩
      · exact hwf.disjoint q i q' i' a b' hov
      · subst b1 b2
        exact absurd ⟨hov.2, hov.1⟩ (hp.apart q i a)
    · rcases hblk q' i' h2 with b' | ⟨b1, b2⟩
      · subst a1 a2
        exact absurd hov (hp.apart q' i' b')
      · exact ⟨a1.trans b1.symm, a2.trans b2.symm⟩
  · intro x h1 h2 h3
    rw [hst.2.1] at h1 h2; rw [hst.2.2.1] at h2; rw [hst.valid] at h3; rw [hst.zone]
    exact hwf.span x h1 h2 h3

/-! ## One merge step -/

/-- The two positions of a buddy: above an even block, below an odd one;
the parent block starts at the lower of the two. -/
theorem buddy_cases (p j : Nat) (h : 2 ^ j ∣ p) :
    (__find_buddy_index p j = p + 2 ^ j ∧ block_start p (j + 1) = p) ∨
    (2 ^ j ≤ p ∧ __find_buddy_index p j = p - 2 ^ j ∧ block_start p (j + 1) = p - 2 ^ j) := by
  have hb := find_buddy_index_of_dvd p j h
  have hs := block_start_eq_sub p (j + 1)
  have hm : p % 2 ^ (j + 1) = 2 ^ j * (p / 2 ^ j % 2) := by
    obtain ⟨y, rfl⟩ := h
    rw [Nat.pow_succ, Nat.mul_mod_mul_left, Nat.mul_div_cancel_left _ (Nat.two_pow_pos j)]
  by_cases hpar : p / 2 ^ j % 2 = 0
  · left
    rw [hpar] at hm
    rw [hb, hs, hm, if_pos hpar]
    simp
  · right
    have h1 : p / 2 ^ j % 2 = 1 := by omega
    have hle := two_pow_le_of_odd p j hpar
    rw [h1] at hm
    rw [hb, hs, hm, if_neg hpar]
    simp [hle]

theorem set_page_private_static (s : State) (p v : Nat) :
    SameStatic s (set_page_private s p v) := by
  refine ⟨rfl, rfl, rfl, fun x => ?_⟩
  by_cases hx : x = p <;> simp [set_page_private, upd, hx]

theorem set_page_guard_flag_static (cfg : Config) (s : State) (p : Nat) :
    SameStatic s (set_page_guard_flag cfg s p) := by
  unfold set_page_guard_flag
  split
  · refine ⟨rfl, rfl, rfl, fun x => ?_⟩
    by_cases hx : x = p <;> simp [upd, hx]
  · exact SameStatic.refl s

theorem clear_page_guard_flag_static (cfg : Config) (s : State) (p : Nat) :
    SameStatic s (clear_page_guard_flag cfg s p) := by
  unfold clear_page_guard_flag
  split
  · refine ⟨rfl, rfl, rfl, fun x => ?_⟩
    by_cases hx : x = p <;> simp [upd, hx]
  · exact SameStatic.refl s

theorem set_page_order_static (s : State) (p k : Nat) :
    SameStatic s (set_page_order s p k) := by
  refine ⟨rfl, rfl, rfl, fun x => ?_⟩
  by_cases hx : x = p <;> simp [set_page_order, upd, hx]

theorem rmv_page_order_static (s : State) (p : Nat) :
    SameStatic s (rmv_page_order s p) := by
  refine ⟨rfl, rfl, rfl, fun x => ?_⟩
  by_cases hx : x = p <;> simp [rmv_page_order, upd, hx]

theorem mod_free_pages_static (s : State) (d : Int) : SameStatic s (mod_free_pages s d) :=
  ⟨rfl, rfl, rfl, fun _ => ⟨rfl, rfl⟩⟩

theorem nr_free_inc_static (cfg : Config) (s : State) (k : Nat) :
    SameStatic s (nr_free_inc cfg s k) :=
  ⟨rfl, rfl, rfl, fun _ => ⟨rfl, rfl⟩⟩

theorem nr_free_dec_static (cfg : Config) (s : State) (k : Nat) :
    SameStatic s (nr_free_dec cfg s k) :=
  ⟨rfl, rfl, rfl, fun _ => ⟨rfl, rfl⟩⟩

theorem list_del_static (s : State) (p : Nat) : SameStatic s (list_del s p) :=
  ⟨rfl, rfl, rfl, fun _ => ⟨rfl, rfl⟩⟩

theorem list_add_static (s : State) (p k m : Nat) : SameStatic s (list_add s p k m) :=
  ⟨rfl, rfl, rfl, fun _ => ⟨rfl, rfl⟩⟩

theorem list_add_tail_static (s : State) (p k m : Nat) :
    SameStatic s (list_add_tail s p k m) :=
  ⟨rfl, rfl, rfl, fun _ => ⟨rfl, rfl⟩⟩

theorem merge_buddy_static (cfg : Config) (s : State) (p b j : Nat) :
    SameStatic s (merge_buddy cfg s p b j) := by
  unfold merge_buddy
  split
  · exact ((clear_page_guard_flag_static cfg s b).trans
      (set_page_private_static _ p 0)).trans (mod_free_pages_static _ _)
  · exact ((list_del_static s b).trans (nr_free_dec_static cfg _ j)).trans
      (rmv_page_order_static _ b)


theorem Overlap.parent {p b j q i : Nat}
    (hc : (b = p + 2 ^ j ∧ block_start p (j + 1) = p) ∨
      (2 ^ j ≤ p ∧ b = p - 2 ^ j ∧ block_start p (j + 1) = p - 2 ^ j))
    (h : Overlap (block_start p (j + 1)) (j + 1) q i) : Overlap p j q i ∨ Overlap b j q i := by
  have hpow : (2:Nat) ^ (j + 1) = 2 * 2 ^ j := by rw [Nat.pow_succ]; omega
  have hi := Nat.two_pow_pos i
  have hj := Nat.two_pow_pos j
  unfold Overlap at *
  rcases hc with ⟨h1, h2⟩ | ⟨h0, h1, h2⟩
  · rw [h2, hpow] at h; rw [h1]; omega
  · rw [h2, hpow] at h; rw [h1]; omega

theorem Overlap.of_child {p b j q i : Nat}
    (hc : (b = p + 2 ^ j ∧ block_start p (j + 1) = p) ∨
      (2 ^ j ≤ p ∧ b = p - 2 ^ j ∧ block_start p (j + 1) = p - 2 ^ j))
    (h : Overlap p j q i ∨ Overlap b j q i) : Overlap (block_start p (j + 1)) (j + 1) q i := by
  have hpow : (2:Nat) ^ (j + 1) = 2 * 2 ^ j := by rw [Nat.pow_succ]; omega
  have hi := Nat.two_pow_pos i
  have hj := Nat.two_pow_pos j
  unfold Overlap at *
  rcases hc with ⟨h1, h2⟩ | ⟨h0, h1, h2⟩
  · rw [h2, hpow]; rw [h1] at h; omega
  · rw [h2, hpow]; rw [h1] at h; omega

/-- One merge step keeps the loop invariant: the buddy was a block of the
buddy system, it is taken out, and the parent block is then in use. -/
theorem merge_buddy_pending {cfg : Config} {zid : Nat} {s : State} {p j : Nat}
    (hp : Pending cfg zid s p j) (hj : j + 1 < cfg.MAX_ORDER)
    (hb : page_is_buddy cfg s p (__find_buddy_index p j) j = true) :
    Blk cfg zid s (__find_buddy_index p j) j ∧
    Pending cfg zid (merge_buddy cfg s p (__find_buddy_index p j) j)
      (block_start p (j + 1)) (j + 1) ∧
    (∀ q i, Free (merge_buddy cfg s p (__find_buddy_index p j) j) q i ↔
      Free s q i ∧ q ≠ __find_buddy_index p j) ∧
    (∀ q i, Guard cfg zid (merge_buddy cfg s p (__find_buddy_index p j) j) q i ↔
      Guard cfg zid s q i ∧ q ≠ __find_buddy_index p j) ∧
    (∀ i m, (merge_buddy cfg s p (__find_buddy_index p j) j).free_list i m =
      (s.free_list i m).erase (__find_buddy_index p j)) := by
  have hwf := hp.wf
  have hpos := Nat.two_pow_pos j
  have hcases := buddy_cases p j hp.ok.2.1
  generalize hbdef : __find_buddy_index p j = b at *
  have hne : b ≠ p := by
    rcases hcases with ⟨h1, _⟩ | ⟨_, h1, _⟩ <;> omega
  have hblk : Blk cfg zid s b j := (page_is_buddy_iff_blk hwf hp.ok.head.2 b j).1 hb
  have hbok := Blk.ok_of_wf hwf hblk
  have hpun := hp.unflagged (Nat.le_refl p) (by omega)
  have hst := merge_buddy_static cfg s p b j
  -- the effect of the step, in both branches
  have hstep : (∀ i m, (merge_buddy cfg s p b j).free_list i m = (s.free_list i m).erase b) ∧
      (∀ x, x ≠ b → SameFlags cfg s (merge_buddy cfg s p b j) x) ∧
      PageBuddy ((merge_buddy cfg s p b j).mem_map b) = false ∧
      page_is_guard cfg ((merge_buddy cfg s p b j).mem_map b) = false := by
    by_cases hg : page_is_guard cfg (s.mem_map b) = true
    · have hcfg : cfg.CONFIG_DEBUG_PAGEALLOC = true := by
        unfold page_is_guard at hg; simp at hg; exact hg.1
      have hguard : Guard cfg zid s b (page_order (s.mem_map b)) :=
        ⟨hbok.head.1, hbok.head.2, hg, rfl⟩
      have hnb : PageBuddy (s.mem_map b) = false := (hwf.guards _ _ hguard).2
      have hnl : ∀ i m, b ∉ s.free_list i m := by
        intro i m h
        have := (hwf.listed i m b h).2.2.1
        rw [hnb] at this
        exact Bool.noConfusion this
      unfold merge_buddy
      rw [if_pos hg]
      refine ⟨?_, ?_, ?_, ?_⟩
      · intro i m
        rw [List.erase_of_not_mem (hnl i m)]
        simp [mod_free_pages, set_page_private, clear_page_guard_flag, hcfg]
      · intro x hx
        by_cases hxp : x = p
        · subst hxp
          simp [mod_free_pages, set_page_private, clear_page_guard_flag, hcfg, upd, hx,
            SameFlags, PageBuddy, page_is_guard, page_order]
          intro h
          unfold PageBuddy page_is_guard at hpun
          simp [hcfg] at hpun
          rcases h with h | h
          · exact absurd h hpun.1
          · rw [hpun.2] at h; exact absurd h (by decide)
        · simp [mod_free_pages, set_page_private, clear_page_guard_flag, hcfg, upd, hx, hxp,
            SameFlags]
      · simp [mod_free_pages, set_page_private, clear_page_guard_flag, hcfg, upd, hne,
          PageBuddy]
        simpa [PageBuddy] using hnb
      · simp [mod_free_pages, set_page_private, clear_page_guard_flag, hcfg, upd, hne,
          page_is_guard]
    · have hg' : page_is_guard cfg (s.mem_map b) = false := by simpa using hg
      unfold merge_buddy
      rw [if_neg hg]
      refine ⟨?_, ?_, ?_, ?_⟩
      · intro i m; rfl
      · intro x hx
        simp [rmv_page_order, nr_free_dec, list_del, upd, hx, SameFlags]
      · simp [rmv_page_order, nr_free_dec, list_del, upd, PageBuddy]
      · simp only [rmv_page_order, nr_free_dec, list_del, upd, page_is_guard] at hg' ⊢
        simpa using hg'
  obtain ⟨hl, hfl, hb1, hb2⟩ := hstep
  obtain ⟨hpb, hfree, hguard⟩ := hwf.remove hblk hst hl hfl hb1 hb2
  have hblk1 : ∀ q i, Blk cfg zid (merge_buddy cfg s p b j) q i → Blk cfg zid s q i := by
    intro q i h
    rcases h with h | h
    · exact Or.inl ((hfree q i).1 h).1
    · exact Or.inr ((hguard q i).1 h).1
  refine ⟨hblk, ⟨hpb.wf, ?_, ?_⟩, hfree, hguard, hl⟩
  · -- the parent block is a legal block
    have hpow : (2:Nat) ^ (j + 1) = 2 * 2 ^ j := by rw [Nat.pow_succ]; omega
    have hpok := hst.blockOK hp.ok
    have hbok1 := hpb.ok
    refine ⟨hj, dvd_block_start p (j + 1), ?_, ?_⟩
    · rcases hcases with ⟨_, h2⟩ | ⟨_, h1, h2⟩
      · rw [h2]; exact hpok.2.2.1
      · rw [h2, ← h1]; exact hbok1.2.2.1
    · intro i hi
      rcases hcases with ⟨h1, h2⟩ | ⟨h0, h1, h2⟩
      · rw [h2]
        by_cases hi2 : i < 2 ^ j
        · exact hpok.2.2.2 i hi2
        · have := @BlockOK.page _ _ _ _ _ hbok1 (p + i) (by omega) (by omega)
          exact this
      · rw [h2]
        by_cases hi2 : i < 2 ^ j
        · have := @BlockOK.page _ _ _ _ _ hbok1 (p - 2 ^ j + i) (by omega) (by omega)
          exact this
        · have := @BlockOK.page _ _ _ _ _ hpok (p - 2 ^ j + i) (by omega) (by omega)
          exact this
  · intro q i hq hov
    rcases Overlap.parent hcases hov with h | h
    · exact hp.apart q i (hblk1 q i hq) h
    · exact hpb.apart q i hq h

/-! ## The merge loop under the invariant -/

theorem Overlap.self (b j i : Nat) : Overlap b j b i := by
  have := Nat.two_pow_pos i
  have := Nat.two_pow_pos j
  unfold Overlap; omega

theorem merge_buddy_mem (cfg : Config) (s : State) (p b j x : Nat) (h1 : x ≠ p)
    (h2 : x ≠ b) : (merge_buddy cfg s p b j).mem_map x = s.mem_map x := by
  unfold merge_buddy
  split
  · simp only [mod_free_pages, set_page_private, clear_page_guard_flag]
    split <;> simp [upd, h1, h2]
  · simp [rmv_page_order, nr_free_dec, list_del, upd, h2]

theorem MergeInv.init {cfg : Config} {zid : Nat} {s : State} {p o : Nat}
    (hp : Pending cfg zid s p o) : MergeInv cfg zid s p o (free_vars_init cfg s p o) := by
  refine ⟨hp, and_mask_eq_mod p cfg.MAX_ORDER, Nat.le_refl o,
    (block_start_of_dvd p o hp.ok.2.1).symm, SameStatic.refl s, ?_, ?_, ?_, ?_, ?_⟩
  · intro x i
    exact ⟨fun h => ⟨h, hp.apart x i (Or.inl h)⟩, fun h => h.1⟩
  · intro x i
    exact ⟨fun h => ⟨h, hp.apart x i (Or.inr h)⟩, fun h => h.1⟩
  · intro j h1 h2
    exact absurd h2 (Nat.not_lt.2 h1)
  · intro i m _; rfl
  · intro x _; rfl

theorem MergeInv.step {cfg : Config} {zid : Nat} {s0 : State} {p0 o0 : Nat} {v : FreeVars}
    (h : MergeInv cfg zid s0 p0 o0 v) (ho : v.order < cfg.MAX_ORDER - 1)
    (hb : page_is_buddy cfg v.s v.page (__find_buddy_index v.page v.order) v.order = true) :
    MergeInv cfg zid s0 p0 o0 (merge_next cfg v) := by
  obtain ⟨hblk, hpend, hfree, hguard, hl⟩ := merge_buddy_pending h.pending (by omega) hb
  have hcases := buddy_cases v.page v.order h.pending.ok.2.1
  have hbs0 : Blk cfg zid s0 (__find_buddy_index v.page v.order) v.order := by
    rcases hblk with hf | hg
    · exact Or.inl ((h.free_iff _ _).1 hf).1
    · exact Or.inr ((h.guard_iff _ _).1 hg).1
  refine ⟨hpend, rfl, Nat.le_succ_of_le h.ge, ?_, h.static.trans (merge_buddy_static _ _ _ _ _),
    ?_, ?_, ?_, ?_, ?_⟩
  · show block_start v.page (v.order + 1) = block_start p0 (v.order + 1)
    rw [h.page_eq, block_start_block_start p0 v.order (v.order + 1) (Nat.le_succ _)]
  · intro x i
    show Free (merge_buddy cfg v.s v.page (__find_buddy_index v.page v.order) v.order) x i ↔
      Free s0 x i ∧ ¬ Overlap (block_start v.page (v.order + 1)) (v.order + 1) x i
    rw [hfree, h.free_iff]
    constructor
    · rintro ⟨⟨h1, h2⟩, h3⟩
      refine ⟨h1, fun hov => ?_⟩
      have hx : Free (merge_buddy cfg v.s v.page (__find_buddy_index v.page v.order) v.order) x i :=
        (hfree x i).2 ⟨(h.free_iff x i).2 ⟨h1, h2⟩, h3⟩
      exact hpend.apart x i (Or.inl hx) hov
    · rintro ⟨h1, h2⟩
      refine ⟨⟨h1, fun hov => h2 (Overlap.of_child hcases (Or.inl hov))⟩, fun hx => ?_⟩
      rw [hx] at h2
      exact h2 (Overlap.of_child hcases (Or.inr (Overlap.self _ _ _)))
  · intro x i
    show Guard cfg zid (merge_buddy cfg v.s v.page (__find_buddy_index v.page v.order) v.order)
        x i ↔
      Guard cfg zid s0 x i ∧ ¬ Overlap (block_start v.page (v.order + 1)) (v.order + 1) x i
    rw [hguard, h.guard_iff]
    constructor
    · rintro ⟨⟨h1, h2⟩, h3⟩
      refine ⟨h1, fun hov => ?_⟩
      have hx : Guard cfg zid
          (merge_buddy cfg v.s v.page (__find_buddy_index v.page v.order) v.order) x i :=
        (hguard x i).2 ⟨(h.guard_iff x i).2 ⟨h1, h2⟩, h3⟩
      exact hpend.apart x i (Or.inr hx) hov
    · rintro ⟨h1, h2⟩
      refine ⟨⟨h1, fun hov => h2 (Overlap.of_child hcases (Or.inl hov))⟩, fun hx => ?_⟩
      rw [hx] at h2
      exact h2 (Overlap.of_child hcases (Or.inr (Overlap.self _ _ _)))
  · intro j h1 h2
    have h2' : j < v.order + 1 := h2
    by_cases hj : j = v.order
    · rw [hj, ← h.page_eq]; exact hbs0
    · exact h.merged j h1 (by omega)
  · intro i m hi
    have hi' : v.order + 1 ≤ i := hi
    show (merge_buddy cfg v.s v.page (__find_buddy_index v.page v.order) v.order).free_list i m
      = s0.free_list i m
    rw [hl, ← h.lists i m (by omega)]
    apply List.erase_of_not_mem
    intro hmem
    have := h.pending.wf.disjoint _ _ _ _ hblk (Or.inl ⟨m, hmem⟩) (Overlap.self _ _ _)
    omega
  · intro x hx
    have hx' : x < block_start v.page (v.order + 1) ∨
        block_start v.page (v.order + 1) + 2 ^ (v.order + 1) ≤ x := hx
    have hpow : (2:Nat) ^ (v.order + 1) = 2 * 2 ^ v.order := by rw [Nat.pow_succ]; omega
    have hpos := Nat.two_pow_pos v.order
    show (merge_buddy cfg v.s v.page (__find_buddy_index v.page v.order) v.order).mem_map x
      = s0.mem_map x
    rw [merge_buddy_mem, h.frame x]
    · rcases hcases with ⟨_, c2⟩ | ⟨_, _, c2⟩ <;> rw [c2] at hx' <;> omega
    · rcases hcases with ⟨_, c2⟩ | ⟨_, _, c2⟩ <;> rw [c2] at hx' <;> omega
    · rcases hcases with ⟨c1, c2⟩ | ⟨_, c1, c2⟩ <;> rw [c2] at hx' <;> rw [c1] <;> omega

/-- The merge loop of `__free_one_page`, started on a block in use: the
invariant holds when the loop is left, and if it is left below
`MAX_ORDER - 1` it is left through `break`, the buddy test having failed. -/
theorem free_vars_final_spec {cfg : Config} {zid : Nat} {s : State} {p o : Nat}
    (hp : Pending cfg zid s p o) :
    MergeInv cfg zid s p o (free_vars_final cfg s p o) ∧
    (free_vars_final cfg s p o).order < cfg.MAX_ORDER ∧
    ((free_vars_final cfg s p o).order + 1 < cfg.MAX_ORDER →
      (free_vars_final cfg s p o).buddy =
        __find_buddy_index (free_vars_final cfg s p o).page (free_vars_final cfg s p o).order ∧
      (free_vars_final cfg s p o).buddy_idx =
        __find_buddy_index (free_vars_final cfg s p o).page_idx
          (free_vars_final cfg s p o).order ∧
      page_is_buddy cfg (free_vars_final cfg s p o).s (free_vars_final cfg s p o).page
        (free_vars_final cfg s p o).buddy (free_vars_final cfg s p o).order = false) := by
  unfold free_vars_final
  apply free_merge_loop_rule cfg (MergeInv cfg zid s p o)
    (fun v => MergeInv cfg zid s p o v ∧ v.order < cfg.MAX_ORDER ∧
      (v.order + 1 < cfg.MAX_ORDER →
        v.buddy = __find_buddy_index v.page v.order ∧
        v.buddy_idx = __find_buddy_index v.page_idx v.order ∧
        page_is_buddy cfg v.s v.page v.buddy v.order = false))
  · intro v hv; exact ⟨hv.idx, hv.pending.ok.2.1⟩
  · intro v hv ho hb; exact hv.step ho hb
  · intro v hv ho
    exact ⟨hv, hv.pending.ok.1, fun h => absurd (by omega) ho⟩
  · intro v hv ho hb
    exact ⟨⟨hv.pending, hv.idx, hv.ge, hv.page_eq, hv.static, hv.free_iff, hv.guard_iff,
      hv.merged, hv.lists, hv.frame⟩, hv.pending.ok.1, fun _ => ⟨rfl, rfl, hb⟩⟩
  · show cfg.MAX_ORDER - 1 ≤ o + (cfg.MAX_ORDER - 1 - o)
    omega
  · exact MergeInv.init hp

/-! ## The insertion that ends `__free_one_page` -/

theorem page_is_buddy_congr (cfg : Config) {s s1 : State} (hst : SameStatic s s1)
    (p b j : Nat) (hb : s1.mem_map b = s.mem_map b) :
    page_is_buddy cfg s1 p b j = page_is_buddy cfg s p b j := by
  unfold page_is_buddy
  rw [hst.valid, hst.zone, hst.zone, hb]

/-- Marking the block in use `(p, k)` free and linking it at the head or
the tail of `free_list[k][mt]`. -/
theorem Pending.free_insert {cfg : Config} {zid : Nat} {s : State} {p k mt : Nat}
    (hp : Pending cfg zid s p k) (hm : mt < MIGRATE_TYPES) (tail : Bool) :
    let s' := nr_free_inc cfg
      (if tail = true then list_add_tail (set_page_order s p k) p k mt
        else list_add (set_page_order s p k) p k mt) k
    WF cfg zid s' ∧ (∀ q i, Free s' q i ↔ Free s q i ∨ (q = p ∧ i = k)) ∧
      (∀ q i, Guard cfg zid s' q i ↔ Guard cfg zid s q i) ∧ SameStatic s s' ∧
      s'.free_list k mt = (if tail = true then s.free_list k mt ++ [p]
        else p :: s.free_list k mt) ∧
      (∀ i m, ¬ (i = k ∧ m = mt) → s'.free_list i m = s.free_list i m) ∧
      (∀ x, x ≠ p → s'.mem_map x = s.mem_map x) := by
  intro s'
  have hpos := Nat.two_pow_pos k
  have hun := hp.unflagged (Nat.le_refl p) (by omega)
  have hst : SameStatic s s' := by
    show SameStatic s (nr_free_inc cfg _ k)
    cases tail
    · exact ((set_page_order_static s p k).trans (list_add_static _ p k mt)).trans
        (nr_free_inc_static cfg _ k)
    · exact ((set_page_order_static s p k).trans (list_add_tail_static _ p k mt)).trans
        (nr_free_inc_static cfg _ k)
  have hmem : ∀ x, s'.mem_map x = (set_page_order s p k).mem_map x := by
    intro x
    show (nr_free_inc cfg _ k).mem_map x = _
    cases tail <;> rfl
  have hl1 : ∀ i m, ¬ (i = k ∧ m = mt) → s'.free_list i m = s.free_list i m := by
    intro i m h
    show (nr_free_inc cfg _ k).free_list i m = _
    cases tail <;> simp [nr_free_inc, list_add, list_add_tail, set_page_order, upd_list, h]
  have hl2 : s'.free_list k mt = (if tail = true then s.free_list k mt ++ [p]
      else p :: s.free_list k mt) := by
    show (nr_free_inc cfg _ k).free_list k mt = _
    cases tail <;> simp [nr_free_inc, list_add, list_add_tail, set_page_order, upd_list]
  have hmx : ∀ x, x ≠ p → s'.mem_map x = s.mem_map x := by
    intro x hx
    rw [hmem]
    simp [set_page_order, upd, hx]
  have hmp : s'.mem_map p = { s.mem_map p with private_ := k, mapcount := -2 } := by
    rw [hmem]
    simp [set_page_order, upd]
  obtain ⟨h1, h2, h3⟩ := @Pending.insert_free cfg zid s s' p k mt hp hm hst hl1
    (by cases tail
        · left; rw [hl2]; simp
        · right; rw [hl2]; simp)
    (fun x hx => by rw [SameFlags, hmx x hx]; exact ⟨rfl, rfl, fun _ => rfl⟩)
    (by rw [hmp]; rfl) (by rw [hmp]; rfl)
    (by rw [hmp]; exact hun.2)
  exact ⟨h1, h2, h3, hst, hl2, hl1, hmx⟩


/-- The tail test of `__free_one_page`, run on the state after the merge
loop, is the condition `free_tail_cond` read on the state before the call. -/
theorem free_tail_test_eq {cfg : Config} {zid : Nat} {s : State} {p o : Nat}
    (hp : Pending cfg zid s p o) (s1 : State) (hst : SameStatic s s1)
    (hfr : ∀ x, (x < (free_vars_final cfg s p o).page ∨
      (free_vars_final cfg s p o).page + 2 ^ (free_vars_final cfg s p o).order ≤ x) →
      s1.mem_map x = s.mem_map x) :
    free_tail_test cfg s1 (free_vars_final cfg s p o) =
      free_tail_cond cfg s p (free_merged_order cfg s p o) := by
  obtain ⟨hinv, hlt, hexit⟩ := free_vars_final_spec hp
  unfold free_merged_order
  generalize free_vars_final cfg s p o = v at *
  have hal := hinv.pending.ok.2.1
  unfold free_tail_test free_tail_cond
  by_cases hk : v.order + 2 < cfg.MAX_ORDER
  · have hk' : v.order < cfg.MAX_ORDER - 2 := by omega
    obtain ⟨e1, e2, _⟩ := hexit (by omega)
    have hc := combined_eq v.page v.order cfg.MAX_ORDER hal (by omega)
    have hb := buddy_ptr_eq (block_start v.page (v.order + 1)) (v.order + 1) cfg.MAX_ORDER
      (dvd_block_start _ _) (by omega)
    rw [← hinv.idx] at hc
    have hpe : block_start v.page (v.order + 1) = block_start p (v.order + 1) := by
      rw [hinv.page_eq, block_start_block_start p v.order (v.order + 1) (Nat.le_succ _)]
    have hcases := buddy_cases v.page v.order hal
    have hcases2 := buddy_cases (block_start v.page (v.order + 1)) (v.order + 1)
      (dvd_block_start _ _)
    have hpow : (2:Nat) ^ (v.order + 1) = 2 * 2 ^ v.order := by rw [Nat.pow_succ]; omega
    have hpos := Nat.two_pow_pos v.order
    have hout : s1.mem_map (__find_buddy_index (block_start v.page (v.order + 1)) (v.order + 1))
        = s.mem_map (__find_buddy_index (block_start v.page (v.order + 1)) (v.order + 1)) := by
      apply hfr
      rcases hcases2 with ⟨c1, _⟩ | ⟨c0, c1, _⟩
      · rw [c1]
        rcases hcases with ⟨_, d2⟩ | ⟨_, _, d2⟩ <;> rw [d2] <;> omega
      · rw [c1]
        rcases hcases with ⟨_, d2⟩ | ⟨_, _, d2⟩ <;> rw [d2] at c0 ⊢ <;> omega
    simp only [hk, hk', decide_True, Bool.true_and, e1, e2]
    rw [hc.2, hc.1, hb, hst.valid, page_is_buddy_congr cfg hst _ _ _ hout, hpe,
      ← hinv.page_eq]
    cases pfn_valid_within cfg s (__find_buddy_index v.page v.order) <;> simp
  · have hk' : ¬ v.order < cfg.MAX_ORDER - 2 := by omega
    simp [hk, hk']


theorem free_one_page_core_eq (cfg : Config) (s : State) (p o mt : Nat) :
    free_one_page_core cfg s p o mt =
      nr_free_inc cfg
        (if free_tail_test cfg
            (set_page_order (free_vars_final cfg s p o).s (free_vars_final cfg s p o).page
              (free_vars_final cfg s p o).order) (free_vars_final cfg s p o) = true then
          list_add_tail
            (set_page_order (free_vars_final cfg s p o).s (free_vars_final cfg s p o).page
              (free_vars_final cfg s p o).order)
            (free_vars_final cfg s p o).page (free_vars_final cfg s p o).order mt
        else
          list_add
            (set_page_order (free_vars_final cfg s p o).s (free_vars_final cfg s p o).page
              (free_vars_final cfg s p o).order)
            (free_vars_final cfg s p o).page (free_vars_final cfg s p o).order mt)
        (free_vars_final cfg s p o).order := rfl

theorem free_one_page_not_compound (cfg : Config) (s : State) (p o mt : Nat)
    (h : PageCompound (s.mem_map p) = false) :
    __free_one_page cfg s p o mt = free_one_page_core cfg s p o mt := by
  unfold __free_one_page; rw [h]; rfl

/-- What `__free_one_page` does with a block in use `(p, o)` (after the
compound check): with `k` the order the merge loop ends at, every buddy up to
`k` was held by the buddy system and the one at `k` is not (unless `k` is the
largest order); the result is well formed and holds the block of order `k`
around `p` in place of the blocks it covers; the block is linked at the tail
of `free_list[k][mt]` under `free_tail_cond`, at the head otherwise. -/
theorem free_one_page_core_spec {cfg : Config} {zid : Nat} {s : State} {p o mt : Nat}
    (hp : Pending cfg zid s p o) (hm : mt < MIGRATE_TYPES) :
    o ≤ free_merged_order cfg s p o ∧ free_merged_order cfg s p o < cfg.MAX_ORDER ∧
    (∀ j, o ≤ j → j < free_merged_order cfg s p o →
      Blk cfg zid s (__find_buddy_index (block_start p j) j) j) ∧
    (free_merged_order cfg s p o + 1 < cfg.MAX_ORDER →
      ¬ Blk cfg zid s
        (__find_buddy_index (block_start p (free_merged_order cfg s p o))
          (free_merged_order cfg s p o)) (free_merged_order cfg s p o)) ∧
    WF cfg zid (free_one_page_core cfg s p o mt) ∧
    (∀ x i, Free (free_one_page_core cfg s p o mt) x i ↔
      (Free s x i ∧ ¬ Overlap (block_start p (free_merged_order cfg s p o))
        (free_merged_order cfg s p o) x i) ∨
      (x = block_start p (free_merged_order cfg s p o) ∧ i = free_merged_order cfg s p o)) ∧
    (∀ x i, Guard cfg zid (free_one_page_core cfg s p o mt) x i ↔
      Guard cfg zid s x i ∧ ¬ Overlap (block_start p (free_merged_order cfg s p o))
        (free_merged_order cfg s p o) x i) ∧
    SameStatic s (free_one_page_core cfg s p o mt) ∧
    (free_one_page_core cfg s p o mt).free_list (free_merged_order cfg s p o) mt =
      (if free_tail_cond cfg s p (free_merged_order cfg s p o) = true then
        s.free_list (free_merged_order cfg s p o) mt ++
          [block_start p (free_merged_order cfg s p o)]
      else block_start p (free_merged_order cfg s p o) ::
        s.free_list (free_merged_order cfg s p o) mt) ∧
    (∀ i m, free_merged_order cfg s p o ≤ i → ¬ (i = free_merged_order cfg s p o ∧ m = mt) →
      (free_one_page_core cfg s p o mt).free_list i m = s.free_list i m) := by
  obtain ⟨hinv, hlt, hexit⟩ := free_vars_final_spec hp
  have hst1 : SameStatic s (set_page_order (free_vars_final cfg s p o).s
      (free_vars_final cfg s p o).page (free_vars_final cfg s p o).order) :=
    hinv.static.trans (set_page_order_static _ _ _)
  have htail := free_tail_test_eq hp _ hst1 (by
    intro x hx
    have hpos := Nat.two_pow_pos (free_vars_final cfg s p o).order
    have hne : x ≠ (free_vars_final cfg s p o).page := by omega
    rw [← hinv.frame x hx]
    simp [set_page_order, upd, hne])
  rw [free_one_page_core_eq, htail]
  have hins := hinv.pending.free_insert hm
    (free_tail_cond cfg s p (free_merged_order cfg s p o))
  unfold free_merged_order at *
  generalize free_vars_final cfg s p o = v at *
  have hpe := hinv.page_eq
  obtain ⟨i1, i2, i3, i4, i5, i6, _⟩ := hins
  rw [← hpe]
  refine ⟨hinv.ge, hlt, hinv.merged, ?_, i1, ?_, ?_, hinv.static.trans i4, ?_, ?_⟩
  · intro hk hblk
    obtain ⟨e1, _, e3⟩ := hexit hk
    rw [e1] at e3
    have hcases := buddy_cases v.page v.order hinv.pending.ok.2.1
    have hpos := Nat.two_pow_pos v.order
    have hno : ¬ Overlap v.page v.order (__find_buddy_index v.page v.order) v.order := by
      unfold Overlap
      rcases hcases with ⟨c1, _⟩ | ⟨_, c1, _⟩ <;> rw [c1] <;> omega
    have hblk' : Blk cfg zid v.s (__find_buddy_index v.page v.order) v.order := by
      rcases hblk with h | h
      · exact Or.inl ((hinv.free_iff _ _).2 ⟨h, hno⟩)
      · exact Or.inr ((hinv.guard_iff _ _).2 ⟨h, hno⟩)
    have := (page_is_buddy_iff_blk hinv.pending.wf hinv.pending.ok.head.2 _ _).2 hblk'
    rw [e3] at this
    exact Bool.noConfusion this
  · intro x i
    rw [i2, hinv.free_iff]
  · intro x i
    rw [i3, hinv.guard_iff]
  · rw [i5, hinv.lists _ _ (Nat.le_refl _)]
  · intro i m h1 h2
    rw [i6 i m h2, hinv.lists i m h1]

/-! ## The compound check of `__free_one_page` -/

theorem bad_page_static (s : State) (p : Nat) : SameStatic s (bad_page s p) := by
  refine ⟨rfl, rfl, rfl, fun x => ?_⟩
  by_cases hx : x = p <;> simp [bad_page, upd, hx]

theorem clearPageTail_static (s : State) (p : Nat) : SameStatic s (__ClearPageTail s p) := by
  refine ⟨rfl, rfl, rfl, fun x => ?_⟩
  by_cases hx : x = p <;> simp [__ClearPageTail, upd, hx]

theorem clearPageHead_static (s : State) (p : Nat) : SameStatic s (__ClearPageHead s p) := by
  refine ⟨rfl, rfl, rfl, fun x => ?_⟩
  by_cases hx : x = p <;> simp [__ClearPageHead, upd, hx]

theorem clearPageTail_fields (s : State) (p x : Nat) :
    ((__ClearPageTail s p).mem_map x).mapcount = (s.mem_map x).mapcount ∧
    ((__ClearPageTail s p).mem_map x).private_ = (s.mem_map x).private_ ∧
    ((__ClearPageTail s p).mem_map x).guard = (s.mem_map x).guard := by
  by_cases hx : x = p <;> simp [__ClearPageTail, upd, hx]

theorem clearPageHead_fields (s : State) (p x : Nat) :
    ((__ClearPageHead s p).mem_map x).mapcount = (s.mem_map x).mapcount ∧
    ((__ClearPageHead s p).mem_map x).private_ = (s.mem_map x).private_ ∧
    ((__ClearPageHead s p).mem_map x).guard = (s.mem_map x).guard := by
  by_cases hx : x = p <;> simp [__ClearPageHead, upd, hx]

/-- The tail loop of `destroy_compound_page` touches no list and no static
data and only raises `bad`; if it ends with `bad == 0` it changed nothing
but `PG_tail` bits. -/
theorem destroy_compound_loop_spec (page : Nat) :
    ∀ (n i : Nat) (s : State) (bad : Nat),
      bad ≤ (destroy_compound_loop page n i (s, bad)).2 ∧
      (destroy_compound_loop page n i (s, bad)).1.free_list = s.free_list ∧
      SameStatic s (destroy_compound_loop page n i (s, bad)).1 ∧
      ((destroy_compound_loop page n i (s, bad)).2 = 0 →
        ∀ x, ((destroy_compound_loop page n i (s, bad)).1.mem_map x).mapcount
            = (s.mem_map x).mapcount ∧
          ((destroy_compound_loop page n i (s, bad)).1.mem_map x).private_
            = (s.mem_map x).private_ ∧
          ((destroy_compound_loop page n i (s, bad)).1.mem_map x).guard
            = (s.mem_map x).guard) := by
  intro n
  induction n with
  | zero =>
    intro i s bad
    exact ⟨Nat.le_refl _, rfl, SameStatic.refl s, fun _ _ => ⟨rfl, rfl, rfl⟩⟩
  | succ n ih =>
    intro i s bad
    rw [destroy_compound_loop]
    split
    · obtain ⟨h1, h2, h3, h4⟩ := ih (i + 1) (__ClearPageTail (bad_page s page) (page + i))
        (bad + 1)
      refine ⟨by omega, ?_, ?_, ?_⟩
      · rw [h2]; rfl
      · exact ((bad_page_static s page).trans (clearPageTail_static _ _)).trans h3
      · intro h0; omega
    · obtain ⟨h1, h2, h3, h4⟩ := ih (i + 1) (__ClearPageTail s (page + i)) bad
      refine ⟨h1, ?_, ?_, ?_⟩
      · rw [h2]; rfl
      · exact (clearPageTail_static _ _).trans h3
      · intro h0 x
        obtain ⟨a, b, c⟩ := h4 h0 x
        obtain ⟨a', b', c'⟩ := clearPageTail_fields s (page + i) x
        exact ⟨a.trans a', b.trans b', c.trans c'⟩

theorem destroy_compound_page_spec (s : State) (page order : Nat) :
    (destroy_compound_page s page order).1.free_list = s.free_list ∧
    SameStatic s (destroy_compound_page s page order).1 ∧
    ((destroy_compound_page s page order).2 = 0 →
      ∀ x, ((destroy_compound_page s page order).1.mem_map x).mapcount
          = (s.mem_map x).mapcount ∧
        ((destroy_compound_page s page order).1.mem_map x).private_
          = (s.mem_map x).private_ ∧
        ((destroy_compound_page s page order).1.mem_map x).guard
          = (s.mem_map x).guard) := by
  unfold destroy_compound_page
  split
  · obtain ⟨h1, h2, h3, h4⟩ := destroy_compound_loop_spec page ((1 <<< order) - 1) 1
      (__ClearPageHead (bad_page s page) page) 1
    refine ⟨?_, ?_, ?_⟩
    · rw [h2]; rfl
    · exact ((bad_page_static s page).trans (clearPageHead_static _ _)).trans h3
    · intro h0; omega
  · obtain ⟨h1, h2, h3, h4⟩ := destroy_compound_loop_spec page ((1 <<< order) - 1) 1
      (__ClearPageHead s page) 0
    refine ⟨?_, ?_, ?_⟩
    · rw [h2]; rfl
    · exact (clearPageHead_static _ _).trans h3
    · intro h0 x
      obtain ⟨a, b, c⟩ := h4 h0 x
      obtain ⟨a', b', c'⟩ := clearPageHead_fields s page x
      exact ⟨a.trans a', b.trans b', c.trans c'⟩

/-- When the compound check passes, the state the merge starts from shows
the buddy system the same lists, flags and orders as the state before. -/
theorem free_entry_view (cfg : Config) (s : State) (page order : Nat)
    (h : free_passes s page order) :
    (free_entry s page order).free_list = s.free_list ∧
    SameStatic s (free_entry s page order) ∧
    (∀ x, PageBuddy ((free_entry s page order).mem_map x) = PageBuddy (s.mem_map x) ∧
      page_is_guard cfg ((free_entry s page order).mem_map x)
        = page_is_guard cfg (s.mem_map x) ∧
      page_order ((free_entry s page order).mem_map x) = page_order (s.mem_map x)) := by
  unfold free_entry
  by_cases hc : PageCompound (s.mem_map page) = true
  · rw [if_pos hc]
    obtain ⟨h1, h2, h3⟩ := destroy_compound_page_spec s page order
    refine ⟨h1, h2, fun x => ?_⟩
    obtain ⟨a, b, c⟩ := h3 (h hc) x
    unfold PageBuddy page_is_guard page_order
    rw [a, b, c]
    exact ⟨rfl, rfl, rfl⟩
  · rw [if_neg hc]
    exact ⟨rfl, SameStatic.refl s, fun _ => ⟨rfl, rfl, rfl⟩⟩

theorem free_one_page_passes (cfg : Config) (s : State) (p o mt : Nat)
    (h : free_passes s p o) :
    __free_one_page cfg s p o mt = free_one_page_core cfg (free_entry s p o) p o mt := by
  unfold __free_one_page free_entry
  by_cases hc : PageCompound (s.mem_map p) = true
  · have := h hc
    simp [hc, this]
  · simp [hc]


theorem page_is_buddy_view (cfg : Config) {s s1 : State} (hst : SameStatic s s1)
    (p b j : Nat)
    (hb : PageBuddy (s1.mem_map b) = PageBuddy (s.mem_map b) ∧
      page_is_guard cfg (s1.mem_map b) = page_is_guard cfg (s.mem_map b) ∧
      page_order (s1.mem_map b) = page_order (s.mem_map b)) :
    page_is_buddy cfg s1 p b j = page_is_buddy cfg s p b j := by
  unfold page_is_buddy
  rw [hst.valid, hst.zone, hst.zone, hb.1, hb.2.1, hb.2.2]

/-- What `__free_one_page` does with a block in use `(p, o)` that passes
the compound check, all read on the state before the call: with `k` the
order of the inserted block, every buddy below `k` was held by the buddy
system and the one at `k` is not (unless `k` is the largest order); the
result is well formed and holds the order-`k` block around `p` in place of
the blocks it covers; the block is linked at the tail of `free_list[k][mt]`
under `free_tail_cond`, at the head otherwise. -/
theorem free_one_page_spec {cfg : Config} {zid : Nat} {s : State} {p o mt : Nat}
    (hp : Pending cfg zid s p o) (hc : free_passes s p o) (hm : mt < MIGRATE_TYPES) :
    o ≤ free_order cfg s p o ∧ free_order cfg s p o < cfg.MAX_ORDER ∧
    (∀ j, o ≤ j → j < free_order cfg s p o →
      Blk cfg zid s (__find_buddy_index (block_start p j) j) j) ∧
    (free_order cfg s p o + 1 < cfg.MAX_ORDER →
      ¬ Blk cfg zid s
        (__find_buddy_index (block_start p (free_order cfg s p o))
          (free_order cfg s p o)) (free_order cfg s p o)) ∧
    WF cfg zid (__free_one_page cfg s p o mt) ∧
    (∀ x i, Free (__free_one_page cfg s p o mt) x i ↔
      (Free s x i ∧ ¬ Overlap (block_start p (free_order cfg s p o))
        (free_order cfg s p o) x i) ∨
      (x = block_start p (free_order cfg s p o) ∧ i = free_order cfg s p o)) ∧
    (∀ x i, Guard cfg zid (__free_one_page cfg s p o mt) x i ↔
      Guard cfg zid s x i ∧ ¬ Overlap (block_start p (free_order cfg s p o))
        (free_order cfg s p o) x i) ∧
    SameStatic s (__free_one_page cfg s p o mt) ∧
    (__free_one_page cfg s p o mt).free_list (free_order cfg s p o) mt =
      (if free_tail_cond cfg s p (free_order cfg s p o) = true then
        s.free_list (free_order cfg s p o) mt ++ [block_start p (free_order cfg s p o)]
      else block_start p (free_order cfg s p o) :: s.free_list (free_order cfg s p o) mt) ∧
    (∀ i m, free_order cfg s p o ≤ i → ¬ (i = free_order cfg s p o ∧ m = mt) →
      (__free_one_page cfg s p o mt).free_list i m = s.free_list i m) := by
  obtain ⟨v1, v2, v3⟩ := free_entry_view cfg s p o hc
  have hfl : ∀ x, SameFlags cfg s (free_entry s p o) x :=
    fun x => ⟨(v3 x).1, (v3 x).2.1, fun _ => (v3 x).2.2⟩
  have hp1 : Pending cfg zid (free_entry s p o) p o := hp.of_same_view v2 v1 hfl
  obtain ⟨_, w2, w3⟩ := hp.wf.same_view v2 v1 hfl
  have hblk : ∀ x i, Blk cfg zid (free_entry s p o) x i ↔ Blk cfg zid s x i := by
    intro x i; unfold Blk; rw [w2, w3]
  have htc : ∀ k, free_tail_cond cfg (free_entry s p o) p k = free_tail_cond cfg s p k := by
    intro k
    unfold free_tail_cond
    rw [v2.valid, page_is_buddy_view cfg v2 _ _ _ (v3 _)]
  obtain ⟨c1, c2, c3, c4, c5, c6, c7, c8, c9, c10⟩ := free_one_page_core_spec hp1 hm
  rw [free_one_page_passes cfg s p o mt hc]
  unfold free_order
  refine ⟨c1, c2, ?_, ?_, c5, ?_, ?_, v2.trans c8, ?_, ?_⟩
  · intro j h1 h2; exact (hblk _ _).1 (c3 j h1 h2)
  · intro h1 h2; exact c4 h1 ((hblk _ _).2 h2)
  · intro x i; rw [c6, w2]
  · intro x i; rw [c7, w3]
  · rw [c9, htc, v1]
  · intro i m h1 h2; rw [c10 i m h1 h2, v1]

/-! ## Nested blocks -/

theorem testBit_block_start (p k i : Nat) :
    (block_start p k).testBit i = (p.testBit i && decide (k ≤ i)) := by
  unfold block_start
  rw [Nat.mul_comm, Nat.testBit_mul_pow_two, ← Nat.shiftRight_eq_div_pow,
    Nat.testBit_shiftRight]
  by_cases h : k ≤ i
  · have : k + (i - k) = i := by omega
    simp [h, this]
  · simp [h]

theorem add_le_of_dvd_of_lt {a x y : Nat} (hx : a ∣ x) (hy : a ∣ y) (h : x < y) :
    x + a ≤ y := by
  obtain ⟨c, rfl⟩ := hx
  obtain ⟨d, rfl⟩ := hy
  have hcd : c < d := by
    by_contra hc
    have := Nat.mul_le_mul_left a (Nat.le_of_not_lt hc)
    omega
  calc a * c + a = a * (c + 1) := by ring
    _ ≤ a * d := Nat.mul_le_mul_left a hcd

/-- The blocks around a frame are nested: the one of order `i` lies inside
the one of order `k` when `i <= k`. -/
theorem block_nested (p i k : Nat) (h : i ≤ k) :
    block_start p k ≤ block_start p i ∧ block_start p i + 2 ^ i ≤ block_start p k + 2 ^ k := by
  have h1 : block_start (block_start p i) k = block_start p k :=
    block_start_block_start p i k h
  constructor
  · rw [← h1]; exact block_start_le _ _
  · have h2 := lt_block_start_add (block_start p i) k
    rw [h1] at h2
    have hd : 2 ^ i ∣ 2 ^ k := pow_dvd_pow 2 h
    exact add_le_of_dvd_of_lt (dvd_block_start p i)
      (Nat.dvd_add (Dvd.dvd.trans hd (dvd_block_start p k)) hd) h2

/-- The buddy merged at level `j` lies inside every block around `p` of
order above `j`. -/
theorem buddy_in_block (p j k : Nat) (h : j < k) :
    block_start p k ≤ __find_buddy_index (block_start p j) j ∧
    __find_buddy_index (block_start p j) j + 2 ^ j ≤ block_start p k + 2 ^ k := by
  have hn := block_nested p (j + 1) k h
  have hc := buddy_cases (block_start p j) j (dvd_block_start p j)
  rw [block_start_block_start p j (j + 1) (Nat.le_succ j)] at hc
  have hpow : (2:Nat) ^ (j + 1) = 2 * 2 ^ j := by rw [Nat.pow_succ]; omega
  rcases hc with ⟨c1, c2⟩ | ⟨c0, c1, c2⟩
  · rw [c1]; omega
  · rw [c1]; omega

/-! ## Concrete zones are well formed -/

theorem zone_of_blocks_find {blocks : List (Nat × Nat)} {b : Nat × Nat} (hb : b ∈ blocks)
    (hnd : (blocks.map (fun b => b.1)).Nodup) :
    blocks.find? (fun c => c.1 = b.1) = some b := by
  induction blocks with
  | nil => cases hb
  | cons c cs ih =>
    rw [List.map_cons, List.nodup_cons] at hnd
    rw [List.find?_cons]
    rcases List.mem_cons.1 hb with h | h
    · subst h; simp
    · have hne : c.1 ≠ b.1 := by
        intro heq
        apply hnd.1
        rw [heq]
        exact List.mem_map_of_mem _ h
      simp [hne, ih h hnd.2]

theorem zone_of_blocks_mem {n m k m' p : Nat} {blocks : List (Nat × Nat)} :
    p ∈ (zone_of_blocks n blocks m).free_list k m' ↔ m' = m ∧ (p, k) ∈ blocks := by
  unfold zone_of_blocks
  simp only
  by_cases hm : m' = m
  · simp only [hm, if_true, List.mem_map, List.mem_filter, true_and]
    constructor
    · rintro ⟨b, ⟨hb, hk⟩, hp⟩
      have hk' : b.2 = k := by simpa using hk
      rw [← hp, ← hk']; exact hb
    · intro h
      exact ⟨(p, k), ⟨h, by simp⟩, rfl⟩
  · simp [hm]

/-- A zone built from a legal list of blocks, in a build without guard
pages, is well formed. -/
theorem zone_of_blocks_wf (cfg : Config) (n m : Nat) (blocks : List (Nat × Nat))
    (hcfg : cfg.CONFIG_DEBUG_PAGEALLOC = false) (hm : m < MIGRATE_TYPES)
    (hok : blocks_ok cfg n blocks = true) : WF cfg 0 (zone_of_blocks n blocks m) := by
  unfold blocks_ok at hok
  simp only [Bool.and_eq_true, List.all_eq_true, decide_eq_true_eq, Bool.or_eq_true,
    Bool.not_eq_true', Bool.and_eq_false_iff, decide_eq_false_iff_not] at hok
  obtain ⟨⟨h1, h2⟩, h3⟩ := hok
  have hvalid : ∀ x, pfn_valid_within cfg (zone_of_blocks n blocks m) x = true := by
    intro x; unfold pfn_valid_within zone_of_blocks; simp
  have hzone : ∀ x, x < 2 ^ n → page_zone_id (zone_of_blocks n blocks m) x = 0 := by
    intro x hx
    unfold page_zone_id zone_of_blocks
    simp only
    split <;> simp [hx]
  have hcount : ∀ x, ((zone_of_blocks n blocks m).mem_map x).count = 0 := by
    intro x
    unfold zone_of_blocks
    simp only
    split <;> rfl
  have hguard : ∀ x, page_is_guard cfg ((zone_of_blocks n blocks m).mem_map x) = false := by
    intro x; unfold page_is_guard; simp [hcfg]
  have hmemb : ∀ b, b ∈ blocks →
      (zone_of_blocks n blocks m).mem_map b.1 =
        { mapcount := -2, private_ := b.2, zone_id := if b.1 < 2 ^ n then 0 else 1 } := by
    intro b hb
    unfold zone_of_blocks
    simp only
    rw [zone_of_blocks_find hb h3]
  have hblockok : ∀ b, b ∈ blocks → BlockOK cfg 0 (zone_of_blocks n blocks m) b.1 b.2 := by
    intro b hb
    obtain ⟨⟨a1, a2⟩, a3⟩ := h1 b hb
    refine ⟨a1, Nat.dvd_of_mod_eq_zero a2, Nat.zero_le _, fun i hi => ?_⟩
    exact ⟨hvalid _, hzone _ (by omega), hcount _⟩
  have hfree : ∀ p k, Free (zone_of_blocks n blocks m) p k ↔ (p, k) ∈ blocks := by
    intro p k
    unfold Free
    constructor
    · rintro ⟨m', h⟩; exact (zone_of_blocks_mem.1 h).2
    · intro h; exact ⟨m, zone_of_blocks_mem.2 ⟨rfl, h⟩⟩
  have hblk : ∀ p k, Blk cfg 0 (zone_of_blocks n blocks m) p k → (p, k) ∈ blocks := by
    intro p k h
    rcases h with h | h
    · exact (hfree p k).1 h
    · have := h.2.2.1
      rw [hguard] at this
      exact Bool.noConfusion this
  refine ⟨?_, ?_, ?_, ?_, ?_, ?_, ?_⟩
  · intro k m' p hp
    obtain ⟨e1, e2⟩ := zone_of_blocks_mem.1 hp
    have := hmemb (p, k) e2
    refine ⟨by rw [e1]; exact hm, hblockok (p, k) e2, ?_, ?_⟩
    · rw [this]; rfl
    · rw [this]; rfl
  · intro k m'
    unfold zone_of_blocks
    simp only
    split
    · have hsub : List.Sublist ((blocks.filter (fun b => decide (b.2 = k))).map (fun b => b.1))
          (blocks.map (fun b => b.1)) := List.Sublist.map _ (List.filter_sublist _)
      exact hsub.nodup h3
    · exact List.nodup_nil
  · intro k m' m'' p ha hb
    rw [(zone_of_blocks_mem.1 ha).1, (zone_of_blocks_mem.1 hb).1]
  · intro p _ _ hpb
    have hfind : ∃ b, blocks.find? (fun c => c.1 = p) = some b := by
      by_contra hc
      have hnone : blocks.find? (fun c => decide (c.1 = p)) = none := by
        cases hf : blocks.find? (fun c => decide (c.1 = p)) with
        | none => rfl
        | some b => exact absurd ⟨b, hf⟩ hc
      unfold PageBuddy zone_of_blocks at hpb
      simp only [hnone] at hpb
      exact absurd hpb (by decide)
    obtain ⟨b, hb⟩ := hfind
    have hbm : b ∈ blocks := List.mem_of_find?_eq_some hb
    have hbp : b.1 = p := by simpa using List.find?_some hb
    have := hmemb b hbm
    rw [hbp] at this
    rw [this, hfree]
    show (p, b.2) ∈ blocks
    rw [← hbp]; exact hbm
  · intro p k hg
    have := hg.2.2.1
    rw [hguard] at this
    exact Bool.noConfusion this
  · intro p k q j ha hb hov
    have := h2 (p, k) (hblk p k ha) (q, j) (hblk q j hb)
    rcases this with h | h
    · exact ⟨congrArg Prod.fst h, congrArg Prod.snd h⟩
    · unfold Overlap at hov
      rcases h with h | h
      · exact absurd hov.1 h
      · exact absurd hov.2 h
  · intro x _ hx _
    exact hzone x (by simpa [zone_of_blocks] using hx)

/-- A legal block that meets no free block of a concrete zone is in use
there. -/
theorem zone_of_blocks_pending (cfg : Config) (n m : Nat) (blocks : List (Nat × Nat))
    (p k : Nat) (hcfg : cfg.CONFIG_DEBUG_PAGEALLOC = false) (hm : m < MIGRATE_TYPES)
    (hok : blocks_ok cfg n blocks = true) (hin : in_use_ok cfg n blocks p k = true) :
    Pending cfg 0 (zone_of_blocks n blocks m) p k := by
  have hwf := zone_of_blocks_wf cfg n m blocks hcfg hm hok
  unfold in_use_ok at hin
  simp only [Bool.and_eq_true, List.all_eq_true, decide_eq_true_eq,
    Bool.not_eq_true', Bool.and_eq_false_iff, decide_eq_false_iff_not] at hin
  obtain ⟨⟨⟨a1, a2⟩, a3⟩, a4⟩ := hin
  refine ⟨hwf, ⟨a1, Nat.dvd_of_mod_eq_zero a2, Nat.zero_le _, fun i hi => ?_⟩, ?_⟩
  · refine ⟨?_, ?_, ?_⟩
    · unfold pfn_valid_within zone_of_blocks; simp
    · unfold page_zone_id zone_of_blocks
      simp only
      have : p + i < 2 ^ n := by omega
      split <;> simp [this]
    · unfold zone_of_blocks
      simp only
      split <;> rfl
  · intro q j hb hov
    have hq : (q, j) ∈ blocks := by
      rcases hb with ⟨m', h⟩ | h
      · exact (zone_of_blocks_mem.1 h).2
      · have := h.2.2.1
        unfold page_is_guard at this
        simp [hcfg] at this
    unfold Overlap at hov
    rcases a4 (q, j) hq with h | h
    · exact h hov.1
    · exact h hov.2

theorem zone_of_blocks_not_compound (n m : Nat) (blocks : List (Nat × Nat)) (p o : Nat) :
    free_passes (zone_of_blocks n blocks m) p o := by
  intro h
  unfold PageCompound zone_of_blocks at h
  simp only at h
  split at h <;> simp at h

/-! ## Claims about `__free_one_page` -/

/-- C4: freeing the block `(p, o)`, aligned and below `MAX_ORDER`, in use in
a well-formed zone: `__free_one_page` inserts a block of order `k >= o` whose
first frame is `p` with the bits below `k` cleared (those below `o` are zero
already); `k` is the least order from `o` on that is `MAX_ORDER-1` or at
which the buddy of the current block is not a free block of that order of the
zone (a block on a free list or, in debug-guard builds, a guard block); every
buddy merged on the way is off the free list of its order afterwards; and
`k <= MAX_ORDER-1`. -/
theorem free_one_page_merge_spec (cfg : Config) (zid : Nat) (s : State) (p o mt : Nat)
    (hp : Pending cfg zid s p o) (hc : free_passes s p o) (hm : mt < MIGRATE_TYPES) :
    o ≤ free_order cfg s p o ∧ free_order cfg s p o ≤ cfg.MAX_ORDER - 1 ∧
    block_start p (free_order cfg s p o) ∈
      (__free_one_page cfg s p o mt).free_list (free_order cfg s p o) mt ∧
    (∀ i, (block_start p (free_order cfg s p o)).testBit i =
      (p.testBit i && decide (free_order cfg s p o ≤ i))) ∧
    (∀ j, o ≤ j → j < free_order cfg s p o →
      Blk cfg zid s (__find_buddy_index (block_start p j) j) j) ∧
    (free_order cfg s p o = cfg.MAX_ORDER - 1 ∨
      ¬ Blk cfg zid s
        (__find_buddy_index (block_start p (free_order cfg s p o)) (free_order cfg s p o))
        (free_order cfg s p o)) ∧
    (∀ j, o ≤ j → j < free_order cfg s p o → ∀ m,
      __find_buddy_index (block_start p j) j ∉ (__free_one_page cfg s p o mt).free_list j m) := by
  obtain ⟨c1, c2, c3, c4, c5, c6, c7, c8, c9, c10⟩ := free_one_page_spec hp hc hm
  refine ⟨c1, by omega, ?_, testBit_block_start p _, c3, ?_, ?_⟩
  · rw [c9]
    split <;> simp
  · by_cases h : free_order cfg s p o + 1 < cfg.MAX_ORDER
    · exact Or.inr (c4 h)
    · exact Or.inl (by omega)
  · intro j h1 h2 m hmem
    have hf : Free (__free_one_page cfg s p o mt) (__find_buddy_index (block_start p j) j) j :=
      ⟨m, hmem⟩
    rcases (c6 _ _).1 hf with ⟨_, hno⟩ | ⟨_, hj⟩
    · apply hno
      have := buddy_in_block p j (free_order cfg s p o) h2
      have := Nat.two_pow_pos j
      unfold Overlap
      omega
    · omega

theorem free_one_page_merge_spec_witness :
    free_order default_config (zone_of_blocks 4 [(1, 0), (2, 1), (4, 2), (8, 3)] 2) 0 0 = 4 ∧
    0 ≤ free_order default_config (zone_of_blocks 4 [(1, 0), (2, 1), (4, 2), (8, 3)] 2) 0 0 ∧
    free_order default_config (zone_of_blocks 4 [(1, 0), (2, 1), (4, 2), (8, 3)] 2) 0 0
      ≤ default_config.MAX_ORDER - 1 ∧
    block_start 0 (free_order default_config
        (zone_of_blocks 4 [(1, 0), (2, 1), (4, 2), (8, 3)] 2) 0 0) ∈
      (__free_one_page default_config (zone_of_blocks 4 [(1, 0), (2, 1), (4, 2), (8, 3)] 2)
        0 0 2).free_list
        (free_order default_config (zone_of_blocks 4 [(1, 0), (2, 1), (4, 2), (8, 3)] 2) 0 0)
        2 :=
  have h := free_one_page_merge_spec default_config 0
    (zone_of_blocks 4 [(1, 0), (2, 1), (4, 2), (8, 3)] 2) 0 0 2
    (zone_of_blocks_pending default_config 4 2 _ 0 0 rfl (by decide) (by decide) (by decide))
    (zone_of_blocks_not_compound 4 2 _ 0 0) (by decide)
  ⟨by decide, h.1, h.2.1, h.2.2.1⟩


theorem free_entry_static (s : State) (p o : Nat) : SameStatic s (free_entry s p o) := by
  unfold free_entry
  split
  · exact (destroy_compound_page_spec s p o).2.1
  · exact SameStatic.refl s

/-- Whatever the state, the merge loop only merges with buddies whose frame
is valid and whose zone is that of the block they are merged with. -/
theorem free_merge_loop_same_zone (cfg : Config) (s : State) (p o : Nat) (hal : 2 ^ o ∣ p) :
    ∀ j, o ≤ j → j < (free_vars_final cfg s p o).order →
      pfn_valid_within cfg s (__find_buddy_index (block_start p j) j) = true ∧
      page_zone_id s (block_start p j)
        = page_zone_id s (__find_buddy_index (block_start p j) j) := by
  have key := free_merge_loop_rule cfg
    (fun v => v.page_idx = v.page % 2 ^ cfg.MAX_ORDER ∧ 2 ^ v.order ∣ v.page ∧
      v.page = block_start p v.order ∧ SameStatic s v.s ∧
      ∀ j, o ≤ j → j < v.order →
        pfn_valid_within cfg s (__find_buddy_index (block_start p j) j) = true ∧
        page_zone_id s (block_start p j)
          = page_zone_id s (__find_buddy_index (block_start p j) j))
    (fun v => ∀ j, o ≤ j → j < v.order →
        pfn_valid_within cfg s (__find_buddy_index (block_start p j) j) = true ∧
        page_zone_id s (block_start p j)
          = page_zone_id s (__find_buddy_index (block_start p j) j))
    (fun v hv => ⟨hv.1, hv.2.1⟩)
    (by
      intro v hv ho hb
      obtain ⟨h1, h2, h3, h4, h5⟩ := hv
      refine ⟨rfl, dvd_block_start _ _, ?_, h4.trans (merge_buddy_static _ _ _ _ _), ?_⟩
      · show block_start v.page (v.order + 1) = block_start p (v.order + 1)
        rw [h3, block_start_block_start p v.order (v.order + 1) (Nat.le_succ _)]
      · intro j hj1 hj2
        have hj2' : j < v.order + 1 := hj2
        by_cases hj : j = v.order
        · obtain ⟨a, b, _⟩ := (page_is_buddy_iff cfg v.s _ _ _).1 hb
          rw [h4.valid] at a
          rw [h4.zone, h4.zone] at b
          rw [hj, ← h3]
          exact ⟨a, b⟩
        · exact h5 j hj1 (by omega))
    (fun v hv _ => hv.2.2.2.2)
    (fun v hv _ _ => hv.2.2.2.2)
    (cfg.MAX_ORDER - 1 - o) (free_vars_init cfg s p o)
    (by show cfg.MAX_ORDER - 1 ≤ o + (cfg.MAX_ORDER - 1 - o); omega)
    ⟨and_mask_eq_mod p cfg.MAX_ORDER, hal, (block_start_of_dvd p o hal).symm,
      SameStatic.refl s, fun j h1 h2 => absurd h2 (Nat.not_lt.2 h1)⟩
  exact key

/-- C9: `page_is_buddy(page, buddy, order)` is true exactly when the frame of
the buddy is valid, page and buddy carry the same zone id, and the buddy is
on a free list (`PG_buddy`) with recorded order `order` or is a guard block of
that order; so it is false for a buddy of another zone or in a hole; and the
merge loop of `__free_one_page`, in any state, merges at every level only
with a buddy whose frame is valid and whose zone is that of the block. -/
theorem page_is_buddy_spec (cfg : Config) (s : State) :
    (∀ page buddy order, page_is_buddy cfg s page buddy order = true ↔
      pfn_valid_within cfg s buddy = true ∧ page_zone_id s page = page_zone_id s buddy ∧
        ((PageBuddy (s.mem_map buddy) = true ∧ page_order (s.mem_map buddy) = order) ∨
          (page_is_guard cfg (s.mem_map buddy) = true ∧
            page_order (s.mem_map buddy) = order))) ∧
    (∀ page buddy order, page_zone_id s page ≠ page_zone_id s buddy →
      page_is_buddy cfg s page buddy order = false) ∧
    (∀ page buddy order, pfn_valid_within cfg s buddy = false →
      page_is_buddy cfg s page buddy order = false) ∧
    (∀ p o, 2 ^ o ∣ p → ∀ j, o ≤ j → j < free_order cfg s p o →
      pfn_valid_within cfg s (__find_buddy_index (block_start p j) j) = true ∧
      page_zone_id s (block_start p j)
        = page_zone_id s (__find_buddy_index (block_start p j) j)) := by
  refine ⟨page_is_buddy_iff cfg s, ?_, ?_, ?_⟩
  · intro page buddy order h
    cases hb : page_is_buddy cfg s page buddy order with
    | false => rfl
    | true => exact absurd ((page_is_buddy_iff cfg s _ _ _).1 hb).2.1 h
  · intro page buddy order h
    cases hb : page_is_buddy cfg s page buddy order with
    | false => rfl
    | true =>
      have := ((page_is_buddy_iff cfg s _ _ _).1 hb).1
      rw [h] at this
      exact Bool.noConfusion this
  · intro p o hal j h1 h2
    have hst := free_entry_static s p o
    have := free_merge_loop_same_zone cfg (free_entry s p o) p o hal j h1 h2
    rw [hst.valid, hst.zone, hst.zone] at this
    exact this

theorem page_is_buddy_spec_witness :
    2 ^ 0 ∣ 0 ∧
    pfn_valid_within default_config (zone_of_blocks 4 [(1, 0), (2, 1), (4, 2), (8, 3)] 2)
      (__find_buddy_index (block_start 0 3) 3) = true ∧
    page_zone_id (zone_of_blocks 4 [(1, 0), (2, 1), (4, 2), (8, 3)] 2) (block_start 0 3)
      = page_zone_id (zone_of_blocks 4 [(1, 0), (2, 1), (4, 2), (8, 3)] 2)
          (__find_buddy_index (block_start 0 3) 3) :=
  ⟨by decide,
    (page_is_buddy_spec default_config
      (zone_of_blocks 4 [(1, 0), (2, 1), (4, 2), (8, 3)] 2)).2.2.2 0 0 (by decide) 3
      (by decide) (by decide)⟩


/-- C10 as stated fails at order `MAX_ORDER-2`. In the default build
(`MAX_ORDER = 11`), free the order-9 block at frame 0 of a zone whose free
blocks are `(1024, 10)` and `(2560, 9)`: the block is legal and in use, its
buddy `(512, 9)` is not free, so merging stops at order 9; the buddy of the
would-be parent `(0, 10)` is frame 1024, a free block of order 10; yet the
block goes to the head of `free_list[9]`, not to its tail. -/
theorem free_insert_tail_counterexample :
    blocks_ok default_config 12 [(1024, 10), (2560, 9)] = true ∧
    in_use_ok default_config 12 [(1024, 10), (2560, 9)] 0 9 = true ∧
    free_order default_config (zone_of_blocks 12 [(1024, 10), (2560, 9)] 2) 0 9 = 9 ∧
    __find_buddy_index (block_start 0 10) 10 = 1024 ∧
    1024 ∈ (zone_of_blocks 12 [(1024, 10), (2560, 9)] 2).free_list 10 2 ∧
    PageBuddy ((zone_of_blocks 12 [(1024, 10), (2560, 9)] 2).mem_map 1024) = true ∧
    page_order ((zone_of_blocks 12 [(1024, 10), (2560, 9)] 2).mem_map 1024) = 10 ∧
    (zone_of_blocks 12 [(1024, 10), (2560, 9)] 2).free_list 9 2 = [2560] ∧
    (__free_one_page default_config (zone_of_blocks 12 [(1024, 10), (2560, 9)] 2)
      0 9 2).free_list 9 2 = [0, 2560] := by
  decide

/-- C10, amended: after merging stops at order `k`, the merged block is
linked at the tail of `free_list[k][migratetype]` exactly when `k` is below
`MAX_ORDER-2`, the frame of its own order-`k` buddy is valid, and
`page_is_buddy` holds of the would-be parent and the parent's order-`k+1`
buddy: that buddy's frame is valid, it has the zone id of the parent's first
page, and it is a free block (or, in debug-guard builds, a guard block)
recorded at order `k+1`; otherwise the block is linked at the head. When the
parent starts in the zone, the last condition is that the higher buddy is a
block of order `k+1` held by the buddy system of the zone. -/
theorem free_one_page_insert_spec (cfg : Config) (zid : Nat) (s : State) (p o mt : Nat)
    (hp : Pending cfg zid s p o) (hc : free_passes s p o) (hm : mt < MIGRATE_TYPES) :
    (__free_one_page cfg s p o mt).free_list (free_order cfg s p o) mt =
      (if free_tail_cond cfg s p (free_order cfg s p o) = true then
        s.free_list (free_order cfg s p o) mt ++ [block_start p (free_order cfg s p o)]
      else block_start p (free_order cfg s p o) :: s.free_list (free_order cfg s p o) mt) ∧
    (free_tail_cond cfg s p (free_order cfg s p o) = true ↔
      free_order cfg s p o + 2 < cfg.MAX_ORDER ∧
      pfn_valid_within cfg s
        (__find_buddy_index (block_start p (free_order cfg s p o)) (free_order cfg s p o))
        = true ∧
      pfn_valid_within cfg s
        (__find_buddy_index (block_start p (free_order cfg s p o + 1))
          (free_order cfg s p o + 1)) = true ∧
      page_zone_id s (block_start p (free_order cfg s p o + 1)) =
        page_zone_id s (__find_buddy_index (block_start p (free_order cfg s p o + 1))
          (free_order cfg s p o + 1)) ∧
      ((PageBuddy (s.mem_map (__find_buddy_index (block_start p (free_order cfg s p o + 1))
            (free_order cfg s p o + 1))) = true ∧
          page_order (s.mem_map (__find_buddy_index (block_start p (free_order cfg s p o + 1))
            (free_order cfg s p o + 1))) = free_order cfg s p o + 1) ∨
        (page_is_guard cfg (s.mem_map (__find_buddy_index
            (block_start p (free_order cfg s p o + 1)) (free_order cfg s p o + 1))) = true ∧
          page_order (s.mem_map (__find_buddy_index (block_start p (free_order cfg s p o + 1))
            (free_order cfg s p o + 1))) = free_order cfg s p o + 1))) ∧
    (page_zone_id s (block_start p (free_order cfg s p o + 1)) = zid →
      (free_tail_cond cfg s p (free_order cfg s p o) = true ↔
        free_order cfg s p o + 2 < cfg.MAX_ORDER ∧
        pfn_valid_within cfg s
          (__find_buddy_index (block_start p (free_order cfg s p o)) (free_order cfg s p o))
          = true ∧
        Blk cfg zid s
          (__find_buddy_index (block_start p (free_order cfg s p o + 1))
            (free_order cfg s p o + 1)) (free_order cfg s p o + 1))) := by
  obtain ⟨c1, c2, c3, c4, c5, c6, c7, c8, c9, c10⟩ := free_one_page_spec hp hc hm
  refine ⟨c9, ?_, ?_⟩
  · unfold free_tail_cond
    rw [Bool.and_eq_true, Bool.and_eq_true, decide_eq_true_eq, page_is_buddy_iff]
    tauto
  · intro hz
    unfold free_tail_cond
    rw [Bool.and_eq_true, Bool.and_eq_true, decide_eq_true_eq,
      page_is_buddy_iff_blk hp.wf hz]
    tauto

theorem free_one_page_insert_spec_witness :
    (__free_one_page default_config (zone_of_blocks 4 [(2, 1), (5, 0)] 2) 0 0 2).free_list
        (free_order default_config (zone_of_blocks 4 [(2, 1), (5, 0)] 2) 0 0) 2 =
      (if free_tail_cond default_config (zone_of_blocks 4 [(2, 1), (5, 0)] 2) 0
          (free_order default_config (zone_of_blocks 4 [(2, 1), (5, 0)] 2) 0 0) = true then
        (zone_of_blocks 4 [(2, 1), (5, 0)] 2).free_list
            (free_order default_config (zone_of_blocks 4 [(2, 1), (5, 0)] 2) 0 0) 2 ++
          [block_start 0 (free_order default_config (zone_of_blocks 4 [(2, 1), (5, 0)] 2) 0 0)]
      else block_start 0 (free_order default_config (zone_of_blocks 4 [(2, 1), (5, 0)] 2) 0 0) ::
        (zone_of_blocks 4 [(2, 1), (5, 0)] 2).free_list
          (free_order default_config (zone_of_blocks 4 [(2, 1), (5, 0)] 2) 0 0) 2) ∧
    (__free_one_page default_config (zone_of_blocks 4 [(2, 1), (5, 0)] 2) 0 0 2).free_list 0 2
      = [5, 0] :=
  ⟨(free_one_page_insert_spec default_config 0 (zone_of_blocks 4 [(2, 1), (5, 0)] 2) 0 0 2
      (zone_of_blocks_pending default_config 4 2 _ 0 0 rfl (by decide) (by decide) (by decide))
      (zone_of_blocks_not_compound 4 2 _ 0 0) (by decide)).1,
    by decide⟩

/-! ## Splitting under the invariant -/

theorem BlockOK.lower {cfg : Config} {zid : Nat} {s : State} {p h : Nat}
    (hb : BlockOK cfg zid s p (h + 1)) : BlockOK cfg zid s p h := by
  have hpow : (2:Nat) ^ (h + 1) = 2 * 2 ^ h := by rw [Nat.pow_succ]; omega
  obtain ⟨h1, h2, h3, h4⟩ := hb
  refine ⟨by omega, Dvd.dvd.trans (pow_dvd_pow 2 (Nat.le_succ h)) h2, h3, fun i hi => ?_⟩
  exact h4 i (by omega)

theorem BlockOK.upper {cfg : Config} {zid : Nat} {s : State} {p h : Nat}
    (hb : BlockOK cfg zid s p (h + 1)) : BlockOK cfg zid s (p + 2 ^ h) h := by
  have hpow : (2:Nat) ^ (h + 1) = 2 * 2 ^ h := by rw [Nat.pow_succ]; omega
  obtain ⟨h1, h2, h3, h4⟩ := hb
  refine ⟨by omega, ?_, by omega, fun i hi => ?_⟩
  · exact Nat.dvd_add (Dvd.dvd.trans (pow_dvd_pow 2 (Nat.le_succ h)) h2) (Nat.dvd_refl _)
  · have := h4 (2 ^ h + i) (by omega)
    rwa [← Nat.add_assoc] at this

theorem Pending.upper_part {cfg : Config} {zid : Nat} {s : State} {p h : Nat}
    (hp : Pending cfg zid s p (h + 1)) : Pending cfg zid s (p + 2 ^ h) h := by
  have hpow : (2:Nat) ^ (h + 1) = 2 * 2 ^ h := by rw [Nat.pow_succ]; omega
  refine ⟨hp.wf, hp.ok.upper, fun q j hq hov => hp.apart q j hq ?_⟩
  unfold Overlap at *
  omega

/-- One step of `expand` on a block in use `(p, h+1)`: the upper half
becomes a free block or a guard block, the lower half stays in use. -/
theorem expand_step_pending {cfg : Config} {zid : Nat} {s : State} {p h m : Nat}
    (hp : Pending cfg zid s p (h + 1)) (hm : m < MIGRATE_TYPES) :
    let s1 := if guard_level cfg h = true then
        mod_free_pages (set_page_private (set_page_guard_flag cfg s (p + 1 <<< h))
          (p + 1 <<< h) h) (-((1 <<< h : Nat) : Int))
      else set_page_order (nr_free_inc cfg (list_add s (p + 1 <<< h) h m) h) (p + 1 <<< h) h
    Pending cfg zid s1 p h ∧ SameStatic s s1 ∧
    (∀ x i, Free s1 x i ↔ Free s x i ∨ (x = p + 2 ^ h ∧ i = h ∧ guard_level cfg h = false)) ∧
    (∀ x i, Guard cfg zid s1 x i ↔
      Guard cfg zid s x i ∨ (x = p + 2 ^ h ∧ i = h ∧ guard_level cfg h = true)) := by
  intro s1
  have hpow : (2:Nat) ^ (h + 1) = 2 * 2 ^ h := by rw [Nat.pow_succ]; omega
  have hpos := Nat.two_pow_pos h
  have hup := hp.upper_part
  have hun := hup.unflagged (Nat.le_refl _) (by omega)
  by_cases hg : guard_level cfg h = true
  · have hcfg : cfg.CONFIG_DEBUG_PAGEALLOC = true := by
      unfold guard_level at hg; simp at hg; exact hg.1
    have hs1 : s1 = mod_free_pages (set_page_private (set_page_guard_flag cfg s (p + 2 ^ h))
          (p + 2 ^ h) h) (-((2 ^ h : Nat) : Int)) := by
      show (if guard_level cfg h = true then _ else _) = _
      rw [if_pos hg, Nat.one_shiftLeft]
    have hst : SameStatic s s1 := by
      rw [hs1]
      exact ((set_page_guard_flag_static cfg s _).trans (set_page_private_static _ _ _)).trans
        (mod_free_pages_static _ _)
    have hmx : ∀ x, x ≠ p + 2 ^ h → s1.mem_map x = s.mem_map x := by
      intro x hx
      rw [hs1]
      simp [mod_free_pages, set_page_private, set_page_guard_flag, hcfg, upd, hx]
    have hmq : s1.mem_map (p + 2 ^ h) =
        { s.mem_map (p + 2 ^ h) with guard := true, private_ := h } := by
      rw [hs1]
      simp [mod_free_pages, set_page_private, set_page_guard_flag, hcfg, upd]
    have hl : s1.free_list = s.free_list := by
      rw [hs1]
      simp [mod_free_pages, set_page_private, set_page_guard_flag, hcfg]
    obtain ⟨w1, w2, w3⟩ := hup.insert_guard hst hl
      (fun x hx => by rw [SameFlags, hmx x hx]; exact ⟨rfl, rfl, fun _ => rfl⟩)
      (by rw [hmq]; exact hun.1) (by rw [hmq]; rfl)
      (by rw [hmq]; simp [page_is_guard, hcfg])
    refine ⟨⟨w1, hst.blockOK hp.ok.lower, ?_⟩, hst, ?_, ?_⟩
    · intro q j hq hov
      have hq' : Blk cfg zid s q j ∨ (q = p + 2 ^ h ∧ j = h) := by
        rcases hq with hq | hq
        · exact Or.inl (Or.inl ((w2 q j).1 hq))
        · rcases (w3 q j).1 hq with h1 | h1
          · exact Or.inl (Or.inr h1)
          · exact Or.inr h1
      rcases hq' with h1 | ⟨h1, h2⟩
      · apply hp.apart q j h1
        unfold Overlap at *
        omega
      · subst h1 h2
        unfold Overlap at hov
        omega
    · intro x i
      rw [w2]
      simp [hg]
    · intro x i
      rw [w3]
      simp [hg]
  · have hg' : guard_level cfg h = false := by simpa using hg
    have hs1 : s1 = set_page_order (nr_free_inc cfg (list_add s (p + 2 ^ h) h m) h)
        (p + 2 ^ h) h := by
      show (if guard_level cfg h = true then _ else _) = _
      rw [if_neg hg, Nat.one_shiftLeft]
    have hst : SameStatic s s1 := by
      rw [hs1]
      exact ((list_add_static s _ _ _).trans (nr_free_inc_static cfg _ _)).trans
        (set_page_order_static _ _ _)
    have hmx : ∀ x, x ≠ p + 2 ^ h → s1.mem_map x = s.mem_map x := by
      intro x hx
      rw [hs1]
      simp [set_page_order, nr_free_inc, list_add, upd, hx]
    have hmq : s1.mem_map (p + 2 ^ h) =
        { s.mem_map (p + 2 ^ h) with private_ := h, mapcount := -2 } := by
      rw [hs1]
      simp [set_page_order, nr_free_inc, list_add, upd]
    obtain ⟨w1, w2, w3⟩ := @Pending.insert_free cfg zid s s1 (p + 2 ^ h) h m hup hm hst
      (by intro i m' hne
          rw [hs1]
          simp [set_page_order, nr_free_inc, list_add, upd_list, hne])
      (by left
          rw [hs1]
          simp [set_page_order, nr_free_inc, list_add, upd_list])
      (fun x hx => by rw [SameFlags, hmx x hx]; exact ⟨rfl, rfl, fun _ => rfl⟩)
      (by rw [hmq]; rfl) (by rw [hmq]; rfl)
      (by rw [hmq]; exact hun.2)
    refine ⟨⟨w1, hst.blockOK hp.ok.lower, ?_⟩, hst, ?_, ?_⟩
    · intro q j hq hov
      have hq' : Blk cfg zid s q j ∨ (q = p + 2 ^ h ∧ j = h) := by
        rcases hq with hq | hq
        · rcases (w2 q j).1 hq with h1 | h1
          · exact Or.inl (Or.inl h1)
          · exact Or.inr h1
        · exact Or.inl (Or.inr ((w3 q j).1 hq))
      rcases hq' with h1 | ⟨h1, h2⟩
      · apply hp.apart q j h1
        unfold Overlap at *
        omega
      · subst h1 h2
        unfold Overlap at hov
        omega
    · intro x i
      rw [w2]
      simp [hg']
    · intro x i
      rw [w3]
      simp [hg']


theorem expand_succ_ite (cfg : Config) (p low m h : Nat) (s : State) (hl : low ≤ h) :
    expand cfg p low m (h + 1) (h + 1) (1 <<< (h + 1)) s =
      expand cfg p low m h h (1 <<< h)
        (if guard_level cfg h = true then
          mod_free_pages (set_page_private (set_page_guard_flag cfg s (p + 1 <<< h))
            (p + 1 <<< h) h) (-((1 <<< h : Nat) : Int))
        else set_page_order (nr_free_inc cfg (list_add s (p + 1 <<< h) h m) h)
          (p + 1 <<< h) h) := by
  rw [expand_succ cfg p low m h s hl]
  unfold guard_level
  split <;> rfl

/-- `expand` on a block in use `(p, h)`: the block `(p, low)` stays in use,
and for every order from `low` to `h - 1` the upper half at that order joins
the buddy system, as a guard block where `guard_level` says so and as a free
block otherwise. -/
theorem expand_pending {cfg : Config} {zid : Nat} (p low m : Nat) (hm : m < MIGRATE_TYPES) :
    ∀ (h : Nat) (s : State), low ≤ h → Pending cfg zid s p h →
      Pending cfg zid (expand cfg p low m h h (1 <<< h) s) p low ∧
      SameStatic s (expand cfg p low m h h (1 <<< h) s) ∧
      (∀ x i, Free (expand cfg p low m h h (1 <<< h) s) x i ↔
        Free s x i ∨ (low ≤ i ∧ i < h ∧ x = p + 2 ^ i ∧ guard_level cfg i = false)) ∧
      (∀ x i, Guard cfg zid (expand cfg p low m h h (1 <<< h) s) x i ↔
        Guard cfg zid s x i ∨ (low ≤ i ∧ i < h ∧ x = p + 2 ^ i ∧ guard_level cfg i = true)) := by
  intro h
  induction h with
  | zero =>
    intro s hl hp
    have : low = 0 := by omega
    subst this
    refine ⟨hp, SameStatic.refl s, fun x i => ?_, fun x i => ?_⟩
    · show Free s x i ↔ _
      constructor
      · intro h; exact Or.inl h
      · rintro (h | ⟨_, h, _⟩)
        · exact h
        · omega
    · show Guard cfg zid s x i ↔ _
      constructor
      · intro h; exact Or.inl h
      · rintro (h | ⟨_, h, _⟩)
        · exact h
        · omega
  | succ h ih =>
    intro s hl hp
    by_cases hlh : low ≤ h
    · rw [expand_succ_ite cfg p low m h s hlh]
      obtain ⟨a1, a2, a3, a4⟩ := @expand_step_pending cfg zid s p h m hp hm
      obtain ⟨b1, b2, b3, b4⟩ := ih _ hlh a1
      refine ⟨b1, a2.trans b2, fun x i => ?_, fun x i => ?_⟩
      · rw [b3, a3]
        constructor
        · rintro ((h1 | ⟨h1, h2, h3⟩) | ⟨h1, h2, h3⟩)
          · exact Or.inl h1
          · exact Or.inr ⟨by omega, by omega, by rw [h1, h2], by rw [h2]; exact h3⟩
          · exact Or.inr ⟨h1, by omega, h3⟩
        · rintro (h1 | ⟨h1, h2, h3, h4⟩)
          · exact Or.inl (Or.inl h1)
          · by_cases hi : i = h
            · subst hi; exact Or.inl (Or.inr ⟨h3, rfl, h4⟩)
            · exact Or.inr ⟨h1, by omega, h3, h4⟩
      · rw [b4, a4]
        constructor
        · rintro ((h1 | ⟨h1, h2, h3⟩) | ⟨h1, h2, h3⟩)
          · exact Or.inl h1
          · exact Or.inr ⟨by omega, by omega, by rw [h1, h2], by rw [h2]; exact h3⟩
          · exact Or.inr ⟨h1, by omega, h3⟩
        · rintro (h1 | ⟨h1, h2, h3, h4⟩)
          · exact Or.inl (Or.inl h1)
          · by_cases hi : i = h
            · subst hi; exact Or.inl (Or.inr ⟨h3, rfl, h4⟩)
            · exact Or.inr ⟨h1, by omega, h3, h4⟩
    · have hlow : low = h + 1 := by omega
      rw [expand_le cfg p low m (h + 1) _ _ s (by omega)]
      subst hlow
      refine ⟨hp, SameStatic.refl s, fun x i => ?_, fun x i => ?_⟩
      · constructor
        · intro h; exact Or.inl h
        · rintro (h | ⟨_, _, _⟩)
          · exact h
          · omega
      · constructor
        · intro h; exact Or.inl h
        · rintro (h | ⟨_, _, _⟩)
          · exact h
          · omega


/-! ## Allocation under the invariant -/

/-- Unlinking a free block and removing its order record leaves it in use. -/
theorem unlink_pending {cfg : Config} {zid : Nat} {s s1 : State} {p k : Nat}
    (hwf : WF cfg zid s) (hf : Free s p k) (hst : SameStatic s s1)
    (hl : ∀ i m, s1.free_list i m = (s.free_list i m).erase p)
    (hmx : ∀ x, x ≠ p → s1.mem_map x = s.mem_map x)
    (hmp : s1.mem_map p = { s.mem_map p with mapcount := -1, private_ := 0 }) :
    Pending cfg zid s1 p k ∧ (∀ q i, Free s1 q i ↔ Free s q i ∧ q ≠ p) ∧
      (∀ q i, Guard cfg zid s1 q i ↔ Guard cfg zid s q i ∧ q ≠ p) := by
  have hok := (Blk.ok_of_wf hwf (Or.inl hf)).head
  obtain ⟨m, hm⟩ := hf
  have hpb := (hwf.listed k m p hm).2.2.1
  have hng : page_is_guard cfg (s.mem_map p) = false := by
    by_contra hc
    have hg : page_is_guard cfg (s.mem_map p) = true := by simpa using hc
    have := (hwf.guards p _ ⟨hok.1, hok.2, hg, rfl⟩).2
    rw [hpb] at this
    exact Bool.noConfusion this
  exact hwf.remove (Or.inl ⟨m, hm⟩) hst hl
    (fun x hx => by rw [SameFlags, hmx x hx]; exact ⟨rfl, rfl, fun _ => rfl⟩)
    (by rw [hmp]; rfl) (by rw [hmp]; exact hng)

/-- `__rmqueue_smallest` on a well-formed zone: when it returns a page, the
page headed a free block of some order `k >= o`; afterwards the block
`(p, o)` is in use and the buddy system holds the other blocks it held
before together with the upper halves split off on the way down from `k` to
`o`; when it returns `NULL` the state is unchanged. -/
theorem rmqueue_smallest_wf {cfg : Config} {zid : Nat} {s : State} {o m : Nat}
    (hwf : WF cfg zid s) (hm : m < MIGRATE_TYPES) :
    (∀ p, (__rmqueue_smallest cfg s o m).1 = some p →
      ∃ k, o ≤ k ∧ k < cfg.MAX_ORDER ∧ p ∈ s.free_list k m ∧
        Pending cfg zid (__rmqueue_smallest cfg s o m).2 p o ∧
        SameStatic s (__rmqueue_smallest cfg s o m).2 ∧
        (∀ x i, Free (__rmqueue_smallest cfg s o m).2 x i ↔
          (Free s x i ∧ x ≠ p) ∨
            (o ≤ i ∧ i < k ∧ x = p + 2 ^ i ∧ guard_level cfg i = false)) ∧
        (∀ x i, Guard cfg zid (__rmqueue_smallest cfg s o m).2 x i ↔
          (Guard cfg zid s x i ∧ x ≠ p) ∨
            (o ≤ i ∧ i < k ∧ x = p + 2 ^ i ∧ guard_level cfg i = true))) ∧
    ((__rmqueue_smallest cfg s o m).1 = none → (__rmqueue_smallest cfg s o m).2 = s) := by
  constructor
  · intro p hp
    have hex : ∃ k, o ≤ k ∧ k < cfg.MAX_ORDER ∧ s.free_list k m ≠ [] := by
      by_contra hc
      have hn : (__rmqueue_smallest cfg s o m).1 = none := by
        unfold __rmqueue_smallest
        rw [rmqueue_smallest_loop_none_iff]
        intro k h1 h2 _
        by_contra h3
        exact hc ⟨k, h1, h2, h3⟩
      rw [hn] at hp
      exact Option.noConfusion hp
    classical
    obtain ⟨h1, h2, h3⟩ := Nat.find_spec hex
    obtain ⟨x, rest, hx⟩ := List.exists_cons_of_ne_nil h3
    have hfirst : ∀ j, o ≤ j → j < Nat.find hex → s.free_list j m = [] := by
      intro j hj1 hj2
      by_contra hj3
      exact Nat.find_min hex hj2 ⟨hj1, by omega, hj3⟩
    have heq : __rmqueue_smallest cfg s o m =
        (some x, expand cfg x o m (Nat.find hex) (Nat.find hex) (1 <<< Nat.find hex)
          (nr_free_dec cfg (rmv_page_order (list_del s x) x) (Nat.find hex))) := by
      unfold __rmqueue_smallest
      exact rmqueue_smallest_loop_some cfg s o m _ x rest h2 hx _ o h1 (by omega) hfirst
    rw [heq] at hp ⊢
    have hxp : x = p := by simpa using hp
    subst hxp
    have hmem : x ∈ s.free_list (Nat.find hex) m := by rw [hx]; exact List.mem_cons_self _ _
    obtain ⟨u1, u2, u3⟩ := @unlink_pending cfg zid s (nr_free_dec cfg
        (rmv_page_order (list_del s x) x) (Nat.find hex)) x (Nat.find hex) hwf ⟨m, hmem⟩
      (((list_del_static s x).trans (rmv_page_order_static _ x)).trans
        (nr_free_dec_static cfg _ _))
      (fun i m' => rfl)
      (fun y hy => by simp [nr_free_dec, rmv_page_order, list_del, upd, hy])
      (by simp [nr_free_dec, rmv_page_order, list_del, upd])
    obtain ⟨e1, e2, e3, e4⟩ := expand_pending x o m hm (Nat.find hex) _ h1 u1
    refine ⟨Nat.find hex, h1, h2, hmem, e1, ?_, ?_, ?_⟩
    · exact (((list_del_static s x).trans (rmv_page_order_static _ x)).trans
        (nr_free_dec_static cfg _ _)).trans e2
    · intro y i
      show Free (expand cfg x o m _ _ _ _) y i ↔ _
      rw [e3, u2]
    · intro y i
      show Guard cfg zid (expand cfg x o m _ _ _ _) y i ↔ _
      rw [e4, u3]
  · intro h
    unfold __rmqueue_smallest at h ⊢
    rw [rmqueue_smallest_loop_none]
    exact (rmqueue_smallest_loop_none_iff cfg s o m _ _).1 h

/-! ## Fallback under the invariant -/

theorem SameStatic.reverse {s s1 : State} (h : SameStatic s s1) : SameStatic s1 s :=
  ⟨h.1.symm, h.2.1.symm, h.2.2.1.symm, fun x => ⟨(h.2.2.2 x).1.symm, (h.2.2.2 x).2.symm⟩⟩

/-- A state that differs only in the counters and the page-block tags is
the same to the buddy invariant. -/
theorem WF.of_eq_view {cfg : Config} {zid : Nat} {s s1 : State} (hwf : WF cfg zid s)
    (h1 : s1.free_list = s.free_list) (h2 : s1.mem_map = s.mem_map)
    (h3 : s1.pfn_valid = s.pfn_valid) (h4 : s1.zone_start_pfn = s.zone_start_pfn)
    (h5 : s1.spanned_pages = s.spanned_pages) :
    WF cfg zid s1 ∧ SameStatic s s1 ∧ (∀ q i, Free s1 q i ↔ Free s q i) ∧
      (∀ q i, Guard cfg zid s1 q i ↔ Guard cfg zid s q i) := by
  have hst : SameStatic s s1 := ⟨h3, h4, h5, fun x => by rw [h2]; exact ⟨rfl, rfl⟩⟩
  obtain ⟨a, b, c⟩ := hwf.same_view hst h1
    (fun x => by rw [SameFlags, h2]; exact ⟨rfl, rfl, fun _ => rfl⟩)
  exact ⟨a, hst, b, c⟩

/-- Moving a listed block to the head of another list of its order keeps the
zone well formed and the set of blocks held by the buddy system. -/
theorem WF.relist {cfg : Config} {zid : Nat} {s s1 : State} {p k mt : Nat}
    (hwf : WF cfg zid s) (hf : Free s p k) (hmt : mt < MIGRATE_TYPES)
    (hst : SameStatic s s1) (hmm : s1.mem_map = s.mem_map)
    (hl1 : ∀ i m, ¬ (i = k ∧ m = mt) → s1.free_list i m = (s.free_list i m).erase p)
    (hl2 : s1.free_list k mt = p :: (s.free_list k mt).erase p) :
    WF cfg zid s1 ∧ (∀ q i, Free s1 q i ↔ Free s q i) ∧
      (∀ q i, Guard cfg zid s1 q i ↔ Guard cfg zid s q i) := by
  obtain ⟨m0, hm0⟩ := hf
  have hls := hwf.listed k m0 p hm0
  have hok := hls.2.1.head
  have hng : page_is_guard cfg (s.mem_map p) = false := by
    by_contra hc
    have hg : page_is_guard cfg (s.mem_map p) = true := by simpa using hc
    have := (hwf.guards p _ ⟨hok.1, hok.2, hg, rfl⟩).2
    rw [hls.2.2.1] at this
    exact Bool.noConfusion this
  have hstd : SameStatic s (rmv_page_order (list_del s p) p) :=
    (list_del_static s p).trans (rmv_page_order_static _ p)
  obtain ⟨u1, u2, u3⟩ := @unlink_pending cfg zid s (rmv_page_order (list_del s p) p) p k
    hwf ⟨m0, hm0⟩ hstd (fun i m' => rfl)
    (fun y hy => by simp [rmv_page_order, list_del, upd, hy])
    (by simp [rmv_page_order, list_del, upd])
  obtain ⟨w1, w2, w3⟩ := @Pending.insert_free cfg zid (rmv_page_order (list_del s p) p) s1
    p k mt u1 hmt (hstd.reverse.trans hst) hl1 (Or.inl hl2)
    (fun x hx => by
      rw [SameFlags, hmm]
      have : (rmv_page_order (list_del s p) p).mem_map x = s.mem_map x := by
        simp [rmv_page_order, list_del, upd, hx]
      rw [this]; exact ⟨rfl, rfl, fun _ => rfl⟩)
    (by rw [hmm]; exact hls.2.2.1) (by rw [hmm]; exact hls.2.2.2) (by rw [hmm]; exact hng)
  refine ⟨w1, ?_, ?_⟩
  · intro q i
    rw [w2, u2]
    constructor
    · rintro (⟨h, _⟩ | ⟨rfl, rfl⟩)
      · exact h
      · exact ⟨m0, hm0⟩
    · intro h
      by_cases hq : q = p
      · subst hq
        obtain ⟨m', hm'⟩ := h
        have e1 := (hwf.listed i m' q hm').2.2.2
        exact Or.inr ⟨rfl, by rw [← e1, hls.2.2.2]⟩
      · exact Or.inl ⟨h, hq⟩
  · intro q i
    rw [w3, u3]
    constructor
    · exact fun h => h.1
    · intro h
      refine ⟨h, ?_⟩
      rintro rfl
      rw [h.2.2.1] at hng
      exact Bool.noConfusion hng

/-- The iteration bound of `move_freepages` is enough: every iteration
advances `page` by at least one frame, so with `end_page + 1 - page`
iterations the loop has left through its own test, and more iterations
change nothing. -/
theorem move_freepages_loop_fuel (cfg : Config) (e mt : Nat) :
    ∀ (n page : Nat) (r : State × Nat), e + 1 - page ≤ n → ∀ k,
      move_freepages_loop cfg e mt (n + k) page r = move_freepages_loop cfg e mt n page r := by
  intro n
  induction n with
  | zero =>
    intro page r h k
    obtain ⟨s, moved⟩ := r
    cases k with
    | zero => rfl
    | succ k =>
      have hlt : ¬ page ≤ e := by omega
      rw [Nat.zero_add]
      show move_freepages_loop cfg e mt (k + 1) page (s, moved) = (s, moved)
      rw [move_freepages_loop, if_neg hlt]
  | succ n ih =>
    intro page r h k
    obtain ⟨s, moved⟩ := r
    rw [Nat.add_right_comm, move_freepages_loop, move_freepages_loop]
    have hpos : 0 < 1 <<< page_order (s.mem_map page) := by
      rw [Nat.one_shiftLeft]; exact Nat.two_pow_pos _
    split
    · split
      · exact ih _ _ (by omega) k
      · split
        · exact ih _ _ (by omega) k
        · exact ih _ _ (by omega) k
    · rfl

/-- The loop of `move_freepages` over frames of the zone only moves listed
blocks between lists. -/
theorem move_freepages_loop_wf {cfg : Config} {zid : Nat} (e mt : Nat)
    (hmt : mt < MIGRATE_TYPES) :
    ∀ (n page : Nat) (s : State) (moved : Nat), WF cfg zid s →
      s.zone_start_pfn ≤ page → e < s.zone_start_pfn + s.spanned_pages →
      WF cfg zid (move_freepages_loop cfg e mt n page (s, moved)).1 ∧
      SameStatic s (move_freepages_loop cfg e mt n page (s, moved)).1 ∧
      (∀ q i, Free (move_freepages_loop cfg e mt n page (s, moved)).1 q i ↔ Free s q i) ∧
      (∀ q i, Guard cfg zid (move_freepages_loop cfg e mt n page (s, moved)).1 q i ↔
        Guard cfg zid s q i) := by
  intro n
  induction n with
  | zero =>
    intro page s moved hwf _ _
    exact ⟨hwf, SameStatic.refl s, fun _ _ => Iff.rfl, fun _ _ => Iff.rfl⟩
  | succ n ih =>
    intro page s moved hwf h1 h2
    rw [move_freepages_loop]
    by_cases hpe : page ≤ e
    · rw [if_pos hpe]
      by_cases hv : pfn_valid_within cfg s page = true
      · by_cases hb : PageBuddy (s.mem_map page) = true
        · simp only [hv, hb, Bool.not_true, Bool.false_eq_true, if_false]
          have hz := hwf.span page h1 (by omega) hv
          have hf := hwf.flagged page hv hz hb
          have hst : SameStatic s (list_move s page (page_order (s.mem_map page)) mt) :=
            (list_del_static s page).trans (list_add_static _ _ _ _)
          obtain ⟨r1, r2, r3⟩ := @WF.relist cfg zid s
            (list_move s page (page_order (s.mem_map page)) mt) page
            (page_order (s.mem_map page)) mt hwf hf hmt hst rfl
            (fun i m hne => by
              show upd_list _ _ _ _ i m = _
              unfold upd_list
              rw [if_neg hne]
              rfl)
            (by
              show upd_list _ _ _ _ _ _ = _
              unfold upd_list
              rw [if_pos ⟨rfl, rfl⟩]
              rfl)
          obtain ⟨i1, i2, i3, i4⟩ := ih (page + 1 <<< page_order (s.mem_map page))
            (list_move s page (page_order (s.mem_map page)) mt)
            (moved + 1 <<< page_order (s.mem_map page)) r1
            (by rw [hst.2.1]; exact Nat.le_trans h1 (Nat.le_add_right _ _))
            (by rw [hst.2.1, hst.2.2.1]; exact h2)
          exact ⟨i1, hst.trans i2, fun q i => (i3 q i).trans (r2 q i),
            fun q i => (i4 q i).trans (r3 q i)⟩
        · have hb' : PageBuddy (s.mem_map page) = false := by simpa using hb
          simp only [hv, hb', Bool.not_true, Bool.not_false, Bool.false_eq_true, if_false,
            if_true]
          exact ih (page + 1) s moved hwf (by omega) h2
      · have hv' : pfn_valid_within cfg s page = false := by simpa using hv
        simp only [hv', Bool.not_false, if_true]
        exact ih (page + 1) s moved hwf (by omega) h2
    · rw [if_neg hpe]
      exact ⟨hwf, SameStatic.refl s, fun _ _ => Iff.rfl, fun _ _ => Iff.rfl⟩

/-- The start of the page-block of a frame, as computed by
`move_freepages_block` with the mask `~(pageblock_nr_pages-1)`. -/
theorem pageblock_start_eq (cfg : Config) (page : Nat) (h : page < 2 ^ cfg.BITS_PER_LONG) :
    page &&& ((2 ^ cfg.BITS_PER_LONG - 1) ^^^ (pageblock_nr_pages cfg - 1)) =
      block_start page cfg.pageblock_order := by
  apply Nat.eq_of_testBit_eq
  intro i
  rw [testBit_block_start, Nat.testBit_and, Nat.testBit_xor, pageblock_nr_pages,
    Nat.one_shiftLeft, Nat.testBit_two_pow_sub_one, Nat.testBit_two_pow_sub_one]
  by_cases hi : i < cfg.BITS_PER_LONG
  · by_cases hj : i < cfg.pageblock_order
    · have : ¬ cfg.pageblock_order ≤ i := by omega
      simp [hi, hj, this]
    · have : cfg.pageblock_order ≤ i := by omega
      simp [hi, hj, this]
  · have hlt : page < 2 ^ i :=
      Nat.lt_of_lt_of_le h (Nat.pow_le_pow_right (by decide) (by omega))
    rw [Nat.testBit_eq_false_of_lt hlt]
    simp

/-- When `move_freepages_block` returns on a well-formed zone, it has only
moved listed blocks between lists. -/
theorem move_freepages_block_wf {cfg : Config} {zid : Nat} {s : State} {page mt : Nat}
    (hwf : WF cfg zid s) (hmt : mt < MIGRATE_TYPES) (hpg : s.zone_start_pfn ≤ page) :
    ∀ r, move_freepages_block cfg s page mt = some r →
      WF cfg zid r.1 ∧ SameStatic s r.1 ∧ (∀ q i, Free r.1 q i ↔ Free s q i) ∧
      (∀ q i, Guard cfg zid r.1 q i ↔ Guard cfg zid s q i) := by
  intro r
  unfold move_freepages_block
  simp only []
  generalize page &&& ((2 ^ cfg.BITS_PER_LONG - 1) ^^^ (pageblock_nr_pages cfg - 1)) = sp
  split
  · intro h
    have : r = (s, 0) := by simpa using h.symm
    subst this
    exact ⟨hwf, SameStatic.refl s, fun _ _ => Iff.rfl, fun _ _ => Iff.rfl⟩
  · rename_i hend
    unfold move_freepages
    have hstart : s.zone_start_pfn ≤ (if sp < s.zone_start_pfn then page else sp) := by
      split
      · exact hpg
      · omega
    have hlt : sp + pageblock_nr_pages cfg - 1 < s.zone_start_pfn + s.spanned_pages := by
      omega
    generalize (if sp < s.zone_start_pfn then page else sp) = st at hstart ⊢
    split
    · intro h
      exact Option.noConfusion h
    · intro h
      have : r = move_freepages_loop cfg (sp + pageblock_nr_pages cfg - 1) mt
          (sp + pageblock_nr_pages cfg - 1 + 1 - st) st (s, 0) := by simpa using h.symm
      subst this
      exact move_freepages_loop_wf _ mt hmt _ _ s 0 hwf hstart hlt

/-- On a well-formed zone the `BUG_ON` of `move_freepages` does not fire:
`move_freepages_block` returns. -/
theorem move_freepages_block_returns {cfg : Config} {zid : Nat} {s : State} {page mt : Nat}
    (hwf : WF cfg zid s) (hpg : s.zone_start_pfn ≤ page)
    (hB : page < 2 ^ cfg.BITS_PER_LONG) :
    ∃ r, move_freepages_block cfg s page mt = some r := by
  unfold move_freepages_block
  simp only []
  rw [pageblock_start_eq cfg page hB]
  have h1 := block_start_le page cfg.pageblock_order
  have h2 := lt_block_start_add page cfg.pageblock_order
  have hnr : pageblock_nr_pages cfg = 2 ^ cfg.pageblock_order := by
    unfold pageblock_nr_pages; rw [Nat.one_shiftLeft]
  rw [hnr]
  generalize block_start page cfg.pageblock_order = sp at h1 h2 ⊢
  generalize 2 ^ cfg.pageblock_order = nr at h2 ⊢
  split
  · exact ⟨_, rfl⟩
  · rename_i hend
    unfold move_freepages
    rw [if_neg]
    · exact ⟨_, rfl⟩
    · intro hc
      simp only [Bool.and_eq_true, Bool.not_eq_true', bne_iff_ne, ne_eq] at hc
      obtain ⟨hh, hne⟩ := hc
      have hval : ∀ x, pfn_valid_within cfg s x = true := by
        intro x; simp [pfn_valid_within, hh]
      apply hne
      rw [hwf.span _ ?_ ?_ (hval _), hwf.span _ ?_ ?_ (hval _)]
      · omega
      · omega
      · split <;> omega
      · split <;> omega

theorem fallbacks_lt (a i : Nat) : fallbacks a i < MIGRATE_TYPES := by
  unfold fallbacks
  split <;> decide

theorem fallback_find_spec (s : State) (sm k : Nat) :
    ∀ (n i mt : Nat), fallback_find s sm k n i = some mt →
      mt < MIGRATE_TYPES ∧ s.free_list k mt ≠ [] := by
  intro n
  induction n with
  | zero => intro i mt h; exact Option.noConfusion h
  | succ n ih =>
    intro i mt h
    rw [fallback_find] at h
    split at h
    · simp only [] at h
      split at h
      · exact ih _ _ h
      · split at h
        · exact ih _ _ h
        · rename_i hne
          have : fallbacks sm i = mt := by simpa using h
          subst this
          refine ⟨fallbacks_lt sm i, ?_⟩
          intro hc
          apply hne
          rw [hc]; rfl
    · exact Option.noConfusion h

theorem set_pageblock_migratetype_view (cfg : Config) (s : State) (p m : Nat) :
    (set_pageblock_migratetype cfg s p m).free_list = s.free_list ∧
    (set_pageblock_migratetype cfg s p m).mem_map = s.mem_map ∧
    (set_pageblock_migratetype cfg s p m).pfn_valid = s.pfn_valid ∧
    (set_pageblock_migratetype cfg s p m).zone_start_pfn = s.zone_start_pfn ∧
    (set_pageblock_migratetype cfg s p m).spanned_pages = s.spanned_pages ∧
    (set_pageblock_migratetype cfg s p m).nr_free = s.nr_free :=
  ⟨rfl, rfl, rfl, rfl, rfl, rfl⟩

theorem change_pageblock_loop_view (cfg : Config) (m : Nat) :
    ∀ (n p : Nat) (s : State),
      (change_pageblock_loop cfg m n p s).free_list = s.free_list ∧
      (change_pageblock_loop cfg m n p s).mem_map = s.mem_map ∧
      (change_pageblock_loop cfg m n p s).pfn_valid = s.pfn_valid ∧
      (change_pageblock_loop cfg m n p s).zone_start_pfn = s.zone_start_pfn ∧
      (change_pageblock_loop cfg m n p s).spanned_pages = s.spanned_pages ∧
      (change_pageblock_loop cfg m n p s).nr_free = s.nr_free := by
  intro n
  induction n with
  | zero => intro p s; exact ⟨rfl, rfl, rfl, rfl, rfl, rfl⟩
  | succ n ih =>
    intro p s
    rw [change_pageblock_loop]
    obtain ⟨a, b, c, d, e, f⟩ := ih (p + pageblock_nr_pages cfg)
      (set_pageblock_migratetype cfg s p m)
    exact ⟨a, b, c, d, e, f⟩

/-- A block in use stays in use when only counters and page-block tags
change. -/
theorem Pending.eq_view {cfg : Config} {zid : Nat} {s s1 : State} {p k : Nat}
    (hp : Pending cfg zid s p k)
    (h1 : s1.free_list = s.free_list) (h2 : s1.mem_map = s.mem_map)
    (h3 : s1.pfn_valid = s.pfn_valid) (h4 : s1.zone_start_pfn = s.zone_start_pfn)
    (h5 : s1.spanned_pages = s.spanned_pages) : Pending cfg zid s1 p k :=
  hp.of_same_view ⟨h3, h4, h5, fun x => by rw [h2]; exact ⟨rfl, rfl⟩⟩ h1
    (fun x => by rw [SameFlags, h2]; exact ⟨rfl, rfl, fun _ => rfl⟩)

/-- The steal step of the fallback path: a state with the same blocks. -/
theorem fallback_take_wf {cfg : Config} {zid : Nat} {s : State} {o sm k mt : Nat}
    (hwf : WF cfg zid s) (hsm : sm < MIGRATE_TYPES) (hmt : mt < MIGRATE_TYPES)
    (hok : o ≤ k) (hne : s.free_list k mt ≠ []) :
    ∀ r, fallback_take cfg s o sm k mt = some r →
      ∃ p, r.1 = some p ∧ p ∈ s.free_list k mt ∧ Taken cfg zid s r.2 p o k := by
  intro r
  obtain ⟨page, rest, hx⟩ := List.exists_cons_of_ne_nil hne
  have hmem : page ∈ s.free_list k mt := by rw [hx]; exact List.mem_cons_self _ _
  have hls := hwf.listed k mt page hmem
  obtain ⟨n1, n2, n3, n4⟩ := @WF.of_eq_view cfg zid s (nr_free_dec cfg s k) hwf rfl rfl rfl
    rfl rfl
  unfold fallback_take
  rw [hx]
  simp only []
  generalize hst : (if (decide (k ≥ cfg.pageblock_order >>> 1) || sm == MIGRATE_RECLAIMABLE ||
      cfg.page_group_by_mobility_disabled) = true then
        (match move_freepages_block cfg (nr_free_dec cfg s k) page sm with
        | none => none
        | some (s2, pages) =>
          if (decide (pages ≥ 1 <<< (cfg.pageblock_order - 1)) ||
              cfg.page_group_by_mobility_disabled) = true then
            some (set_pageblock_migratetype cfg s2 page sm, sm)
          else some (s2, sm))
      else some (nr_free_dec cfg s k, mt)) = stolen
  have key : ∀ s3 m3, stolen = some (s3, m3) →
      m3 < MIGRATE_TYPES ∧ WF cfg zid s3 ∧ SameStatic s s3 ∧
        (∀ q i, Free s3 q i ↔ Free s q i) ∧
        (∀ q i, Guard cfg zid s3 q i ↔ Guard cfg zid s q i) := by
    intro s3 m3 h3
    rw [← hst] at h3
    split at h3
    · cases hmv : move_freepages_block cfg (nr_free_dec cfg s k) page sm with
      | none => rw [hmv] at h3; exact Option.noConfusion h3
      | some r2 =>
        obtain ⟨s2, pages⟩ := r2
        rw [hmv] at h3
        simp only [] at h3
        obtain ⟨v1, v2, v3, v4⟩ := move_freepages_block_wf n1 hsm
          (by show s.zone_start_pfn ≤ page; exact hls.2.1.2.2.1) _ hmv
        split at h3
        · have e : s3 = set_pageblock_migratetype cfg s2 page sm ∧ m3 = sm := by
            simp only [Option.some.injEq, Prod.mk.injEq] at h3
            exact ⟨h3.1.symm, h3.2.symm⟩
          obtain ⟨w1, w2, w3, w4⟩ := @WF.of_eq_view cfg zid s2
            (set_pageblock_migratetype cfg s2 page sm) v1 rfl rfl rfl rfl rfl
          rw [e.1, e.2]
          exact ⟨hsm, w1, (n2.trans v2).trans w2,
            fun q i => ((w3 q i).trans (v3 q i)).trans (n3 q i),
            fun q i => ((w4 q i).trans (v4 q i)).trans (n4 q i)⟩
        · have e : s3 = s2 ∧ m3 = sm := by
            simp only [Option.some.injEq, Prod.mk.injEq] at h3
            exact ⟨h3.1.symm, h3.2.symm⟩
          rw [e.1, e.2]
          exact ⟨hsm, v1, n2.trans v2, fun q i => (v3 q i).trans (n3 q i),
            fun q i => (v4 q i).trans (n4 q i)⟩
    · have e : s3 = nr_free_dec cfg s k ∧ m3 = mt := by
        simp only [Option.some.injEq, Prod.mk.injEq] at h3
        exact ⟨h3.1.symm, h3.2.symm⟩
      rw [e.1, e.2]
      exact ⟨hmt, n1, n2, n3, n4⟩
  cases stolen with
  | none => intro h; exact Option.noConfusion h
  | some sm3 =>
    obtain ⟨s3, m3⟩ := sm3
    obtain ⟨k1, k2, k3, k4, k5⟩ := key s3 m3 rfl
    simp only []
    intro h
    have hr : r = (some page, expand cfg page o m3 k k (1 <<< k)
        (if k ≥ cfg.pageblock_order then
          change_pageblock_range cfg (rmv_page_order (list_del s3 page) page) page k sm
        else rmv_page_order (list_del s3 page) page)) := by
      simpa using h.symm
    subst hr
    refine ⟨page, rfl, List.mem_cons_self _ _, ?_⟩
    have hstd : SameStatic s3 (rmv_page_order (list_del s3 page) page) :=
      (list_del_static s3 page).trans (rmv_page_order_static _ page)
    obtain ⟨u1, u2, u3⟩ := @unlink_pending cfg zid s3 (rmv_page_order (list_del s3 page) page)
      page k k2 ((k4 page k).2 ⟨mt, hmem⟩) hstd (fun i m' => rfl)
      (fun y hy => by simp [rmv_page_order, list_del, upd, hy])
      (by simp [rmv_page_order, list_del, upd])
    have hs5 : ∀ s5 : State, s5.free_list = (rmv_page_order (list_del s3 page) page).free_list →
        s5.mem_map = (rmv_page_order (list_del s3 page) page).mem_map →
        s5.pfn_valid = (rmv_page_order (list_del s3 page) page).pfn_valid →
        s5.zone_start_pfn = (rmv_page_order (list_del s3 page) page).zone_start_pfn →
        s5.spanned_pages = (rmv_page_order (list_del s3 page) page).spanned_pages →
        Taken cfg zid s (expand cfg page o m3 k k (1 <<< k) s5) page o k := by
      intro s5 a1 a2 a3 a4 a5
      have p5 := u1.eq_view a1 a2 a3 a4 a5
      obtain ⟨x1, x2, x3, x4⟩ := @WF.of_eq_view cfg zid _ s5 u1.wf a1 a2 a3 a4 a5
      obtain ⟨e1, e2, e3, e4⟩ := expand_pending page o m3 k1 k s5 hok p5
      refine ⟨e1, ((k3.trans hstd).trans x2).trans e2, ?_, ?_⟩
      · intro y i
        rw [e3, x3, u2, k4]
      · intro y i
        rw [e4, x4, u3, k5]
    show Taken cfg zid s (expand cfg page o m3 k k (1 <<< k) _) page o k
    split
    · obtain ⟨c1, c2, c3, c4, c5, _⟩ := change_pageblock_loop_view cfg sm
        (1 <<< (k - cfg.pageblock_order)) page (rmv_page_order (list_del s3 page) page)
      exact hs5 _ c1 c2 c3 c4 c5
    · exact hs5 _ rfl rfl rfl rfl rfl

theorem rmqueue_fallback_loop_wf {cfg : Config} {zid : Nat} {s : State} {o sm : Nat}
    (hwf : WF cfg zid s) (hsm : sm < MIGRATE_TYPES) :
    ∀ n, n ≤ cfg.MAX_ORDER → ∀ r, rmqueue_fallback_loop cfg s o sm n = some r →
      (∀ p, r.1 = some p → ∃ k mt, o ≤ k ∧ k < cfg.MAX_ORDER ∧ p ∈ s.free_list k mt ∧
        Taken cfg zid s r.2 p o k) ∧
      (r.1 = none → r.2 = s) := by
  intro n
  induction n with
  | zero =>
    intro _ r h
    have : r = (none, s) := by simpa [rmqueue_fallback_loop] using h.symm
    subst this
    exact ⟨fun p hp => Option.noConfusion hp, fun _ => rfl⟩
  | succ n ih =>
    intro hn r h
    rw [rmqueue_fallback_loop] at h
    split at h
    · rename_i hge
      cases hf : fallback_find s sm n (MIGRATE_TYPES - 1) 0 with
      | none =>
        rw [hf] at h
        exact ih (by omega) r h
      | some mt =>
        rw [hf] at h
        simp only [] at h
        obtain ⟨f1, f2⟩ := fallback_find_spec s sm n _ _ mt hf
        obtain ⟨p, e1, e2, e3⟩ := fallback_take_wf hwf hsm f1 hge f2 r h
        refine ⟨fun q hq => ?_, fun hnone => ?_⟩
        · rw [e1] at hq
          have : p = q := by simpa using hq
          subst this
          exact ⟨n, mt, hge, by omega, e2, e3⟩
        · rw [e1] at hnone
          exact Option.noConfusion hnone
    · have : r = (none, s) := by simpa using h.symm
      subst this
      exact ⟨fun p hp => Option.noConfusion hp, fun _ => rfl⟩

/-- `__rmqueue_fallback` on a well-formed zone, when it returns: a returned
page headed a free block of some order `k >= o` on some list, block `(p, o)`
is then in use and the buddy system holds the other blocks it held before
together with the upper halves split off; with `NULL` the state is
unchanged. -/
theorem rmqueue_fallback_wf {cfg : Config} {zid : Nat} {s : State} {o sm : Nat}
    (hwf : WF cfg zid s) (hsm : sm < MIGRATE_TYPES) :
    ∀ r, __rmqueue_fallback cfg s o sm = some r →
      (∀ p, r.1 = some p → ∃ k mt, o ≤ k ∧ k < cfg.MAX_ORDER ∧ p ∈ s.free_list k mt ∧
        Taken cfg zid s r.2 p o k) ∧
      (r.1 = none → r.2 = s) :=
  rmqueue_fallback_loop_wf hwf hsm _ (Nat.le_refl _)

theorem fallback_take_returns {cfg : Config} {zid : Nat} {s : State} (o sm k mt : Nat)
    (hwf : WF cfg zid s)
    (hB : ∀ p, p ∈ s.free_list k mt → p < 2 ^ cfg.BITS_PER_LONG) :
    ∃ r, fallback_take cfg s o sm k mt = some r := by
  unfold fallback_take
  cases hx : s.free_list k mt with
  | nil => exact ⟨_, rfl⟩
  | cons page rest =>
    have hmem : page ∈ s.free_list k mt := by rw [hx]; exact List.mem_cons_self _ _
    have hls := hwf.listed k mt page hmem
    obtain ⟨n1, _, _, _⟩ := @WF.of_eq_view cfg zid s (nr_free_dec cfg s k) hwf rfl rfl rfl
      rfl rfl
    obtain ⟨r2, hr2⟩ := @move_freepages_block_returns cfg zid (nr_free_dec cfg s k) page sm n1
      (by show s.zone_start_pfn ≤ page; exact hls.2.1.2.2.1) (hB page hmem)
    simp only [hr2]
    split
    · rename_i heq
      split at heq
      · split at heq <;> exact Option.noConfusion heq
      · exact Option.noConfusion heq
    · exact ⟨_, rfl⟩

/-- On a well-formed zone whose listed frame numbers fit an `unsigned long`,
`__rmqueue_fallback` returns: the `BUG_ON` of `move_freepages` does not
fire. -/
theorem rmqueue_fallback_returns {cfg : Config} {zid : Nat} {s : State} (o sm : Nat)
    (hwf : WF cfg zid s)
    (hB : ∀ k m p, p ∈ s.free_list k m → p < 2 ^ cfg.BITS_PER_LONG) :
    ∃ r, __rmqueue_fallback cfg s o sm = some r := by
  unfold __rmqueue_fallback
  generalize cfg.MAX_ORDER = n
  induction n with
  | zero => exact ⟨_, rfl⟩
  | succ n ih =>
    rw [rmqueue_fallback_loop]
    split
    · cases hf : fallback_find s sm n (MIGRATE_TYPES - 1) 0 with
      | none => exact ih
      | some mt => exact fallback_take_returns o sm n mt hwf (hB n mt)
    · exact ⟨_, rfl⟩

/-! ## Free-list well-formedness is preserved -/

theorem WF.freeListInv {cfg : Config} {zid : Nat} {s : State} (hwf : WF cfg zid s) :
    FreeListInv s := by
  intro k m p hp
  obtain ⟨_, hok, hb, ho⟩ := hwf.listed k m p hp
  exact ⟨fun i hi => (hok.2.2.2 i hi).2.2, hb, ho, Nat.mod_eq_zero_of_dvd hok.2.1⟩

theorem rmqueue_smallest_keeps_wf {cfg : Config} {zid : Nat} {s : State} (o m : Nat)
    (hwf : WF cfg zid s) (hm : m < MIGRATE_TYPES) :
    WF cfg zid (__rmqueue_smallest cfg s o m).2 := by
  obtain ⟨h1, h2⟩ := @rmqueue_smallest_wf cfg zid s o m hwf hm
  cases hr : (__rmqueue_smallest cfg s o m).1 with
  | none => rw [h2 hr]; exact hwf
  | some p =>
    obtain ⟨k, _, _, _, hp, _⟩ := h1 p hr
    exact hp.wf

theorem rmqueue_fallback_keeps_wf {cfg : Config} {zid : Nat} {s : State} (o m : Nat)
    (hwf : WF cfg zid s) (hm : m < MIGRATE_TYPES) :
    ∀ r, __rmqueue_fallback cfg s o m = some r → WF cfg zid r.2 := by
  intro r hr
  obtain ⟨h1, h2⟩ := rmqueue_fallback_wf hwf hm r hr
  cases hr1 : r.1 with
  | none => rw [h2 hr1]; exact hwf
  | some p =>
    obtain ⟨k, mt, _, _, _, hp, _⟩ := h1 p hr1
    exact hp.wf

theorem Step.keeps_wf {cfg : Config} {zid : Nat} {s s1 : State} (h : Step cfg zid s s1)
    (hwf : WF cfg zid s) : WF cfg zid s1 := by
  cases h with
  | free p o mt hp hc hm => exact (free_one_page_spec hp hc hm).2.2.2.2.1
  | smallest o mt hm => exact rmqueue_smallest_keeps_wf o mt hwf hm
  | fallback o mt r hm hr => exact rmqueue_fallback_keeps_wf o mt hwf hm r hr

theorem Reachable.all_wf {cfg : Config} {zid : Nat} {s0 s : State}
    (h : Reachable cfg zid s0 s) (hwf : WF cfg zid s0) : WF cfg zid s := by
  induction h with
  | init => exact hwf
  | step s s1 _ hs ih => exact hs.keeps_wf ih

/-- C5: free-list well-formedness is an invariant of the buddy
operations. In a well-formed zone state every block on every
`free_area[k].free_list[*]` has reference count zero on all its frames,
`PG_buddy` set, `private == k` and a start frame that is a multiple of `2^k`;
and the state stays well formed, so the four properties hold again, after
`__free_one_page` called with an aligned block of reference count zero that
is in use and passes the compound check, after `expand` splitting a block in
use, after `__rmqueue_smallest`, and after `__rmqueue_fallback`, which
returns (its `BUG_ON` does not fire) when the listed frame numbers fit an
`unsigned long`; hence the four properties hold in every state reachable by
these operations. -/
theorem free_list_wellformed_preserved (cfg : Config) (zid : Nat) (s : State)
    (hwf : WF cfg zid s) :
    FreeListInv s ∧
    (∀ p o mt, Pending cfg zid s p o → free_passes s p o → mt < MIGRATE_TYPES →
      WF cfg zid (__free_one_page cfg s p o mt) ∧
        FreeListInv (__free_one_page cfg s p o mt)) ∧
    (∀ p low high mt, low ≤ high → mt < MIGRATE_TYPES → Pending cfg zid s p high →
      WF cfg zid (expand cfg p low mt high high (1 <<< high) s) ∧
        FreeListInv (expand cfg p low mt high high (1 <<< high) s)) ∧
    (∀ o mt, mt < MIGRATE_TYPES →
      WF cfg zid (__rmqueue_smallest cfg s o mt).2 ∧
        FreeListInv (__rmqueue_smallest cfg s o mt).2) ∧
    (∀ o mt, mt < MIGRATE_TYPES → ∀ r, __rmqueue_fallback cfg s o mt = some r →
      WF cfg zid r.2 ∧ FreeListInv r.2) ∧
    (∀ o mt, (∀ k m p, p ∈ s.free_list k m → p < 2 ^ cfg.BITS_PER_LONG) →
      ∃ r, __rmqueue_fallback cfg s o mt = some r) ∧
    (∀ s1, Reachable cfg zid s s1 → WF cfg zid s1 ∧ FreeListInv s1) := by
  refine ⟨hwf.freeListInv, ?_, ?_, ?_, ?_, ?_, ?_⟩
  · intro p o mt hp hc hm
    have h := (free_one_page_spec hp hc hm).2.2.2.2.1
    exact ⟨h, h.freeListInv⟩
  · intro p low high mt hl hm hp
    have h := (expand_pending p low mt hm high s hl hp).1.wf
    exact ⟨h, h.freeListInv⟩
  · intro o mt hm
    have h := rmqueue_smallest_keeps_wf o mt hwf hm
    exact ⟨h, h.freeListInv⟩
  · intro o mt hm r hr
    have h := rmqueue_fallback_keeps_wf o mt hwf hm r hr
    exact ⟨h, h.freeListInv⟩
  · intro o mt hB
    exact rmqueue_fallback_returns o mt hwf hB
  · intro s1 hr
    have h := hr.all_wf hwf
    exact ⟨h, h.freeListInv⟩

theorem free_list_wellformed_preserved_witness :
    WF default_config 0 (zone_of_blocks 4 [(2, 1), (5, 0)] 2) ∧
    Pending default_config 0 (zone_of_blocks 4 [(2, 1), (5, 0)] 2) 0 0 ∧
    FreeListInv (zone_of_blocks 4 [(2, 1), (5, 0)] 2) ∧
    FreeListInv (__free_one_page default_config (zone_of_blocks 4 [(2, 1), (5, 0)] 2) 0 0 2) ∧
    FreeListInv
      (expand default_config 0 0 2 0 0 (1 <<< 0) (zone_of_blocks 4 [(2, 1), (5, 0)] 2)) ∧
    FreeListInv (__rmqueue_smallest default_config (zone_of_blocks 4 [(2, 1), (5, 0)] 2) 0 2).2 ∧
    (∃ r, __rmqueue_fallback default_config (zone_of_blocks 4 [(2, 1), (5, 0)] 2) 0 0
      = some r ∧ r.1 = some 2 ∧ FreeListInv r.2) :=
  have hw := zone_of_blocks_wf default_config 4 2 [(2, 1), (5, 0)] rfl (by decide) (by decide)
  have hp := zone_of_blocks_pending default_config 4 2 [(2, 1), (5, 0)] 0 0 rfl (by decide)
    (by decide) (by decide)
  have h := free_list_wellformed_preserved default_config 0
    (zone_of_blocks 4 [(2, 1), (5, 0)] 2) hw
  ⟨hw, hp, h.1,
    (h.2.1 0 0 2 hp (zone_of_blocks_not_compound 4 2 _ 0 0) (by decide)).2,
    (h.2.2.1 0 0 0 2 (Nat.le_refl 0) (by decide) hp).2,
    (h.2.2.2.1 0 2 (by decide)).2,
    ⟨_, rfl, by decide, (h.2.2.2.2.1 0 0 (by decide) _ rfl).2⟩⟩

/-! ## No two free buddies -/

theorem find_buddy_index_invol (p k : Nat) :
    __find_buddy_index (__find_buddy_index p k) k = p := by
  unfold __find_buddy_index
  rw [Nat.xor_assoc, Nat.xor_self, Nat.xor_zero]

theorem find_buddy_index_ne (p k : Nat) : __find_buddy_index p k ≠ p := by
  intro h
  have h2 : (__find_buddy_index p k).testBit k = p.testBit k := by rw [h]
  unfold __find_buddy_index at h2
  rw [Nat.testBit_xor, Nat.one_shiftLeft, Nat.testBit_two_pow_self] at h2
  cases hb : p.testBit k <;> rw [hb] at h2 <;> simp at h2

theorem find_buddy_index_upper (p i k : Nat) (h : 2 ^ k ∣ p) (hi : i < k) :
    __find_buddy_index (p + 2 ^ i) i = p := by
  have h1 : 2 ^ (i + 1) ∣ p := Dvd.dvd.trans (pow_dvd_pow 2 (by omega)) h
  have h0 : 2 ^ i ∣ p := Dvd.dvd.trans (pow_dvd_pow 2 (by omega)) h
  have hbs := block_start_of_dvd p (i + 1) h1
  have hpos := Nat.two_pow_pos i
  rcases buddy_cases p i h0 with ⟨c1, _⟩ | ⟨c0, _, c2⟩
  · rw [← c1]; exact find_buddy_index_invol p i
  · rw [hbs] at c2; omega

/-- Taking a block off the lists and splitting it creates no free buddy
pair. -/
theorem Taken.no_buddy_pair {cfg : Config} {zid : Nat} {s s1 : State} {p o k : Nat}
    (ht : Taken cfg zid s s1 p o k) (hal : 2 ^ k ∣ p) (hn : NoBuddyPair cfg s) :
    NoBuddyPair cfg s1 := by
  obtain ⟨_, _, hfree, _⟩ := ht
  intro x i hi hf hb
  rw [hfree] at hf hb
  rcases hf with ⟨f1, f2⟩ | ⟨f1, f2, f3, _⟩
  · rcases hb with ⟨b1, _⟩ | ⟨b1, b2, b3, _⟩
    · exact hn x i hi f1 b1
    · apply f2
      rw [← find_buddy_index_invol x i, b3]
      exact find_buddy_index_upper p i k hal b2
  · rw [f3, find_buddy_index_upper p i k hal f2] at hb
    have hpos := Nat.two_pow_pos i
    rcases hb with ⟨_, b2⟩ | ⟨_, _, b3, _⟩
    · exact b2 rfl
    · omega

theorem free_one_page_no_buddy_pair {cfg : Config} {zid : Nat} {s : State} {p o mt : Nat}
    (hp : Pending cfg zid s p o) (hc : free_passes s p o) (hm : mt < MIGRATE_TYPES)
    (hn : NoBuddyPair cfg s) : NoBuddyPair cfg (__free_one_page cfg s p o mt) := by
  obtain ⟨_, _, _, hnb, _, hfree, _⟩ := free_one_page_spec hp hc hm
  intro x i hi hf hb
  rw [hfree] at hf hb
  rcases hf with ⟨f1, _⟩ | ⟨f1, f2⟩
  · rcases hb with ⟨b1, _⟩ | ⟨b1, b2⟩
    · exact hn x i hi f1 b1
    · subst b2
      apply hnb hi
      left
      rw [← b1, find_buddy_index_invol]
      exact f1
  · subst f2
    rcases hb with ⟨b1, _⟩ | ⟨b1, _⟩
    · apply hnb hi
      left
      rw [← f1]
      exact b1
    · rw [f1] at b1
      exact find_buddy_index_ne _ _ b1

theorem rmqueue_smallest_no_buddy_pair {cfg : Config} {zid : Nat} {s : State} (o m : Nat)
    (hwf : WF cfg zid s) (hm : m < MIGRATE_TYPES) (hn : NoBuddyPair cfg s) :
    NoBuddyPair cfg (__rmqueue_smallest cfg s o m).2 := by
  obtain ⟨h1, h2⟩ := @rmqueue_smallest_wf cfg zid s o m hwf hm
  cases hr : (__rmqueue_smallest cfg s o m).1 with
  | none => rw [h2 hr]; exact hn
  | some p =>
    obtain ⟨k, _, _, hmem, ht⟩ := h1 p hr
    have ht2 : Taken cfg zid s (__rmqueue_smallest cfg s o m).2 p o k := ht
    exact ht2.no_buddy_pair (hwf.listed k m p hmem).2.1.2.1 hn

theorem rmqueue_fallback_no_buddy_pair {cfg : Config} {zid : Nat} {s : State} (o m : Nat)
    (hwf : WF cfg zid s) (hm : m < MIGRATE_TYPES) (hn : NoBuddyPair cfg s) :
    ∀ r, __rmqueue_fallback cfg s o m = some r → NoBuddyPair cfg r.2 := by
  intro r hr
  obtain ⟨h1, h2⟩ := rmqueue_fallback_wf hwf hm r hr
  cases hr1 : r.1 with
  | none => rw [h2 hr1]; exact hn
  | some p =>
    obtain ⟨k, mt, _, _, hmem, ht⟩ := h1 p hr1
    exact ht.no_buddy_pair (hwf.listed k mt p hmem).2.1.2.1 hn

theorem Step.keeps {cfg : Config} {zid : Nat} {s s1 : State} (h : Step cfg zid s s1)
    (hwf : WF cfg zid s) (hn : NoBuddyPair cfg s) : WF cfg zid s1 ∧ NoBuddyPair cfg s1 := by
  cases h with
  | free p o mt hp hc hm =>
    exact ⟨(free_one_page_spec hp hc hm).2.2.2.2.1, free_one_page_no_buddy_pair hp hc hm hn⟩
  | smallest o mt hm =>
    exact ⟨rmqueue_smallest_keeps_wf o mt hwf hm, rmqueue_smallest_no_buddy_pair o mt hwf hm hn⟩
  | fallback o mt r hm hr =>
    exact ⟨rmqueue_fallback_keeps_wf o mt hwf hm r hr,
      rmqueue_fallback_no_buddy_pair o mt hwf hm hn r hr⟩

theorem Reachable.invariant {cfg : Config} {zid : Nat} {s0 s : State}
    (h : Reachable cfg zid s0 s) (hwf : WF cfg zid s0) (hn : NoBuddyPair cfg s0) :
    WF cfg zid s ∧ NoBuddyPair cfg s := by
  induction h with
  | init => exact ⟨hwf, hn⟩
  | step s s1 _ hs ih => exact hs.keeps ih.1 ih.2

/-- C6 as stated fails at the largest order. In the default build
(`MAX_ORDER = 11`) take the zone of 2048 frames whose only free block is
`(0, 10)`: it is well formed and has no two free buddies. Freeing the block
`(1024, 10)`, which is in use, is one operation of the buddy system, and
after it the blocks at frames 0 and 1024, whose numbers differ exactly in
bit 10, are both on `free_list[10]`: the merge loop of `__free_one_page`
does not run at order `MAX_ORDER - 1`. -/
theorem free_buddy_pair_counterexample :
    WF default_config 0 (zone_of_blocks 11 [(0, 10)] 2) ∧
    (∀ p k, Free (zone_of_blocks 11 [(0, 10)] 2) p k →
      ¬ Free (zone_of_blocks 11 [(0, 10)] 2) (__find_buddy_index p k) k) ∧
    Reachable default_config 0 (zone_of_blocks 11 [(0, 10)] 2)
      (__free_one_page default_config (zone_of_blocks 11 [(0, 10)] 2) 1024 10 2) ∧
    (__free_one_page default_config (zone_of_blocks 11 [(0, 10)] 2) 1024 10 2).free_list 10 2
      = [1024, 0] ∧
    __find_buddy_index 0 10 = 1024 ∧
    Free (__free_one_page default_config (zone_of_blocks 11 [(0, 10)] 2) 1024 10 2) 0 10 ∧
    Free (__free_one_page default_config (zone_of_blocks 11 [(0, 10)] 2) 1024 10 2)
      (__find_buddy_index 0 10) 10 := by
  have hl : (__free_one_page default_config (zone_of_blocks 11 [(0, 10)] 2) 1024 10
      2).free_list 10 2 = [1024, 0] := by decide
  refine ⟨zone_of_blocks_wf default_config 11 2 _ rfl (by decide) (by decide), ?_, ?_, hl,
    by decide, ⟨2, by rw [hl]; decide⟩, ⟨2, by rw [hl]; decide⟩⟩
  · rintro p k ⟨m1, h1⟩ ⟨m2, h2⟩
    rw [zone_of_blocks_mem] at h1 h2
    simp only [List.mem_singleton, Prod.mk.injEq] at h1 h2
    obtain ⟨_, rfl, rfl⟩ := h1
    have : __find_buddy_index 0 10 = 1024 := by decide
    rw [this] at h2
    omega
  · exact Reachable.step _ _ Reachable.init
      (Step.free _ 1024 10 2
        (zone_of_blocks_pending default_config 11 2 _ 1024 10 rfl (by decide) (by decide)
          (by decide))
        (zone_of_blocks_not_compound 11 2 _ 1024 10) (by decide))

/-- C6, amended to the orders below `MAX_ORDER - 1`. In every zone
state reachable from a well-formed state with no free buddy pair by
`__rmqueue_smallest`, `__rmqueue_fallback` and `__free_one_page` of blocks in
use, no two blocks of the same order `k < MAX_ORDER - 1` whose frame numbers
differ exactly in bit `k` are both on free lists; the state is well formed
as well. -/
theorem reachable_no_free_buddies (cfg : Config) (zid : Nat) (s0 s : State)
    (hwf : WF cfg zid s0) (hn : NoBuddyPair cfg s0) (hr : Reachable cfg zid s0 s) :
    WF cfg zid s ∧
    (∀ p k, k + 1 < cfg.MAX_ORDER → Free s p k → ¬ Free s (__find_buddy_index p k) k) ∧
    (∀ p q k, k + 1 < cfg.MAX_ORDER → p ^^^ q = 2 ^ k → ¬ (Free s p k ∧ Free s q k)) := by
  obtain ⟨h1, h2⟩ := hr.invariant hwf hn
  refine ⟨h1, h2, ?_⟩
  rintro p q k hk hx ⟨hp, hq⟩
  apply h2 p k hk hp
  have : __find_buddy_index p k = q := by
    unfold __find_buddy_index
    rw [Nat.one_shiftLeft, ← hx, ← Nat.xor_assoc, Nat.xor_self, Nat.zero_xor]
  rw [this]
  exact hq

theorem reachable_no_free_buddies_witness :
    WF default_config 0 (zone_of_blocks 4 [(2, 1), (5, 0)] 2) ∧
    NoBuddyPair default_config (zone_of_blocks 4 [(2, 1), (5, 0)] 2) ∧
    Reachable default_config 0 (zone_of_blocks 4 [(2, 1), (5, 0)] 2)
      (__free_one_page default_config (zone_of_blocks 4 [(2, 1), (5, 0)] 2) 0 0 2) ∧
    (__free_one_page default_config (zone_of_blocks 4 [(2, 1), (5, 0)] 2) 0 0 2).free_list 0 2
      = [5, 0] ∧
    ¬ (Free (__free_one_page default_config (zone_of_blocks 4 [(2, 1), (5, 0)] 2) 0 0 2) 0 0 ∧
      Free (__free_one_page default_config (zone_of_blocks 4 [(2, 1), (5, 0)] 2) 0 0 2) 1 0) :=
  have hw := zone_of_blocks_wf default_config 4 2 [(2, 1), (5, 0)] rfl (by decide) (by decide)
  have hn : NoBuddyPair default_config (zone_of_blocks 4 [(2, 1), (5, 0)] 2) := by
    rintro p k _ ⟨m1, h1⟩ ⟨m2, h2⟩
    rw [zone_of_blocks_mem] at h1 h2
    simp only [List.mem_cons, Prod.mk.injEq, List.mem_singleton, List.not_mem_nil,
      or_false] at h1 h2
    rcases h1.2 with ⟨rfl, rfl⟩ | ⟨rfl, rfl⟩
    · have : __find_buddy_index 2 1 = 0 := by decide
      rw [this] at h2
      omega
    · have : __find_buddy_index 5 0 = 4 := by decide
      rw [this] at h2
      omega
  have hr : Reachable default_config 0 (zone_of_blocks 4 [(2, 1), (5, 0)] 2)
      (__free_one_page default_config (zone_of_blocks 4 [(2, 1), (5, 0)] 2) 0 0 2) :=
    Reachable.step _ _ Reachable.init
      (Step.free _ 0 0 2
        (zone_of_blocks_pending default_config 4 2 _ 0 0 rfl (by decide) (by decide)
          (by decide))
        (zone_of_blocks_not_compound 4 2 _ 0 0) (by decide))
  ⟨hw, hn, hr, by decide,
    (reachable_no_free_buddies default_config 0 _ _ hw hn hr).2.2 0 1 0 (by decide)
      (by decide)⟩

/-! ## Geometry of aligned blocks -/

theorem overlap_iff_frame (p k q j : Nat) :
    Overlap p k q j ↔ ∃ y, (p ≤ y ∧ y < p + 2 ^ k) ∧ (q ≤ y ∧ y < q + 2 ^ j) := by
  have h1 := Nat.two_pow_pos k
  have h2 := Nat.two_pow_pos j
  unfold Overlap
  constructor
  · rintro ⟨a, b⟩
    by_cases h : p ≤ q
    · exact ⟨q, ⟨h, b⟩, ⟨Nat.le_refl _, by omega⟩⟩
    · exact ⟨p, ⟨Nat.le_refl _, by omega⟩, ⟨by omega, a⟩⟩
  · rintro ⟨y, ⟨a, b⟩, ⟨c, d⟩⟩
    exact ⟨by omega, by omega⟩

/-- Two aligned blocks that meet are nested. -/
theorem overlap_nested {p k q j : Nat} (hp : 2 ^ k ∣ p) (hq : 2 ^ j ∣ q) (hkj : k ≤ j)
    (h : Overlap p k q j) : q ≤ p ∧ p + 2 ^ k ≤ q + 2 ^ j := by
  have hqk : 2 ^ k ∣ q := Dvd.dvd.trans (pow_dvd_pow 2 hkj) hq
  have hjk : 2 ^ k ∣ 2 ^ j := pow_dvd_pow 2 hkj
  obtain ⟨a, b⟩ := h
  have h1 : q ≤ p := by
    by_contra hc
    have := add_le_of_dvd_of_lt hp hqk (by omega)
    omega
  exact ⟨h1, add_le_of_dvd_of_lt hp (Dvd.dvd.add hqk hjk) a⟩

theorem block_start_eq_of_mem {q j x : Nat} (hq : 2 ^ j ∣ q) (h1 : q ≤ x) (h2 : x < q + 2 ^ j) :
    block_start x j = q := by
  obtain ⟨c, rfl⟩ := hq
  unfold block_start
  have hpos := Nat.two_pow_pos j
  have : x / 2 ^ j = c := by
    apply Nat.div_eq_of_lt_le
    · rw [Nat.mul_comm]; exact h1
    · rw [Nat.succ_mul, Nat.mul_comm]; exact h2
  rw [this, Nat.mul_comm]

/-- The frames of a block split from order `k` down to order `o`: the lower
part of order `o` and the upper halves of the orders in between. -/
theorem range_split (p o y : Nat) : ∀ k, o ≤ k →
    ((p ≤ y ∧ y < p + 2 ^ k) ↔
      (p ≤ y ∧ y < p + 2 ^ o) ∨ ∃ i, o ≤ i ∧ i < k ∧ p + 2 ^ i ≤ y ∧ y < p + 2 ^ i + 2 ^ i) := by
  intro k hk
  induction k, hk using Nat.le_induction with
  | base =>
    constructor
    · exact fun h => Or.inl h
    · rintro (h | ⟨i, h1, h2, _⟩)
      · exact h
      · omega
  | succ k hk ih =>
    have hpow : (2:Nat) ^ (k + 1) = 2 ^ k + 2 ^ k := by rw [Nat.pow_succ]; omega
    constructor
    · rintro ⟨a, b⟩
      by_cases hy : y < p + 2 ^ k
      · rcases ih.1 ⟨a, hy⟩ with h | ⟨i, h1, h2, h3⟩
        · exact Or.inl h
        · exact Or.inr ⟨i, h1, by omega, h3⟩
      · exact Or.inr ⟨k, hk, by omega, by omega, by omega⟩
    · rintro (h | ⟨i, h1, h2, h3, h4⟩)
      · have := (ih.2 (Or.inl h))
        omega
      · by_cases hik : i = k
        · subst hik
          have := Nat.two_pow_pos i
          omega
        · have := ih.2 (Or.inr ⟨i, h1, by omega, h3, h4⟩)
          omega

/-- The frames of the block merged up from order `o` to order `k` around
`p`: the order-`o` block around `p` and the buddies merged on the way. -/
theorem merge_range_split (p o y : Nat) : ∀ k, o ≤ k →
    ((block_start p k ≤ y ∧ y < block_start p k + 2 ^ k) ↔
      (block_start p o ≤ y ∧ y < block_start p o + 2 ^ o) ∨
        ∃ j, o ≤ j ∧ j < k ∧ __find_buddy_index (block_start p j) j ≤ y ∧
          y < __find_buddy_index (block_start p j) j + 2 ^ j) := by
  intro k hk
  induction k, hk using Nat.le_induction with
  | base =>
    constructor
    · exact fun h => Or.inl h
    · rintro (h | ⟨i, h1, h2, _⟩)
      · exact h
      · omega
  | succ k hk ih =>
    have hpow : (2:Nat) ^ (k + 1) = 2 ^ k + 2 ^ k := by rw [Nat.pow_succ]; omega
    have hc := buddy_cases (block_start p k) k (dvd_block_start p k)
    rw [block_start_block_start p k (k + 1) (Nat.le_succ k)] at hc
    have key : (block_start p (k + 1) ≤ y ∧ y < block_start p (k + 1) + 2 ^ (k + 1)) ↔
        (block_start p k ≤ y ∧ y < block_start p k + 2 ^ k) ∨
          (__find_buddy_index (block_start p k) k ≤ y ∧
            y < __find_buddy_index (block_start p k) k + 2 ^ k) := by
      rcases hc with ⟨c1, c2⟩ | ⟨c0, c1, c2⟩
      · rw [c1, c2]; omega
      · rw [c1, c2]; omega
    rw [key, ih]
    constructor
    · rintro ((h | ⟨j, h1, h2, h3⟩) | h)
      · exact Or.inl h
      · exact Or.inr ⟨j, h1, by omega, h3⟩
      · exact Or.inr ⟨k, hk, by omega, h⟩
    · rintro (h | ⟨j, h1, h2, h3⟩)
      · exact Or.inl (Or.inl h)
      · by_cases hjk : j = k
        · subst hjk
          exact Or.inr h3
        · exact Or.inl (Or.inr ⟨j, h1, by omega, h3⟩)

/-! ## Blocks of a canonical state are maximal -/

theorem Blk.dvd {cfg : Config} {zid : Nat} {s : State} (hwf : WF cfg zid s) {p k : Nat}
    (h : Blk cfg zid s p k) : 2 ^ k ∣ p := (Blk.ok_of_wf hwf h).2.1

theorem Blk.lt {cfg : Config} {zid : Nat} {s : State} (hwf : WF cfg zid s) {p k : Nat}
    (h : Blk cfg zid s p k) : k < cfg.MAX_ORDER := (Blk.ok_of_wf hwf h).1

theorem find_buddy_index_dvd (x i : Nat) (h : 2 ^ i ∣ x) : 2 ^ i ∣ __find_buddy_index x i := by
  rcases buddy_cases x i h with ⟨c1, _⟩ | ⟨c0, c1, _⟩
  · rw [c1]; exact Dvd.dvd.add h (dvd_refl _)
  · rw [c1]; exact Nat.dvd_sub' h (dvd_refl _)

/-- In a well-formed state with no two held buddies, the frames of the buddy
of a held block of order below `MAX_ORDER - 1` are not all held. -/
theorem no_covered_buddy {cfg : Config} {zid : Nat} {s : State} (hwf : WF cfg zid s)
    (hc : Canon cfg zid s) :
    ∀ i x, Blk cfg zid s x i → i + 1 < cfg.MAX_ORDER →
      (∀ y, __find_buddy_index x i ≤ y → y < __find_buddy_index x i + 2 ^ i →
        Covered cfg zid s y) → False := by
  intro i
  induction i using Nat.strong_induction_on with
  | _ i ih =>
    intro x hx hi hcov
    have hxd := hx.dvd hwf
    have hbd := find_buddy_index_dvd x i hxd
    have hpos := Nat.two_pow_pos i
    obtain ⟨q, j, hq, hq1, hq2⟩ := hcov (__find_buddy_index x i) (Nat.le_refl _) (by omega)
    have hqd := hq.dvd hwf
    rcases Nat.lt_trichotomy j i with hji | hji | hji
    · -- a smaller block at the first frame of the buddy
      have hbj : 2 ^ j ∣ __find_buddy_index x i :=
        Dvd.dvd.trans (pow_dvd_pow 2 (by omega)) hbd
      have e1 := block_start_eq_of_mem hqd hq1 hq2
      rw [block_start_of_dvd _ j hbj] at e1
      subst e1
      have hup : __find_buddy_index (__find_buddy_index x i) j =
          __find_buddy_index x i + 2 ^ j := by
        have hb1 : 2 ^ (j + 1) ∣ __find_buddy_index x i :=
          Dvd.dvd.trans (pow_dvd_pow 2 (by omega)) hbd
        have hbs := block_start_of_dvd _ (j + 1) hb1
        have hposj := Nat.two_pow_pos j
        rcases buddy_cases (__find_buddy_index x i) j hbj with ⟨c1, _⟩ | ⟨c0, _, c2⟩
        · exact c1
        · rw [hbs] at c2; omega
      have hle : 2 ^ (j + 1) ≤ 2 ^ i := Nat.pow_le_pow_right (by decide) (by omega)
      have hpow : (2:Nat) ^ (j + 1) = 2 ^ j + 2 ^ j := by rw [Nat.pow_succ]; omega
      refine ih j hji _ hq (by omega) (fun y h1 h2 => hcov y ?_ ?_)
      · rw [hup] at h1; omega
      · rw [hup] at h2; omega
    · subst hji
      have e1 := block_start_eq_of_mem hqd hq1 hq2
      rw [block_start_of_dvd _ j hbd] at e1
      subst e1
      exact hc x j hi hx hq
    · -- a larger block contains the parent, hence the block itself
      have hpar : Overlap (block_start x (i + 1)) (i + 1) q j := by
        rw [overlap_iff_frame]
        refine ⟨__find_buddy_index x i, ?_, hq1, hq2⟩
        have hpow : (2:Nat) ^ (i + 1) = 2 ^ i + 2 ^ i := by rw [Nat.pow_succ]; omega
        rcases buddy_cases x i hxd with ⟨c1, c2⟩ | ⟨c0, c1, c2⟩
        · rw [c1, c2]; omega
        · rw [c1, c2]; omega
      have hn := overlap_nested (dvd_block_start x (i + 1)) hqd (by omega) hpar
      have h1 := block_start_le x (i + 1)
      have h2 := lt_block_start_add x (i + 1)
      have hov : Overlap x i q j := ⟨by omega, by omega⟩
      have := (hwf.disjoint x i q j hx hq hov).2
      omega

/-- In a well-formed state with no two held buddies, no larger aligned block
of order below `MAX_ORDER` around a held block has all its frames held. -/
theorem not_in_larger_covered {cfg : Config} {zid : Nat} {s : State} (hwf : WF cfg zid s)
    (hc : Canon cfg zid s) {x i j : Nat} (hx : Blk cfg zid s x i) (hij : i < j)
    (hj : j < cfg.MAX_ORDER)
    (hcov : ∀ y, block_start x j ≤ y → y < block_start x j + 2 ^ j → Covered cfg zid s y) :
    False := by
  have hb := buddy_in_block x i j hij
  rw [block_start_of_dvd x i (hx.dvd hwf)] at hb
  exact no_covered_buddy hwf hc i x hx (by omega) (fun y h1 h2 => hcov y (by omega) (by omega))

/-- Two well-formed states with no two held buddies that hold the same
frames hold the same blocks. -/
theorem blk_of_same_cover {cfg : Config} {zid : Nat} {a b : State}
    (ha : WF cfg zid a) (hca : Canon cfg zid a) (hb : WF cfg zid b) (hcb : Canon cfg zid b)
    (hab : ∀ x, Covered cfg zid a x ↔ Covered cfg zid b x) {p k : Nat}
    (h : Blk cfg zid a p k) : Blk cfg zid b p k := by
  have hpos := Nat.two_pow_pos k
  obtain ⟨q, j, hq, hq1, hq2⟩ := (hab p).1 ⟨p, k, h, Nat.le_refl _, by omega⟩
  have hpd := h.dvd ha
  have hqd := hq.dvd hb
  rcases Nat.lt_trichotomy j k with hjk | hjk | hjk
  · exfalso
    have hov : Overlap q j p k := ⟨by omega, by have := Nat.two_pow_pos j; omega⟩
    have hn := overlap_nested hqd hpd (by omega) hov
    have e := block_start_eq_of_mem hpd hn.1 (by have := Nat.two_pow_pos j; omega)
    refine not_in_larger_covered hb hcb hq hjk (h.lt ha) (fun y h1 h2 => ?_)
    rw [e] at h1 h2
    exact (hab y).1 ⟨p, k, h, h1, h2⟩
  · subst hjk
    have e1 := block_start_eq_of_mem hqd hq1 hq2
    rw [block_start_of_dvd p j hpd] at e1
    rw [e1]
    exact hq
  · exfalso
    have e := block_start_eq_of_mem hqd hq1 hq2
    refine not_in_larger_covered ha hca h hjk (hq.lt hb) (fun y h1 h2 => ?_)
    rw [e] at h1 h2
    exact (hab y).2 ⟨q, j, hq, h1, h2⟩

/-! ## The invariant of a run -/

theorem Overlap.symm {p k q j : Nat} (h : Overlap p k q j) : Overlap q j p k := ⟨h.2, h.1⟩

theorem two_pow_add_le (i k : Nat) (h : i < k) : 2 ^ i + 2 ^ i ≤ 2 ^ k := by
  have h1 : (2:Nat) ^ (i + 1) ≤ 2 ^ k := Nat.pow_le_pow_right (by decide) h
  have h2 : (2:Nat) ^ (i + 1) = 2 ^ i + 2 ^ i := by rw [Nat.pow_succ]; omega
  omega

theorem Taken.blk_iff {cfg : Config} {zid : Nat} {s s1 : State} {p o k : Nat}
    (ht : Taken cfg zid s s1 p o k) (x i : Nat) :
    Blk cfg zid s1 x i ↔ (Blk cfg zid s x i ∧ x ≠ p) ∨ (o ≤ i ∧ i < k ∧ x = p + 2 ^ i) := by
  obtain ⟨_, _, hf, hg⟩ := ht
  unfold Blk
  rw [hf, hg]
  cases hgl : guard_level cfg i
  · constructor
    · rintro ((h | ⟨a, b, c, _⟩) | (h | ⟨_, _, _, d⟩))
      · exact Or.inl ⟨Or.inl h.1, h.2⟩
      · exact Or.inr ⟨a, b, c⟩
      · exact Or.inl ⟨Or.inr h.1, h.2⟩
      · exact Bool.noConfusion d
    · rintro (⟨h | h, h2⟩ | ⟨a, b, c⟩)
      · exact Or.inl (Or.inl ⟨h, h2⟩)
      · exact Or.inr (Or.inl ⟨h, h2⟩)
      · exact Or.inl (Or.inr ⟨a, b, c, rfl⟩)
  · constructor
    · rintro ((h | ⟨_, _, _, d⟩) | (h | ⟨a, b, c, _⟩))
      · exact Or.inl ⟨Or.inl h.1, h.2⟩
      · exact Bool.noConfusion d
      · exact Or.inl ⟨Or.inr h.1, h.2⟩
      · exact Or.inr ⟨a, b, c⟩
    · rintro (⟨h | h, h2⟩ | ⟨a, b, c⟩)
      · exact Or.inl (Or.inl ⟨h, h2⟩)
      · exact Or.inr (Or.inl ⟨h, h2⟩)
      · exact Or.inr (Or.inr ⟨a, b, c, rfl⟩)

theorem Taken.canon {cfg : Config} {zid : Nat} {s s1 : State} {p o k : Nat}
    (ht : Taken cfg zid s s1 p o k) (hal : 2 ^ k ∣ p) (hc : Canon cfg zid s) :
    Canon cfg zid s1 := by
  intro x i hi hf hb
  rw [ht.blk_iff] at hf hb
  rcases hf with ⟨f1, f2⟩ | ⟨f1, f2, f3⟩
  · rcases hb with ⟨b1, _⟩ | ⟨b1, b2, b3⟩
    · exact hc x i hi f1 b1
    · apply f2
      rw [← find_buddy_index_invol x i, b3]
      exact find_buddy_index_upper p i k hal b2
  · rw [f3, find_buddy_index_upper p i k hal f2] at hb
    have hpos := Nat.two_pow_pos i
    rcases hb with ⟨_, b2⟩ | ⟨_, _, b3⟩
    · exact b2 rfl
    · omega

/-- An allocation that takes the free block `(p, k)` and hands out `(p, o)`
keeps the invariant of the run. -/
theorem RunInv.alloc {cfg : Config} {zid : Nat} {s0 s s1 : State} {out : List (Nat × Nat)}
    {p o k : Nat} (hinv : RunInv cfg zid s0 s out) (hwf0 : WF cfg zid s0)
    (hc0 : Canon cfg zid s0) (ht : Taken cfg zid s s1 p o k) (hf : Free s p k)
    (hok : o ≤ k) : RunInv cfg zid s0 s1 ((p, o) :: out) := by
  have hblk := ht.blk_iff
  have hpk : Blk cfg zid s p k := Or.inl hf
  have hal := hpk.dvd hinv.wf
  have hpow : 2 ^ o ≤ 2 ^ k := Nat.pow_le_pow_right (by decide) hok
  have hsub : ∀ q j, Overlap p o q j → Overlap p k q j := by
    intro q j h
    exact ⟨h.1, by have := h.2; omega⟩
  have hup : ∀ i q j, i < k → Overlap (p + 2 ^ i) i q j → Overlap p k q j := by
    intro i q j hi h
    have := two_pow_add_le i k hi
    have hpos := Nat.two_pow_pos i
    exact ⟨by have := h.1; omega, by have := h.2; omega⟩
  have hnew : ∀ b, b ∈ out → ¬ Overlap b.1 b.2 p k :=
    fun b hb => (hinv.pend b hb).apart p k hpk
  have hcovk : ∀ y, p ≤ y → y < p + 2 ^ k → Covered cfg zid s0 y :=
    fun y h1 h2 => (hinv.cover y).1 (Or.inl ⟨p, k, hpk, h1, h2⟩)
  refine ⟨ht.1.wf, ht.canon hal hinv.canon, hinv.static.trans ht.2.1, ?_, ?_, ?_, ?_, ?_, ?_, ?_⟩
  · intro b hb
    rcases List.mem_cons.1 hb with rfl | hb'
    · exact ht.1
    · refine ⟨ht.1.wf, ht.2.1.blockOK (hinv.pend b hb').ok, fun q j hq => ?_⟩
      rw [hblk] at hq
      rcases hq with ⟨hq, _⟩ | ⟨_, h2, rfl⟩
      · exact (hinv.pend b hb').apart q j hq
      · intro hov
        exact hnew b hb' (hup j _ _ h2 hov.symm).symm
  · exact List.nodup_cons.2 ⟨fun hmem => hnew (p, o) hmem (Overlap.self p o k), hinv.nodup⟩
  · intro a ha b hb hne
    rcases List.mem_cons.1 ha with rfl | ha'
    · rcases List.mem_cons.1 hb with rfl | hb'
      · exact absurd rfl hne
      · intro hov
        exact hnew b hb' (hsub _ _ hov).symm
    · rcases List.mem_cons.1 hb with rfl | hb'
      · intro hov
        exact hnew a ha' (hsub _ _ hov.symm).symm
      · exact hinv.apart a ha' b hb' hne
  · intro y
    rw [← hinv.cover y]
    constructor
    · rintro (⟨q, j, hq, h1, h2⟩ | ⟨b, hb, h1, h2⟩)
      · rw [hblk] at hq
        rcases hq with ⟨hq, _⟩ | ⟨_, h4, rfl⟩
        · exact Or.inl ⟨q, j, hq, h1, h2⟩
        · have := two_pow_add_le j k h4
          exact Or.inl ⟨p, k, hpk, by omega, by omega⟩
      · rcases List.mem_cons.1 hb with rfl | hb'
        · exact Or.inl ⟨p, k, hpk, h1, by simp only [] at h2; omega⟩
        · exact Or.inr ⟨b, hb', h1, h2⟩
    · rintro (⟨q, j, hq, h1, h2⟩ | ⟨b, hb, h1, h2⟩)
      · by_cases hqp : q = p
        · subst hqp
          have hj := (hinv.wf.disjoint q j q k hq hpk (Overlap.self q j k)).2
          subst hj
          rcases (range_split q o y j hok).1 ⟨h1, h2⟩ with h | ⟨i, i1, i2, i3, i4⟩
          · exact Or.inr ⟨(q, o), List.mem_cons_self _ _, h.1, h.2⟩
          · exact Or.inl ⟨q + 2 ^ i, i, (hblk _ _).2 (Or.inr ⟨i1, i2, rfl⟩), i3, i4⟩
        · exact Or.inl ⟨q, j, (hblk _ _).2 (Or.inl ⟨hq, hqp⟩), h1, h2⟩
      · exact Or.inr ⟨b, List.mem_cons_of_mem _ hb, h1, h2⟩
  · intro b hb x i hx hov
    rcases List.mem_cons.1 hb with rfl | hb'
    · exact hinv.free_in p k x i hf hx (hsub _ _ hov)
    · exact hinv.out_free b hb' x i hx hov
  · intro q j x i hq hx hov
    rw [ht.2.2.1] at hq
    rcases hq with ⟨hq, _⟩ | ⟨_, h2, rfl, _⟩
    · exact hinv.free_in q j x i hq hx hov
    · exact hinv.free_in p k x i hf hx (hup j x i h2 hov)
  · intro q j hq hb0
    rw [ht.2.2.2] at hq
    rcases hq with ⟨hq, _⟩ | ⟨_, h2, rfl, _⟩
    · exact hinv.guard_in q j hq hb0
    · exfalso
      have := two_pow_add_le j k h2
      have hpos := Nat.two_pow_pos j
      have e : block_start (p + 2 ^ j) k = p :=
        block_start_eq_of_mem hal (by omega) (by omega)
      refine not_in_larger_covered hwf0 hc0 hb0 h2 (hpk.lt hinv.wf) (fun y a b => ?_)
      rw [e] at a b
      exact hcovk y a b

/-- Freeing an outstanding block at its allocation order keeps the invariant
of the run. -/
theorem RunInv.free {cfg : Config} {zid : Nat} {s0 s : State} {out : List (Nat × Nat)}
    {p o mt : Nat} (hinv : RunInv cfg zid s0 s out) (hwf0 : WF cfg zid s0)
    (hc0 : Canon cfg zid s0) (hb : (p, o) ∈ out) (hm : mt < MIGRATE_TYPES)
    (hpass : free_passes s p o) :
    RunInv cfg zid s0 (__free_one_page cfg s p o mt) (out.erase (p, o)) := by
  have hp : Pending cfg zid s p o := hinv.pend (p, o) hb
  obtain ⟨hoK, hK, hmerged, hnb, hwf1, hfree, hguard, hst, _, _⟩ :=
    free_one_page_spec hp hpass hm
  generalize free_order cfg s p o = K at hoK hK hmerged hnb hfree hguard
  generalize __free_one_page cfg s p o mt = s1 at hwf1 hfree hguard hst ⊢
  have hblk : ∀ x i, Blk cfg zid s1 x i ↔
      (Blk cfg zid s x i ∧ ¬ Overlap (block_start p K) K x i) ∨
        (x = block_start p K ∧ i = K) := by
    intro x i
    unfold Blk
    rw [hfree, hguard]
    constructor
    · rintro ((h | h) | h)
      · exact Or.inl ⟨Or.inl h.1, h.2⟩
      · exact Or.inr h
      · exact Or.inl ⟨Or.inr h.1, h.2⟩
    · rintro (⟨h | h, h2⟩ | h)
      · exact Or.inl (Or.inl ⟨h, h2⟩)
      · exact Or.inr ⟨h, h2⟩
      · exact Or.inl (Or.inr h)
  have hpo : block_start p o = p := block_start_of_dvd p o hp.ok.2.1
  have hBd : 2 ^ K ∣ block_start p K := dvd_block_start p K
  have hpB := block_nested p o K hoK
  rw [hpo] at hpB
  have hposo := Nat.two_pow_pos o
  have hposK := Nat.two_pow_pos K
  have hBnew : Blk cfg zid s1 (block_start p K) K := (hblk _ _).2 (Or.inr ⟨rfl, rfl⟩)
  have hBsplit : ∀ y, block_start p K ≤ y → y < block_start p K + 2 ^ K →
      (p ≤ y ∧ y < p + 2 ^ o) ∨ ∃ q j, Blk cfg zid s q j ∧ q ≤ y ∧ y < q + 2 ^ j := by
    intro y h1 h2
    rcases (merge_range_split p o y K hoK).1 ⟨h1, h2⟩ with h | ⟨j, j1, j2, j3, j4⟩
    · rw [hpo] at h
      exact Or.inl h
    · exact Or.inr ⟨_, j, hmerged j j1 j2, j3, j4⟩
  have herase : ∀ b, b ∈ out.erase (p, o) → b ∈ out ∧ b ≠ (p, o) := by
    intro b hb'
    have := (hinv.nodup.mem_erase_iff).1 hb'
    exact ⟨this.2, this.1⟩
  have hcover : ∀ x, (Covered cfg zid s1 x ∨ Outstanding (out.erase (p, o)) x) ↔
      Covered cfg zid s0 x := by
    intro y
    rw [← hinv.cover y]
    constructor
    · rintro (⟨q, j, hq, h1, h2⟩ | ⟨b, hb', h1, h2⟩)
      · rw [hblk] at hq
        rcases hq with ⟨hq, _⟩ | ⟨rfl, rfl⟩
        · exact Or.inl ⟨q, j, hq, h1, h2⟩
        · rcases hBsplit y h1 h2 with h | ⟨q, j, hq, a, b⟩
          · exact Or.inr ⟨(p, o), hb, h.1, h.2⟩
          · exact Or.inl ⟨q, j, hq, a, b⟩
      · exact Or.inr ⟨b, (herase b hb').1, h1, h2⟩
    · rintro (⟨q, j, hq, h1, h2⟩ | ⟨b, hb', h1, h2⟩)
      · by_cases hov : Overlap (block_start p K) K q j
        · have hqd := hq.dvd hinv.wf
          rcases Nat.lt_or_ge K j with hlt | hge
          · exfalso
            have hn := overlap_nested hBd hqd (by omega) hov
            exact hp.apart q j hq ⟨by omega, by omega⟩
          · have hn := overlap_nested hqd hBd hge hov.symm
            exact Or.inl ⟨_, K, hBnew, by omega, by omega⟩
        · exact Or.inl ⟨q, j, (hblk _ _).2 (Or.inl ⟨hq, hov⟩), h1, h2⟩
      · by_cases hbe : b = (p, o)
        · subst hbe
          simp only [] at h1 h2
          exact Or.inl ⟨_, K, hBnew, by omega, by omega⟩
        · exact Or.inr ⟨b, (hinv.nodup.mem_erase_iff).2 ⟨hbe, hb'⟩, h1, h2⟩
  refine ⟨hwf1, ?_, hinv.static.trans hst, ?_, hinv.nodup.erase _, ?_, hcover, ?_, ?_, ?_⟩
  · intro x i hi hx hbx
    rw [hblk] at hx hbx
    rcases hx with ⟨f1, _⟩ | ⟨f1, f2⟩
    · rcases hbx with ⟨b1, _⟩ | ⟨b1, b2⟩
      · exact hinv.canon x i hi f1 b1
      · subst b2
        apply hnb hi
        rw [← b1, find_buddy_index_invol]
        exact f1
    · subst f2
      rcases hbx with ⟨b1, _⟩ | ⟨b1, _⟩
      · apply hnb hi
        rw [← f1]
        exact b1
      · rw [f1] at b1
        exact find_buddy_index_ne _ _ b1
  · intro b hb'
    obtain ⟨hbo, hbne⟩ := herase b hb'
    refine ⟨hwf1, hst.blockOK (hinv.pend b hbo).ok, fun q j hq => ?_⟩
    rw [hblk] at hq
    rcases hq with ⟨hq, _⟩ | ⟨rfl, rfl⟩
    · exact (hinv.pend b hbo).apart q j hq
    · intro hov
      obtain ⟨y, ⟨y1, y2⟩, ⟨y3, y4⟩⟩ := (overlap_iff_frame _ _ _ _).1 hov
      rcases hBsplit y y3 y4 with h | ⟨q, j, hq, a, c⟩
      · exact hinv.apart b hbo (p, o) hb hbne
          ((overlap_iff_frame _ _ _ _).2 ⟨y, ⟨y1, y2⟩, h⟩)
      · exact (hinv.pend b hbo).apart q j hq
          ((overlap_iff_frame _ _ _ _).2 ⟨y, ⟨y1, y2⟩, ⟨a, c⟩⟩)
  · intro a ha b hb' hne
    exact hinv.apart a (herase a ha).1 b (herase b hb').1 hne
  · intro b hb' x i hx hov
    exact hinv.out_free b (herase b hb').1 x i hx hov
  · intro q j x i hq hx hov
    rw [hfree] at hq
    rcases hq with ⟨hq, _⟩ | ⟨rfl, rfl⟩
    · exact hinv.free_in q j x i hq hx hov
    · have hxd := hx.dvd hwf0
      rcases Nat.lt_or_ge i j with hlt | hge
      · exfalso
        have hn := overlap_nested hxd hBd (by omega) hov.symm
        have hposi := Nat.two_pow_pos i
        have e : block_start x j = block_start p j :=
          block_start_eq_of_mem hBd hn.1 (by omega)
        refine not_in_larger_covered hwf0 hc0 hx hlt hK (fun y a b => ?_)
        rw [e] at a b
        exact (hcover y).1 (Or.inl ⟨_, j, hBnew, a, b⟩)
      · have hn := overlap_nested hBd hxd hge hov
        exact hinv.out_free (p, o) hb x i hx ⟨by simp only []; omega, by simp only []; omega⟩
  · intro q j hq hb0
    rw [hguard] at hq
    exact hinv.guard_in q j hq.1 hb0

theorem RunInv.start {cfg : Config} {zid : Nat} {s0 : State} (hwf0 : WF cfg zid s0)
    (hc0 : Canon cfg zid s0) : RunInv cfg zid s0 s0 [] := by
  refine ⟨hwf0, hc0, SameStatic.refl s0, ?_, List.nodup_nil, ?_, ?_, ?_, ?_, ?_⟩
  · intro b hb; exact absurd hb (List.not_mem_nil b)
  · intro a ha; exact absurd ha (List.not_mem_nil a)
  · intro x
    constructor
    · rintro (h | ⟨b, hb, _⟩)
      · exact h
      · exact absurd hb (List.not_mem_nil b)
    · exact fun h => Or.inl h
  · intro b hb; exact absurd hb (List.not_mem_nil b)
  · intro q j x i hq hx hov
    obtain ⟨rfl, rfl⟩ := hwf0.disjoint q j x i (Or.inl hq) hx hov
    exact hq
  · intro q j hq _; exact hq

/-- Every run from a well-formed state with no two held buddies keeps the
invariant. -/
theorem Run.inv {cfg : Config} {zid : Nat} {s0 s : State} {out : List (Nat × Nat)}
    (h : Run cfg s0 s out) (hwf0 : WF cfg zid s0) (hc0 : Canon cfg zid s0) :
    RunInv cfg zid s0 s out := by
  induction h with
  | init => exact RunInv.start hwf0 hc0
  | smallest_hit s out o mt p _ hm hr ih =>
    obtain ⟨h1, _⟩ := @rmqueue_smallest_wf cfg zid s o mt ih.wf hm
    obtain ⟨k, hok, _, hmem, ht⟩ := h1 p hr
    exact ih.alloc hwf0 hc0 ht ⟨mt, hmem⟩ hok
  | smallest_miss s out o mt _ hm hr ih =>
    rw [(@rmqueue_smallest_wf cfg zid s o mt ih.wf hm).2 hr]
    exact ih
  | fallback_hit s out o mt p r _ hm hr hp ih =>
    obtain ⟨h1, _⟩ := rmqueue_fallback_wf ih.wf hm r hr
    obtain ⟨k, m, hok, _, hmem, ht⟩ := h1 p hp
    exact ih.alloc hwf0 hc0 ht ⟨m, hmem⟩ hok
  | fallback_miss s out o mt r _ hm hr hp ih =>
    rw [(rmqueue_fallback_wf ih.wf hm r hr).2 hp]
    exact ih
  | free s out p o mt _ hb hm hpass ih => exact ih.free hwf0 hc0 hb hm hpass

/-- When nothing is outstanding the free blocks are those of the start. -/
theorem RunInv.free_iff {cfg : Config} {zid : Nat} {s0 s : State}
    (hinv : RunInv cfg zid s0 s []) (hwf0 : WF cfg zid s0) (hc0 : Canon cfg zid s0)
    (p k : Nat) : Free s p k ↔ Free s0 p k := by
  have hcov : ∀ x, Covered cfg zid s x ↔ Covered cfg zid s0 x := by
    intro x
    rw [← hinv.cover x]
    constructor
    · exact fun h => Or.inl h
    · rintro (h | ⟨b, hb, _⟩)
      · exact h
      · exact absurd hb (List.not_mem_nil b)
  constructor
  · intro h
    have hb0 := blk_of_same_cover hinv.wf hinv.canon hwf0 hc0 hcov (Or.inl h)
    exact hinv.free_in p k p k h hb0 (Overlap.self p k k)
  · intro h
    have hb := blk_of_same_cover hwf0 hc0 hinv.wf hinv.canon (fun x => (hcov x).symm)
      (Or.inl h)
    rcases hb with hb | hb
    · exact hb
    · exfalso
      have hg := hinv.guard_in p k hb (Or.inl h)
      obtain ⟨m, hm⟩ := h
      have h1 := (hwf0.listed k m p hm).2.2.1
      have h2 := (hwf0.guards p k hg).2
      rw [h1] at h2
      exact Bool.noConfusion h2

theorem mem_free_blocks {cfg : Config} {zid : Nat} {s : State} (hwf : WF cfg zid s)
    (b : Nat × Nat) : b ∈ free_blocks cfg s ↔ Free s b.1 b.2 := by
  obtain ⟨p, k⟩ := b
  unfold free_blocks Free
  simp only [List.mem_flatMap, List.mem_range, List.mem_map, Prod.mk.injEq]
  constructor
  · rintro ⟨k', _, m, _, p', hp', rfl, rfl⟩
    exact ⟨m, hp'⟩
  · rintro ⟨m, hm⟩
    have h := hwf.listed k m p hm
    exact ⟨k, h.2.1.1, m, h.1, p, hm, rfl, rfl⟩

theorem nodup_free_blocks {cfg : Config} {zid : Nat} {s : State} (hwf : WF cfg zid s) :
    (free_blocks cfg s).Nodup := by
  unfold free_blocks
  rw [List.nodup_flatMap]
  constructor
  · intro k _
    rw [List.nodup_flatMap]
    constructor
    · intro m _
      exact (hwf.nodup k m).map (fun a b h => (Prod.mk.injEq _ _ _ _ ▸ h : a = b ∧ k = k).1)
    · refine List.Pairwise.imp ?_ (List.nodup_range MIGRATE_TYPES)
      intro m m' hne
      simp only [Function.onFun]
      rw [List.disjoint_left]
      intro b hb hb'
      simp only [List.mem_map] at hb hb'
      obtain ⟨x, hx, rfl⟩ := hb
      obtain ⟨y, hy, e⟩ := hb'
      have : y = x := (Prod.mk.injEq _ _ _ _ ▸ e : y = x ∧ k = k).1
      subst this
      exact hne (hwf.one_list k m m' y hx hy)
  · refine List.Pairwise.imp ?_ (List.nodup_range cfg.MAX_ORDER)
    intro k k' hne
    simp only [Function.onFun]
    rw [List.disjoint_left]
    intro b hb hb'
    simp only [List.mem_flatMap, List.mem_map] at hb hb'
    obtain ⟨_, _, x, _, rfl⟩ := hb
    obtain ⟨_, _, y, _, e⟩ := hb'
    exact hne (Prod.mk.injEq _ _ _ _ ▸ e : y = x ∧ k' = k).2.symm

/-! ## The end-to-end scenario -/

theorem scenario_facts : ∀ m, m < MIGRATE_TYPES →
    (__rmqueue_smallest default_config (single_block_zone 4 m) 0 m).1 = some 0 ∧
    (__rmqueue_smallest default_config
      (__rmqueue_smallest default_config (single_block_zone 4 m) 0 m).2 0 m).1 = some 1 ∧
    PageCompound ((scenario_allocated m).mem_map 1) = false ∧
    PageCompound ((__free_one_page default_config (scenario_allocated m) 1 0 m).mem_map 0)
      = false ∧
    (scenario_final m).free_list 4 m = [0] ∧
    (scenario_final m).nr_free 4 = 1 ∧
    (∀ k, k < default_config.MAX_ORDER → k ≠ 4 → (scenario_final m).nr_free k = 0) := by
  decide

theorem scenario_run (m : Nat) (hm : m < MIGRATE_TYPES) :
    Run default_config (single_block_zone 4 m) (scenario_final m) [] := by
  obtain ⟨f1, f2, f3, f4, _⟩ := scenario_facts m hm
  have r1 : Run default_config (single_block_zone 4 m)
      (__rmqueue_smallest default_config (single_block_zone 4 m) 0 m).2 [(0, 0)] :=
    Run.smallest_hit _ [] 0 m 0 Run.init hm f1
  have r2 : Run default_config (single_block_zone 4 m) (scenario_allocated m)
      [(1, 0), (0, 0)] :=
    Run.smallest_hit _ _ 0 m 1 r1 hm f2
  have r3 : Run default_config (single_block_zone 4 m)
      (__free_one_page default_config (scenario_allocated m) 1 0 m) [(0, 0)] :=
    Run.free _ _ 1 0 m r2 (by decide) hm
      (fun h => by rw [f3] at h; exact Bool.noConfusion h)
  exact Run.free _ _ 0 0 m r3 (by decide) hm
    (fun h => by rw [f4] at h; exact Bool.noConfusion h)

theorem single_block_zone_canon (k m : Nat) :
    Canon default_config 0 (single_block_zone k m) := by
  intro p i _ hb hbb
  have hng : ∀ x j, ¬ Guard default_config 0 (single_block_zone k m) x j := by
    intro x j h
    exact Bool.noConfusion h.2.2.1
  rcases hb with ⟨m1, h1⟩ | h1
  · rcases hbb with ⟨m2, h2⟩ | h2
    · unfold single_block_zone at h1 h2
      rw [zone_of_blocks_mem] at h1 h2
      simp only [List.mem_singleton, Prod.mk.injEq] at h1 h2
      obtain ⟨_, rfl, rfl⟩ := h1
      exact find_buddy_index_ne 0 i (h2.2.1)
    · exact hng _ _ h2
  · exact hng _ _ h1

/-- C1: start from a single zone of 16 frames whose only free block is
the order-4 block at frame 0, on the list of any class `m` (default build).
Two successive order-0 `__rmqueue_smallest` calls return frame 0 and then
frame 1. After `__free_one_page` of frame 1 and then of frame 0 at order 0,
the free lists hold exactly one block, of order 4 at frame 0:
`free_list[4][m]` is `[0]` and every other list is empty, `nr_free[4] == 1`
and `nr_free[k] == 0` for every other order `k`. -/
theorem scenario_alloc_twice_free_twice (m : Nat) (hm : m < MIGRATE_TYPES) :
    (__rmqueue_smallest default_config (single_block_zone 4 m) 0 m).1 = some 0 ∧
    (__rmqueue_smallest default_config
      (__rmqueue_smallest default_config (single_block_zone 4 m) 0 m).2 0 m).1 = some 1 ∧
    (∀ p k, Free (scenario_final m) p k ↔ p = 0 ∧ k = 4) ∧
    (∀ k m', (scenario_final m).free_list k m' = if k = 4 ∧ m' = m then [0] else []) ∧
    (scenario_final m).nr_free 4 = 1 ∧
    (∀ k, k < default_config.MAX_ORDER → k ≠ 4 → (scenario_final m).nr_free k = 0) := by
  obtain ⟨f1, f2, _, _, f5, f6, f7⟩ := scenario_facts m hm
  have hw : WF default_config 0 (single_block_zone 4 m) :=
    zone_of_blocks_wf default_config 4 m [(0, 4)] rfl hm (by decide)
  have hinv := (scenario_run m hm).inv hw (single_block_zone_canon 4 m)
  have hfree : ∀ p k, Free (scenario_final m) p k ↔ p = 0 ∧ k = 4 := by
    intro p k
    rw [hinv.free_iff hw (single_block_zone_canon 4 m)]
    unfold Free single_block_zone
    simp only [zone_of_blocks_mem, List.mem_singleton, Prod.mk.injEq]
    constructor
    · rintro ⟨_, _, h⟩
      exact h
    · exact fun h => ⟨m, rfl, h⟩
  refine ⟨f1, f2, hfree, ?_, f6, f7⟩
  intro k m'
  by_cases hkm : k = 4 ∧ m' = m
  · obtain ⟨rfl, rfl⟩ := hkm
    rw [if_pos ⟨rfl, rfl⟩]
    exact f5
  · rw [if_neg hkm]
    apply List.eq_nil_iff_forall_not_mem.2
    intro x hx
    obtain ⟨rfl, rfl⟩ := (hfree x k).1 ⟨m', hx⟩
    apply hkm
    refine ⟨rfl, ?_⟩
    have h0 : 0 ∈ (scenario_final m).free_list 4 m := by rw [f5]; exact List.mem_singleton.2 rfl
    exact hinv.wf.one_list 4 m' m 0 hx h0

theorem scenario_alloc_twice_free_twice_witness :
    (__rmqueue_smallest default_config (single_block_zone 4 2) 0 2).1 = some 0 ∧
    (__rmqueue_smallest default_config
      (__rmqueue_smallest default_config (single_block_zone 4 2) 0 2).2 0 2).1 = some 1 ∧
    (scenario_final 2).free_list 4 2 = [0] ∧
    (scenario_final 2).free_list 0 2 = [] ∧
    (scenario_final 2).nr_free 4 = 1 ∧
    (scenario_final 2).nr_free 0 = 0 :=
  have h := scenario_alloc_twice_free_twice 2 (by decide)
  ⟨h.1, h.2.1, h.2.2.2.1 4 2, h.2.2.2.1 0 2, h.2.2.2.2.1, h.2.2.2.2.2 0 (by decide) (by decide)⟩


/-! ## Round trip -/

/-- C7: round trip: for every well-formed initial zone state with no
two held buddies and every run of buddy allocations (`__rmqueue_smallest`,
`__rmqueue_fallback`) and frees (`__free_one_page`) in which each allocated
block is freed once at its allocation order and nothing is outstanding at
the end, the free blocks of the final state, as pairs (first frame, order),
are those of the initial state up to reordering: the lists of pairs are
permutations of each other, equal as multisets, and a block is on a free
list at the end exactly if it was at the start. The final state is well
formed. -/
theorem round_trip (cfg : Config) (zid : Nat) (s0 s : State)
    (hwf : WF cfg zid s0) (hc : Canon cfg zid s0) (hr : Run cfg s0 s []) :
    (free_blocks cfg s).Perm (free_blocks cfg s0) ∧
    (free_blocks cfg s : Multiset (Nat × Nat)) = (free_blocks cfg s0 : Multiset (Nat × Nat)) ∧
    (∀ p k, Free s p k ↔ Free s0 p k) ∧
    WF cfg zid s := by
  have hinv := hr.inv hwf hc
  have hiff := hinv.free_iff hwf hc
  have hperm : (free_blocks cfg s).Perm (free_blocks cfg s0) := by
    rw [List.perm_ext_iff_of_nodup (nodup_free_blocks hinv.wf) (nodup_free_blocks hwf)]
    intro b
    rw [mem_free_blocks hinv.wf, mem_free_blocks hwf]
    exact hiff b.1 b.2
  exact ⟨hperm, Multiset.coe_eq_coe.2 hperm, hiff, hinv.wf⟩

theorem round_trip_witness :
    WF default_config 0 (single_block_zone 4 2) ∧
    Canon default_config 0 (single_block_zone 4 2) ∧
    Run default_config (single_block_zone 4 2) (scenario_final 2) [] ∧
    free_blocks default_config (single_block_zone 4 2) = [(0, 4)] ∧
    (free_blocks default_config (scenario_final 2)).Perm
      (free_blocks default_config (single_block_zone 4 2)) :=
  have hw : WF default_config 0 (single_block_zone 4 2) :=
    zone_of_blocks_wf default_config 4 2 [(0, 4)] rfl (by decide) (by decide)
  ⟨hw, single_block_zone_canon 4 2, scenario_run 2 (by decide), by decide,
    (round_trip default_config 0 _ _ hw (single_block_zone_canon 4 2)
      (scenario_run 2 (by decide))).1⟩

/-! ## Requests at order `MAX_ORDER` and above -/

/-- C11: an allocation at order `>= MAX_ORDER` fails. For every zone state,
class and order `>= MAX_ORDER`, `__rmqueue_smallest` returns `NULL` and
leaves the state as it is; when the order is below `2^31`, so that the
`unsigned int order` of `__rmqueue` is the same number as the `int order` of
`__rmqueue_fallback`, `__rmqueue_fallback` returns `NULL` and leaves the
state as it is, and so does `__rmqueue`; and `__alloc_pages_slowpath` returns
`NULL` at its first test, whatever the rest of its body would do: the only
step it may take is the `WARN_ON_ONCE`, and none of its steps wakes `kswapd`,
compacts, reclaims or calls the OOM killer. -/
theorem alloc_order_too_large (cfg : Config) (s : State) (order mt : Nat)
    (h : cfg.MAX_ORDER ≤ order) :
    __rmqueue_smallest cfg s order mt = (none, s) ∧
    (order < 2 ^ 31 →
      __rmqueue_fallback cfg s order mt = some (none, s) ∧
      __rmqueue cfg s order mt = some (none, s)) ∧
    (∀ gfp_mask nowarn rest,
      (__alloc_pages_slowpath cfg gfp_mask nowarn order rest).1 = none ∧
      (∀ st, st ∈ (__alloc_pages_slowpath cfg gfp_mask nowarn order rest).2 →
        st = SlowStep.warn_on_once) ∧
      (∀ st, st ∈ (__alloc_pages_slowpath cfg gfp_mask nowarn order rest).2 →
        SlowStep.is_heavy st = false)) := by
  have h1 : ∀ m, __rmqueue_smallest cfg s order m = (none, s) := by
    intro m
    unfold __rmqueue_smallest
    have : cfg.MAX_ORDER - order = 0 := by omega
    rw [this]
    rfl
  have h2 : __rmqueue_fallback cfg s order mt = some (none, s) := by
    unfold __rmqueue_fallback
    cases hM : cfg.MAX_ORDER with
    | zero => rfl
    | succ n =>
      rw [rmqueue_fallback_loop, if_neg (by omega)]
  refine ⟨h1 mt, fun _ => ⟨h2, ?_⟩, ?_⟩
  · unfold __rmqueue
    rw [h1 mt]
    simp only []
    split
    · rw [h2]
      simp only []
      rw [h1]
    · rfl
  · intro gfp_mask nowarn rest
    unfold __alloc_pages_slowpath
    rw [if_pos h]
    refine ⟨rfl, ?_, ?_⟩
    · intro st hst
      split at hst
      · exact List.mem_singleton.1 hst
      · exact absurd hst (List.not_mem_nil st)
    · intro st hst
      split at hst
      · rw [List.mem_singleton.1 hst]; rfl
      · exact absurd hst (List.not_mem_nil st)

theorem alloc_order_too_large_witness :
    default_config.MAX_ORDER ≤ 11 ∧ 11 < 2 ^ 31 ∧
    (zone_of_blocks 11 [(0, 10), (1024, 10)] 2).free_list 10 2 = [0, 1024] ∧
    __rmqueue default_config (zone_of_blocks 11 [(0, 10), (1024, 10)] 2) 11 2 =
      some (none, zone_of_blocks 11 [(0, 10), (1024, 10)] 2) ∧
    (__alloc_pages_slowpath default_config 0 512 11
      (some 0, [SlowStep.wake_all_kswapd, SlowStep.direct_reclaim])).1 = none :=
  have h := alloc_order_too_large default_config (zone_of_blocks 11 [(0, 10), (1024, 10)] 2)
    11 2 (by decide)
  ⟨by decide, by decide, by decide, (h.2.1 (by decide)).2,
    (h.2.2 0 512 (some 0, [SlowStep.wake_all_kswapd, SlowStep.direct_reclaim])).1⟩

/-! ## Frees at order `MAX_ORDER` and above -/

theorem destroy_compound_loop_counts (page : Nat) :
    ∀ (n i : Nat) (r : State × Nat),
      (destroy_compound_loop page n i r).1.nr_free = r.1.nr_free ∧
      (destroy_compound_loop page n i r).1.NR_FREE_PAGES = r.1.NR_FREE_PAGES := by
  intro n
  induction n with
  | zero => intro i r; exact ⟨rfl, rfl⟩
  | succ n ih =>
    intro i r
    obtain ⟨s, bad⟩ := r
    rw [destroy_compound_loop]
    split
    · exact ih _ _
    · exact ih _ _

theorem free_entry_counts (s : State) (page order : Nat) :
    (free_entry s page order).nr_free = s.nr_free ∧
    (free_entry s page order).NR_FREE_PAGES = s.NR_FREE_PAGES := by
  unfold free_entry
  split
  · unfold destroy_compound_page
    split
    · exact destroy_compound_loop_counts page _ _ _
    · exact destroy_compound_loop_counts page _ _ _
  · exact ⟨rfl, rfl⟩

set_option maxRecDepth 100000 in
/-- C12 as stated fails: the free path has no test of the order. In the
default build (`MAX_ORDER = 11`) take a zone of 4096 frames, all in use, with
every free list empty. `__free_one_page` of frame 0 at order 11 does not
reject the request: it marks the page `PG_buddy` with `private == 11`, links
it at index 11 of the free-area table (one past the last entry) and counts it
there; `free_one_page` adds 2048 to `NR_FREE_PAGES`; and `__free_pages_ok`,
whose page checks pass, does the same. -/
theorem free_order_too_large_counterexample :
    default_config.MAX_ORDER ≤ 11 ∧
    (zone_of_blocks 12 [] 2).free_list 11 2 = [] ∧
    (zone_of_blocks 12 [] 2).nr_free 11 = 0 ∧
    PageBuddy ((zone_of_blocks 12 [] 2).mem_map 0) = false ∧
    PageBuddy ((__free_one_page default_config (zone_of_blocks 12 [] 2) 0 11 2).mem_map 0)
      = true ∧
    page_order ((__free_one_page default_config (zone_of_blocks 12 [] 2) 0 11 2).mem_map 0)
      = 11 ∧
    (__free_one_page default_config (zone_of_blocks 12 [] 2) 0 11 2).free_list 11 2 = [0] ∧
    (__free_one_page default_config (zone_of_blocks 12 [] 2) 0 11 2).nr_free 11 = 1 ∧
    (zone_of_blocks 12 [] 2).NR_FREE_PAGES = 0 ∧
    (free_one_page default_config (zone_of_blocks 12 [] 2) 0 11 2).NR_FREE_PAGES = 2048 ∧
    (__free_pages_ok default_config (zone_of_blocks 12 [] 2) 0 11).free_list 11 2 = [0] ∧
    (__free_pages_ok default_config (zone_of_blocks 12 [] 2) 0 11).NR_FREE_PAGES = 2048 := by
  decide

/-- C12, amended: the free path does not test the order against
`MAX_ORDER`. For every page that passes the compound check and every order
from `MAX_ORDER` up to 30 (the orders for which the `int` shifts `1 << order`
of the free path do not overflow), `__free_one_page` merges nothing, marks
the page `PG_buddy` with `private == order`, links it at the head of the list
at index `order` of the free-area table and increments the count at that
index; `free_one_page` leaves the lists and the counts as `__free_one_page`
made them; and `__free_pages_ok` does exactly this whenever
`free_pages_prepare` finds no bad page among the `2^order` pages. -/
theorem free_order_too_large (cfg : Config) (s : State) (page order mt : Nat)
    (h : cfg.MAX_ORDER ≤ order) (h31 : order < 31) (hc : free_passes s page order) :
    __free_one_page cfg s page order mt =
      nr_free_inc cfg
        (list_add (set_page_order (free_entry s page order) page order) page order mt)
        order ∧
    PageBuddy ((__free_one_page cfg s page order mt).mem_map page) = true ∧
    page_order ((__free_one_page cfg s page order mt).mem_map page) = order ∧
    (__free_one_page cfg s page order mt).free_list order mt = page :: s.free_list order mt ∧
    (__free_one_page cfg s page order mt).nr_free order = ulong_inc cfg (s.nr_free order) ∧
    (free_one_page cfg s page order mt).free_list =
      (__free_one_page cfg s page order mt).free_list ∧
    (free_one_page cfg s page order mt).nr_free =
      (__free_one_page cfg s page order mt).nr_free ∧
    (∀ s1, free_pages_prepare
        { s with
          mem_map :=
            upd s.mem_map page { s.mem_map page with PG_mlocked := false } }
        page order = (s1, true) →
      __free_pages_ok cfg s page order =
        free_one_page cfg s1 page order (get_pageblock_migratetype cfg s1 page)) := by
  have hv : free_vars_final cfg (free_entry s page order) page order =
      free_vars_init cfg (free_entry s page order) page order := by
    unfold free_vars_final
    have : cfg.MAX_ORDER - 1 - order = 0 := by omega
    rw [this]
    rfl
  have _hrange : cfg.MAX_ORDER < 31 := Nat.lt_of_le_of_lt h h31
  have hcore : __free_one_page cfg s page order mt =
      nr_free_inc cfg
        (list_add (set_page_order (free_entry s page order) page order) page order mt)
        order := by
    rw [free_one_page_passes cfg s page order mt hc, free_one_page_core_eq, hv]
    have ht : free_tail_test cfg
        (set_page_order (free_vars_init cfg (free_entry s page order) page order).s
          (free_vars_init cfg (free_entry s page order) page order).page
          (free_vars_init cfg (free_entry s page order) page order).order)
        (free_vars_init cfg (free_entry s page order) page order) = false := by
      unfold free_tail_test
      have : ¬ (free_vars_init cfg (free_entry s page order) page order).order
          < cfg.MAX_ORDER - 2 := by
        show ¬ order < cfg.MAX_ORDER - 2
        omega
      simp [this]
    rw [ht]
    rfl
  have hfl := (free_entry_view cfg s page order hc).1
  have hcnt := free_entry_counts s page order
  refine ⟨hcore, ?_, ?_, ?_, ?_, rfl, rfl, ?_⟩
  · rw [hcore]
    simp [nr_free_inc, list_add, set_page_order, set_page_private, upd, PageBuddy]
  · rw [hcore]
    simp [nr_free_inc, list_add, set_page_order, set_page_private, upd, page_order]
  · rw [hcore]
    simp [nr_free_inc, list_add, set_page_order, set_page_private, upd_list, hfl]
  · rw [hcore]
    simp [nr_free_inc, list_add, set_page_order, set_page_private, upd, hcnt.1]
  · intro s1 hs1
    unfold __free_pages_ok
    simp only [hs1]
    rfl

theorem free_order_too_large_witness :
    default_config.MAX_ORDER ≤ 11 ∧ 11 < 31 ∧
    free_passes (zone_of_blocks 12 [] 2) 0 11 ∧
    (__free_one_page default_config (zone_of_blocks 12 [] 2) 0 11 2).free_list 11 2 =
      0 :: (zone_of_blocks 12 [] 2).free_list 11 2 ∧
    (__free_one_page default_config (zone_of_blocks 12 [] 2) 0 11 2).nr_free 11 =
      ulong_inc default_config ((zone_of_blocks 12 [] 2).nr_free 11) :=
  have h := free_order_too_large default_config (zone_of_blocks 12 [] 2) 0 11 2 (by decide)
    (by decide) (zone_of_blocks_not_compound 12 2 _ 0 11)
  ⟨by decide, by decide, zone_of_blocks_not_compound 12 2 _ 0 11, h.2.2.2.1, h.2.2.2.2.1⟩

/-! ## Which lists the allocation paths write -/

/-- The free lists after `expand`: each level `j` from `low` up to `high`
that is not a guard level gets the upper half `p + 2^j` at the head of the
list of class `m`; no other list changes. -/
theorem expand_free_list (cfg : Config) (p low m : Nat) :
    ∀ (h : Nat), low ≤ h → ∀ (s : State) (j m' : Nat),
      (expand cfg p low m h h (1 <<< h) s).free_list j m' =
        if low ≤ j ∧ j < h ∧ m' = m ∧ guard_level cfg j = false then
          (p + 2 ^ j) :: s.free_list j m'
        else s.free_list j m' := by
  intro h hl
  induction h, hl using Nat.le_induction with
  | base =>
    intro s j m'
    rw [expand_le cfg p low m low low _ s (Nat.le_refl _), if_neg (by omega)]
  | succ h hl ih =>
    intro s j m'
    rw [expand_succ_ite cfg p low m h s hl, ih]
    by_cases hj : j = h
    · subst hj
      rw [if_neg (by omega)]
      cases hg : guard_level cfg j
      · simp only [Bool.false_eq_true, if_false]
        by_cases hm : m' = m
        · subst hm
          rw [if_pos ⟨hl, by omega, rfl, trivial⟩]
          simp [set_page_order, set_page_private, nr_free_inc, list_add, upd_list,
            Nat.one_shiftLeft]
        · rw [if_neg (by intro hc; exact hm hc.2.2.1)]
          simp [set_page_order, set_page_private, nr_free_inc, list_add, upd_list, hm]
      · simp only [if_true]
        rw [if_neg (by intro hc; exact Bool.noConfusion hc.2.2.2)]
        simp [mod_free_pages, set_page_private, set_page_guard_flag]
        split <;> rfl
    · have hsame : (if guard_level cfg h = true then
            mod_free_pages (set_page_private (set_page_guard_flag cfg s (p + 1 <<< h))
              (p + 1 <<< h) h) (-((1 <<< h : Nat) : Int))
          else set_page_order (nr_free_inc cfg (list_add s (p + 1 <<< h) h m) h)
            (p + 1 <<< h) h).free_list j m' = s.free_list j m' := by
        split
        · simp [mod_free_pages, set_page_private, set_page_guard_flag]
          split <;> rfl
        · simp [set_page_order, set_page_private, nr_free_inc, list_add, upd_list, hj]
      rw [hsame]
      by_cases hc : low ≤ j ∧ j < h ∧ m' = m ∧ guard_level cfg j = false
      · rw [if_pos hc, if_pos ⟨hc.1, by omega, hc.2.2⟩]
      · rw [if_neg hc, if_neg (by intro hc2; exact hc ⟨hc2.1, by omega, hc2.2.2⟩)]

/-! ## The search of `__rmqueue_fallback` -/

theorem fallback_find_none_iff (s : State) (sm k : Nat) :
    ∀ (n i : Nat), MIGRATE_TYPES - 1 ≤ i + n →
      (fallback_find s sm k n i = none ↔
        ∀ i', i ≤ i' → i' < MIGRATE_TYPES - 1 →
          fallbacks sm i' = MIGRATE_RESERVE ∨ s.free_list k (fallbacks sm i') = []) := by
  intro n
  induction n with
  | zero =>
    intro i h
    simp only [fallback_find, true_iff]
    intro i' h1 h2
    omega
  | succ n ih =>
    intro i h
    rw [fallback_find]
    by_cases hi : i < MIGRATE_TYPES - 1
    · rw [if_pos hi]
      simp only []
      by_cases hr : fallbacks sm i = MIGRATE_RESERVE
      · have hr' : (fallbacks sm i == MIGRATE_RESERVE) = true := by simp [hr]
        rw [if_pos hr', ih (i + 1) (by omega)]
        constructor
        · intro hall i' h1 h2
          by_cases he : i' = i
          · subst he; exact Or.inl hr
          · exact hall i' (by omega) h2
        · intro hall i' h1 h2
          exact hall i' (by omega) h2
      · have hr' : ¬ (fallbacks sm i == MIGRATE_RESERVE) = true := by simp [hr]
        rw [if_neg hr']
        by_cases he : s.free_list k (fallbacks sm i) = []
        · have he' : (s.free_list k (fallbacks sm i)).isEmpty = true := by rw [he]; rfl
          rw [if_pos he', ih (i + 1) (by omega)]
          constructor
          · intro hall i' h1 h2
            by_cases hei : i' = i
            · subst hei; exact Or.inr he
            · exact hall i' (by omega) h2
          · intro hall i' h1 h2
            exact hall i' (by omega) h2
        · have he' : ¬ (s.free_list k (fallbacks sm i)).isEmpty = true := by
            intro hc; exact he (List.isEmpty_iff.1 hc)
          rw [if_neg he']
          constructor
          · intro hc; exact Option.noConfusion hc
          · intro hall
            rcases hall i (Nat.le_refl _) hi with h1 | h1
            · exact absurd h1 hr
            · exact absurd h1 he
    · rw [if_neg hi]
      simp only [true_iff]
      intro i' h1 h2
      omega

theorem fallback_find_some_iff (s : State) (sm k mt : Nat) :
    ∀ (n i : Nat), MIGRATE_TYPES - 1 ≤ i + n →
      (fallback_find s sm k n i = some mt ↔
        ∃ i0, i ≤ i0 ∧ i0 < MIGRATE_TYPES - 1 ∧ fallbacks sm i0 = mt ∧
          mt ≠ MIGRATE_RESERVE ∧ s.free_list k mt ≠ [] ∧
          ∀ i', i ≤ i' → i' < i0 →
            fallbacks sm i' = MIGRATE_RESERVE ∨ s.free_list k (fallbacks sm i') = []) := by
  intro n
  induction n with
  | zero =>
    intro i h
    simp only [fallback_find]
    constructor
    · intro hc; exact Option.noConfusion hc
    · rintro ⟨i0, h1, h2, _⟩
      omega
  | succ n ih =>
    intro i h
    rw [fallback_find]
    by_cases hi : i < MIGRATE_TYPES - 1
    · rw [if_pos hi]
      simp only []
      have skip : (fallbacks sm i = MIGRATE_RESERVE ∨ s.free_list k (fallbacks sm i) = []) →
          ((∃ i0, i + 1 ≤ i0 ∧ i0 < MIGRATE_TYPES - 1 ∧ fallbacks sm i0 = mt ∧
            mt ≠ MIGRATE_RESERVE ∧ s.free_list k mt ≠ [] ∧
            ∀ i', i + 1 ≤ i' → i' < i0 →
              fallbacks sm i' = MIGRATE_RESERVE ∨ s.free_list k (fallbacks sm i') = []) ↔
          (∃ i0, i ≤ i0 ∧ i0 < MIGRATE_TYPES - 1 ∧ fallbacks sm i0 = mt ∧
            mt ≠ MIGRATE_RESERVE ∧ s.free_list k mt ≠ [] ∧
            ∀ i', i ≤ i' → i' < i0 →
              fallbacks sm i' = MIGRATE_RESERVE ∨ s.free_list k (fallbacks sm i') = [])) := by
        intro hsk
        constructor
        · rintro ⟨i0, a, b, c, d, e, f⟩
          refine ⟨i0, by omega, b, c, d, e, fun i' h1 h2 => ?_⟩
          by_cases hei : i' = i
          · subst hei; exact hsk
          · exact f i' (by omega) h2
        · rintro ⟨i0, a, b, c, d, e, f⟩
          have hne : i0 ≠ i := by
            rintro rfl
            rcases hsk with h1 | h1
            · exact d (c ▸ h1)
            · exact e (c ▸ h1)
          exact ⟨i0, by omega, b, c, d, e, fun i' h1 h2 => f i' (by omega) h2⟩
      by_cases hr : fallbacks sm i = MIGRATE_RESERVE
      · have hr' : (fallbacks sm i == MIGRATE_RESERVE) = true := by simp [hr]
        rw [if_pos hr', ih (i + 1) (by omega)]
        exact skip (Or.inl hr)
      · have hr' : ¬ (fallbacks sm i == MIGRATE_RESERVE) = true := by simp [hr]
        rw [if_neg hr']
        by_cases he : s.free_list k (fallbacks sm i) = []
        · have he' : (s.free_list k (fallbacks sm i)).isEmpty = true := by rw [he]; rfl
          rw [if_pos he', ih (i + 1) (by omega)]
          exact skip (Or.inr he)
        · have he' : ¬ (s.free_list k (fallbacks sm i)).isEmpty = true := by
            intro hc; exact he (List.isEmpty_iff.1 hc)
          rw [if_neg he']
          constructor
          · intro hc
            have hmt : fallbacks sm i = mt := by simpa using hc
            exact ⟨i, Nat.le_refl _, hi, hmt, hmt ▸ hr, hmt ▸ he, fun i' h1 h2 => by omega⟩
          · rintro ⟨i0, a, b, c, d, e, f⟩
            by_cases hei : i0 = i
            · subst hei; rw [c]
            · rcases f i (Nat.le_refl _) (by omega) with h1 | h1
              · exact absurd h1 hr
              · exact absurd h1 he
    · rw [if_neg hi]
      constructor
      · intro hc; exact Option.noConfusion hc
      · rintro ⟨i0, h1, h2, _⟩
        omega

/-- The outer loop of `__rmqueue_fallback` finds nothing when no order from
`o` up to the bound has a candidate list. -/
theorem rmqueue_fallback_loop_miss (cfg : Config) (s : State) (o sm : Nat) :
    ∀ n, (∀ k, o ≤ k → k < n → fallback_find s sm k (MIGRATE_TYPES - 1) 0 = none) →
      rmqueue_fallback_loop cfg s o sm n = some (none, s) := by
  intro n
  induction n with
  | zero => intro _; rfl
  | succ n ih =>
    intro h
    rw [rmqueue_fallback_loop]
    split
    · rename_i hge
      rw [h n hge (by omega)]
      exact ih (fun k h1 h2 => h k h1 (by omega))
    · rfl

/-- The outer loop of `__rmqueue_fallback` commits to the highest order that
has a candidate list. -/
theorem rmqueue_fallback_loop_hit (cfg : Config) (s : State) (o sm k mt : Nat)
    (hk : o ≤ k) (hf : fallback_find s sm k (MIGRATE_TYPES - 1) 0 = some mt) :
    ∀ n, k < n →
      (∀ k', k < k' → k' < n → fallback_find s sm k' (MIGRATE_TYPES - 1) 0 = none) →
      rmqueue_fallback_loop cfg s o sm n = fallback_take cfg s o sm k mt := by
  intro n
  induction n with
  | zero => intro h; omega
  | succ n ih =>
    intro hn h
    rw [rmqueue_fallback_loop, if_pos (by omega)]
    by_cases hkn : k = n
    · subst hkn
      rw [hf]
    · rw [h n (by omega) (by omega)]
      exact ih (by omega) (fun k' h1 h2 => h k' h1 (by omega))

/-- Either no order has a candidate, or there is a highest one. -/
theorem fallback_highest (s : State) (o sm n : Nat) :
    (∀ k, o ≤ k → k < n → fallback_find s sm k (MIGRATE_TYPES - 1) 0 = none) ∨
    ∃ k mt, o ≤ k ∧ k < n ∧ fallback_find s sm k (MIGRATE_TYPES - 1) 0 = some mt ∧
      ∀ k', k < k' → k' < n → fallback_find s sm k' (MIGRATE_TYPES - 1) 0 = none := by
  induction n with
  | zero => exact Or.inl (fun k _ h => by omega)
  | succ n ih =>
    by_cases hn : o ≤ n
    · cases hf : fallback_find s sm n (MIGRATE_TYPES - 1) 0 with
      | some mt => exact Or.inr ⟨n, mt, hn, by omega, hf, fun k' h1 h2 => by omega⟩
      | none =>
        rcases ih with h | ⟨k, mt, h1, h2, h3, h4⟩
        · left
          intro k hk1 hk2
          by_cases hkn : k = n
          · subst hkn; exact hf
          · exact h k hk1 (by omega)
        · right
          refine ⟨k, mt, h1, by omega, h3, fun k' a b => ?_⟩
          by_cases hkn : k' = n
          · subst hkn; exact hf
          · exact h4 k' a (by omega)
    · exact Or.inl (fun k h1 h2 => by omega)

/-! ## What `move_freepages` moves -/

theorem pages_headed_add (cfg : Config) (s : State) :
    ∀ (a b start : Nat), pages_headed cfg s start (a + b) =
      pages_headed cfg s start a + pages_headed cfg s (start + a) b := by
  intro a
  induction a with
  | zero => intro b start; simp [pages_headed]
  | succ a ih =>
    intro b start
    rw [Nat.add_right_comm, pages_headed, pages_headed, ih]
    have : start + 1 + a = start + (a + 1) := by omega
    rw [this]
    omega

theorem pages_headed_zero (cfg : Config) (s : State) :
    ∀ (n start : Nat), (∀ x, start ≤ x → x < start + n → moved_at cfg s x = 0) →
      pages_headed cfg s start n = 0 := by
  intro n
  induction n with
  | zero => intro _ _; rfl
  | succ n ih =>
    intro start h
    rw [pages_headed, h start (Nat.le_refl _) (by omega),
      ih (start + 1) (fun x h1 h2 => h x (by omega) (by omega))]

theorem pages_headed_congr (cfg : Config) (s s1 : State) :
    ∀ (n start : Nat), (∀ x, start ≤ x → x < start + n → moved_at cfg s1 x = moved_at cfg s x) →
      pages_headed cfg s1 start n = pages_headed cfg s start n := by
  intro n
  induction n with
  | zero => intro _ _; rfl
  | succ n ih =>
    intro start h
    rw [pages_headed, pages_headed, h start (Nat.le_refl _) (by omega),
      ih (start + 1) (fun x h1 h2 => h x (by omega) (by omega))]

/-- A frame strictly inside a block held by the buddy system is not the
head of a free block, and it is on no list. -/
theorem WF.interior {cfg : Config} {zid : Nat} {s : State} (hwf : WF cfg zid s)
    {q j x : Nat} (hq : Blk cfg zid s q j) (h1 : q < x) (h2 : x < q + 2 ^ j) :
    moved_at cfg s x = 0 ∧ ∀ i m, x ∉ s.free_list i m := by
  have hok := Blk.ok_of_wf hwf hq
  have hx := hok.2.2.2 (x - q) (by omega)
  rw [show q + (x - q) = x by omega] at hx
  have hnot : ∀ i, ¬ Free s x i := by
    intro i hf
    have := (hwf.disjoint q j x i hq (Or.inl hf)
      ⟨by have := Nat.two_pow_pos i; omega, by omega⟩).1
    omega
  constructor
  · unfold moved_at
    split
    · rename_i hc
      simp only [Bool.and_eq_true] at hc
      exact absurd (hwf.flagged x hx.1 hx.2.1 hc.2) (hnot _)
    · rfl
  · intro i m hm
    exact hnot i ⟨m, hm⟩

/-- A listed frame is counted with the size of its block. -/
theorem WF.moved_at_head {cfg : Config} {zid : Nat} {s : State} (hwf : WF cfg zid s)
    {x j : Nat} (h : Free s x j) : moved_at cfg s x = 2 ^ j := by
  obtain ⟨m, hm⟩ := h
  obtain ⟨_, hok, hb, ho⟩ := hwf.listed j m x hm
  unfold moved_at
  rw [hok.head.1, hb, ho]
  rfl

/-- A frame of the zone that is not counted is on no list. -/
theorem WF.not_listed {cfg : Config} {zid : Nat} {s : State} (hwf : WF cfg zid s)
    {x : Nat} (h : moved_at cfg s x = 0) : ∀ i m, x ∉ s.free_list i m := by
  intro i m hm
  have := hwf.moved_at_head ⟨m, hm⟩
  rw [h] at this
  have := Nat.two_pow_pos i
  omega

theorem list_move_mem {cfg : Config} {zid : Nat} {s : State} (hwf : WF cfg zid s)
    (page j0 mt x j m : Nat) :
    x ∈ (list_move s page j0 mt).free_list j m ↔
      (x ≠ page ∧ x ∈ s.free_list j m) ∨ (x = page ∧ j = j0 ∧ m = mt) := by
  have hmem : ∀ l : List Nat, l.Nodup → (x ∈ l.erase page ↔ x ≠ page ∧ x ∈ l) :=
    fun l hl => hl.mem_erase_iff
  show x ∈ upd_list _ j0 mt _ j m ↔ _
  unfold upd_list
  by_cases hjm : j = j0 ∧ m = mt
  · obtain ⟨rfl, rfl⟩ := hjm
    rw [if_pos ⟨rfl, rfl⟩]
    show x ∈ page :: (s.free_list j m).erase page ↔ _
    rw [List.mem_cons, hmem _ (hwf.nodup j m)]
    constructor
    · rintro (h | h)
      · exact Or.inr ⟨h, rfl, rfl⟩
      · exact Or.inl h
    · rintro (h | ⟨h, _⟩)
      · exact Or.inr h
      · exact Or.inl h
  · rw [if_neg hjm]
    show x ∈ (s.free_list j m).erase page ↔ _
    rw [hmem _ (hwf.nodup j m)]
    constructor
    · exact fun h => Or.inl h
    · rintro (h | ⟨_, h1, h2⟩)
      · exact h
      · exact absurd ⟨h1, h2⟩ hjm

/-- The scan of `move_freepages` over frames of a well-formed zone, started
at a frame that is not strictly inside a free block: every free block whose
first frame lies in the range ends on the list of the target class at its
order, every other block stays where it was, the count returned is the
number of pages of the blocks moved, and nothing but the lists changes. -/
theorem move_freepages_loop_spec {cfg : Config} {zid : Nat} (e mt : Nat)
    (hmt : mt < MIGRATE_TYPES) :
    ∀ (n page : Nat) (s : State) (moved : Nat), WF cfg zid s →
      s.zone_start_pfn ≤ page → e < s.zone_start_pfn + s.spanned_pages →
      e + 1 - page ≤ n →
      (∀ x j, Free s x j → ¬ (x < page ∧ page < x + 2 ^ j)) →
      (move_freepages_loop cfg e mt n page (s, moved)).2 =
        moved + pages_headed cfg s page (e + 1 - page) ∧
      (∀ x j m, x ∈ (move_freepages_loop cfg e mt n page (s, moved)).1.free_list j m ↔
        (x ∈ s.free_list j m ∧ ¬ (page ≤ x ∧ x ≤ e)) ∨
          (page ≤ x ∧ x ≤ e ∧ Free s x j ∧ m = mt)) ∧
      (move_freepages_loop cfg e mt n page (s, moved)).1.mem_map = s.mem_map ∧
      (move_freepages_loop cfg e mt n page (s, moved)).1.pageblock_flags
        = s.pageblock_flags ∧
      (move_freepages_loop cfg e mt n page (s, moved)).1.nr_free = s.nr_free ∧
      (move_freepages_loop cfg e mt n page (s, moved)).1.NR_FREE_PAGES = s.NR_FREE_PAGES := by
  intro n
  induction n with
  | zero =>
    intro page s moved hwf _ _ hfuel _
    have h0 : e + 1 - page = 0 := by omega
    rw [h0]
    refine ⟨rfl, fun x j m => ?_, rfl, rfl, rfl, rfl⟩
    show x ∈ s.free_list j m ↔ _
    constructor
    · intro h; exact Or.inl ⟨h, by omega⟩
    · rintro (h | h)
      · exact h.1
      · omega
  | succ n ih =>
    intro page s moved hwf h1 h2 hfuel hinv
    rw [move_freepages_loop]
    by_cases hpe : page ≤ e
    · rw [if_pos hpe]
      have hN : e + 1 - page = (e + 1 - (page + 1)) + 1 := by omega
      by_cases hhead : pfn_valid_within cfg s page = true ∧ PageBuddy (s.mem_map page) = true
      · obtain ⟨hv, hb⟩ := hhead
        simp only [hv, hb, Bool.not_true, Bool.false_eq_true, if_false]
        have hz := hwf.span page h1 (by omega) hv
        have hf := hwf.flagged page hv hz hb
        generalize hj0 : page_order (s.mem_map page) = j0 at hf ⊢
        have hpos : 0 < 2 ^ j0 := Nat.two_pow_pos j0
        have hst : SameStatic s (list_move s page j0 mt) :=
          (list_del_static s page).trans (list_add_static _ _ _ _)
        obtain ⟨r1, r2, _⟩ := @WF.relist cfg zid s (list_move s page j0 mt) page j0 mt
          hwf hf hmt hst rfl
          (fun i m hne => by
            show upd_list _ _ _ _ i m = _
            unfold upd_list
            rw [if_neg hne]
            rfl)
          (by
            show upd_list _ _ _ _ _ _ = _
            unfold upd_list
            rw [if_pos ⟨rfl, rfl⟩]
            rfl)
        have hinv' : ∀ x j, Free (list_move s page j0 mt) x j →
            ¬ (x < page + 1 <<< j0 ∧ page + 1 <<< j0 < x + 2 ^ j) := by
          intro x j hx hc
          rw [Nat.one_shiftLeft] at hc
          rw [r2] at hx
          by_cases hxp : x < page
          · exact hinv x j hx ⟨hxp, by omega⟩
          · have hov : Overlap page j0 x j := ⟨by omega, by omega⟩
            obtain ⟨e1, e2⟩ := hwf.disjoint page j0 x j (Or.inl hf) (Or.inl hx) hov
            subst e1; subst e2
            omega
        obtain ⟨i1, i2, i3, i4, i5, i6⟩ := ih (page + 1 <<< j0) (list_move s page j0 mt)
          (moved + 1 <<< j0) r1
          (by rw [hst.2.1]; exact Nat.le_trans h1 (Nat.le_add_right _ _))
          (by rw [hst.2.1, hst.2.2.1]; exact h2)
          (by rw [Nat.one_shiftLeft]; omega) hinv'
        refine ⟨?_, ?_, i3, i4, i5, i6⟩
        · rw [i1, Nat.one_shiftLeft]
          have hcong : pages_headed cfg (list_move s page j0 mt) (page + 2 ^ j0)
              (e + 1 - (page + 2 ^ j0)) =
              pages_headed cfg s (page + 2 ^ j0) (e + 1 - (page + 2 ^ j0)) :=
            pages_headed_congr cfg s _ _ _ (fun _ _ _ => rfl)
          rw [hcong, hN, Nat.add_comm (e + 1 - (page + 1)) 1, pages_headed_add,
            pages_headed, pages_headed, Nat.add_zero]
          have hat : moved_at cfg s page = 2 ^ j0 := hwf.moved_at_head hf
          rw [hat]
          by_cases hfit : 2 ^ j0 ≤ e + 1 - page
          · have hsplit : e + 1 - (page + 1) = (2 ^ j0 - 1) + (e + 1 - (page + 2 ^ j0)) := by
              omega
            rw [hsplit, pages_headed_add,
              pages_headed_zero cfg s (2 ^ j0 - 1) (page + 1)
                (fun x a b => (hwf.interior (Or.inl hf) (by omega) (by omega)).1)]
            have : page + 1 + (2 ^ j0 - 1) = page + 2 ^ j0 := by omega
            rw [this]
            omega
          · have hz0 : e + 1 - (page + 2 ^ j0) = 0 := by omega
            rw [hz0, pages_headed_zero cfg s (e + 1 - (page + 1)) (page + 1)
                (fun x a b => (hwf.interior (Or.inl hf) (by omega) (by omega)).1)]
            simp [pages_headed]
        · intro x j m
          rw [i2, list_move_mem hwf, r2, Nat.one_shiftLeft]
          by_cases hx : x = page
          · subst hx
            constructor
            · rintro (⟨h | ⟨_, rfl, rfl⟩, _⟩ | ⟨h, _⟩)
              · exact absurd rfl h.1
              · exact Or.inr ⟨Nat.le_refl _, hpe, hf, rfl⟩
              · omega
            · rintro (⟨_, h⟩ | ⟨_, _, hfx, rfl⟩)
              · exact absurd ⟨Nat.le_refl _, hpe⟩ h
              · have := (hwf.disjoint x j0 x j (Or.inl hf) (Or.inl hfx)
                  (Overlap.self x j0 j)).2
                subst this
                exact Or.inl ⟨Or.inr ⟨rfl, rfl, rfl⟩, by omega⟩
          · by_cases hint : page < x ∧ x < page + 2 ^ j0
            · have hno := (hwf.interior (Or.inl hf) hint.1 hint.2).2
              constructor
              · rintro (⟨h | ⟨h, _⟩, _⟩ | ⟨h, _⟩)
                · exact absurd h.2 (hno j m)
                · exact absurd h hx
                · omega
              · rintro (⟨h, _⟩ | ⟨_, _, ⟨m', h⟩, _⟩)
                · exact absurd h (hno j m)
                · exact absurd h (hno j m')
            · have hlo : page ≤ x → page + 2 ^ j0 ≤ x := by intro h; omega
              constructor
              · rintro (⟨h | ⟨h, _⟩, h2⟩ | ⟨a, b⟩)
                · exact Or.inl ⟨h.2, fun hc => h2 ⟨hlo hc.1, hc.2⟩⟩
                · exact absurd h hx
                · exact Or.inr ⟨by omega, b⟩
              · rintro (⟨h, h2⟩ | ⟨a, b⟩)
                · exact Or.inl ⟨Or.inl ⟨hx, h⟩, fun hc => h2 ⟨by omega, hc.2⟩⟩
                · exact Or.inr ⟨hlo a, b⟩
      · have hat : moved_at cfg s page = 0 := by
          unfold moved_at
          split
          · rename_i hc
            simp only [Bool.and_eq_true] at hc
            exact absurd hc hhead
          · rfl
        have hno := hwf.not_listed hat
        have hinv' : ∀ x j, Free s x j → ¬ (x < page + 1 ∧ page + 1 < x + 2 ^ j) := by
          intro x j hx hc
          by_cases hxp : x = page
          · subst hxp
            obtain ⟨m, hm⟩ := hx
            exact hno j m hm
          · exact hinv x j hx ⟨by omega, by omega⟩
        obtain ⟨i1, i2, i3, i4, i5, i6⟩ := ih (page + 1) s moved hwf (by omega) h2
          (by omega) hinv'
        have hstep : move_freepages_loop cfg e mt n (page + 1) (s, moved) =
            (if (!pfn_valid_within cfg s page) = true then
              move_freepages_loop cfg e mt n (page + 1) (s, moved)
            else if (!PageBuddy (s.mem_map page)) = true then
              move_freepages_loop cfg e mt n (page + 1) (s, moved)
            else
              move_freepages_loop cfg e mt n (page + 1 <<< page_order (s.mem_map page))
                (list_move s page (page_order (s.mem_map page)) mt,
                  moved + 1 <<< page_order (s.mem_map page))) := by
          by_cases hv : pfn_valid_within cfg s page = true
          · have hb : PageBuddy (s.mem_map page) = false := by
              cases hbb : PageBuddy (s.mem_map page)
              · rfl
              · exact absurd ⟨hv, hbb⟩ hhead
            simp [hv, hb]
          · have hv' : pfn_valid_within cfg s page = false := by simpa using hv
            simp [hv']
        rw [← hstep]
        refine ⟨?_, ?_, i3, i4, i5, i6⟩
        · rw [i1, hN, Nat.add_comm (e + 1 - (page + 1)) 1, pages_headed_add,
            pages_headed, pages_headed, hat]
          simp
        · intro x j m
          rw [i2]
          by_cases hx : x = page
          · subst hx
            constructor
            · rintro (⟨h, _⟩ | ⟨h, _⟩)
              · exact absurd h (hno j m)
              · omega
            · rintro (⟨h, _⟩ | ⟨_, _, ⟨m', h⟩, _⟩)
              · exact absurd h (hno j m)
              · exact absurd h (hno j m')
          · have hlo : page ≤ x → page + 1 ≤ x := by intro h; omega
            constructor
            · rintro (⟨h, h2⟩ | ⟨a, b⟩)
              · exact Or.inl ⟨h, fun hc => h2 ⟨hlo hc.1, hc.2⟩⟩
              · exact Or.inr ⟨by omega, b⟩
            · rintro (⟨h, h2⟩ | ⟨a, b⟩)
              · exact Or.inl ⟨h, fun hc => h2 ⟨by omega, hc.2⟩⟩
              · exact Or.inr ⟨hlo a, b⟩
    · rw [if_neg hpe]
      have h0 : e + 1 - page = 0 := by omega
      rw [h0]
      refine ⟨rfl, fun x j m => ?_, rfl, rfl, rfl, rfl⟩
      show x ∈ s.free_list j m ↔ _
      constructor
      · intro h; exact Or.inl ⟨h, by omega⟩
      · rintro (h | h)
        · exact h.1
        · omega

/-- The first frame that `move_freepages_block` scans: the start of the
page-block of `page`, or `page` itself when the page-block starts below the
zone. -/
theorem scan_start_not_inside {cfg : Config} {zid : Nat} {s : State} (hwf : WF cfg zid s)
    {page k : Nat} (hf : Free s page k) (start : Nat)
    (hs : start = page ∨ start = block_start page cfg.pageblock_order) :
    ∀ x j, Free s x j → ¬ (x < start ∧ start < x + 2 ^ j) := by
  intro x j hx hc
  have hk := Nat.two_pow_pos k
  have hle := block_start_le page cfg.pageblock_order
  have hlt := lt_block_start_add page cfg.pageblock_order
  rcases hs with rfl | rfl
  · have := (hwf.disjoint start k x j (Or.inl hf) (Or.inl hx) ⟨hc.2, by omega⟩).1
    omega
  · have hxd : 2 ^ j ∣ x := (Blk.ok_of_wf hwf (Or.inl hx)).2.1
    have hsd := dvd_block_start page cfg.pageblock_order
    rcases Nat.lt_or_ge cfg.pageblock_order j with hj | hj
    · have h1 : 2 ^ cfg.pageblock_order ∣ x :=
        Dvd.dvd.trans (pow_dvd_pow 2 (by omega)) hxd
      have h2 : 2 ^ cfg.pageblock_order ∣ x + 2 ^ j :=
        Dvd.dvd.add h1 (pow_dvd_pow 2 (by omega))
      have h3 := add_le_of_dvd_of_lt hsd h2 hc.2
      have := (hwf.disjoint page k x j (Or.inl hf) (Or.inl hx) ⟨by omega, by omega⟩).1
      omega
    · have h1 : 2 ^ j ∣ block_start page cfg.pageblock_order :=
        Dvd.dvd.trans (pow_dvd_pow 2 hj) hsd
      have := add_le_of_dvd_of_lt hxd h1 hc.1
      omega

/-- `move_freepages_block` on a well-formed zone, for the page-block of a
free block head `page`. When the page-block ends beyond the zone nothing
moves and the count is zero. Otherwise the scan starts at the page-block
(at `page` when the page-block starts below the zone), every free block whose
first frame is in the scanned range ends on the list of the target class at
its order, every other block stays where it was, and the count is the number
of pages of the blocks moved. -/
theorem move_freepages_block_spec {cfg : Config} {zid : Nat} {s : State} {page k mt : Nat}
    (hwf : WF cfg zid s) (hf : Free s page k) (hmt : mt < MIGRATE_TYPES)
    (hB : page < 2 ^ cfg.BITS_PER_LONG) :
    ∃ r, move_freepages_block cfg s page mt = some r ∧
      r.1.mem_map = s.mem_map ∧ r.1.pageblock_flags = s.pageblock_flags ∧
      r.1.nr_free = s.nr_free ∧ r.1.NR_FREE_PAGES = s.NR_FREE_PAGES ∧
      (s.zone_start_pfn + s.spanned_pages <
          block_start page cfg.pageblock_order + 2 ^ cfg.pageblock_order →
        r = (s, 0)) ∧
      (block_start page cfg.pageblock_order + 2 ^ cfg.pageblock_order ≤
          s.zone_start_pfn + s.spanned_pages →
        ∀ start, start = (if block_start page cfg.pageblock_order < s.zone_start_pfn
            then page else block_start page cfg.pageblock_order) →
          r.2 = pages_headed cfg s start
            (block_start page cfg.pageblock_order + 2 ^ cfg.pageblock_order - start) ∧
          ∀ x j m, x ∈ r.1.free_list j m ↔
            (x ∈ s.free_list j m ∧ ¬ (start ≤ x ∧
              x < block_start page cfg.pageblock_order + 2 ^ cfg.pageblock_order)) ∨
            (start ≤ x ∧ x < block_start page cfg.pageblock_order + 2 ^ cfg.pageblock_order ∧
              Free s x j ∧ m = mt)) := by
  have hpg : s.zone_start_pfn ≤ page := (Blk.ok_of_wf hwf (Or.inl hf)).2.2.1
  unfold move_freepages_block
  simp only []
  rw [pageblock_start_eq cfg page hB]
  have h1 := block_start_le page cfg.pageblock_order
  have h2 := lt_block_start_add page cfg.pageblock_order
  have hnr : pageblock_nr_pages cfg = 2 ^ cfg.pageblock_order := by
    unfold pageblock_nr_pages; rw [Nat.one_shiftLeft]
  rw [hnr]
  have hns := scan_start_not_inside hwf hf
  have hpos : 0 < 2 ^ cfg.pageblock_order := Nat.two_pow_pos _
  generalize block_start page cfg.pageblock_order = sp at h1 h2 hns ⊢
  generalize 2 ^ cfg.pageblock_order = nr at h2 hpos ⊢
  by_cases hend : sp + nr - 1 ≥ s.zone_start_pfn + s.spanned_pages
  · rw [if_pos hend]
    refine ⟨(s, 0), rfl, rfl, rfl, rfl, rfl, fun _ => rfl, fun hc => ?_⟩
    omega
  · rw [if_neg hend]
    unfold move_freepages
    have hstart : s.zone_start_pfn ≤ (if sp < s.zone_start_pfn then page else sp) := by
      split
      · exact hpg
      · omega
    have hsle : (if sp < s.zone_start_pfn then page else sp) ≤ sp + nr - 1 := by
      split <;> omega
    have hns' := hns (if sp < s.zone_start_pfn then page else sp)
      (by split
          · exact Or.inl rfl
          · exact Or.inr rfl)
    generalize (if sp < s.zone_start_pfn then page else sp) = st at hstart hsle hns' ⊢
    rw [if_neg]
    · obtain ⟨a, b, c, d, e, f⟩ := move_freepages_loop_spec (sp + nr - 1) mt hmt
        (sp + nr - 1 + 1 - st) st s 0 hwf hstart (by omega) (Nat.le_refl _) hns'
      refine ⟨_, rfl, c, d, e, f, fun hc => by omega, fun _ start hst => ?_⟩
      subst hst
      constructor
      · rw [a, Nat.zero_add]
        congr 1
        omega
      · intro x j m
        rw [b]
        have hr : (start ≤ x ∧ x ≤ sp + nr - 1) ↔ (start ≤ x ∧ x < sp + nr) := by
          constructor
          · intro h; omega
          · intro h; omega
        constructor
        · rintro (⟨h, h2⟩ | ⟨a1, a2, a3⟩)
          · exact Or.inl ⟨h, fun hc => h2 (hr.2 hc)⟩
          · exact Or.inr ⟨a1, by omega, a3⟩
        · rintro (⟨h, h2⟩ | ⟨a1, a2, a3⟩)
          · exact Or.inl ⟨h, fun hc => h2 (hr.1 hc)⟩
          · exact Or.inr ⟨a1, by omega, a3⟩
    · intro hc
      simp only [Bool.and_eq_true, Bool.not_eq_true', bne_iff_ne, ne_eq] at hc
      obtain ⟨hh, hne⟩ := hc
      have hval : ∀ x, pfn_valid_within cfg s x = true := by
        intro x; simp [pfn_valid_within, hh]
      apply hne
      rw [hwf.span _ hstart (by omega) (hval _), hwf.span _ (by omega) (by omega) (hval _)]

theorem set_pageblock_migratetype_flags (cfg : Config) (s : State) (p m : Nat) :
    (set_pageblock_migratetype cfg s p m).pageblock_flags =
      upd s.pageblock_flags (p >>> cfg.pageblock_order) (effective_migratetype cfg m) := rfl

/-- The page-block tags after `change_pageblock_range`: the page-blocks
visited get the (effective) class, the others keep theirs. -/
theorem change_pageblock_loop_flags (cfg : Config) (m : Nat) :
    ∀ (n p : Nat) (s : State) (b : Nat),
      (change_pageblock_loop cfg m n p s).pageblock_flags b =
        if ∃ i, i < n ∧ b = (p + i * pageblock_nr_pages cfg) >>> cfg.pageblock_order then
          effective_migratetype cfg m
        else s.pageblock_flags b := by
  intro n
  induction n with
  | zero =>
    intro p s b
    rw [if_neg (by rintro ⟨i, h, _⟩; omega)]
    rfl
  | succ n ih =>
    intro p s b
    rw [change_pageblock_loop, ih, set_pageblock_migratetype_flags]
    by_cases h1 : ∃ i, i < n ∧
        b = (p + pageblock_nr_pages cfg + i * pageblock_nr_pages cfg) >>> cfg.pageblock_order
    · obtain ⟨i, hi, hb⟩ := h1
      have h2 : ∃ i, i < n + 1 ∧
          b = (p + i * pageblock_nr_pages cfg) >>> cfg.pageblock_order :=
        ⟨i + 1, by omega, by rw [hb]; congr 1; rw [Nat.succ_mul]; omega⟩
      rw [if_pos ⟨i, hi, hb⟩, if_pos h2]
    · rw [if_neg h1]
      by_cases h0 : b = p >>> cfg.pageblock_order
      · have h2 : ∃ i, i < n + 1 ∧
            b = (p + i * pageblock_nr_pages cfg) >>> cfg.pageblock_order :=
          ⟨0, by omega, by simpa using h0⟩
        rw [if_pos h2]
        subst h0
        simp [upd]
      · have h2 : ¬ ∃ i, i < n + 1 ∧
            b = (p + i * pageblock_nr_pages cfg) >>> cfg.pageblock_order := by
          rintro ⟨i, hi, hb⟩
          cases i with
          | zero => exact h0 (by simpa using hb)
          | succ i =>
            exact h1 ⟨i, by omega, by rw [hb]; congr 1; rw [Nat.succ_mul]; omega⟩
        rw [if_neg h2]
        simp [upd, h0]

/-! ## The steal step and the split of `__rmqueue_fallback` -/

/-- The tail of `__rmqueue_fallback` from `list_del` on, run on the state `s3`
left by the steal step: the page leaves its list, the page-blocks covered by
a block of order `>= pageblock_order` are re-tagged, and `expand` puts the
upper halves on the lists of class `m3`. -/
theorem fallback_finish_spec (cfg : Config) (s3 : State) (page o m3 k sm : Nat)
    (hnd : ∀ j m, (s3.free_list j m).Nodup) (hok : o ≤ k) :
    (∀ x j m, x ∈ (expand cfg page o m3 k k (1 <<< k)
        (if k ≥ cfg.pageblock_order then
          change_pageblock_range cfg (rmv_page_order (list_del s3 page) page) page k sm
        else rmv_page_order (list_del s3 page) page)).free_list j m ↔
      (o ≤ j ∧ j < k ∧ x = page + 2 ^ j ∧ guard_level cfg j = false ∧ m = m3) ∨
        (x ≠ page ∧ x ∈ s3.free_list j m)) ∧
    (∀ j, o ≤ j → j < k → guard_level cfg j = false →
      (expand cfg page o m3 k k (1 <<< k)
        (if k ≥ cfg.pageblock_order then
          change_pageblock_range cfg (rmv_page_order (list_del s3 page) page) page k sm
        else rmv_page_order (list_del s3 page) page)).free_list j m3 =
        (page + 2 ^ j) :: (s3.free_list j m3).erase page) ∧
    (∀ b, (expand cfg page o m3 k k (1 <<< k)
        (if k ≥ cfg.pageblock_order then
          change_pageblock_range cfg (rmv_page_order (list_del s3 page) page) page k sm
        else rmv_page_order (list_del s3 page) page)).pageblock_flags b =
      if cfg.pageblock_order ≤ k ∧ ∃ i, i < 2 ^ (k - cfg.pageblock_order) ∧
          b = (page + i * 2 ^ cfg.pageblock_order) >>> cfg.pageblock_order then
        effective_migratetype cfg sm
      else s3.pageblock_flags b) := by
  have hfl : (if k ≥ cfg.pageblock_order then
        change_pageblock_range cfg (rmv_page_order (list_del s3 page) page) page k sm
      else rmv_page_order (list_del s3 page) page).free_list =
      fun j m => (s3.free_list j m).erase page := by
    split
    · exact (change_pageblock_loop_view cfg sm _ page _).1
    · rfl
  have hpf : ∀ b, (if k ≥ cfg.pageblock_order then
        change_pageblock_range cfg (rmv_page_order (list_del s3 page) page) page k sm
      else rmv_page_order (list_del s3 page) page).pageblock_flags b =
      if cfg.pageblock_order ≤ k ∧ ∃ i, i < 2 ^ (k - cfg.pageblock_order) ∧
          b = (page + i * 2 ^ cfg.pageblock_order) >>> cfg.pageblock_order then
        effective_migratetype cfg sm
      else s3.pageblock_flags b := by
    intro b
    have hnr : pageblock_nr_pages cfg = 2 ^ cfg.pageblock_order := by
      unfold pageblock_nr_pages; rw [Nat.one_shiftLeft]
    split
    · rename_i hge
      unfold change_pageblock_range
      rw [change_pageblock_loop_flags, Nat.one_shiftLeft, hnr]
      by_cases hc : ∃ i, i < 2 ^ (k - cfg.pageblock_order) ∧
          b = (page + i * 2 ^ cfg.pageblock_order) >>> cfg.pageblock_order
      · rw [if_pos hc, if_pos ⟨hge, hc⟩]
      · rw [if_neg hc, if_neg (fun h => hc h.2)]
        rfl
    · rename_i hlt
      rw [if_neg (fun h => hlt h.1)]
      rfl
  generalize (if k ≥ cfg.pageblock_order then
        change_pageblock_range cfg (rmv_page_order (list_del s3 page) page) page k sm
      else rmv_page_order (list_del s3 page) page) = s5 at hfl hpf ⊢
  have hexp := expand_free_list cfg page o m3 k hok s5
  refine ⟨fun x j m => ?_, fun j h1 h2 h3 => ?_, fun b => ?_⟩
  · rw [hexp, hfl]
    have hmem : x ∈ (s3.free_list j m).erase page ↔ x ≠ page ∧ x ∈ s3.free_list j m :=
      (hnd j m).mem_erase_iff
    split
    · rename_i hc
      rw [List.mem_cons, hmem]
      constructor
      · rintro (h | h)
        · exact Or.inl ⟨hc.1, hc.2.1, h, hc.2.2.2, hc.2.2.1⟩
        · exact Or.inr h
      · rintro (⟨_, _, h, _⟩ | h)
        · exact Or.inl h
        · exact Or.inr h
    · rename_i hc
      rw [hmem]
      constructor
      · exact fun h => Or.inr h
      · rintro (⟨a, b, _, d, e⟩ | h)
        · exact absurd ⟨a, b, e, d⟩ hc
        · exact h
  · rw [hexp, if_pos ⟨h1, h2, rfl, h3⟩, hfl]
  · rw [(expand_frame cfg page o m3 k s5).2.2.2.2.1, hpf]

/-- The body of `__rmqueue_fallback` for the head `page` of the list of
class `mt` at order `k`, in a well-formed zone. It returns `page`. The
upper halves split off from order `k` down to `o` go to the head of the lists
of the requester's class `sm` when the steal test holds, of the class `mt`
the block came from when it does not. When the steal test holds and the
page-block ends inside the zone, every free block whose first frame is in the
scanned part of the page-block moves to the requester's lists; no other
block changes list. The page-block of `page` is re-tagged when the steal test
holds and at least `2^(pageblock_order-1)` pages were counted as moved (or
grouping is disabled), and all page-blocks covered by the block are re-tagged
when `k >= pageblock_order`; no other tag changes. -/
theorem fallback_take_spec {cfg : Config} {zid : Nat} {s : State}
    {o sm k mt page : Nat} {rest : List Nat}
    (hwf : WF cfg zid s) (hsm : sm < MIGRATE_TYPES)
    (hok : o ≤ k) (hx : s.free_list k mt = page :: rest)
    (hB : page < 2 ^ cfg.BITS_PER_LONG) :
    ∃ r, fallback_take cfg s o sm k mt = some (some page, r) ∧
      (∀ x j m, x ∈ r.free_list j m ↔
        (o ≤ j ∧ j < k ∧ x = page + 2 ^ j ∧ guard_level cfg j = false ∧
          m = (if steal_cond cfg sm k = true then sm else mt)) ∨
        (x ≠ page ∧
          (if steal_cond cfg sm k = true ∧
              scan_end cfg page ≤ s.zone_start_pfn + s.spanned_pages then
            (x ∈ s.free_list j m ∧
              ¬ (scan_start cfg s page ≤ x ∧ x < scan_end cfg page)) ∨
            (scan_start cfg s page ≤ x ∧ x < scan_end cfg page ∧ Free s x j ∧ m = sm)
          else x ∈ s.free_list j m))) ∧
      (∀ j, o ≤ j → j < k → guard_level cfg j = false →
        ∃ l, r.free_list j (if steal_cond cfg sm k = true then sm else mt) =
          (page + 2 ^ j) :: l) ∧
      (∀ b, r.pageblock_flags b =
        if (cfg.pageblock_order ≤ k ∧ ∃ i, i < 2 ^ (k - cfg.pageblock_order) ∧
              b = (page + i * 2 ^ cfg.pageblock_order) >>> cfg.pageblock_order) ∨
            (steal_cond cfg sm k = true ∧
              (2 ^ (cfg.pageblock_order - 1) ≤ stolen_pages cfg s page ∨
                cfg.page_group_by_mobility_disabled = true) ∧
              b = page >>> cfg.pageblock_order) then
          effective_migratetype cfg sm
        else s.pageblock_flags b) := by
  have hmem : page ∈ s.free_list k mt := by rw [hx]; exact List.mem_cons_self _ _
  have hf : Free s page k := ⟨mt, hmem⟩
  obtain ⟨n1, n2, n3, n4⟩ := @WF.of_eq_view cfg zid s (nr_free_dec cfg s k) hwf rfl rfl rfl
    rfl rfl
  have hf1 : Free (nr_free_dec cfg s k) page k := (n3 page k).2 hf
  unfold fallback_take
  rw [hx]
  simp only []
  by_cases hst : steal_cond cfg sm k = true
  · have hst' := hst
    unfold steal_cond at hst'
    rw [if_pos hst']
    obtain ⟨r2, e2, a, b, c, d, f0, f1⟩ := move_freepages_block_spec n1 hf1 hsm hB
    have hwf2 := (move_freepages_block_wf n1 hsm
      (Blk.ok_of_wf hwf (Or.inl hf)).2.2.1 r2 e2).1
    obtain ⟨s2, pages⟩ := r2
    rw [e2]
    simp only []
    -- the lists and the count after the steal step
    have hlists : ∀ x j m, x ∈ s2.free_list j m ↔
        (if steal_cond cfg sm k = true ∧
            scan_end cfg page ≤ s.zone_start_pfn + s.spanned_pages then
          (x ∈ s.free_list j m ∧
            ¬ (scan_start cfg s page ≤ x ∧ x < scan_end cfg page)) ∨
          (scan_start cfg s page ≤ x ∧ x < scan_end cfg page ∧ Free s x j ∧ m = sm)
        else x ∈ s.free_list j m) := by
      intro x j m
      by_cases hin : scan_end cfg page ≤ s.zone_start_pfn + s.spanned_pages
      · rw [if_pos ⟨hst, hin⟩]
        have hl : x ∈ s2.free_list j m ↔
            (x ∈ s.free_list j m ∧
              ¬ (scan_start cfg s page ≤ x ∧ x < scan_end cfg page)) ∨
            (scan_start cfg s page ≤ x ∧ x < scan_end cfg page ∧
              Free (nr_free_dec cfg s k) x j ∧ m = sm) :=
          (f1 hin (scan_start cfg s page) rfl).2 x j m
        rw [hl]
        constructor
        · rintro (h | ⟨h1, h2, h3, h4⟩)
          · exact Or.inl h
          · exact Or.inr ⟨h1, h2, (n3 x j).1 h3, h4⟩
        · rintro (h | ⟨h1, h2, h3, h4⟩)
          · exact Or.inl h
          · exact Or.inr ⟨h1, h2, (n3 x j).2 h3, h4⟩
      · rw [if_neg (fun h => hin h.2)]
        have := f0 (by
          show s.zone_start_pfn + s.spanned_pages < _
          unfold scan_end at hin; omega)
        have h2 : s2 = nr_free_dec cfg s k := congrArg Prod.fst this
        rw [h2]
        rfl
    have hpages : pages = stolen_pages cfg s page := by
      unfold stolen_pages
      by_cases hin : scan_end cfg page ≤ s.zone_start_pfn + s.spanned_pages
      · rw [if_pos hin]
        have hp : pages = pages_headed cfg (nr_free_dec cfg s k) (scan_start cfg s page)
            (scan_end cfg page - scan_start cfg s page) :=
          (f1 hin (scan_start cfg s page) rfl).1
        rw [hp]
        exact pages_headed_congr cfg s _ _ _ (fun _ _ _ => rfl)
      · rw [if_neg hin]
        have := f0 (by
          show s.zone_start_pfn + s.spanned_pages < _
          unfold scan_end at hin; omega)
        exact congrArg Prod.snd this
    have hflags2 : s2.pageblock_flags = s.pageblock_flags := b
    by_cases hre : (decide (pages ≥ 1 <<< (cfg.pageblock_order - 1)) ||
        cfg.page_group_by_mobility_disabled) = true
    · rw [if_pos hre]
      obtain ⟨g1, g2, g3⟩ := fallback_finish_spec cfg
        (set_pageblock_migratetype cfg s2 page sm) page o sm k sm
        (fun j m => hwf2.nodup j m) hok
      refine ⟨_, rfl, fun x j m => ?_, fun j h1 h2 h3 => ?_, fun b => ?_⟩
      · rw [g1, if_pos hst]
        have : x ∈ (set_pageblock_migratetype cfg s2 page sm).free_list j m ↔
            x ∈ s2.free_list j m := Iff.rfl
        rw [this, hlists]
      · rw [if_pos hst]
        exact ⟨_, g2 j h1 h2 h3⟩
      · rw [g3, set_pageblock_migratetype_flags, hflags2]
        have hre2 : 2 ^ (cfg.pageblock_order - 1) ≤ stolen_pages cfg s page ∨
            cfg.page_group_by_mobility_disabled = true := by
          rw [← hpages, ← Nat.one_shiftLeft]
          simpa using hre
        by_cases hc1 : cfg.pageblock_order ≤ k ∧ ∃ i, i < 2 ^ (k - cfg.pageblock_order) ∧
            b = (page + i * 2 ^ cfg.pageblock_order) >>> cfg.pageblock_order
        · rw [if_pos hc1, if_pos (Or.inl hc1)]
        · rw [if_neg hc1]
          by_cases hb : b = page >>> cfg.pageblock_order
          · rw [if_pos (Or.inr ⟨hst, hre2, hb⟩)]
            simp [upd, hb]
          · rw [if_neg (by rintro (h | ⟨_, _, h⟩); exact hc1 h; exact hb h)]
            simp [upd, hb]
    · rw [if_neg hre]
      obtain ⟨g1, g2, g3⟩ := fallback_finish_spec cfg s2 page o sm k sm
        (fun j m => hwf2.nodup j m) hok
      refine ⟨_, rfl, fun x j m => ?_, fun j h1 h2 h3 => ?_, fun b => ?_⟩
      · rw [g1, if_pos hst, hlists]
      · rw [if_pos hst]
        exact ⟨_, g2 j h1 h2 h3⟩
      · rw [g3, hflags2]
        have hre2 : ¬ (2 ^ (cfg.pageblock_order - 1) ≤ stolen_pages cfg s page ∨
            cfg.page_group_by_mobility_disabled = true) := by
          rw [← hpages, ← Nat.one_shiftLeft]
          simpa using hre
        by_cases hc1 : cfg.pageblock_order ≤ k ∧ ∃ i, i < 2 ^ (k - cfg.pageblock_order) ∧
            b = (page + i * 2 ^ cfg.pageblock_order) >>> cfg.pageblock_order
        · rw [if_pos hc1, if_pos (Or.inl hc1)]
        · rw [if_neg hc1, if_neg (by rintro (h | ⟨_, h, _⟩); exact hc1 h; exact hre2 h)]
  · have hst' := hst
    unfold steal_cond at hst'
    rw [if_neg hst']
    simp only []
    obtain ⟨g1, g2, g3⟩ := fallback_finish_spec cfg (nr_free_dec cfg s k) page o mt k sm
      (fun j m => hwf.nodup j m) hok
    refine ⟨_, rfl, fun x j m => ?_, fun j h1 h2 h3 => ?_, fun b => ?_⟩
    · rw [g1, if_neg hst, if_neg (fun h => hst h.1)]
      rfl
    · rw [if_neg hst]
      exact ⟨_, g2 j h1 h2 h3⟩
    · rw [g3]
      by_cases hc1 : cfg.pageblock_order ≤ k ∧ ∃ i, i < 2 ^ (k - cfg.pageblock_order) ∧
          b = (page + i * 2 ^ cfg.pageblock_order) >>> cfg.pageblock_order
      · rw [if_pos hc1, if_pos (Or.inl hc1)]
      · rw [if_neg hc1, if_neg (by rintro (h | ⟨h, _⟩); exact hc1 h; exact hst h)]
        rfl

/-! ## The order of the fallback search -/

/-- The inner loop of `__rmqueue_fallback` at order `k`, for a requester in
one of the three per-CPU classes: it commits to the first class of the row,
Reserve left out, whose list is non-empty. The table has a fourth column,
which C fills with zero (Unmovable); it adds nothing to the rows of
Reclaimable and Movable, and for Unmovable it names the requester's own
class, whose list is empty when `__rmqueue` gets here. -/
theorem fallback_find_row (s : State) (sm k : Nat) (hsm : sm < MIGRATE_PCPTYPES)
    (hown : sm = MIGRATE_UNMOVABLE → s.free_list k sm = []) :
    fallback_find s sm k (MIGRATE_TYPES - 1) 0 =
      (fallback_row sm).find? (fun c => !(s.free_list k c).isEmpty) := by
  have h3 : sm = 0 ∨ sm = 1 ∨ sm = 2 := by
    unfold MIGRATE_PCPTYPES at hsm; omega
  rcases h3 with rfl | rfl | rfl
  · have h0 := hown rfl
    cases h1 : s.free_list k 1 <;> cases h2 : s.free_list k 2 <;>
      simp [fallback_find, MIGRATE_TYPES, fallbacks, MIGRATE_RECLAIMABLE, MIGRATE_MOVABLE,
        MIGRATE_RESERVE, MIGRATE_UNMOVABLE, fallback_row, h0, h1, h2]
  · cases h1 : s.free_list k 0 <;> cases h2 : s.free_list k 2 <;>
      simp [fallback_find, MIGRATE_TYPES, fallbacks, MIGRATE_RECLAIMABLE, MIGRATE_MOVABLE,
        MIGRATE_RESERVE, MIGRATE_UNMOVABLE, fallback_row, h1, h2]
  · cases h1 : s.free_list k 1 <;> cases h2 : s.free_list k 0 <;>
      simp [fallback_find, MIGRATE_TYPES, fallbacks, MIGRATE_RECLAIMABLE, MIGRATE_MOVABLE,
        MIGRATE_RESERVE, MIGRATE_UNMOVABLE, fallback_row, h1, h2]

theorem fallback_take_head (cfg : Config) (s : State) (o sm k mt page : Nat)
    (rest : List Nat) (hx : s.free_list k mt = page :: rest) :
    ∀ r, fallback_take cfg s o sm k mt = some r → r.1 = some page := by
  intro r
  unfold fallback_take
  rw [hx]
  simp only []
  split
  · intro h; exact Option.noConfusion h
  · intro h
    have : r = _ := (Option.some.inj h).symm
    rw [this]

/-- What `__rmqueue_fallback` does, by cases: nothing when no order from `o`
up has a candidate list; else the body runs for the first candidate class
at the highest order that has one. -/
theorem rmqueue_fallback_cases (cfg : Config) (s : State) (o sm : Nat) :
    ((∀ k, o ≤ k → k < cfg.MAX_ORDER → fallback_find s sm k (MIGRATE_TYPES - 1) 0 = none) ∧
      __rmqueue_fallback cfg s o sm = some (none, s)) ∨
    ∃ k mt page rest, o ≤ k ∧ k < cfg.MAX_ORDER ∧
      fallback_find s sm k (MIGRATE_TYPES - 1) 0 = some mt ∧
      (∀ k', k < k' → k' < cfg.MAX_ORDER →
        fallback_find s sm k' (MIGRATE_TYPES - 1) 0 = none) ∧
      mt < MIGRATE_TYPES ∧ mt ≠ MIGRATE_RESERVE ∧ s.free_list k mt = page :: rest ∧
      __rmqueue_fallback cfg s o sm = fallback_take cfg s o sm k mt := by
  rcases fallback_highest s o sm cfg.MAX_ORDER with h | ⟨k, mt, h1, h2, h3, h4⟩
  · exact Or.inl ⟨h, rmqueue_fallback_loop_miss cfg s o sm _ h⟩
  · right
    obtain ⟨f1, f2⟩ := fallback_find_spec s sm k _ _ mt h3
    obtain ⟨page, rest, hx⟩ := List.exists_cons_of_ne_nil f2
    obtain ⟨i0, _, _, _, hres, _⟩ := (fallback_find_some_iff s sm k mt _ 0 (by omega)).1 h3
    exact ⟨k, mt, page, rest, h1, h2, h3, h4, f1, hres, hx,
      rmqueue_fallback_loop_hit cfg s o sm k mt h1 h3 _ h2 h4⟩

theorem find_row_none_iff (s : State) (k : Nat) (row : List Nat) :
    row.find? (fun c => !(s.free_list k c).isEmpty) = none ↔
      ∀ c, c ∈ row → s.free_list k c = [] := by
  rw [List.find?_eq_none]
  constructor
  · intro h c hc
    have := h c hc
    simpa using this
  · intro h c hc
    simp [h c hc]

/-- C14: `__rmqueue_fallback(zone, o, m)`, for a requester `m` of one of the
three classes Unmovable, Reclaimable, Movable whose own lists are empty from
order `o` up when it is Unmovable (as they are when `__rmqueue` calls it),
searches the largest block first. When it returns a page, the page is the
head of the list of class `c` at order `k`, where `k` is the highest order
with `o <= k <= MAX_ORDER-1` at which a class of `m`'s row (Unmovable:
Reclaimable, Movable; Reclaimable: Unmovable, Movable; Movable: Reclaimable,
Unmovable) has a non-empty list, and `c` is the first such class in the row.
It returns `NULL` exactly when all those lists are empty at every order from
`o` up, and then leaves the zone unchanged. In a well-formed zone whose
listed frame numbers fit an `unsigned long` it returns. -/
theorem rmqueue_fallback_search (cfg : Config) (s : State) (o sm : Nat)
    (hsm : sm < MIGRATE_PCPTYPES)
    (hown : sm = MIGRATE_UNMOVABLE →
      ∀ k, o ≤ k → k < cfg.MAX_ORDER → s.free_list k sm = []) :
    (∀ r, __rmqueue_fallback cfg s o sm = some r →
      (r.1 = none ↔
        ∀ k, o ≤ k → k < cfg.MAX_ORDER → ∀ c, c ∈ fallback_row sm → s.free_list k c = []) ∧
      (r.1 = none → r.2 = s) ∧
      (∀ p, r.1 = some p → ∃ k c rest, o ≤ k ∧ k < cfg.MAX_ORDER ∧
        (fallback_row sm).find? (fun c => !(s.free_list k c).isEmpty) = some c ∧
        c ∈ fallback_row sm ∧ s.free_list k c = p :: rest ∧
        ∀ k', k < k' → k' < cfg.MAX_ORDER → ∀ c', c' ∈ fallback_row sm →
          s.free_list k' c' = [])) ∧
    (∀ zid, WF cfg zid s → (∀ k m p, p ∈ s.free_list k m → p < 2 ^ cfg.BITS_PER_LONG) →
      ∃ r, __rmqueue_fallback cfg s o sm = some r) := by
  have hrow : ∀ k, o ≤ k → k < cfg.MAX_ORDER →
      fallback_find s sm k (MIGRATE_TYPES - 1) 0 =
        (fallback_row sm).find? (fun c => !(s.free_list k c).isEmpty) :=
    fun k h1 h2 => fallback_find_row s sm k hsm (fun h => hown h k h1 h2)
  refine ⟨fun r hr => ?_, fun zid hwf hB => rmqueue_fallback_returns o sm hwf hB⟩
  rcases rmqueue_fallback_cases cfg s o sm with ⟨h, he⟩ | ⟨k, mt, page, rest, h1, h2, h3, h4,
    _, _, hx, he⟩
  · rw [he] at hr
    have hr' : r = (none, s) := (Option.some.inj hr).symm
    subst hr'
    refine ⟨⟨fun _ k a b => ?_, fun _ => rfl⟩, fun _ => rfl,
      fun p hp => Option.noConfusion hp⟩
    rw [← find_row_none_iff, ← hrow k a b]
    exact h k a b
  · rw [he] at hr
    have hp := fallback_take_head cfg s o sm k mt page rest hx r hr
    refine ⟨⟨fun hn => ?_, fun hall => ?_⟩, fun hn => ?_, fun p hpp => ?_⟩
    · rw [hp] at hn; exact Option.noConfusion hn
    · exfalso
      have := (find_row_none_iff s k (fallback_row sm)).2 (hall k h1 h2)
      rw [← hrow k h1 h2, h3] at this
      exact Option.noConfusion this
    · rw [hp] at hn; exact Option.noConfusion hn
    · rw [hp] at hpp
      have hpe : page = p := Option.some.inj hpp
      subst hpe
      have hfind := h3
      rw [hrow k h1 h2] at hfind
      refine ⟨k, mt, rest, h1, h2, hfind, List.mem_of_find?_eq_some hfind, hx,
        fun k' a b => ?_⟩
      rw [← find_row_none_iff, ← hrow k' (by omega) b]
      exact h4 k' a b

theorem rmqueue_fallback_search_witness :
    MIGRATE_MOVABLE < MIGRATE_PCPTYPES ∧
    (__rmqueue_fallback default_config
      (zone_of_blocks 6 [(0, 3), (16, 4), (40, 3)] MIGRATE_RECLAIMABLE) 0
      MIGRATE_MOVABLE).map (fun r => r.1) = some (some 16) ∧
    (∀ r, __rmqueue_fallback default_config
        (zone_of_blocks 6 [(0, 3), (16, 4), (40, 3)] MIGRATE_RECLAIMABLE) 0 MIGRATE_MOVABLE
        = some r → r.1 = none → r.2 =
          zone_of_blocks 6 [(0, 3), (16, 4), (40, 3)] MIGRATE_RECLAIMABLE) :=
  ⟨by decide, by decide,
    fun r hr => ((rmqueue_fallback_search default_config
      (zone_of_blocks 6 [(0, 3), (16, 4), (40, 3)] MIGRATE_RECLAIMABLE) 0 MIGRATE_MOVABLE
      (by decide) (fun h => absurd h (by decide))).1 r hr).2.1⟩

/-- What `__rmqueue_smallest` does, by cases: nothing when the lists of the
class are empty from `o` up; else unlink the head of the lowest non-empty
list and split it. -/
theorem rmqueue_smallest_cases (cfg : Config) (s : State) (o m : Nat) :
    ((∀ k, o ≤ k → k < cfg.MAX_ORDER → s.free_list k m = []) ∧
      __rmqueue_smallest cfg s o m = (none, s)) ∨
    ∃ k p rest, o ≤ k ∧ k < cfg.MAX_ORDER ∧ s.free_list k m = p :: rest ∧
      (∀ j, o ≤ j → j < k → s.free_list j m = []) ∧
      __rmqueue_smallest cfg s o m =
        (some p, expand cfg p o m k k (1 <<< k)
          (nr_free_dec cfg (rmv_page_order (list_del s p) p) k)) := by
  by_cases hall : ∀ k, o ≤ k → k < cfg.MAX_ORDER → s.free_list k m = []
  · left
    refine ⟨hall, ?_⟩
    unfold __rmqueue_smallest
    exact rmqueue_smallest_loop_none cfg s o m _ o (fun j h1 h2 _ => hall j h1 h2)
  · right
    have hex : ∃ k, o ≤ k ∧ k < cfg.MAX_ORDER ∧ s.free_list k m ≠ [] := by
      by_contra hne
      apply hall
      intro k h1 h2
      by_contra h3
      exact hne ⟨k, h1, h2, h3⟩
    classical
    obtain ⟨h1, h2, h3⟩ := Nat.find_spec hex
    obtain ⟨p, rest, hx⟩ := List.exists_cons_of_ne_nil h3
    have hmin : ∀ j, o ≤ j → j < Nat.find hex → s.free_list j m = [] := by
      intro j a b
      by_contra hne
      exact Nat.find_min hex b ⟨a, by omega, hne⟩
    refine ⟨Nat.find hex, p, rest, h1, h2, hx, hmin, ?_⟩
    unfold __rmqueue_smallest
    exact rmqueue_smallest_loop_some cfg s o m _ p rest h2 hx _ o h1 (by omega) hmin

/-- C17: `__rmqueue(zone, o, m)`, for `m` one of Unmovable, Reclaimable,
Movable, takes from the Reserve lists only after the lists of `m` and of its
fallback classes are exhausted: a returned page is the head of a list of one
of the classes Unmovable, Reclaimable, Movable, Reserve at an order `k` with
`o <= k < MAX_ORDER`, never of the Isolate list, and when the class is
Reserve the lists of the other three classes are empty at all those orders.
It returns `NULL` exactly when the lists of all four classes are empty at
every order `k` with `o <= k < MAX_ORDER`. In a well-formed zone whose
listed frame numbers fit an `unsigned long` it returns. -/
theorem rmqueue_reserve_last (cfg : Config) (s : State) (o m : Nat)
    (hm : m < MIGRATE_PCPTYPES) :
    (∀ r, __rmqueue cfg s o m = some r →
      (r.1 = none ↔
        ∀ k, o ≤ k → k < cfg.MAX_ORDER → ∀ c, c < MIGRATE_ISOLATE → s.free_list k c = []) ∧
      (∀ p, r.1 = some p → ∃ k c rest, o ≤ k ∧ k < cfg.MAX_ORDER ∧
        c < MIGRATE_ISOLATE ∧ s.free_list k c = p :: rest ∧
        (c = MIGRATE_RESERVE →
          ∀ k', o ≤ k' → k' < cfg.MAX_ORDER → ∀ c', c' < MIGRATE_PCPTYPES →
            s.free_list k' c' = []))) ∧
    (∀ zid, WF cfg zid s → (∀ k c p, p ∈ s.free_list k c → p < 2 ^ cfg.BITS_PER_LONG) →
      ∃ r, __rmqueue cfg s o m = some r) := by
  have hmr : (m != MIGRATE_RESERVE) = true := by
    simp [MIGRATE_RESERVE, MIGRATE_PCPTYPES] at hm ⊢; omega
  have hrowmem : ∀ c, c < MIGRATE_PCPTYPES → c = m ∨ c ∈ fallback_row m := by
    intro c hc
    simp only [MIGRATE_PCPTYPES] at hm hc
    have : c = 0 ∨ c = 1 ∨ c = 2 := by omega
    have : m = 0 ∨ m = 1 ∨ m = 2 := by omega
    rcases ‹c = 0 ∨ c = 1 ∨ c = 2› with h | h | h <;>
      rcases ‹m = 0 ∨ m = 1 ∨ m = 2› with h' | h' | h' <;> subst h <;> subst h' <;>
      simp [fallback_row, MIGRATE_RECLAIMABLE, MIGRATE_MOVABLE, MIGRATE_UNMOVABLE]
  have hrowlt : ∀ c, c ∈ fallback_row m → c < MIGRATE_PCPTYPES := by
    intro c hc
    simp only [MIGRATE_PCPTYPES] at hm ⊢
    have : m = 0 ∨ m = 1 ∨ m = 2 := by omega
    rcases this with h' | h' | h' <;> subst h' <;>
      simp [fallback_row, MIGRATE_RECLAIMABLE, MIGRATE_MOVABLE, MIGRATE_UNMOVABLE] at hc <;>
      omega
  have hfour : ∀ c, c < MIGRATE_ISOLATE → c < MIGRATE_PCPTYPES ∨ c = MIGRATE_RESERVE := by
    intro c hc
    simp only [MIGRATE_ISOLATE, MIGRATE_PCPTYPES, MIGRATE_RESERVE] at hc ⊢
    omega
  rcases rmqueue_smallest_cases cfg s o m with ⟨hown, e1⟩ | ⟨k, p, rest, h1, h2, hx, _, e1⟩
  swap
  · -- the class itself had a block
    have hres : __rmqueue cfg s o m = some (some p, expand cfg p o m k k (1 <<< k)
        (nr_free_dec cfg (rmv_page_order (list_del s p) p) k)) := by
      unfold __rmqueue; rw [e1]
    refine ⟨fun r hr => ?_, fun _ _ _ => ⟨_, hres⟩⟩
    rw [hres] at hr
    have hr' := (Option.some.inj hr).symm
    subst hr'
    refine ⟨⟨fun hn => Option.noConfusion hn, fun hall => ?_⟩, fun q hq => ?_⟩
    · have := hall k h1 h2 m (by simp only [MIGRATE_ISOLATE, MIGRATE_PCPTYPES] at hm ⊢; omega)
      rw [hx] at this
      exact List.noConfusion this
    · have hq' : p = q := Option.some.inj hq
      subst hq'
      refine ⟨k, m, rest, h1, h2,
        by simp only [MIGRATE_ISOLATE, MIGRATE_PCPTYPES] at hm ⊢; omega, hx, fun hc => ?_⟩
      simp only [MIGRATE_RESERVE, MIGRATE_PCPTYPES] at hm hc
      omega
  · have hsearch := rmqueue_fallback_cases cfg s o m
    have hrow : ∀ k, o ≤ k → k < cfg.MAX_ORDER →
        fallback_find s m k (MIGRATE_TYPES - 1) 0 =
          (fallback_row m).find? (fun c => !(s.free_list k c).isEmpty) :=
      fun k a b => fallback_find_row s m k hm (fun _ => hown k a b)
    rcases hsearch with ⟨hnone, e2⟩ | ⟨k, mt, page, rest, h1, h2, h3, _, _, _, hx, e2⟩
    · -- neither the class nor its fallbacks: the Reserve lists
      have hrowempty : ∀ k, o ≤ k → k < cfg.MAX_ORDER → ∀ c, c ∈ fallback_row m →
          s.free_list k c = [] := by
        intro k a b
        rw [← find_row_none_iff, ← hrow k a b]
        exact hnone k a b
      have hthree : ∀ k, o ≤ k → k < cfg.MAX_ORDER → ∀ c, c < MIGRATE_PCPTYPES →
          s.free_list k c = [] := by
        intro k a b c hc
        rcases hrowmem c hc with h | h
        · rw [h]; exact hown k a b
        · exact hrowempty k a b c h
      have hres : __rmqueue cfg s o m = some (__rmqueue_smallest cfg s o MIGRATE_RESERVE) := by
        unfold __rmqueue; rw [e1]; simp only [hmr, if_true]; rw [e2]
      refine ⟨fun r hr => ?_, fun _ _ _ => ⟨_, hres⟩⟩
      rw [hres] at hr
      have hr' := (Option.some.inj hr).symm
      subst hr'
      rcases rmqueue_smallest_cases cfg s o MIGRATE_RESERVE with
        ⟨hr0, e3⟩ | ⟨k, p, rest, h1, h2, hx, _, e3⟩
      · rw [e3]
        refine ⟨⟨fun _ k a b c hc => ?_, fun _ => rfl⟩, fun q hq => Option.noConfusion hq⟩
        rcases hfour c hc with h | h
        · exact hthree k a b c h
        · rw [h]; exact hr0 k a b
      · rw [e3]
        refine ⟨⟨fun hn => Option.noConfusion hn, fun hall => ?_⟩, fun q hq => ?_⟩
        · have := hall k h1 h2 MIGRATE_RESERVE (by decide)
          rw [hx] at this
          exact List.noConfusion this
        · have hq' : p = q := Option.some.inj hq
          subst hq'
          exact ⟨k, MIGRATE_RESERVE, rest, h1, h2, by decide, hx, fun _ => hthree⟩
    · -- a fallback class had a block
      have hfind := h3
      rw [hrow k h1 h2] at hfind
      have hmem := List.mem_of_find?_eq_some hfind
      have hmt3 := hrowlt mt hmem
      refine ⟨fun r hr => ?_, fun zid hwf hB => ?_⟩
      · have hr2 : ∃ r2, fallback_take cfg s o m k mt = some r2 ∧
            __rmqueue cfg s o m = some r2 := by
          unfold __rmqueue at hr ⊢
          rw [e1] at hr ⊢
          simp only [hmr, if_true] at hr ⊢
          rw [e2] at hr ⊢
          cases ht : fallback_take cfg s o m k mt with
          | none => rw [ht] at hr; exact Option.noConfusion hr
          | some r2 =>
            have hp := fallback_take_head cfg s o m k mt page rest hx r2 ht
            obtain ⟨a, b⟩ := r2
            simp only at hp
            subst hp
            exact ⟨_, rfl, rfl⟩
        obtain ⟨r2, ht, hres⟩ := hr2
        rw [hres] at hr
        have hr' := (Option.some.inj hr).symm
        subst hr'
        have hp := fallback_take_head cfg s o m k mt page rest hx r ht
        refine ⟨⟨fun hn => ?_, fun hall => ?_⟩, fun q hq => ?_⟩
        · rw [hp] at hn; exact Option.noConfusion hn
        · have := hall k h1 h2 mt
            (by simp only [MIGRATE_ISOLATE, MIGRATE_PCPTYPES] at hmt3 ⊢; omega)
          rw [hx] at this
          exact List.noConfusion this
        · rw [hp] at hq
          have hq' : page = q := Option.some.inj hq
          subst hq'
          refine ⟨k, mt, rest, h1, h2,
            by simp only [MIGRATE_ISOLATE, MIGRATE_PCPTYPES] at hmt3 ⊢; omega, hx,
            fun hc => ?_⟩
          simp only [MIGRATE_RESERVE, MIGRATE_PCPTYPES] at hmt3 hc
          omega
      · obtain ⟨r2, ht⟩ := rmqueue_fallback_returns o m hwf hB
        rw [e2] at ht
        have hp := fallback_take_head cfg s o m k mt page rest hx r2 ht
        obtain ⟨a, b⟩ := r2
        simp only at hp
        subst hp
        refine ⟨(some page, b), ?_⟩
        unfold __rmqueue
        rw [e1]
        simp only [hmr, if_true]
        rw [e2, ht]

theorem rmqueue_reserve_last_witness :
    MIGRATE_MOVABLE < MIGRATE_PCPTYPES ∧
    (__rmqueue default_config
      (zone_of_blocks 6 [(0, 3), (16, 4), (40, 3)] MIGRATE_RESERVE) 0
      MIGRATE_MOVABLE).map (fun r => r.1) = some (some 0) ∧
    ∃ r, __rmqueue default_config
        (zone_of_blocks 6 [(0, 3), (16, 4), (40, 3)] MIGRATE_RESERVE) 0 MIGRATE_MOVABLE
        = some r :=
  ⟨by decide, by decide,
    (rmqueue_reserve_last default_config
      (zone_of_blocks 6 [(0, 3), (16, 4), (40, 3)] MIGRATE_RESERVE) 0 MIGRATE_MOVABLE
      (by decide)).2 0
      (zone_of_blocks_wf default_config 6 MIGRATE_RESERVE _ rfl (by decide) (by decide))
      (fun k c p hp => by
        have := (zone_of_blocks_mem.1 hp).2
        simp only [List.mem_cons, Prod.mk.injEq, List.mem_nil_iff, or_false] at this
        rcases this with h | h | h <;> rw [h.1] <;> decide)⟩

/-- A listed frame is on one list only. -/
theorem WF.one_place {cfg : Config} {zid : Nat} {s : State} (hwf : WF cfg zid s)
    {p k m j m' : Nat} (h1 : p ∈ s.free_list k m) (h2 : p ∈ s.free_list j m') :
    j = k ∧ m' = m := by
  have a := (hwf.listed k m p h1).2.2.2
  have b := (hwf.listed j m' p h2).2.2.2
  have hj : j = k := by rw [← a, ← b]
  subst hj
  exact ⟨rfl, hwf.one_list j m' m p h2 h1⟩

/-- Without the steal step the body of `__rmqueue_fallback` unlinks the
block and splits it under the class it was found on. -/
theorem fallback_take_plain (cfg : Config) (s : State) (o sm k mt page : Nat)
    (rest : List Nat) (hx : s.free_list k mt = page :: rest)
    (hst : steal_cond cfg sm k = false) :
    fallback_take cfg s o sm k mt =
      some (some page, expand cfg page o mt k k (1 <<< k)
        (rmv_page_order (list_del (nr_free_dec cfg s k) page) page)) := by
  unfold steal_cond at hst
  have hk : ¬ k ≥ cfg.pageblock_order := by
    simp only [Bool.or_eq_false_iff, decide_eq_false_iff_not] at hst
    have := hst.1.1
    rw [Nat.shiftRight_eq_div_pow] at this
    omega
  unfold fallback_take
  rw [hx]
  simp only [hst, if_neg hk]
  rfl

/-- C13 as stated fails on the fallback path: in a zone whose only free
block is `(0, 5)` on the Movable list, `__rmqueue_fallback(zone, 4,
Unmovable)` draws that block from `free_list[5][Movable]`, splits it, and
puts the fragment `(16, 4)` on the Unmovable list, not on the Movable one. -/
theorem expand_mobility_class_counterexample :
    (zone_of_blocks 6 [(0, 5)] MIGRATE_MOVABLE).free_list 5 MIGRATE_MOVABLE = [0] ∧
    (zone_of_blocks 6 [(0, 5)] MIGRATE_MOVABLE).free_list 4 MIGRATE_UNMOVABLE = [] ∧
    (__rmqueue_fallback default_config (zone_of_blocks 6 [(0, 5)] MIGRATE_MOVABLE) 4
      MIGRATE_UNMOVABLE).map (fun r => r.1) = some (some 0) ∧
    (__rmqueue_fallback default_config (zone_of_blocks 6 [(0, 5)] MIGRATE_MOVABLE) 4
      MIGRATE_UNMOVABLE).map (fun r => r.2.free_list 4 MIGRATE_MOVABLE) = some [] ∧
    (__rmqueue_fallback default_config (zone_of_blocks 6 [(0, 5)] MIGRATE_MOVABLE) 4
      MIGRATE_UNMOVABLE).map (fun r => r.2.free_list 4 MIGRATE_UNMOVABLE) = some [16] := by
  decide

/-- C13, amended: in a well-formed zone, when `__rmqueue_smallest` draws a
block from `free_list[k][m]` and splits it, every fragment goes onto the head
of a list `free_list[j][m]` of the same class and the lists of every other
class are unchanged. When `__rmqueue_fallback`, for a requester of class
`sm`, draws a block from `free_list[k][mt]` of a fallback class: if the steal
test fails (`k < pageblock_order / 2`, the requester is not Reclaimable and
grouping is enabled) the fragments go onto the lists of `mt` and the lists
of every other class are unchanged; if the steal test holds the fragments go
onto the lists of the requester `sm`, and no list of a class other than `sm`
gains a block. -/
theorem expand_mobility_class {cfg : Config} {zid : Nat} {s : State} (o : Nat)
    (hwf : WF cfg zid s) :
    (∀ m k p rest, o ≤ k → k < cfg.MAX_ORDER → s.free_list k m = p :: rest →
      (∀ j, o ≤ j → j < k → s.free_list j m = []) →
      (__rmqueue_smallest cfg s o m).1 = some p ∧
      (∀ j, o ≤ j → j < k → guard_level cfg j = false →
        (__rmqueue_smallest cfg s o m).2.free_list j m = (p + 2 ^ j) :: s.free_list j m) ∧
      (∀ j m', m' ≠ m →
        (__rmqueue_smallest cfg s o m).2.free_list j m' = s.free_list j m')) ∧
    (∀ sm, sm < MIGRATE_TYPES →
      (∀ k c p, p ∈ s.free_list k c → p < 2 ^ cfg.BITS_PER_LONG) →
      __rmqueue_fallback cfg s o sm = some (none, s) ∨
      ∃ k mt page rest r, o ≤ k ∧ k < cfg.MAX_ORDER ∧ s.free_list k mt = page :: rest ∧
        __rmqueue_fallback cfg s o sm = some (some page, r) ∧
        (∀ j, o ≤ j → j < k → guard_level cfg j = false →
          ∃ l, r.free_list j (if steal_cond cfg sm k = true then sm else mt) =
            (page + 2 ^ j) :: l) ∧
        (steal_cond cfg sm k = false →
          ∀ j m', m' ≠ mt → r.free_list j m' = s.free_list j m') ∧
        (steal_cond cfg sm k = true →
          ∀ j m' x, m' ≠ sm → x ∈ r.free_list j m' → x ∈ s.free_list j m')) := by
  have herase : ∀ k m p j m', p ∈ s.free_list k m → (j ≠ k ∨ m' ≠ m) →
      (s.free_list j m').erase p = s.free_list j m' := by
    intro k m p j m' hp hne
    apply List.erase_of_not_mem
    intro hin
    have := hwf.one_place hp hin
    omega
  constructor
  · intro m k p rest h1 h2 hx hlow
    have hp : p ∈ s.free_list k m := by rw [hx]; exact List.mem_cons_self _ _
    have he : __rmqueue_smallest cfg s o m =
        (some p, expand cfg p o m k k (1 <<< k)
          (nr_free_dec cfg (rmv_page_order (list_del s p) p) k)) := by
      unfold __rmqueue_smallest
      exact rmqueue_smallest_loop_some cfg s o m k p rest h2 hx _ o h1 (by omega) hlow
    rw [he]
    refine ⟨rfl, fun j a b hg => ?_, fun j m' hne => ?_⟩
    · show (expand cfg p o m k k (1 <<< k) _).free_list j m = _
      rw [expand_free_list cfg p o m k h1, if_pos ⟨a, b, rfl, hg⟩]
      show (p + 2 ^ j) :: (s.free_list j m).erase p = _
      rw [herase k m p j m hp (Or.inl (by omega))]
    · show (expand cfg p o m k k (1 <<< k) _).free_list j m' = _
      rw [expand_free_list cfg p o m k h1, if_neg (fun h => hne h.2.2.1)]
      exact herase k m p j m' hp (Or.inr hne)
  · intro sm hsm hB
    rcases rmqueue_fallback_cases cfg s o sm with ⟨_, he⟩ | ⟨k, mt, page, rest, h1, h2, _, _,
      _, _, hx, he⟩
    · exact Or.inl he
    · right
      have hp : page ∈ s.free_list k mt := by rw [hx]; exact List.mem_cons_self _ _
      obtain ⟨r, hr, hmem, hfrag, _⟩ := fallback_take_spec hwf hsm h1 hx (hB k mt page hp)
      refine ⟨k, mt, page, rest, r, h1, h2, hx, by rw [he, hr], hfrag, fun hst j m' hne => ?_,
        fun hst j m' x hne hin => ?_⟩
      · have hr2 := fallback_take_plain cfg s o sm k mt page rest hx hst
        rw [hr] at hr2
        have hr3 : r = _ := (Prod.mk.inj (Option.some.inj hr2)).2
        rw [hr3, expand_free_list cfg page o mt k h1, if_neg (fun h => hne h.2.2.1)]
        exact herase k mt page j m' hp (Or.inr hne)
      · rcases (hmem x j m').1 hin with h | ⟨_, h⟩
        · rw [if_pos hst] at h
          exact absurd h.2.2.2.2 hne
        · split at h
          · rcases h with h | h
            · exact h.1
            · exact absurd h.2.2.2 hne
          · exact h

theorem expand_mobility_class_witness :
    (__rmqueue_smallest default_config
      (zone_of_blocks 11 [(0, 3), (1024, 4)] MIGRATE_MOVABLE) 2 MIGRATE_MOVABLE).1 = some 0 ∧
    (__rmqueue_smallest default_config
      (zone_of_blocks 11 [(0, 3), (1024, 4)] MIGRATE_MOVABLE) 2 MIGRATE_MOVABLE).2.free_list 2
        MIGRATE_MOVABLE = [4] ∧
    ∀ j m', m' ≠ MIGRATE_MOVABLE →
      (__rmqueue_smallest default_config
        (zone_of_blocks 11 [(0, 3), (1024, 4)] MIGRATE_MOVABLE) 2 MIGRATE_MOVABLE).2.free_list j
          m' = (zone_of_blocks 11 [(0, 3), (1024, 4)] MIGRATE_MOVABLE).free_list j m' :=
  have h := (@expand_mobility_class default_config 0
    (zone_of_blocks 11 [(0, 3), (1024, 4)] MIGRATE_MOVABLE) 2
    (zone_of_blocks_wf default_config 11 MIGRATE_MOVABLE _ rfl (by decide) (by decide))).1
    MIGRATE_MOVABLE 3 0 [] (by decide) (by decide) (by decide)
    (fun j a b => by have hj : j = 2 := by omega
                     subst hj; decide)
  ⟨h.1, h.2.1 2 (by decide) (by decide) (by decide), h.2.2⟩

set_option maxRecDepth 100000 in
/-- C15 as stated fails on the re-tag rule: with grouping enabled and
`pageblock_order = 10`, in a zone whose only free block is `(0, 9)` on the
Movable list, `__rmqueue_fallback(zone, 9, Unmovable)` moves exactly half of
the page-block, 512 pages and not more than `2^(pageblock_order-1)`, and
still re-tags the page-block from Movable to Unmovable. -/
theorem steal_rule_counterexample :
    default_config.page_group_by_mobility_disabled = false ∧
    (zone_of_blocks 11 [(0, 9)] MIGRATE_MOVABLE).pageblock_flags 0 = MIGRATE_MOVABLE ∧
    (move_freepages_block default_config
      (nr_free_dec default_config (zone_of_blocks 11 [(0, 9)] MIGRATE_MOVABLE) 9) 0
      MIGRATE_UNMOVABLE).map (fun r => r.2) = some 512 ∧
    ¬ (512 > 2 ^ (default_config.pageblock_order - 1)) ∧
    (__rmqueue_fallback default_config (zone_of_blocks 11 [(0, 9)] MIGRATE_MOVABLE) 9
      MIGRATE_UNMOVABLE).map (fun r => (r.1, r.2.pageblock_flags 0)) =
        some (some 0, MIGRATE_UNMOVABLE) := by
  decide

/-- The listed frame numbers of a fixture zone fit an `unsigned long`. -/
theorem zone_of_blocks_fits (cfg : Config) (n m : Nat) (blocks : List (Nat × Nat))
    (hok : blocks_ok cfg n blocks = true) (hn : n ≤ cfg.BITS_PER_LONG) :
    ∀ k c p, p ∈ (zone_of_blocks n blocks m).free_list k c → p < 2 ^ cfg.BITS_PER_LONG := by
  intro k c p hp
  have hmem := (zone_of_blocks_mem.1 hp).2
  unfold blocks_ok at hok
  simp only [Bool.and_eq_true, List.all_eq_true, decide_eq_true_eq] at hok
  have := (hok.1.1 (p, k) hmem).2
  have h2 : 2 ^ n ≤ 2 ^ cfg.BITS_PER_LONG := Nat.pow_le_pow_right (by decide) hn
  have := Nat.two_pow_pos k
  simp only at *
  omega

/-- A frame among the `n` scanned from `start` is counted. -/
theorem pages_headed_ge (cfg : Config) (s : State) (x : Nat) :
    ∀ n start, start ≤ x → x < start + n → moved_at cfg s x ≤ pages_headed cfg s start n := by
  intro n
  induction n with
  | zero => intro start h1 h2; omega
  | succ n ih =>
    intro start h1 h2
    rw [pages_headed]
    by_cases hx : x = start
    · rw [hx]; omega
    · have := ih (start + 1) (by omega) (by omega)
      omega

/-- The count of the steal step includes the block found, when its
page-block ends inside the zone. -/
theorem stolen_pages_ge {cfg : Config} {zid : Nat} {s : State} (hwf : WF cfg zid s)
    {k mt page : Nat} (hp : page ∈ s.free_list k mt)
    (hhi : scan_end cfg page ≤ s.zone_start_pfn + s.spanned_pages) :
    2 ^ k ≤ stolen_pages cfg s page := by
  have hle : block_start page cfg.pageblock_order ≤ page := Nat.div_mul_le_self _ _
  have hlt : page < block_start page cfg.pageblock_order + 2 ^ cfg.pageblock_order :=
    Nat.lt_div_mul_add (Nat.two_pow_pos _)
  have hss : scan_start cfg s page ≤ page := by
    unfold scan_start
    split
    · exact Nat.le_refl _
    · exact hle
  unfold stolen_pages
  rw [if_pos hhi, ← hwf.moved_at_head ⟨mt, hp⟩]
  apply pages_headed_ge
  · exact hss
  · unfold scan_end
    omega

/-- C15, amended: in a well-formed zone, when `__rmqueue_fallback` for a
requester of class `sm` succeeds at order `k` with a block whose page-block
lies inside the zone, the still-free blocks of that page-block are moved to
the requester's free lists if `k >= pageblock_order / 2`, or the requester
is Reclaimable, or grouping is disabled, and otherwise every free block
other than the one taken stays on its list; and, with grouping enabled, the
page-block is re-tagged to the requester's class exactly when the steal test
holds and at least half of the page-block's pages (`2^(pageblock_order-1)` or
more) were moved, and keeps its tag otherwise. -/
theorem steal_rule {cfg : Config} {zid : Nat} {s : State} (o sm : Nat)
    (hwf : WF cfg zid s) (hsm : sm < MIGRATE_TYPES)
    (hB : ∀ k c p, p ∈ s.free_list k c → p < 2 ^ cfg.BITS_PER_LONG) :
    __rmqueue_fallback cfg s o sm = some (none, s) ∨
    ∃ k mt page rest r, o ≤ k ∧ k < cfg.MAX_ORDER ∧ s.free_list k mt = page :: rest ∧
      __rmqueue_fallback cfg s o sm = some (some page, r) ∧
      (s.zone_start_pfn ≤ block_start page cfg.pageblock_order →
        scan_end cfg page ≤ s.zone_start_pfn + s.spanned_pages →
        (steal_cond cfg sm k = true →
          ∀ x j, x ≠ page → Free s x j → block_start page cfg.pageblock_order ≤ x →
            x < scan_end cfg page → x ∈ r.free_list j sm) ∧
        (steal_cond cfg sm k = false →
          ∀ x j m, x ≠ page → x ∈ s.free_list j m → x ∈ r.free_list j m) ∧
        (cfg.page_group_by_mobility_disabled = false →
          r.pageblock_flags (page >>> cfg.pageblock_order) =
            if steal_cond cfg sm k = true ∧
                2 ^ (cfg.pageblock_order - 1) ≤ stolen_pages cfg s page then sm
            else s.pageblock_flags (page >>> cfg.pageblock_order))) := by
  rcases rmqueue_fallback_cases cfg s o sm with ⟨_, he⟩ | ⟨k, mt, page, rest, h1, h2, _, _,
    _, _, hx, he⟩
  · exact Or.inl he
  · right
    have hp : page ∈ s.free_list k mt := by rw [hx]; exact List.mem_cons_self _ _
    obtain ⟨r, hr, hmem, _, hflags⟩ := fallback_take_spec hwf hsm h1 hx (hB k mt page hp)
    refine ⟨k, mt, page, rest, r, h1, h2, hx, by rw [he, hr], fun hlo hhi => ⟨?_, ?_, ?_⟩⟩
    · intro hst x j hne hfree ha hb
      have hss : scan_start cfg s page = block_start page cfg.pageblock_order := by
        unfold scan_start
        rw [if_neg (by omega)]
      refine (hmem x j sm).2 (Or.inr ⟨hne, ?_⟩)
      rw [if_pos ⟨hst, hhi⟩, hss]
      exact Or.inr ⟨ha, hb, hfree, rfl⟩
    · intro hst x j m hne hin
      refine (hmem x j m).2 (Or.inr ⟨hne, ?_⟩)
      rw [if_neg (fun h => by rw [hst] at h; exact Bool.noConfusion h.1)]
      exact hin
    · intro hgrp
      have heff : effective_migratetype cfg sm = sm := by
        unfold effective_migratetype
        simp [hgrp]
      rw [hflags, heff]
      by_cases hk : cfg.pageblock_order ≤ k
      · have hge := stolen_pages_ge hwf hp hhi
        have hpow : 2 ^ (cfg.pageblock_order - 1) ≤ 2 ^ k :=
          Nat.pow_le_pow_right (by decide) (by omega)
        have hst : steal_cond cfg sm k = true := by
          unfold steal_cond
          have : k ≥ cfg.pageblock_order >>> 1 := by
            rw [Nat.shiftRight_eq_div_pow]
            have := Nat.div_le_self cfg.pageblock_order (2 ^ 1)
            omega
          simp [this]
        rw [if_pos (Or.inl ⟨hk, 0, Nat.two_pow_pos _, by simp⟩),
          if_pos ⟨hst, by omega⟩]
      · by_cases hc : steal_cond cfg sm k = true ∧
            2 ^ (cfg.pageblock_order - 1) ≤ stolen_pages cfg s page
        · rw [if_pos hc, if_pos (Or.inr ⟨hc.1, Or.inl hc.2, rfl⟩)]
        · rw [if_neg hc, if_neg]
          rintro (h | h)
          · exact hk h.1
          · rcases h.2.1 with h' | h'
            · exact hc ⟨h.1, h'⟩
            · rw [hgrp] at h'; exact Bool.noConfusion h'

theorem steal_rule_witness :
    __rmqueue_fallback default_config
        (zone_of_blocks 11 [(0, 3), (1024, 9)] MIGRATE_MOVABLE) 2 MIGRATE_RECLAIMABLE =
      some (none, zone_of_blocks 11 [(0, 3), (1024, 9)] MIGRATE_MOVABLE) ∨
    ∃ page r, __rmqueue_fallback default_config
        (zone_of_blocks 11 [(0, 3), (1024, 9)] MIGRATE_MOVABLE) 2 MIGRATE_RECLAIMABLE =
      some (some page, r) :=
  (@steal_rule default_config 0 (zone_of_blocks 11 [(0, 3), (1024, 9)] MIGRATE_MOVABLE) 2
    MIGRATE_RECLAIMABLE
    (zone_of_blocks_wf default_config 11 MIGRATE_MOVABLE _ rfl (by decide) (by decide))
    (by decide)
    (zone_of_blocks_fits default_config 11 MIGRATE_MOVABLE _ (by decide) (by decide))).imp id
    (fun ⟨_, _, page, _, r, _, _, _, h, _⟩ => ⟨page, r, h⟩)

/-- C16 as stated fails for some such zones: with `pageblock_order = 4`, a
zone whose Movable lists hold the block `(0, 3)` and also the block `(16, 4)`,
and whose Unmovable and Reclaimable lists are empty, answers an order-0
Unmovable `__rmqueue` with frame 16, taken from the order-4 block, and leaves
the order-3 block `(0, 3)` on the Movable list. -/
theorem steal_scenario_counterexample :
    steal_config.pageblock_order = 4 ∧
    (zone_of_blocks 5 [(0, 3), (16, 4)] MIGRATE_MOVABLE).free_list 3 MIGRATE_MOVABLE = [0] ∧
    (∀ k, (zone_of_blocks 5 [(0, 3), (16, 4)] MIGRATE_MOVABLE).free_list k
      MIGRATE_UNMOVABLE = []) ∧
    (∀ k, (zone_of_blocks 5 [(0, 3), (16, 4)] MIGRATE_MOVABLE).free_list k
      MIGRATE_RECLAIMABLE = []) ∧
    (__rmqueue steal_config (zone_of_blocks 5 [(0, 3), (16, 4)] MIGRATE_MOVABLE) 0
      MIGRATE_UNMOVABLE).map (fun r => (r.1, r.2.free_list 3 MIGRATE_MOVABLE,
        r.2.free_list 3 MIGRATE_UNMOVABLE)) = some (some 16, [0], [24]) := by
  refine ⟨rfl, by decide, fun k => rfl, fun k => rfl, by decide⟩

/-- C16, amended: with `pageblock_order = 4`, `MAX_ORDER > 3` and no debug
guard pages, in a well-formed zone where `free_list[3][Movable]` has the block
of first page `p` at its head, the Unmovable and Reclaimable lists are empty
at every order, the Movable lists are empty above order 3 and the page-block
of `p` ends inside the zone, `__rmqueue(zone, 0, Unmovable)` returns `p`,
takes the block off the lists, re-tags its page-block Unmovable, and puts the
remaining 7 pages at the heads of the Unmovable lists as the blocks `(p+1, 0)`,
`(p+2, 1)` and `(p+4, 2)`. -/
theorem steal_scenario {cfg : Config} {zid : Nat} {s : State} {p : Nat} {rest : List Nat}
    (hpb : cfg.pageblock_order = 4) (hmax : 3 < cfg.MAX_ORDER)
    (hdbg : cfg.CONFIG_DEBUG_PAGEALLOC = false)
    (hwf : WF cfg zid s) (hB : p < 2 ^ cfg.BITS_PER_LONG)
    (hx : s.free_list 3 MIGRATE_MOVABLE = p :: rest)
    (hun : ∀ k, k < cfg.MAX_ORDER → s.free_list k MIGRATE_UNMOVABLE = [])
    (hre : ∀ k, k < cfg.MAX_ORDER → s.free_list k MIGRATE_RECLAIMABLE = [])
    (hhigh : ∀ k, 3 < k → k < cfg.MAX_ORDER → s.free_list k MIGRATE_MOVABLE = [])
    (hhi : scan_end cfg p ≤ s.zone_start_pfn + s.spanned_pages) :
    ∃ r, __rmqueue cfg s 0 MIGRATE_UNMOVABLE = some (some p, r) ∧
      r.pageblock_flags (p >>> 4) = MIGRATE_UNMOVABLE ∧
      (∀ j m, p ∉ r.free_list j m) ∧
      (∃ l, r.free_list 0 MIGRATE_UNMOVABLE = (p + 1) :: l) ∧
      (∃ l, r.free_list 1 MIGRATE_UNMOVABLE = (p + 2) :: l) ∧
      (∃ l, r.free_list 2 MIGRATE_UNMOVABLE = (p + 4) :: l) := by
  have hsmall : __rmqueue_smallest cfg s 0 MIGRATE_UNMOVABLE = (none, s) := by
    unfold __rmqueue_smallest
    exact rmqueue_smallest_loop_none cfg s 0 _ _ 0 (fun j _ h _ => hun j h)
  have hrow : ∀ k, k < cfg.MAX_ORDER →
      fallback_find s MIGRATE_UNMOVABLE k (MIGRATE_TYPES - 1) 0 =
        (fallback_row MIGRATE_UNMOVABLE).find? (fun c => !(s.free_list k c).isEmpty) :=
    fun k hk => fallback_find_row s MIGRATE_UNMOVABLE k (by decide) (fun _ => hun k hk)
  have hfind : fallback_find s MIGRATE_UNMOVABLE 3 (MIGRATE_TYPES - 1) 0 =
      some MIGRATE_MOVABLE := by
    rw [hrow 3 hmax]
    simp [fallback_row, MIGRATE_UNMOVABLE, List.find?, hx,
      show s.free_list 3 MIGRATE_RECLAIMABLE = [] from hre 3 hmax]
  have habove : ∀ k, 3 < k → k < cfg.MAX_ORDER →
      fallback_find s MIGRATE_UNMOVABLE k (MIGRATE_TYPES - 1) 0 = none := by
    intro k h1 h2
    rw [hrow k h2, find_row_none_iff]
    intro c hc
    simp only [fallback_row, MIGRATE_UNMOVABLE, List.mem_cons, List.mem_nil_iff,
      or_false] at hc
    rcases hc with h | h
    · rw [h]; exact hre k h2
    · rw [h]; exact hhigh k h1 h2
  have hfall : __rmqueue_fallback cfg s 0 MIGRATE_UNMOVABLE =
      fallback_take cfg s 0 MIGRATE_UNMOVABLE 3 MIGRATE_MOVABLE :=
    rmqueue_fallback_loop_hit cfg s 0 MIGRATE_UNMOVABLE 3 MIGRATE_MOVABLE (Nat.zero_le _)
      hfind _ hmax habove
  have hp : p ∈ s.free_list 3 MIGRATE_MOVABLE := by rw [hx]; exact List.mem_cons_self _ _
  obtain ⟨r, hr, hmem, hfrag, hflags⟩ :=
    @fallback_take_spec cfg zid s 0 MIGRATE_UNMOVABLE 3 MIGRATE_MOVABLE p rest hwf
      (by decide) (Nat.zero_le _) hx hB
  have hst : steal_cond cfg MIGRATE_UNMOVABLE 3 = true := by
    unfold steal_cond
    rw [hpb]
    simp
  have hguard : ∀ j, guard_level cfg j = false := by
    intro j
    unfold guard_level
    rw [hdbg]
    rfl
  refine ⟨r, ?_, ?_, ?_, ?_, ?_, ?_⟩
  · unfold __rmqueue
    rw [hsmall]
    simp only [show (MIGRATE_UNMOVABLE != MIGRATE_RESERVE) = true by decide, if_true]
    rw [hfall, hr]
  · have hge := stolen_pages_ge hwf hp hhi
    rw [hflags, ← hpb, if_pos (Or.inr ⟨hst, Or.inl (by rw [hpb]; exact hge), rfl⟩)]
    unfold effective_migratetype
    split <;> rfl
  · intro j m hin
    rcases (hmem p j m).1 hin with h | h
    · have := Nat.two_pow_pos j
      omega
    · exact h.1 rfl
  · have := hfrag 0 (Nat.le_refl _) (by decide) (hguard 0)
    rw [if_pos hst] at this
    exact this
  · have := hfrag 1 (Nat.zero_le _) (by decide) (hguard 1)
    rw [if_pos hst] at this
    exact this
  · have := hfrag 2 (Nat.zero_le _) (by decide) (hguard 2)
    rw [if_pos hst] at this
    exact this

theorem steal_scenario_witness :
    ∃ r, __rmqueue steal_config (zone_of_blocks 5 [(8, 3), (0, 1)] MIGRATE_MOVABLE) 0
        MIGRATE_UNMOVABLE = some (some 8, r) ∧
      r.pageblock_flags (8 >>> 4) = MIGRATE_UNMOVABLE ∧
      (∀ j m, 8 ∉ r.free_list j m) ∧
      (∃ l, r.free_list 0 MIGRATE_UNMOVABLE = (8 + 1) :: l) ∧
      (∃ l, r.free_list 1 MIGRATE_UNMOVABLE = (8 + 2) :: l) ∧
      (∃ l, r.free_list 2 MIGRATE_UNMOVABLE = (8 + 4) :: l) :=
  @steal_scenario steal_config 0 (zone_of_blocks 5 [(8, 3), (0, 1)] MIGRATE_MOVABLE) 8 []
    rfl (by decide) rfl
    (zone_of_blocks_wf steal_config 5 MIGRATE_MOVABLE _ rfl (by decide) (by decide))
    (by decide) (by decide) (fun _ _ => rfl) (fun _ _ => rfl)
    (fun k h1 h2 => by
      have hk : k < 11 := h2
      interval_cases k <;> rfl)
    (by decide)

/-! ## The watermark test -/

theorem two_pow_long (cfg : Config) (hB : 1 ≤ cfg.BITS_PER_LONG) :
    (2 : Int) ^ cfg.BITS_PER_LONG = 2 * 2 ^ (cfg.BITS_PER_LONG - 1) := by
  rw [← pow_succ']
  congr 1
  omega

theorem wrap_long_id (cfg : Config) (hB : 1 ≤ cfg.BITS_PER_LONG) (x : Int)
    (h1 : -2 ^ (cfg.BITS_PER_LONG - 1) ≤ x) (h2 : x < 2 ^ (cfg.BITS_PER_LONG - 1)) :
    wrap_long cfg x = x := by
  unfold wrap_long
  have e := two_pow_long cfg hB
  rw [Int.emod_eq_of_lt (by omega) (by omega)]
  omega

theorem wrap_int_id (x : Int) (h1 : -2 ^ 31 ≤ x) (h2 : x < 2 ^ 31) : wrap_int x = x := by
  unfold wrap_int
  omega

theorem to_ulong_nonneg (cfg : Config) (x : Int) (h1 : 0 ≤ x)
    (h2 : x < 2 ^ cfg.BITS_PER_LONG) : (to_ulong cfg x : Int) = x := by
  unfold to_ulong
  rw [Int.emod_eq_of_lt h1 h2]
  exact Int.toNat_of_nonneg h1

theorem to_ulong_neg (cfg : Config) (x : Int) (h1 : -2 ^ cfg.BITS_PER_LONG ≤ x)
    (h2 : x < 0) : (to_ulong cfg x : Int) = x + 2 ^ cfg.BITS_PER_LONG := by
  unfold to_ulong
  have : x % 2 ^ cfg.BITS_PER_LONG = x + 2 ^ cfg.BITS_PER_LONG := by
    rw [← Int.add_mul_emod_self_left x (2 ^ cfg.BITS_PER_LONG) 1, mul_one]
    exact Int.emod_eq_of_lt (by omega) (by omega)
  rw [this]
  exact Int.toNat_of_nonneg (by omega)

theorem pages_below_mono (z : State) {a b : Nat} (h : a ≤ b) :
    pages_below z a ≤ pages_below z b := by
  induction h with
  | refl => exact Nat.le_refl _
  | step _ ih => rw [pages_below]; omega

/-- The per-order loop of `__zone_watermark_ok`, when nothing overflows:
it passes exactly when, for each of its `n` rounds `i`, what is left of
`F` after taking off the pages of the orders below `o + i` exceeds the
threshold halved `i` times. -/
theorem watermark_loop_iff (cfg : Config) (z : State) (hB : 1 ≤ cfg.BITS_PER_LONG)
    (F : Int) (P : Nat) (hF1 : -2 ^ (cfg.BITS_PER_LONG - 1) + P ≤ F)
    (hF2 : F < 2 ^ (cfg.BITS_PER_LONG - 1))
    (hP : (P : Int) < 2 ^ cfg.BITS_PER_LONG) :
    ∀ (n o m : Nat), pages_below z (o + n) ≤ P →
      (watermark_loop cfg z n o (F - pages_below z o) m = true ↔
        ∀ i, 1 ≤ i → i ≤ n → F - pages_below z (o + i) > ((m / 2 ^ i : Nat) : Int)) := by
  intro n
  induction n with
  | zero =>
    intro o m _
    simp only [watermark_loop, true_iff]
    intro i h1 h2
    omega
  | succ n ih =>
    intro o m hle
    have hle1 : pages_below z (o + 1) ≤ P :=
      Nat.le_trans (pages_below_mono z (by omega)) hle
    have hterm : (z.nr_free o <<< o) % 2 ^ cfg.BITS_PER_LONG = z.nr_free o * 2 ^ o := by
      rw [Nat.shiftLeft_eq]
      apply Nat.mod_eq_of_lt
      have : pages_below z (o + 1) = pages_below z o + z.nr_free o * 2 ^ o := rfl
      have h3 : ((z.nr_free o * 2 ^ o : Nat) : Int) < 2 ^ cfg.BITS_PER_LONG := by
        have : ((z.nr_free o * 2 ^ o : Nat) : Int) ≤ P := by
          exact_mod_cast (by omega : z.nr_free o * 2 ^ o ≤ P)
        omega
      exact_mod_cast h3
    have hsub : F - ↑(pages_below z o) - ((z.nr_free o * 2 ^ o : Nat) : Int) =
        F - ↑(pages_below z (o + 1)) := by
      have : pages_below z (o + 1) = pages_below z o + z.nr_free o * 2 ^ o := rfl
      rw [this]
      push_cast
      ring
    have hmin : ((m : Int) >>> (1 : Nat)) = ((m / 2 : Nat) : Int) := by
      rw [Int.shiftRight_eq_div_pow]
      norm_num
    have hP1 : (pages_below z (o + 1) : Int) ≤ P := by exact_mod_cast hle1
    rw [watermark_loop]
    simp only [hterm, hsub, hmin]
    rw [wrap_long_id cfg hB _ (by omega) (by omega)]
    have hrec := ih (o + 1) (m / 2) (by rw [show o + 1 + n = o + (n + 1) by omega]; exact hle)
    constructor
    · intro h i h1 h2
      by_cases hc : F - ↑(pages_below z (o + 1)) ≤ ((m / 2 : Nat) : Int)
      · rw [if_pos hc] at h
        exact Bool.noConfusion h
      · rw [if_neg hc] at h
        by_cases hi : i = 1
        · subst hi
          rw [pow_one]
          omega
        · have := hrec.1 h (i - 1) (by omega) (by omega)
          rw [show o + 1 + (i - 1) = o + i by omega, Nat.div_div_eq_div_mul,
            ← pow_succ', show i - 1 + 1 = i by omega] at this
          exact this
    · intro h
      have h1 := h 1 (Nat.le_refl _) (by omega)
      rw [pow_one] at h1
      rw [if_neg (by omega)]
      apply hrec.2
      intro i a b
      have := h (i + 1) (by omega) (by omega)
      rw [Nat.div_div_eq_div_mul, ← pow_succ', show o + 1 + i = o + (i + 1) by omega]
      exact this

theorem spec_min_le (mark flags : Nat) : spec_min mark flags ≤ mark := by
  unfold spec_min
  simp only
  split <;> split <;> omega

theorem reduce_half (cfg : Config) (hB : 1 ≤ cfg.BITS_PER_LONG) (m : Nat)
    (hm : (m : Int) < 2 ^ (cfg.BITS_PER_LONG - 1)) :
    wrap_long cfg ((m : Int) - Int.tdiv m 2) = ((m - m / 2 : Nat) : Int) := by
  have hpos : (0 : Int) < 2 ^ (cfg.BITS_PER_LONG - 1) := by positivity
  rw [Int.tdiv_eq_ediv (by omega) (by decide), wrap_long_id cfg hB _ (by omega) (by omega)]
  omega

theorem reduce_quarter (cfg : Config) (hB : 1 ≤ cfg.BITS_PER_LONG) (m : Nat)
    (hm : (m : Int) < 2 ^ (cfg.BITS_PER_LONG - 1)) :
    wrap_long cfg ((m : Int) - Int.tdiv m 4) = ((m - m / 4 : Nat) : Int) := by
  have hpos : (0 : Int) < 2 ^ (cfg.BITS_PER_LONG - 1) := by positivity
  rw [Int.tdiv_eq_ediv (by omega) (by decide), wrap_long_id cfg hB _ (by omega) (by omega)]
  omega

/-- The threshold of `__zone_watermark_ok` for a mark that fits a `long` is
the one the specification describes. -/
theorem watermark_min_eq (cfg : Config) (hB : 1 ≤ cfg.BITS_PER_LONG) (mark flags : Nat)
    (hmark : (mark : Int) < 2 ^ (cfg.BITS_PER_LONG - 1)) :
    watermark_min cfg mark flags = (spec_min mark flags : Nat) := by
  have hpos : (0 : Int) < 2 ^ (cfg.BITS_PER_LONG - 1) := by positivity
  have hhalf : ((mark - mark / 2 : Nat) : Int) < 2 ^ (cfg.BITS_PER_LONG - 1) := by omega
  unfold watermark_min spec_min
  simp only [bne_iff_ne]
  rw [wrap_long_id cfg hB _ (by omega) hmark]
  by_cases h1 : flags &&& ALLOC_HIGH ≠ 0
  · simp only [if_pos h1]
    rw [reduce_half cfg hB mark hmark]
    by_cases h2 : flags &&& ALLOC_HARDER ≠ 0
    · simp only [if_pos h2]
      rw [reduce_quarter cfg hB _ hhalf]
    · simp only [if_neg h2]
  · simp only [if_neg h1]
    by_cases h2 : flags &&& ALLOC_HARDER ≠ 0
    · simp only [if_pos h2]
      rw [reduce_quarter cfg hB mark hmark]
    · simp only [if_neg h2]

theorem spec_min_zero (mark : Nat) : spec_min mark 0 = mark := by
  unfold spec_min
  simp [ALLOC_HIGH, ALLOC_HARDER]

/-- What `__zone_watermark_ok` decides when nothing overflows, for the
threshold `t` in force: with `F = free_pages - (2^order - 1)`, it passes
exactly when `F > t + lowmem_reserve[idx]` and, for each `o` from 1 to
`order`, `F` less the pages of the free blocks of order below `o` exceeds
`t / 2^o`. -/
theorem watermark_ok_iff (cfg : Config) (z : State) (order mark idx flags : Nat)
    (fp : Int) (t : Nat) (ht : watermark_min cfg mark flags = (t : Nat))
    (hB : 32 ≤ cfg.BITS_PER_LONG) (hord : order < 31)
    (hfp1 : 0 ≤ fp) (hfp2 : fp < 2 ^ (cfg.BITS_PER_LONG - 1))
    (hres : t + z.lowmem_reserve idx < 2 ^ (cfg.BITS_PER_LONG - 1))
    (hsum : pages_below z order + 2 ^ order ≤ 2 ^ (cfg.BITS_PER_LONG - 1)) :
    __zone_watermark_ok cfg z order mark idx flags fp = true ↔
      fp - (2 ^ order - 1) > ((t + z.lowmem_reserve idx : Nat) : Int) ∧
      ∀ o, 1 ≤ o → o ≤ order →
        fp - (2 ^ order - 1) - (pages_below z o : Nat) > ((t / 2 ^ o : Nat) : Int) := by
  have hB1 : 1 ≤ cfg.BITS_PER_LONG := by omega
  have e := two_pow_long cfg hB1
  have hH : (2 : Int) ^ 31 ≤ 2 ^ (cfg.BITS_PER_LONG - 1) :=
    pow_le_pow_right₀ (by decide) (by omega)
  have hX1 : (1 : Int) ≤ 2 ^ order := one_le_pow₀ (by decide)
  have hX2 : (2 : Int) ^ order ≤ 2 ^ 30 := pow_le_pow_right₀ (by decide) (by omega)
  have hres' : ((t + z.lowmem_reserve idx : Nat) : Int) < 2 ^ (cfg.BITS_PER_LONG - 1) := by
    exact_mod_cast hres
  have hsum' : ((pages_below z order : Nat) : Int) + 2 ^ order ≤
      2 ^ (cfg.BITS_PER_LONG - 1) := by
    exact_mod_cast hsum
  have hpb : (0 : Int) ≤ ((pages_below z order : Nat) : Int) := Int.ofNat_nonneg _
  have h30 : (2 : Int) ^ 30 = 1073741824 := by norm_num
  have h31 : (2 : Int) ^ 31 = 2147483648 := by norm_num
  unfold __zone_watermark_ok
  simp only [ht]
  rw [wrap_int_id (2 ^ order) (by omega) (by omega),
    wrap_int_id (2 ^ order - 1) (by omega) (by omega),
    wrap_long_id cfg hB1 (fp - (2 ^ order - 1)) (by omega) (by omega)]
  have hloop := watermark_loop_iff cfg z hB1 (fp - (2 ^ order - 1)) (pages_below z order)
    (by omega) (by omega) (by omega) order 0 t (by rw [Nat.zero_add])
  simp only [pages_below, Nat.cast_zero, sub_zero, Nat.zero_add] at hloop
  have htu : (to_ulong cfg (t : Int) : Int) = t :=
    to_ulong_nonneg cfg t (by omega) (by push_cast at hres'; omega)
  have hmod : (to_ulong cfg (t : Int) + z.lowmem_reserve idx) % 2 ^ cfg.BITS_PER_LONG =
      t + z.lowmem_reserve idx := by
    have : to_ulong cfg (t : Int) = t := by exact_mod_cast htu
    rw [this]
    apply Nat.mod_eq_of_lt
    have : ((t + z.lowmem_reserve idx : Nat) : Int) < 2 ^ cfg.BITS_PER_LONG := by omega
    exact_mod_cast this
  rw [hmod]
  by_cases hneg : fp - (2 ^ order - 1) < 0
  · have hu := to_ulong_neg cfg (fp - (2 ^ order - 1)) (by omega) hneg
    have hnle : ¬ to_ulong cfg (fp - (2 ^ order - 1)) ≤ t + z.lowmem_reserve idx := by
      intro hle
      have : (to_ulong cfg (fp - (2 ^ order - 1)) : Int) ≤
          ((t + z.lowmem_reserve idx : Nat) : Int) := by exact_mod_cast hle
      omega
    rw [if_neg hnle]
    constructor
    · intro h
      have hord1 : 1 ≤ order := by
        rcases Nat.eq_zero_or_pos order with h0 | h0
        · rw [h0] at hneg
          simp at hneg
          omega
        · exact h0
      have := hloop.1 h 1 (Nat.le_refl _) hord1
      have hnn : (0 : Int) ≤ ((t / 2 ^ 1 : Nat) : Int) := Int.ofNat_nonneg _
      have hpn : (0 : Int) ≤ ((pages_below z 1 : Nat) : Int) := Int.ofNat_nonneg _
      omega
    · intro h
      have hnn : (0 : Int) ≤ ((t + z.lowmem_reserve idx : Nat) : Int) := Int.ofNat_nonneg _
      omega
  · have hu := to_ulong_nonneg cfg (fp - (2 ^ order - 1)) (by omega) (by omega)
    by_cases hle : to_ulong cfg (fp - (2 ^ order - 1)) ≤ t + z.lowmem_reserve idx
    · rw [if_pos hle]
      have : (to_ulong cfg (fp - (2 ^ order - 1)) : Int) ≤
          ((t + z.lowmem_reserve idx : Nat) : Int) := by exact_mod_cast hle
      constructor
      · intro h; exact Bool.noConfusion h
      · intro h; omega
    · rw [if_neg hle, hloop]
      have : ¬ (to_ulong cfg (fp - (2 ^ order - 1)) : Int) ≤
          ((t + z.lowmem_reserve idx : Nat) : Int) := by
        intro h; exact hle (by exact_mod_cast h)
      constructor
      · intro h; exact ⟨by omega, h⟩
      · intro h; exact h.2

/-- The counter read by `zone_watermark_ok`, when it is in the range of
`long`. -/
theorem zone_page_state_eq (cfg : Config) (z : State) (hB : 1 ≤ cfg.BITS_PER_LONG)
    (h1 : 0 ≤ z.NR_FREE_PAGES) (h2 : z.NR_FREE_PAGES < 2 ^ (cfg.BITS_PER_LONG - 1)) :
    wrap_long cfg (zone_page_state cfg z) = z.NR_FREE_PAGES := by
  have e := two_pow_long cfg hB
  unfold zone_page_state
  rw [to_ulong_nonneg cfg _ h1 (by omega)]
  exact wrap_long_id cfg hB _ (by omega) h2

/-! ## Claims about the watermark test -/

/-- C18 as stated fails: in a zone with two free pages, both in blocks of
order 0, a counter of 2, `mark = 0` and no reserve, the stated condition
holds at order 1 (`F = 2 - 1 = 1 > 0`, and for the one lower order `o = 0`
nothing is taken off `F`, which exceeds `mark / 2^0 = 0`), yet
`zone_watermark_ok(z, 1, 0, 0, 0)` returns false. -/
theorem watermark_rule_counterexample :
    (zone_of_blocks 2 [(0, 0), (2, 0)] MIGRATE_MOVABLE).NR_FREE_PAGES = 2 ∧
    (zone_of_blocks 2 [(0, 0), (2, 0)] MIGRATE_MOVABLE).nr_free 0 = 2 ∧
    (zone_of_blocks 2 [(0, 0), (2, 0)] MIGRATE_MOVABLE).lowmem_reserve 0 = 0 ∧
    ((2 : Int) - (2 ^ 1 - 1) > ((0 + 0 : Nat) : Int) ∧
      ∀ o, o < 1 →
        (2 : Int) - (2 ^ 1 - 1) -
            (pages_below (zone_of_blocks 2 [(0, 0), (2, 0)] MIGRATE_MOVABLE) o : Nat) >
          ((0 / 2 ^ o : Nat) : Int)) ∧
    zone_watermark_ok default_config (zone_of_blocks 2 [(0, 0), (2, 0)] MIGRATE_MOVABLE)
      1 0 0 0 = false := by
  refine ⟨by decide, by decide, rfl, ⟨by decide, fun o ho => ?_⟩, by decide⟩
  have : o = 0 := by omega
  subst this
  decide

/-- C18, amended: when nothing overflows (an order below 31, a counter and
`mark + lowmem_reserve[idx]` in the range of `long`, free-block counts whose
page total is in range), `zone_watermark_ok(z, order, mark, idx, 0)` returns
true if and only if, with `F = free_pages - (2^order - 1)`,
`F > mark + lowmem_reserve[idx]` and, for each `o` with `1 <= o <= order`,
`F` minus the pages held in free blocks of order below `o` is strictly above
`mark / 2^o`. -/
theorem watermark_rule (cfg : Config) (z : State) (order mark idx : Nat)
    (hB : 32 ≤ cfg.BITS_PER_LONG) (hord : order < 31)
    (hfp1 : 0 ≤ z.NR_FREE_PAGES) (hfp2 : z.NR_FREE_PAGES < 2 ^ (cfg.BITS_PER_LONG - 1))
    (hres : mark + z.lowmem_reserve idx < 2 ^ (cfg.BITS_PER_LONG - 1))
    (hsum : pages_below z order + 2 ^ order ≤ 2 ^ (cfg.BITS_PER_LONG - 1)) :
    zone_watermark_ok cfg z order mark idx 0 = true ↔
      z.NR_FREE_PAGES - (2 ^ order - 1) > ((mark + z.lowmem_reserve idx : Nat) : Int) ∧
      ∀ o, 1 ≤ o → o ≤ order →
        z.NR_FREE_PAGES - (2 ^ order - 1) - (pages_below z o : Nat) >
          ((mark / 2 ^ o : Nat) : Int) := by
  have hB1 : 1 ≤ cfg.BITS_PER_LONG := by omega
  have hmark : (mark : Int) < 2 ^ (cfg.BITS_PER_LONG - 1) := by
    have : ((mark + z.lowmem_reserve idx : Nat) : Int) < 2 ^ (cfg.BITS_PER_LONG - 1) := by
      exact_mod_cast hres
    push_cast at this
    omega
  have ht : watermark_min cfg mark 0 = (mark : Nat) := by
    rw [watermark_min_eq cfg hB1 mark 0 hmark, spec_min_zero]
  unfold zone_watermark_ok
  rw [zone_page_state_eq cfg z hB1 hfp1 hfp2]
  exact watermark_ok_iff cfg z order mark idx 0 _ mark ht hB hord hfp1 hfp2 hres hsum

theorem watermark_rule_witness :
    zone_watermark_ok default_config
        (zone_of_blocks 4 [(0, 0), (2, 1), (8, 3)] MIGRATE_MOVABLE) 2 1 0 0 = true ↔
      (zone_of_blocks 4 [(0, 0), (2, 1), (8, 3)] MIGRATE_MOVABLE).NR_FREE_PAGES -
          (2 ^ 2 - 1) >
        ((1 + (zone_of_blocks 4 [(0, 0), (2, 1), (8, 3)] MIGRATE_MOVABLE).lowmem_reserve 0 :
          Nat) : Int) ∧
      ∀ o, 1 ≤ o → o ≤ 2 →
        (zone_of_blocks 4 [(0, 0), (2, 1), (8, 3)] MIGRATE_MOVABLE).NR_FREE_PAGES -
            (2 ^ 2 - 1) -
            (pages_below (zone_of_blocks 4 [(0, 0), (2, 1), (8, 3)] MIGRATE_MOVABLE) o : Nat) >
          ((1 / 2 ^ o : Nat) : Int) :=
  watermark_rule default_config (zone_of_blocks 4 [(0, 0), (2, 1), (8, 3)] MIGRATE_MOVABLE)
    2 1 0 (by decide) (by decide) (by decide) (by decide) (by decide) (by decide)

/-- C19: in `__zone_watermark_ok`, for a mark in the range of `long`, the
threshold `min` is set from the flags with exact integer arithmetic: with
neither `ALLOC_HIGH` nor `ALLOC_HARDER` it is `mark`; with `ALLOC_HIGH` alone
`mark - mark/2`; with `ALLOC_HARDER` alone `mark - mark/4`; with both, the
half is taken off first and then a quarter of what is left; and the function
answers as it does without flags for that threshold as the mark. -/
theorem watermark_flags (cfg : Config) (z : State) (order mark idx flags : Nat) (fp : Int)
    (hB : 1 ≤ cfg.BITS_PER_LONG) (hmark : mark < 2 ^ (cfg.BITS_PER_LONG - 1)) :
    (flags &&& ALLOC_HIGH = 0 → flags &&& ALLOC_HARDER = 0 →
      watermark_min cfg mark flags = (mark : Nat)) ∧
    (flags &&& ALLOC_HIGH ≠ 0 → flags &&& ALLOC_HARDER = 0 →
      watermark_min cfg mark flags = ((mark - mark / 2 : Nat) : Int)) ∧
    (flags &&& ALLOC_HIGH = 0 → flags &&& ALLOC_HARDER ≠ 0 →
      watermark_min cfg mark flags = ((mark - mark / 4 : Nat) : Int)) ∧
    (flags &&& ALLOC_HIGH ≠ 0 → flags &&& ALLOC_HARDER ≠ 0 →
      watermark_min cfg mark flags =
        ((mark - mark / 2 - (mark - mark / 2) / 4 : Nat) : Int)) ∧
    watermark_min cfg mark flags = (spec_min mark flags : Nat) ∧
    __zone_watermark_ok cfg z order mark idx flags fp =
      __zone_watermark_ok cfg z order (spec_min mark flags) idx 0 fp := by
  have hmark' : (mark : Int) < 2 ^ (cfg.BITS_PER_LONG - 1) := by exact_mod_cast hmark
  have hle := spec_min_le mark flags
  have hs : ((spec_min mark flags : Nat) : Int) < 2 ^ (cfg.BITS_PER_LONG - 1) := by omega
  have heq := watermark_min_eq cfg hB mark flags hmark'
  refine ⟨fun h1 h2 => ?_, fun h1 h2 => ?_, fun h1 h2 => ?_, fun h1 h2 => ?_, heq, ?_⟩
  · rw [heq]; unfold spec_min; simp [h1, h2]
  · rw [heq]; unfold spec_min; simp [h1, h2]
  · rw [heq]; unfold spec_min; simp [h1, h2]
  · rw [heq]; unfold spec_min; simp [h1, h2]
  · unfold __zone_watermark_ok
    rw [heq, watermark_min_eq cfg hB (spec_min mark flags) 0 hs, spec_min_zero]

theorem watermark_flags_witness :
    watermark_min default_config 1001 (ALLOC_HIGH ||| ALLOC_HARDER) =
      ((1001 - 1001 / 2 - (1001 - 1001 / 2) / 4 : Nat) : Int) :=
  (watermark_flags default_config (gate_zone 0) 0 1001 0 (ALLOC_HIGH ||| ALLOC_HARDER) 0
    (by decide) (by decide)).2.2.2.1 (by decide) (by decide)

/-- C20 as stated fails for `min = 10`: in the zone with a counter of 12,
two free blocks of order 0 and none of a higher order, and no reserve,
`zone_watermark_ok(z, 1, 10, 0, 0)` returns true. -/
theorem watermark_gate_counterexample :
    (gate_zone 10).NR_FREE_PAGES = 10 + 2 ∧ (gate_zone 10).nr_free 0 = 2 ∧
    (∀ k, 0 < k → (gate_zone 10).nr_free k = 0) ∧
    zone_watermark_ok default_config (gate_zone 10) 1 10 0 0 = true := by
  refine ⟨by decide, by decide, fun k hk => ?_, by decide⟩
  show (([(0, 0), (2, 0)] : List (Nat × Nat)).filter (fun b => b.2 = k)).length = 0
  have hk0 : ¬ 0 = k := by omega
  simp [List.filter, hk0]

/-- C20, amended: for every `min`, in a zone with `free_pages = min + 2` and
`free_area[0].nr_free = 2` (the counts of the higher orders are not read),
with `min + 2 + lowmem_reserve[idx]` in the range of `long`,
`zone_watermark_ok(z, 0, min, idx, 0)` returns true exactly when
`lowmem_reserve[idx] <= 1`, and `zone_watermark_ok(z, 1, min, idx, 0)` returns
false exactly when `min <= 2` or `lowmem_reserve[idx] >= 1`. -/
theorem watermark_gate (cfg : Config) (z : State) (min idx : Nat)
    (hB : 32 ≤ cfg.BITS_PER_LONG) (hfree : z.NR_FREE_PAGES = ((min + 2 : Nat) : Int))
    (h0 : z.nr_free 0 = 2)
    (hfit : min + 2 + z.lowmem_reserve idx < 2 ^ (cfg.BITS_PER_LONG - 1)) :
    (zone_watermark_ok cfg z 0 min idx 0 = true ↔ z.lowmem_reserve idx ≤ 1) ∧
    (zone_watermark_ok cfg z 1 min idx 0 = false ↔ min ≤ 2 ∨ 1 ≤ z.lowmem_reserve idx) := by
  have hB1 : 1 ≤ cfg.BITS_PER_LONG := by omega
  have hH : (2 : Nat) ^ 31 ≤ 2 ^ (cfg.BITS_PER_LONG - 1) :=
    Nat.pow_le_pow_right (by decide) (by omega)
  have hfit' : ((min + 2 + z.lowmem_reserve idx : Nat) : Int) <
      2 ^ (cfg.BITS_PER_LONG - 1) := by exact_mod_cast hfit
  push_cast at hfit'
  have hr0 : (0 : Int) ≤ (z.lowmem_reserve idx : Int) := Int.ofNat_nonneg _
  have hm0 : (0 : Int) ≤ (min : Int) := Int.ofNat_nonneg _
  have ht : watermark_min cfg min 0 = (min : Nat) := by
    rw [watermark_min_eq cfg hB1 min 0 (by omega), spec_min_zero]
  have hfp1 : 0 ≤ z.NR_FREE_PAGES := by rw [hfree]; exact Int.ofNat_nonneg _
  have hfp2 : z.NR_FREE_PAGES < 2 ^ (cfg.BITS_PER_LONG - 1) := by
    rw [hfree]; push_cast; omega
  have hp1 : pages_below z 1 = 2 := by
    simp [pages_below, h0]
  unfold zone_watermark_ok
  rw [zone_page_state_eq cfg z hB1 hfp1 hfp2]
  constructor
  · rw [watermark_ok_iff cfg z 0 min idx 0 _ min ht hB (by decide) hfp1 hfp2 (by omega)
      (by simp only [pages_below]; omega), hfree]
    push_cast
    constructor
    · intro h; omega
    · intro h
      refine ⟨by omega, fun o h1 h2 => ?_⟩
      omega
  · rw [← Bool.not_eq_true, watermark_ok_iff cfg z 1 min idx 0 _ min ht hB (by decide) hfp1
      hfp2 (by omega) (by rw [hp1]; omega), hfree]
    push_cast
    constructor
    · intro h
      by_contra hc
      apply h
      refine ⟨by omega, fun o h1 h2 => ?_⟩
      have ho : o = 1 := by omega
      subst ho
      rw [hp1]
      push_cast
      omega
    · rintro h ⟨ha, hb⟩
      have := hb 1 (Nat.le_refl _) (Nat.le_refl _)
      rw [hp1] at this
      push_cast at this
      omega

theorem watermark_gate_witness :
    (zone_watermark_ok default_config (gate_zone 2) 0 2 0 0 = true ↔
      (gate_zone 2).lowmem_reserve 0 ≤ 1) ∧
    (zone_watermark_ok default_config (gate_zone 2) 1 2 0 0 = false ↔
      2 ≤ 2 ∨ 1 ≤ (gate_zone 2).lowmem_reserve 0) :=
  watermark_gate default_config (gate_zone 2) 2 0 (by decide) (by decide) (by decide)
    (by decide)

/-! ## Claims about the request flags -/

/-- C29 as stated fails: with `CONFIG_PM_SLEEP`, while suspend has taken the
I/O flags out of `gfp_allowed_mask`, a request of order 0 without
`__GFP_NORETRY` and without `__GFP_NOFAIL` that made no progress gets 0 from
`should_alloc_retry`, although its order is not above
`PAGE_ALLOC_COSTLY_ORDER`. -/
theorem should_alloc_retry_counterexample :
    (0 : Nat) &&& gfp_bits.__GFP_NORETRY = 0 ∧ (0 : Nat) &&& gfp_bits.__GFP_NOFAIL = 0 ∧
    0 ≤ default_config.PAGE_ALLOC_COSTLY_ORDER ∧
    pm_suspended_storage default_config gfp_bits 0 = true ∧
    should_alloc_retry default_config gfp_bits 0 0 0 0 0 = 0 := by
  decide

/-- C29, amended: the decision table of `should_alloc_retry`, for every
input of order below 31: with `__GFP_NORETRY` it returns 0 (even with
`__GFP_NOFAIL`); otherwise with `__GFP_NOFAIL` it returns 1; otherwise, if no
progress was made and storage is suspended (`pm_suspended_storage()`), it
returns 0; otherwise, if `order <= PAGE_ALLOC_COSTLY_ORDER`, it returns 1;
otherwise it returns 1 exactly when `__GFP_REPEAT` is set and
`pages_reclaimed < 2^order`, and 0 in all remaining cases. -/
theorem should_alloc_retry_table (cfg : Config) (g : GfpMasks)
    (gfp_allowed_mask gfp_mask order did_some_progress pages_reclaimed : Nat)
    (hB : 32 ≤ cfg.BITS_PER_LONG) (hord : order < 31) :
    should_alloc_retry cfg g gfp_allowed_mask gfp_mask order did_some_progress
        pages_reclaimed =
      if gfp_mask &&& g.__GFP_NORETRY ≠ 0 then 0
      else if gfp_mask &&& g.__GFP_NOFAIL ≠ 0 then 1
      else if did_some_progress = 0 ∧ pm_suspended_storage cfg g gfp_allowed_mask = true then 0
      else if order ≤ cfg.PAGE_ALLOC_COSTLY_ORDER then 1
      else if gfp_mask &&& g.__GFP_REPEAT ≠ 0 ∧ pages_reclaimed < 2 ^ order then 1
      else 0 := by
  have hX1 : (1 : Int) ≤ 2 ^ order := one_le_pow₀ (by decide)
  have hX2 : (2 : Int) ^ order ≤ 2 ^ 30 := pow_le_pow_right₀ (by decide) (by omega)
  have hH : (2 : Int) ^ 31 ≤ 2 ^ cfg.BITS_PER_LONG :=
    pow_le_pow_right₀ (by decide) (by omega)
  have h30 : (2 : Int) ^ 30 = 1073741824 := by norm_num
  have h31 : (2 : Int) ^ 31 = 2147483648 := by norm_num
  have hval : to_ulong cfg (wrap_int (2 ^ order)) = 2 ^ order := by
    rw [wrap_int_id _ (by omega) (by omega)]
    have := to_ulong_nonneg cfg (2 ^ order) (by omega) (by omega)
    exact_mod_cast this
  unfold should_alloc_retry
  rw [hval]
  simp only [bne_iff_ne, Bool.and_eq_true, beq_iff_eq, decide_eq_true_eq]

theorem should_alloc_retry_table_witness :
    should_alloc_retry default_config gfp_bits 0xd0 gfp_bits.__GFP_REPEAT 4 1 15 = 1 ∧
    should_alloc_retry default_config gfp_bits 0xd0 gfp_bits.__GFP_REPEAT 4 1 16 = 0 := by
  constructor
  · rw [should_alloc_retry_table default_config gfp_bits 0xd0 gfp_bits.__GFP_REPEAT 4 1 15
      (by decide) (by decide)]
    decide
  · rw [should_alloc_retry_table default_config gfp_bits 0xd0 gfp_bits.__GFP_REPEAT 4 1 16
      (by decide) (by decide)]
    decide

theorem and_bit_cases (x i : Nat) : x &&& 2 ^ i = 0 ∨ x &&& 2 ^ i = 2 ^ i := by
  rw [Nat.and_two_pow x i]
  cases x.testBit i <;> simp

/-- C30: `gfp_to_alloc_flags`, for every request mask and calling context:
the watermark index of the result is `ALLOC_WMARK_MIN`; `ALLOC_HIGH` is set
exactly when `__GFP_HIGH` is; `ALLOC_HARDER` is set exactly when the request
is atomic (neither `__GFP_WAIT` nor `__GFP_NO_KSWAPD`) and lacks
`__GFP_NOMEMALLOC`, or is not atomic and comes from a real-time task outside
interrupt context; `ALLOC_CPUSET` is set exactly when the request is not
atomic; `ALLOC_NO_WATERMARKS` is set exactly when `__GFP_NOMEMALLOC` is
clear, the caller is not in interrupt context and the task has `PF_MEMALLOC`
or `TIF_MEMDIE`. -/
theorem gfp_to_alloc_flags_spec (g : GfpMasks) (t : TaskContext) (gfp_mask : Nat) :
    gfp_to_alloc_flags g t gfp_mask &&& ALLOC_WMARK_MASK = ALLOC_WMARK_MIN ∧
    (gfp_to_alloc_flags g t gfp_mask &&& ALLOC_HIGH ≠ 0 ↔ gfp_mask &&& __GFP_HIGH ≠ 0) ∧
    (gfp_to_alloc_flags g t gfp_mask &&& ALLOC_HARDER ≠ 0 ↔
      ((gfp_mask &&& g.__GFP_WAIT = 0 ∧ gfp_mask &&& g.__GFP_NO_KSWAPD = 0) ∧
        gfp_mask &&& g.__GFP_NOMEMALLOC = 0) ∨
      (¬ (gfp_mask &&& g.__GFP_WAIT = 0 ∧ gfp_mask &&& g.__GFP_NO_KSWAPD = 0) ∧
        t.rt_task = true ∧ t.in_interrupt = false)) ∧
    (gfp_to_alloc_flags g t gfp_mask &&& ALLOC_CPUSET ≠ 0 ↔
      ¬ (gfp_mask &&& g.__GFP_WAIT = 0 ∧ gfp_mask &&& g.__GFP_NO_KSWAPD = 0)) ∧
    (gfp_to_alloc_flags g t gfp_mask &&& ALLOC_NO_WATERMARKS ≠ 0 ↔
      gfp_mask &&& g.__GFP_NOMEMALLOC = 0 ∧ t.in_interrupt = false ∧
        (t.pf_memalloc = true ∨ t.tif_memdie = true)) := by
  have hat : (gfp_mask &&& (g.__GFP_WAIT ||| g.__GFP_NO_KSWAPD) == 0) =
      decide (gfp_mask &&& g.__GFP_WAIT = 0 ∧ gfp_mask &&& g.__GFP_NO_KSWAPD = 0) := by
    rw [Nat.and_or_distrib_left]
    by_cases h : gfp_mask &&& g.__GFP_WAIT = 0 ∧ gfp_mask &&& g.__GFP_NO_KSWAPD = 0
    · simp [h.1, h.2]
    · rw [decide_eq_false h]
      simp only [beq_eq_false_iff_ne, ne_eq]
      intro hc
      apply h
      constructor
      · apply Nat.eq_of_testBit_eq
        intro i
        have := congrArg (fun n => n.testBit i) hc
        simp only [Nat.testBit_or, Nat.zero_testBit, Bool.or_eq_false_iff] at this
        simp [this.1]
      · apply Nat.eq_of_testBit_eq
        intro i
        have := congrArg (fun n => n.testBit i) hc
        simp only [Nat.testBit_or, Nat.zero_testBit, Bool.or_eq_false_iff] at this
        simp [this.2]
  have hhigh : gfp_mask &&& __GFP_HIGH = 0 ∨ gfp_mask &&& __GFP_HIGH = 0x20 :=
    and_bit_cases gfp_mask 5
  unfold gfp_to_alloc_flags
  simp only [hat]
  generalize gfp_mask &&& __GFP_HIGH = v at hhigh ⊢
  obtain ⟨rt, irq, pf, tif⟩ := t
  simp only
  by_cases ha : gfp_mask &&& g.__GFP_WAIT = 0 ∧ gfp_mask &&& g.__GFP_NO_KSWAPD = 0 <;>
    by_cases hn : gfp_mask &&& g.__GFP_NOMEMALLOC = 0 <;>
    rcases hhigh with hh | hh <;> subst hh <;>
    cases rt <;> cases irq <;> cases pf <;> cases tif <;>
    simp [ha, hn, ALLOC_WMARK_MIN, WMARK_MIN, ALLOC_CPUSET, ALLOC_HARDER, ALLOC_HIGH,
      ALLOC_NO_WATERMARKS, ALLOC_WMARK_MASK] <;> decide

/-! ## Sizing of the per-CPU pagesets -/

theorem testBit_of_range (n b : Nat) (h1 : 2 ^ b ≤ n) (h2 : n < 2 ^ (b + 1)) :
    n.testBit b = true := by
  rw [Nat.testBit_to_div_mod]
  have hd : n / 2 ^ b = 1 := by
    apply Nat.div_eq_of_lt_le
    · rw [Nat.one_mul]; exact h1
    · rw [show (1 + 1) * 2 ^ b = 2 ^ (b + 1) by rw [Nat.pow_succ]; omega]; exact h2
  rw [hd]
  rfl

theorem fls_bits_spec (n : Nat) (hn : 0 < n) : ∀ b, n < 2 ^ b →
    1 ≤ fls_bits n b ∧ fls_bits n b ≤ b ∧ 2 ^ (fls_bits n b - 1) ≤ n ∧
      n < 2 ^ fls_bits n b := by
  intro b
  induction b with
  | zero => intro h; simp at h; omega
  | succ b ih =>
    intro h
    rw [fls_bits]
    by_cases hb : n.testBit b = true
    · rw [if_pos hb]
      exact ⟨by omega, Nat.le_refl _, by simpa using Nat.testBit_implies_ge hb, h⟩
    · rw [if_neg hb]
      have hlt : n < 2 ^ b := by
        by_contra hc
        exact hb (testBit_of_range n b (by omega) h)
      obtain ⟨a1, a2, a3, a4⟩ := ih hlt
      exact ⟨a1, by omega, a3, a4⟩

/-- `rounddown_pow_of_two(n)` is the largest power of two not above `n`. -/
theorem rounddown_pow_of_two_spec (cfg : Config) (n : Nat) (hn : 0 < n)
    (hlt : n < 2 ^ cfg.BITS_PER_LONG) :
    ∃ e, rounddown_pow_of_two cfg n = 2 ^ e ∧ 2 ^ e ≤ n ∧ n < 2 ^ (e + 1) := by
  obtain ⟨a1, _, a3, a4⟩ := fls_bits_spec n hn cfg.BITS_PER_LONG hlt
  refine ⟨fls_bits n cfg.BITS_PER_LONG - 1, ?_, a3, ?_⟩
  · unfold rounddown_pow_of_two
    rw [Nat.one_shiftLeft]
    exact Nat.mod_eq_of_lt (by omega)
  · rw [show fls_bits n cfg.BITS_PER_LONG - 1 + 1 = fls_bits n cfg.BITS_PER_LONG by omega]
    exact a4

theorem tdiv_natCast (m d : Nat) : Int.tdiv (m : Int) (d : Int) = ((m / d : Nat) : Int) := by
  rw [Int.tdiv_eq_ediv (Int.ofNat_nonneg _) (Int.ofNat_nonneg _)]
  exact (Int.natCast_div m d).symm

theorem max_one_cast (x : Nat) :
    (if ((x : Nat) : Int) < 1 then (1 : Int) else (x : Int)) = ((max 1 x : Nat) : Int) := by
  split <;> omega

theorem wrap_int_natCast (x : Nat) (h : x < 2 ^ 31) : wrap_int (x : Int) = (x : Int) := by
  apply wrap_int_id
  · have : (0 : Int) ≤ (x : Int) := Int.ofNat_nonneg _
    omega
  · exact_mod_cast h

theorem to_ulong_natCast (cfg : Config) (x : Nat) (h : x < 2 ^ cfg.BITS_PER_LONG) :
    to_ulong cfg (x : Int) = x := by
  have := to_ulong_nonneg cfg (x : Int) (Int.ofNat_nonneg _) (by exact_mod_cast h)
  exact_mod_cast this

/-- C22: with `CONFIG_MMU`, for every zone whose `present_pages / 1024`
fits an `int` and whose product with `PAGE_SIZE` fits an `unsigned long`,
`zone_batchsize` returns `rounddown_pow_of_two(b + b/2) - 1` where
`b = max(1, min(present_pages/1024, 512KiB/PAGE_SIZE) / 4)`; the value
rounded down is the largest power of two `2^n` not above `b + b/2`, so the
batch returned is `2^n - 1`. -/
theorem zone_batchsize_spec (cfg : Config) (zone : State) (hmmu : cfg.CONFIG_MMU = true)
    (hB : 32 ≤ cfg.BITS_PER_LONG) (hps : cfg.PAGE_SHIFT < cfg.BITS_PER_LONG)
    (hint : zone.present_pages / 1024 < 2 ^ 31)
    (hmul : zone.present_pages / 1024 * 2 ^ cfg.PAGE_SHIFT < 2 ^ cfg.BITS_PER_LONG) :
    zone_batchsize cfg zone =
      ((rounddown_pow_of_two cfg
          (max 1 (min (zone.present_pages / 1024) (512 * 1024 / 2 ^ cfg.PAGE_SHIFT) / 4) +
            max 1 (min (zone.present_pages / 1024) (512 * 1024 / 2 ^ cfg.PAGE_SHIFT) / 4) / 2)
        - 1 : Nat) : Int) ∧
    ∃ n, rounddown_pow_of_two cfg
          (max 1 (min (zone.present_pages / 1024) (512 * 1024 / 2 ^ cfg.PAGE_SHIFT) / 4) +
            max 1 (min (zone.present_pages / 1024) (512 * 1024 / 2 ^ cfg.PAGE_SHIFT) / 4) / 2)
          = 2 ^ n ∧
      2 ^ n ≤ max 1 (min (zone.present_pages / 1024) (512 * 1024 / 2 ^ cfg.PAGE_SHIFT) / 4) +
        max 1 (min (zone.present_pages / 1024) (512 * 1024 / 2 ^ cfg.PAGE_SHIFT) / 4) / 2 ∧
      max 1 (min (zone.present_pages / 1024) (512 * 1024 / 2 ^ cfg.PAGE_SHIFT) / 4) +
        max 1 (min (zone.present_pages / 1024) (512 * 1024 / 2 ^ cfg.PAGE_SHIFT) / 4) / 2
          < 2 ^ (n + 1) ∧
      zone_batchsize cfg zone = ((2 ^ n - 1 : Nat) : Int) := by
  generalize ha : zone.present_pages / 1024 = a at hint hmul ⊢
  have hP : PAGE_SIZE cfg = 2 ^ cfg.PAGE_SHIFT := by
    unfold PAGE_SIZE
    rw [Nat.one_shiftLeft]
    exact Nat.mod_eq_of_lt (Nat.pow_lt_pow_right (by decide) hps)
  have hPpos : 0 < 2 ^ cfg.PAGE_SHIFT := Nat.two_pow_pos _
  generalize hc : 512 * 1024 / 2 ^ cfg.PAGE_SHIFT = c
  have hcle : c ≤ 524288 := by rw [← hc]; exact Nat.div_le_self _ _
  have hTB : (2 : Nat) ^ 32 ≤ 2 ^ cfg.BITS_PER_LONG := Nat.pow_le_pow_right (by decide) hB
  have hTBi : (2 : Int) ^ 32 ≤ 2 ^ cfg.BITS_PER_LONG := by exact_mod_cast hTB
  have h31 : (2 : Int) ^ 31 = 2147483648 := by norm_num
  have h32 : (2 : Int) ^ 32 = 4294967296 := by norm_num
  have h31n : (2 : Nat) ^ 31 = 2147483648 := by norm_num
  have h32n : (2 : Nat) ^ 32 = 4294967296 := by norm_num
  -- the value of `batch` after the first two statements
  have hcond : (a * 2 ^ cfg.PAGE_SHIFT > 512 * 1024) ↔ c < a := by
    rw [← hc, gt_iff_lt, Nat.div_lt_iff_lt_mul hPpos]
  have hau : to_ulong cfg (wrap_int (a : Int)) = a := by
    rw [wrap_int_natCast a hint]
    exact to_ulong_natCast cfg a (by omega)
  generalize hb : max 1 (min a c / 4) = b
  have hb1 : 1 ≤ b := by rw [← hb]; exact Nat.le_max_left _ _
  have hble : b ≤ 131072 := by
    rw [← hb]
    have : min a c ≤ c := Nat.min_le_right _ _
    omega
  have hsum : b + b / 2 < 2 ^ cfg.BITS_PER_LONG := by omega
  obtain ⟨n, hn1, hn2, hn3⟩ := rounddown_pow_of_two_spec cfg (b + b / 2) (by omega) hsum
  have hnpos : 0 < 2 ^ n := Nat.two_pow_pos n
  have hmin31 : min a c < 2 ^ 31 := by
    have : min a c ≤ c := Nat.min_le_right _ _
    omega
  have hbs31 : b + b / 2 < 2 ^ 31 := by omega
  have hn31 : 2 ^ n - 1 < 2 ^ 31 := by omega
  have hval : zone_batchsize cfg zone = ((2 ^ n - 1 : Nat) : Int) := by
    unfold zone_batchsize
    rw [if_pos hmmu, ha]
    simp only [hau, hP, Nat.mod_eq_of_lt hmul, hc]
    have h1 : (if a * 2 ^ cfg.PAGE_SHIFT > 512 * 1024 then wrap_int ((c : Nat) : Int)
        else wrap_int (a : Int)) = ((min a c : Nat) : Int) := by
      by_cases hgt : a * 2 ^ cfg.PAGE_SHIFT > 512 * 1024
      · rw [if_pos hgt, wrap_int_natCast c (by omega), Nat.min_eq_right (Nat.le_of_lt (hcond.1 hgt))]
      · rw [if_neg hgt, wrap_int_natCast a hint,
          Nat.min_eq_left (Nat.le_of_not_lt (fun h => hgt (hcond.2 h)))]
    rw [h1, show (4 : Int) = ((4 : Nat) : Int) from rfl, tdiv_natCast, max_one_cast, hb,
      show (2 : Int) = ((2 : Nat) : Int) from rfl, tdiv_natCast, ← Nat.cast_add,
      wrap_int_natCast _ hbs31, to_ulong_natCast cfg _ hsum, hn1]
    have h6 : (2 ^ n + 2 ^ cfg.BITS_PER_LONG - 1) % 2 ^ cfg.BITS_PER_LONG = 2 ^ n - 1 := by
      rw [show 2 ^ n + 2 ^ cfg.BITS_PER_LONG - 1 = (2 ^ n - 1) + 2 ^ cfg.BITS_PER_LONG by omega,
        Nat.add_mod_right]
      exact Nat.mod_eq_of_lt (by omega)
    rw [h6]
    exact wrap_int_natCast _ hn31
  refine ⟨?_, n, hn1, hn2, hn3, hval⟩
  rw [hval, hn1]

theorem zone_batchsize_spec_witness :
    zone_batchsize default_config
      { zone_of_blocks 4 [] MIGRATE_MOVABLE with present_pages := 1000000 } = 31 := by
  have h := (zone_batchsize_spec default_config
    { zone_of_blocks 4 [] MIGRATE_MOVABLE with present_pages := 1000000 } rfl (by decide)
    (by decide) (by decide) (by decide)).1
  rw [h]
  decide

/-- C23 as stated fails for the batch value 0, which `zone_batchsize` returns
for a zone of 4096 pages: `setup_pageset` leaves `high == 0` and a `batch`
field of 1, so `high` is not six times the pageset's own batch. -/
theorem setup_pageset_counterexample :
    zone_batchsize default_config
      { zone_of_blocks 4 [] MIGRATE_MOVABLE with present_pages := 4096 } = 0 ∧
    (setup_pageset default_config 0).high = 0 ∧
    (setup_pageset default_config 0).batch = 1 ∧
    (setup_pageset default_config 0).high ≠ 6 * (setup_pageset default_config 0).batch ∧
    (setup_zone_pageset default_config
      { zone_of_blocks 4 [] MIGRATE_MOVABLE with present_pages := 4096 } 0).high ≠
      6 * (setup_zone_pageset default_config
        { zone_of_blocks 4 [] MIGRATE_MOVABLE with present_pages := 4096 } 0).batch := by
  decide

/-- C23, amended: for every batch value `b` passed to `setup_pageset` with
`6 * b` in the range of `int`, the resulting per-CPU pageset has
`count == 0`, all lists empty, `high == 6 * b` and a batch field of
`max(1, b)`; so `high` is six times the pageset's own batch field exactly
when `b >= 1`. -/
theorem setup_pageset_spec (cfg : Config) (b : Nat) (hB : 32 ≤ cfg.BITS_PER_LONG)
    (hb : 6 * b < 2 ^ 31) :
    (setup_pageset cfg b).count = 0 ∧
    (∀ m, (setup_pageset cfg b).lists m = []) ∧
    (setup_pageset cfg b).high = ((6 * b : Nat) : Int) ∧
    (setup_pageset cfg b).batch = ((max 1 b : Nat) : Int) ∧
    ((setup_pageset cfg b).high = 6 * (setup_pageset cfg b).batch ↔ 1 ≤ b) := by
  have hTB : (2 : Nat) ^ 32 ≤ 2 ^ cfg.BITS_PER_LONG := Nat.pow_le_pow_right (by decide) hB
  have h31n : (2 : Nat) ^ 31 = 2147483648 := by norm_num
  have h32n : (2 : Nat) ^ 32 = 4294967296 := by norm_num
  have hhigh : (setup_pageset cfg b).high = ((6 * b : Nat) : Int) := by
    show wrap_int (((6 * b) % 2 ^ cfg.BITS_PER_LONG : Nat) : Int) = _
    rw [Nat.mod_eq_of_lt (by omega)]
    exact wrap_int_natCast _ hb
  have hbatch : (setup_pageset cfg b).batch = ((max 1 b : Nat) : Int) := by
    show wrap_int ((max 1 ((1 * b) % 2 ^ cfg.BITS_PER_LONG) : Nat) : Int) = _
    rw [Nat.one_mul, Nat.mod_eq_of_lt (by omega)]
    exact wrap_int_natCast _ (by omega)
  refine ⟨rfl, fun _ => rfl, hhigh, hbatch, ?_⟩
  rw [hhigh, hbatch]
  omega

theorem setup_pageset_spec_witness :
    (setup_pageset default_config 3).high = 18 ∧ (setup_pageset default_config 3).batch = 3 :=
  have h := setup_pageset_spec default_config 3 (by decide) (by decide)
  ⟨h.2.2.1, h.2.2.2.1⟩

/-! ## The watermark test and the buddy lists -/

theorem pages_below_flat (z : State) (a : Nat) : ∀ b, a ≤ b →
    (∀ j, a ≤ j → j < b → z.nr_free j = 0) → pages_below z b = pages_below z a := by
  intro b hab
  induction b, hab using Nat.le_induction with
  | base => intro _; rfl
  | succ b hb ih =>
    intro h
    rw [pages_below, h b hb (Nat.lt_succ_self b), ih (fun j h1 h2 => h j h1 (by omega))]
    omega

theorem listed_blocks_pos (z : State) (j : Nat) (h : 0 < listed_blocks z j) :
    ∃ m, m < MIGRATE_TYPES ∧ z.free_list j m ≠ [] := by
  by_contra hc
  have hall : ∀ m, m < MIGRATE_TYPES → z.free_list j m = [] := by
    intro m hm
    by_contra hne
    exact hc ⟨m, hm, hne⟩
  have : listed_blocks z j = 0 := by
    unfold listed_blocks
    apply List.sum_eq_zero
    intro x hx
    rw [List.mem_map] at hx
    obtain ⟨m, hm, rfl⟩ := hx
    rw [hall m (List.mem_range.1 hm)]
    rfl
  omega

/-- C21 as stated fails: a zone whose only free page is on the Movable list
has a consistent counter and passes `zone_watermark_ok(z, 0, 0, 0, 0)`, yet
`__rmqueue_smallest(z, 0, Unmovable)` returns `NULL`. -/
theorem watermark_invariant_counterexample :
    (zone_of_blocks 2 [(0, 0)] MIGRATE_MOVABLE).NR_FREE_PAGES =
      pages_below (zone_of_blocks 2 [(0, 0)] MIGRATE_MOVABLE) default_config.MAX_ORDER ∧
    zone_watermark_ok default_config (zone_of_blocks 2 [(0, 0)] MIGRATE_MOVABLE) 0 0 0 0
      = true ∧
    (__rmqueue_smallest default_config (zone_of_blocks 2 [(0, 0)] MIGRATE_MOVABLE) 0
      MIGRATE_UNMOVABLE).1 = none := by
  decide

/-- C21, amended: for every zone whose free-page counter equals the sum over
the orders below `MAX_ORDER` of `nr_free[j] * 2^j` and whose `nr_free[j]` is
the number of blocks on the lists of order `j`, and every order `k` (when
nothing overflows in the test), if `zone_watermark_ok(z, k, min, idx, 0)`
holds then `k < MAX_ORDER` and a free block of some order `j >= k` is on the
list of some mobility class `m`, and `__rmqueue_smallest(z, k, m)` does not
fail for that class. -/
theorem watermark_invariant (cfg : Config) (z : State) (k min idx : Nat)
    (hB : 32 ≤ cfg.BITS_PER_LONG) (hk : k < 31)
    (hcnt : z.NR_FREE_PAGES = ((pages_below z cfg.MAX_ORDER : Nat) : Int))
    (hnr : ∀ j, j < cfg.MAX_ORDER → z.nr_free j = listed_blocks z j)
    (hfit : pages_below z cfg.MAX_ORDER < 2 ^ (cfg.BITS_PER_LONG - 1))
    (hres : min + z.lowmem_reserve idx < 2 ^ (cfg.BITS_PER_LONG - 1))
    (hsum : pages_below z k + 2 ^ k ≤ 2 ^ (cfg.BITS_PER_LONG - 1))
    (hok : zone_watermark_ok cfg z k min idx 0 = true) :
    k < cfg.MAX_ORDER ∧
    ∃ j m, k ≤ j ∧ j < cfg.MAX_ORDER ∧ m < MIGRATE_TYPES ∧ z.free_list j m ≠ [] ∧
      (__rmqueue_smallest cfg z k m).1 ≠ none := by
  have hB1 : 1 ≤ cfg.BITS_PER_LONG := by omega
  have hfp1 : 0 ≤ z.NR_FREE_PAGES := by rw [hcnt]; exact Int.ofNat_nonneg _
  have hfp2 : z.NR_FREE_PAGES < 2 ^ (cfg.BITS_PER_LONG - 1) := by
    rw [hcnt]; exact_mod_cast hfit
  have hmin : (min : Int) < 2 ^ (cfg.BITS_PER_LONG - 1) := by
    have : ((min + z.lowmem_reserve idx : Nat) : Int) < 2 ^ (cfg.BITS_PER_LONG - 1) := by
      exact_mod_cast hres
    push_cast at this
    have := Int.ofNat_nonneg (z.lowmem_reserve idx)
    omega
  have ht : watermark_min cfg min 0 = (min : Nat) := by
    rw [watermark_min_eq cfg hB1 min 0 hmin, spec_min_zero]
  unfold zone_watermark_ok at hok
  rw [zone_page_state_eq cfg z hB1 hfp1 hfp2,
    watermark_ok_iff cfg z k min idx 0 _ min ht hB hk hfp1 hfp2 hres hsum, hcnt] at hok
  obtain ⟨h1, h2⟩ := hok
  -- what is held in blocks of order `k` and above is at least one block
  have hkey : pages_below z k + 2 ^ k ≤ pages_below z cfg.MAX_ORDER := by
    have hpos : (1 : Int) ≤ 2 ^ k := one_le_pow₀ (by decide)
    have hgoal : ((pages_below z k : Nat) : Int) + 2 ^ k ≤
        ((pages_below z cfg.MAX_ORDER : Nat) : Int) := by
      rcases Nat.eq_zero_or_pos k with h0 | h0
      · subst h0
        have := Int.ofNat_nonneg (min + z.lowmem_reserve idx)
        simp only [pages_below, pow_zero, Nat.cast_zero] at h1 ⊢
        omega
      · have := h2 k h0 (Nat.le_refl _)
        have := Int.ofNat_nonneg (min / 2 ^ k)
        omega
    exact_mod_cast hgoal
  have hpos := Nat.two_pow_pos k
  have hkm : k < cfg.MAX_ORDER := by
    by_contra hc
    have := pages_below_mono z (Nat.le_of_not_lt hc)
    omega
  refine ⟨hkm, ?_⟩
  have hex : ∃ j, k ≤ j ∧ j < cfg.MAX_ORDER ∧ z.nr_free j ≠ 0 := by
    by_contra hc
    have := pages_below_flat z k cfg.MAX_ORDER (Nat.le_of_lt hkm) (fun j a b => by
      by_contra hne
      exact hc ⟨j, a, b, hne⟩)
    omega
  obtain ⟨j, hj1, hj2, hj3⟩ := hex
  rw [hnr j hj2] at hj3
  obtain ⟨m, hm, hne⟩ := listed_blocks_pos z j (Nat.pos_of_ne_zero hj3)
  refine ⟨j, m, hj1, hj2, hm, hne, ?_⟩
  rcases rmqueue_smallest_cases cfg z k m with ⟨hall, _⟩ | ⟨_, p, _, _, _, _, _, he⟩
  · exact absurd (hall j hj1 hj2) hne
  · rw [he]
    exact fun h => Option.noConfusion h

theorem watermark_invariant_witness :
    1 < default_config.MAX_ORDER ∧
    ∃ j m, 1 ≤ j ∧ j < default_config.MAX_ORDER ∧ m < MIGRATE_TYPES ∧
      (zone_of_blocks 4 [(0, 0), (2, 1), (8, 3)] MIGRATE_MOVABLE).free_list j m ≠ [] ∧
      (__rmqueue_smallest default_config
        (zone_of_blocks 4 [(0, 0), (2, 1), (8, 3)] MIGRATE_MOVABLE) 1 m).1 ≠ none :=
  watermark_invariant default_config
    (zone_of_blocks 4 [(0, 0), (2, 1), (8, 3)] MIGRATE_MOVABLE) 1 1 0 (by decide) (by decide)
    (by decide) (fun j hj => by
      have hj' : j < 11 := hj
      interval_cases j <;> decide)
    (by decide) (by decide) (by decide) (by decide)

/-! ## The per-CPU free path -/

theorem free_pages_check_frame (s : State) (page : Nat) :
    ∃ mm, (free_pages_check s page).1 = { s with mem_map := mm } := by
  unfold free_pages_check
  split
  · exact ⟨_, rfl⟩
  · split
    · exact ⟨_, rfl⟩
    · exact ⟨s.mem_map, rfl⟩

theorem free_pages_check_loop_frame (page : Nat) : ∀ (n i : Nat) (s0 s : State) (bad : Nat),
    (∃ mm, s = { s0 with mem_map := mm }) →
    ∃ mm, (free_pages_check_loop page n i (s, bad)).1 = { s0 with mem_map := mm } := by
  intro n
  induction n with
  | zero => intro i s0 s bad h; exact h
  | succ n ih =>
    intro i s0 s bad h
    rw [free_pages_check_loop]
    apply ih
    obtain ⟨mm, hs⟩ := h
    obtain ⟨mm1, h1⟩ := free_pages_check_frame s (page + i)
    rw [h1, hs]
    exact ⟨mm1, rfl⟩

/-- `free_pages_prepare` writes page descriptors only. -/
theorem free_pages_prepare_frame (s : State) (page order : Nat) :
    ∃ mm, (free_pages_prepare s page order).1 = { s with mem_map := mm } := by
  have h0 : ∃ mm, (if PageAnon (s.mem_map page) = true then
      ({ s with mem_map := upd s.mem_map page { s.mem_map page with mapping := 0 } } : State)
      else s) = { s with mem_map := mm } := by
    split
    · exact ⟨_, rfl⟩
    · exact ⟨s.mem_map, rfl⟩
  unfold free_pages_prepare
  simp only []
  generalize (if PageAnon (s.mem_map page) = true then
      ({ s with mem_map := upd s.mem_map page { s.mem_map page with mapping := 0 } } : State)
      else s) = s0 at h0 ⊢
  obtain ⟨mm, h⟩ := free_pages_check_loop_frame page (1 <<< order) 0 s s0 0 h0
  split <;> exact ⟨mm, h⟩

/-- C24 as stated fails for Reserve: a page of a page-block tagged Reserve,
freed at order 0 with `free_hot_cold_page`, is pushed on the Movable list of
the pageset and counted there; it does not go to the buddy lists. -/
theorem free_hot_cold_page_route_counterexample :
    get_pageblock_migratetype default_config (zone_of_blocks 4 [] MIGRATE_RESERVE) 5 =
      MIGRATE_RESERVE ∧
    (free_hot_cold_page default_config (zone_of_blocks 4 [] MIGRATE_RESERVE) scenario_pcp
      5 0).map (fun r => (r.2.count, r.2.lists MIGRATE_MOVABLE,
        r.1.free_list 0 MIGRATE_RESERVE, r.1.nr_free 0)) = some (1, [5], [], 0) := by
  decide

/-- C24, amended: on an order-0 free of a page that passes
`free_pages_prepare`, with `mt` the mobility of its page-block:
if `mt` is Isolate the page bypasses the per-CPU lists and goes to the buddy
engine (`free_one_page`), the pageset, its count included, unchanged;
otherwise the page is pushed on the per-CPU list of class `mt` when `mt` is
a per-CPU class (Unmovable, Reclaimable, Movable) and on the Movable list
when `mt` is Reserve, at the head, or at the tail for a cold page, and the
count goes up by one; the buddy lists are not touched unless the count then
reaches `high`, in which case `batch` pages are drained. -/
theorem free_hot_cold_page_route (cfg : Config) (z : State) (pcp : per_cpu_pages)
    (page cold : Nat)
    (hprep : (free_pages_prepare
      { z with mem_map := upd z.mem_map page { z.mem_map page with PG_mlocked := false } }
      page 0).2 = true) :
    ∃ z1, z1.free_list = z.free_list ∧ z1.nr_free = z.nr_free ∧
      z1.NR_FREE_PAGES = z.NR_FREE_PAGES ∧
      (get_pageblock_migratetype cfg z page = MIGRATE_ISOLATE →
        free_hot_cold_page cfg z pcp page cold =
          some (free_one_page cfg z1 page 0 MIGRATE_ISOLATE, pcp)) ∧
      (get_pageblock_migratetype cfg z page ≠ MIGRATE_ISOLATE →
        ∃ c pcp1, c = (if get_pageblock_migratetype cfg z page < MIGRATE_PCPTYPES then
            get_pageblock_migratetype cfg z page else MIGRATE_MOVABLE) ∧
          pcp1.count = pcp.count + 1 ∧ pcp1.high = pcp.high ∧ pcp1.batch = pcp.batch ∧
          pcp1.lists c = (if cold ≠ 0 then pcp.lists c ++ [page] else page :: pcp.lists c) ∧
          (∀ m, m ≠ c → pcp1.lists m = pcp.lists m) ∧
          (pcp.count + 1 < pcp.high → free_hot_cold_page cfg z pcp page cold = some (z1, pcp1)) ∧
          (pcp.high ≤ pcp.count + 1 → free_hot_cold_page cfg z pcp page cold =
            (free_pcppages_bulk cfg z1 pcp.batch pcp1).map
              (fun r => (r.1, { r.2 with count := r.2.count - pcp.batch })))) := by
  obtain ⟨mm, hmm⟩ := free_pages_prepare_frame
    { z with mem_map := upd z.mem_map page { z.mem_map page with PG_mlocked := false } } page 0
  generalize hr : free_pages_prepare
    { z with mem_map := upd z.mem_map page { z.mem_map page with PG_mlocked := false } }
    page 0 = r at hprep hmm
  have hmt : get_pageblock_migratetype cfg r.1 page = get_pageblock_migratetype cfg z page := by
    rw [hmm]; rfl
  refine ⟨set_page_private r.1 page (get_pageblock_migratetype cfg z page), ?_, ?_, ?_, ?_, ?_⟩
  · rw [hmm]; rfl
  · rw [hmm]; rfl
  · rw [hmm]; rfl
  · intro hiso
    unfold free_hot_cold_page
    simp only [hr, hprep, hmt, hiso]
    rfl
  · intro hiso
    refine ⟨_, { pcp with
        lists := upd pcp.lists
          (if get_pageblock_migratetype cfg z page < MIGRATE_PCPTYPES then
            get_pageblock_migratetype cfg z page else MIGRATE_MOVABLE)
          (if cold != 0 then
            pcp.lists (if get_pageblock_migratetype cfg z page < MIGRATE_PCPTYPES then
              get_pageblock_migratetype cfg z page else MIGRATE_MOVABLE) ++ [page]
           else page :: pcp.lists (if get_pageblock_migratetype cfg z page < MIGRATE_PCPTYPES
              then get_pageblock_migratetype cfg z page else MIGRATE_MOVABLE))
        count := pcp.count + 1 }, rfl, rfl, rfl, rfl, ?_, ?_, ?_, ?_⟩
    · simp [upd]
    · intro m hm
      simp [upd, hm]
    · intro hlt
      unfold free_hot_cold_page
      simp only [hr, hprep, hmt]
      have h1 : (decide (get_pageblock_migratetype cfg z page ≥ MIGRATE_PCPTYPES) &&
          get_pageblock_migratetype cfg z page == MIGRATE_ISOLATE) = false := by
        simp [hiso]
      simp only [h1]
      by_cases hc : get_pageblock_migratetype cfg z page < MIGRATE_PCPTYPES
      · simp [hc, Nat.not_le.2 hc, not_le.2 hlt]
      · simp [hc, Nat.le_of_not_lt hc, not_le.2 hlt]
    · intro hge
      unfold free_hot_cold_page
      simp only [hr, hprep, hmt]
      have h1 : (decide (get_pageblock_migratetype cfg z page ≥ MIGRATE_PCPTYPES) &&
          get_pageblock_migratetype cfg z page == MIGRATE_ISOLATE) = false := by
        simp [hiso]
      simp only [h1]
      by_cases hc : get_pageblock_migratetype cfg z page < MIGRATE_PCPTYPES
      · simp [hc, Nat.not_le.2 hc, hge]
        cases free_pcppages_bulk cfg _ pcp.batch _ <;> rfl
      · simp [hc, Nat.le_of_not_lt hc, hge]
        cases free_pcppages_bulk cfg _ pcp.batch _ <;> rfl

theorem free_hot_cold_page_route_witness :
    ∃ z1, z1.free_list = (zone_of_blocks 4 [] MIGRATE_ISOLATE).free_list ∧
      free_hot_cold_page default_config (zone_of_blocks 4 [] MIGRATE_ISOLATE) scenario_pcp 5 0 =
        some (free_one_page default_config z1 5 0 MIGRATE_ISOLATE, scenario_pcp) :=
  (free_hot_cold_page_route default_config (zone_of_blocks 4 [] MIGRATE_ISOLATE) scenario_pcp
    5 0 (by decide)).imp (fun _ h => ⟨h.1, h.2.2.2.1 (by decide)⟩)

/-! ## The round-robin of `free_pcppages_bulk` -/

theorem pcp_pages_eq (pcp : per_cpu_pages) :
    pcp_pages pcp = (pcp.lists 0).length + (pcp.lists 1).length + (pcp.lists 2).length := by
  simp [pcp_pages, MIGRATE_PCPTYPES, List.range_succ]
  omega

theorem next_pcp_list_cases (m : Nat) (hm : m < MIGRATE_PCPTYPES) :
    (m = 0 ∧ next_pcp_list m = 1 ∧ next_pcp_list (next_pcp_list m) = 2) ∨
    (m = 1 ∧ next_pcp_list m = 2 ∧ next_pcp_list (next_pcp_list m) = 0) ∨
    (m = 2 ∧ next_pcp_list m = 0 ∧ next_pcp_list (next_pcp_list m) = 1) := by
  simp only [MIGRATE_PCPTYPES] at hm
  have : m = 0 ∨ m = 1 ∨ m = 2 := by omega
  rcases this with h | h | h <;> subst h <;> simp [next_pcp_list, MIGRATE_PCPTYPES]

/-- The search for the next non-empty list. -/
theorem pcp_next_list_spec (pcp : per_cpu_pages) (m : Nat) (bf : Int)
    (hm : m < MIGRATE_PCPTYPES) :
    (pcp.lists (next_pcp_list m) ≠ [] →
      pcp_next_list pcp MIGRATE_PCPTYPES m bf = some (next_pcp_list m, bf + 1)) ∧
    (pcp.lists (next_pcp_list m) = [] → pcp.lists (next_pcp_list (next_pcp_list m)) ≠ [] →
      pcp_next_list pcp MIGRATE_PCPTYPES m bf =
        some (next_pcp_list (next_pcp_list m), bf + 2)) ∧
    (pcp.lists (next_pcp_list m) = [] → pcp.lists (next_pcp_list (next_pcp_list m)) = [] →
      pcp.lists m ≠ [] → pcp_next_list pcp MIGRATE_PCPTYPES m bf = some (m, bf + 3)) ∧
    (pcp.lists (next_pcp_list m) = [] → pcp.lists (next_pcp_list (next_pcp_list m)) = [] →
      pcp.lists m = [] → pcp_next_list pcp MIGRATE_PCPTYPES m bf = none) := by
  have h3 : next_pcp_list (next_pcp_list (next_pcp_list m)) = m := by
    rcases next_pcp_list_cases m hm with ⟨a, _, c⟩ | ⟨a, _, c⟩ | ⟨a, _, c⟩ <;>
      rw [c, a] <;> simp [next_pcp_list, MIGRATE_PCPTYPES]
  have hstep : ∀ (n k : Nat) (b : Int), pcp_next_list pcp (n + 1) k b =
      if (pcp.lists (next_pcp_list k)).isEmpty then pcp_next_list pcp n (next_pcp_list k) (b + 1)
      else some (next_pcp_list k, b + 1) := fun n k b => rfl
  have he : ∀ l : List Nat, l.isEmpty = true ↔ l = [] := fun l => List.isEmpty_iff
  show _ ∧ _ ∧ _ ∧ _
  rw [show MIGRATE_PCPTYPES = 2 + 1 from rfl, hstep]
  refine ⟨fun h1 => ?_, fun h1 h2 => ?_, fun h1 h2 h3' => ?_, fun h1 h2 h3' => ?_⟩
  · rw [if_neg (fun h => h1 ((he _).1 h))]
  · rw [if_pos ((he _).2 h1), hstep, if_neg (fun h => h2 ((he _).1 h))]
    congr 2; omega
  · rw [if_pos ((he _).2 h1), hstep, if_pos ((he _).2 h2), hstep, h3,
      if_neg (fun h => h3' ((he _).1 h))]
    congr 2; omega
  · rw [if_pos ((he _).2 h1), hstep, if_pos ((he _).2 h2), hstep, h3,
      if_pos ((he _).2 h3')]
    rfl

/-- What a chain of drain steps does to the pageset: list `m` loses its last
`d` pages, nothing else changes. -/
theorem DrainSteps.lists {cfg : Config} {m d : Nat} {z z2 : State} {pcp pcp2 : per_cpu_pages}
    (h : DrainSteps cfg m d z pcp z2 pcp2) :
    (∃ l, l.length = d ∧ pcp.lists m = pcp2.lists m ++ l) ∧
    (∀ m', m' ≠ m → pcp2.lists m' = pcp.lists m') ∧
    pcp2.count = pcp.count ∧ pcp2.high = pcp.high ∧ pcp2.batch = pcp.batch := by
  induction h with
  | zero z pcp => exact ⟨⟨[], rfl, (List.append_nil _).symm⟩, fun _ _ => rfl, rfl, rfl, rfl⟩
  | succ d z pcp page z2 pcp2 hlast _ ih =>
    obtain ⟨⟨l, hl1, hl2⟩, ho, hc, hh, hb⟩ := ih
    have hsplit : (pcp.lists m).dropLast ++ [page] = pcp.lists m :=
      List.dropLast_append_getLast? page hlast
    refine ⟨⟨l ++ [page], by simp [hl1], ?_⟩, fun m' hm' => ?_, hc, hh, hb⟩
    · have : (pcp.lists m).dropLast = pcp2.lists m ++ l := by
        rw [← hl2]
        simp [upd]
      rw [← hsplit, this, List.append_assoc]
    · rw [ho m' hm']
      simp [upd, hm']

/-- The loop that frees pages off one list: it frees at least one page and
no more than `to_free`, `batch_free` or the list allow; it stops with
`to_free` at zero, or else with `batch_free` at zero or the list empty. -/
theorem pcp_drain_list_spec (cfg : Config) : ∀ (n : Nat) (v : DrainVars),
    v.pcp.lists v.migratetype ≠ [] → (v.pcp.lists v.migratetype).length ≤ n →
    1 ≤ v.to_free → 1 ≤ v.batch_free →
    ∃ d : Nat, 1 ≤ d ∧ (d : Int) ≤ v.to_free ∧ (d : Int) ≤ v.batch_free ∧
      DrainSteps cfg v.migratetype d v.z v.pcp (pcp_drain_list cfg n v).z
        (pcp_drain_list cfg n v).pcp ∧
      (pcp_drain_list cfg n v).migratetype = v.migratetype ∧
      (pcp_drain_list cfg n v).to_free = v.to_free - d ∧
      ((pcp_drain_list cfg n v).to_free ≠ 0 →
        (pcp_drain_list cfg n v).batch_free = v.batch_free - d ∧
        ((pcp_drain_list cfg n v).batch_free = 0 ∨
          (pcp_drain_list cfg n v).pcp.lists v.migratetype = [])) := by
  intro n
  induction n with
  | zero =>
    intro v hne hlen
    exact absurd (List.length_eq_zero.1 (Nat.le_zero.1 hlen)) hne
  | succ n ih =>
    intro v hne hlen hT hA
    obtain ⟨page, hlast⟩ : ∃ page, (v.pcp.lists v.migratetype).getLast? = some page := by
      cases h : (v.pcp.lists v.migratetype).getLast? with
      | none => exact absurd (List.getLast?_eq_none_iff.1 h) hne
      | some page => exact ⟨page, rfl⟩
    have hone : DrainSteps cfg v.migratetype 1 v.z v.pcp
        (__free_one_page cfg v.z page 0 (v.z.mem_map page).private_)
        { v.pcp with
          lists := (upd v.pcp.lists v.migratetype (v.pcp.lists v.migratetype).dropLast) } :=
      DrainSteps.succ 0 _ _ page _ _ hlast (DrainSteps.zero _ _)
    rw [pcp_drain_list]
    simp only [hlast]
    by_cases h1 : v.to_free - 1 = 0
    · rw [if_pos h1]
      exact ⟨1, Nat.le_refl _, by omega, by omega, hone, rfl, rfl,
        fun h => absurd h1 h⟩
    · rw [if_neg h1]
      by_cases h2 : v.batch_free - 1 = 0
      · rw [if_pos h2]
        exact ⟨1, Nat.le_refl _, by omega, by omega, hone, rfl, rfl,
          fun _ => ⟨rfl, Or.inl h2⟩⟩
      · rw [if_neg h2]
        by_cases h3 : (upd v.pcp.lists v.migratetype (v.pcp.lists v.migratetype).dropLast
            v.migratetype).isEmpty = true
        · rw [if_pos h3]
          exact ⟨1, Nat.le_refl _, by omega, by omega, hone, rfl, rfl,
            fun _ => ⟨rfl, Or.inr (List.isEmpty_iff.1 h3)⟩⟩
        · rw [if_neg h3]
          have hlist : upd v.pcp.lists v.migratetype (v.pcp.lists v.migratetype).dropLast
              v.migratetype = (v.pcp.lists v.migratetype).dropLast := by simp [upd]
          obtain ⟨d, a1, a2, a3, a4, a5, a6, a7⟩ := ih
            { v with z := __free_one_page cfg v.z page 0 (v.z.mem_map page).private_,
                     pcp := { v.pcp with
                       lists := (upd v.pcp.lists v.migratetype
                         (v.pcp.lists v.migratetype).dropLast) },
                     to_free := v.to_free - 1, batch_free := v.batch_free - 1 }
            (fun h => h3 (List.isEmpty_iff.2 h))
            (by show (upd v.pcp.lists v.migratetype _ v.migratetype).length ≤ n
                rw [hlist, List.length_dropLast]; omega)
            (by show 1 ≤ v.to_free - 1; omega) (by show 1 ≤ v.batch_free - 1; omega)
          refine ⟨d + 1, by omega, ?_, ?_, DrainSteps.succ d _ _ page _ _ hlast a4, a5, ?_, ?_⟩
          · have : (d : Int) ≤ v.to_free - 1 := a2
            push_cast; omega
          · have : (d : Int) ≤ v.batch_free - 1 := a3
            push_cast; omega
          · rw [a6]; show v.to_free - 1 - ↑d = _; push_cast; omega
          · intro h
            obtain ⟨b1, b2⟩ := a7 h
            refine ⟨?_, b2⟩
            rw [b1]; show v.batch_free - 1 - ↑d = _; push_cast; omega

theorem DrainSteps.pages {cfg : Config} {m d : Nat} {z z2 : State} {pcp pcp2 : per_cpu_pages}
    (h : DrainSteps cfg m d z pcp z2 pcp2) (hm : m < MIGRATE_PCPTYPES) :
    pcp_pages pcp = pcp_pages pcp2 + d := by
  obtain ⟨⟨l, hl1, hl2⟩, ho, _⟩ := h.lists
  have hlen : (pcp.lists m).length = (pcp2.lists m).length + d := by
    rw [hl2, List.length_append, hl1]
  rw [pcp_pages_eq, pcp_pages_eq]
  simp only [MIGRATE_PCPTYPES] at hm
  have : m = 0 ∨ m = 1 ∨ m = 2 := by omega
  rcases this with h | h | h <;> subst h
  · rw [ho 1 (by decide), ho 2 (by decide)]; omega
  · rw [ho 0 (by decide), ho 2 (by decide)]; omega
  · rw [ho 0 (by decide), ho 1 (by decide)]; omega

theorem pcp_pages_zero {pcp : per_cpu_pages} (h : ∀ m, m < MIGRATE_PCPTYPES → pcp.lists m = []) :
    pcp_pages pcp = 0 := by
  rw [pcp_pages_eq, h 0 (by decide), h 1 (by decide), h 2 (by decide)]
  rfl

theorem pcp_pages_zero_iff (pcp : per_cpu_pages) :
    pcp_pages pcp = 0 ↔ ∀ m, m < MIGRATE_PCPTYPES → pcp.lists m = [] := by
  constructor
  · intro h m hm
    rw [pcp_pages_eq] at h
    simp only [MIGRATE_PCPTYPES] at hm
    have : m = 0 ∨ m = 1 ∨ m = 2 := by omega
    rcases this with h' | h' | h' <;> subst h' <;> apply List.length_eq_zero.1 <;> omega
  · exact pcp_pages_zero

/-- One pass of the `while` loop of `free_pcppages_bulk` from a state that
satisfies the loop-head invariant: it returns, the index moves to the next
non-empty list in the rotation, `d >= 1` pages are freed off that list, and
the invariant holds again. The pass frees one page when all three lists are
non-empty, more than two only when the two other lists are empty, and all
that remains to be freed when the two lists that follow the index are
empty. -/
theorem free_pcppages_pass_spec (cfg : Config) (v : DrainVars) (hv : DrainHead v)
    (hne : v.to_free ≠ 0) :
    ∃ v1 d, free_pcppages_pass cfg v = some v1 ∧ 1 ≤ d ∧
      DrainSteps cfg v1.migratetype d v.z v.pcp v1.z v1.pcp ∧
      v1.to_free = v.to_free - d ∧ DrainHead v1 ∧
      v.pcp.lists v1.migratetype ≠ [] ∧
      (v.pcp.lists (next_pcp_list v.migratetype) ≠ [] →
        v1.migratetype = next_pcp_list v.migratetype) ∧
      (v.pcp.lists (next_pcp_list v.migratetype) = [] →
        v.pcp.lists (next_pcp_list (next_pcp_list v.migratetype)) ≠ [] →
        v1.migratetype = next_pcp_list (next_pcp_list v.migratetype)) ∧
      (v.pcp.lists (next_pcp_list v.migratetype) = [] →
        v.pcp.lists (next_pcp_list (next_pcp_list v.migratetype)) = [] →
        v1.migratetype = v.migratetype ∧ v1.to_free = 0) ∧
      ((∀ m, m < MIGRATE_PCPTYPES → v.pcp.lists m ≠ []) → d = 1) ∧
      (2 < d → ∀ m, m < MIGRATE_PCPTYPES → m ≠ v1.migratetype → v.pcp.lists m = []) := by
  obtain ⟨hmt, hT0, hTle, hbf⟩ := hv
  have hbf := hbf hne
  have hT1 : 1 ≤ v.to_free := by omega
  obtain ⟨n1, n2, n3, n4⟩ := pcp_next_list_spec v.pcp v.migratetype v.batch_free hmt
  have hnx1 : next_pcp_list v.migratetype < MIGRATE_PCPTYPES := by
    rcases next_pcp_list_cases v.migratetype hmt with ⟨_, b, _⟩ | ⟨_, b, _⟩ | ⟨_, b, _⟩ <;>
      rw [b] <;> decide
  have hnx2 : next_pcp_list (next_pcp_list v.migratetype) < MIGRATE_PCPTYPES := by
    rcases next_pcp_list_cases v.migratetype hmt with ⟨_, _, c⟩ | ⟨_, _, c⟩ | ⟨_, _, c⟩ <;>
      rw [c] <;> decide
  have hthree : ∀ m, m < MIGRATE_PCPTYPES →
      m = v.migratetype ∨ m = next_pcp_list v.migratetype ∨
        m = next_pcp_list (next_pcp_list v.migratetype) := by
    intro m hm
    simp only [MIGRATE_PCPTYPES] at hm
    rcases next_pcp_list_cases v.migratetype hmt with ⟨a, b, c⟩ | ⟨a, b, c⟩ | ⟨a, b, c⟩ <;>
      rw [c, b, a] <;> omega
  have hdist : v.migratetype ≠ next_pcp_list v.migratetype ∧
      v.migratetype ≠ next_pcp_list (next_pcp_list v.migratetype) ∧
      next_pcp_list v.migratetype ≠ next_pcp_list (next_pcp_list v.migratetype) := by
    rcases next_pcp_list_cases v.migratetype hmt with ⟨a, b, c⟩ | ⟨a, b, c⟩ | ⟨a, b, c⟩ <;>
      rw [c, b, a] <;> decide
  -- the list found, the allowance, and what the allowance says about the other lists
  have hfind : ∃ mt A, mt < MIGRATE_PCPTYPES ∧ v.pcp.lists mt ≠ [] ∧ 1 ≤ A ∧
      free_pcppages_pass cfg v = some (pcp_drain_list cfg (v.pcp.lists mt).length
        { v with migratetype := mt, batch_free := A }) ∧
      (A ≤ 2 ∨ (A = v.to_free ∧ ∀ m, m < MIGRATE_PCPTYPES → m ≠ mt → v.pcp.lists m = [])) ∧
      ((∀ m, m < MIGRATE_PCPTYPES → v.pcp.lists m ≠ []) → A = 1) ∧
      (v.pcp.lists (next_pcp_list v.migratetype) ≠ [] → mt = next_pcp_list v.migratetype) ∧
      (v.pcp.lists (next_pcp_list v.migratetype) = [] →
        v.pcp.lists (next_pcp_list (next_pcp_list v.migratetype)) ≠ [] →
        mt = next_pcp_list (next_pcp_list v.migratetype)) ∧
      (v.pcp.lists (next_pcp_list v.migratetype) = [] →
        v.pcp.lists (next_pcp_list (next_pcp_list v.migratetype)) = [] →
        mt = v.migratetype ∧ A = v.to_free) := by
    by_cases e1 : v.pcp.lists (next_pcp_list v.migratetype) = []
    · by_cases e2 : v.pcp.lists (next_pcp_list (next_pcp_list v.migratetype)) = []
      · -- two empty lists passed: the index is back on its list
        have e3 : v.pcp.lists v.migratetype ≠ [] := by
          intro e3
          have : pcp_pages v.pcp = 0 := pcp_pages_zero (fun m hm => by
            rcases hthree m hm with h | h | h <;> rw [h] <;> assumption)
          rw [this] at hTle
          omega
        have hb0 : v.batch_free = 0 := by
          rcases hbf with h | ⟨_, h⟩
          · exact h
          · exact absurd h e3
        refine ⟨v.migratetype, v.to_free, hmt, e3, hT1, ?_, Or.inr ⟨rfl, fun m hm hne' => ?_⟩,
          fun hall => absurd e1 (hall _ hnx1), fun h => absurd e1 h,
          fun _ h => absurd e2 h, fun _ _ => ⟨rfl, rfl⟩⟩
        · unfold free_pcppages_pass
          rw [n3 e1 e2 e3, hb0]
          rfl
        · rcases hthree m hm with h | h | h
          · exact absurd h hne'
          · rw [h]; exact e1
          · rw [h]; exact e2
      · rcases hbf with hb0 | ⟨hb1, hb2⟩
        · refine ⟨_, 2, hnx2, e2, by decide, ?_, Or.inl (by decide),
            fun hall => absurd e1 (hall _ hnx1), fun h => absurd e1 h, fun _ _ => rfl,
            fun _ h => absurd h e2⟩
          unfold free_pcppages_pass
          rw [n2 e1 e2, hb0]
          rfl
        · refine ⟨_, v.to_free, hnx2, e2, hT1, ?_, Or.inr ⟨rfl, fun m hm hne' => ?_⟩,
            fun hall => absurd e1 (hall _ hnx1), fun h => absurd e1 h, fun _ _ => rfl,
            fun _ h => absurd h e2⟩
          · unfold free_pcppages_pass
            rw [n2 e1 e2, hb1]
            rfl
          · rcases hthree m hm with h | h | h
            · rw [h]; exact hb2
            · rw [h]; exact e1
            · exact absurd h hne'
    · rcases hbf with hb0 | ⟨hb1, hb2⟩
      · refine ⟨_, 1, hnx1, e1, by decide, ?_, Or.inl (by decide), fun _ => rfl,
          fun _ => rfl, fun h => absurd h e1, fun h => absurd h e1⟩
        unfold free_pcppages_pass
        rw [n1 e1, hb0]
        rfl
      · refine ⟨_, 2, hnx1, e1, by decide, ?_, Or.inl (by decide),
          fun hall => absurd hb2 (hall _ hmt), fun _ => rfl, fun h => absurd h e1,
          fun h => absurd h e1⟩
        unfold free_pcppages_pass
        rw [n1 e1, hb1]
        rfl
  obtain ⟨mt, A, hmt1, hlne, hA1, hpass, hA, hAall, r1, r2, r3⟩ := hfind
  obtain ⟨d, d1, d2, d3, d4, d5, d6, d7⟩ := pcp_drain_list_spec cfg (v.pcp.lists mt).length
    { v with migratetype := mt, batch_free := A } hlne (Nat.le_refl _) hT1 hA1
  generalize pcp_drain_list cfg (v.pcp.lists mt).length
    { v with migratetype := mt, batch_free := A } = v1 at hpass d4 d5 d6 d7
  have d4' : DrainSteps cfg mt d v.z v.pcp v1.z v1.pcp := d4
  have d5' : v1.migratetype = mt := d5
  have d6' : v1.to_free = v.to_free - d := d6
  have d7' : v1.to_free ≠ 0 → v1.batch_free = A - d ∧ (v1.batch_free = 0 ∨ v1.pcp.lists mt = []) :=
    d7
  have d2' : (d : Int) ≤ v.to_free := d2
  have d3' : (d : Int) ≤ A := d3
  have hpages := d4'.pages hmt1
  obtain ⟨_, hother, _⟩ := d4'.lists
  have hpagesZ : (pcp_pages v.pcp : Int) = (pcp_pages v1.pcp : Int) + (d : Int) := by
    exact_mod_cast hpages
  have hto0 : 0 ≤ v1.to_free := by rw [d6']; omega
  have htole : v1.to_free ≤ (pcp_pages v1.pcp : Int) := by rw [d6']; omega
  have hhead : DrainHead v1 := by
    refine ⟨by rw [d5']; exact hmt1, hto0, htole, fun hne1 => ?_⟩
    obtain ⟨b1, b2⟩ := d7' hne1
    rw [d5']
    by_cases hb0 : v1.batch_free = 0
    · exact Or.inl hb0
    · have b2' : v1.pcp.lists mt = [] := b2.resolve_left hb0
      right
      refine ⟨?_, b2'⟩
      rcases hA with hA | ⟨hA, hemp⟩
      · omega
      · exfalso
        have hz : pcp_pages v1.pcp = 0 := pcp_pages_zero (fun m hm => by
          by_cases hmm : m = mt
          · rw [hmm]; exact b2'
          · rw [hother m hmm]; exact hemp m hm hmm)
        rw [hz] at htole
        push_cast at htole
        omega
  refine ⟨v1, d, hpass, d1, by rw [d5']; exact d4', d6', hhead, by rw [d5']; exact hlne,
    fun h => by rw [d5']; exact r1 h, fun h1 h2 => by rw [d5']; exact r2 h1 h2,
    fun h1 h2 => ?_, fun hall => ?_, fun hd m hm hne' => ?_⟩
  · obtain ⟨e1, e2⟩ := r3 h1 h2
    refine ⟨by rw [d5']; exact e1, ?_⟩
    by_contra hne1
    obtain ⟨b1, b2⟩ := d7' hne1
    rcases b2 with b2 | b2
    · rw [b1, e2] at b2
      omega
    · have hz : pcp_pages v1.pcp = 0 := pcp_pages_zero (fun m hm => by
        by_cases hmm : m = mt
        · rw [hmm]; exact b2
        · rw [hother m hmm]
          rcases hthree m hm with h | h | h
          · exact absurd (h.trans e1.symm) hmm
          · rw [h]; exact h1
          · rw [h]; exact h2)
      rw [hz] at htole
      push_cast at htole
      omega
  · have := hAall hall
    omega
  · rcases hA with hA | ⟨_, hemp⟩
    · omega
    · exact hemp m hm (by rw [d5'] at hne'; exact hne')

theorem Drained.append {cfg : Config} {a b : Nat} {z z1 z2 : State}
    {pcp pcp1 pcp2 : per_cpu_pages} (h1 : Drained cfg a z pcp z1 pcp1)
    (h2 : Drained cfg b z1 pcp1 z2 pcp2) : Drained cfg (a + b) z pcp z2 pcp2 := by
  induction h1 with
  | zero z pcp => rw [Nat.zero_add]; exact h2
  | succ d m z pcp page z1 pcp1 hm hlast _ ih =>
    rw [show d + 1 + b = (d + b) + 1 by omega]
    exact Drained.succ (d + b) m z pcp page z2 pcp2 hm hlast (ih h2)

theorem DrainSteps.drained {cfg : Config} {m d : Nat} {z z2 : State}
    {pcp pcp2 : per_cpu_pages} (h : DrainSteps cfg m d z pcp z2 pcp2)
    (hm : m < MIGRATE_PCPTYPES) : Drained cfg d z pcp z2 pcp2 := by
  induction h with
  | zero z pcp => exact Drained.zero z pcp
  | succ d z pcp page z2 pcp2 hlast _ ih =>
    exact Drained.succ d m z pcp page z2 pcp2 hm hlast ih

/-- What draining does to the pageset: `d` pages leave the lists, the
fields `count`, `high` and `batch` are not written. -/
theorem Drained.pcp_fields {cfg : Config} {d : Nat} {z z2 : State} {pcp pcp2 : per_cpu_pages}
    (h : Drained cfg d z pcp z2 pcp2) :
    pcp_pages pcp = pcp_pages pcp2 + d ∧
    pcp2.count = pcp.count ∧ pcp2.high = pcp.high ∧ pcp2.batch = pcp.batch := by
  induction h with
  | zero z pcp => exact ⟨rfl, rfl, rfl, rfl⟩
  | succ d m z pcp page z2 pcp2 hm hlast _ ih =>
    have h1 : DrainSteps cfg m 1 z pcp
        (__free_one_page cfg z page 0 (z.mem_map page).private_)
        { pcp with lists := (upd pcp.lists m (pcp.lists m).dropLast) } :=
      DrainSteps.succ 0 _ _ page _ _ hlast (DrainSteps.zero _ _)
    have := h1.pages hm
    obtain ⟨a, b, c, e⟩ := ih
    exact ⟨by omega, b, c, e⟩

theorem DrainReach.drain_head {cfg : Config} {v0 v : DrainVars} (h : DrainReach cfg v0 v)
    (h0 : DrainHead v0) : DrainHead v := by
  induction h with
  | init => exact h0
  | pass v v1 _ hne hp ih =>
    obtain ⟨v1', _, hp', _, _, _, hh, _⟩ := free_pcppages_pass_spec cfg v ih hne
    rw [hp] at hp'
    rw [Option.some.inj hp']
    exact hh

/-- The `while` loop of `free_pcppages_bulk` ends when no more pages are
asked for than the lists hold: one pass more than there are pages is
enough. -/
theorem free_pcppages_loop_returns (cfg : Config) : ∀ (n : Nat) (v : DrainVars),
    DrainHead v → pcp_pages v.pcp + 1 ≤ n →
    ∃ (v1 : DrainVars) (d : Nat), free_pcppages_loop cfg n v = some v1 ∧ v1.to_free = 0 ∧
      (d : Int) = v.to_free ∧ Drained cfg d v.z v.pcp v1.z v1.pcp := by
  intro n
  induction n with
  | zero => intro v _ h; omega
  | succ n ih =>
    intro v hv hn
    rw [free_pcppages_loop]
    by_cases h0 : v.to_free = 0
    · rw [if_pos h0]
      exact ⟨v, 0, rfl, h0, by rw [h0]; rfl, Drained.zero _ _⟩
    · rw [if_neg h0]
      obtain ⟨v1, d, hp, d1, hsteps, hto, hh, _⟩ := free_pcppages_pass_spec cfg v hv h0
      rw [hp]
      have hpages := hsteps.pages hh.1
      obtain ⟨v2, d2, e1, e2, e3, e4⟩ := ih v1 hh (by omega)
      refine ⟨v2, d + d2, e1, e2, ?_, (hsteps.drained hh.1).append e4⟩
      push_cast
      rw [e3, hto]
      omega

/-- `free_pcppages_bulk(zone, count, pcp)` returns when `count` is not
negative and not above the number of pages on the lists: it has then given
`count` pages, each the tail of a per-CPU list, to `__free_one_page` and
added `count` to `NR_FREE_PAGES`. -/
theorem free_pcppages_bulk_returns (cfg : Config) (z : State) (count : Int)
    (pcp : per_cpu_pages) (h0 : 0 ≤ count) (hle : count ≤ (pcp_pages pcp : Int)) :
    ∃ (z1 : State) (pcp1 : per_cpu_pages) (d : Nat), free_pcppages_bulk cfg z count pcp =
        some (mod_free_pages z1 count, pcp1) ∧
      (d : Int) = count ∧ Drained cfg d z pcp z1 pcp1 := by
  have hinit : DrainHead
      { z := z, pcp := pcp, migratetype := 0, batch_free := 0, to_free := count } :=
    ⟨(by decide : (0 : Nat) < MIGRATE_PCPTYPES), h0, hle, fun _ => Or.inl rfl⟩
  obtain ⟨v1, d, e1, _, e3, e4⟩ := free_pcppages_loop_returns cfg (pcp_pages pcp + 1)
    { z := z, pcp := pcp, migratetype := 0, batch_free := 0, to_free := count }
    hinit (Nat.le_refl _)
  refine ⟨v1.z, v1.pcp, d, ?_, e3, e4⟩
  unfold free_pcppages_bulk
  rw [e1]

/-! ## Claims about the round-robin drain -/

/-- C25 as stated fails: with list 1 empty, list 2 holding two pages and
list 0 holding one, the first pass of `free_pcppages_bulk(zone, 2, pcp)`
takes both pages off list 2 while list 0 is still non-empty, and the call
ends there. -/
theorem drain_round_robin_counterexample :
    (free_pcppages_pass default_config
      { z := zone_of_blocks 3 [] MIGRATE_MOVABLE
        pcp := { count := 3, high := 18, batch := 3,
                 lists := fun m => if m = 2 then [4, 2] else if m = 0 then [6] else [] }
        migratetype := 0, batch_free := 0, to_free := 2 }).map
      (fun v => (v.migratetype, v.pcp.lists 0, v.pcp.lists 1, v.pcp.lists 2, v.to_free)) =
        some (2, [6], [], [], 0) ∧
    (free_pcppages_bulk default_config (zone_of_blocks 3 [] MIGRATE_MOVABLE) 2
      { count := 3, high := 18, batch := 3,
        lists := fun m => if m = 2 then [4, 2] else if m = 0 then [6] else [] }).map
      (fun r => (r.2.lists 0, r.2.lists 1, r.2.lists 2)) = some ([6], [], []) := by
  decide

/-- C25, amended: for a call `free_pcppages_bulk(zone, count, pcp)` with
`0 <= count` and `count` not above the number of pages on the lists, the
function returns, having freed `count` pages; and at every pass of its
`while` loop the rotating index moves to the next non-empty list and pages
are freed off the tail of that list only, at least one: exactly one when all
three lists are non-empty, more than two only when the two other lists are
empty, and all that remains of the requested count when the index passed two
empty lists. -/
theorem drain_round_robin (cfg : Config) (z : State) (count : Int) (pcp : per_cpu_pages)
    (h0 : 0 ≤ count) (hle : count ≤ (pcp_pages pcp : Int)) :
    (∃ r, free_pcppages_bulk cfg z count pcp = some r ∧
      (pcp_pages pcp : Int) = (pcp_pages r.2 : Int) + count) ∧
    ∀ v, DrainReach cfg
        { z := z, pcp := pcp, migratetype := 0, batch_free := 0, to_free := count } v →
      v.to_free ≠ 0 →
      ∃ (v1 : DrainVars) (d : Nat) (l : List Nat), free_pcppages_pass cfg v = some v1 ∧ 1 ≤ d ∧ l.length = d ∧
        v.pcp.lists v1.migratetype = v1.pcp.lists v1.migratetype ++ l ∧
        (∀ m, m ≠ v1.migratetype → v1.pcp.lists m = v.pcp.lists m) ∧
        v1.to_free = v.to_free - d ∧
        v.pcp.lists v1.migratetype ≠ [] ∧
        (v.pcp.lists (next_pcp_list v.migratetype) ≠ [] →
          v1.migratetype = next_pcp_list v.migratetype) ∧
        (v.pcp.lists (next_pcp_list v.migratetype) = [] →
          v.pcp.lists (next_pcp_list (next_pcp_list v.migratetype)) ≠ [] →
          v1.migratetype = next_pcp_list (next_pcp_list v.migratetype)) ∧
        (v.pcp.lists (next_pcp_list v.migratetype) = [] →
          v.pcp.lists (next_pcp_list (next_pcp_list v.migratetype)) = [] →
          v1.migratetype = v.migratetype ∧ v1.to_free = 0) ∧
        ((∀ m, m < MIGRATE_PCPTYPES → v.pcp.lists m ≠ []) → d = 1) ∧
        (2 < d → ∀ m, m < MIGRATE_PCPTYPES → m ≠ v1.migratetype → v.pcp.lists m = []) := by
  have hinit : DrainHead
      { z := z, pcp := pcp, migratetype := 0, batch_free := 0, to_free := count } :=
    ⟨(by decide : (0 : Nat) < MIGRATE_PCPTYPES), h0, hle, fun _ => Or.inl rfl⟩
  constructor
  · obtain ⟨z1, pcp1, d, e1, e2, e3⟩ := free_pcppages_bulk_returns cfg z count pcp h0 hle
    refine ⟨_, e1, ?_⟩
    have := e3.pcp_fields.1
    show (pcp_pages pcp : Int) = (pcp_pages pcp1 : Int) + count
    rw [← e2]
    exact_mod_cast this
  · intro v hr hne
    obtain ⟨v1, d, hp, d1, hsteps, hto, _, hl, r1, r2, r3, r4, r5⟩ :=
      free_pcppages_pass_spec cfg v (hr.drain_head hinit) hne
    obtain ⟨⟨l, hl1, hl2⟩, ho, _⟩ := hsteps.lists
    exact ⟨v1, d, l, hp, d1, hl1, hl2, ho, hto, hl, r1, r2, r3, r4, r5⟩

theorem drain_round_robin_witness :
    ∃ r, free_pcppages_bulk default_config (zone_of_blocks 3 [] MIGRATE_MOVABLE) 2
        { count := 3, high := 18, batch := 3,
          lists := fun m => if m = 2 then [4, 2] else if m = 0 then [6] else [] } = some r ∧
      ((3 : Nat) : Int) = (pcp_pages r.2 : Int) + 2 :=
  (drain_round_robin default_config (zone_of_blocks 3 [] MIGRATE_MOVABLE) 2
    { count := 3, high := 18, batch := 3,
      lists := fun m => if m = 2 then [4, 2] else if m = 0 then [6] else [] }
    (by decide) (by decide)).1

/-! ## `present_pages` is written by none of the operations -/

theorem destroy_compound_loop_present (page : Nat) : ∀ (n i : Nat) (r : State × Nat),
    (destroy_compound_loop page n i r).1.present_pages = r.1.present_pages := by
  intro n
  induction n with
  | zero => intro i r; rfl
  | succ n ih =>
    intro i r
    obtain ⟨s, bad⟩ := r
    rw [destroy_compound_loop]
    split
    · rw [ih]; rfl
    · rw [ih]; rfl

theorem destroy_compound_page_present (s : State) (page order : Nat) :
    (destroy_compound_page s page order).1.present_pages = s.present_pages := by
  unfold destroy_compound_page
  split
  · rw [destroy_compound_loop_present]; rfl
  · rw [destroy_compound_loop_present]; rfl

theorem merge_buddy_present (cfg : Config) (s : State) (page buddy order : Nat) :
    (merge_buddy cfg s page buddy order).present_pages = s.present_pages := by
  unfold merge_buddy
  split
  · unfold mod_free_pages set_page_private clear_page_guard_flag
    split <;> rfl
  · rfl

theorem free_merge_loop_present (cfg : Config) : ∀ (n : Nat) (v : FreeVars),
    (free_merge_loop cfg n v).s.present_pages = v.s.present_pages := by
  intro n
  induction n with
  | zero => intro v; rfl
  | succ n ih =>
    intro v
    rw [free_merge_loop]
    split
    · simp only []
      split
      · rfl
      · rw [ih]; exact merge_buddy_present cfg _ _ _ _
    · rfl

theorem free_one_page_core_present (cfg : Config) (s : State) (page order migratetype : Nat) :
    (free_one_page_core cfg s page order migratetype).present_pages = s.present_pages := by
  unfold free_one_page_core
  simp only []
  unfold nr_free_inc
  simp only []
  split
  · show (free_merge_loop cfg _ _).s.present_pages = _
    rw [free_merge_loop_present]
  · show (free_merge_loop cfg _ _).s.present_pages = _
    rw [free_merge_loop_present]

theorem free_one_page_present (cfg : Config) (s : State) (page order migratetype : Nat) :
    (__free_one_page cfg s page order migratetype).present_pages = s.present_pages := by
  unfold __free_one_page
  split
  · simp only []
    split
    · exact destroy_compound_page_present s page order
    · rw [free_one_page_core_present]; exact destroy_compound_page_present s page order
  · exact free_one_page_core_present cfg s page order migratetype

theorem Drained.present {cfg : Config} {d : Nat} {z z2 : State} {pcp pcp2 : per_cpu_pages}
    (h : Drained cfg d z pcp z2 pcp2) : z2.present_pages = z.present_pages := by
  induction h with
  | zero z pcp => rfl
  | succ d m z pcp page z2 pcp2 _ _ _ ih => rw [ih]; exact free_one_page_present cfg _ _ _ _

/-! ## Draining the pagesets of a CPU -/

theorem pcp_drained_counted {pcp : per_cpu_pages} (h : pcp_drained pcp) :
    pcp.count = (pcp_pages pcp : Int) := by
  rw [h.1, pcp_pages_zero h.2]; rfl

/-- The body of the loop of `drain_pages` for one zone whose pageset counts
its pages: it returns; a populated zone is left with a drained pageset, and
nothing but that zone and that pageset is written. -/
theorem drain_zone_spec (cfg : Config) (sys : Machine) (cpu i : Nat)
    (h : (sys.pageset i cpu).count = (pcp_pages (sys.pageset i cpu) : Int)) :
    ∃ sys1, drain_zone cfg sys cpu i = some sys1 ∧
      sys1.nr_zones = sys.nr_zones ∧ sys1.nr_cpus = sys.nr_cpus ∧
      (∀ j, (sys1.zones j).present_pages = (sys.zones j).present_pages) ∧
      (∀ j c, ¬ (j = i ∧ c = cpu) → sys1.pageset j c = sys.pageset j c) ∧
      ((sys.zones i).present_pages ≠ 0 → pcp_drained (sys1.pageset i cpu)) ∧
      ((sys.zones i).present_pages = 0 → sys1.pageset i cpu = sys.pageset i cpu) := by
  unfold drain_zone
  by_cases ht : ((sys.zones i).present_pages != 0 && (sys.pageset i cpu).count != 0) = true
  · rw [if_pos ht]
    simp only [Bool.and_eq_true, bne_iff_ne, ne_eq] at ht
    obtain ⟨z1, pcp1, d, e1, e2, e3⟩ := free_pcppages_bulk_returns cfg (sys.zones i)
      (sys.pageset i cpu).count (sys.pageset i cpu) (by rw [h]; exact Int.natCast_nonneg _)
      (by rw [h])
    rw [e1]
    refine ⟨_, rfl, rfl, rfl, ?_, ?_, ?_, ?_⟩
    · intro j
      show (upd sys.zones i _ j).present_pages = _
      unfold upd
      split
      · rename_i hj
        rw [hj]
        show z1.present_pages = _
        exact e3.present
      · rfl
    · intro j c hjc
      show upd sys.pageset i _ j c = _
      unfold upd
      by_cases hj : j = i
      · rw [if_pos hj]
        have hc : c ≠ cpu := fun hc => hjc ⟨hj, hc⟩
        rw [if_neg hc, hj]
      · rw [if_neg hj]
    · intro _
      show pcp_drained (upd sys.pageset i _ i cpu)
      unfold upd
      rw [if_pos rfl, if_pos rfl]
      refine ⟨rfl, ?_⟩
      show ∀ m, m < MIGRATE_PCPTYPES → pcp1.lists m = []
      rw [← pcp_pages_zero_iff]
      have h1 := e3.pcp_fields.1
      have h2 : ((pcp_pages (sys.pageset i cpu) : Nat) : Int) = (d : Int) := by rw [e2, h]
      have h3 : pcp_pages (sys.pageset i cpu) = d := by exact_mod_cast h2
      omega
    · intro h0
      exact absurd h0 ht.1
  · rw [if_neg ht]
    refine ⟨sys, rfl, rfl, rfl, fun _ => rfl, fun _ _ _ => rfl, ?_, fun _ => rfl⟩
    intro hp
    simp only [Bool.and_eq_true, bne_iff_ne, ne_eq, not_and, not_not] at ht
    have hc := ht hp
    refine ⟨hc, ?_⟩
    rw [← pcp_pages_zero_iff]
    rw [hc] at h
    exact_mod_cast h.symm

theorem drain_pages_loop_spec (cfg : Config) (cpu : Nat) : ∀ (n i : Nat) (sys : Machine),
    (∀ j, i ≤ j → j < i + n →
      (sys.pageset j cpu).count = (pcp_pages (sys.pageset j cpu) : Int)) →
    ∃ sys1, drain_pages_loop cfg cpu n i sys = some sys1 ∧
      sys1.nr_zones = sys.nr_zones ∧ sys1.nr_cpus = sys.nr_cpus ∧
      (∀ j, (sys1.zones j).present_pages = (sys.zones j).present_pages) ∧
      (∀ j c, c ≠ cpu → sys1.pageset j c = sys.pageset j c) ∧
      (∀ j, j < i ∨ i + n ≤ j → sys1.pageset j cpu = sys.pageset j cpu) ∧
      (∀ j, i ≤ j → j < i + n →
        ((sys.zones j).present_pages ≠ 0 → pcp_drained (sys1.pageset j cpu)) ∧
        ((sys.zones j).present_pages = 0 → sys1.pageset j cpu = sys.pageset j cpu)) := by
  intro n
  induction n with
  | zero =>
    intro i sys _
    exact ⟨sys, rfl, rfl, rfl, fun _ => rfl, fun _ _ _ => rfl, fun _ _ => rfl,
      fun j h1 h2 => by omega⟩
  | succ n ih =>
    intro i sys h
    obtain ⟨sysa, a1, a2, a3, a4, a5, a6, a7⟩ :=
      drain_zone_spec cfg sys cpu i (h i (Nat.le_refl _) (by omega))
    have hsame : ∀ j, j ≠ i → sysa.pageset j cpu = sys.pageset j cpu :=
      fun j hj => a5 j cpu (fun hh => hj hh.1)
    obtain ⟨sysb, b1, b2, b3, b4, b5, b6, b7⟩ := ih (i + 1) sysa (by
      intro j h1 h2
      rw [hsame j (by omega)]
      exact h j (by omega) (by omega))
    rw [drain_pages_loop, a1]
    refine ⟨sysb, b1, b2.trans a2, b3.trans a3, fun j => (b4 j).trans (a4 j), ?_, ?_, ?_⟩
    · intro j c hc
      rw [b5 j c hc]
      exact a5 j c (fun hh => hc hh.2)
    · intro j hj
      rw [b6 j (by omega)]
      exact hsame j (by omega)
    · intro j h1 h2
      by_cases hj : j = i
      · subst hj
        rw [b6 j (by omega)]
        exact ⟨a6, a7⟩
      · obtain ⟨c1, c2⟩ := b7 j (by omega) (by omega)
        rw [a4 j] at c1
        rw [a4 j, hsame j hj] at c2
        exact ⟨c1, c2⟩

/-- `drain_pages(cpu)` on a CPU whose pagesets count their pages: it
returns, every populated zone is left with a drained pageset on that CPU,
and the pagesets of the other CPUs are not written. -/
theorem drain_pages_spec (cfg : Config) (sys : Machine) (cpu : Nat) (h : PcpCounted sys cpu) :
    ∃ sys1, drain_pages cfg sys cpu = some sys1 ∧
      sys1.nr_zones = sys.nr_zones ∧ sys1.nr_cpus = sys.nr_cpus ∧
      (∀ j, (sys1.zones j).present_pages = (sys.zones j).present_pages) ∧
      (∀ j c, c ≠ cpu → sys1.pageset j c = sys.pageset j c) ∧
      (∀ j, j < sys.nr_zones →
        ((sys.zones j).present_pages ≠ 0 → pcp_drained (sys1.pageset j cpu)) ∧
        ((sys.zones j).present_pages = 0 → sys1.pageset j cpu = sys.pageset j cpu)) := by
  obtain ⟨sys1, a1, a2, a3, a4, a5, _, a7⟩ := drain_pages_loop_spec cfg cpu sys.nr_zones 0 sys
    (fun j _ hj => h j (by omega))
  exact ⟨sys1, a1, a2, a3, a4, a5, fun j hj => a7 j (Nat.zero_le _) (by omega)⟩

theorem drain_pages_loop_fixed (cfg : Config) (cpu : Nat) : ∀ (n i : Nat) (sys : Machine),
    (∀ j, i ≤ j → j < i + n → (sys.zones j).present_pages ≠ 0 →
      (sys.pageset j cpu).count = 0) →
    drain_pages_loop cfg cpu n i sys = some sys := by
  intro n
  induction n with
  | zero => intro i sys _; rfl
  | succ n ih =>
    intro i sys h
    have hz : drain_zone cfg sys cpu i = some sys := by
      unfold drain_zone
      rw [if_neg]
      simp only [Bool.and_eq_true, bne_iff_ne, ne_eq, not_and, not_not]
      exact h i (Nat.le_refl _) (by omega)
    rw [drain_pages_loop, hz]
    exact ih (i + 1) sys (fun j h1 h2 => h j (by omega) (by omega))

/-- `drain_pages(cpu)` changes nothing when the populated zones have a zero
counter on that CPU. -/
theorem drain_pages_fixed (cfg : Config) (sys : Machine) (cpu : Nat)
    (h : ∀ j, j < sys.nr_zones → (sys.zones j).present_pages ≠ 0 →
      (sys.pageset j cpu).count = 0) :
    drain_pages cfg sys cpu = some sys :=
  drain_pages_loop_fixed cfg cpu sys.nr_zones 0 sys (fun j _ hj => h j (by omega))

theorem has_pcps_false_iff (sys : Machine) (cpu : Nat) :
    has_pcps sys cpu = false ↔
      ∀ j, j < sys.nr_zones → (sys.zones j).present_pages ≠ 0 →
        (sys.pageset j cpu).count = 0 := by
  unfold has_pcps
  rw [List.any_eq_false]
  simp only [List.mem_range, Bool.and_eq_true, bne_iff_ne, ne_eq, not_and, not_not]

theorem drain_cpus_spec (cfg : Config) : ∀ (l : List Nat) (sys : Machine),
    (∀ c, c ∈ l → PcpCounted sys c) →
    ∃ sys1, drain_cpus cfg l sys = some sys1 ∧
      sys1.nr_zones = sys.nr_zones ∧ sys1.nr_cpus = sys.nr_cpus ∧
      (∀ j, (sys1.zones j).present_pages = (sys.zones j).present_pages) ∧
      (∀ j c, c ∉ l → sys1.pageset j c = sys.pageset j c) ∧
      (∀ c, c ∈ l → ∀ j, j < sys.nr_zones → (sys.zones j).present_pages ≠ 0 →
        pcp_drained (sys1.pageset j c)) := by
  intro l
  induction l with
  | nil =>
    intro sys _
    exact ⟨sys, rfl, rfl, rfl, fun _ => rfl, fun _ _ _ => rfl,
      fun c hc => absurd hc (List.not_mem_nil c)⟩
  | cons a rest ih =>
    intro sys h
    obtain ⟨sysa, a1, a2, a3, a4, a5, a6⟩ :=
      drain_pages_spec cfg sys a (h a (List.mem_cons_self a rest))
    have hcounted : ∀ c, c ∈ rest → PcpCounted sysa c := by
      intro c hc j hj
      rw [a2] at hj
      by_cases hca : c = a
      · subst hca
        by_cases hp : (sys.zones j).present_pages = 0
        · rw [(a6 j hj).2 hp]
          exact h c (List.mem_cons_self c rest) j hj
        · exact pcp_drained_counted ((a6 j hj).1 hp)
      · rw [a5 j c hca]
        exact h c (List.mem_cons_of_mem a hc) j hj
    obtain ⟨sysb, b1, b2, b3, b4, b5, b6⟩ := ih sysa hcounted
    rw [drain_cpus, a1]
    refine ⟨sysb, b1, b2.trans a2, b3.trans a3, fun j => (b4 j).trans (a4 j), ?_, ?_⟩
    · intro j c hc
      rw [List.mem_cons, not_or] at hc
      rw [b5 j c hc.2]
      exact a5 j c hc.1
    · intro c hc j hj hp
      by_cases hcr : c ∈ rest
      · exact b6 c hcr j (by rw [a2]; exact hj) (by rw [a4 j]; exact hp)
      · have hca : c = a := by
          rcases List.mem_cons.1 hc with h1 | h1
          · exact h1
          · exact absurd h1 hcr
        rw [b5 j c hcr, hca]
        exact (a6 j hj).1 hp

/-! ## Claim about draining twice -/

/-- C27: when the counter of every pageset is the number of pages on its
lists, `drain_pages(cpu)` returns and a second `drain_pages(cpu)` leaves the
zones and pagesets as the first left them, and so for `drain_all_pages()`;
after the drain the pageset of every populated zone, on the drained CPU or
on every online CPU, has `count == 0` and its three lists empty. -/
theorem drain_idempotent (cfg : Config) (sys : Machine)
    (h : ∀ i, i < sys.nr_zones → ∀ cpu, cpu < sys.nr_cpus →
      (sys.pageset i cpu).count = (pcp_pages (sys.pageset i cpu) : Int)) :
    (∀ cpu, cpu < sys.nr_cpus →
      ∃ sys1, drain_pages cfg sys cpu = some sys1 ∧ drain_pages cfg sys1 cpu = some sys1 ∧
        ∀ i, i < sys.nr_zones → (sys.zones i).present_pages ≠ 0 →
          (sys1.pageset i cpu).count = 0 ∧
            ∀ m, m < MIGRATE_PCPTYPES → (sys1.pageset i cpu).lists m = []) ∧
    ∃ sys1, drain_all_pages cfg sys = some sys1 ∧ drain_all_pages cfg sys1 = some sys1 ∧
      ∀ i, i < sys.nr_zones → ∀ cpu, cpu < sys.nr_cpus →
        (sys.zones i).present_pages ≠ 0 →
          (sys1.pageset i cpu).count = 0 ∧
            ∀ m, m < MIGRATE_PCPTYPES → (sys1.pageset i cpu).lists m = [] := by
  constructor
  · intro cpu hcpu
    obtain ⟨sys1, a1, a2, _, a4, _, a6⟩ :=
      drain_pages_spec cfg sys cpu (fun i hi => h i hi cpu hcpu)
    refine ⟨sys1, a1, ?_, fun i hi hp => (a6 i hi).1 hp⟩
    apply drain_pages_fixed
    intro j hj hp
    rw [a2] at hj
    rw [a4 j] at hp
    exact ((a6 j hj).1 hp).1
  · have hmem : ∀ c, c ∈ (List.range sys.nr_cpus).filter (fun cpu => has_pcps sys cpu) ↔
        c < sys.nr_cpus ∧ has_pcps sys c = true := by
      intro c
      rw [List.mem_filter, List.mem_range]
    obtain ⟨sys1, a1, a2, a3, a4, a5, a6⟩ := drain_cpus_spec cfg
      ((List.range sys.nr_cpus).filter (fun cpu => has_pcps sys cpu)) sys
      (fun c hc i hi => h i hi c ((hmem c).1 hc).1)
    have hall : ∀ i, i < sys.nr_zones → ∀ cpu, cpu < sys.nr_cpus →
        (sys.zones i).present_pages ≠ 0 → pcp_drained (sys1.pageset i cpu) := by
      intro i hi cpu hcpu hp
      by_cases hc : has_pcps sys cpu = true
      · exact a6 cpu ((hmem cpu).2 ⟨hcpu, hc⟩) i hi hp
      · rw [a5 i cpu (fun hh => hc ((hmem cpu).1 hh).2)]
        have hc0 := (has_pcps_false_iff sys cpu).1 (by simpa using hc) i hi hp
        refine ⟨hc0, ?_⟩
        rw [← pcp_pages_zero_iff]
        have := h i hi cpu hcpu
        rw [hc0] at this
        exact_mod_cast this.symm
    refine ⟨sys1, a1, ?_, hall⟩
    unfold drain_all_pages
    have hnil : (List.range sys1.nr_cpus).filter (fun cpu => has_pcps sys1 cpu) = [] := by
      rw [List.filter_eq_nil_iff]
      intro c hc
      rw [List.mem_range, a3] at hc
      rw [Bool.not_eq_true, has_pcps_false_iff]
      intro j hj hp
      rw [a2] at hj
      rw [a4 j] at hp
      exact (hall j hj c hc hp).1
    rw [hnil]
    rfl

set_option maxRecDepth 100000 in
theorem drain_idempotent_witness :
    ∃ sys1,
      drain_all_pages default_config
        { nr_zones := 1, nr_cpus := 2
          zones := fun _ => { zone_of_blocks 3 [] MIGRATE_MOVABLE with present_pages := 8 }
          pageset := fun _ cpu =>
            if cpu = 0 then
              { count := 3, high := 18, batch := 3,
                lists := fun m => if m = 2 then [4, 2] else if m = 0 then [6] else [] }
            else {} } = some sys1 ∧
      drain_all_pages default_config sys1 = some sys1 ∧
      ∀ i, i < 1 → ∀ cpu, cpu < 2 →
        ({ zone_of_blocks 3 [] MIGRATE_MOVABLE with present_pages := 8 } : State).present_pages
            ≠ 0 →
          (sys1.pageset i cpu).count = 0 ∧
            ∀ m, m < MIGRATE_PCPTYPES → (sys1.pageset i cpu).lists m = [] :=
  (drain_idempotent default_config
    { nr_zones := 1, nr_cpus := 2
      zones := fun _ => { zone_of_blocks 3 [] MIGRATE_MOVABLE with present_pages := 8 }
      pageset := fun _ cpu =>
        if cpu = 0 then
          { count := 3, high := 18, batch := 3,
            lists := fun m => if m = 2 then [4, 2] else if m = 0 then [6] else [] }
        else {} }
    (by decide)).2

/-! ## The per-CPU lists on allocation and free -/

theorem list_insert_length (l : List Nat) (i x : Nat) :
    (list_insert l i x).length = l.length + 1 := by
  unfold list_insert
  rw [List.length_append, List.length_cons, List.length_take, List.length_drop]
  omega

theorem rmqueue_bulk_loop_length (cfg : Config) (order migratetype cold len0 : Nat) :
    ∀ (n i : Nat) (z : State) (l : List Nat) (r : Nat × State × List Nat),
      rmqueue_bulk_loop cfg order migratetype cold len0 n i z l = some r →
      r.2.2.length + i = l.length + r.1 ∧ i ≤ r.1 ∧ r.1 ≤ i + n := by
  intro n
  induction n with
  | zero =>
    intro i z l r h
    rw [rmqueue_bulk_loop] at h
    cases h
    exact ⟨rfl, Nat.le_refl _, Nat.le_refl _⟩
  | succ n ih =>
    intro i z l r h
    rw [rmqueue_bulk_loop] at h
    cases hq : __rmqueue cfg z order migratetype with
    | none => rw [hq] at h; cases h
    | some t =>
      obtain ⟨res, z1⟩ := t
      rw [hq] at h
      cases res with
      | none =>
        cases h
        exact ⟨rfl, Nat.le_refl _, by omega⟩
      | some page =>
        obtain ⟨a, b, c⟩ := ih _ _ _ _ h
        have hlen : (if (cold == 0) = true then list_insert l i page
            else list_insert l len0 page).length = l.length + 1 := by
          split <;> exact list_insert_length _ _ _
        rw [hlen] at a
        exact ⟨by omega, by omega, by omega⟩

theorem rmqueue_bulk_length {cfg : Config} {z : State} {order count : Nat} {l : List Nat}
    {migratetype cold : Nat} {r : Nat × State × List Nat}
    (h : rmqueue_bulk cfg z order count l migratetype cold = some r) :
    r.2.2.length = l.length + r.1 ∧ r.1 ≤ count := by
  unfold rmqueue_bulk at h
  cases hq : rmqueue_bulk_loop cfg order migratetype cold l.length count 0 z l with
  | none => rw [hq] at h; cases h
  | some t =>
    obtain ⟨i, z1, l1⟩ := t
    rw [hq] at h
    cases h
    obtain ⟨a, _, c⟩ := rmqueue_bulk_loop_length cfg order migratetype cold l.length count 0 z l
      _ hq
    exact ⟨by simpa using a, by simpa using c⟩

theorem pcp_pages_upd (pcp pcp1 : per_cpu_pages) (m : Nat) (hm : m < MIGRATE_PCPTYPES)
    (h : ∀ c, c ≠ m → pcp1.lists c = pcp.lists c) :
    pcp_pages pcp1 + (pcp.lists m).length = pcp_pages pcp + (pcp1.lists m).length := by
  rw [pcp_pages_eq, pcp_pages_eq]
  simp only [MIGRATE_PCPTYPES] at hm
  have : m = 0 ∨ m = 1 ∨ m = 2 := by omega
  rcases this with h' | h' | h' <;> subst h'
  · rw [h 1 (by decide), h 2 (by decide)]; omega
  · rw [h 0 (by decide), h 2 (by decide)]; omega
  · rw [h 0 (by decide), h 1 (by decide)]; omega

/-- The part of `buffered_rmqueue` at order 0 that follows the refill: a page
is unlinked from the list of the class, at the tail for a cold request and
at the head otherwise, and handed to `prep_new_page`. -/
theorem pcp_take_spec {g : GfpMasks} {zf : State} {pcpf : per_cpu_pages}
    {gfp_flags migratetype cold : Nat} {r : PassOutcome × State × per_cpu_pages}
    (h : (match
        (if cold != 0 then
          match (pcpf.lists migratetype).getLast? with
          | none => some (none, zf, pcpf)
          | some page =>
            some (some page, zf,
              { pcpf with count := pcpf.count - 1,
                          lists := upd pcpf.lists migratetype
                            (pcpf.lists migratetype).dropLast })
        else
          match pcpf.lists migratetype with
          | [] => some (none, zf, pcpf)
          | page :: rest =>
            some (some page, zf,
              { pcpf with count := pcpf.count - 1,
                          lists := upd pcpf.lists migratetype rest }) :
          Option (Option Nat × State × per_cpu_pages)) with
      | none => none
      | some (none, z1, pcp1) => some (PassOutcome.failed, z1, pcp1)
      | some (some page, z1, pcp1) =>
        if (prep_new_page g z1 page 0 gfp_flags).2 != 0 then
          some (PassOutcome.again, (prep_new_page g z1 page 0 gfp_flags).1, pcp1)
        else some (PassOutcome.got page, (prep_new_page g z1 page 0 gfp_flags).1, pcp1)) =
      some r) :
    r.2.2.high = pcpf.high ∧ r.2.2.batch = pcpf.batch ∧
    (∀ m, m ≠ migratetype → r.2.2.lists m = pcpf.lists m) ∧
    ((pcpf.lists migratetype = [] ∧ r = (PassOutcome.failed, zf, pcpf)) ∨
      ∃ page, page ∈ pcpf.lists migratetype ∧
        (pcpf.lists migratetype).length = (r.2.2.lists migratetype).length + 1 ∧
        (∀ q, q ∈ r.2.2.lists migratetype → q ∈ pcpf.lists migratetype) ∧
        r.2.2.count = pcpf.count - 1 ∧
        r.2.1 = (prep_new_page g zf page 0 gfp_flags).1 ∧
        r.1 = (if (prep_new_page g zf page 0 gfp_flags).2 != 0 then PassOutcome.again
          else PassOutcome.got page)) := by
  have hfin : ∀ (page : Nat) (pcp1 : per_cpu_pages),
      (if (prep_new_page g zf page 0 gfp_flags).2 != 0 then
          some (PassOutcome.again, (prep_new_page g zf page 0 gfp_flags).1, pcp1)
        else some (PassOutcome.got page, (prep_new_page g zf page 0 gfp_flags).1, pcp1)) =
        some r →
      r.2.2 = pcp1 ∧ r.2.1 = (prep_new_page g zf page 0 gfp_flags).1 ∧
        r.1 = (if (prep_new_page g zf page 0 gfp_flags).2 != 0 then PassOutcome.again
          else PassOutcome.got page) := by
    intro page pcp1 hh
    split at hh
    · cases hh
      rename_i hc
      exact ⟨rfl, rfl, by rw [if_pos hc]⟩
    · cases hh
      rename_i hc
      exact ⟨rfl, rfl, by rw [if_neg hc]⟩
  by_cases hc : (cold != 0) = true
  · rw [if_pos hc] at h
    cases hl : (pcpf.lists migratetype).getLast? with
    | none =>
      rw [hl] at h
      cases h
      exact ⟨rfl, rfl, fun _ _ => rfl, Or.inl ⟨List.getLast?_eq_none_iff.1 hl, rfl⟩⟩
    | some page =>
      rw [hl] at h
      obtain ⟨e1, e2, e3⟩ := hfin _ _ h
      have hne : pcpf.lists migratetype ≠ [] := by
        intro h0; rw [h0] at hl; cases hl
      have hmem : page ∈ pcpf.lists migratetype := by
        rw [List.getLast?_eq_getLast _ hne] at hl
        cases hl
        exact List.getLast_mem hne
      have hlist : r.2.2.lists migratetype = (pcpf.lists migratetype).dropLast := by
        rw [e1]; simp [upd]
      refine ⟨by rw [e1], by rw [e1], ?_, Or.inr ⟨page, hmem, ?_, ?_, by rw [e1], e2, e3⟩⟩
      · intro m hm; rw [e1]; simp [upd, hm]
      · rw [hlist, List.length_dropLast]
        have := List.length_pos.2 hne
        omega
      · intro q hq
        rw [hlist] at hq
        exact List.mem_of_mem_dropLast hq
  · rw [if_neg hc] at h
    cases hl : pcpf.lists migratetype with
    | nil =>
      rw [hl] at h
      cases h
      exact ⟨rfl, rfl, fun _ _ => rfl, Or.inl ⟨rfl, rfl⟩⟩
    | cons page rest =>
      rw [hl] at h
      obtain ⟨e1, e2, e3⟩ := hfin _ _ h
      have hlist : r.2.2.lists migratetype = rest := by
        rw [e1]; simp [upd]
      refine ⟨by rw [e1], by rw [e1], ?_, Or.inr ⟨page, List.mem_cons_self _ _, ?_, ?_,
        by rw [e1], e2, e3⟩⟩
      · intro m hm; rw [e1]; simp [upd, hm]
      · rw [hlist]; rfl
      · intro q hq
        rw [hlist] at hq
        exact List.mem_cons_of_mem _ hq

/-- One pass of `buffered_rmqueue` at order 0: the list of the class is
refilled by `rmqueue_bulk` if it is empty; the pass fails if it is empty
still, and else unlinks one page, which `prep_new_page` accepts or not. -/
theorem buffered_rmqueue_pass_pcp {cfg : Config} {g : GfpMasks} {z : State}
    {pcp : per_cpu_pages} {gfp_flags migratetype : Nat}
    {r : PassOutcome × State × per_cpu_pages}
    (h : buffered_rmqueue_pass cfg g z pcp 0 gfp_flags migratetype = some r) :
    ∃ (i : Nat) (zf : State) (lf : List Nat),
      ((pcp.lists migratetype ≠ [] ∧ i = 0 ∧ zf = z ∧ lf = pcp.lists migratetype) ∨
        (pcp.lists migratetype = [] ∧
          rmqueue_bulk cfg z 0 (to_ulong cfg pcp.batch) [] migratetype
            (if gfp_flags &&& g.__GFP_COLD != 0 then 1 else 0) = some (i, zf, lf))) ∧
      r.2.2.high = pcp.high ∧ r.2.2.batch = pcp.batch ∧
      (∀ m, m ≠ migratetype → r.2.2.lists m = pcp.lists m) ∧
      ((lf = [] ∧ r.1 = PassOutcome.failed ∧ r.2.1 = zf ∧ r.2.2.count = pcp.count + i ∧
          r.2.2.lists migratetype = []) ∨
        ∃ page, page ∈ lf ∧ lf.length = (r.2.2.lists migratetype).length + 1 ∧
          (∀ q, q ∈ r.2.2.lists migratetype → q ∈ lf) ∧
          r.2.2.count = pcp.count + i - 1 ∧
          r.2.1 = (prep_new_page g zf page 0 gfp_flags).1 ∧
          r.1 = (if (prep_new_page g zf page 0 gfp_flags).2 != 0 then PassOutcome.again
            else PassOutcome.got page)) := by
  unfold buffered_rmqueue_pass at h
  simp only [beq_self_eq_true, if_true] at h
  generalize (if gfp_flags &&& g.__GFP_COLD != 0 then 1 else 0 : Nat) = cold at h ⊢
  by_cases hl : pcp.lists migratetype = []
  · rw [hl] at h
    simp only [List.isEmpty_nil, if_true] at h
    cases hb : rmqueue_bulk cfg z 0 (to_ulong cfg pcp.batch) [] migratetype cold with
    | none => rw [hb] at h; simp at h
    | some t =>
      obtain ⟨i, zf, lf⟩ := t
      rw [hb] at h
      simp only [] at h
      obtain ⟨a1, a2, a3, a4⟩ := @pcp_take_spec g zf
        { pcp with count := pcp.count + i, lists := (upd pcp.lists migratetype lf) }
        gfp_flags migratetype cold r h
      have hup : upd pcp.lists migratetype lf migratetype = lf := by simp [upd]
      simp only [hup] at a4
      refine ⟨i, zf, lf, Or.inr ⟨hl, rfl⟩, a1, a2, ?_, ?_⟩
      · intro m hm
        rw [a3 m hm]
        simp [upd, hm]
      · rcases a4 with ⟨b1, b2⟩ | ⟨page, b1, b2, b3, b4, b5, b6⟩
        · refine Or.inl ⟨b1, by rw [b2], by rw [b2], by rw [b2], ?_⟩
          rw [b2]
          exact hup.trans b1
        · exact Or.inr ⟨page, b1, b2, b3, b4, b5, b6⟩
  · have he : (pcp.lists migratetype).isEmpty = false := by
      cases hh : pcp.lists migratetype with
      | nil => exact absurd hh hl
      | cons a b => rfl
    rw [he] at h
    simp only [Bool.false_eq_true, if_false] at h
    obtain ⟨a1, a2, a3, a4⟩ := @pcp_take_spec g z pcp gfp_flags migratetype cold r h
    refine ⟨0, z, pcp.lists migratetype, Or.inl ⟨hl, rfl, rfl, rfl⟩, a1, a2, a3, ?_⟩
    rcases a4 with ⟨b1, _⟩ | ⟨page, b1, b2, b3, b4, b5, b6⟩
    · exact absurd b1 hl
    · refine Or.inr ⟨page, b1, b2, b3, ?_, b5, b6⟩
      rw [b4]
      simp

theorem pcp_class_lt (mt : Nat) : pcp_class mt < MIGRATE_PCPTYPES := by
  unfold pcp_class
  split
  · decide
  · omega

theorem pcp_push_pages (pcp : per_cpu_pages) (c page cold : Nat) (hc : c < MIGRATE_PCPTYPES) :
    pcp_pages (pcp_push pcp c page cold) = pcp_pages pcp + 1 := by
  have h := pcp_pages_upd pcp (pcp_push pcp c page cold) c hc
    (fun m hm => by simp [pcp_push, upd, hm])
  have hl : ((pcp_push pcp c page cold).lists c).length = (pcp.lists c).length + 1 := by
    simp only [pcp_push, upd, if_true]
    split <;> simp
  omega

/-- The branch of `free_hot_cold_page` that puts the page on a per-CPU
list. -/
theorem free_hot_cold_page_push (cfg : Config) (z : State) (pcp : per_cpu_pages)
    (page cold : Nat)
    (hprep : (free_pages_prepare
      { z with mem_map := upd z.mem_map page { z.mem_map page with PG_mlocked := false } }
      page 0).2 = true)
    (hiso : get_pageblock_migratetype cfg z page ≠ MIGRATE_ISOLATE) :
    free_hot_cold_page cfg z pcp page cold =
      if pcp.high ≤ pcp.count + 1 then
        (free_pcppages_bulk cfg (free_prepared cfg z page) pcp.batch
          (pcp_push pcp (pcp_class (get_pageblock_migratetype cfg z page)) page cold)).map
            (fun r => (r.1, { r.2 with count := r.2.count - pcp.batch }))
      else
        some (free_prepared cfg z page,
          pcp_push pcp (pcp_class (get_pageblock_migratetype cfg z page)) page cold) := by
  obtain ⟨mm, hmm⟩ := free_pages_prepare_frame
    { z with mem_map := upd z.mem_map page { z.mem_map page with PG_mlocked := false } } page 0
  unfold free_prepared
  generalize hr : free_pages_prepare
    { z with mem_map := upd z.mem_map page { z.mem_map page with PG_mlocked := false } }
    page 0 = r at hprep hmm
  have hmt : get_pageblock_migratetype cfg r.1 page = get_pageblock_migratetype cfg z page := by
    rw [hmm]; rfl
  unfold free_hot_cold_page
  simp only [hr, hprep, hmt]
  have h1 : (decide (get_pageblock_migratetype cfg z page ≥ MIGRATE_PCPTYPES) &&
      get_pageblock_migratetype cfg z page == MIGRATE_ISOLATE) = false := by
    simp [hiso]
  simp only [h1]
  unfold pcp_push pcp_class
  by_cases hge : pcp.high ≤ pcp.count + 1
  · simp [hge]
    cases free_pcppages_bulk cfg _ pcp.batch _ <;> rfl
  · simp [hge]

/-- The branch of `free_hot_cold_page` for a page of an isolated
page-block. -/
theorem free_hot_cold_page_isolate (cfg : Config) (z : State) (pcp : per_cpu_pages)
    (page cold : Nat)
    (hprep : (free_pages_prepare
      { z with mem_map := upd z.mem_map page { z.mem_map page with PG_mlocked := false } }
      page 0).2 = true)
    (hiso : get_pageblock_migratetype cfg z page = MIGRATE_ISOLATE) :
    free_hot_cold_page cfg z pcp page cold =
      some (free_one_page cfg (free_prepared cfg z page) page 0 MIGRATE_ISOLATE, pcp) := by
  obtain ⟨mm, hmm⟩ := free_pages_prepare_frame
    { z with mem_map := upd z.mem_map page { z.mem_map page with PG_mlocked := false } } page 0
  unfold free_prepared
  generalize hr : free_pages_prepare
    { z with mem_map := upd z.mem_map page { z.mem_map page with PG_mlocked := false } }
    page 0 = r at hprep hmm
  have hmt : get_pageblock_migratetype cfg r.1 page = get_pageblock_migratetype cfg z page := by
    rw [hmm]; rfl
  unfold free_hot_cold_page
  simp only [hr, hprep, hmt, hiso]
  rfl

/-- An order-0 free to a pageset that counts its pages and whose `batch` is
between 0 and `high`: the call returns, the pageset counts its pages again,
and the counter went up by one, less `batch` if it reached `high`. -/
theorem free_hot_cold_page_count (cfg : Config) (z : State) (pcp : per_cpu_pages)
    (page cold : Nat)
    (hprep : (free_pages_prepare
      { z with mem_map := upd z.mem_map page { z.mem_map page with PG_mlocked := false } }
      page 0).2 = true)
    (hiso : get_pageblock_migratetype cfg z page ≠ MIGRATE_ISOLATE)
    (hcount : pcp.count = (pcp_pages pcp : Int)) (hb0 : 0 ≤ pcp.batch)
    (hbh : pcp.batch ≤ pcp.high) :
    ∃ z1 pcp1, free_hot_cold_page cfg z pcp page cold = some (z1, pcp1) ∧
      pcp1.high = pcp.high ∧ pcp1.batch = pcp.batch ∧
      pcp1.count = (pcp_pages pcp1 : Int) ∧
      pcp1.count = (if pcp.count + 1 ≥ pcp.high then pcp.count + 1 - pcp.batch
        else pcp.count + 1) := by
  rw [free_hot_cold_page_push cfg z pcp page cold hprep hiso]
  have hpush := pcp_push_pages pcp (pcp_class (get_pageblock_migratetype cfg z page)) page cold
    (pcp_class_lt _)
  by_cases hge : pcp.high ≤ pcp.count + 1
  · rw [if_pos hge, if_pos hge]
    obtain ⟨z1, pcp1, d, e1, e2, e3⟩ := free_pcppages_bulk_returns cfg
      (free_prepared cfg z page) pcp.batch
      (pcp_push pcp (pcp_class (get_pageblock_migratetype cfg z page)) page cold) hb0
      (by rw [hpush]; push_cast; omega)
    rw [e1]
    obtain ⟨f1, f2, f3, f4⟩ := e3.pcp_fields
    refine ⟨_, _, rfl, f3, f4, ?_, ?_⟩
    · show pcp1.count - pcp.batch = (pcp_pages pcp1 : Int)
      rw [f2]
      show pcp.count + 1 - pcp.batch = _
      rw [hpush] at f1
      have : ((pcp_pages pcp + 1 : Nat) : Int) = ((pcp_pages pcp1 + d : Nat) : Int) := by
        rw [f1]
      push_cast at this
      omega
    · show pcp1.count - pcp.batch = _
      rw [f2]
      rfl
  · rw [if_neg hge, if_neg hge]
    refine ⟨_, _, rfl, rfl, rfl, ?_, rfl⟩
    rw [hpush]
    show pcp.count + 1 = _
    push_cast
    omega

theorem free_to_pcp_nil (cfg : Config) (z : State) (pcp : per_cpu_pages) :
    free_to_pcp cfg [] z pcp = some (z, pcp) := rfl

theorem free_to_pcp_cons (cfg : Config) (page : Nat) (rest : List Nat) (z : State)
    (pcp : per_cpu_pages) :
    free_to_pcp cfg (page :: rest) z pcp =
      match free_page_to_pcp cfg z pcp page with
      | none => none
      | some r => free_to_pcp cfg rest r.1 r.2 := rfl

theorem free_to_pcp_count (cfg : Config) : ∀ (pages : List Nat) (z : State)
    (pcp : per_cpu_pages) (r : State × per_cpu_pages),
    pcp.count = (pcp_pages pcp : Int) → 0 ≤ pcp.batch → pcp.batch ≤ pcp.high →
    free_to_pcp cfg pages z pcp = some r →
    r.2.count = pcp_count_after pcp.high pcp.batch pages.length pcp.count ∧
      r.2.count = (pcp_pages r.2 : Int) ∧ r.2.high = pcp.high ∧ r.2.batch = pcp.batch := by
  intro pages
  induction pages with
  | nil =>
    intro z pcp r hc _ _ h
    rw [free_to_pcp_nil] at h
    cases h
    exact ⟨rfl, hc, rfl, rfl⟩
  | cons page rest ih =>
    intro z pcp r hc hb0 hbh h
    rw [free_to_pcp_cons] at h
    unfold free_page_to_pcp at h
    split at h
    · cases h
    · rename_i r1 hstep
      split at hstep
      · rename_i hcond
        simp only [Bool.and_eq_true, bne_iff_ne, ne_eq] at hcond
        obtain ⟨z1, pcp1, e1, e2, e3, e4, e5⟩ :=
          free_hot_cold_page_count cfg z pcp page 0 hcond.1 hcond.2 hc hb0 hbh
        rw [e1] at hstep
        cases hstep
        obtain ⟨a1, a2, a3, a4⟩ := ih z1 pcp1 r e4 (by rw [e3]; exact hb0)
          (by rw [e2, e3]; exact hbh) h
        refine ⟨?_, a2, a3.trans e2, a4.trans e3⟩
        rw [a1, e2, e3, e5]
        rfl
      · cases hstep

theorem pcp_take_returns (g : GfpMasks) (zf : State) (pcpf : per_cpu_pages)
    (gfp_flags migratetype cold : Nat) :
    (match
        (if cold != 0 then
          match (pcpf.lists migratetype).getLast? with
          | none => some (none, zf, pcpf)
          | some page =>
            some (some page, zf,
              { pcpf with count := pcpf.count - 1,
                          lists := upd pcpf.lists migratetype
                            (pcpf.lists migratetype).dropLast })
        else
          match pcpf.lists migratetype with
          | [] => some (none, zf, pcpf)
          | page :: rest =>
            some (some page, zf,
              { pcpf with count := pcpf.count - 1,
                          lists := upd pcpf.lists migratetype rest }) :
          Option (Option Nat × State × per_cpu_pages)) with
      | none => none
      | some (none, z1, pcp1) => some (PassOutcome.failed, z1, pcp1)
      | some (some page, z1, pcp1) =>
        if (prep_new_page g z1 page 0 gfp_flags).2 != 0 then
          some (PassOutcome.again, (prep_new_page g z1 page 0 gfp_flags).1, pcp1)
        else some (PassOutcome.got page, (prep_new_page g z1 page 0 gfp_flags).1, pcp1)) ≠
      none := by
  by_cases hc : (cold != 0) = true
  · rw [if_pos hc]
    cases (pcpf.lists migratetype).getLast? with
    | none => simp
    | some page => simp only []; split <;> simp
  · rw [if_neg hc]
    cases pcpf.lists migratetype with
    | nil => simp
    | cons page rest => simp only []; split <;> simp

/-- A pass of `buffered_rmqueue` at order 0 returns unless the refill runs
into the `BUG_ON` of `move_freepages`. -/
theorem buffered_rmqueue_pass_returns (cfg : Config) (g : GfpMasks) (z : State)
    (pcp : per_cpu_pages) (gfp_flags migratetype : Nat)
    (h : pcp.lists migratetype = [] →
      rmqueue_bulk cfg z 0 (to_ulong cfg pcp.batch) [] migratetype
        (if gfp_flags &&& g.__GFP_COLD != 0 then 1 else 0) ≠ none) :
    buffered_rmqueue_pass cfg g z pcp 0 gfp_flags migratetype ≠ none := by
  unfold buffered_rmqueue_pass
  simp only [beq_self_eq_true, if_true]
  generalize (if gfp_flags &&& g.__GFP_COLD != 0 then 1 else 0 : Nat) = cold at h ⊢
  by_cases hl : pcp.lists migratetype = []
  · have h1 := h hl
    rw [hl]
    simp only [List.isEmpty_nil, if_true]
    cases hb : rmqueue_bulk cfg z 0 (to_ulong cfg pcp.batch) [] migratetype cold with
    | none => exact absurd hb h1
    | some t =>
      obtain ⟨i, zf, lf⟩ := t
      simp only []
      exact pcp_take_returns g zf
        { pcp with count := pcp.count + i, lists := (upd pcp.lists migratetype lf) }
        gfp_flags migratetype cold
  · have he : (pcp.lists migratetype).isEmpty = false := by
      cases hh : pcp.lists migratetype with
      | nil => exact absurd hh hl
      | cons a b => rfl
    rw [he]
    simp only [Bool.false_eq_true, if_false]
    exact pcp_take_returns g z pcp gfp_flags migratetype cold

theorem pcp_count_after_small (high batch : Int) : ∀ (n : Nat) (c : Int),
    c + n < high → pcp_count_after high batch n c = c + n := by
  intro n
  induction n with
  | zero => intro c _; simp [pcp_count_after]
  | succ n ih =>
    intro c h
    rw [pcp_count_after]
    push_cast at h ⊢
    rw [if_neg (by omega), ih (c + 1) (by omega)]
    omega

/-! ## Claim about the refill and drain scenario -/

set_option maxRecDepth 1000000 in
/-- C26 as stated fails on its last step: with `batch = 3` and `high = 18`
the order-0 allocation from the empty pageset pulls three pages (frames 0, 1
and 2) and returns frame 0, which leaves `count == 2`; of the 18 frees that
follow, the 16th brings the count to 18 and is the one that drains, to 15;
the 18th finds the count at 16 and only raises it to 17. -/
theorem pcp_scenario_counterexample :
    (buffered_rmqueue default_config gfp_bits 1 (zone_of_blocks 6 [(0, 5)] MIGRATE_MOVABLE)
      scenario_pcp 0 0 MIGRATE_MOVABLE).map
        (fun r => (r.1, r.2.2.count, r.2.2.lists MIGRATE_MOVABLE)) = some (some 0, 2, [1, 2]) ∧
    ((buffered_rmqueue default_config gfp_bits 1 (zone_of_blocks 6 [(0, 5)] MIGRATE_MOVABLE)
      scenario_pcp 0 0 MIGRATE_MOVABLE).bind
        (fun r => free_to_pcp default_config (List.range' 32 15) r.2.1 r.2.2)).map
        (fun r => (r.2.count, pcp_pages r.2)) = some (17, 17) ∧
    ((buffered_rmqueue default_config gfp_bits 1 (zone_of_blocks 6 [(0, 5)] MIGRATE_MOVABLE)
      scenario_pcp 0 0 MIGRATE_MOVABLE).bind
        (fun r => free_to_pcp default_config (List.range' 32 16) r.2.1 r.2.2)).map
        (fun r => (r.2.count, pcp_pages r.2)) = some (15, 15) ∧
    ((buffered_rmqueue default_config gfp_bits 1 (zone_of_blocks 6 [(0, 5)] MIGRATE_MOVABLE)
      scenario_pcp 0 0 MIGRATE_MOVABLE).bind
        (fun r => free_to_pcp default_config (List.range' 32 17) r.2.1 r.2.2)).map
        (fun r => (r.2.count, pcp_pages r.2)) = some (16, 16) ∧
    ((buffered_rmqueue default_config gfp_bits 1 (zone_of_blocks 6 [(0, 5)] MIGRATE_MOVABLE)
      scenario_pcp 0 0 MIGRATE_MOVABLE).bind
        (fun r => free_to_pcp default_config (List.range' 32 18) r.2.1 r.2.2)).map
        (fun r => (r.2.count, pcp_pages r.2)) = some (17, 17) := by
  decide

/-- C26, amended: with `batch = 3` and `high = 18`, an order-0 allocation
(`buffered_rmqueue`) from a pageset with no page, whose refill obtains the
three pages it asks `rmqueue_bulk` for and whose page passes
`prep_new_page`, returns one of the three and leaves two on the list, with
`count == 2`. Of the order-0 frees to the same pageset that follow
(`free_hot_cold_page`), each of the first 15 raises the count by one, the
16th finds it at 18 and drains three pages, which leaves `count == 15`, and
after the 18th free `count == 17`; the count is the number of pages on the
lists throughout. -/
theorem pcp_scenario (cfg : Config) (g : GfpMasks) (z : State) (pcp : per_cpu_pages)
    (gfp_flags migratetype : Nat)
    (hB : 32 ≤ cfg.BITS_PER_LONG) (hm : migratetype < MIGRATE_PCPTYPES)
    (hc : pcp.count = 0) (hh : pcp.high = 18) (hb : pcp.batch = 3)
    (hl : ∀ m, m < MIGRATE_PCPTYPES → pcp.lists m = [])
    (hfill : (rmqueue_bulk cfg z 0 3 [] migratetype
      (if gfp_flags &&& g.__GFP_COLD != 0 then 1 else 0)).map (fun r => r.1) = some 3)
    (hprep : (buffered_rmqueue_pass cfg g z pcp 0 gfp_flags migratetype).map (fun r => r.1) ≠
      some PassOutcome.again) :
    ∃ page z1 pcp1 zf lf,
      rmqueue_bulk cfg z 0 3 [] migratetype
        (if gfp_flags &&& g.__GFP_COLD != 0 then 1 else 0) = some (3, zf, lf) ∧
      lf.length = 3 ∧ page ∈ lf ∧
      buffered_rmqueue cfg g 1 z pcp 0 gfp_flags migratetype = some (some page, z1, pcp1) ∧
      (pcp1.lists migratetype).length = 2 ∧ (∀ q, q ∈ pcp1.lists migratetype → q ∈ lf) ∧
      pcp1.count = 2 ∧ pcp_pages pcp1 = 2 ∧
      ∀ pages z2 pcp2, free_to_pcp cfg pages z1 pcp1 = some (z2, pcp2) →
        pcp2.count = (pcp_pages pcp2 : Int) ∧
        (pages.length < 16 → pcp2.count = 2 + pages.length) ∧
        (pages.length = 16 → pcp2.count = 15) ∧
        (pages.length = 17 → pcp2.count = 16) ∧
        (pages.length = 18 → pcp2.count = 17) := by
  have hbatch : to_ulong cfg pcp.batch = 3 := by
    rw [hb]
    have h3 : (3 : Nat) < 2 ^ cfg.BITS_PER_LONG :=
      Nat.lt_of_lt_of_le (by decide : 3 < 2 ^ 32) (Nat.pow_le_pow_right (by decide) hB)
    exact to_ulong_natCast cfg 3 h3
  have hfill' : ∃ zf lf, rmqueue_bulk cfg z 0 3 [] migratetype
      (if gfp_flags &&& g.__GFP_COLD != 0 then 1 else 0) = some (3, zf, lf) := by
    cases hq : rmqueue_bulk cfg z 0 3 [] migratetype
        (if gfp_flags &&& g.__GFP_COLD != 0 then 1 else 0) with
    | none => rw [hq] at hfill; cases hfill
    | some t =>
      obtain ⟨i, zf, lf⟩ := t
      rw [hq] at hfill
      simp only [Option.map_some', Option.some.injEq] at hfill
      subst hfill
      exact ⟨zf, lf, rfl⟩
  obtain ⟨zf, lf, hq⟩ := hfill'
  have hlen : lf.length = 3 := by
    have := (rmqueue_bulk_length hq).1
    simpa using this
  have hret := buffered_rmqueue_pass_returns cfg g z pcp gfp_flags migratetype
    (fun _ => by rw [hbatch, hq]; exact Option.some_ne_none _)
  cases hpass : buffered_rmqueue_pass cfg g z pcp 0 gfp_flags migratetype with
  | none => exact absurd hpass hret
  | some r =>
    obtain ⟨i, zf', lf', a1, a2, a3, a4, a5⟩ := buffered_rmqueue_pass_pcp hpass
    rw [hbatch, hq] at a1
    rcases a1 with ⟨b1, _⟩ | ⟨_, b2⟩
    · exact absurd (hl migratetype hm) b1
    · simp only [Option.some.injEq, Prod.mk.injEq] at b2
      obtain ⟨e1, e2, e3⟩ := b2
      subst e1 e2 e3
      rcases a5 with ⟨c1, _⟩ | ⟨page, c1, c2, c3, c4, c5, c6⟩
      · rw [c1] at hlen; cases hlen
      · rw [hpass] at hprep
        simp only [Option.map_some', ne_eq, Option.some.injEq] at hprep
        have hgot : r.1 = PassOutcome.got page := by
          rw [c6] at hprep ⊢
          split
          · rename_i hbad
            rw [if_pos hbad] at hprep
            exact absurd rfl hprep
          · rfl
        obtain ⟨o, z1, pcp1⟩ := r
        simp only [] at hgot a2 a3 a4 c2 c3 c4 c5
        subst hgot
        have hlen2 : (pcp1.lists migratetype).length = 2 := by omega
        have hcount : pcp1.count = 2 := by
          rw [c4, hc]; rfl
        have hpages : pcp_pages pcp1 = 2 := by
          have := pcp_pages_upd pcp pcp1 migratetype hm a4
          rw [hl migratetype hm, pcp_pages_zero hl, hlen2] at this
          simpa using this
        refine ⟨page, z1, pcp1, _, _, hq, hlen, c1, ?_, hlen2, c3, hcount, hpages, ?_⟩
        · rw [buffered_rmqueue, hpass]
        · intro pages z2 pcp2 hrun
          obtain ⟨f1, f2, _, _⟩ := free_to_pcp_count cfg pages z1 pcp1 (z2, pcp2)
            (by rw [hcount, hpages]; rfl) (by rw [a3, hb]; decide)
            (by rw [a2, a3, hb, hh]; decide) hrun
          rw [a2, a3, hb, hh, hcount] at f1
          simp only [] at f1 f2
          refine ⟨f2, ?_, ?_, ?_, ?_⟩
          · intro hn
            rw [f1, pcp_count_after_small 18 3 _ 2 (by omega)]
          · intro hn; rw [f1, hn]; decide
          · intro hn; rw [f1, hn]; decide
          · intro hn; rw [f1, hn]; decide

set_option maxRecDepth 1000000 in
theorem pcp_scenario_witness :
    ∃ page z1 pcp1 zf lf,
      rmqueue_bulk default_config (zone_of_blocks 6 [(0, 5)] MIGRATE_MOVABLE) 0 3 []
        MIGRATE_MOVABLE (if 0 &&& gfp_bits.__GFP_COLD != 0 then 1 else 0) = some (3, zf, lf) ∧
      lf.length = 3 ∧ page ∈ lf ∧
      buffered_rmqueue default_config gfp_bits 1 (zone_of_blocks 6 [(0, 5)] MIGRATE_MOVABLE)
        scenario_pcp 0 0 MIGRATE_MOVABLE = some (some page, z1, pcp1) ∧
      (pcp1.lists MIGRATE_MOVABLE).length = 2 ∧
      (∀ q, q ∈ pcp1.lists MIGRATE_MOVABLE → q ∈ lf) ∧
      pcp1.count = 2 ∧ pcp_pages pcp1 = 2 ∧
      ∀ pages z2 pcp2, free_to_pcp default_config pages z1 pcp1 = some (z2, pcp2) →
        pcp2.count = (pcp_pages pcp2 : Int) ∧
        (pages.length < 16 → pcp2.count = 2 + pages.length) ∧
        (pages.length = 16 → pcp2.count = 15) ∧
        (pages.length = 17 → pcp2.count = 16) ∧
        (pages.length = 18 → pcp2.count = 17) :=
  pcp_scenario default_config gfp_bits (zone_of_blocks 6 [(0, 5)] MIGRATE_MOVABLE) scenario_pcp
    0 MIGRATE_MOVABLE (by decide) (by decide) rfl rfl rfl (fun _ _ => rfl) (by decide)
    (by decide)

/-! ## Counting the pages on the free lists -/

theorem sum_map_flatMap {α β : Type} (l : List α) (g : α → List β) (f : β → Nat) :
    ((l.flatMap g).map f).sum = (l.map (fun a => ((g a).map f).sum)).sum := by
  induction l with
  | nil => rfl
  | cons a l ih =>
    rw [List.flatMap_cons, List.map_append, List.sum_append, ih]
    rfl

theorem free_pages_total_eq (cfg : Config) (s : State) :
    free_pages_total cfg s = pages_of (free_blocks cfg s) := by
  unfold free_pages_total pages_of free_blocks
  rw [sum_map_flatMap]
  congr 1
  apply List.map_congr_left
  intro k _
  rw [sum_map_flatMap]
  congr 1
  apply List.map_congr_left
  intro m _
  rw [List.map_map]
  show _ = (List.map (fun _ => 2 ^ k) (s.free_list k m)).sum
  rw [List.map_const', List.sum_replicate, smul_eq_mul, Nat.mul_comm]

theorem free_pages_total_congr (cfg : Config) {s s1 : State} (h : s1.free_list = s.free_list) :
    free_pages_total cfg s1 = free_pages_total cfg s := by
  unfold free_pages_total
  rw [h]

theorem pages_of_perm {l l1 : List (Nat × Nat)} (h : l.Perm l1) : pages_of l = pages_of l1 :=
  (h.map _).sum_eq

theorem pages_of_append (l l1 : List (Nat × Nat)) :
    pages_of (l ++ l1) = pages_of l + pages_of l1 := by
  unfold pages_of
  rw [List.map_append, List.sum_append]

theorem pages_of_filter (l : List (Nat × Nat)) (q : Nat × Nat → Bool) :
    pages_of (l.filter q) + pages_of (l.filter (fun b => !q b)) = pages_of l := by
  induction l with
  | nil => rfl
  | cons a l ih =>
    unfold pages_of at ih ⊢
    cases ha : q a
    · rw [List.filter_cons_of_neg (by simp [ha]), List.filter_cons_of_pos (by simp [ha])]
      simp only [List.map_cons, List.sum_cons]
      omega
    · rw [List.filter_cons_of_pos (by simp [ha]), List.filter_cons_of_neg (by simp [ha])]
      simp only [List.map_cons, List.sum_cons]
      omega

theorem pages_of_remove {l : List (Nat × Nat)} {b : Nat × Nat} (hnd : l.Nodup) (h : b ∈ l) :
    pages_of (l.filter (fun x => decide (x ≠ b))) + 2 ^ b.2 = pages_of l := by
  induction l with
  | nil => exact absurd h (List.not_mem_nil b)
  | cons a l ih =>
    rw [List.nodup_cons] at hnd
    by_cases hab : a = b
    · subst hab
      rw [List.filter_cons_of_neg (by simp)]
      have hself : l.filter (fun x => decide (x ≠ a)) = l := by
        rw [List.filter_eq_self]
        intro x hx
        have : x ≠ a := fun hxa => hnd.1 (hxa ▸ hx)
        simpa using this
      rw [hself]
      unfold pages_of
      rw [List.map_cons, List.sum_cons, Nat.add_comm]
    · have hb : b ∈ l := by
        rcases List.mem_cons.1 h with h1 | h1
        · exact absurd h1.symm hab
        · exact h1
      rw [List.filter_cons_of_pos (by simpa using hab)]
      have := ih hnd.2 hb
      unfold pages_of at this ⊢
      rw [List.map_cons, List.sum_cons, List.map_cons, List.sum_cons]
      omega

/-- The upper halves split off from order `o` up to order `o + n` make
`2^(o+n) - 2^o` pages. -/
theorem pages_of_halves (f : Nat → Nat) : ∀ (n o : Nat),
    pages_of ((List.range' o n).map (fun i => (f i, i))) + 2 ^ o = 2 ^ (o + n) := by
  intro n
  induction n with
  | zero => intro o; simp [pages_of]
  | succ n ih =>
    intro o
    rw [List.range'_succ, List.map_cons]
    have h := ih (o + 1)
    unfold pages_of at h ⊢
    rw [List.map_cons, List.sum_cons]
    have e : o + 1 + n = o + (n + 1) := by omega
    rw [e] at h
    have hp : (2 : Nat) ^ (o + 1) = 2 ^ o + 2 ^ o := by rw [Nat.pow_succ]; omega
    show 2 ^ o + _ + 2 ^ o = _
    omega

theorem not_guard_of_debug_off {cfg : Config} (hdbg : cfg.CONFIG_DEBUG_PAGEALLOC = false)
    (zid : Nat) (s : State) (p k : Nat) : ¬ Guard cfg zid s p k := by
  rintro ⟨_, _, h, _⟩
  unfold page_is_guard at h
  rw [hdbg] at h
  exact Bool.noConfusion h

theorem halves_nodup (f : Nat → Nat) (o n : Nat) :
    ((List.range' o n).map (fun i => (f i, i))).Nodup := by
  apply List.Nodup.map
  · intro a b h
    exact (Prod.mk.injEq _ _ _ _ ▸ h : f a = f b ∧ a = b).2
  · exact List.nodup_range' o n

/-- An allocation of order `o` out of a free block of order `k` takes
`2^o` pages off the free lists (no debug guard pages). -/
theorem Taken.total {cfg : Config} {zid : Nat} {s s1 : State} {p o k : Nat}
    (hdbg : cfg.CONFIG_DEBUG_PAGEALLOC = false) (hwf : WF cfg zid s)
    (ht : Taken cfg zid s s1 p o k) (hf : Free s p k) (hok : o ≤ k) :
    free_pages_total cfg s1 + 2 ^ o = free_pages_total cfg s := by
  have hwf1 := ht.1.wf
  have hgl : ∀ i, guard_level cfg i = false := by
    intro i; unfold guard_level; rw [hdbg]; rfl
  have hperm : (free_blocks cfg s1).Perm
      ((free_blocks cfg s).filter (fun b => decide (b ≠ (p, k))) ++
        (List.range' o (k - o)).map (fun i => (p + 2 ^ i, i))) := by
    rw [List.perm_ext_iff_of_nodup (nodup_free_blocks hwf1)]
    · intro b
      obtain ⟨x, i⟩ := b
      rw [mem_free_blocks hwf1, List.mem_append, List.mem_filter,
        mem_free_blocks hwf, ht.2.2.1 x i]
      simp only [List.mem_map, List.mem_range'_1, Prod.mk.injEq, ne_eq, not_and,
        decide_eq_true_eq]
      constructor
      · rintro (⟨h1, h2⟩ | ⟨h1, h2, h3, _⟩)
        · exact Or.inl ⟨h1, fun hx => absurd hx h2⟩
        · exact Or.inr ⟨i, ⟨h1, by omega⟩, h3.symm, rfl⟩
      · rintro (⟨h2, h1⟩ | ⟨j, ⟨h1, h2⟩, h3, h4⟩)
        · refine Or.inl ⟨h2, fun hx => ?_⟩
          subst hx
          have := hwf.disjoint x i x k (Or.inl h2) (Or.inl hf) (Overlap.self x i k)
          exact h1 rfl this.2
        · subst h4
          exact Or.inr ⟨h1, by omega, h3.symm, hgl j⟩
    · rw [List.nodup_append]
      refine ⟨(nodup_free_blocks hwf).filter _, halves_nodup _ _ _, ?_⟩
      intro b hb hb'
      obtain ⟨x, i⟩ := b
      rw [List.mem_filter, mem_free_blocks hwf] at hb
      simp only [List.mem_map, List.mem_range'_1, Prod.mk.injEq] at hb'
      obtain ⟨j, ⟨h1, h2⟩, h3, h4⟩ := hb'
      subst h4
      have hpow : 2 ^ j < 2 ^ k := Nat.pow_lt_pow_right (by decide) (by omega)
      have hpos := Nat.two_pow_pos j
      have hov : Overlap x j p k := by
        unfold Overlap; omega
      have := hwf.disjoint x j p k (Or.inl hb.1) (Or.inl hf) hov
      omega
  rw [free_pages_total_eq, free_pages_total_eq, pages_of_perm hperm, pages_of_append]
  have h1 := pages_of_remove (nodup_free_blocks hwf) ((mem_free_blocks hwf (p, k)).2 hf)
  have h2 := pages_of_halves (fun i => p + 2 ^ i) (k - o) o
  rw [show o + (k - o) = k by omega] at h2
  simp only [] at h1
  omega

/-- Freeing a block of order `o` puts `2^o` more pages on the free lists
(no debug guard pages): the block inserted is the block given together with
the buddies merged on the way, which were on the lists before. -/
theorem free_one_page_total {cfg : Config} {zid : Nat} {s : State} {p o mt : Nat}
    (hdbg : cfg.CONFIG_DEBUG_PAGEALLOC = false) (hp : Pending cfg zid s p o)
    (hc : free_passes s p o) (hm : mt < MIGRATE_TYPES) :
    free_pages_total cfg (__free_one_page cfg s p o mt) = free_pages_total cfg s + 2 ^ o := by
  obtain ⟨hoK, hK, hmerged, _, hwf1, hfree, _, _, _, _⟩ := free_one_page_spec hp hc hm
  generalize free_order cfg s p o = K at hoK hK hmerged hfree
  generalize __free_one_page cfg s p o mt = s1 at hwf1 hfree ⊢
  have hwf := hp.wf
  have hbs : block_start p o = p := block_start_of_dvd p o hp.ok.2.1
  have hov_iff : ∀ (b : Nat × Nat),
      (decide (block_start p K < b.1 + 2 ^ b.2) && decide (b.1 < block_start p K + 2 ^ K)) = true
        ↔ Overlap (block_start p K) K b.1 b.2 := by
    intro b
    unfold Overlap
    simp only [Bool.and_eq_true, decide_eq_true_eq]
  have hperm1 : (free_blocks cfg s1).Perm
      ((block_start p K, K) :: (free_blocks cfg s).filter (fun b =>
        !(decide (block_start p K < b.1 + 2 ^ b.2) &&
          decide (b.1 < block_start p K + 2 ^ K)))) := by
    rw [List.perm_ext_iff_of_nodup (nodup_free_blocks hwf1)]
    · intro b
      rw [mem_free_blocks hwf1, List.mem_cons, List.mem_filter, mem_free_blocks hwf, hfree,
        Bool.not_eq_true', ← Bool.not_eq_true, hov_iff]
      obtain ⟨x, i⟩ := b
      simp only [Prod.mk.injEq]
      exact Or.comm
    · rw [List.nodup_cons]
      refine ⟨?_, (nodup_free_blocks hwf).filter _⟩
      rw [List.mem_filter, Bool.not_eq_true', ← Bool.not_eq_true, hov_iff]
      exact fun h => h.2 (Overlap.self _ _ _)
  have hperm2 : ((free_blocks cfg s).filter (fun b =>
        !(!(decide (block_start p K < b.1 + 2 ^ b.2) &&
          decide (b.1 < block_start p K + 2 ^ K))))).Perm
      ((List.range' o (K - o)).map
        (fun j => (__find_buddy_index (block_start p j) j, j))) := by
    rw [List.perm_ext_iff_of_nodup ((nodup_free_blocks hwf).filter _) (halves_nodup _ _ _)]
    intro b
    rw [List.mem_filter, mem_free_blocks hwf, Bool.not_not, hov_iff]
    obtain ⟨x, i⟩ := b
    simp only [List.mem_map, List.mem_range'_1, Prod.mk.injEq]
    constructor
    · rintro ⟨hf, hov⟩
      obtain ⟨y, hy1, hy2⟩ := (overlap_iff_frame _ _ _ _).1 hov
      rcases (merge_range_split p o y K hoK).1 hy1 with h | ⟨j, h1, h2, h3⟩
      · rw [hbs] at h
        exact absurd ((overlap_iff_frame p o x i).2 ⟨y, h, hy2⟩) (hp.apart x i (Or.inl hf))
      · have hb := hmerged j h1 h2
        have := hwf.disjoint _ _ _ _ hb (Or.inl hf) ((overlap_iff_frame _ _ _ _).2 ⟨y, h3, hy2⟩)
        exact ⟨j, ⟨h1, by omega⟩, this.1, this.2⟩
    · rintro ⟨j, ⟨h1, h2⟩, h3, h4⟩
      subst h4
      subst h3
      have hj : j < K := by omega
      have hb := hmerged j h1 hj
      have hfr : Free s (__find_buddy_index (block_start p j) j) j := by
        rcases hb with h | h
        · exact h
        · exact absurd h (not_guard_of_debug_off hdbg _ _ _ _)
      refine ⟨hfr, ?_⟩
      have := buddy_in_block p j K hj
      have hpos := Nat.two_pow_pos j
      unfold Overlap
      omega
  rw [free_pages_total_eq, free_pages_total_eq, pages_of_perm hperm1]
  have h1 := pages_of_filter (free_blocks cfg s) (fun b =>
        !(decide (block_start p K < b.1 + 2 ^ b.2) &&
          decide (b.1 < block_start p K + 2 ^ K)))
  rw [pages_of_perm hperm2] at h1
  have h2 := pages_of_halves (fun j => __find_buddy_index (block_start p j) j) (K - o) o
  rw [show o + (K - o) = K by omega] at h2
  have h3 : pages_of ((block_start p K, K) :: (free_blocks cfg s).filter (fun b =>
        !(decide (block_start p K < b.1 + 2 ^ b.2) &&
          decide (b.1 < block_start p K + 2 ^ K)))) =
      2 ^ K + pages_of ((free_blocks cfg s).filter (fun b =>
        !(decide (block_start p K < b.1 + 2 ^ b.2) &&
          decide (b.1 < block_start p K + 2 ^ K)))) := by
    unfold pages_of
    rw [List.map_cons, List.sum_cons]
  rw [h3]
  omega

/-! ## `present_pages` on the allocation path -/

theorem expand_present (cfg : Config) (page low migratetype : Nat) :
    ∀ (high area size : Nat) (s : State),
      (expand cfg page low migratetype high area size s).present_pages = s.present_pages := by
  intro high
  induction high with
  | zero => intro area size s; rfl
  | succ high ih =>
    intro area size s
    rw [expand]
    split
    · simp only []
      split
      · rw [ih]
        unfold mod_free_pages set_page_private set_page_guard_flag
        split <;> rfl
      · rw [ih]; rfl
    · rfl

theorem rmqueue_smallest_loop_present (cfg : Config) (s : State) (order migratetype : Nat) :
    ∀ (n current_order : Nat),
      (rmqueue_smallest_loop cfg s order migratetype n current_order).2.present_pages =
        s.present_pages := by
  intro n
  induction n with
  | zero => intro c; rfl
  | succ n ih =>
    intro c
    rw [rmqueue_smallest_loop]
    split
    · split
      · exact ih _
      · simp only []
        rw [expand_present]
        rfl
    · rfl

theorem rmqueue_smallest_present (cfg : Config) (s : State) (order migratetype : Nat) :
    (__rmqueue_smallest cfg s order migratetype).2.present_pages = s.present_pages :=
  rmqueue_smallest_loop_present cfg s order migratetype _ _

theorem move_freepages_loop_present (cfg : Config) (end_page migratetype : Nat) :
    ∀ (n page : Nat) (r : State × Nat),
      (move_freepages_loop cfg end_page migratetype n page r).1.present_pages =
        r.1.present_pages := by
  intro n
  induction n with
  | zero => intro page r; rfl
  | succ n ih =>
    intro page r
    obtain ⟨s, moved⟩ := r
    rw [move_freepages_loop]
    split
    · split
      · exact ih _ _
      · split
        · exact ih _ _
        · simp only []
          rw [ih]
          rfl
    · rfl

theorem move_freepages_present {cfg : Config} {s : State}
    {start_page end_page migratetype : Nat}
    {r : State × Nat} (h : move_freepages cfg s start_page end_page migratetype = some r) :
    r.1.present_pages = s.present_pages := by
  unfold move_freepages at h
  split at h
  · cases h
  · cases h
    exact move_freepages_loop_present cfg _ _ _ _ _

theorem move_freepages_block_present {cfg : Config} {s : State} {page migratetype : Nat}
    {r : State × Nat} (h : move_freepages_block cfg s page migratetype = some r) :
    r.1.present_pages = s.present_pages := by
  unfold move_freepages_block at h
  simp only [] at h
  split at h
  · cases h; rfl
  · exact move_freepages_present h

theorem change_pageblock_loop_present (cfg : Config) (migratetype : Nat) :
    ∀ (n page : Nat) (s : State),
      (change_pageblock_loop cfg migratetype n page s).present_pages = s.present_pages := by
  intro n
  induction n with
  | zero => intro page s; rfl
  | succ n ih =>
    intro page s
    rw [change_pageblock_loop, ih]
    rfl

theorem fallback_take_present {cfg : Config} {s : State}
    {order start_migratetype current_order migratetype : Nat} {r : Option Nat × State}
    (h : fallback_take cfg s order start_migratetype current_order migratetype = some r) :
    r.2.present_pages = s.present_pages := by
  unfold fallback_take at h
  split at h
  · cases h; rfl
  · simp only [] at h
    split at h
    · cases h
    · rename_i s3 mt hst
      cases h
      simp only []
      rw [expand_present]
      have h3 : s3.present_pages = s.present_pages := by
        split at hst
        · split at hst
          · cases hst
          · rename_i s2 pages hmv
            have := move_freepages_block_present hmv
            split at hst
            · cases hst; exact this
            · cases hst; exact this
        · cases hst; rfl
      split
      · unfold change_pageblock_range
        rw [change_pageblock_loop_present]
        exact h3
      · exact h3

theorem rmqueue_fallback_loop_present (cfg : Config) (s : State) (order start_migratetype : Nat) :
    ∀ (n : Nat) (r : Option Nat × State),
      rmqueue_fallback_loop cfg s order start_migratetype n = some r →
      r.2.present_pages = s.present_pages := by
  intro n
  induction n with
  | zero => intro r h; rw [rmqueue_fallback_loop] at h; cases h; rfl
  | succ n ih =>
    intro r h
    rw [rmqueue_fallback_loop] at h
    split at h
    · split at h
      · exact fallback_take_present h
      · exact ih r h
    · cases h; rfl

theorem rmqueue_present {cfg : Config} {s : State} {order migratetype : Nat}
    {r : Option Nat × State} (h : __rmqueue cfg s order migratetype = some r) :
    r.2.present_pages = s.present_pages := by
  unfold __rmqueue at h
  have h1 := rmqueue_smallest_present cfg s order migratetype
  split at h
  · rename_i page s1 hq
    cases h
    rw [hq] at h1
    exact h1
  · rename_i s1 hq
    rw [hq] at h1
    split at h
    · split at h
      · cases h
      · rename_i page s2 hf
        cases h
        exact (rmqueue_fallback_loop_present cfg s1 order migratetype _ _ hf).trans h1
      · rename_i s2 hf
        cases h
        rw [rmqueue_smallest_present]
        exact (rmqueue_fallback_loop_present cfg s1 order migratetype _ _ hf).trans h1
    · cases h
      exact h1

theorem rmqueue_bulk_loop_present (cfg : Config) (order migratetype cold len0 : Nat) :
    ∀ (n i : Nat) (z : State) (l : List Nat) (r : Nat × State × List Nat),
      rmqueue_bulk_loop cfg order migratetype cold len0 n i z l = some r →
      r.2.1.present_pages = z.present_pages := by
  intro n
  induction n with
  | zero => intro i z l r h; rw [rmqueue_bulk_loop] at h; cases h; rfl
  | succ n ih =>
    intro i z l r h
    rw [rmqueue_bulk_loop] at h
    cases hq : __rmqueue cfg z order migratetype with
    | none => rw [hq] at h; cases h
    | some t =>
      obtain ⟨res, z1⟩ := t
      rw [hq] at h
      have h1 := rmqueue_present hq
      cases res with
      | none => cases h; exact h1
      | some page => exact (ih _ _ _ _ h).trans h1

theorem rmqueue_bulk_present {cfg : Config} {z : State} {order count : Nat} {l : List Nat}
    {migratetype cold : Nat} {r : Nat × State × List Nat}
    (h : rmqueue_bulk cfg z order count l migratetype cold = some r) :
    r.2.1.present_pages = z.present_pages := by
  unfold rmqueue_bulk at h
  cases hq : rmqueue_bulk_loop cfg order migratetype cold l.length count 0 z l with
  | none => rw [hq] at h; cases h
  | some t =>
    obtain ⟨i, z1, l1⟩ := t
    rw [hq] at h
    cases h
    exact rmqueue_bulk_loop_present cfg order migratetype cold l.length count 0 z l
      (i, z1, l1) hq

/-- `prep_new_page` writes page descriptors only. -/
theorem check_new_page_loop_frame (page : Nat) : ∀ (n i : Nat) (s0 s : State),
    (∃ mm, s = { s0 with mem_map := mm }) →
    ∃ mm, (check_new_page_loop page n i s).1 = { s0 with mem_map := mm } := by
  intro n
  induction n with
  | zero => intro i s0 s h; exact h
  | succ n ih =>
    intro i s0 s h
    obtain ⟨mm, hmm⟩ := h
    have hc : ∃ mm1, (check_new_page s (page + i)).1 = { s0 with mem_map := mm1 } := by
      unfold check_new_page
      split
      · exact ⟨_, by rw [hmm]; rfl⟩
      · exact ⟨mm, hmm⟩
    rw [check_new_page_loop]
    split
    · exact hc
    · exact ih _ _ _ hc

theorem prep_compound_loop_frame (page : Nat) : ∀ (n i : Nat) (s0 s : State),
    (∃ mm, s = { s0 with mem_map := mm }) →
    ∃ mm, prep_compound_loop page n i s = { s0 with mem_map := mm } := by
  intro n
  induction n with
  | zero => intro i s0 s h; exact h
  | succ n ih =>
    intro i s0 s h
    obtain ⟨mm, hmm⟩ := h
    rw [prep_compound_loop]
    exact ih _ _ _ ⟨_, by rw [hmm]⟩

theorem prep_new_page_frame (g : GfpMasks) (s : State) (page order gfp_flags : Nat) :
    ∃ mm, (prep_new_page g s page order gfp_flags).1 = { s with mem_map := mm } := by
  unfold prep_new_page
  obtain ⟨mm, hmm⟩ := check_new_page_loop_frame page (1 <<< order) 0 s s ⟨s.mem_map, rfl⟩
  simp only []
  split
  · exact ⟨mm, hmm⟩
  · split
    · unfold prep_compound_page
      simp only []
      apply prep_compound_loop_frame
      exact ⟨_, by rw [hmm]; rfl⟩
    · exact ⟨_, by rw [hmm]; rfl⟩

/-! ## Conservation on the allocation path -/

/-- Writing the `private` field of a page in use changes nothing the buddy
system looks at. -/
theorem set_private_view {cfg : Config} {zid : Nat} {s : State} {p o : Nat}
    (hp : Pending cfg zid s p o) (v : Nat) (x : Nat) :
    SameFlags cfg s (set_page_private s p v) x := by
  by_cases hx : x = p
  · subst hx
    have hun := hp.unflagged (Nat.le_refl x) (Nat.lt_add_of_pos_right (Nat.two_pow_pos o))
    refine ⟨?_, ?_, ?_⟩
    · simp [set_page_private, upd, PageBuddy]
    · simp [set_page_private, upd, page_is_guard]
    · intro h
      rcases h with h | h
      · rw [hun.1] at h; exact Bool.noConfusion h
      · rw [hun.2] at h; exact Bool.noConfusion h
  · have : (set_page_private s p v).mem_map x = s.mem_map x := by
      simp [set_page_private, upd, hx]
    rw [SameFlags, this]
    exact ⟨rfl, rfl, fun _ => rfl⟩

/-- `__rmqueue` on a well-formed zone without debug guard pages: the zone
stays well formed; a page returned heads a block in use, and `2^order` pages
left the free lists; with `NULL` the zone is as before. -/
theorem rmqueue_total {cfg : Config} {zid : Nat} {s : State} {o mt : Nat}
    (hdbg : cfg.CONFIG_DEBUG_PAGEALLOC = false) (hwf : WF cfg zid s)
    (hm : mt < MIGRATE_TYPES) {r : Option Nat × State}
    (h : __rmqueue cfg s o mt = some r) :
    WF cfg zid r.2 ∧
    (∀ p, r.1 = some p → Pending cfg zid r.2 p o ∧
      free_pages_total cfg r.2 + 2 ^ o = free_pages_total cfg s) ∧
    (r.1 = none → r.2 = s) := by
  have hsm : ∀ (m : Nat), m < MIGRATE_TYPES →
      WF cfg zid (__rmqueue_smallest cfg s o m).2 ∧
      (∀ p, (__rmqueue_smallest cfg s o m).1 = some p →
        Pending cfg zid (__rmqueue_smallest cfg s o m).2 p o ∧
          free_pages_total cfg (__rmqueue_smallest cfg s o m).2 + 2 ^ o =
            free_pages_total cfg s) ∧
      ((__rmqueue_smallest cfg s o m).1 = none → (__rmqueue_smallest cfg s o m).2 = s) := by
    intro m hm'
    obtain ⟨a, b⟩ := @rmqueue_smallest_wf cfg zid s o m hwf hm'
    refine ⟨rmqueue_smallest_keeps_wf o m hwf hm', ?_, b⟩
    intro p hp
    obtain ⟨k, k1, _, k3, k4, k5, k6, k7⟩ := a p hp
    exact ⟨k4, Taken.total hdbg hwf ⟨k4, k5, k6, k7⟩ ⟨m, k3⟩ k1⟩
  unfold __rmqueue at h
  obtain ⟨a1, a2, a3⟩ := hsm mt hm
  split at h
  · rename_i page s1 hq
    cases h
    rw [hq] at a1 a2
    exact ⟨a1, fun p hp => a2 p hp, fun hn => Option.noConfusion hn⟩
  · rename_i s1 hq
    rw [hq] at a1 a3
    have hs1 : s1 = s := a3 rfl
    subst hs1
    split at h
    · split at h
      · cases h
      · rename_i page s2 hf
        cases h
        obtain ⟨b1, _⟩ := rmqueue_fallback_wf hwf hm _ hf
        obtain ⟨k, mt', k1, _, k3, k4⟩ := b1 page rfl
        refine ⟨k4.1.wf, ?_, fun hn => Option.noConfusion hn⟩
        intro p hp
        cases hp
        exact ⟨k4.1, Taken.total hdbg hwf k4 ⟨mt', k3⟩ k1⟩
      · rename_i s2 hf
        cases h
        obtain ⟨_, b2⟩ := rmqueue_fallback_wf hwf hm _ hf
        have hs2 : s2 = s1 := b2 rfl
        subst hs2
        exact hsm MIGRATE_RESERVE (by decide)
    · cases h
      exact ⟨hwf, fun p hp => Option.noConfusion hp, fun _ => rfl⟩

theorem rmqueue_bulk_loop_total {cfg : Config} {zid : Nat}
    (hdbg : cfg.CONFIG_DEBUG_PAGEALLOC = false) (order migratetype cold len0 : Nat)
    (hm : migratetype < MIGRATE_TYPES) :
    ∀ (n i : Nat) (z : State) (l : List Nat) (r : Nat × State × List Nat),
      WF cfg zid z →
      rmqueue_bulk_loop cfg order migratetype cold len0 n i z l = some r →
      WF cfg zid r.2.1 ∧
        free_pages_total cfg r.2.1 + r.1 * 2 ^ order =
          free_pages_total cfg z + i * 2 ^ order := by
  intro n
  induction n with
  | zero =>
    intro i z l r hwf h
    rw [rmqueue_bulk_loop] at h
    cases h
    exact ⟨hwf, rfl⟩
  | succ n ih =>
    intro i z l r hwf h
    rw [rmqueue_bulk_loop] at h
    cases hq : __rmqueue cfg z order migratetype with
    | none => rw [hq] at h; cases h
    | some t =>
      obtain ⟨res, z1⟩ := t
      rw [hq] at h
      obtain ⟨a1, a2, a3⟩ := rmqueue_total hdbg hwf hm hq
      cases res with
      | none =>
        cases h
        have : z1 = z := a3 rfl
        subst this
        exact ⟨hwf, rfl⟩
      | some page =>
        obtain ⟨b1, b2⟩ := a2 page rfl
        have hview := b1.of_same_view (set_page_private_static z1 page migratetype) rfl
          (set_private_view b1 migratetype)
        obtain ⟨c1, c2⟩ := ih _ _ _ _ hview.wf h
        refine ⟨c1, ?_⟩
        have e : free_pages_total cfg (set_page_private z1 page migratetype) =
            free_pages_total cfg z1 := free_pages_total_congr cfg rfl
        rw [e] at c2
        simp only [] at b2
        rw [Nat.add_mul, Nat.one_mul] at c2
        omega

/-- `rmqueue_bulk` on a well-formed zone without debug guard pages: the
zone stays well formed, and the `i` blocks placed on the list are
`i * 2^order` pages that left the free lists. -/
theorem rmqueue_bulk_total {cfg : Config} {zid : Nat} {z : State} {order count : Nat}
    {l : List Nat} {migratetype cold : Nat}
    (hdbg : cfg.CONFIG_DEBUG_PAGEALLOC = false) (hwf : WF cfg zid z)
    (hm : migratetype < MIGRATE_TYPES) {r : Nat × State × List Nat}
    (h : rmqueue_bulk cfg z order count l migratetype cold = some r) :
    WF cfg zid r.2.1 ∧
      free_pages_total cfg r.2.1 + r.1 * 2 ^ order = free_pages_total cfg z := by
  unfold rmqueue_bulk at h
  cases hq : rmqueue_bulk_loop cfg order migratetype cold l.length count 0 z l with
  | none => rw [hq] at h; cases h
  | some t =>
    obtain ⟨i, z1, l1⟩ := t
    rw [hq] at h
    cases h
    obtain ⟨a1, a2⟩ := rmqueue_bulk_loop_total hdbg order migratetype cold l.length hm
      count 0 z l (i, z1, l1) hwf hq
    simp only [Nat.zero_mul, Nat.add_zero] at a2
    refine ⟨?_, ?_⟩
    · exact (@WF.of_eq_view cfg zid z1 (mod_free_pages z1 (-((i <<< order : Nat) : Int))) a1
        rfl rfl rfl rfl rfl).1
    · rw [free_pages_total_congr cfg (rfl : (mod_free_pages z1 _).free_list = z1.free_list)]
      exact a2

/-- One pass of `buffered_rmqueue` at an order above 0: `__rmqueue` is
called; the pass fails if it returns `NULL`, and else the page is counted
off `NR_FREE_PAGES` and handed to `prep_new_page`. -/
theorem buffered_rmqueue_pass_high {cfg : Config} {g : GfpMasks} {z : State}
    {pcp : per_cpu_pages} {order gfp_flags migratetype : Nat}
    {r : PassOutcome × State × per_cpu_pages} (ho : order ≠ 0)
    (h : buffered_rmqueue_pass cfg g z pcp order gfp_flags migratetype = some r) :
    r.2.2 = pcp ∧
    ∃ res z1, __rmqueue cfg z order migratetype = some (res, z1) ∧
      ((res = none ∧ r.1 = PassOutcome.failed ∧ r.2.1 = z1) ∨
        ∃ page, res = some page ∧
          r.2.1 = (prep_new_page g (mod_free_pages z1 (-((1 <<< order : Nat) : Int)))
            page order gfp_flags).1 ∧
          r.1 = (if (prep_new_page g (mod_free_pages z1 (-((1 <<< order : Nat) : Int)))
              page order gfp_flags).2 != 0 then PassOutcome.again
            else PassOutcome.got page)) := by
  unfold buffered_rmqueue_pass at h
  have ho' : (order == 0) = false := by simpa using ho
  simp only [ho', Bool.false_eq_true, if_false] at h
  cases hq : __rmqueue cfg z order migratetype with
  | none => rw [hq] at h; simp at h
  | some t =>
    obtain ⟨res, z1⟩ := t
    rw [hq] at h
    cases res with
    | none =>
      simp only [Option.some.injEq] at h
      subst h
      exact ⟨rfl, none, z1, rfl, Or.inl ⟨rfl, rfl, rfl⟩⟩
    | some page =>
      simp only [] at h
      split at h
      · cases h
        rename_i hbad
        exact ⟨rfl, some page, z1, rfl, Or.inr ⟨page, rfl, rfl, by rw [if_pos hbad]⟩⟩
      · cases h
        rename_i hbad
        exact ⟨rfl, some page, z1, rfl, Or.inr ⟨page, rfl, rfl, by rw [if_neg hbad]⟩⟩

/-! ## Conservation on the drain path -/

/-- Freeing block `(p, o)` leaves a page `q` in use outside the block as it
was: in use, with the same descriptor (no debug guard pages). -/
theorem free_one_page_other {cfg : Config} {zid : Nat} {s : State} {p o mt q : Nat}
    (hdbg : cfg.CONFIG_DEBUG_PAGEALLOC = false) (hp : Pending cfg zid s p o)
    (hpl : PageCompound (s.mem_map p) = false) (hm : mt < MIGRATE_TYPES)
    (hq : Pending cfg zid s q 0) (hne : ¬ (p ≤ q ∧ q < p + 2 ^ o)) :
    Pending cfg zid (__free_one_page cfg s p o mt) q 0 ∧
      (__free_one_page cfg s p o mt).mem_map q = s.mem_map q := by
  have hc : free_passes s p o := fun h => by rw [hpl] at h; exact Bool.noConfusion h
  obtain ⟨hoK, hK, hmerged, _, hwf1, hfree, _, hst, _, _⟩ := free_one_page_spec hp hc hm
  have hentry : free_entry s p o = s := by
    unfold free_entry; rw [hpl]; rfl
  have hKeq : free_order cfg s p o = (free_vars_final cfg s p o).order := by
    unfold free_order free_merged_order; rw [hentry]
  have hbs : block_start p o = p := block_start_of_dvd p o hp.ok.2.1
  have hout : ¬ (block_start p (free_order cfg s p o) ≤ q ∧
      q < block_start p (free_order cfg s p o) + 2 ^ free_order cfg s p o) := by
    intro hin
    rcases (merge_range_split p o q _ hoK).1 hin with h | ⟨j, h1, h2, h3⟩
    · rw [hbs] at h; exact hne h
    · exact hq.apart _ _ (hmerged j h1 h2)
        ((overlap_iff_frame q 0 _ j).2 ⟨q, ⟨Nat.le_refl q, by simp⟩, h3⟩)
  constructor
  · refine ⟨hwf1, hst.blockOK hq.ok, ?_⟩
    intro x i hb hov
    rcases hb with hb | hb
    · rcases (hfree x i).1 hb with ⟨h1, _⟩ | ⟨h1, h2⟩
      · exact hq.apart x i (Or.inl h1) hov
      · subst h1 h2
        obtain ⟨y, ⟨y1, y2⟩, y3⟩ := (overlap_iff_frame q 0 _ _).1 hov
        have : y = q := by simp at y2; omega
        subst this
        exact hout y3
    · exact not_guard_of_debug_off hdbg _ _ _ _ hb
  · obtain ⟨hinv, _, _⟩ := free_vars_final_spec hp
    rw [free_one_page_not_compound cfg s p o mt hpl, free_one_page_core_eq]
    rw [hKeq] at hout
    rw [← hinv.page_eq] at hout
    have hqv : q ≠ (free_vars_final cfg s p o).page := by
      intro h
      apply hout
      rw [← h]
      exact ⟨Nat.le_refl q, Nat.lt_add_of_pos_right (Nat.two_pow_pos _)⟩
    have hfr := hinv.frame q (by omega)
    generalize free_vars_final cfg s p o = v at *
    have : ∀ (t : State), t.mem_map = (set_page_order v.s v.page v.order).mem_map →
        t.mem_map q = s.mem_map q := by
      intro t ht
      rw [ht]
      simp only [set_page_order, upd, if_neg hqv]
      exact hfr
    apply this
    unfold nr_free_inc
    split <;> rfl

/-- One step of a drain on a zone without debug guard pages: the page at
the tail of a per-CPU list goes to the free lists, which gain one page; the
pages that stay on the per-CPU lists are as the buddy system must find
them. -/
theorem pcp_drain_step {cfg : Config} {zid : Nat} {z : State} {pcp : per_cpu_pages}
    {m page : Nat} (hdbg : cfg.CONFIG_DEBUG_PAGEALLOC = false) (hok : PcpOK cfg zid z pcp)
    (hm : m < MIGRATE_PCPTYPES) (hlast : (pcp.lists m).getLast? = some page) :
    PcpOK cfg zid (__free_one_page cfg z page 0 (z.mem_map page).private_)
      { pcp with lists := (upd pcp.lists m (pcp.lists m).dropLast) } ∧
    free_pages_total cfg (__free_one_page cfg z page 0 (z.mem_map page).private_) =
      free_pages_total cfg z + 1 := by
  have hsplit : pcp.lists m = (pcp.lists m).dropLast ++ [page] :=
    (List.dropLast_append_getLast? page hlast).symm
  have hpage : page ∈ pcp.lists m := by
    rw [hsplit]; simp
  have hnot : page ∉ (pcp.lists m).dropLast := by
    have hnd := hok.nodup m hm
    rw [hsplit, List.nodup_append] at hnd
    intro h
    exact hnd.2.2 h (List.mem_singleton_self page)
  have hp := hok.pend m hm page hpage
  have hpl := hok.plain m hm page hpage
  have hcl := hok.cls m hm page hpage
  have hc : free_passes z page 0 := fun h => by rw [hpl] at h; exact Bool.noConfusion h
  have hmem : ∀ m' q, m' < MIGRATE_PCPTYPES →
      q ∈ upd pcp.lists m (pcp.lists m).dropLast m' → q ∈ pcp.lists m' ∧ q ≠ page := by
    intro m' q hm' hq
    unfold upd at hq
    by_cases hmm : m' = m
    · rw [if_pos hmm] at hq
      subst hmm
      exact ⟨List.mem_of_mem_dropLast hq, fun h => hnot (h ▸ hq)⟩
    · rw [if_neg hmm] at hq
      refine ⟨hq, fun h => hmm ?_⟩
      subst h
      exact hok.one_list m' m q hm' hm hq hpage
  have hother : ∀ m' q, m' < MIGRATE_PCPTYPES →
      q ∈ upd pcp.lists m (pcp.lists m).dropLast m' →
      Pending cfg zid (__free_one_page cfg z page 0 (z.mem_map page).private_) q 0 ∧
        (__free_one_page cfg z page 0 (z.mem_map page).private_).mem_map q = z.mem_map q := by
    intro m' q hm' hq
    obtain ⟨h1, h2⟩ := hmem m' q hm' hq
    apply free_one_page_other hdbg hp hpl hcl (hok.pend m' hm' q h1)
    simp only [Nat.pow_zero]
    omega
  refine ⟨⟨(free_one_page_spec hp hc hcl).2.2.2.2.1, ?_, ?_, ?_, ?_, ?_⟩, ?_⟩
  · intro m' hm' q hq
    exact (hother m' q hm' hq).1
  · intro m' hm' q hq
    rw [(hother m' q hm' hq).2]
    exact hok.plain m' hm' q (hmem m' q hm' hq).1
  · intro m' hm' q hq
    rw [(hother m' q hm' hq).2]
    exact hok.cls m' hm' q (hmem m' q hm' hq).1
  · intro m' hm'
    show (upd pcp.lists m (pcp.lists m).dropLast m').Nodup
    unfold upd
    split
    · exact (hok.nodup m hm).sublist (List.dropLast_sublist _)
    · exact hok.nodup m' hm'
  · intro m1 m2 q h1 h2 hq1 hq2
    exact hok.one_list m1 m2 q h1 h2 (hmem m1 q h1 hq1).1 (hmem m2 q h2 hq2).1
  · have := free_one_page_total hdbg hp hc hcl
    simpa using this

/-- A drain on a zone without debug guard pages moves pages from the
per-CPU lists to the free lists: the sum of the two counts stays. -/
theorem Drained.conserved {cfg : Config} {zid : Nat} {d : Nat} {z z2 : State}
    {pcp pcp2 : per_cpu_pages} (hdbg : cfg.CONFIG_DEBUG_PAGEALLOC = false)
    (h : Drained cfg d z pcp z2 pcp2) (hok : PcpOK cfg zid z pcp) :
    PcpOK cfg zid z2 pcp2 ∧
      free_pages_total cfg z2 + pcp_pages pcp2 = free_pages_total cfg z + pcp_pages pcp := by
  induction h with
  | zero z pcp => exact ⟨hok, rfl⟩
  | succ d m z pcp page z2 pcp2 hm hlast hrest ih =>
    obtain ⟨a1, a2⟩ := pcp_drain_step hdbg hok hm hlast
    obtain ⟨b1, b2⟩ := ih a1
    refine ⟨b1, ?_⟩
    have hone : Drained cfg 1 z pcp
        (__free_one_page cfg z page 0 (z.mem_map page).private_)
        { pcp with lists := (upd pcp.lists m (pcp.lists m).dropLast) } :=
      Drained.succ 0 m z pcp page _ _ hm hlast (Drained.zero _ _)
    have := hone.pcp_fields.1
    omega

/-- `free_pcppages_bulk` on a zone without debug guard pages, for a count
the lists can meet: it returns, and what left the per-CPU lists is on the
free lists; `present_pages` is not written. -/
theorem free_pcppages_bulk_total {cfg : Config} {zid : Nat} {z : State}
    {pcp : per_cpu_pages} (hdbg : cfg.CONFIG_DEBUG_PAGEALLOC = false)
    (hok : PcpOK cfg zid z pcp) (count : Int) (h0 : 0 ≤ count)
    (hle : count ≤ (pcp_pages pcp : Int)) :
    ∃ r, free_pcppages_bulk cfg z count pcp = some r ∧
      free_pages_total cfg r.1 + pcp_pages r.2 = free_pages_total cfg z + pcp_pages pcp ∧
      r.1.present_pages = z.present_pages ∧
      (pcp_pages pcp : Int) = (pcp_pages r.2 : Int) + count ∧
      r.2.count = pcp.count ∧ r.2.high = pcp.high ∧ r.2.batch = pcp.batch := by
  obtain ⟨z1, pcp1, d, e1, e2, e3⟩ := free_pcppages_bulk_returns cfg z count pcp h0 hle
  obtain ⟨_, a2⟩ := e3.conserved hdbg hok
  obtain ⟨f1, f2, f3, f4⟩ := e3.pcp_fields
  refine ⟨_, e1, ?_, e3.present, ?_, f2, f3, f4⟩
  · rw [free_pages_total_congr cfg (rfl : (mod_free_pages z1 count).free_list = z1.free_list)]
    exact a2
  · rw [← e2]
    exact_mod_cast f1

/-! ## Conservation on the order-0 free path -/

theorem SameBuddyFields.same (a : Page) : SameBuddyFields a a :=
  ⟨rfl, rfl, rfl, rfl, rfl, rfl, rfl⟩

theorem SameBuddyFields.chain {a b c : Page} (h1 : SameBuddyFields a b)
    (h2 : SameBuddyFields b c) : SameBuddyFields a c :=
  ⟨h1.1.trans h2.1, h1.2.1.trans h2.2.1, h1.2.2.1.trans h2.2.2.1,
    h1.2.2.2.1.trans h2.2.2.2.1, h1.2.2.2.2.1.trans h2.2.2.2.2.1,
    h1.2.2.2.2.2.1.trans h2.2.2.2.2.2.1, h1.2.2.2.2.2.2.trans h2.2.2.2.2.2.2⟩

/-- A page that passes `free_pages_check` keeps every field the buddy
system reads. -/
theorem free_pages_check_pass (s : State) (page : Nat)
    (h : (free_pages_check s page).2 = 0) :
    ∃ mm, (free_pages_check s page).1 = { s with mem_map := mm } ∧
      ∀ x, SameBuddyFields (mm x) (s.mem_map x) := by
  unfold free_pages_check at h ⊢
  split
  · rename_i hc
    rw [if_pos hc] at h
    cases h
  · split
    · refine ⟨_, rfl, fun x => ?_⟩
      unfold upd
      split
      · rename_i hx
        subst hx
        exact ⟨rfl, rfl, rfl, rfl, rfl, rfl, rfl⟩
      · exact SameBuddyFields.same _
    · exact ⟨s.mem_map, rfl, fun x => SameBuddyFields.same _⟩

theorem free_pages_check_loop_pass (page : Nat) : ∀ (n i : Nat) (s : State) (bad : Nat),
    (free_pages_check_loop page n i (s, bad)).2 = 0 →
    ∃ mm, (free_pages_check_loop page n i (s, bad)).1 = { s with mem_map := mm } ∧
      ∀ x, SameBuddyFields (mm x) (s.mem_map x) := by
  intro n
  induction n with
  | zero =>
    intro i s bad _
    exact ⟨s.mem_map, rfl, fun x => SameBuddyFields.same _⟩
  | succ n ih =>
    intro i s bad h
    rw [free_pages_check_loop] at h ⊢
    obtain ⟨mm1, e1, f1⟩ := ih _ _ _ h
    have hbad : bad + (free_pages_check s (page + i)).2 = 0 := by
      by_contra hne
      have hmono : ∀ (n i : Nat) (s : State) (b : Nat),
          b ≤ (free_pages_check_loop page n i (s, b)).2 := by
        intro n
        induction n with
        | zero => intro i s b; exact Nat.le_refl _
        | succ n ihn =>
          intro i s b
          rw [free_pages_check_loop]
          exact Nat.le_trans (Nat.le_add_right _ _) (ihn _ _ _)
      have := hmono n (i + 1) (free_pages_check s (page + i)).1
        (bad + (free_pages_check s (page + i)).2)
      omega
    obtain ⟨mm0, e0, f0⟩ := free_pages_check_pass s (page + i) (by omega)
    refine ⟨mm1, ?_, ?_⟩
    · rw [e1, e0]
    · intro x
      have := f1 x
      rw [e0] at this
      exact this.chain (f0 x)

/-- A block that passes `free_pages_prepare` keeps, in every page, the
fields the buddy system reads; nothing but page descriptors is written. -/
theorem free_pages_prepare_keep (s : State) (page order : Nat)
    (h : (free_pages_prepare s page order).2 = true) :
    ∃ mm, (free_pages_prepare s page order).1 = { s with mem_map := mm } ∧
      ∀ x, SameBuddyFields (mm x) (s.mem_map x) := by
  unfold free_pages_prepare at h ⊢
  simp only [] at h ⊢
  have h1 : ∃ mm1, (if PageAnon (s.mem_map page) = true then
      ({ s with mem_map := upd s.mem_map page { s.mem_map page with mapping := 0 } } : State)
      else s) = { s with mem_map := mm1 } ∧ ∀ x, SameBuddyFields (mm1 x) (s.mem_map x) := by
    split
    · refine ⟨_, rfl, fun x => ?_⟩
      unfold upd
      split
      · rename_i hx
        subst hx
        exact ⟨rfl, rfl, rfl, rfl, rfl, rfl, rfl⟩
      · exact SameBuddyFields.same _
    · exact ⟨s.mem_map, rfl, fun x => SameBuddyFields.same _⟩
  obtain ⟨mm1, e1, f1⟩ := h1
  rw [e1] at h ⊢
  have hpass : (free_pages_check_loop page (1 <<< order) 0
      (({ s with mem_map := mm1 } : State), 0)).2 = 0 := by
    by_contra hne
    rw [if_pos (by simpa using hne)] at h
    cases h
  obtain ⟨mm2, e2, f2⟩ := free_pages_check_loop_pass page (1 <<< order) 0 _ 0 hpass
  refine ⟨mm2, ?_, fun x => (f2 x).chain (f1 x)⟩
  split
  · exact e2
  · exact e2

/-- The zone as `free_hot_cold_page` has it once `free_pages_prepare` let
the page through and its class is recorded: free lists, counters and
page-block tags are as before, and so is every field the buddy system reads,
but for the `private` field of the page. -/
theorem free_prepared_keep (cfg : Config) (z : State) (page : Nat)
    (h : (free_pages_prepare
      { z with mem_map := upd z.mem_map page { z.mem_map page with PG_mlocked := false } }
      page 0).2 = true) :
    ∃ mm, free_prepared cfg z page = { z with mem_map := mm } ∧
      (∀ x, x ≠ page → SameBuddyFields (mm x) (z.mem_map x)) ∧
      SameBuddyFields (mm page)
        { z.mem_map page with private_ := get_pageblock_migratetype cfg z page } := by
  obtain ⟨mm, e, f⟩ := free_pages_prepare_keep _ page 0 h
  have h0 : ∀ x, SameBuddyFields
      ((upd z.mem_map page { z.mem_map page with PG_mlocked := false }) x) (z.mem_map x) := by
    intro x
    unfold upd
    split
    · rename_i hx
      subst hx
      exact ⟨rfl, rfl, rfl, rfl, rfl, rfl, rfl⟩
    · exact SameBuddyFields.same _
  unfold free_prepared
  rw [e]
  refine ⟨_, rfl, ?_, ?_⟩
  · intro x hx
    simp only [upd, if_neg hx]
    exact (f x).chain (h0 x)
  · simp only [upd, if_true]
    obtain ⟨a1, a2, a3, a4, a5, a6, a7⟩ := (f page).chain (h0 page)
    exact ⟨a1, a2, rfl, a4, a5, a6, a7⟩

/-- A change of page descriptors that keeps the fields the buddy system
reads, but for the `private` field of a page in use, is not seen by the
buddy system. -/
theorem same_fields_view {cfg : Config} {zid : Nat} {s : State} {page o v : Nat}
    (hp : Pending cfg zid s page o) (mm : Nat → Page)
    (h1 : ∀ x, x ≠ page → SameBuddyFields (mm x) (s.mem_map x))
    (h2 : SameBuddyFields (mm page) { s.mem_map page with private_ := v }) :
    SameStatic s { s with mem_map := mm } ∧
      ∀ x, SameFlags cfg s { s with mem_map := mm } x := by
  have hall : ∀ x, (mm x).count = (s.mem_map x).count ∧
      (mm x).mapcount = (s.mem_map x).mapcount ∧ (mm x).zone_id = (s.mem_map x).zone_id ∧
      (mm x).guard = (s.mem_map x).guard := by
    intro x
    by_cases hx : x = page
    · subst hx
      exact ⟨h2.1, h2.2.1, h2.2.2.2.1, h2.2.2.2.2.1⟩
    · obtain ⟨a1, a2, _, a4, a5, _⟩ := h1 x hx
      exact ⟨a1, a2, a4, a5⟩
  refine ⟨⟨rfl, rfl, rfl, fun x => ⟨(hall x).2.2.1, (hall x).1⟩⟩, fun x => ?_⟩
  refine ⟨?_, ?_, ?_⟩
  · show PageBuddy (mm x) = PageBuddy (s.mem_map x)
    unfold PageBuddy; rw [(hall x).2.1]
  · show page_is_guard cfg (mm x) = page_is_guard cfg (s.mem_map x)
    unfold page_is_guard; rw [(hall x).2.2.2]
  · intro hf
    show page_order (mm x) = page_order (s.mem_map x)
    by_cases hx : x = page
    · subst hx
      have hun := hp.unflagged (Nat.le_refl x) (Nat.lt_add_of_pos_right (Nat.two_pow_pos o))
      rcases hf with hf | hf
      · rw [hun.1] at hf; exact Bool.noConfusion hf
      · rw [hun.2] at hf; exact Bool.noConfusion hf
    · exact (h1 x hx).2.2.1

/-- An order-0 free that reaches the per-CPU lists leaves the pageset as
the buddy system must find it, and the free lists as they were. -/
theorem free_prepared_ok {cfg : Config} {zid : Nat} {z : State} {pcp : per_cpu_pages}
    {page : Nat} (cold : Nat) (hok : PcpOK cfg zid z pcp)
    (hp : Pending cfg zid z page 0) (hpl : PageCompound (z.mem_map page) = false)
    (hcl : get_pageblock_migratetype cfg z page < MIGRATE_TYPES)
    (hnot : ∀ m, m < MIGRATE_PCPTYPES → page ∉ pcp.lists m)
    (hprep : (free_pages_prepare
      { z with mem_map := upd z.mem_map page { z.mem_map page with PG_mlocked := false } }
      page 0).2 = true) :
    PcpOK cfg zid (free_prepared cfg z page)
      (pcp_push pcp (pcp_class (get_pageblock_migratetype cfg z page)) page cold) ∧
    Pending cfg zid (free_prepared cfg z page) page 0 ∧
    PageCompound ((free_prepared cfg z page).mem_map page) = false ∧
    (free_prepared cfg z page).free_list = z.free_list ∧
    (free_prepared cfg z page).present_pages = z.present_pages := by
  obtain ⟨mm, e, f1, f2⟩ := free_prepared_keep cfg z page hprep
  obtain ⟨hst, hfl⟩ := same_fields_view hp mm f1 f2
  rw [e]
  have hpend : ∀ q j, Pending cfg zid z q j →
      Pending cfg zid ({ z with mem_map := mm } : State) q j :=
    fun q j hq => hq.of_same_view hst rfl hfl
  have hcomp : ∀ x, PageCompound (mm x) = PageCompound (z.mem_map x) := by
    intro x
    unfold PageCompound
    by_cases hx : x = page
    · subst hx
      rw [f2.2.2.2.2.2.1, f2.2.2.2.2.2.2]
    · rw [(f1 x hx).2.2.2.2.2.1, (f1 x hx).2.2.2.2.2.2]
  have hc := pcp_class_lt (get_pageblock_migratetype cfg z page)
  generalize pcp_class (get_pageblock_migratetype cfg z page) = c at hc ⊢
  have hmem : ∀ m q, q ∈ (pcp_push pcp c page cold).lists m →
      (q = page ∧ m = c) ∨ q ∈ pcp.lists m := by
    intro m q hq
    simp only [pcp_push, upd] at hq
    split at hq
    · rename_i hm
      split at hq
      · rcases List.mem_append.1 hq with h | h
        · exact Or.inr (hm ▸ h)
        · exact Or.inl ⟨List.mem_singleton.1 h, hm⟩
      · rcases List.mem_cons.1 hq with h | h
        · exact Or.inl ⟨h, hm⟩
        · exact Or.inr (hm ▸ h)
    · exact Or.inr hq
  refine ⟨⟨(hpend page 0 hp).wf, ?_, ?_, ?_, ?_, ?_⟩, hpend page 0 hp, ?_, rfl, rfl⟩
  · intro m hm q hq
    rcases hmem m q hq with ⟨h, _⟩ | h
    · rw [h]; exact hpend page 0 hp
    · exact hpend q 0 (hok.pend m hm q h)
  · intro m hm q hq
    show PageCompound (mm q) = false
    rw [hcomp]
    rcases hmem m q hq with ⟨h, _⟩ | h
    · rw [h]; exact hpl
    · exact hok.plain m hm q h
  · intro m hm q hq
    show (mm q).private_ < MIGRATE_TYPES
    rcases hmem m q hq with ⟨h, _⟩ | h
    · rw [h, f2.2.2.1]; exact hcl
    · have hne : q ≠ page := fun hh => hnot m hm (hh ▸ h)
      rw [(f1 q hne).2.2.1]
      exact hok.cls m hm q h
  · intro m hm
    simp only [pcp_push, upd]
    split
    · rename_i hmc
      subst hmc
      split
      · rw [List.nodup_append]
        refine ⟨hok.nodup m hm, List.nodup_singleton page, ?_⟩
        intro a ha hb
        rw [List.mem_singleton] at hb
        exact hnot m hm (hb ▸ ha)
      · rw [List.nodup_cons]
        exact ⟨hnot m hm, hok.nodup m hm⟩
    · exact hok.nodup m hm
  · intro m1 m2 q h1 h2 hq1 hq2
    rcases hmem m1 q hq1 with ⟨a1, a2⟩ | a
    · rcases hmem m2 q hq2 with ⟨b1, b2⟩ | b
      · rw [a2, b2]
      · exact absurd (a1 ▸ b) (hnot m2 h2)
    · rcases hmem m2 q hq2 with ⟨b1, b2⟩ | b
      · exact absurd (b1 ▸ a) (hnot m1 h1)
      · exact hok.one_list m1 m2 q h1 h2 a b
  · show PageCompound (mm page) = false
    rw [hcomp]; exact hpl

/-- `free_hot_cold_page` on a zone without debug guard pages, for a page in
use that is not on the per-CPU lists: the call returns; if the page passes
`free_pages_prepare` the free lists and the per-CPU lists together hold one
page more, and else what they held. -/
theorem free_hot_cold_page_total {cfg : Config} {zid : Nat} {z : State}
    {pcp : per_cpu_pages} {page : Nat} (cold : Nat)
    (hdbg : cfg.CONFIG_DEBUG_PAGEALLOC = false) (hok : PcpOK cfg zid z pcp)
    (hp : Pending cfg zid z page 0) (hpl : PageCompound (z.mem_map page) = false)
    (hcl : get_pageblock_migratetype cfg z page < MIGRATE_TYPES)
    (hnot : ∀ m, m < MIGRATE_PCPTYPES → page ∉ pcp.lists m)
    (hb0 : 0 ≤ pcp.batch) (hb1 : pcp.batch ≤ (pcp_pages pcp : Int) + 1) :
    ∃ r, free_hot_cold_page cfg z pcp page cold = some r ∧
      r.1.present_pages = z.present_pages ∧
      free_pages_total cfg r.1 + pcp_pages r.2 =
        free_pages_total cfg z + pcp_pages pcp +
          (if (free_pages_prepare
            { z with mem_map := (upd z.mem_map page
                { z.mem_map page with PG_mlocked := false }) } page 0).2 = true
           then 1 else 0) := by
  by_cases hprep : (free_pages_prepare
      { z with mem_map := upd z.mem_map page { z.mem_map page with PG_mlocked := false } }
      page 0).2 = true
  · rw [if_pos hprep]
    obtain ⟨a1, a2, a3, a4, a5⟩ := free_prepared_ok cold hok hp hpl hcl hnot hprep
    have htot : free_pages_total cfg (free_prepared cfg z page) = free_pages_total cfg z :=
      free_pages_total_congr cfg a4
    by_cases hiso : get_pageblock_migratetype cfg z page = MIGRATE_ISOLATE
    · rw [free_hot_cold_page_isolate cfg z pcp page cold hprep hiso]
      refine ⟨_, rfl, ?_, ?_⟩
      · show (__free_one_page cfg _ page 0 MIGRATE_ISOLATE).present_pages = _
        rw [free_one_page_present]; exact a5
      · have hc : free_passes (free_prepared cfg z page) page 0 :=
          fun h => by rw [a3] at h; exact Bool.noConfusion h
        have := free_one_page_total hdbg a2 hc (by decide : MIGRATE_ISOLATE < MIGRATE_TYPES)
        have e0 := @free_pages_total_congr cfg
          (__free_one_page cfg (free_prepared cfg z page) page 0 MIGRATE_ISOLATE)
          (mod_free_pages (__free_one_page cfg (free_prepared cfg z page) page 0
            MIGRATE_ISOLATE) ((1 <<< 0 : Nat) : Int)) rfl
        show free_pages_total cfg (mod_free_pages _ _) + pcp_pages pcp = _
        rw [e0, this, htot]
        simp only [Nat.pow_zero]
        omega
    · rw [free_hot_cold_page_push cfg z pcp page cold hprep hiso]
      have hpush := pcp_push_pages pcp (pcp_class (get_pageblock_migratetype cfg z page))
        page cold (pcp_class_lt _)
      by_cases hge : pcp.high ≤ pcp.count + 1
      · rw [if_pos hge]
        obtain ⟨r, e1, e2, e3, _⟩ := free_pcppages_bulk_total hdbg a1 pcp.batch hb0
          (by rw [hpush]; push_cast; exact hb1)
        rw [e1]
        refine ⟨_, rfl, e3.trans a5, ?_⟩
        show free_pages_total cfg r.1 + pcp_pages { r.2 with count := r.2.count - pcp.batch }
          = _
        have : pcp_pages { r.2 with count := r.2.count - pcp.batch } = pcp_pages r.2 := rfl
        rw [this, e2, htot, hpush]
        omega
      · rw [if_neg hge]
        refine ⟨_, rfl, a5, ?_⟩
        show free_pages_total cfg (free_prepared cfg z page) + pcp_pages (pcp_push _ _ _ _) = _
        rw [htot, hpush]
        rfl
  · rw [if_neg hprep]
    have hret : free_hot_cold_page cfg z pcp page cold =
        some ((free_pages_prepare
          { z with mem_map := upd z.mem_map page { z.mem_map page with PG_mlocked := false } }
          page 0).1, pcp) := by
      unfold free_hot_cold_page
      simp only [hprep, Bool.not_false, if_true]
    obtain ⟨mm, hmm⟩ := free_pages_prepare_frame
      { z with mem_map := upd z.mem_map page { z.mem_map page with PG_mlocked := false } }
      page 0
    rw [hret]
    refine ⟨_, rfl, ?_, ?_⟩
    · show (free_pages_prepare _ page 0).1.present_pages = _
      rw [hmm]
    · show free_pages_total cfg (free_pages_prepare _ page 0).1 + _ = _
      rw [hmm]
      rfl

/-- One pass of `buffered_rmqueue` on a well-formed zone without debug
guard pages: unless the pass fails, `2^order` pages leave the free lists and
the per-CPU lists taken together; `present_pages` is not written. -/
theorem buffered_rmqueue_pass_total {cfg : Config} {zid : Nat} {g : GfpMasks} {z : State}
    {pcp : per_cpu_pages} {order gfp_flags migratetype : Nat}
    {r : PassOutcome × State × per_cpu_pages}
    (hdbg : cfg.CONFIG_DEBUG_PAGEALLOC = false) (hwf : WF cfg zid z)
    (hm : migratetype < MIGRATE_PCPTYPES)
    (h : buffered_rmqueue_pass cfg g z pcp order gfp_flags migratetype = some r) :
    r.2.1.present_pages = z.present_pages ∧
    free_pages_total cfg r.2.1 + pcp_pages r.2.2 +
        (if r.1 = PassOutcome.failed then 0 else 2 ^ order) =
      free_pages_total cfg z + pcp_pages pcp := by
  have hm5 : migratetype < MIGRATE_TYPES := Nat.lt_trans hm (by decide)
  have hprep : ∀ (s : State) (page : Nat),
      free_pages_total cfg (prep_new_page g s page order gfp_flags).1 = free_pages_total cfg s ∧
      (prep_new_page g s page order gfp_flags).1.present_pages = s.present_pages := by
    intro s page
    obtain ⟨mm, hmm⟩ := prep_new_page_frame g s page order gfp_flags
    rw [hmm]
    exact ⟨rfl, rfl⟩
  have hnf : ∀ (c : Bool) (page : Nat),
      (if c = true then PassOutcome.again else PassOutcome.got page) ≠ PassOutcome.failed := by
    intro c page
    cases c <;> simp
  by_cases ho : order = 0
  · subst ho
    obtain ⟨i, zf, lf, a1, _, _, a4, a5⟩ := buffered_rmqueue_pass_pcp h
    have hfill : free_pages_total cfg zf + i = free_pages_total cfg z ∧
        zf.present_pages = z.present_pages ∧ lf.length = (pcp.lists migratetype).length + i := by
      rcases a1 with ⟨_, b2, b3, b4⟩ | ⟨b1, b2⟩
      · subst b2 b3 b4
        exact ⟨rfl, rfl, rfl⟩
      · have t1 := (rmqueue_bulk_total hdbg hwf hm5 b2).2
        have t2 := rmqueue_bulk_present b2
        have t3 := (rmqueue_bulk_length b2).1
        rw [b1]
        simp only [Nat.pow_zero, Nat.mul_one] at t1
        exact ⟨t1, t2, t3⟩
    obtain ⟨f1, f2, f3⟩ := hfill
    have hpg := pcp_pages_upd pcp r.2.2 migratetype hm a4
    rcases a5 with ⟨c1, c2, c3, _, c5⟩ | ⟨page, _, c2, _, _, c5, c6⟩
    · rw [c1] at f3
      simp only [List.length_nil] at f3
      rw [c2, c3, if_pos rfl]
      rw [c5] at hpg
      simp only [List.length_nil] at hpg
      exact ⟨f2, by omega⟩
    · rw [c5, c6, if_neg (hnf _ _), (hprep zf page).1, (hprep zf page).2]
      refine ⟨f2, ?_⟩
      simp only [Nat.pow_zero]
      omega
  · obtain ⟨a1, res, z1, a2, a3⟩ := buffered_rmqueue_pass_high ho h
    obtain ⟨_, b2, b3⟩ := rmqueue_total hdbg hwf hm5 a2
    have hpres := rmqueue_present a2
    rw [a1]
    rcases a3 with ⟨c1, c2, c3⟩ | ⟨page, c1, c2, c3⟩
    · have : z1 = z := b3 c1
      rw [c2, c3, this, if_pos rfl]
      exact ⟨rfl, rfl⟩
    · rw [c2, c3, if_neg (hnf _ _), (hprep _ page).1, (hprep _ page).2]
      have e0 := @free_pages_total_congr cfg z1
        (mod_free_pages z1 (-((1 <<< order : Nat) : Int))) rfl
      rw [e0]
      refine ⟨hpres, ?_⟩
      have := (b2 page c1).2
      simp only [] at this
      omega

/-- `buffered_rmqueue` returns what its first pass gives when that pass does
not end at `goto again`. -/
theorem buffered_rmqueue_first_pass {cfg : Config} {g : GfpMasks} {z : State}
    {pcp : per_cpu_pages} {order gfp_flags migratetype n : Nat}
    {res : Option Nat} {z1 : State} {pcp1 : per_cpu_pages}
    (hnot : (buffered_rmqueue_pass cfg g z pcp order gfp_flags migratetype).map (fun r => r.1) ≠
      some PassOutcome.again)
    (h : buffered_rmqueue cfg g (n + 1) z pcp order gfp_flags migratetype =
      some (res, z1, pcp1)) :
    ∃ o, buffered_rmqueue_pass cfg g z pcp order gfp_flags migratetype = some (o, z1, pcp1) ∧
      (o = PassOutcome.failed ↔ res = none) := by
  rw [buffered_rmqueue] at h
  cases hp : buffered_rmqueue_pass cfg g z pcp order gfp_flags migratetype with
  | none => rw [hp] at h; cases h
  | some t =>
    obtain ⟨o, za, pa⟩ := t
    rw [hp] at h hnot
    cases o with
    | got page =>
      cases h
      exact ⟨_, rfl, by simp⟩
    | failed =>
      cases h
      exact ⟨_, rfl, by simp⟩
    | again => exact absurd rfl hnot

/-! ## Pages dropped by `buffered_rmqueue` -/

/-- A block in use stays in use when another block is taken off the free
lists. -/
theorem Taken.keeps_pending {cfg : Config} {zid : Nat} {s s1 : State} {p o k q j : Nat}
    (ht : Taken cfg zid s s1 p o k) (hf : Free s p k) (hq : Pending cfg zid s q j) :
    Pending cfg zid s1 q j := by
  have hpk : Blk cfg zid s p k := Or.inl hf
  refine ⟨ht.1.wf, ht.2.1.blockOK hq.ok, fun x i hx => ?_⟩
  rw [ht.blk_iff] at hx
  rcases hx with ⟨hx, _⟩ | ⟨_, h2, rfl⟩
  · exact hq.apart x i hx
  · intro hov
    have := two_pow_add_le i k h2
    have hpos := Nat.two_pow_pos i
    exact hq.apart p k hpk ⟨by have := hov.1; omega, by have := hov.2; omega⟩

/-- What `__rmqueue` takes: a block cut from a free block, the rest of which
goes back on the lists. -/
theorem rmqueue_taken {cfg : Config} {zid : Nat} {s : State} {o mt : Nat}
    (hwf : WF cfg zid s) (hm : mt < MIGRATE_TYPES) {r : Option Nat × State}
    (h : __rmqueue cfg s o mt = some r) :
    (∀ p, r.1 = some p → ∃ k, Free s p k ∧ Taken cfg zid s r.2 p o k) ∧
    (r.1 = none → r.2 = s) := by
  have hsm : ∀ (m : Nat), m < MIGRATE_TYPES →
      (∀ p, (__rmqueue_smallest cfg s o m).1 = some p →
        ∃ k, Free s p k ∧ Taken cfg zid s (__rmqueue_smallest cfg s o m).2 p o k) ∧
      ((__rmqueue_smallest cfg s o m).1 = none → (__rmqueue_smallest cfg s o m).2 = s) := by
    intro m hm'
    obtain ⟨a, b⟩ := @rmqueue_smallest_wf cfg zid s o m hwf hm'
    refine ⟨?_, b⟩
    intro p hp
    obtain ⟨k, _, _, k3, k4, k5, k6, k7⟩ := a p hp
    exact ⟨k, ⟨m, k3⟩, k4, k5, k6, k7⟩
  unfold __rmqueue at h
  obtain ⟨a2, a3⟩ := hsm mt hm
  split at h
  · rename_i page s1 hq
    cases h
    rw [hq] at a2
    exact ⟨fun p hp => a2 p hp, fun hn => Option.noConfusion hn⟩
  · rename_i s1 hq
    rw [hq] at a3
    have hs1 : s1 = s := a3 rfl
    subst hs1
    split at h
    · split at h
      · cases h
      · rename_i page s2 hf
        cases h
        obtain ⟨b1, _⟩ := rmqueue_fallback_wf hwf hm _ hf
        obtain ⟨k, mt2, _, _, k3, k4⟩ := b1 page rfl
        refine ⟨?_, fun hn => Option.noConfusion hn⟩
        intro p hp
        cases hp
        exact ⟨k, ⟨mt2, k3⟩, k4⟩
      · rename_i s2 hf
        cases h
        obtain ⟨_, b2⟩ := rmqueue_fallback_wf hwf hm _ hf
        have hs2 : s2 = s1 := b2 rfl
        subst hs2
        exact hsm MIGRATE_RESERVE (by decide)
    · cases h
      exact ⟨fun p hp => Option.noConfusion hp, fun _ => rfl⟩

/-- Blocks in use stay in use across `__rmqueue`. -/
theorem rmqueue_keeps_pending {cfg : Config} {zid : Nat} {s : State} {o mt q j : Nat}
    (hwf : WF cfg zid s) (hm : mt < MIGRATE_TYPES) {r : Option Nat × State}
    (h : __rmqueue cfg s o mt = some r) (hq : Pending cfg zid s q j) :
    Pending cfg zid r.2 q j := by
  obtain ⟨a, b⟩ := rmqueue_taken hwf hm h
  cases hr : r.1 with
  | none => rw [b hr]; exact hq
  | some p =>
    obtain ⟨k, hf, ht⟩ := a p hr
    exact ht.keeps_pending hf hq

theorem mem_list_insert (l : List Nat) (i x q : Nat) :
    q ∈ list_insert l i x ↔ q = x ∨ q ∈ l := by
  unfold list_insert
  rw [List.mem_append, List.mem_cons]
  constructor
  · rintro (h | h | h)
    · exact Or.inr (List.mem_of_mem_take h)
    · exact Or.inl h
    · exact Or.inr (List.mem_of_mem_drop h)
  · rintro (h | h)
    · exact Or.inr (Or.inl h)
    · rw [← List.take_append_drop i l, List.mem_append] at h
      rcases h with h | h
      · exact Or.inl h
      · exact Or.inr (Or.inr h)

/-- The refill loop of `rmqueue_bulk` on a well-formed zone: the zone stays
well formed, the blocks on the list afterwards are in use, and so is every
block that was in use. -/
theorem rmqueue_bulk_loop_pending {cfg : Config} {zid : Nat}
    (order migratetype cold len0 : Nat) (hm : migratetype < MIGRATE_TYPES) :
    ∀ (n i : Nat) (z : State) (l : List Nat) (r : Nat × State × List Nat),
      WF cfg zid z → (∀ q, q ∈ l → Pending cfg zid z q order) →
      rmqueue_bulk_loop cfg order migratetype cold len0 n i z l = some r →
      WF cfg zid r.2.1 ∧ (∀ q, q ∈ r.2.2 → Pending cfg zid r.2.1 q order) ∧
      (∀ q j, Pending cfg zid z q j → Pending cfg zid r.2.1 q j) := by
  intro n
  induction n with
  | zero =>
    intro i z l r hwf hl h
    rw [rmqueue_bulk_loop] at h
    cases h
    exact ⟨hwf, hl, fun _ _ hq => hq⟩
  | succ n ih =>
    intro i z l r hwf hl h
    rw [rmqueue_bulk_loop] at h
    cases hq : __rmqueue cfg z order migratetype with
    | none => rw [hq] at h; cases h
    | some t =>
      obtain ⟨res, z1⟩ := t
      rw [hq] at h
      obtain ⟨a, b⟩ := rmqueue_taken hwf hm hq
      cases res with
      | none =>
        cases h
        have : z1 = z := b rfl
        subst this
        exact ⟨hwf, hl, fun _ _ hq => hq⟩
      | some page =>
        obtain ⟨k, hf, ht⟩ := a page rfl
        have hT : ∀ q j, Pending cfg zid z1 q j →
            Pending cfg zid (set_page_private z1 page migratetype) q j :=
          fun q j hp => hp.of_same_view (set_page_private_static z1 page migratetype) rfl
            (set_private_view ht.1 migratetype)
        have hl2 : ∀ q, q ∈ (if cold == 0 then list_insert l i page
            else list_insert l len0 page) →
            Pending cfg zid (set_page_private z1 page migratetype) q order := by
          intro q hmem
          have hmem2 : q = page ∨ q ∈ l := by
            split at hmem
            · exact (mem_list_insert _ _ _ _).1 hmem
            · exact (mem_list_insert _ _ _ _).1 hmem
          rcases hmem2 with rfl | hmem2
          · exact hT _ _ ht.1
          · exact hT _ _ (ht.keeps_pending hf (hl q hmem2))
        obtain ⟨c1, c2, c3⟩ := ih _ _ _ _ (hT _ _ ht.1).wf hl2 h
        exact ⟨c1, c2, fun q j hp => c3 q j (hT _ _ (ht.keeps_pending hf hp))⟩

theorem rmqueue_bulk_pending {cfg : Config} {zid : Nat} {z : State} {order count : Nat}
    {l : List Nat} {migratetype cold : Nat} (hwf : WF cfg zid z)
    (hm : migratetype < MIGRATE_TYPES) (hl : ∀ q, q ∈ l → Pending cfg zid z q order)
    {r : Nat × State × List Nat}
    (h : rmqueue_bulk cfg z order count l migratetype cold = some r) :
    WF cfg zid r.2.1 ∧ (∀ q, q ∈ r.2.2 → Pending cfg zid r.2.1 q order) ∧
      (∀ q j, Pending cfg zid z q j → Pending cfg zid r.2.1 q j) := by
  unfold rmqueue_bulk at h
  cases hq : rmqueue_bulk_loop cfg order migratetype cold l.length count 0 z l with
  | none => rw [hq] at h; cases h
  | some t =>
    obtain ⟨i, z1, l1⟩ := t
    rw [hq] at h
    cases h
    obtain ⟨c1, c2, c3⟩ := rmqueue_bulk_loop_pending order migratetype cold l.length hm
      count 0 z l _ hwf hl hq
    have hT : ∀ q j, Pending cfg zid z1 q j →
        Pending cfg zid (mod_free_pages z1 (-((i <<< order : Nat) : Int))) q j :=
      fun q j hp => hp.eq_view rfl rfl rfl rfl rfl
    exact ⟨(@WF.of_eq_view cfg zid z1 (mod_free_pages z1 (-((i <<< order : Nat) : Int))) c1
      rfl rfl rfl rfl rfl).1, fun q hq2 => hT _ _ (c2 q hq2),
      fun q j hp => hT _ _ (c3 q j hp)⟩

theorem check_new_page_cases (s : State) (p : Nat) :
    check_new_page s p = (bad_page s p, 1) ∨ check_new_page s p = (s, 0) := by
  unfold check_new_page
  split
  · exact Or.inl rfl
  · exact Or.inr rfl

/-- Marking a page of a block in use as bad writes nothing the buddy system
reads. -/
theorem bad_page_view {cfg : Config} {zid : Nat} {s : State} {page order i : Nat}
    (hp : Pending cfg zid s page order) (hi : i < 2 ^ order) (x : Nat) :
    SameFlags cfg s (bad_page s (page + i)) x := by
  obtain ⟨u1, u2⟩ := hp.unflagged (x := page + i) (by omega) (by omega)
  unfold SameFlags bad_page
  by_cases hx : x = page + i
  · subst hx
    simp only [upd, if_pos]
    refine ⟨?_, ?_, fun _ => rfl⟩
    · rw [u1]; rfl
    · rfl
  · simp [upd, hx]

/-- The checks of `prep_new_page` on a block in use write nothing the buddy
system reads: the lists, the static data and the buddy flags of every page
are as before. -/
theorem check_new_page_loop_view {cfg : Config} {zid : Nat} {s : State} {page order : Nat}
    (hp : Pending cfg zid s page order) :
    ∀ (n i : Nat), i + n ≤ 2 ^ order →
      (check_new_page_loop page n i s).1.free_list = s.free_list ∧
      (check_new_page_loop page n i s).1.present_pages = s.present_pages ∧
      SameStatic s (check_new_page_loop page n i s).1 ∧
      ∀ x, SameFlags cfg s (check_new_page_loop page n i s).1 x := by
  intro n
  induction n with
  | zero =>
    intro i _
    exact ⟨rfl, rfl, SameStatic.refl s, fun x => ⟨rfl, rfl, fun _ => rfl⟩⟩
  | succ n ih =>
    intro i hi
    rw [check_new_page_loop]
    rcases check_new_page_cases s (page + i) with e | e
    · rw [e]
      simp only [bne_iff_ne, ne_eq, one_ne_zero, not_false_eq_true, if_true]
      exact ⟨rfl, rfl, bad_page_static s (page + i), bad_page_view hp (by omega)⟩
    · rw [e]
      simp only [bne_self_eq_false, Bool.false_eq_true, if_false]
      exact ih (i + 1) (by omega)

/-- When `prep_new_page` rejects a block in use, the zone stays well formed
and every block in use stays in use. -/
theorem prep_new_page_again {cfg : Config} {zid : Nat} {s : State} {page order : Nat}
    (g : GfpMasks) (gfp_flags : Nat) (hp : Pending cfg zid s page order)
    (h : (prep_new_page g s page order gfp_flags).2 ≠ 0) :
    WF cfg zid (prep_new_page g s page order gfp_flags).1 ∧
      ∀ q j, Pending cfg zid s q j →
        Pending cfg zid (prep_new_page g s page order gfp_flags).1 q j := by
  have hv := check_new_page_loop_view hp (1 <<< order) 0
    (by rw [Nat.one_shiftLeft]; omega)
  have he : (prep_new_page g s page order gfp_flags).1 =
      (check_new_page_loop page (1 <<< order) 0 s).1 := by
    unfold prep_new_page at h ⊢
    simp only [] at h ⊢
    split
    · rfl
    · rename_i hc
      rw [if_neg hc] at h
      split at h <;> exact absurd rfl h
  rw [he]
  obtain ⟨a1, _, a3, a4⟩ := hv
  exact ⟨(hp.of_same_view a3 a1 a4).wf, fun q j hq => hq.of_same_view a3 a1 a4⟩

/-- A pass of `buffered_rmqueue` that ends at `goto again` leaves the zone
well formed and the pages of the per-CPU lists in use. -/
theorem buffered_rmqueue_pass_again {cfg : Config} {zid : Nat} {g : GfpMasks} {z : State}
    {pcp : per_cpu_pages} {order gfp_flags migratetype : Nat}
    {r : PassOutcome × State × per_cpu_pages}
    (hwf : WF cfg zid z)
    (hpend : ∀ m, m < MIGRATE_PCPTYPES → ∀ q, q ∈ pcp.lists m → Pending cfg zid z q 0)
    (hm : migratetype < MIGRATE_PCPTYPES)
    (h : buffered_rmqueue_pass cfg g z pcp order gfp_flags migratetype = some r)
    (hr : r.1 = PassOutcome.again) :
    WF cfg zid r.2.1 ∧
      ∀ m, m < MIGRATE_PCPTYPES → ∀ q, q ∈ r.2.2.lists m → Pending cfg zid r.2.1 q 0 := by
  have hm5 : migratetype < MIGRATE_TYPES := Nat.lt_trans hm (by decide)
  by_cases ho : order = 0
  · subst ho
    obtain ⟨i, zf, lf, a1, _, _, a4, a5⟩ := buffered_rmqueue_pass_pcp h
    have hf : WF cfg zid zf ∧ (∀ q, q ∈ lf → Pending cfg zid zf q 0) ∧
        (∀ q j, Pending cfg zid z q j → Pending cfg zid zf q j) := by
      rcases a1 with ⟨_, _, b3, b4⟩ | ⟨_, b2⟩
      · subst b3 b4
        exact ⟨hwf, hpend migratetype hm, fun _ _ hq => hq⟩
      · exact rmqueue_bulk_pending hwf hm5 (fun q hq => absurd hq (List.not_mem_nil q)) b2
    obtain ⟨f1, f2, f3⟩ := hf
    rcases a5 with ⟨_, c2, _⟩ | ⟨page, c1, _, c3, _, c5, c6⟩
    · rw [hr] at c2
      cases c2
    · have hrej : (prep_new_page g zf page 0 gfp_flags).2 ≠ 0 := by
        intro hc
        rw [hr, hc] at c6
        simp at c6
      obtain ⟨w, hk⟩ := prep_new_page_again g gfp_flags (f2 page c1) hrej
      rw [c5]
      refine ⟨w, ?_⟩
      intro m hm2 q hq
      by_cases hmm : m = migratetype
      · subst hmm
        exact hk q 0 (f2 q (c3 q hq))
      · rw [a4 m hmm] at hq
        exact hk q 0 (f3 q 0 (hpend m hm2 q hq))
  · obtain ⟨a1, res, z1, a2, a3⟩ := buffered_rmqueue_pass_high ho h
    rw [a1]
    rcases a3 with ⟨_, c2, _⟩ | ⟨page, c1, c2, c3⟩
    · rw [hr] at c2
      cases c2
    · subst c1
      obtain ⟨t1, _⟩ := rmqueue_taken hwf hm5 a2
      obtain ⟨k, hf, ht⟩ := t1 page rfl
      have hT : ∀ q j, Pending cfg zid z1 q j →
          Pending cfg zid (mod_free_pages z1 (-((1 <<< order : Nat) : Int))) q j :=
        fun q j hp => hp.eq_view rfl rfl rfl rfl rfl
      have hrej : (prep_new_page g (mod_free_pages z1 (-((1 <<< order : Nat) : Int)))
          page order gfp_flags).2 ≠ 0 := by
        intro hc
        rw [hr, hc] at c3
        simp at c3
      obtain ⟨w, hk⟩ := prep_new_page_again g gfp_flags (hT _ _ ht.1) hrej
      rw [c2]
      exact ⟨w, fun m hm2 q hq => hk q 0 (hT _ _ (ht.keeps_pending hf (hpend m hm2 q hq)))⟩

theorem rejected_passes_succ (cfg : Config) (g : GfpMasks) (n : Nat) (z : State)
    (pcp : per_cpu_pages) (order gfp_flags migratetype : Nat) :
    rejected_passes cfg g (n + 1) z pcp order gfp_flags migratetype =
      match buffered_rmqueue_pass cfg g z pcp order gfp_flags migratetype with
      | some (PassOutcome.again, z1, pcp1) =>
        rejected_passes cfg g n z1 pcp1 order gfp_flags migratetype + 1
      | _ => 0 := rfl

/-- The pages that leave the lists in a call of `buffered_rmqueue` on a
well-formed zone without debug guard pages: `2^order` for the block returned
and `2^order` for every pass in which the block taken was rejected by
`prep_new_page`; `present_pages` is not written. -/
theorem buffered_rmqueue_total {cfg : Config} {zid : Nat} {g : GfpMasks}
    {order gfp_flags migratetype : Nat}
    (hdbg : cfg.CONFIG_DEBUG_PAGEALLOC = false) (hm : migratetype < MIGRATE_PCPTYPES) :
    ∀ (n : Nat) (z : State) (pcp : per_cpu_pages) (r : Option Nat × State × per_cpu_pages),
      WF cfg zid z →
      (∀ m, m < MIGRATE_PCPTYPES → ∀ q, q ∈ pcp.lists m → Pending cfg zid z q 0) →
      buffered_rmqueue cfg g n z pcp order gfp_flags migratetype = some r →
      r.2.1.present_pages = z.present_pages ∧
      free_pages_total cfg r.2.1 + pcp_pages r.2.2 + (if r.1.isSome then 2 ^ order else 0) +
          rejected_passes cfg g n z pcp order gfp_flags migratetype * 2 ^ order =
        free_pages_total cfg z + pcp_pages pcp := by
  intro n
  induction n with
  | zero =>
    intro z pcp r _ _ h
    rw [buffered_rmqueue] at h
    cases h
  | succ n ih =>
    intro z pcp r hwf hpend h
    rw [buffered_rmqueue] at h
    rw [rejected_passes_succ]
    cases hp : buffered_rmqueue_pass cfg g z pcp order gfp_flags migratetype with
    | none => rw [hp] at h; cases h
    | some t =>
      obtain ⟨o, z1, pcp1⟩ := t
      rw [hp] at h
      obtain ⟨a1, a2⟩ := buffered_rmqueue_pass_total hdbg hwf hm hp
      simp only [] at a1 a2
      cases o with
      | got page =>
        cases h
        rw [if_neg (by simp)] at a2
        simp only [Option.isSome_some, if_true, Nat.zero_mul, Nat.add_zero]
        exact ⟨a1, a2⟩
      | failed =>
        cases h
        rw [if_pos rfl] at a2
        simp only [Option.isSome_none, Bool.false_eq_true, if_false, Nat.zero_mul, Nat.add_zero]
        exact ⟨a1, a2⟩
      | again =>
        simp only [] at h ⊢
        rw [if_neg (by simp)] at a2
        obtain ⟨w, hk⟩ := buffered_rmqueue_pass_again hwf hpend hm hp rfl
        obtain ⟨b1, b2⟩ := ih z1 pcp1 r w hk h
        refine ⟨b1.trans a1, ?_⟩
        rw [Nat.succ_mul]
        generalize rejected_passes cfg g n z1 pcp1 order gfp_flags migratetype * 2 ^ order = d
          at b2 ⊢
        generalize 2 ^ order = w2 at a2 b2 ⊢
        omega

/-! ## Claim about page conservation -/

set_option maxRecDepth 1000000 in
/-- C28 as stated fails: an allocation can drop pages. In the zone of 64
pages whose lower 32 are free as one block of order 5, one page is on a
per-CPU list and 31 are allocated, with a bit of `PAGE_FLAGS_CHECK_AT_PREP`
set on frame 0, the quantity is `present_pages = 64`. `buffered_rmqueue` of
order 5 takes the block off the free list, `prep_new_page` rejects it
(`goto again`), the second pass finds nothing and `NULL` is returned: no page
was allocated, the 32 pages are on no list, and the quantity is 32. -/
theorem page_conservation_counterexample :
    zone_pages default_config tainted_zone ledger_pcp 31 0 0 = tainted_zone.present_pages ∧
    (buffered_rmqueue default_config gfp_bits 2 tainted_zone ledger_pcp 5 0
        MIGRATE_MOVABLE).map
      (fun r => (r.1, zone_pages default_config r.2.1 r.2.2 31 0 0, r.2.1.present_pages)) =
      some (none, 32, 64) := by
  decide

/-- C28, amended: in a well-formed zone without debug guard pages whose
per-CPU pages are in use, let the quantity free-list pages (the sum over
orders `k` and classes `m` of `2^k * len(free_list[k][m])`) + pages on the
per-CPU lists + allocated + reserved + isolated pages equal `present_pages`.
After an allocation (`buffered_rmqueue` at an order below 31, the orders for
which the `int` shifts `1 << order` do not overflow; the allocated pages go
up by `2^order` when a page is returned) the quantity is short of
`present_pages` by `2^order` pages for every pass in which the block taken was
rejected by `prep_new_page` and dropped (`goto again`), and equals it when no
block was rejected. It equals `present_pages` again after an order-0 free
(`free_hot_cold_page` of a page in use: it returns, and the allocated pages
go down by one when the page passes `free_pages_prepare`), after a refill
(`rmqueue_bulk` into a per-CPU list, the counter raised by the number of
pages placed) and after a drain (`free_pcppages_bulk` of a count the lists
can meet: it returns). -/
theorem page_conservation (cfg : Config) (zid : Nat) (z : State) (pcp : per_cpu_pages)
    (allocated reserved isolated : Nat)
    (hdbg : cfg.CONFIG_DEBUG_PAGEALLOC = false) (hok : PcpOK cfg zid z pcp)
    (hq : zone_pages cfg z pcp allocated reserved isolated = z.present_pages) :
    (∀ g n order gfp_flags migratetype res z1 pcp1, migratetype < MIGRATE_PCPTYPES →
      order < 31 →
      buffered_rmqueue cfg g n z pcp order gfp_flags migratetype = some (res, z1, pcp1) →
      zone_pages cfg z1 pcp1 (allocated + (if res.isSome then 2 ^ order else 0))
          reserved isolated +
        rejected_passes cfg g n z pcp order gfp_flags migratetype * 2 ^ order =
          z1.present_pages) ∧
    (∀ page cold a, allocated = a + 1 → Pending cfg zid z page 0 →
      PageCompound (z.mem_map page) = false →
      get_pageblock_migratetype cfg z page < MIGRATE_TYPES →
      (∀ m, m < MIGRATE_PCPTYPES → page ∉ pcp.lists m) →
      0 ≤ pcp.batch → pcp.batch ≤ (pcp_pages pcp : Int) + 1 →
      ∃ z1 pcp1, free_hot_cold_page cfg z pcp page cold = some (z1, pcp1) ∧
        zone_pages cfg z1 pcp1
          (if (free_pages_prepare
            { z with mem_map := (upd z.mem_map page
                { z.mem_map page with PG_mlocked := false }) } page 0).2 = true
           then a else allocated) reserved isolated = z1.present_pages) ∧
    (∀ count migratetype cold i z1 l1, migratetype < MIGRATE_PCPTYPES →
      rmqueue_bulk cfg z 0 count (pcp.lists migratetype) migratetype cold = some (i, z1, l1) →
      zone_pages cfg z1
        { pcp with count := pcp.count + i, lists := (upd pcp.lists migratetype l1) }
        allocated reserved isolated = z1.present_pages) ∧
    (∀ count, 0 ≤ count → count ≤ (pcp_pages pcp : Int) →
      ∃ z1 pcp1, free_pcppages_bulk cfg z count pcp = some (z1, pcp1) ∧
        zone_pages cfg z1 pcp1 allocated reserved isolated = z1.present_pages) := by
  unfold zone_pages at hq ⊢
  refine ⟨?_, ?_, ?_, ?_⟩
  · intro g n order gfp_flags migratetype res z1 pcp1 hm _ h
    obtain ⟨a1, a2⟩ := buffered_rmqueue_total hdbg hm n z pcp _ hok.wf hok.pend h
    simp only [] at a1 a2
    rw [a1]
    generalize rejected_passes cfg g n z pcp order gfp_flags migratetype * 2 ^ order = d
      at a2 ⊢
    generalize (if res.isSome = true then 2 ^ order else 0) = t at a2 ⊢
    omega
  · intro page cold a ha hp hpl hcl hnot hb0 hb1
    obtain ⟨r, e1, e2, e3⟩ := free_hot_cold_page_total cold hdbg hok hp hpl hcl hnot hb0 hb1
    refine ⟨r.1, r.2, e1, ?_⟩
    rw [e2]
    split
    · rename_i hprep
      rw [if_pos hprep] at e3
      omega
    · rename_i hprep
      rw [if_neg hprep] at e3
      omega
  · intro count migratetype cold i z1 l1 hm h
    have hm5 : migratetype < MIGRATE_TYPES := Nat.lt_trans hm (by decide)
    have t1 := (rmqueue_bulk_total hdbg hok.wf hm5 h).2
    have t2 := rmqueue_bulk_present h
    have t3 := (rmqueue_bulk_length h).1
    simp only [Nat.pow_zero, Nat.mul_one] at t1 t2 t3
    have hpg := pcp_pages_upd pcp
      { pcp with count := pcp.count + i, lists := (upd pcp.lists migratetype l1) }
      migratetype hm (fun c hc => by simp [upd, hc])
    have hl : upd pcp.lists migratetype l1 migratetype = l1 := by
      simp [upd]
    simp only [hl] at hpg
    rw [t2]
    omega
  · intro count h0 hle
    obtain ⟨r, e1, e2, e3, _⟩ := free_pcppages_bulk_total hdbg hok count h0 hle
    refine ⟨r.1, r.2, e1, ?_⟩
    rw [e3]
    omega

theorem ledger_pending (p : Nat) (h : in_use_ok default_config 6 [(0, 5)] p 0 = true) :
    Pending default_config 0 ledger_zone p 0 :=
  (zone_of_blocks_pending default_config 6 MIGRATE_MOVABLE [(0, 5)] p 0 rfl (by decide)
    (by decide) h).eq_view rfl rfl rfl rfl rfl

theorem ledger_ok : PcpOK default_config 0 ledger_zone ledger_pcp := by
  have hq : ∀ m q, q ∈ ledger_pcp.lists m → q = 40 := by
    intro m q hq
    simp only [ledger_pcp] at hq
    split at hq
    · simpa using hq
    · exact absurd hq (List.not_mem_nil q)
  refine ⟨(ledger_pending 40 (by decide)).wf, ?_, ?_, ?_, ?_, ?_⟩
  · intro m _ q h
    rw [hq m q h]
    exact ledger_pending 40 (by decide)
  · intro m _ q h
    rw [hq m q h]
    decide
  · intro m _ q h
    rw [hq m q h]
    decide
  · intro m _
    simp only [ledger_pcp]
    split
    · exact List.nodup_singleton 40
    · exact List.nodup_nil
  · intro m m' q _ _ h1 h2
    simp only [ledger_pcp] at h1 h2
    split at h1
    · split at h2
      · rename_i a b; rw [a, b]
      · exact absurd h2 (List.not_mem_nil q)
    · exact absurd h1 (List.not_mem_nil q)

theorem tainted_ok : PcpOK default_config 0 tainted_zone ledger_pcp := by
  have hst : SameStatic ledger_zone tainted_zone := by
    refine ⟨rfl, rfl, rfl, fun x => ?_⟩
    unfold tainted_zone
    by_cases hx : x = 0
    · subst hx
      simp [upd]
    · simp [upd, hx]
  have hfl : ∀ x, SameFlags default_config ledger_zone tainted_zone x := by
    intro x
    unfold SameFlags tainted_zone
    by_cases hx : x = 0
    · subst hx
      simp [upd, PageBuddy, page_is_guard, page_order]
    · simp [upd, hx]
  have hq : ∀ m q, q ∈ ledger_pcp.lists m → q = 40 := by
    intro m q hq
    simp only [ledger_pcp] at hq
    split at hq
    · simpa using hq
    · exact absurd hq (List.not_mem_nil q)
  refine ⟨(ledger_ok.wf.same_view hst rfl hfl).1, ?_, ?_, ?_, ledger_ok.nodup,
    ledger_ok.one_list⟩
  · intro m hm q h
    exact (ledger_ok.pend m hm q h).of_same_view hst rfl hfl
  · intro m _ q h
    rw [hq m q h]
    decide
  · intro m _ q h
    rw [hq m q h]
    decide

set_option maxRecDepth 1000000 in
theorem page_conservation_witness :
    zone_pages default_config tainted_zone ledger_pcp 31 0 0 = tainted_zone.present_pages ∧
    rejected_passes default_config gfp_bits 2 tainted_zone ledger_pcp 5 0 MIGRATE_MOVABLE = 1 ∧
    (∃ res z1 pcp1,
      buffered_rmqueue default_config gfp_bits 2 tainted_zone ledger_pcp 5 0 MIGRATE_MOVABLE =
        some (res, z1, pcp1) ∧
      zone_pages default_config z1 pcp1 (31 + (if res.isSome then 2 ^ 5 else 0)) 0 0 +
          rejected_passes default_config gfp_bits 2 tainted_zone ledger_pcp 5 0
            MIGRATE_MOVABLE * 2 ^ 5 =
        z1.present_pages) ∧
    (∃ res z1 pcp1,
      buffered_rmqueue default_config gfp_bits 1 tainted_zone ledger_pcp 0 0 MIGRATE_MOVABLE =
        some (res, z1, pcp1) ∧
      zone_pages default_config z1 pcp1 (31 + (if res.isSome then 2 ^ 0 else 0)) 0 0 +
          rejected_passes default_config gfp_bits 1 tainted_zone ledger_pcp 0 0
            MIGRATE_MOVABLE * 2 ^ 0 =
        z1.present_pages) ∧
    (∃ z1 pcp1, free_pcppages_bulk default_config tainted_zone 1 ledger_pcp = some (z1, pcp1) ∧
      zone_pages default_config z1 pcp1 31 0 0 = z1.present_pages) := by
  have h := page_conservation default_config 0 tainted_zone ledger_pcp 31 0 0 rfl tainted_ok
    (by decide)
  have hs5 : (buffered_rmqueue default_config gfp_bits 2 tainted_zone ledger_pcp 5 0
      MIGRATE_MOVABLE).isSome = true := by decide
  have hs0 : (buffered_rmqueue default_config gfp_bits 1 tainted_zone ledger_pcp 0 0
      MIGRATE_MOVABLE).isSome = true := by decide
  obtain ⟨⟨res5, z5, p5⟩, hr5⟩ := Option.isSome_iff_exists.1 hs5
  obtain ⟨⟨res0, z0, p0⟩, hr0⟩ := Option.isSome_iff_exists.1 hs0
  exact ⟨by decide, by decide,
    ⟨res5, z5, p5, hr5,
      h.1 gfp_bits 2 5 0 MIGRATE_MOVABLE res5 z5 p5 (by decide) (by decide) hr5⟩,
    ⟨res0, z0, p0, hr0,
      h.1 gfp_bits 1 0 0 MIGRATE_MOVABLE res0 z0 p0 (by decide) (by decide) hr0⟩,
    h.2.2.2 1 (by decide) (by decide)⟩

/-- C40: `__zone_watermark_ok` is monotone in the order. When nothing
overflows (an order below 31, `free_pages` non-negative and in the range of
`long`, `mark + lowmem_reserve[idx]` in the range of `long`, free-block
counts whose page total is in range), for every zone, mark, class-zone index
and flags: if the test passes at order `k`, it passes at every order
`k2 < k`. -/
theorem watermark_monotone (cfg : Config) (z : State) (k k2 mark idx flags : Nat)
    (fp : Int) (hB : 32 ≤ cfg.BITS_PER_LONG) (hk : k < 31) (hlt : k2 < k)
    (hfp1 : 0 ≤ fp) (hfp2 : fp < 2 ^ (cfg.BITS_PER_LONG - 1))
    (hres : mark + z.lowmem_reserve idx < 2 ^ (cfg.BITS_PER_LONG - 1))
    (hsum : pages_below z k + 2 ^ k ≤ 2 ^ (cfg.BITS_PER_LONG - 1))
    (h : __zone_watermark_ok cfg z k mark idx flags fp = true) :
    __zone_watermark_ok cfg z k2 mark idx flags fp = true := by
  have hB1 : 1 ≤ cfg.BITS_PER_LONG := by omega
  have hle := spec_min_le mark flags
  have hmark : (mark : Int) < 2 ^ (cfg.BITS_PER_LONG - 1) := by
    have : ((mark + z.lowmem_reserve idx : Nat) : Int) < 2 ^ (cfg.BITS_PER_LONG - 1) := by
      exact_mod_cast hres
    push_cast at this
    omega
  have ht := watermark_min_eq cfg hB1 mark flags hmark
  have hres2 : spec_min mark flags + z.lowmem_reserve idx < 2 ^ (cfg.BITS_PER_LONG - 1) := by
    omega
  have hpow : 2 ^ k2 ≤ 2 ^ k := Nat.pow_le_pow_right (by decide) (by omega)
  have hpb : pages_below z k2 ≤ pages_below z k := pages_below_mono z (by omega)
  have hsum2 : pages_below z k2 + 2 ^ k2 ≤ 2 ^ (cfg.BITS_PER_LONG - 1) := by omega
  have a := (watermark_ok_iff cfg z k mark idx flags fp _ ht hB hk hfp1 hfp2 hres2 hsum).1 h
  apply (watermark_ok_iff cfg z k2 mark idx flags fp _ ht hB (by omega) hfp1 hfp2 hres2
    hsum2).2
  have hpowi : (2 : Int) ^ k2 ≤ 2 ^ k := by exact_mod_cast hpow
  refine ⟨by omega, fun o h1 h2 => ?_⟩
  have := a.2 o h1 (by omega)
  omega

theorem watermark_monotone_witness :
    __zone_watermark_ok default_config
      (zone_of_blocks 4 [(0, 0), (2, 1), (8, 3)] MIGRATE_MOVABLE) 1 1 0 0 11 = true :=
  watermark_monotone default_config (zone_of_blocks 4 [(0, 0), (2, 1), (8, 3)] MIGRATE_MOVABLE)
    2 1 1 0 0 11 (by decide) (by decide) (by decide) (by decide) (by decide) (by decide)
    (by decide) (by decide)

/-- Draining takes pages off the tails only: every list afterwards is an
initial part of what it was. -/
theorem Drained.tails {cfg : Config} {d : Nat} {z z2 : State} {pcp pcp2 : per_cpu_pages}
    (h : Drained cfg d z pcp z2 pcp2) : ∀ m, ∃ t, pcp.lists m = pcp2.lists m ++ t := by
  induction h with
  | zero z pcp => exact fun m => ⟨[], (List.append_nil _).symm⟩
  | succ d m z pcp page z2 pcp2 hm hlast _ ih =>
    intro m2
    obtain ⟨t, ht⟩ := ih m2
    by_cases e : m2 = m
    · subst e
      simp only [upd, if_pos] at ht
      have hne : pcp.lists m2 ≠ [] := by
        intro h0
        rw [h0] at hlast
        exact Option.noConfusion hlast
      refine ⟨t ++ [page], ?_⟩
      rw [← List.append_assoc, ← ht]
      have h1 := List.dropLast_append_getLast hne
      rw [List.getLast?_eq_getLast _ hne] at hlast
      have h2 : (pcp.lists m2).getLast hne = page := Option.some.inj hlast
      rw [h2] at h1
      exact h1.symm
    · simp only [upd, if_neg e] at ht
      exact ⟨t, ht⟩

/-- C39: for `0 <= count <= ` the number of pages on the three per-CPU
lists, `free_pcppages_bulk(zone, count, pcp)` returns; it has removed exactly
`count` pages from the lists, each from the tail of its list, given each to
`__free_one_page` at order 0 with the class kept in its `private` field, and
added `count` to `NR_FREE_PAGES`; the fields `count`, `high` and `batch` of
the pageset are not written. -/
theorem drain_exact (cfg : Config) (z : State) (count : Int) (pcp : per_cpu_pages)
    (h0 : 0 ≤ count) (hle : count ≤ (pcp_pages pcp : Int)) :
    ∃ (z1 : State) (pcp1 : per_cpu_pages) (d : Nat),
      free_pcppages_bulk cfg z count pcp = some (mod_free_pages z1 count, pcp1) ∧
      (d : Int) = count ∧ Drained cfg d z pcp z1 pcp1 ∧
      pcp_pages pcp = pcp_pages pcp1 + d ∧
      (∀ m, ∃ t, pcp.lists m = pcp1.lists m ++ t) ∧
      pcp1.count = pcp.count ∧ pcp1.high = pcp.high ∧ pcp1.batch = pcp.batch := by
  obtain ⟨z1, pcp1, d, e1, e2, e3⟩ := free_pcppages_bulk_returns cfg z count pcp h0 hle
  exact ⟨z1, pcp1, d, e1, e2, e3, e3.pcp_fields.1, e3.tails, e3.pcp_fields.2⟩

theorem drain_exact_witness :
    ∃ (z1 : State) (pcp1 : per_cpu_pages) (d : Nat),
      free_pcppages_bulk default_config (zone_of_blocks 3 [] MIGRATE_MOVABLE) 2 uneven_pcp =
        some (mod_free_pages z1 2, pcp1) ∧
      (d : Int) = 2 ∧
      Drained default_config d (zone_of_blocks 3 [] MIGRATE_MOVABLE) uneven_pcp z1 pcp1 ∧
      pcp_pages uneven_pcp = pcp_pages pcp1 + d ∧
      (∀ m, ∃ t, uneven_pcp.lists m = pcp1.lists m ++ t) ∧
      pcp1.count = uneven_pcp.count ∧ pcp1.high = uneven_pcp.high ∧
      pcp1.batch = uneven_pcp.batch :=
  drain_exact default_config (zone_of_blocks 3 [] MIGRATE_MOVABLE) 2 uneven_pcp
    (by decide) (by decide)

/-- `free_pages_check` returns 1 for a page with a fault and 0 for any
other. -/
theorem free_pages_check_iff (s : State) (page : Nat) :
    ((free_pages_check s page).2 = 1 ↔ free_fault (s.mem_map page)) ∧
    ((free_pages_check s page).2 = 0 ↔ ¬ free_fault (s.mem_map page)) := by
  unfold free_pages_check free_fault
  by_cases hc : (page_mapcount (s.mem_map page) != 0 || (s.mem_map page).mapping != 0 ||
      (s.mem_map page).count != 0 || (s.mem_map page).check_at_free ||
      (s.mem_map page).memcg_bad) = true
  · rw [if_pos hc]
    simp only [Bool.or_eq_true, bne_iff_ne, ne_eq] at hc
    have hf : page_mapcount (s.mem_map page) ≠ 0 ∨ (s.mem_map page).mapping ≠ 0 ∨
        (s.mem_map page).count ≠ 0 ∨ (s.mem_map page).check_at_free = true ∨
        (s.mem_map page).memcg_bad = true := by tauto
    exact ⟨⟨fun _ => hf, fun _ => rfl⟩,
      ⟨fun h => absurd (show (1 : Nat) = 0 from h) (by decide), fun h => absurd hf h⟩⟩
  · rw [if_neg hc]
    simp only [Bool.or_eq_true, bne_iff_ne, ne_eq] at hc
    have hf : ¬ (page_mapcount (s.mem_map page) ≠ 0 ∨ (s.mem_map page).mapping ≠ 0 ∨
        (s.mem_map page).count ≠ 0 ∨ (s.mem_map page).check_at_free = true ∨
        (s.mem_map page).memcg_bad = true) := by tauto
    constructor
    · constructor
      · intro h
        split at h <;> exact absurd (show (0 : Nat) = 1 from h) (by decide)
      · intro h; exact absurd h hf
    · constructor
      · intro _; exact hf
      · intro _
        split <;> rfl

/-- `free_pages_check` writes the descriptor of its page only. -/
theorem free_pages_check_other (s : State) (page x : Nat) (hx : x ≠ page) :
    (free_pages_check s page).1.mem_map x = s.mem_map x := by
  unfold free_pages_check
  split
  · simp only [bad_page, upd, if_neg hx]
  · split
    · simp only [upd, if_neg hx]
    · rfl

/-- The count of `free_pages_prepare` is non-zero exactly when one of the
pages still to be checked has a fault, or the count was non-zero already. -/
theorem free_pages_check_loop_bad (page : Nat) : ∀ (n i : Nat) (s : State) (bad : Nat),
    ((free_pages_check_loop page n i (s, bad)).2 ≠ 0 ↔
      bad ≠ 0 ∨ ∃ j, i ≤ j ∧ j < i + n ∧ free_fault (s.mem_map (page + j))) := by
  intro n
  induction n with
  | zero =>
    intro i s bad
    simp only [free_pages_check_loop]
    constructor
    · intro h; exact Or.inl h
    · rintro (h | ⟨j, h1, h2, _⟩)
      · exact h
      · omega
  | succ n ih =>
    intro i s bad
    rw [free_pages_check_loop, ih]
    have hc := free_pages_check_iff s (page + i)
    have hframe : ∀ j, i + 1 ≤ j →
        (free_pages_check s (page + i)).1.mem_map (page + j) = s.mem_map (page + j) :=
      fun j hj => free_pages_check_other s (page + i) (page + j) (by omega)
    constructor
    · rintro (h | ⟨j, h1, h2, h3⟩)
      · by_cases hb : bad = 0
        · right
          refine ⟨i, Nat.le_refl _, by omega, ?_⟩
          by_contra hnf
          have := hc.2.2 hnf
          omega
        · exact Or.inl hb
      · right
        rw [hframe j h1] at h3
        exact ⟨j, by omega, by omega, h3⟩
    · rintro (h | ⟨j, h1, h2, h3⟩)
      · left; omega
      · by_cases e : j = i
        · subst e
          left
          have := hc.1.2 h3
          omega
        · right
          refine ⟨j, by omega, by omega, ?_⟩
          rw [hframe j (by omega)]
          exact h3

/-- `free_pages_prepare` refuses a block exactly when one of its pages, as
the check finds it, has a fault. -/
theorem free_pages_prepare_false_iff (s : State) (page order : Nat) :
    (free_pages_prepare s page order).2 = false ↔
      ∃ i, i < 2 ^ order ∧ free_fault (checked_page s page i) := by
  unfold free_pages_prepare
  simp only []
  have hl := free_pages_check_loop_bad page (1 <<< order) 0
    (if PageAnon (s.mem_map page) = true then
      ({ s with mem_map := upd s.mem_map page { s.mem_map page with mapping := 0 } } : State)
      else s) 0
  have hmm : ∀ j, (if PageAnon (s.mem_map page) = true then
      ({ s with mem_map := upd s.mem_map page { s.mem_map page with mapping := 0 } } : State)
      else s).mem_map (page + j) = checked_page s page j := by
    intro j
    unfold checked_page anon_cleared
    by_cases hj : j = 0
    · subst hj
      rw [if_pos rfl]
      split
      · simp only [upd, Nat.add_zero, if_pos]
      · rfl
    · rw [if_neg hj]
      split
      · simp only [upd, if_neg (by omega : page + j ≠ page)]
      · rfl
  generalize (if PageAnon (s.mem_map page) = true then
      ({ s with mem_map := upd s.mem_map page { s.mem_map page with mapping := 0 } } : State)
      else s) = s0 at hl hmm ⊢
  rw [Nat.shiftLeft_eq, Nat.one_mul] at hl
  constructor
  · intro h
    have hne : (free_pages_check_loop page (2 ^ order) 0 (s0, 0)).2 ≠ 0 := by
      intro h0
      rw [Nat.shiftLeft_eq, Nat.one_mul] at h
      simp [h0] at h
    rcases hl.1 hne with h | ⟨j, _, h2, h3⟩
    · exact absurd rfl h
    · rw [hmm j] at h3
      exact ⟨j, by omega, h3⟩
  · rintro ⟨j, h1, h2⟩
    have hne := hl.2 (Or.inr ⟨j, Nat.zero_le _, by omega, by rw [hmm j]; exact h2⟩)
    rw [Nat.shiftLeft_eq, Nat.one_mul]
    simp [hne]

/-- The test of `__free_pages_ok` and `free_hot_cold_page`, which clear the
mlock flag first: the block is refused exactly when one of its pages, as the
check finds it, has a fault. -/
theorem free_prepare_refuses_iff (s : State) (page order : Nat) :
    (free_pages_prepare
      { s with mem_map := upd s.mem_map page { s.mem_map page with PG_mlocked := false } }
      page order).2 = false ↔
      ∃ i, i < 2 ^ order ∧ free_fault (checked_page s page i) := by
  have hsame : ∀ i, free_fault (checked_page
      { s with mem_map := upd s.mem_map page { s.mem_map page with PG_mlocked := false } }
      page i) ↔ free_fault (checked_page s page i) := by
    intro i
    unfold checked_page anon_cleared PageAnon
    by_cases hi : i = 0
    · subst hi
      simp only [if_pos, upd]
      split <;> exact Iff.rfl
    · simp only [if_neg hi, upd, if_neg (by omega : page + i ≠ page)]
  rw [free_pages_prepare_false_iff]
  constructor
  · rintro ⟨i, h1, h2⟩
    exact ⟨i, h1, (hsame i).1 h2⟩
  · rintro ⟨i, h1, h2⟩
    exact ⟨i, h1, (hsame i).2 h2⟩

/-- C33 as stated fails: `free_pages_check` has a fifth condition,
`mem_cgroup_bad_page_check(page)`. A page with `page_mapcount` 0, a null
`mapping`, a zero `_count` and no bit of `PAGE_FLAGS_CHECK_AT_FREE`, which
the memory controller reports bad, is reported as a fault. -/
theorem free_fault_counterexample :
    (free_pages_check charged_zone 1).2 = 1 ∧
    page_mapcount (charged_zone.mem_map 1) = 0 ∧ (charged_zone.mem_map 1).mapping = 0 ∧
    (charged_zone.mem_map 1).count = 0 ∧ (charged_zone.mem_map 1).check_at_free = false := by
  decide

/-- C33, amended: `free_pages_check(page)` reports a fault (returns 1, else
0) exactly when the page has a non-zero mapcount, a non-null mapping, a
non-zero reference count, a forbidden flag bit set, or
`mem_cgroup_bad_page_check(page)` answers true. If any of the `2^order` pages
of a block fails this check in `free_pages_prepare` (the first page being
checked after an anonymous mapping is reset), `__free_pages_ok` writes page
descriptors only, and so does `free_hot_cold_page` for one page, which also
returns the pageset as it was: the block goes on no free or per-CPU list,
and the free lists, `nr_free`, `pcp->count` and the free-page counter are
unchanged. -/
theorem free_fault_contained (cfg : Config) (s : State) (pcp : per_cpu_pages)
    (page order cold : Nat) :
    ((free_pages_check s page).2 = 1 ↔ free_fault (s.mem_map page)) ∧
    ((free_pages_check s page).2 = 0 ↔ ¬ free_fault (s.mem_map page)) ∧
    ((∃ i, i < 2 ^ order ∧ free_fault (checked_page s page i)) →
      ∃ mm, __free_pages_ok cfg s page order = { s with mem_map := mm }) ∧
    (free_fault (checked_page s page 0) →
      ∃ mm, free_hot_cold_page cfg s pcp page cold = some ({ s with mem_map := mm }, pcp)) := by
  refine ⟨(free_pages_check_iff s page).1, (free_pages_check_iff s page).2, ?_, ?_⟩
  · intro h
    have hf := (free_prepare_refuses_iff s page order).2 h
    obtain ⟨mm, hmm⟩ := free_pages_prepare_frame
      { s with mem_map := upd s.mem_map page { s.mem_map page with PG_mlocked := false } }
      page order
    refine ⟨mm, ?_⟩
    unfold __free_pages_ok
    simp only [hf, Bool.not_false, if_true]
    rw [hmm]
  · intro h
    have hf := (free_prepare_refuses_iff s page 0).2 ⟨0, by decide, h⟩
    obtain ⟨mm, hmm⟩ := free_pages_prepare_frame
      { s with mem_map := upd s.mem_map page { s.mem_map page with PG_mlocked := false } }
      page 0
    refine ⟨mm, ?_⟩
    unfold free_hot_cold_page
    simp only [hf, Bool.not_false, if_true]
    rw [hmm]

theorem free_fault_contained_witness :
    (∃ mm, __free_pages_ok default_config charged_zone 0 1 =
      { charged_zone with mem_map := mm }) ∧
    ∃ mm, free_hot_cold_page default_config charged_zone scenario_pcp 1 0 =
      some ({ charged_zone with mem_map := mm }, scenario_pcp) :=
  ⟨(free_fault_contained default_config charged_zone scenario_pcp 0 1 0).2.2.1
      ⟨1, by decide, by decide⟩,
    (free_fault_contained default_config charged_zone scenario_pcp 1 0 0).2.2.2 (by decide)⟩

/-- A page without fault leaves `free_pages_check` with its
`PAGE_FLAGS_CHECK_AT_PREP` bits clear and nothing else written. -/
theorem free_pages_check_clean (s : State) (page : Nat)
    (h : ¬ free_fault (s.mem_map page)) :
    (free_pages_check s page).1.mem_map page =
      { s.mem_map page with check_at_prep := false } := by
  have hc : ¬ (page_mapcount (s.mem_map page) != 0 || (s.mem_map page).mapping != 0 ||
      (s.mem_map page).count != 0 || (s.mem_map page).check_at_free ||
      (s.mem_map page).memcg_bad) = true := by
    intro hc
    apply h
    unfold free_fault
    simp only [Bool.or_eq_true, bne_iff_ne, ne_eq] at hc
    tauto
  unfold free_pages_check
  rw [if_neg hc]
  split
  · simp only [upd, if_pos]
  · rename_i hp
    have : (s.mem_map page).check_at_prep = false := by
      cases hq : (s.mem_map page).check_at_prep
      · rfl
      · exact absurd hq hp
    rw [← this]

/-- An order-0 block whose page has no fault passes `free_pages_prepare`,
with the `PAGE_FLAGS_CHECK_AT_PREP` bits of the page cleared. -/
theorem free_pages_prepare_single (s : State) (page : Nat)
    (h : ¬ free_fault (anon_cleared (s.mem_map page))) :
    (free_pages_prepare s page 0).2 = true ∧
    (free_pages_prepare s page 0).1.mem_map page =
      { anon_cleared (s.mem_map page) with check_at_prep := false } := by
  unfold free_pages_prepare
  have e1 : (1 <<< 0 : Nat) = 1 := rfl
  rw [e1]
  simp only [free_pages_check_loop, Nat.add_zero]
  have hmm : (if PageAnon (s.mem_map page) = true then
      ({ s with mem_map := upd s.mem_map page { s.mem_map page with mapping := 0 } } : State)
      else s).mem_map page = anon_cleared (s.mem_map page) := by
    unfold anon_cleared
    split
    · simp only [upd, if_pos]
    · rfl
  generalize (if PageAnon (s.mem_map page) = true then
      ({ s with mem_map := upd s.mem_map page { s.mem_map page with mapping := 0 } } : State)
      else s) = s0 at hmm ⊢
  have hnf : ¬ free_fault (s0.mem_map page) := by
    rw [hmm]
    exact h
  have hclean := free_pages_check_clean s0 page hnf
  have hz := (free_pages_check_iff s0 page).2.2 hnf
  simp only [hz, Nat.add_zero, bne_self_eq_false, Bool.false_eq_true, if_false]
  rw [hclean, hmm]
  exact ⟨trivial, rfl⟩

/-- The descriptor of a page without fault when `free_hot_cold_page` turns to
the per-CPU lists. -/
theorem free_prepared_page (cfg : Config) (z : State) (page : Nat)
    (h : ¬ free_fault (checked_page z page 0)) :
    (free_prepared cfg z page).mem_map page =
      { checked_page z page 0 with
        PG_mlocked := false, check_at_prep := false,
        private_ := get_pageblock_migratetype cfg z page } := by
  have hsame : anon_cleared (upd z.mem_map page { z.mem_map page with PG_mlocked := false } page)
      = { checked_page z page 0 with PG_mlocked := false } := by
    unfold checked_page anon_cleared PageAnon
    simp only [if_pos, upd]
    split <;> rfl
  have hs := free_pages_prepare_single
    { z with mem_map := upd z.mem_map page { z.mem_map page with PG_mlocked := false } } page
    (by
      show ¬ free_fault
        (anon_cleared (upd z.mem_map page { z.mem_map page with PG_mlocked := false } page))
      rw [hsame]
      exact h)
  unfold free_prepared
  simp only [set_page_private, upd, if_pos]
  rw [hs.2]
  exact congrArg (fun p : Page => ({ p with
    check_at_prep := false, private_ := get_pageblock_migratetype cfg z page } : Page)) hsame

/-- A single page that `check_new_page` finds clean passes
`prep_new_page`. -/
theorem prep_new_page_clean (g : GfpMasks) (s : State) (page gfp_flags : Nat)
    (h1 : page_mapcount (s.mem_map page) = 0) (h2 : (s.mem_map page).mapping = 0)
    (h3 : (s.mem_map page).count = 0) (h4 : (s.mem_map page).check_at_prep = false)
    (h5 : (s.mem_map page).memcg_bad = false) :
    (prep_new_page g s page 0 gfp_flags).2 = 0 := by
  have hc : check_new_page s page = (s, 0) := by
    unfold check_new_page
    simp [h1, h2, h3, h4, h5]
  unfold prep_new_page
  have e1 : (1 <<< 0 : Nat) = 1 := rfl
  rw [e1]
  simp [check_new_page_loop, hc]

/-- Putting a page at the head of a per-CPU list and taking the head off
again gives the pageset back. -/
theorem pcp_push_pop (pcp : per_cpu_pages) (m page : Nat) :
    ({ pcp_push pcp m page 0 with
        count := (pcp_push pcp m page 0).count - 1,
        lists := upd (pcp_push pcp m page 0).lists m (pcp.lists m) } : per_cpu_pages) = pcp := by
  cases pcp with
  | mk count high batch lists =>
    simp only [pcp_push, per_cpu_pages.mk.injEq]
    refine ⟨by omega, trivial, trivial, ?_⟩
    funext x
    unfold upd
    split
    · rename_i hx; rw [hx]
    · rfl

/-- C38: hot pages are last in, first out. For every pageset and every page
that passes the check of the free path and whose page-block class `m` is one
of the three per-CPU classes, `free_hot_cold_page(page, 0)` that does not
reach `high` (no drain) puts the page at the head of list `m` and counts it;
`buffered_rmqueue` of order 0 and class `m` without `__GFP_COLD`, called
right after, returns that page, and the pageset, lists and `count`, is what
it was before the free. -/
theorem hot_lifo (cfg : Config) (g : GfpMasks) (z : State) (pcp : per_cpu_pages)
    (page gfp_flags n : Nat)
    (hvalid : ¬ free_fault (checked_page z page 0))
    (hm : get_pageblock_migratetype cfg z page < MIGRATE_PCPTYPES)
    (hnodrain : pcp.count + 1 < pcp.high)
    (hhot : gfp_flags &&& g.__GFP_COLD = 0) :
    ∃ (z1 : State) (pcp1 : per_cpu_pages) (z2 : State),
      free_hot_cold_page cfg z pcp page 0 = some (z1, pcp1) ∧
      pcp1.lists (get_pageblock_migratetype cfg z page) =
        page :: pcp.lists (get_pageblock_migratetype cfg z page) ∧
      pcp1.count = pcp.count + 1 ∧
      buffered_rmqueue cfg g (n + 1) z1 pcp1 0 gfp_flags (get_pageblock_migratetype cfg z page) =
        some (some page, z2, pcp) := by
  have hprep : (free_pages_prepare
      { z with mem_map := upd z.mem_map page { z.mem_map page with PG_mlocked := false } }
      page 0).2 = true := by
    cases hb : (free_pages_prepare
      { z with mem_map := upd z.mem_map page { z.mem_map page with PG_mlocked := false } }
      page 0).2
    · obtain ⟨i, h1, h2⟩ := (free_prepare_refuses_iff z page 0).1 hb
      have : i = 0 := by
        simp only [pow_zero] at h1
        omega
      subst this
      exact absurd h2 hvalid
    · rfl
  have hiso : get_pageblock_migratetype cfg z page ≠ MIGRATE_ISOLATE := by
    unfold MIGRATE_PCPTYPES at hm
    unfold MIGRATE_ISOLATE
    omega
  have hcls : pcp_class (get_pageblock_migratetype cfg z page) =
      get_pageblock_migratetype cfg z page := by
    unfold pcp_class
    rw [if_neg (by omega)]
  have hfree := free_hot_cold_page_push cfg z pcp page 0 hprep hiso
  rw [if_neg (by omega), hcls] at hfree
  have hpage := free_prepared_page cfg z page hvalid
  have hnf : ¬ (page_mapcount (checked_page z page 0) ≠ 0 ∨
      (checked_page z page 0).mapping ≠ 0 ∨ (checked_page z page 0).count ≠ 0 ∨
      (checked_page z page 0).check_at_free = true ∨
      (checked_page z page 0).memcg_bad = true) := hvalid
  have hok : (prep_new_page g (free_prepared cfg z page) page 0 gfp_flags).2 = 0 := by
    apply prep_new_page_clean
    · rw [hpage]
      have : page_mapcount (checked_page z page 0) = 0 := by
        by_contra h; exact hnf (Or.inl h)
      exact this
    · rw [hpage]
      show (checked_page z page 0).mapping = 0
      by_contra h; exact hnf (Or.inr (Or.inl h))
    · rw [hpage]
      show (checked_page z page 0).count = 0
      by_contra h; exact hnf (Or.inr (Or.inr (Or.inl h)))
    · rw [hpage]
    · rw [hpage]
      show (checked_page z page 0).memcg_bad = false
      cases hb : (checked_page z page 0).memcg_bad
      · rfl
      · exact absurd (Or.inr (Or.inr (Or.inr (Or.inr hb)))) hnf
  generalize get_pageblock_migratetype cfg z page = m at *
  have hl : (pcp_push pcp m page 0).lists m = page :: pcp.lists m := by
    simp [pcp_push, upd]
  refine ⟨free_prepared cfg z page, pcp_push pcp m page 0,
    (prep_new_page g (free_prepared cfg z page) page 0 gfp_flags).1, hfree, hl, rfl, ?_⟩
  have hpass : buffered_rmqueue_pass cfg g (free_prepared cfg z page) (pcp_push pcp m page 0)
      0 gfp_flags m = some (PassOutcome.got page,
        (prep_new_page g (free_prepared cfg z page) page 0 gfp_flags).1, pcp) := by
    unfold buffered_rmqueue_pass
    simp only [hhot, hl, bne_self_eq_false, Bool.false_eq_true, if_false, beq_self_eq_true,
      if_true, List.isEmpty_cons, hok]
    rw [pcp_push_pop]
  rw [buffered_rmqueue, hpass]

theorem hot_lifo_witness :
    ∃ (z1 : State) (pcp1 : per_cpu_pages) (z2 : State),
      free_hot_cold_page default_config ledger_zone ledger_pcp 41 0 = some (z1, pcp1) ∧
      pcp1.lists (get_pageblock_migratetype default_config ledger_zone 41) =
        41 :: ledger_pcp.lists (get_pageblock_migratetype default_config ledger_zone 41) ∧
      pcp1.count = ledger_pcp.count + 1 ∧
      buffered_rmqueue default_config gfp_bits (0 + 1) z1 pcp1 0 0
          (get_pageblock_migratetype default_config ledger_zone 41) =
        some (some 41, z2, ledger_pcp) :=
  hot_lifo default_config gfp_bits ledger_zone ledger_pcp 41 0 0 (by decide) (by decide)
    (by decide) (by decide)

theorem smallest_calls_zero (cfg : Config) (m : Nat) (after : State → Nat → State)
    (s : State) : smallest_calls cfg m after 0 s = ([], s) := rfl

theorem smallest_calls_succ (cfg : Config) (m : Nat) (after : State → Nat → State)
    (n : Nat) (s : State) :
    smallest_calls cfg m after (n + 1) s =
      ((__rmqueue_smallest cfg s 0 m).1 ::
        (smallest_calls cfg m after n
          (match (__rmqueue_smallest cfg s 0 m).1 with
            | some page => after (__rmqueue_smallest cfg s 0 m).2 page
            | none => (__rmqueue_smallest cfg s 0 m).2)).1,
        (smallest_calls cfg m after n
          (match (__rmqueue_smallest cfg s 0 m).1 with
            | some page => after (__rmqueue_smallest cfg s 0 m).2 page
            | none => (__rmqueue_smallest cfg s 0 m).2)).2) := rfl

/-- Calls in sequence: `a + b` calls are `a` calls followed by `b` calls. -/
theorem smallest_calls_add (cfg : Config) (m : Nat) (after : State → Nat → State) :
    ∀ (a b : Nat) (s : State),
      smallest_calls cfg m after (a + b) s =
        ((smallest_calls cfg m after a s).1 ++
            (smallest_calls cfg m after b (smallest_calls cfg m after a s).2).1,
          (smallest_calls cfg m after b (smallest_calls cfg m after a s).2).2) := by
  intro a
  induction a with
  | zero =>
    intro b s
    rw [Nat.zero_add, smallest_calls_zero]
    rfl
  | succ a ih =>
    intro b s
    rw [show a + 1 + b = (a + b) + 1 by omega, smallest_calls_succ, smallest_calls_succ, ih]
    rfl

/-- One order-0 call that finds the lists of class `m` empty below order
`j` and the block `q` alone on the list of order `j`: it returns `q` and
leaves one upper half on each list below `j`. -/
theorem smallest_take_block (cfg : Config) (s : State) (m j q : Nat)
    (hg : ∀ i, guard_level cfg i = false) (hj : j < cfg.MAX_ORDER)
    (hlow : ∀ i, i < j → s.free_list i m = []) (hq : s.free_list j m = [q])
    (hhigh : ∀ i, j < i → q ∉ s.free_list i m) :
    (__rmqueue_smallest cfg s 0 m).1 = some q ∧
    ∀ i, (__rmqueue_smallest cfg s 0 m).2.free_list i m =
      if i < j then [q + 2 ^ i] else if i = j then [] else s.free_list i m := by
  have h := rmqueue_smallest_loop_some cfg s 0 m j q [] hj hq (cfg.MAX_ORDER - 0) 0
    (Nat.zero_le _) (by omega) (fun i _ hi => hlow i hi)
  unfold __rmqueue_smallest
  rw [h]
  refine ⟨rfl, fun i => ?_⟩
  simp only []
  rw [expand_free_list cfg q 0 m j (Nat.zero_le _)]
  have hbase : (nr_free_dec cfg (rmv_page_order (list_del s q) q) j).free_list i m =
      (s.free_list i m).erase q := rfl
  rw [hbase]
  by_cases h1 : i < j
  · rw [if_pos ⟨Nat.zero_le _, h1, rfl, hg i⟩, if_pos h1, hlow i h1]
    rfl
  · rw [if_neg (by intro hc; exact h1 hc.2.1), if_neg h1]
    by_cases h2 : i = j
    · rw [if_pos h2, h2, hq]
      simp
    · rw [if_neg h2]
      exact List.erase_of_not_mem (hhigh i (by omega))

/-- The pages of a block come out in ascending order. From a zone in which,
for class `m`, the lists below order `j` are empty, block `q` is alone on the
list of order `j` and no frame of the block is on a list of a higher order,
`2^j` successive order-0 calls return `q`, `q + 1`, ..., `q + 2^j - 1`; the
lists up to order `j` are then empty and the lists above are as they
were. -/
theorem smallest_calls_block (cfg : Config) (m : Nat) (after : State → Nat → State)
    (hafter : ∀ s page, (after s page).free_list = s.free_list)
    (hg : ∀ i, guard_level cfg i = false) :
    ∀ (j : Nat) (s : State) (q : Nat), j < cfg.MAX_ORDER →
      (∀ i, i < j → s.free_list i m = []) → s.free_list j m = [q] →
      (∀ i, j < i → ∀ x, x ∈ s.free_list i m → x < q ∨ q + 2 ^ j ≤ x) →
      (smallest_calls cfg m after (2 ^ j) s).1 =
          (List.range (2 ^ j)).map (fun t => some (q + t)) ∧
        (∀ i, i ≤ j → (smallest_calls cfg m after (2 ^ j) s).2.free_list i m = []) ∧
        (∀ i, j < i →
          (smallest_calls cfg m after (2 ^ j) s).2.free_list i m = s.free_list i m) := by
  intro j
  induction j using Nat.strong_induction_on with
  | _ j ih =>
    intro s q hj hlow hq hhigh
    -- the first call
    have hnot : ∀ i, j < i → q ∉ s.free_list i m := by
      intro i hi hmem
      have := hhigh i hi q hmem
      have hp : 0 < 2 ^ j := Nat.two_pow_pos j
      omega
    obtain ⟨r1, r2⟩ := smallest_take_block cfg s m j q hg hj hlow hq hnot
    -- the calls that follow, from the state with one half per order from `a` up
    have hQ : ∀ (d a : Nat) (s1 : State), a + d = j →
        (∀ i, i < a → s1.free_list i m = []) →
        (∀ i, a ≤ i → i < j → s1.free_list i m = [q + 2 ^ i]) →
        s1.free_list j m = [] →
        (∀ i, j < i → ∀ x, x ∈ s1.free_list i m → x < q ∨ q + 2 ^ j ≤ x) →
        (smallest_calls cfg m after (2 ^ j - 2 ^ a) s1).1 =
            (List.range (2 ^ j - 2 ^ a)).map (fun t => some (q + 2 ^ a + t)) ∧
          (∀ i, i ≤ j →
            (smallest_calls cfg m after (2 ^ j - 2 ^ a) s1).2.free_list i m = []) ∧
          (∀ i, j < i → (smallest_calls cfg m after (2 ^ j - 2 ^ a) s1).2.free_list i m =
            s1.free_list i m) := by
      intro d
      induction d with
      | zero =>
        intro a s1 ha h1 h2 h3 _
        have : a = j := by omega
        subst this
        rw [Nat.sub_self, smallest_calls_zero]
        refine ⟨rfl, fun i hi => ?_, fun i _ => rfl⟩
        rcases Nat.lt_or_eq_of_le hi with h | h
        · exact h1 i h
        · rw [h]; exact h3
      | succ d ihd =>
        intro a s1 ha h1 h2 h3 h4
        have haj : a < j := by omega
        have hpa : 2 ^ (a + 1) ≤ 2 ^ j := Nat.pow_le_pow_right (by decide) (by omega)
        have hpa2 : 2 ^ (a + 1) = 2 ^ a + 2 ^ a := by rw [Nat.pow_succ]; omega
        obtain ⟨b1, b2, b3⟩ := ih a haj s1 (q + 2 ^ a) (by omega) h1
          (h2 a (Nat.le_refl _) haj)
          (by
            intro i hi x hx
            by_cases hij : i < j
            · rw [h2 i (by omega) hij] at hx
              have hx2 : x = q + 2 ^ i := by simpa using hx
              have : 2 ^ (a + 1) ≤ 2 ^ i := Nat.pow_le_pow_right (by decide) (by omega)
              omega
            · by_cases hij2 : i = j
              · rw [hij2, h3] at hx
                simp at hx
              · have := h4 i (by omega) x hx
                omega)
        obtain ⟨c1, c2, c3⟩ := ihd (a + 1) (smallest_calls cfg m after (2 ^ a) s1).2
          (by omega)
          (fun i hi => b2 i (by omega))
          (fun i hi1 hi2 => by rw [b3 i (by omega)]; exact h2 i (by omega) hi2)
          (by rw [b3 j haj]; exact h3)
          (fun i hi x hx => by
            rw [b3 i (by omega)] at hx
            exact h4 i hi x hx)
        have hsplit : 2 ^ j - 2 ^ a = 2 ^ a + (2 ^ j - 2 ^ (a + 1)) := by
          have hgen : ∀ A J : Nat, A + A ≤ J → J - A = A + (J - (A + A)) := by
            intro A J h; omega
          rw [hpa2]
          exact hgen _ _ (by rw [← hpa2]; exact hpa)
        rw [hsplit, smallest_calls_add]
        refine ⟨?_, c2, fun i hi => ?_⟩
        · simp only []
          rw [b1, c1, List.range_add, List.map_append, List.map_map]
          congr 1
          · apply List.map_congr_left
            intro t _
            simp only [Function.comp]
            congr 1
            omega
        · simp only []
          rw [c3 i hi, b3 i (by omega)]
    -- assemble
    have hp : 1 ≤ 2 ^ j := Nat.one_le_two_pow
    have hsplit : 2 ^ j = 1 + (2 ^ j - 2 ^ 0) := by
      rw [Nat.pow_zero]; omega
    have hone : smallest_calls cfg m after 1 s =
        ([some q], after (__rmqueue_smallest cfg s 0 m).2 q) := by
      rw [smallest_calls_succ, smallest_calls_zero, r1]
    have hl : ∀ i, (after (__rmqueue_smallest cfg s 0 m).2 q).free_list i m =
        if i < j then [q + 2 ^ i] else if i = j then [] else s.free_list i m := by
      intro i
      rw [hafter]
      exact r2 i
    obtain ⟨c1, c2, c3⟩ := hQ j 0 (after (__rmqueue_smallest cfg s 0 m).2 q) (by omega)
      (fun i hi => absurd hi (Nat.not_lt_zero i))
      (fun i _ hi => by rw [hl i, if_pos hi])
      (by rw [hl j, if_neg (Nat.lt_irrefl j), if_pos rfl])
      (fun i hi x hx => by
        rw [hl i, if_neg (by omega), if_neg (by omega)] at hx
        exact hhigh i hi x hx)
    rw [hsplit, smallest_calls_add, hone]
    refine ⟨?_, c2, fun i hi => ?_⟩
    · simp only []
      rw [c1, List.range_add, List.map_append, List.map_map]
      congr 1
      apply List.map_congr_left
      intro t _
      simp only [Function.comp, Nat.pow_zero]
      congr 1
      omega
    · simp only []
      rw [c3 i hi, hl i, if_neg (by omega), if_neg (by omega)]

theorem smallest_calls_length (cfg : Config) (m : Nat) (after : State → Nat → State) :
    ∀ (n : Nat) (s : State), (smallest_calls cfg m after n s).1.length = n := by
  intro n
  induction n with
  | zero => intro s; rfl
  | succ n ih =>
    intro s
    rw [smallest_calls_succ]
    simp only [List.length_cons, ih]

/-- The loop of `rmqueue_bulk` for order 0 and `cold == 0`, while
`__rmqueue_smallest` finds pages: each page goes to the end of the list being
filled. -/
theorem rmqueue_bulk_loop_calls (cfg : Config) (m len0 : Nat) :
    ∀ (n i : Nat) (z : State) (l pages : List Nat),
      (smallest_calls cfg m (fun s page => set_page_private s page m) n z).1 =
        pages.map some →
      l.length = i →
      rmqueue_bulk_loop cfg 0 m 0 len0 n i z l =
        some (i + n, (smallest_calls cfg m (fun s page => set_page_private s page m) n z).2,
          l ++ pages) := by
  intro n
  induction n with
  | zero =>
    intro i z l pages h hl
    rw [smallest_calls_zero] at h
    have : pages = [] := by
      cases pages with
      | nil => rfl
      | cons a b => simp at h
    subst this
    rw [smallest_calls_zero, List.append_nil]
    rfl
  | succ n ih =>
    intro i z l pages h hl
    rw [smallest_calls_succ] at h ⊢
    simp only [] at h ⊢
    cases pages with
    | nil => simp at h
    | cons page ps =>
      simp only [List.map_cons, List.cons.injEq] at h
      obtain ⟨h1, h2⟩ := h
      rw [h1] at h2 ⊢
      simp only [] at h2 ⊢
      have hrm : __rmqueue cfg z 0 m = some (some page, (__rmqueue_smallest cfg z 0 m).2) := by
        unfold __rmqueue
        cases hr : __rmqueue_smallest cfg z 0 m with
        | mk a b =>
          rw [hr] at h1
          simp only [] at h1
          subst h1
          rfl
      rw [rmqueue_bulk_loop, hrm]
      simp only [beq_self_eq_true, if_true]
      have hins : list_insert l i page = l ++ [page] := by
        unfold list_insert
        rw [← hl, List.take_length, List.drop_length]
      rw [hins, ih (i + 1) _ (l ++ [page]) ps h2 (by rw [List.length_append, hl]; rfl)]
      rw [List.append_assoc]
      simp only [List.singleton_append]
      congr 2
      omega

/-- C37: with no debug guard pages, from a zone whose only free block in
class `m` is the block of order `k < MAX_ORDER` at frame `p`, `2^k`
successive calls `__rmqueue_smallest(zone, 0, m)` return the frames `p`,
`p + 1`, ..., `p + 2^k - 1` in this order and the next call returns `NULL`;
and `rmqueue_bulk` of order 0 with `cold == 0`, asked for `count <= 2^k`
pages of class `m` for an empty list, fills it from head to tail with
`p`, `p + 1`, ..., `p + count - 1`. -/
theorem ascending_pages (cfg : Config) (s : State) (m p k : Nat)
    (hg : ∀ i, guard_level cfg i = false) (hk : k < cfg.MAX_ORDER)
    (honly : ∀ i, s.free_list i m = if i = k then [p] else []) :
    (smallest_calls cfg m (fun z _ => z) (2 ^ k + 1) s).1 =
        (List.range (2 ^ k)).map (fun t => some (p + t)) ++ [none] ∧
    ∀ count, count ≤ 2 ^ k →
      ∃ z1, rmqueue_bulk cfg s 0 count [] m 0 =
        some (count, z1, (List.range count).map (fun t => p + t)) := by
  have hlow : ∀ i, i < k → s.free_list i m = [] := by
    intro i hi
    rw [honly i, if_neg (by omega)]
  have hq : s.free_list k m = [p] := by rw [honly k, if_pos rfl]
  have hhigh : ∀ i, k < i → ∀ x, x ∈ s.free_list i m → x < p ∨ p + 2 ^ k ≤ x := by
    intro i hi x hx
    rw [honly i, if_neg (by omega)] at hx
    simp at hx
  constructor
  · obtain ⟨b1, b2, b3⟩ := smallest_calls_block cfg m (fun z _ => z) (fun _ _ => rfl) hg
      k s p hk hlow hq hhigh
    rw [smallest_calls_add, b1]
    simp only []
    congr 1
    rw [smallest_calls_succ, smallest_calls_zero]
    simp only [List.cons.injEq, and_true]
    have hempty : ∀ i, 0 ≤ i → i < cfg.MAX_ORDER → i < 0 + (cfg.MAX_ORDER - 0) →
        (smallest_calls cfg m (fun z _ => z) (2 ^ k) s).2.free_list i m = [] := by
      intro i _ _ _
      by_cases hi : i ≤ k
      · exact b2 i hi
      · rw [b3 i (by omega), honly i, if_neg (by omega)]
    unfold __rmqueue_smallest
    rw [rmqueue_smallest_loop_none cfg _ 0 m _ 0 hempty]
  · intro count hc
    obtain ⟨b1, _, _⟩ := smallest_calls_block cfg m (fun s page => set_page_private s page m)
      (fun _ _ => rfl) hg k s p hk hlow hq hhigh
    have hsplit : 2 ^ k = count + (2 ^ k - count) := by omega
    rw [hsplit, smallest_calls_add, List.range_add, List.map_append] at b1
    simp only [] at b1
    have hpre := (List.append_inj b1
      (by rw [smallest_calls_length, List.length_map, List.length_range])).1
    have hpages : (smallest_calls cfg m (fun s page => set_page_private s page m) count s).1 =
        ((List.range count).map (fun t => p + t)).map some := by
      rw [hpre, List.map_map]
      rfl
    have hloop := rmqueue_bulk_loop_calls cfg m 0 count 0 s [] _ hpages rfl
    refine ⟨mod_free_pages
      (smallest_calls cfg m (fun s page => set_page_private s page m) count s).2
      (-((count <<< 0 : Nat) : Int)), ?_⟩
    unfold rmqueue_bulk
    simp only [List.length_nil]
    rw [hloop]
    simp only [Nat.zero_add, List.nil_append]

theorem ascending_pages_witness :
    (smallest_calls default_config MIGRATE_MOVABLE (fun z _ => z) (2 ^ 3 + 1)
        (zone_of_blocks 4 [(8, 3)] MIGRATE_MOVABLE)).1 =
      (List.range (2 ^ 3)).map (fun t => some (8 + t)) ++ [none] ∧
    ∀ count, count ≤ 2 ^ 3 →
      ∃ z1, rmqueue_bulk default_config (zone_of_blocks 4 [(8, 3)] MIGRATE_MOVABLE) 0 count []
          MIGRATE_MOVABLE 0 =
        some (count, z1, (List.range count).map (fun t => 8 + t)) :=
  ascending_pages default_config (zone_of_blocks 4 [(8, 3)] MIGRATE_MOVABLE) MIGRATE_MOVABLE 8 3
    (fun i => by simp [guard_level, default_config]) (by decide)
    (fun i => by
      by_cases h : i = 3
      · subst h; rfl
      · simp [zone_of_blocks, h]
        intro h2
        exact absurd h2.symm h)

theorem listed_blocks_eq (z : State) (j : Nat) :
    listed_blocks z j = (z.free_list j 0).length + (z.free_list j 1).length +
      (z.free_list j 2).length + (z.free_list j 3).length + (z.free_list j 4).length := by
  unfold listed_blocks MIGRATE_TYPES
  simp [List.range_succ]
  omega

/-- The count of an order depends on the lists of that order only. -/
theorem listed_blocks_same (s s1 : State) (j : Nat)
    (h : ∀ m, m < MIGRATE_TYPES → s1.free_list j m = s.free_list j m) :
    listed_blocks s1 j = listed_blocks s j := by
  rw [listed_blocks_eq, listed_blocks_eq, h 0 (by decide), h 1 (by decide), h 2 (by decide),
    h 3 (by decide), h 4 (by decide)]

/-- One more block on one list of the order. -/
theorem listed_blocks_more (s s1 : State) (j m0 : Nat) (hm0 : m0 < MIGRATE_TYPES)
    (h0 : (s1.free_list j m0).length = (s.free_list j m0).length + 1)
    (h : ∀ m, m < MIGRATE_TYPES → m ≠ m0 → s1.free_list j m = s.free_list j m) :
    listed_blocks s1 j = listed_blocks s j + 1 := by
  rw [listed_blocks_eq, listed_blocks_eq]
  unfold MIGRATE_TYPES at hm0 h
  interval_cases m0
  · rw [h0, h 1 (by decide) (by decide), h 2 (by decide) (by decide),
      h 3 (by decide) (by decide), h 4 (by decide) (by decide)]
    omega
  · rw [h0, h 0 (by decide) (by decide), h 2 (by decide) (by decide),
      h 3 (by decide) (by decide), h 4 (by decide) (by decide)]
    omega
  · rw [h0, h 0 (by decide) (by decide), h 1 (by decide) (by decide),
      h 3 (by decide) (by decide), h 4 (by decide) (by decide)]
    omega
  · rw [h0, h 0 (by decide) (by decide), h 1 (by decide) (by decide),
      h 2 (by decide) (by decide), h 4 (by decide) (by decide)]
    omega
  · rw [h0, h 0 (by decide) (by decide), h 1 (by decide) (by decide),
      h 2 (by decide) (by decide), h 3 (by decide) (by decide)]
    omega

theorem ulong_inc_eq (cfg : Config) (n : Nat) (h : n + 1 < 2 ^ cfg.BITS_PER_LONG) :
    ulong_inc cfg n = n + 1 := by
  unfold ulong_inc
  exact Nat.mod_eq_of_lt h

theorem ulong_dec_eq (cfg : Config) (n : Nat) (h1 : 1 ≤ n) (h : n < 2 ^ cfg.BITS_PER_LONG) :
    ulong_dec cfg n = n - 1 := by
  unfold ulong_dec
  have : n + 2 ^ cfg.BITS_PER_LONG - 1 = (n - 1) + 2 ^ cfg.BITS_PER_LONG := by omega
  rw [this, Nat.add_mod_right]
  exact Nat.mod_eq_of_lt (by omega)

/-- Unlinking a listed block of order `k` of a well-formed zone takes one
block off the count of order `k` and none off the others. -/
theorem listed_blocks_list_del {cfg : Config} {zid : Nat} {s : State} {p k m : Nat}
    (hwf : WF cfg zid s) (hmem : p ∈ s.free_list k m) (j : Nat) :
    listed_blocks (list_del s p) j + (if j = k then 1 else 0) = listed_blocks s j := by
  have hm := (hwf.listed k m p hmem).1
  by_cases hj : j = k
  · subst hj
    rw [if_pos rfl]
    symm
    apply listed_blocks_more (list_del s p) s j m hm
    · show (s.free_list j m).length = ((s.free_list j m).erase p).length + 1
      rw [List.length_erase_of_mem hmem]
      have := List.length_pos_of_mem hmem
      omega
    · intro m' _ hne
      show s.free_list j m' = (s.free_list j m').erase p
      rw [List.erase_of_not_mem]
      intro hc
      exact hne (hwf.one_list j m' m p hc hmem)
  · rw [if_neg hj, Nat.add_zero]
    apply listed_blocks_same
    intro m' _
    show (s.free_list j m').erase p = s.free_list j m'
    apply List.erase_of_not_mem
    intro hc
    have h1 : Blk cfg zid s p j := Or.inl ⟨m', hc⟩
    have h2 : Blk cfg zid s p k := Or.inl ⟨m, hmem⟩
    have hov : Overlap p j p k := by
      unfold Overlap
      have := Nat.two_pow_pos j
      have := Nat.two_pow_pos k
      omega
    exact hj (hwf.disjoint p j p k h1 h2 hov).2

/-- Linking a block at the head or the tail of a list of order `k` adds one
block to the count of order `k` and none to the others. -/
theorem listed_blocks_list_add (s : State) (p k m : Nat) (hm : m < MIGRATE_TYPES)
    (tail : Bool) (j : Nat) :
    listed_blocks (if tail = true then list_add_tail s p k m else list_add s p k m) j =
      listed_blocks s j + (if j = k then 1 else 0) := by
  by_cases hj : j = k
  · subst hj
    rw [if_pos rfl]
    apply listed_blocks_more _ _ j m hm
    · cases tail <;> simp [list_add, list_add_tail, upd_list]
    · intro m' _ hne
      cases tail <;> simp [list_add, list_add_tail, upd_list, hne]
  · rw [if_neg hj, Nat.add_zero]
    apply listed_blocks_same
    intro m' _
    cases tail <;> simp [list_add, list_add_tail, upd_list, hj]

/-- With no debug guard pages, `expand` keeps the count of an order equal to
`nr_free`: each order from `low` up to `h - 1` gets one block and one
increment. -/
theorem expand_counts (cfg : Config) (p low m h : Nat) (s : State) (j : Nat)
    (hg : debug_guardpage_minorder cfg = 0) (hm : m < MIGRATE_TYPES) (hlow : low ≤ h)
    (hbal : s.nr_free j = listed_blocks s j)
    (hfit : listed_blocks s j + 1 < 2 ^ cfg.BITS_PER_LONG) :
    (expand cfg p low m h h (1 <<< h) s).nr_free j =
        listed_blocks (expand cfg p low m h h (1 <<< h) s) j ∧
      listed_blocks (expand cfg p low m h h (1 <<< h) s) j ≤ listed_blocks s j + 1 := by
  have hgl : ∀ i, guard_level cfg i = false := by
    intro i
    unfold guard_level
    rw [hg]
    simp
  have hlists := expand_free_list cfg p low m h hlow s
  by_cases hj : low ≤ j ∧ j < h
  · have h1 := (expand_lists cfg p low m hg h s j hj.1 hj.2).2.1
    have h2 : listed_blocks (expand cfg p low m h h (1 <<< h) s) j = listed_blocks s j + 1 := by
      apply listed_blocks_more _ _ j m hm
      · rw [hlists j m, if_pos ⟨hj.1, hj.2, rfl, hgl j⟩]
        rfl
      · intro m' _ hne
        rw [hlists j m', if_neg (by intro hc; exact hne hc.2.2.1)]
    rw [h1, h2, hbal, ulong_inc_eq cfg _ hfit]
    exact ⟨rfl, Nat.le_refl _⟩
  · have h1 := (expand_frame cfg p low m h s).2.1 j (by omega)
    have h2 : listed_blocks (expand cfg p low m h h (1 <<< h) s) j = listed_blocks s j := by
      apply listed_blocks_same
      intro m' _
      rw [hlists j m', if_neg (by intro hc; exact hj ⟨hc.1, hc.2.1⟩)]
    rw [h1, h2, hbal]
    exact ⟨rfl, Nat.le_succ _⟩

/-- Unlinking a listed block and decrementing `nr_free` of its order keeps
the count of every order equal to `nr_free`; the counter may be read in a
state `s0` that agrees with the count. -/
theorem unlink_counts {cfg : Config} {zid : Nat} {s s0 s1 : State} {p k m : Nat}
    (hwf : WF cfg zid s) (hmem : p ∈ s.free_list k m)
    (hl : s1.free_list = (list_del s p).free_list)
    (hn : s1.nr_free = (nr_free_dec cfg s0 k).nr_free) (j : Nat)
    (hbal : s0.nr_free j = listed_blocks s j)
    (hfit : listed_blocks s j + 1 < 2 ^ cfg.BITS_PER_LONG) :
    s1.nr_free j = listed_blocks s1 j ∧ listed_blocks s1 j ≤ listed_blocks s j := by
  have hd := listed_blocks_list_del hwf hmem j
  have hsame : listed_blocks s1 j = listed_blocks (list_del s p) j :=
    listed_blocks_same _ _ j (fun m' _ => by rw [hl])
  rw [hsame, hn]
  by_cases hj : j = k
  · subst hj
    rw [if_pos rfl] at hd
    simp only [nr_free_dec, upd, if_pos]
    rw [hbal, ulong_dec_eq cfg _ (by omega) (by omega)]
    omega
  · rw [if_neg hj] at hd
    simp only [nr_free_dec, upd, if_neg hj]
    omega

/-- C35 for `__rmqueue_smallest` and `expand`, order by order. -/
theorem rmqueue_smallest_counts {cfg : Config} {zid : Nat} {s : State} (o m j : Nat)
    (hwf : WF cfg zid s) (hg : debug_guardpage_minorder cfg = 0)
    (hbal : s.nr_free j = listed_blocks s j)
    (hfit : listed_blocks s j + 1 < 2 ^ cfg.BITS_PER_LONG) :
    (__rmqueue_smallest cfg s o m).2.nr_free j =
      listed_blocks (__rmqueue_smallest cfg s o m).2 j := by
  rcases rmqueue_smallest_cases cfg s o m with ⟨_, h⟩ | ⟨k, p, rest, hok, hk, hl, _, h⟩
  · rw [h]; exact hbal
  · rw [h]
    have hmem : p ∈ s.free_list k m := by rw [hl]; exact List.mem_cons_self _ _
    have hm := (hwf.listed k m p hmem).1
    obtain ⟨u1, u2⟩ := @unlink_counts cfg zid s s
      (nr_free_dec cfg (rmv_page_order (list_del s p) p) k) p k m hwf hmem rfl rfl j hbal hfit
    exact (expand_counts cfg p o m k _ j hg hm hok u1 (by omega)).1

/-- The loop of `move_freepages` leaves `nr_free` alone. -/
theorem move_freepages_loop_nr_free (cfg : Config) (e mt : Nat) :
    ∀ (n page : Nat) (s : State) (moved : Nat),
      (move_freepages_loop cfg e mt n page (s, moved)).1.nr_free = s.nr_free := by
  intro n
  induction n with
  | zero => intro page s moved; rfl
  | succ n ih =>
    intro page s moved
    rw [move_freepages_loop]
    split
    · split
      · exact ih _ _ _
      · split
        · exact ih _ _ _
        · rw [ih]
          rfl
    · rfl

/-- The loop of `move_freepages` over frames of a well-formed zone leaves the
count of every order as it was. -/
theorem move_freepages_loop_counts {cfg : Config} {zid : Nat} (e mt : Nat)
    (hmt : mt < MIGRATE_TYPES) (j : Nat) :
    ∀ (n page : Nat) (s : State) (moved : Nat), WF cfg zid s →
      s.zone_start_pfn ≤ page → e < s.zone_start_pfn + s.spanned_pages →
      listed_blocks (move_freepages_loop cfg e mt n page (s, moved)).1 j =
        listed_blocks s j := by
  intro n
  induction n with
  | zero => intro page s moved _ _ _; rfl
  | succ n ih =>
    intro page s moved hwf h1 h2
    rw [move_freepages_loop]
    by_cases hpe : page ≤ e
    · rw [if_pos hpe]
      by_cases hv : pfn_valid_within cfg s page = true
      · by_cases hb : PageBuddy (s.mem_map page) = true
        · simp only [hv, hb, Bool.not_true, Bool.false_eq_true, if_false]
          have hz := hwf.span page h1 (by omega) hv
          have hf := hwf.flagged page hv hz hb
          have hst : SameStatic s (list_move s page (page_order (s.mem_map page)) mt) :=
            (list_del_static s page).trans (list_add_static _ _ _ _)
          obtain ⟨r1, _, _⟩ := @WF.relist cfg zid s
            (list_move s page (page_order (s.mem_map page)) mt) page
            (page_order (s.mem_map page)) mt hwf hf hmt hst rfl
            (fun i m hne => by
              show upd_list _ _ _ _ i m = _
              unfold upd_list
              rw [if_neg hne]
              rfl)
            (by
              show upd_list _ _ _ _ _ _ = _
              unfold upd_list
              rw [if_pos ⟨rfl, rfl⟩]
              rfl)
          rw [ih (page + 1 <<< page_order (s.mem_map page))
            (list_move s page (page_order (s.mem_map page)) mt)
            (moved + 1 <<< page_order (s.mem_map page)) r1
            (by rw [hst.2.1]; exact Nat.le_trans h1 (Nat.le_add_right _ _))
            (by rw [hst.2.1, hst.2.2.1]; exact h2)]
          obtain ⟨m0, hm0⟩ := hf
          have hd := listed_blocks_list_del hwf hm0 j
          have ha := listed_blocks_list_add (list_del s page) page
            (page_order (s.mem_map page)) mt hmt false j
          simp only [Bool.false_eq_true, if_false] at ha
          unfold list_move
          omega
        · have hb' : PageBuddy (s.mem_map page) = false := by simpa using hb
          simp only [hv, hb', Bool.not_true, Bool.not_false, Bool.false_eq_true, if_false,
            if_true]
          exact ih (page + 1) s moved hwf (by omega) h2
      · have hv' : pfn_valid_within cfg s page = false := by simpa using hv
        simp only [hv', Bool.not_false, if_true]
        exact ih (page + 1) s moved hwf (by omega) h2
    · rw [if_neg hpe]

/-- C35 for `move_freepages` over frames of the zone: `nr_free` is not
written and the count of every order is kept. -/
theorem move_freepages_counts {cfg : Config} {zid : Nat} {s : State}
    {start_page end_page mt : Nat} (hwf : WF cfg zid s) (hmt : mt < MIGRATE_TYPES)
    (h1 : s.zone_start_pfn ≤ start_page)
    (h2 : end_page < s.zone_start_pfn + s.spanned_pages) :
    ∀ r, move_freepages cfg s start_page end_page mt = some r →
      r.1.nr_free = s.nr_free ∧ ∀ j, listed_blocks r.1 j = listed_blocks s j := by
  intro r
  unfold move_freepages
  split
  · intro h
    exact Option.noConfusion h
  · intro h
    have : r = move_freepages_loop cfg end_page mt (end_page + 1 - start_page) start_page
        (s, 0) := by simpa using h.symm
    subst this
    exact ⟨move_freepages_loop_nr_free cfg _ mt _ _ s 0,
      fun j => move_freepages_loop_counts _ mt hmt j _ _ s 0 hwf h1 h2⟩

theorem move_freepages_block_counts {cfg : Config} {zid : Nat} {s : State} {page mt : Nat}
    (hwf : WF cfg zid s) (hmt : mt < MIGRATE_TYPES) (hpg : s.zone_start_pfn ≤ page) :
    ∀ r, move_freepages_block cfg s page mt = some r →
      r.1.nr_free = s.nr_free ∧ ∀ j, listed_blocks r.1 j = listed_blocks s j := by
  intro r
  unfold move_freepages_block
  simp only []
  generalize page &&& ((2 ^ cfg.BITS_PER_LONG - 1) ^^^ (pageblock_nr_pages cfg - 1)) = sp
  split
  · intro h
    have : r = (s, 0) := by simpa using h.symm
    subst this
    exact ⟨rfl, fun _ => rfl⟩
  · rename_i hend
    have hstart : s.zone_start_pfn ≤ (if sp < s.zone_start_pfn then page else sp) := by
      split
      · exact hpg
      · omega
    have hlt : sp + pageblock_nr_pages cfg - 1 < s.zone_start_pfn + s.spanned_pages := by
      omega
    exact move_freepages_counts hwf hmt hstart hlt r

/-- The body of `__rmqueue_fallback` keeps the count of every order equal to
`nr_free` (no debug guard pages). -/
theorem fallback_take_counts {cfg : Config} {zid : Nat} {s : State} {o sm k mt : Nat}
    (hwf : WF cfg zid s) (hg : debug_guardpage_minorder cfg = 0)
    (hsm : sm < MIGRATE_TYPES) (hmt : mt < MIGRATE_TYPES) (hok : o ≤ k) (j : Nat)
    (hbal : s.nr_free j = listed_blocks s j)
    (hfit : listed_blocks s j + 1 < 2 ^ cfg.BITS_PER_LONG) :
    ∀ r, fallback_take cfg s o sm k mt = some r →
      r.2.nr_free j = listed_blocks r.2 j := by
  intro r
  cases hx : s.free_list k mt with
  | nil =>
    unfold fallback_take
    rw [hx]
    intro h
    have : r = (none, s) := by simpa using h.symm
    subst this
    exact hbal
  | cons page rest =>
    have hmem : page ∈ s.free_list k mt := by rw [hx]; exact List.mem_cons_self _ _
    have hls := hwf.listed k mt page hmem
    obtain ⟨n1, n2, n3, n4⟩ := @WF.of_eq_view cfg zid s (nr_free_dec cfg s k) hwf rfl rfl rfl
      rfl rfl
    unfold fallback_take
    rw [hx]
    simp only []
    intro h
    split at h
    · exact Option.noConfusion h
    · rename_i s3 m3 h3
      have key : m3 < MIGRATE_TYPES ∧ WF cfg zid s3 ∧ (∀ q i, Free s3 q i ↔ Free s q i) ∧
          s3.nr_free = (nr_free_dec cfg s k).nr_free ∧
          ∀ i, listed_blocks s3 i = listed_blocks s i := by
        split at h3
        · cases hmv : move_freepages_block cfg (nr_free_dec cfg s k) page sm with
          | none => rw [hmv] at h3; exact Option.noConfusion h3
          | some r2 =>
            obtain ⟨s2, pages⟩ := r2
            rw [hmv] at h3
            simp only [] at h3
            obtain ⟨v1, _, v3, _⟩ := move_freepages_block_wf n1 hsm
              (by show s.zone_start_pfn ≤ page; exact hls.2.1.2.2.1) _ hmv
            obtain ⟨c1, c2⟩ := move_freepages_block_counts n1 hsm
              (by show s.zone_start_pfn ≤ page; exact hls.2.1.2.2.1) _ hmv
            split at h3
            · have e : s3 = set_pageblock_migratetype cfg s2 page sm ∧ m3 = sm := by
                simp only [Option.some.injEq, Prod.mk.injEq] at h3
                exact ⟨h3.1.symm, h3.2.symm⟩
              obtain ⟨w1, _, w3, _⟩ := @WF.of_eq_view cfg zid s2
                (set_pageblock_migratetype cfg s2 page sm) v1 rfl rfl rfl rfl rfl
              rw [e.1, e.2]
              exact ⟨hsm, w1, fun q i => ((w3 q i).trans (v3 q i)).trans (n3 q i), c1,
                fun i => c2 i⟩
            · have e : s3 = s2 ∧ m3 = sm := by
                simp only [Option.some.injEq, Prod.mk.injEq] at h3
                exact ⟨h3.1.symm, h3.2.symm⟩
              rw [e.1, e.2]
              exact ⟨hsm, v1, fun q i => (v3 q i).trans (n3 q i), c1, fun i => c2 i⟩
        · have e : s3 = nr_free_dec cfg s k ∧ m3 = mt := by
            simp only [Option.some.injEq, Prod.mk.injEq] at h3
            exact ⟨h3.1.symm, h3.2.symm⟩
          rw [e.1, e.2]
          exact ⟨hmt, n1, n3, rfl, fun _ => rfl⟩
      obtain ⟨k1, k2, k4, k6, k7⟩ := key
      have hr : r = (some page, expand cfg page o m3 k k (1 <<< k)
          (if k ≥ cfg.pageblock_order then
            change_pageblock_range cfg (rmv_page_order (list_del s3 page) page) page k sm
          else rmv_page_order (list_del s3 page) page)) := by
        simpa using h.symm
      subst hr
      obtain ⟨m0, hm0⟩ := (k4 page k).2 ⟨mt, hmem⟩
      have hs5 : ∀ s5 : State,
          s5.free_list = (rmv_page_order (list_del s3 page) page).free_list →
          s5.nr_free = (rmv_page_order (list_del s3 page) page).nr_free →
          (expand cfg page o m3 k k (1 <<< k) s5).nr_free j =
            listed_blocks (expand cfg page o m3 k k (1 <<< k) s5) j := by
        intro s5 a1 a2
        obtain ⟨u1, u2⟩ := @unlink_counts cfg zid s3 s s5 page k m0 k2 hm0 a1
          (by rw [a2]; exact k6) j (by rw [k7 j]; exact hbal) (by rw [k7 j]; exact hfit)
        exact (expand_counts cfg page o m3 k s5 j hg k1 hok u1 (by rw [k7 j] at u2; omega)).1
      show (expand cfg page o m3 k k (1 <<< k) _).nr_free j = _
      split
      · obtain ⟨c1, _, _, _, _, c6⟩ := change_pageblock_loop_view cfg sm
          (1 <<< (k - cfg.pageblock_order)) page (rmv_page_order (list_del s3 page) page)
        exact hs5 _ c1 c6
      · exact hs5 _ rfl rfl

theorem rmqueue_fallback_loop_counts {cfg : Config} {zid : Nat} {s : State} {o sm : Nat}
    (hwf : WF cfg zid s) (hg : debug_guardpage_minorder cfg = 0)
    (hsm : sm < MIGRATE_TYPES) (j : Nat)
    (hbal : s.nr_free j = listed_blocks s j)
    (hfit : listed_blocks s j + 1 < 2 ^ cfg.BITS_PER_LONG) :
    ∀ n r, rmqueue_fallback_loop cfg s o sm n = some r →
      r.2.nr_free j = listed_blocks r.2 j := by
  intro n
  induction n with
  | zero =>
    intro r h
    have : r = (none, s) := by simpa [rmqueue_fallback_loop] using h.symm
    subst this
    exact hbal
  | succ n ih =>
    intro r h
    rw [rmqueue_fallback_loop] at h
    split at h
    · rename_i hge
      cases hf : fallback_find s sm n (MIGRATE_TYPES - 1) 0 with
      | none =>
        rw [hf] at h
        exact ih r h
      | some mt =>
        rw [hf] at h
        simp only [] at h
        obtain ⟨f1, _⟩ := fallback_find_spec s sm n _ _ mt hf
        exact fallback_take_counts hwf hg hsm f1 hge j hbal hfit r h
    · have : r = (none, s) := by simpa using h.symm
      subst this
      exact hbal

/-- C35 for `__rmqueue_fallback`, order by order. -/
theorem rmqueue_fallback_counts {cfg : Config} {zid : Nat} {s : State} {o sm : Nat}
    (hwf : WF cfg zid s) (hg : debug_guardpage_minorder cfg = 0)
    (hsm : sm < MIGRATE_TYPES) (j : Nat)
    (hbal : s.nr_free j = listed_blocks s j)
    (hfit : listed_blocks s j + 1 < 2 ^ cfg.BITS_PER_LONG) :
    ∀ r, __rmqueue_fallback cfg s o sm = some r → r.2.nr_free j = listed_blocks r.2 j :=
  rmqueue_fallback_loop_counts hwf hg hsm j hbal hfit _

/-- The merge loop of `__free_one_page` keeps the count of every order equal
to `nr_free` and does not raise it (no debug guard pages). -/
theorem free_vars_final_counts {cfg : Config} {zid : Nat} {s : State} {p o : Nat}
    (hdbg : cfg.CONFIG_DEBUG_PAGEALLOC = false) (hp : Pending cfg zid s p o) (j : Nat)
    (hbal : s.nr_free j = listed_blocks s j)
    (hfit : listed_blocks s j + 1 < 2 ^ cfg.BITS_PER_LONG) :
    (free_vars_final cfg s p o).s.nr_free j = listed_blocks (free_vars_final cfg s p o).s j ∧
    listed_blocks (free_vars_final cfg s p o).s j ≤ listed_blocks s j := by
  have h := free_merge_loop_rule cfg
    (fun v => MergeInv cfg zid s p o v ∧ v.s.nr_free j = listed_blocks v.s j ∧
      listed_blocks v.s j ≤ listed_blocks s j)
    (fun v => v.s.nr_free j = listed_blocks v.s j ∧ listed_blocks v.s j ≤ listed_blocks s j)
    (fun v hv => ⟨hv.1.idx, hv.1.pending.ok.2.1⟩)
    (fun v hv ho hb => by
      obtain ⟨hinv, h1, h2⟩ := hv
      refine ⟨hinv.step ho hb, ?_⟩
      obtain ⟨hblk, _, _, _, _⟩ := merge_buddy_pending hinv.pending (by omega) hb
      have hfree : Free v.s (__find_buddy_index v.page v.order) v.order := by
        rcases hblk with hf | hgd
        · exact hf
        · exact absurd hgd (not_guard_of_debug_off hdbg zid _ _ _)
      obtain ⟨m0, hm0⟩ := hfree
      have hng : page_is_guard cfg (v.s.mem_map (__find_buddy_index v.page v.order)) = false := by
        unfold page_is_guard
        rw [hdbg]
        rfl
      have hmb : merge_buddy cfg v.s v.page (__find_buddy_index v.page v.order) v.order =
          rmv_page_order (nr_free_dec cfg (list_del v.s (__find_buddy_index v.page v.order))
            v.order) (__find_buddy_index v.page v.order) := by
        unfold merge_buddy
        rw [hng]
        rfl
      obtain ⟨u1, u2⟩ := @unlink_counts cfg zid v.s v.s
        (merge_buddy cfg v.s v.page (__find_buddy_index v.page v.order) v.order)
        (__find_buddy_index v.page v.order) v.order m0 hinv.pending.wf hm0
        (by rw [hmb]; rfl) (by rw [hmb]; rfl) j h1 (by omega)
      exact ⟨u1, by
        show listed_blocks (merge_buddy cfg v.s v.page _ v.order) j ≤ _
        omega⟩)
    (fun v hv _ => hv.2) (fun v hv _ _ => hv.2)
    (cfg.MAX_ORDER - 1 - o) (free_vars_init cfg s p o)
    (by show cfg.MAX_ORDER - 1 ≤ o + (cfg.MAX_ORDER - 1 - o); omega)
    ⟨MergeInv.init hp, hbal, Nat.le_refl _⟩
  exact h

/-- C35 for the part of `__free_one_page` after the compound check. -/
theorem free_one_page_core_counts {cfg : Config} {zid : Nat} {s : State} {p o mt : Nat}
    (hdbg : cfg.CONFIG_DEBUG_PAGEALLOC = false) (hp : Pending cfg zid s p o)
    (hm : mt < MIGRATE_TYPES) (j : Nat)
    (hbal : s.nr_free j = listed_blocks s j)
    (hfit : listed_blocks s j + 1 < 2 ^ cfg.BITS_PER_LONG) :
    (free_one_page_core cfg s p o mt).nr_free j =
      listed_blocks (free_one_page_core cfg s p o mt) j := by
  obtain ⟨f1, f2⟩ := free_vars_final_counts hdbg hp j hbal hfit
  rw [free_one_page_core_eq]
  generalize free_vars_final cfg s p o = v at f1 f2 ⊢
  have ha := listed_blocks_list_add (set_page_order v.s v.page v.order) v.page v.order mt hm
    (free_tail_test cfg (set_page_order v.s v.page v.order) v) j
  have hl : listed_blocks (nr_free_inc cfg
      (if free_tail_test cfg (set_page_order v.s v.page v.order) v = true then
        list_add_tail (set_page_order v.s v.page v.order) v.page v.order mt
      else list_add (set_page_order v.s v.page v.order) v.page v.order mt) v.order) j =
      listed_blocks v.s j + (if j = v.order then 1 else 0) := by
    rw [← show listed_blocks (set_page_order v.s v.page v.order) j = listed_blocks v.s j from rfl,
      ← ha]
    rfl
  rw [hl]
  have hn : (nr_free_inc cfg
      (if free_tail_test cfg (set_page_order v.s v.page v.order) v = true then
        list_add_tail (set_page_order v.s v.page v.order) v.page v.order mt
      else list_add (set_page_order v.s v.page v.order) v.page v.order mt) v.order).nr_free j =
      if j = v.order then ulong_inc cfg (v.s.nr_free j) else v.s.nr_free j := by
    cases free_tail_test cfg (set_page_order v.s v.page v.order) v
    · simp only [Bool.false_eq_true, if_false, nr_free_inc, upd, list_add, set_page_order]
      split
      · rename_i hj; rw [hj]
      · rfl
    · simp only [if_true, nr_free_inc, upd, list_add_tail, set_page_order]
      split
      · rename_i hj; rw [hj]
      · rfl
  rw [hn]
  by_cases hj : j = v.order
  · rw [if_pos hj, if_pos hj, f1, ulong_inc_eq cfg _ (by omega)]
  · rw [if_neg hj, if_neg hj, f1, Nat.add_zero]

/-- C35 for `__free_one_page` of a block in use, order by order (no debug
guard pages); a block that fails the compound check is not inserted. -/
theorem free_one_page_counts {cfg : Config} {zid : Nat} {s : State} {p o mt : Nat}
    (hdbg : cfg.CONFIG_DEBUG_PAGEALLOC = false) (hp : Pending cfg zid s p o)
    (hm : mt < MIGRATE_TYPES) (j : Nat)
    (hbal : s.nr_free j = listed_blocks s j)
    (hfit : listed_blocks s j + 1 < 2 ^ cfg.BITS_PER_LONG) :
    (__free_one_page cfg s p o mt).nr_free j =
      listed_blocks (__free_one_page cfg s p o mt) j := by
  by_cases hc : free_passes s p o
  · obtain ⟨v1, v2, v3⟩ := free_entry_view cfg s p o hc
    have hfl : ∀ x, SameFlags cfg s (free_entry s p o) x :=
      fun x => ⟨(v3 x).1, (v3 x).2.1, fun _ => (v3 x).2.2⟩
    have hp1 : Pending cfg zid (free_entry s p o) p o := hp.of_same_view v2 v1 hfl
    have hsame : listed_blocks (free_entry s p o) j = listed_blocks s j :=
      listed_blocks_same _ _ j (fun m _ => by rw [v1])
    rw [free_one_page_passes cfg s p o mt hc]
    exact free_one_page_core_counts hdbg hp1 hm j
      (by rw [(free_entry_counts s p o).1, hsame]; exact hbal) (by rw [hsame]; exact hfit)
  · have hcomp : PageCompound (s.mem_map p) = true := by
      by_contra h
      exact hc (fun h2 => absurd h2 h)
    have hbad : (destroy_compound_page s p o).2 ≠ 0 := fun h => hc (fun _ => h)
    have he : __free_one_page cfg s p o mt = free_entry s p o := by
      unfold __free_one_page free_entry
      simp [hcomp, hbad]
    have hfe : free_entry s p o = (destroy_compound_page s p o).1 := by
      unfold free_entry
      rw [if_pos hcomp]
    rw [he, (free_entry_counts s p o).1, hbal]
    symm
    apply listed_blocks_same
    intro m _
    rw [hfe, (destroy_compound_page_spec s p o).1]

theorem minorder_of_debug_off {cfg : Config} (hdbg : cfg.CONFIG_DEBUG_PAGEALLOC = false) :
    debug_guardpage_minorder cfg = 0 := by
  unfold debug_guardpage_minorder
  rw [hdbg]
  rfl

/-- Under the block-count invariant the pages counted by `nr_free` are the
pages on the free lists. -/
theorem pages_below_eq_total {cfg : Config} {z : State} (h : CountOK cfg z) :
    pages_below z cfg.MAX_ORDER = free_pages_total cfg z := by
  have hinner : ∀ k, ((List.range MIGRATE_TYPES).map
      (fun m => 2 ^ k * (z.free_list k m).length)).sum = listed_blocks z k * 2 ^ k := by
    intro k
    rw [listed_blocks_eq]
    unfold MIGRATE_TYPES
    simp [List.range_succ]
    ring
  have hgen : ∀ n, n ≤ cfg.MAX_ORDER → pages_below z n =
      ((List.range n).map (fun k =>
        ((List.range MIGRATE_TYPES).map (fun m => 2 ^ k * (z.free_list k m).length)).sum)).sum := by
    intro n
    induction n with
    | zero => intro _; rfl
    | succ n ih =>
      intro hn
      rw [pages_below, ih (by omega), List.range_succ, List.map_append, List.sum_append,
        List.map_singleton, List.sum_singleton, hinner n, h n (by omega)]
  unfold free_pages_total
  exact hgen _ (Nat.le_refl _)

theorem nr_free_le_pages_below (z : State) {j n : Nat} (h : j < n) :
    z.nr_free j ≤ pages_below z n := by
  have h1 : pages_below z (j + 1) ≤ pages_below z n := pages_below_mono z h
  have h2 : pages_below z (j + 1) = pages_below z j + z.nr_free j * 2 ^ j := rfl
  have h3 : z.nr_free j ≤ z.nr_free j * 2 ^ j := Nat.le_mul_of_pos_right _ (Nat.two_pow_pos j)
  omega

/-- A counter with room for one more page leaves room for one more block of
each order. -/
theorem counts_fit_of_room {cfg : Config} {z : State} (h : CountOK cfg z)
    (hroom : pages_below z cfg.MAX_ORDER + 1 < 2 ^ cfg.BITS_PER_LONG) : CountsFit cfg z := by
  intro k hk
  have := nr_free_le_pages_below z hk
  rw [h k hk] at this
  omega

/-- C35 for `__rmqueue`: the three calls it is made of keep the invariant. -/
theorem rmqueue_counts {cfg : Config} {zid : Nat} {s : State} {o mt : Nat}
    (hdbg : cfg.CONFIG_DEBUG_PAGEALLOC = false) (hwf : WF cfg zid s)
    (hm : mt < MIGRATE_TYPES) (hcnt : CountOK cfg s) (hfit : CountsFit cfg s)
    {r : Option Nat × State} (h : __rmqueue cfg s o mt = some r) : CountOK cfg r.2 := by
  have hg := minorder_of_debug_off hdbg
  have hsm : ∀ m, CountOK cfg (__rmqueue_smallest cfg s o m).2 :=
    fun m j hj => rmqueue_smallest_counts o m j hwf hg (hcnt j hj) (hfit j hj)
  unfold __rmqueue at h
  split at h
  · rename_i page s1 hq
    cases h
    have := hsm mt
    rw [hq] at this
    exact this
  · rename_i s1 hq
    have hs1 : s1 = s := by
      have := (@rmqueue_smallest_wf cfg zid s o mt hwf hm).2
      rw [hq] at this
      exact this rfl
    subst hs1
    split at h
    · split at h
      · cases h
      · rename_i page s2 hf
        cases h
        exact fun j hj => rmqueue_fallback_counts hwf hg hm j (hcnt j hj) (hfit j hj) _ hf
      · rename_i s2 hf
        cases h
        obtain ⟨_, b2⟩ := rmqueue_fallback_wf hwf hm _ hf
        have hs2 : s2 = s1 := b2 rfl
        subst hs2
        exact hsm MIGRATE_RESERVE
    · cases h
      exact hcnt

theorem split_page_loop_view (page : Nat) : ∀ (n i : Nat) (s : State),
    (split_page_loop page n i s).free_list = s.free_list ∧
    (split_page_loop page n i s).nr_free = s.nr_free ∧
    (split_page_loop page n i s).NR_FREE_PAGES = s.NR_FREE_PAGES := by
  intro n
  induction n with
  | zero => intro i s; exact ⟨rfl, rfl, rfl⟩
  | succ n ih =>
    intro i s
    rw [split_page_loop]
    exact ih (i + 1) (set_page_refcounted s (page + i))

theorem split_retag_loop_view (cfg : Config) (endpage : Nat) : ∀ (n page : Nat) (s : State),
    (split_retag_loop cfg endpage n page s).free_list = s.free_list ∧
    (split_retag_loop cfg endpage n page s).nr_free = s.nr_free ∧
    (split_retag_loop cfg endpage n page s).NR_FREE_PAGES = s.NR_FREE_PAGES := by
  intro n
  induction n with
  | zero => intro page s; exact ⟨rfl, rfl, rfl⟩
  | succ n ih =>
    intro page s
    rw [split_retag_loop]
    split
    · exact ih _ (set_pageblock_migratetype cfg s page MIGRATE_MOVABLE)
    · exact ⟨rfl, rfl, rfl⟩

/-- The loop over the page-blocks of `split_free_page` is over once `page`
has reached `endpage`: more iterations than `endpage - page` change
nothing. -/
theorem split_retag_loop_fuel (cfg : Config) (endpage : Nat) :
    ∀ (n page : Nat) (s : State), endpage - page ≤ n → ∀ k,
      split_retag_loop cfg endpage (n + k) page s = split_retag_loop cfg endpage n page s := by
  have hpos : 0 < pageblock_nr_pages cfg := by
    unfold pageblock_nr_pages
    rw [Nat.one_shiftLeft]
    exact Nat.two_pow_pos _
  intro n
  induction n with
  | zero =>
    intro page s h k
    cases k with
    | zero => rfl
    | succ k =>
      rw [Nat.zero_add]
      show split_retag_loop cfg endpage (k + 1) page s = s
      rw [split_retag_loop, if_neg (by omega)]
  | succ n ih =>
    intro page s h k
    rw [Nat.add_right_comm, split_retag_loop, split_retag_loop]
    split
    · exact ih _ _ (by omega) k
    · rfl

/-- The end of `split_free_page`, from `set_page_refcounted` on, writes
neither the lists nor the counters. -/
theorem split_tail_view (cfg : Config) (t : State) (page order endpage n : Nat) (c : Prop)
    [Decidable c] :
    (if c then split_retag_loop cfg endpage n page (split_page (set_page_refcounted t page)
        page order)
      else split_page (set_page_refcounted t page) page order).free_list = t.free_list ∧
    (if c then split_retag_loop cfg endpage n page (split_page (set_page_refcounted t page)
        page order)
      else split_page (set_page_refcounted t page) page order).nr_free = t.nr_free ∧
    (if c then split_retag_loop cfg endpage n page (split_page (set_page_refcounted t page)
        page order)
      else split_page (set_page_refcounted t page) page order).NR_FREE_PAGES =
      t.NR_FREE_PAGES := by
  obtain ⟨b1, b2, b3⟩ := split_page_loop_view page ((1 <<< order) - 1) 1
    (set_page_refcounted t page)
  obtain ⟨a1, a2, a3⟩ := split_retag_loop_view cfg endpage n page
    (split_page (set_page_refcounted t page) page order)
  unfold split_page at a1 a2 a3 ⊢
  split
  · exact ⟨a1.trans b1, a2.trans b2, a3.trans b3⟩
  · exact ⟨b1, b2, b3⟩

/-- What `split_free_page` does to the lists and the counters of a
well-formed zone: nothing when the watermark test fails; else the block
headed by the page leaves its list, `nr_free` of its order is decremented and
`NR_FREE_PAGES` goes down by the pages of the block. -/
theorem split_free_page_spec {cfg : Config} {zid : Nat} {s : State} {low_wmark page : Nat}
    (hwf : WF cfg zid s) (hv : pfn_valid_within cfg s page = true)
    (hz : page_zone_id s page = zid) :
    ∀ r, split_free_page cfg s low_wmark page = some r →
      (r.1 = 0 ∧ r.2 = s) ∨
      ∃ k m, page ∈ s.free_list k m ∧ r.1 = 2 ^ k ∧
        r.2.free_list = (list_del s page).free_list ∧
        r.2.nr_free = (nr_free_dec cfg s k).nr_free ∧
        r.2.NR_FREE_PAGES = s.NR_FREE_PAGES - ((2 ^ k : Nat) : Int) := by
  intro r h
  unfold split_free_page at h
  split at h
  · exact Option.noConfusion h
  · rename_i hb
    have hb' : PageBuddy (s.mem_map page) = true := by simpa using hb
    simp only [] at h
    split at h
    · left
      cases h
      exact ⟨rfl, rfl⟩
    · right
      obtain ⟨m, hm⟩ := hwf.flagged page hv hz hb'
      refine ⟨page_order (s.mem_map page), m, hm, ?_⟩
      obtain ⟨c1, c2, c3⟩ := split_tail_view cfg
        (mod_free_pages (rmv_page_order
          (nr_free_dec cfg (list_del s page) (page_order (s.mem_map page))) page)
          (-((1 <<< page_order (s.mem_map page) : Nat) : Int)))
        page (page_order (s.mem_map page))
        (page + (1 <<< page_order (s.mem_map page)) - 1)
        (1 <<< page_order (s.mem_map page))
        (page_order (s.mem_map page) % 2 ^ 32 ≥ (cfg.pageblock_order + 2 ^ 32 - 1) % 2 ^ 32)
      cases h
      refine ⟨Nat.one_shiftLeft _, c1, c2, ?_⟩
      rw [c3]
      show s.NR_FREE_PAGES + -((1 <<< page_order (s.mem_map page) : Nat) : Int) = _
      rw [Nat.one_shiftLeft]
      rfl

/-- C35 for `split_free_page`, order by order. -/
theorem split_free_page_counts {cfg : Config} {zid : Nat} {s : State} {low_wmark page : Nat}
    (hwf : WF cfg zid s) (hv : pfn_valid_within cfg s page = true)
    (hz : page_zone_id s page = zid) (j : Nat)
    (hbal : s.nr_free j = listed_blocks s j)
    (hfit : listed_blocks s j + 1 < 2 ^ cfg.BITS_PER_LONG) :
    ∀ r, split_free_page cfg s low_wmark page = some r →
      r.2.nr_free j = listed_blocks r.2 j := by
  intro r h
  rcases split_free_page_spec hwf hv hz r h with ⟨_, h2⟩ | ⟨k, m, hm, _, h2, h3, _⟩
  · rw [h2]; exact hbal
  · exact (@unlink_counts cfg zid s s r.2 page k m hwf hm h2 h3 j hbal hfit).1

theorem pages_below_congr (z z1 : State) : ∀ (n : Nat),
    (∀ i, i < n → z1.nr_free i = z.nr_free i) → pages_below z1 n = pages_below z n := by
  intro n
  induction n with
  | zero => intro _; rfl
  | succ n ih =>
    intro h
    rw [pages_below, pages_below, ih (fun i hi => h i (by omega)), h n (by omega)]

/-- One block less of order `k` is `2^k` pages less in the sum of the
counts. -/
theorem pages_below_dec (z z1 : State) (k : Nat)
    (h1 : ∀ i, i ≠ k → z1.nr_free i = z.nr_free i) (h2 : z1.nr_free k + 1 = z.nr_free k) :
    ∀ (n : Nat), k < n → pages_below z1 n + 2 ^ k = pages_below z n := by
  intro n
  induction n with
  | zero => intro h; omega
  | succ n ih =>
    intro h
    rw [pages_below, pages_below]
    by_cases hk : k = n
    · subst hk
      rw [pages_below_congr z z1 k (fun i hi => h1 i (by omega)), ← h2, Nat.add_mul]
      omega
    · rw [h1 n (fun e => hk e.symm)]
      have := ih (by omega)
      omega

/-- The loop of `rmqueue_bulk` keeps the block-count invariant. -/
theorem rmqueue_bulk_loop_counts {cfg : Config} {zid : Nat}
    (hdbg : cfg.CONFIG_DEBUG_PAGEALLOC = false) (order migratetype cold len0 : Nat)
    (hm : migratetype < MIGRATE_TYPES) :
    ∀ (n i : Nat) (z : State) (l : List Nat) (r : Nat × State × List Nat),
      WF cfg zid z → CountOK cfg z →
      pages_below z cfg.MAX_ORDER + 1 < 2 ^ cfg.BITS_PER_LONG →
      rmqueue_bulk_loop cfg order migratetype cold len0 n i z l = some r →
      CountOK cfg r.2.1 := by
  intro n
  induction n with
  | zero =>
    intro i z l r _ hcnt _ h
    rw [rmqueue_bulk_loop] at h
    cases h
    exact hcnt
  | succ n ih =>
    intro i z l r hwf hcnt hroom h
    rw [rmqueue_bulk_loop] at h
    cases hq : __rmqueue cfg z order migratetype with
    | none => rw [hq] at h; cases h
    | some t =>
      obtain ⟨res, z1⟩ := t
      rw [hq] at h
      obtain ⟨a1, a2, a3⟩ := rmqueue_total hdbg hwf hm hq
      have hc1 : CountOK cfg z1 :=
        rmqueue_counts hdbg hwf hm hcnt (counts_fit_of_room hcnt hroom) hq
      cases res with
      | none =>
        cases h
        exact hc1
      | some page =>
        obtain ⟨b1, b2⟩ := a2 page rfl
        have hview := b1.of_same_view (set_page_private_static z1 page migratetype) rfl
          (set_private_view b1 migratetype)
        have hc2 : CountOK cfg (set_page_private z1 page migratetype) := hc1
        apply ih _ _ _ _ hview.wf hc2 _ h
        have e1 := pages_below_eq_total hc1
        have e2 := pages_below_eq_total hcnt
        rw [pages_below_congr z1 (set_page_private z1 page migratetype) _ (fun _ _ => rfl)]
        have b3 : free_pages_total cfg z1 + 2 ^ order = free_pages_total cfg z := b2
        have hle : free_pages_total cfg z1 ≤ free_pages_total cfg z := by
          rw [← b3]; exact Nat.le_add_right _ _
        omega

/-- A drain on a zone without debug guard pages keeps the block-count
invariant. -/
theorem Drained.counts {cfg : Config} {zid : Nat} {d : Nat} {z z2 : State}
    {pcp pcp2 : per_cpu_pages} (hdbg : cfg.CONFIG_DEBUG_PAGEALLOC = false)
    (h : Drained cfg d z pcp z2 pcp2) (hok : PcpOK cfg zid z pcp) (hcnt : CountOK cfg z)
    (hroom : pages_below z cfg.MAX_ORDER + d < 2 ^ cfg.BITS_PER_LONG) : CountOK cfg z2 := by
  induction h with
  | zero z pcp => exact hcnt
  | succ d m z pcp page z2 pcp2 hm hlast hrest ih =>
    obtain ⟨a1, a2⟩ := pcp_drain_step hdbg hok hm hlast
    have hsplit : pcp.lists m = (pcp.lists m).dropLast ++ [page] :=
      (List.dropLast_append_getLast? page hlast).symm
    have hpage : page ∈ pcp.lists m := by
      rw [hsplit]; simp
    have hfit := counts_fit_of_room hcnt (by omega)
    have hc1 : CountOK cfg (__free_one_page cfg z page 0 (z.mem_map page).private_) :=
      fun j hj => free_one_page_counts hdbg (hok.pend m hm page hpage)
        (hok.cls m hm page hpage) j (hcnt j hj) (hfit j hj)
    apply ih a1 hc1
    have e1 := pages_below_eq_total hc1
    have e2 := pages_below_eq_total hcnt
    omega

theorem zone_of_blocks_counts (n : Nat) (blocks : List (Nat × Nat)) (m : Nat)
    (hm : m < MIGRATE_TYPES) (k : Nat) :
    (zone_of_blocks n blocks m).nr_free k = listed_blocks (zone_of_blocks n blocks m) k := by
  rw [listed_blocks_eq]
  unfold MIGRATE_TYPES at hm
  unfold zone_of_blocks
  interval_cases m <;> simp

/-- C35: the block-count invariant. `zone_init_free_lists` establishes it:
for every order `k` below `MAX_ORDER`, `nr_free[k]` is the number of blocks
on the lists `free_list[k][m]`, all classes `m` together. With no debug
guard pages, in a well-formed zone whose counts leave room for one more
block, it is preserved by `__free_one_page` of a block in use, by
`__rmqueue_smallest`, by `expand`, by a `__rmqueue_fallback` that returns, by
`move_freepages` over frames of the zone and by `split_free_page` of a page
of the zone. -/
theorem block_count_invariant (cfg : Config) (zid : Nat) (s : State)
    (hdbg : cfg.CONFIG_DEBUG_PAGEALLOC = false) (hwf : WF cfg zid s)
    (hcnt : CountOK cfg s) (hfit : CountsFit cfg s) :
    (∀ s0 : State, CountOK cfg (zone_init_free_lists cfg s0)) ∧
    (∀ p o mt, Pending cfg zid s p o → mt < MIGRATE_TYPES →
      CountOK cfg (__free_one_page cfg s p o mt)) ∧
    (∀ o m, CountOK cfg (__rmqueue_smallest cfg s o m).2) ∧
    (∀ p low m h, m < MIGRATE_TYPES → low ≤ h →
      CountOK cfg (expand cfg p low m h h (1 <<< h) s)) ∧
    (∀ o sm r, sm < MIGRATE_TYPES → __rmqueue_fallback cfg s o sm = some r →
      CountOK cfg r.2) ∧
    (∀ start_page end_page mt r, mt < MIGRATE_TYPES → s.zone_start_pfn ≤ start_page →
      end_page < s.zone_start_pfn + s.spanned_pages →
      move_freepages cfg s start_page end_page mt = some r → CountOK cfg r.1) ∧
    (∀ low_wmark page r, pfn_valid_within cfg s page = true → page_zone_id s page = zid →
      split_free_page cfg s low_wmark page = some r → CountOK cfg r.2) := by
  have hg := minorder_of_debug_off hdbg
  refine ⟨?_, ?_, ?_, ?_, ?_, ?_, ?_⟩
  · intro s0 k hk
    rw [listed_blocks_eq]
    simp [zone_init_free_lists, hk, MIGRATE_TYPES]
  · intro p o mt hp hm j hj
    exact free_one_page_counts hdbg hp hm j (hcnt j hj) (hfit j hj)
  · intro o m j hj
    exact rmqueue_smallest_counts o m j hwf hg (hcnt j hj) (hfit j hj)
  · intro p low m h hm hl j hj
    exact (expand_counts cfg p low m h s j hg hm hl (hcnt j hj) (hfit j hj)).1
  · intro o sm r hsm h j hj
    exact rmqueue_fallback_counts hwf hg hsm j (hcnt j hj) (hfit j hj) r h
  · intro start_page end_page mt r hmt h1 h2 h j hj
    obtain ⟨a1, a2⟩ := move_freepages_counts hwf hmt h1 h2 r h
    rw [a1, a2 j]
    exact hcnt j hj
  · intro low_wmark page r hv hz h j hj
    exact split_free_page_counts hwf hv hz j (hcnt j hj) (hfit j hj) r h

theorem block_count_invariant_witness :
    CountOK default_config
      (__rmqueue_smallest default_config
        (zone_of_blocks 4 [(0, 0), (2, 1), (8, 3)] MIGRATE_MOVABLE) 2 MIGRATE_MOVABLE).2 :=
  (block_count_invariant default_config 0
    (zone_of_blocks 4 [(0, 0), (2, 1), (8, 3)] MIGRATE_MOVABLE) rfl
    (zone_of_blocks_wf default_config 4 MIGRATE_MOVABLE _ rfl (by decide) (by decide))
    (fun k _ => zone_of_blocks_counts 4 _ MIGRATE_MOVABLE (by decide) k)
    (fun k _ => by
      rw [← zone_of_blocks_counts 4 _ MIGRATE_MOVABLE (by decide) k]
      have h : (zone_of_blocks 4 [(0, 0), (2, 1), (8, 3)] MIGRATE_MOVABLE).nr_free k ≤ 3 :=
        List.length_filter_le _ _
      have h2 : (3 : Nat) + 1 < 2 ^ default_config.BITS_PER_LONG := by decide
      omega)).2.2.1 2 MIGRATE_MOVABLE

/-! ## `NR_FREE_PAGES` under the buddy operations -/

theorem expand_counter (cfg : Config) (hdbg : cfg.CONFIG_DEBUG_PAGEALLOC = false)
    (page low m : Nat) : ∀ (high area size : Nat) (s : State),
    (expand cfg page low m high area size s).NR_FREE_PAGES = s.NR_FREE_PAGES := by
  intro high
  induction high with
  | zero => intro area size s; rfl
  | succ high ih =>
    intro area size s
    rw [expand]
    split
    · simp only [hdbg, Bool.false_and, Bool.false_eq_true, if_false]
      rw [ih]
      rfl
    · rfl

theorem rmqueue_smallest_counter (cfg : Config) (hdbg : cfg.CONFIG_DEBUG_PAGEALLOC = false)
    (s : State) (o m : Nat) :
    (__rmqueue_smallest cfg s o m).2.NR_FREE_PAGES = s.NR_FREE_PAGES := by
  rcases rmqueue_smallest_cases cfg s o m with ⟨_, h⟩ | ⟨k, p, rest, _, _, _, _, h⟩
  · rw [h]
  · rw [h]
    simp only []
    rw [expand_counter cfg hdbg]
    rfl

theorem move_freepages_loop_counter (cfg : Config) (e mt : Nat) :
    ∀ (n page : Nat) (s : State) (moved : Nat),
      (move_freepages_loop cfg e mt n page (s, moved)).1.NR_FREE_PAGES = s.NR_FREE_PAGES := by
  intro n
  induction n with
  | zero => intro page s moved; rfl
  | succ n ih =>
    intro page s moved
    rw [move_freepages_loop]
    split
    · split
      · exact ih _ _ _
      · split
        · exact ih _ _ _
        · rw [ih]
          rfl
    · rfl

theorem move_freepages_counter (cfg : Config) (s : State) (a b mt : Nat) :
    ∀ r, move_freepages cfg s a b mt = some r → r.1.NR_FREE_PAGES = s.NR_FREE_PAGES := by
  intro r
  unfold move_freepages
  split
  · intro h; exact Option.noConfusion h
  · intro h
    simp only [Option.some.injEq] at h
    rw [← h]
    exact move_freepages_loop_counter cfg _ mt _ _ s 0

theorem move_freepages_block_counter (cfg : Config) (s : State) (page mt : Nat) :
    ∀ r, move_freepages_block cfg s page mt = some r →
      r.1.NR_FREE_PAGES = s.NR_FREE_PAGES := by
  intro r
  unfold move_freepages_block
  simp only []
  split
  · intro h
    have : r = (s, 0) := by simpa using h.symm
    subst this
    rfl
  · exact move_freepages_counter cfg s _ _ mt r

theorem fallback_take_counter (cfg : Config) (hdbg : cfg.CONFIG_DEBUG_PAGEALLOC = false)
    (s : State) (o sm k mt : Nat) :
    ∀ r, fallback_take cfg s o sm k mt = some r → r.2.NR_FREE_PAGES = s.NR_FREE_PAGES := by
  intro r
  cases hx : s.free_list k mt with
  | nil =>
    unfold fallback_take
    rw [hx]
    intro h
    have : r = (none, s) := by simpa using h.symm
    subst this
    rfl
  | cons page rest =>
    unfold fallback_take
    rw [hx]
    simp only []
    intro h
    split at h
    · exact Option.noConfusion h
    · rename_i s3 m3 h3
      have key : s3.NR_FREE_PAGES = s.NR_FREE_PAGES := by
        split at h3
        · cases hmv : move_freepages_block cfg (nr_free_dec cfg s k) page sm with
          | none => rw [hmv] at h3; exact Option.noConfusion h3
          | some r2 =>
            obtain ⟨s2, pages⟩ := r2
            rw [hmv] at h3
            simp only [] at h3
            have c := move_freepages_block_counter cfg _ page sm _ hmv
            split at h3
            · simp only [Option.some.injEq, Prod.mk.injEq] at h3
              rw [← h3.1]
              exact c
            · simp only [Option.some.injEq, Prod.mk.injEq] at h3
              rw [← h3.1]
              exact c
        · simp only [Option.some.injEq, Prod.mk.injEq] at h3
          rw [← h3.1]
          rfl
      simp only [Option.some.injEq] at h
      rw [← h]
      simp only []
      rw [expand_counter cfg hdbg]
      split
      · unfold change_pageblock_range
        have hv : ∀ (n p : Nat) (t : State),
            (change_pageblock_loop cfg sm n p t).NR_FREE_PAGES = t.NR_FREE_PAGES := by
          intro n
          induction n with
          | zero => intro p t; rfl
          | succ n ih =>
            intro p t
            rw [change_pageblock_loop, ih]
            rfl
        rw [hv]
        exact key
      · exact key

theorem rmqueue_fallback_counter (cfg : Config) (hdbg : cfg.CONFIG_DEBUG_PAGEALLOC = false)
    (s : State) (o sm : Nat) :
    ∀ r, __rmqueue_fallback cfg s o sm = some r → r.2.NR_FREE_PAGES = s.NR_FREE_PAGES := by
  unfold __rmqueue_fallback
  generalize cfg.MAX_ORDER = n
  induction n with
  | zero =>
    intro r h
    have : r = (none, s) := by simpa [rmqueue_fallback_loop] using h.symm
    subst this
    rfl
  | succ n ih =>
    intro r h
    rw [rmqueue_fallback_loop] at h
    split at h
    · cases hf : fallback_find s sm n (MIGRATE_TYPES - 1) 0 with
      | none =>
        rw [hf] at h
        exact ih r h
      | some mt =>
        rw [hf] at h
        exact fallback_take_counter cfg hdbg s o sm n mt r h
    · have : r = (none, s) := by simpa using h.symm
      subst this
      rfl

/-- `__rmqueue` does not write `NR_FREE_PAGES` (no debug guard pages): its
callers do. -/
theorem rmqueue_counter {cfg : Config} (hdbg : cfg.CONFIG_DEBUG_PAGEALLOC = false)
    {s : State} {o mt : Nat} {r : Option Nat × State} (h : __rmqueue cfg s o mt = some r) :
    r.2.NR_FREE_PAGES = s.NR_FREE_PAGES := by
  unfold __rmqueue at h
  split at h
  · rename_i page s1 hq
    cases h
    have := rmqueue_smallest_counter cfg hdbg s o mt
    rw [hq] at this
    exact this
  · rename_i s1 hq
    have h1 := rmqueue_smallest_counter cfg hdbg s o mt
    rw [hq] at h1
    split at h
    · split at h
      · cases h
      · rename_i page s2 hf
        cases h
        exact (rmqueue_fallback_counter cfg hdbg s1 o mt _ hf).trans h1
      · rename_i s2 hf
        cases h
        rw [rmqueue_smallest_counter cfg hdbg s2 o MIGRATE_RESERVE]
        exact (rmqueue_fallback_counter cfg hdbg s1 o mt _ hf).trans h1
    · cases h
      exact h1

theorem rmqueue_bulk_loop_counter (cfg : Config) (hdbg : cfg.CONFIG_DEBUG_PAGEALLOC = false)
    (order migratetype cold len0 : Nat) :
    ∀ (n i : Nat) (z : State) (l : List Nat) (r : Nat × State × List Nat),
      rmqueue_bulk_loop cfg order migratetype cold len0 n i z l = some r →
      r.2.1.NR_FREE_PAGES = z.NR_FREE_PAGES := by
  intro n
  induction n with
  | zero =>
    intro i z l r h
    rw [rmqueue_bulk_loop] at h
    cases h
    rfl
  | succ n ih =>
    intro i z l r h
    rw [rmqueue_bulk_loop] at h
    cases hq : __rmqueue cfg z order migratetype with
    | none => rw [hq] at h; cases h
    | some t =>
      obtain ⟨res, z1⟩ := t
      rw [hq] at h
      have h1 : z1.NR_FREE_PAGES = z.NR_FREE_PAGES := rmqueue_counter hdbg hq
      cases res with
      | none =>
        cases h
        exact h1
      | some page =>
        rw [ih _ _ _ _ h]
        exact h1

theorem free_merge_loop_counter (cfg : Config) (hdbg : cfg.CONFIG_DEBUG_PAGEALLOC = false) :
    ∀ (n : Nat) (v : FreeVars),
      (free_merge_loop cfg n v).s.NR_FREE_PAGES = v.s.NR_FREE_PAGES := by
  intro n
  induction n with
  | zero => intro v; rfl
  | succ n ih =>
    intro v
    rw [free_merge_loop]
    split
    · simp only []
      split
      · rfl
      · rw [ih]
        simp only [merge_buddy, page_is_guard, hdbg, Bool.false_and, Bool.false_eq_true,
          if_false]
        rfl
    · rfl

/-- `__free_one_page` does not write `NR_FREE_PAGES` (no debug guard pages):
`free_one_page` does. -/
theorem free_one_page_counter (cfg : Config) (hdbg : cfg.CONFIG_DEBUG_PAGEALLOC = false)
    (s : State) (p o mt : Nat) :
    (__free_one_page cfg s p o mt).NR_FREE_PAGES = s.NR_FREE_PAGES := by
  have hcore : ∀ t : State,
      (free_one_page_core cfg t p o mt).NR_FREE_PAGES = t.NR_FREE_PAGES := by
    intro t
    rw [free_one_page_core_eq]
    have := free_merge_loop_counter cfg hdbg (cfg.MAX_ORDER - 1 - o) (free_vars_init cfg t p o)
    cases free_tail_test cfg _ _ <;> exact this
  have hd : ∀ (n i : Nat) (r : State × Nat),
      (destroy_compound_loop p n i r).1.NR_FREE_PAGES = r.1.NR_FREE_PAGES :=
    fun n i r => (destroy_compound_loop_counts p n i r).2
  unfold __free_one_page
  split
  · simp only []
    have hdc : (destroy_compound_page s p o).1.NR_FREE_PAGES = s.NR_FREE_PAGES := by
      unfold destroy_compound_page
      split <;> exact hd _ _ _
    split
    · exact hdc
    · rw [hcore]
      exact hdc
  · exact hcore s

theorem Drained.counter {cfg : Config} {d : Nat} {z z2 : State} {pcp pcp2 : per_cpu_pages}
    (hdbg : cfg.CONFIG_DEBUG_PAGEALLOC = false) (h : Drained cfg d z pcp z2 pcp2) :
    z2.NR_FREE_PAGES = z.NR_FREE_PAGES := by
  induction h with
  | zero z pcp => rfl
  | succ d m z pcp page z2 pcp2 _ _ _ ih =>
    rw [ih]
    exact free_one_page_counter cfg hdbg z page 0 _

/-- The counter after `n` pages left the free lists of a zone that keeps the
block-count invariant. -/
theorem counter_after_take {cfg : Config} {z z1 : State} {n : Nat}
    (hcnt : CountOK cfg z) (hc1 : CountOK cfg z1) (hctr : FreeCounterOK cfg z)
    (htot : free_pages_total cfg z1 + n = free_pages_total cfg z)
    (hnr : z1.NR_FREE_PAGES = z.NR_FREE_PAGES - (n : Int)) : FreeCounterOK cfg z1 := by
  unfold FreeCounterOK at hctr ⊢
  rw [hnr, hctr, pages_below_eq_total hcnt, pages_below_eq_total hc1, ← htot]
  push_cast
  omega

/-- The counter after `n` pages came to the free lists of a zone that keeps
the block-count invariant. -/
theorem counter_after_give {cfg : Config} {z z1 : State} {n : Nat}
    (hcnt : CountOK cfg z) (hc1 : CountOK cfg z1) (hctr : FreeCounterOK cfg z)
    (htot : free_pages_total cfg z1 = free_pages_total cfg z + n)
    (hnr : z1.NR_FREE_PAGES = z.NR_FREE_PAGES + (n : Int)) : FreeCounterOK cfg z1 := by
  unfold FreeCounterOK at hctr ⊢
  rw [hnr, hctr, pages_below_eq_total hcnt, pages_below_eq_total hc1, htot]
  push_cast
  rfl

/-- C36: consistency of the free-page counter. In a well-formed zone without
debug guard pages that keeps the block-count invariant and in which
`NR_FREE_PAGES` is the sum over the orders `k` of `nr_free[k] * 2^k`, the
equality (and the block-count invariant) holds again after `free_one_page` of
a block in use that passes the compound check, which adds `2^order`; after
`free_pcppages_bulk`, which adds `count`; after `rmqueue_bulk`, which
subtracts `i << order` for the `i` blocks taken; after a pass of
`buffered_rmqueue` at an order above 0, which subtracts `2^order` when
`__rmqueue` gave a page and nothing when it gave `NULL`; and after
`split_free_page`, which subtracts what it returns. The sums are to stay in
the range of `unsigned long`. -/
theorem free_counter_consistent (cfg : Config) (zid : Nat) (z : State)
    (hdbg : cfg.CONFIG_DEBUG_PAGEALLOC = false) (hwf : WF cfg zid z)
    (hcnt : CountOK cfg z) (hctr : FreeCounterOK cfg z) :
    (∀ p o mt, Pending cfg zid z p o → free_passes z p o → mt < MIGRATE_TYPES →
      pages_below z cfg.MAX_ORDER + 2 ^ o < 2 ^ cfg.BITS_PER_LONG →
      CountOK cfg (free_one_page cfg z p o mt) ∧
      FreeCounterOK cfg (free_one_page cfg z p o mt) ∧
      (free_one_page cfg z p o mt).NR_FREE_PAGES = z.NR_FREE_PAGES + ((2 ^ o : Nat) : Int)) ∧
    (∀ pcp count, PcpOK cfg zid z pcp → 0 ≤ count → count ≤ (pcp_pages pcp : Int) →
      (pages_below z cfg.MAX_ORDER : Int) + count < 2 ^ cfg.BITS_PER_LONG →
      ∃ r, free_pcppages_bulk cfg z count pcp = some r ∧ CountOK cfg r.1 ∧
        FreeCounterOK cfg r.1 ∧ r.1.NR_FREE_PAGES = z.NR_FREE_PAGES + count) ∧
    (∀ order count l mt cold r, mt < MIGRATE_TYPES →
      pages_below z cfg.MAX_ORDER + 1 < 2 ^ cfg.BITS_PER_LONG →
      rmqueue_bulk cfg z order count l mt cold = some r →
      CountOK cfg r.2.1 ∧ FreeCounterOK cfg r.2.1 ∧
        r.2.1.NR_FREE_PAGES = z.NR_FREE_PAGES - ((r.1 <<< order : Nat) : Int)) ∧
    (∀ g pcp order gfp_flags mt r, order ≠ 0 → mt < MIGRATE_TYPES →
      pages_below z cfg.MAX_ORDER + 1 < 2 ^ cfg.BITS_PER_LONG →
      buffered_rmqueue_pass cfg g z pcp order gfp_flags mt = some r →
      CountOK cfg r.2.1 ∧ FreeCounterOK cfg r.2.1 ∧
        (r.1 = PassOutcome.failed → r.2.1.NR_FREE_PAGES = z.NR_FREE_PAGES) ∧
        (r.1 ≠ PassOutcome.failed →
          r.2.1.NR_FREE_PAGES = z.NR_FREE_PAGES - ((2 ^ order : Nat) : Int))) ∧
    (∀ low_wmark page r, pfn_valid_within cfg z page = true → page_zone_id z page = zid →
      pages_below z cfg.MAX_ORDER + 1 < 2 ^ cfg.BITS_PER_LONG →
      split_free_page cfg z low_wmark page = some r →
      CountOK cfg r.2 ∧ FreeCounterOK cfg r.2 ∧
        r.2.NR_FREE_PAGES = z.NR_FREE_PAGES - (r.1 : Int)) := by
  refine ⟨?_, ?_, ?_, ?_, ?_⟩
  · intro p o mt hp hc hm hroom
    have hpos := Nat.two_pow_pos o
    have hfit := counts_fit_of_room hcnt (by omega)
    have hc1 : CountOK cfg (free_one_page cfg z p o mt) :=
      fun j hj => free_one_page_counts hdbg hp hm j (hcnt j hj) (hfit j hj)
    have htot : free_pages_total cfg (free_one_page cfg z p o mt) =
        free_pages_total cfg z + 2 ^ o := by
      rw [← free_one_page_total hdbg hp hc hm]
      exact free_pages_total_congr cfg rfl
    have hnr : (free_one_page cfg z p o mt).NR_FREE_PAGES =
        z.NR_FREE_PAGES + ((2 ^ o : Nat) : Int) := by
      show (__free_one_page cfg z p o mt).NR_FREE_PAGES + ((1 <<< o : Nat) : Int) = _
      rw [Nat.one_shiftLeft]
      rw [free_one_page_counter cfg hdbg]
    exact ⟨hc1, counter_after_give hcnt hc1 hctr htot hnr, hnr⟩
  · intro pcp count hok h0 hle hroom
    obtain ⟨z1, pcp1, d, e1, e2, e3⟩ := free_pcppages_bulk_returns cfg z count pcp h0 hle
    have hroom' : pages_below z cfg.MAX_ORDER + d < 2 ^ cfg.BITS_PER_LONG := by
      rw [← e2] at hroom
      exact_mod_cast hroom
    have hc1 : CountOK cfg z1 := e3.counts hdbg hok hcnt hroom'
    obtain ⟨_, a2⟩ := e3.conserved hdbg hok
    have f1 := e3.pcp_fields.1
    have hnr : (mod_free_pages z1 count).NR_FREE_PAGES = z.NR_FREE_PAGES + (d : Int) := by
      show z1.NR_FREE_PAGES + count = _
      rw [e3.counter hdbg, e2]
    have htot : free_pages_total cfg (mod_free_pages z1 count) = free_pages_total cfg z + d := by
      have e := @free_pages_total_congr cfg z1 (mod_free_pages z1 count) rfl
      omega
    have hc2 : CountOK cfg (mod_free_pages z1 count) := hc1
    exact ⟨_, e1, hc2, counter_after_give hcnt hc2 hctr htot hnr, by rw [hnr, e2]⟩
  · intro order count l mt cold r hm hroom h
    obtain ⟨a1, a2⟩ := rmqueue_bulk_total hdbg hwf hm h
    unfold rmqueue_bulk at h
    cases hq : rmqueue_bulk_loop cfg order mt cold l.length count 0 z l with
    | none => rw [hq] at h; cases h
    | some t =>
      obtain ⟨i, z1, l1⟩ := t
      rw [hq] at h
      cases h
      have hc1 : CountOK cfg z1 :=
        rmqueue_bulk_loop_counts hdbg order mt cold l.length hm count 0 z l (i, z1, l1)
          hwf hcnt hroom hq
      have hnr : (mod_free_pages z1 (-((i <<< order : Nat) : Int))).NR_FREE_PAGES =
          z.NR_FREE_PAGES - ((i * 2 ^ order : Nat) : Int) := by
        show z1.NR_FREE_PAGES + -((i <<< order : Nat) : Int) = _
        rw [rmqueue_bulk_loop_counter cfg hdbg order mt cold l.length count 0 z l _ hq,
          Nat.shiftLeft_eq]
        rfl
      refine ⟨hc1, counter_after_take hcnt hc1 hctr a2 hnr, ?_⟩
      rw [hnr, Nat.shiftLeft_eq]
  · intro g pcp order gfp_flags mt r ho hm hroom h
    obtain ⟨_, res, z1, hq, hcase⟩ := buffered_rmqueue_pass_high ho h
    obtain ⟨a1, a2, a3⟩ := rmqueue_total hdbg hwf hm hq
    have hc1 : CountOK cfg z1 := rmqueue_counts hdbg hwf hm hcnt (counts_fit_of_room hcnt hroom) hq
    have hn1 : z1.NR_FREE_PAGES = z.NR_FREE_PAGES := rmqueue_counter hdbg hq
    rcases hcase with ⟨e1, e2, e3⟩ | ⟨page, e1, e2, e3⟩
    · subst e1
      have : z1 = z := a3 rfl
      subst this
      rw [e3]
      exact ⟨hcnt, hctr, fun _ => rfl, fun hne => absurd e2 hne⟩
    · subst e1
      obtain ⟨b1, b2⟩ := a2 page rfl
      obtain ⟨mm, hmm⟩ := prep_new_page_frame g
        (mod_free_pages z1 (-((1 <<< order : Nat) : Int))) page order gfp_flags
      have hnr : r.2.1.NR_FREE_PAGES = z.NR_FREE_PAGES - ((2 ^ order : Nat) : Int) := by
        rw [e2, hmm]
        show z1.NR_FREE_PAGES + -((1 <<< order : Nat) : Int) = _
        rw [hn1, Nat.one_shiftLeft]
        rfl
      have hc2 : CountOK cfg r.2.1 := by
        rw [e2, hmm]
        exact hc1
      have htot : free_pages_total cfg r.2.1 + 2 ^ order = free_pages_total cfg z := by
        rw [e2, hmm, free_pages_total_congr cfg
          (rfl : ({ mod_free_pages z1 (-((1 <<< order : Nat) : Int)) with
            mem_map := mm } : State).free_list = z1.free_list)]
        exact b2
      refine ⟨hc2, counter_after_take hcnt hc2 hctr htot hnr, ?_, fun _ => hnr⟩
      intro hf
      rw [e3] at hf
      split at hf <;> cases hf
  · intro low_wmark page r hv hz hroom h
    have hfit := counts_fit_of_room hcnt hroom
    have hc1 : CountOK cfg r.2 :=
      fun j hj => split_free_page_counts hwf hv hz j (hcnt j hj) (hfit j hj) r h
    rcases split_free_page_spec hwf hv hz r h with ⟨h1, h2⟩ | ⟨k, m, hm, h1, h2, h3, h4⟩
    · rw [h1, h2]
      exact ⟨hcnt, hctr, by simp⟩
    · have hk : k < cfg.MAX_ORDER := (hwf.listed k m page hm).2.1.1
      have hpos : 1 ≤ listed_blocks z k := by
        have := listed_blocks_list_del hwf hm k
        rw [if_pos rfl] at this
        omega
      have hdec := pages_below_dec z r.2 k
        (fun i hi => by rw [h3]; simp [nr_free_dec, upd, hi])
        (by
          rw [h3]
          simp only [nr_free_dec, upd, if_pos]
          rw [hcnt k hk, ulong_dec_eq cfg _ hpos (by have := hfit k hk; omega)]
          omega)
        cfg.MAX_ORDER hk
      refine ⟨hc1, ?_, by rw [h4, h1]⟩
      unfold FreeCounterOK at hctr ⊢
      rw [h4, hctr, ← hdec]
      push_cast
      omega

set_option maxRecDepth 1000000 in
theorem free_counter_consistent_witness :
    ∃ r, free_pcppages_bulk default_config ledger_zone 1 ledger_pcp = some r ∧
      CountOK default_config r.1 ∧ FreeCounterOK default_config r.1 ∧
      r.1.NR_FREE_PAGES = ledger_zone.NR_FREE_PAGES + 1 :=
  (free_counter_consistent default_config 0 ledger_zone rfl ledger_ok.wf
    (fun k _ => zone_of_blocks_counts 6 [(0, 5)] MIGRATE_MOVABLE (by decide) k)
    (by
      show ledger_zone.NR_FREE_PAGES =
        ((pages_below ledger_zone default_config.MAX_ORDER : Nat) : Int)
      decide)).2.1 ledger_pcp 1 ledger_ok (by decide) (by decide) (by decide)

theorem range_succ_reverse (n : Nat) :
    (List.range (n + 1)).reverse = n :: (List.range n).reverse := by
  rw [List.range_succ, List.reverse_append]
  rfl

/-- The loop of `build_zonelists_node`: entries outside the positions it
fills are kept, the positions from `nr_zones` on get the populated zones of
index below `n`, highest first, and the count goes up by their number. -/
theorem build_zonelists_node_loop_spec (pgdat : pg_data_t) :
    ∀ (n : Nat) (zonerefs : Nat → zoneref) (nr_zones : Nat),
      (build_zonelists_node_loop pgdat n zonerefs nr_zones).2 =
        nr_zones + ((List.range n).reverse.filter (fun t => populated_zone pgdat t)).length ∧
      (∀ i, i < nr_zones ∨ (build_zonelists_node_loop pgdat n zonerefs nr_zones).2 ≤ i →
        (build_zonelists_node_loop pgdat n zonerefs nr_zones).1 i = zonerefs i) ∧
      holds_zones (build_zonelists_node_loop pgdat n zonerefs nr_zones).1 nr_zones pgdat
        ((List.range n).reverse.filter (fun t => populated_zone pgdat t)) := by
  intro n
  induction n with
  | zero =>
    intro zonerefs nr_zones
    refine ⟨rfl, fun _ _ => rfl, ?_⟩
    intro i t h
    simp at h
  | succ n ih =>
    intro zonerefs nr_zones
    rw [build_zonelists_node_loop, range_succ_reverse]
    by_cases hp : populated_zone pgdat n = true
    · rw [if_pos hp, List.filter_cons_of_pos (by simpa using hp)]
      obtain ⟨a1, a2, a3⟩ := ih (upd zonerefs nr_zones (zoneref_set_zone pgdat n)) (nr_zones + 1)
      refine ⟨?_, ?_, ?_⟩
      · rw [a1, List.length_cons]
        omega
      · intro i hi
        rw [a2 i (by omega)]
        unfold upd
        rw [if_neg (by omega)]
      · intro i t h
        cases i with
        | zero =>
          have e := a2 nr_zones (Or.inl (by omega))
          have ht : n = t := by simpa using h
          subst ht
          show (build_zonelists_node_loop pgdat n
            (upd zonerefs nr_zones (zoneref_set_zone pgdat n)) (nr_zones + 1)).1 nr_zones = _
          rw [e]
          simp [upd]
        | succ i =>
          have := a3 i t (by simpa using h)
          rw [show nr_zones + (i + 1) = nr_zones + 1 + i by omega, this]
    · rw [if_neg hp, List.filter_cons_of_neg (by simpa using hp)]
      exact ih zonerefs nr_zones

/-- The search for the end of a zone list that is closed by `NULL` at
position `k` finds `k`. -/
theorem first_null_zoneref_spec (zonerefs : Nat → zoneref) (k : Nat)
    (hnull : (zonerefs k).zone = none) :
    ∀ (n j : Nat), j ≤ k → k < j + n →
      (∀ i, j ≤ i → i < k → (zonerefs i).zone ≠ none) →
      first_null_zoneref zonerefs n j = some k := by
  intro n
  induction n with
  | zero => intro j h1 h2 _; omega
  | succ n ih =>
    intro j h1 h2 h3
    rw [first_null_zoneref]
    by_cases hj : j = k
    · subst hj
      rw [hnull]
      rfl
    · have hne := h3 j (Nat.le_refl _) (by omega)
      have : (zonerefs j).zone.isNone = false := by
        cases hz : (zonerefs j).zone with
        | none => exact absurd hz hne
        | some _ => rfl
      rw [this]
      exact ih (j + 1) (by omega) (by omega) (fun i hi1 hi2 => h3 i (by omega) hi2)

theorem node_entries_length (env : NumaEnv) (node : Nat) (hmax : 1 ≤ env.MAX_NR_ZONES) :
    (node_entries env node).length ≤ env.MAX_NR_ZONES := by
  unfold node_entries node_zones_desc
  rw [List.length_map]
  have h := List.length_filter_le (fun t => populated_zone (env.NODE_DATA node) t)
    (List.range (env.MAX_NR_ZONES - 1 + 1)).reverse
  rw [List.length_reverse, List.length_range] at h
  omega

theorem node_entries_node (env : NumaEnv) (node : Nat) :
    ∀ e, e ∈ node_entries env node → e.1 = node := by
  intro e he
  unfold node_entries at he
  rw [List.mem_map] at he
  obtain ⟨t, _, ht⟩ := he
  rw [← ht]

/-- `build_zonelists_in_node_order(pgdat, node)` on a zone list closed by
`NULL` appends the populated zones of the node, highest index first, and
closes the list again. -/
theorem build_zonelists_in_node_order_spec (env : NumaEnv) (zonerefs : Nat → zoneref)
    (l : List (Nat × Nat)) (node : Nat) (hmax : 1 ≤ env.MAX_NR_ZONES)
    (hid : (env.NODE_DATA node).node_id = node) (hl : zonelist_is zonerefs l)
    (hcap : l.length < env.zonerefs_len) :
    ∃ zonerefs1, build_zonelists_in_node_order env zonerefs node = some zonerefs1 ∧
      zonelist_is zonerefs1 (l ++ node_entries env node) := by
  have hfirst : first_null_zoneref zonerefs env.zonerefs_len 0 = some l.length := by
    apply first_null_zoneref_spec zonerefs l.length hl.2 _ 0 (Nat.zero_le _) (by omega)
    intro i _ hi
    have := (hl.1 i (l.get ⟨i, hi⟩) (List.getElem?_eq_getElem hi)).1
    rw [this]
    exact Option.noConfusion
  obtain ⟨a1, a2, a3⟩ := build_zonelists_node_loop_spec (env.NODE_DATA node)
    (env.MAX_NR_ZONES - 1 + 1) zonerefs l.length
  have hlen : (node_entries env node).length =
      ((List.range (env.MAX_NR_ZONES - 1 + 1)).reverse.filter
        (fun t => populated_zone (env.NODE_DATA node) t)).length := by
    unfold node_entries node_zones_desc
    rw [List.length_map]
  unfold build_zonelists_in_node_order
  rw [hfirst]
  simp only [build_zonelists_node, if_neg (by omega : ¬ env.MAX_NR_ZONES - 1 ≥ env.MAX_NR_ZONES)]
  refine ⟨_, rfl, ?_, ?_⟩
  · intro i e he
    have hi : i < (l ++ node_entries env node).length := by
      by_contra hge
      rw [List.getElem?_eq_none (by omega)] at he
      exact Option.noConfusion he
    rw [List.length_append, hlen, ← a1] at hi
    have hne : i ≠ (build_zonelists_node_loop (env.NODE_DATA node) (env.MAX_NR_ZONES - 1 + 1)
        zonerefs l.length).2 := by omega
    simp only [upd, if_neg hne]
    by_cases hil : i < l.length
    · rw [List.getElem?_append_left hil] at he
      rw [a2 i (Or.inl hil)]
      exact hl.1 i e he
    · rw [List.getElem?_append_right (by omega)] at he
      unfold node_entries node_zones_desc at he
      rw [List.getElem?_map] at he
      cases hd : ((List.range (env.MAX_NR_ZONES - 1 + 1)).reverse.filter
          (fun t => populated_zone (env.NODE_DATA node) t))[i - l.length]? with
      | none =>
        rw [hd] at he
        exact Option.noConfusion he
      | some t =>
        rw [hd] at he
        have het : (node, t) = e := by simpa using he
        have := a3 (i - l.length) t hd
        rw [show l.length + (i - l.length) = i by omega] at this
        rw [this, ← het]
        simp [zoneref_set_zone, hid]
  · rw [List.length_append, hlen, ← a1]
    simp [upd]

theorem best_node_loop_spec (env : NumaEnv) (node_load : Nat → Int) (node : Nat)
    (used all : List Nat) :
    ∀ (rest : List Nat) (min_val : Int) (best : Option Nat),
      (∀ n, n ∈ rest → n ∈ all) → (∀ b, best = some b → b ∈ all ∧ b ∉ used) →
      ∀ b, best_node_loop env node_load node used rest min_val best = some b →
        b ∈ all ∧ b ∉ used := by
  intro rest
  induction rest with
  | nil =>
    intro min_val best _ hb b h
    exact hb b h
  | cons n rest ih =>
    intro min_val best hall hb b h
    rw [best_node_loop] at h
    have hall' : ∀ x, x ∈ rest → x ∈ all := fun x hx => hall x (List.mem_cons_of_mem _ hx)
    split at h
    · exact ih min_val best hall' hb b h
    · rename_i hn
      split at h
      · apply ih _ (some n) hall' _ b h
        intro b' hb'
        cases hb'
        exact ⟨hall n (List.mem_cons_self _ _), hn⟩
      · exact ih min_val best hall' hb b h

/-- `find_next_best_node(node, used)`: the local node if it is not marked,
else a node with memory that is not marked, which it marks, or -1 with the
mask unchanged. -/
theorem find_next_best_node_spec (env : NumaEnv) (node_load : Nat → Int) (node : Nat)
    (used : List Nat) :
    ((find_next_best_node env node_load node used).1 = none →
      (find_next_best_node env node_load node used).2 = used ∧ node ∈ used) ∧
    (∀ x, (find_next_best_node env node_load node used).1 = some x →
      x ∉ used ∧ (x = node ∨ x ∈ env.high_memory_nodes) ∧
      (find_next_best_node env node_load node used).2 = x :: used ∧
      (node ∉ used → x = node)) := by
  unfold find_next_best_node
  by_cases hn : node ∉ used
  · rw [if_pos hn]
    refine ⟨fun h => Option.noConfusion h, fun x hx => ?_⟩
    have : node = x := by simpa using hx
    subst this
    exact ⟨hn, Or.inl rfl, rfl, fun _ => rfl⟩
  · rw [if_neg hn]
    have hn' : node ∈ used := by
      by_contra h
      exact hn h
    cases hb : best_node_loop env node_load node used env.high_memory_nodes (2 ^ 31 - 1) none with
    | none =>
      exact ⟨fun _ => ⟨rfl, hn'⟩, fun x hx => Option.noConfusion hx⟩
    | some b =>
      refine ⟨fun h => Option.noConfusion h, fun x hx => ?_⟩
      have : b = x := by simpa using hx
      subst this
      obtain ⟨h1, h2⟩ := best_node_loop_spec env node_load node used env.high_memory_nodes
        env.high_memory_nodes (2 ^ 31 - 1) none (fun _ h => h)
        (fun _ h => Option.noConfusion h) b hb
      exact ⟨h2, Or.inr h1, rfl, fun h => absurd hn' h⟩

/-- Marking a node of `l` that was not marked leaves fewer unmarked nodes in
`l`. -/
theorem unmarked_lt (used : List Nat) (x : Nat) (hx : x ∉ used) :
    ∀ (l : List Nat), x ∈ l →
      (l.filter (fun n => decide (n ∉ x :: used))).length <
        (l.filter (fun n => decide (n ∉ used))).length := by
  have hle : ∀ (l : List Nat), (l.filter (fun n => decide (n ∉ x :: used))).length ≤
      (l.filter (fun n => decide (n ∉ used))).length := by
    intro l
    induction l with
    | nil => exact Nat.le_refl _
    | cons a l ih =>
      by_cases ha : a ∉ x :: used
      · have ha2 : a ∉ used := fun h => ha (List.mem_cons_of_mem _ h)
        rw [List.filter_cons_of_pos (by simpa using ha),
          List.filter_cons_of_pos (by simpa using ha2)]
        simp only [List.length_cons]
        omega
      · rw [List.filter_cons_of_neg (by simpa using ha)]
        by_cases ha2 : a ∉ used
        · rw [List.filter_cons_of_pos (by simpa using ha2)]
          simp only [List.length_cons]
          omega
        · rw [List.filter_cons_of_neg (by simpa using ha2)]
          exact ih
  intro l
  induction l with
  | nil => intro h; simp at h
  | cons a l ih =>
    intro h
    by_cases hax : a = x
    · subst hax
      rw [List.filter_cons_of_neg (by simp), List.filter_cons_of_pos (by simpa using hx)]
      simp only [List.length_cons]
      have := hle l
      omega
    · have hmem : x ∈ l := by
        rcases List.mem_cons.1 h with h1 | h1
        · exact absurd h1.symm hax
        · exact h1
      have := ih hmem
      by_cases ha2 : a ∉ used
      · have ha : a ∉ x :: used := by
          intro hc
          rcases List.mem_cons.1 hc with h1 | h1
          · exact hax h1
          · exact ha2 h1
        rw [List.filter_cons_of_pos (by simpa using ha),
          List.filter_cons_of_pos (by simpa using ha2)]
        simp only [List.length_cons]
        omega
      · have ha : ¬ a ∉ x :: used := fun hc => ha2 (fun h1 => hc (List.mem_cons_of_mem _ h1))
        rw [List.filter_cons_of_neg (by simpa using ha),
          List.filter_cons_of_neg (by simpa using ha2)]
        exact this

theorem flatMap_entries_length (env : NumaEnv) (hmax : 1 ≤ env.MAX_NR_ZONES) :
    ∀ (order : List Nat),
      (order.flatMap (node_entries env)).length ≤ order.length * env.MAX_NR_ZONES := by
  intro order
  induction order with
  | nil => simp
  | cons a l ih =>
    rw [List.flatMap_cons, List.length_append, List.length_cons, Nat.add_mul, Nat.one_mul]
    have := node_entries_length env a hmax
    omega

/-- The `while` loop of `build_zonelists` returns when it may call
`find_next_best_node` once more than there are unmarked nodes, and keeps its
invariant; the local node is marked at the end. -/
theorem build_zonelists_loop_spec (env : NumaEnv) (local_node : Nat)
    (hmax : 1 ≤ env.MAX_NR_ZONES) (hid : ∀ n, (env.NODE_DATA n).node_id = n)
    (hcap : (env.high_memory_nodes.length + 1) * env.MAX_NR_ZONES < env.zonerefs_len) :
    ∀ (fuel : Nat) (v : ZonelistVars) (order : List Nat), ZonelistInv env local_node v order →
      ((local_node :: env.high_memory_nodes).filter
        (fun n => decide (n ∉ v.used_mask))).length < fuel →
      ∃ v1 order1, build_zonelists_loop env local_node fuel v = some v1 ∧
        ZonelistInv env local_node v1 order1 ∧ local_node ∈ order1 := by
  intro fuel
  induction fuel with
  | zero => intro v order _ h; omega
  | succ fuel ih =>
    intro v order hinv hfuel
    obtain ⟨i1, i2, i3, i4, i5⟩ := hinv
    obtain ⟨f1, f2⟩ := find_next_best_node_spec env v.node_load local_node v.used_mask
    rw [build_zonelists_loop]
    cases hr : find_next_best_node env v.node_load local_node v.used_mask with
    | mk res used =>
      rw [hr] at f1 f2
      cases res with
      | none =>
        obtain ⟨g1, g2⟩ := f1 rfl
        simp only [] at g1
        refine ⟨{ v with used_mask := used }, order, rfl, ⟨?_, i2, i3, i4, i5⟩, (i1 _).1 g2⟩
        intro n
        show n ∈ used ↔ _
        rw [g1]
        exact i1 n
      | some x =>
        obtain ⟨g1, g2, g3, g4⟩ := f2 x rfl
        simp only [] at g3
        have hsub : order.length ≤ (local_node :: env.high_memory_nodes).length := by
          apply (List.subperm_of_subset i3 _).length_le
          intro n hn
          rcases i4 n hn with h | h
          · rw [h]; exact List.mem_cons_self _ _
          · exact List.mem_cons_of_mem _ h
        have hlen := flatMap_entries_length env hmax order
        have hcap2 : (order.flatMap (node_entries env)).length < env.zonerefs_len := by
          rw [List.length_cons] at hsub
          have : order.length * env.MAX_NR_ZONES ≤
              (env.high_memory_nodes.length + 1) * env.MAX_NR_ZONES :=
            Nat.mul_le_mul_right _ hsub
          omega
        obtain ⟨zl1, hz1, hz2⟩ := build_zonelists_in_node_order_spec env v.zonerefs
          (order.flatMap (node_entries env)) x hmax (hid x) i2 hcap2
        simp only [hz1]
        have hxo : x ∉ order := fun h => g1 ((i1 x).2 h)
        apply ih _ (order ++ [x])
        · refine ⟨?_, ?_, ?_, ?_, ?_⟩
          · intro n
            show n ∈ used ↔ _
            rw [g3, List.mem_cons, List.mem_append, List.mem_singleton, i1 n]
            exact Or.comm
          · show zonelist_is zl1 _
            rw [List.flatMap_append]
            simpa using hz2
          · rw [List.nodup_append]
            refine ⟨i3, List.nodup_singleton x, ?_⟩
            intro a ha hb
            rw [List.mem_singleton] at hb
            exact hxo (hb ▸ ha)
          · intro n hn
            rcases List.mem_append.1 hn with h | h
            · exact i4 n h
            · rw [List.mem_singleton] at h
              rw [h]
              exact g2
          · right
            rcases i5 with h | ⟨t, h⟩
            · subst h
              have hnl : local_node ∉ v.used_mask := fun hc => by
                have := (i1 local_node).1 hc
                simp at this
              exact ⟨[], by rw [g4 hnl]; rfl⟩
            · exact ⟨t ++ [x], by rw [h]; rfl⟩
        · show ((local_node :: env.high_memory_nodes).filter
            (fun n => decide (n ∉ used))).length < fuel
          rw [g3]
          have hx : x ∈ local_node :: env.high_memory_nodes := by
            rcases g2 with h | h
            · rw [h]; exact List.mem_cons_self _ _
            · exact List.mem_cons_of_mem _ h
          have := unmarked_lt v.used_mask x g1 _ hx
          omega

/-- C34: `build_zonelists_node(pgdat, zonelist, n, zone_type)` with
`zone_type < MAX_NR_ZONES` writes, from position `n` on, references to
exactly the populated zones of the node with index at most `zone_type`, in
strictly decreasing index, leaves the entries before `n` as they were and
returns `n` plus the number of zones written. And `build_zonelists` of a
NUMA build in node order returns (the array has room for the zones of all
nodes, and `NODE_DATA(n)` is the descriptor of node `n`) with a zone list,
closed by `NULL`, that holds the populated zones of the local node, highest
index first, and after them zones of other nodes only. -/
theorem node_ordered_zonelist (env : NumaEnv) (pgdat : pg_data_t) (node_load : Nat → Int)
    (zonerefs : Nat → zoneref) (n zone_type : Nat) :
    (zone_type < env.MAX_NR_ZONES →
      ∃ zonerefs1, build_zonelists_node env.MAX_NR_ZONES pgdat zonerefs n zone_type =
          some (zonerefs1, n + (node_zones_desc pgdat zone_type).length) ∧
        (∀ i, i < n → zonerefs1 i = zonerefs i) ∧
        holds_zones zonerefs1 n pgdat (node_zones_desc pgdat zone_type) ∧
        (node_zones_desc pgdat zone_type).Pairwise (fun a b => a > b) ∧
        ∀ t, t ∈ node_zones_desc pgdat zone_type ↔
          t ≤ zone_type ∧ populated_zone pgdat t = true) ∧
    (1 ≤ env.MAX_NR_ZONES → (∀ k, (env.NODE_DATA k).node_id = k) →
      (env.high_memory_nodes.length + 1) * env.MAX_NR_ZONES < env.zonerefs_len →
      ∃ v rest, build_zonelists env pgdat node_load zonerefs = some v ∧
        zonelist_is v.zonerefs (node_entries env pgdat.node_id ++ rest) ∧
        ∀ e, e ∈ rest → e.1 ≠ pgdat.node_id) := by
  constructor
  · intro hz
    obtain ⟨a1, a2, a3⟩ := build_zonelists_node_loop_spec pgdat (zone_type + 1) zonerefs n
    refine ⟨(build_zonelists_node_loop pgdat (zone_type + 1) zonerefs n).1, ?_,
      fun i hi => a2 i (Or.inl hi), a3, ?_, ?_⟩
    · unfold build_zonelists_node
      rw [if_neg (by omega)]
      unfold node_zones_desc
      rw [← a1]
    · unfold node_zones_desc
      apply List.Pairwise.filter
      rw [List.pairwise_reverse]
      exact List.pairwise_lt_range _
    · intro t
      unfold node_zones_desc
      rw [List.mem_filter, List.mem_reverse, List.mem_range]
      constructor
      · rintro ⟨h1, h2⟩
        exact ⟨by omega, h2⟩
      · rintro ⟨h1, h2⟩
        exact ⟨by omega, h2⟩
  · intro hmax hid hcap
    have hinit : ZonelistInv env pgdat.node_id
        { used_mask := [], node_load := node_load, prev_node := pgdat.node_id,
          load := wrap_int env.nr_online_nodes,
          zonerefs := upd zonerefs 0 { zone := none, zone_idx := 0 } } [] := by
      refine ⟨fun n => Iff.rfl, ⟨?_, ?_⟩, List.nodup_nil, ?_, Or.inl rfl⟩
      · intro i e he
        simp at he
      · simp [upd]
      · intro n hn
        simp at hn
    obtain ⟨v1, order1, h1, ⟨_, j2, j3, _, j5⟩, hmem⟩ := build_zonelists_loop_spec env
      pgdat.node_id hmax hid hcap (env.high_memory_nodes.length + 2) _ [] hinit
      (by
        have := List.length_filter_le (fun n => decide (n ∉ ([] : List Nat)))
          (pgdat.node_id :: env.high_memory_nodes)
        rw [List.length_cons] at this
        show (List.filter (fun n => decide (n ∉ ([] : List Nat)))
          (pgdat.node_id :: env.high_memory_nodes)).length < _
        omega)
    rcases j5 with h | ⟨t, h⟩
    · rw [h] at hmem
      simp at hmem
    · subst h
      refine ⟨v1, t.flatMap (node_entries env), h1, ?_, ?_⟩
      · rw [List.flatMap_cons] at j2
        exact j2
      · intro e he
        rw [List.mem_flatMap] at he
        obtain ⟨k, hk, hke⟩ := he
        rw [node_entries_node env k e hke]
        intro hc
        rw [List.nodup_cons] at j3
        exact j3.1 (hc ▸ hk)

theorem node_ordered_zonelist_witness :
    (∃ zonerefs1, build_zonelists_node two_node_env.MAX_NR_ZONES (two_node_env.NODE_DATA 0)
          (fun _ => {}) 0 2 =
        some (zonerefs1, 0 + (node_zones_desc (two_node_env.NODE_DATA 0) 2).length) ∧
      (∀ i, i < 0 → zonerefs1 i = ({} : zoneref)) ∧
      holds_zones zonerefs1 0 (two_node_env.NODE_DATA 0)
        (node_zones_desc (two_node_env.NODE_DATA 0) 2) ∧
      (node_zones_desc (two_node_env.NODE_DATA 0) 2).Pairwise (fun a b => a > b) ∧
      ∀ t, t ∈ node_zones_desc (two_node_env.NODE_DATA 0) 2 ↔
        t ≤ 2 ∧ populated_zone (two_node_env.NODE_DATA 0) t = true) ∧
    ∃ v rest, build_zonelists two_node_env (two_node_env.NODE_DATA 0) (fun _ => 0)
        (fun _ => {}) = some v ∧
      zonelist_is v.zonerefs
        (node_entries two_node_env (two_node_env.NODE_DATA 0).node_id ++ rest) ∧
      ∀ e, e ∈ rest → e.1 ≠ (two_node_env.NODE_DATA 0).node_id :=
  ⟨(node_ordered_zonelist two_node_env (two_node_env.NODE_DATA 0) (fun _ => 0) (fun _ => {})
      0 2).1 (by decide),
    (node_ordered_zonelist two_node_env (two_node_env.NODE_DATA 0) (fun _ => 0) (fun _ => {})
      0 2).2 (by decide) (fun _ => rfl) (by decide)⟩

/-! ## Exact-size allocations -/

theorem mask_low_eq (b k x : Nat) (h : x < 2 ^ b) :
    x &&& ((2 ^ b - 1) ^^^ (2 ^ k - 1)) = block_start x k := by
  apply Nat.eq_of_testBit_eq
  intro i
  rw [testBit_block_start, Nat.testBit_and, Nat.testBit_xor,
    Nat.testBit_two_pow_sub_one, Nat.testBit_two_pow_sub_one]
  by_cases hi : i < b
  · by_cases hj : i < k
    · have : ¬ k ≤ i := by omega
      simp [hi, hj, this]
    · have : k ≤ i := by omega
      simp [hi, hj, this]
  · have hlt : x < 2 ^ i :=
      Nat.lt_of_lt_of_le h (Nat.pow_le_pow_right (by decide) (by omega))
    rw [Nat.testBit_eq_false_of_lt hlt]
    simp

theorem PAGE_SIZE_eq (cfg : Config) (h : cfg.PAGE_SHIFT < cfg.BITS_PER_LONG) :
    PAGE_SIZE cfg = 2 ^ cfg.PAGE_SHIFT := by
  unfold PAGE_SIZE
  rw [Nat.one_shiftLeft]
  exact Nat.mod_eq_of_lt (Nat.pow_lt_pow_right (by decide) h)

theorem fls_bits_zero (b : Nat) : fls_bits 0 b = 0 := by
  induction b with
  | zero => rfl
  | succ b ih => rw [fls_bits, Nat.zero_testBit]; simpa using ih

/-- The number of pages that hold `size` bytes. -/
theorem pages_of_size (P size : Nat) (hP : 0 < P) (hs : 1 ≤ size) :
    (size + P - 1) / P = (size - 1) / P + 1 := by
  rw [show size + P - 1 = (size - 1) + P by omega, Nat.add_div_right _ hP]

/-- `get_order(size)` is the smallest order whose block holds `size` bytes. -/
theorem get_order_spec (cfg : Config) (size : Nat)
    (hshift : cfg.PAGE_SHIFT < cfg.BITS_PER_LONG) (hs : 1 ≤ size)
    (hlt : size < 2 ^ cfg.BITS_PER_LONG) :
    (size + PAGE_SIZE cfg - 1) / PAGE_SIZE cfg ≤ 2 ^ get_order cfg size ∧
      (get_order cfg size = 0 ∨
        2 ^ (get_order cfg size - 1) < (size + PAGE_SIZE cfg - 1) / PAGE_SIZE cfg) := by
  have hP := PAGE_SIZE_eq cfg hshift
  have hpos : 0 < 2 ^ cfg.PAGE_SHIFT := Nat.two_pow_pos _
  rw [hP, pages_of_size _ _ hpos hs]
  have hdec : ulong_dec cfg size = size - 1 := by
    unfold ulong_dec
    rw [show size + 2 ^ cfg.BITS_PER_LONG - 1 = (size - 1) + 2 ^ cfg.BITS_PER_LONG by omega,
      Nat.add_mod_right]
    exact Nat.mod_eq_of_lt (by omega)
  unfold get_order
  rw [hdec, Nat.shiftRight_eq_div_pow]
  by_cases h0 : (size - 1) / 2 ^ cfg.PAGE_SHIFT = 0
  · rw [h0, fls_bits_zero]
    exact ⟨by simp, Or.inl rfl⟩
  · have hlt2 : (size - 1) / 2 ^ cfg.PAGE_SHIFT < 2 ^ cfg.BITS_PER_LONG :=
      Nat.lt_of_le_of_lt (Nat.div_le_self _ _) (by omega)
    obtain ⟨a1, _, a3, a4⟩ :=
      fls_bits_spec _ (Nat.pos_of_ne_zero h0) cfg.BITS_PER_LONG hlt2
    exact ⟨by omega, Or.inr (by omega)⟩

/-- `PAGE_ALIGN(size)` is the number of pages that hold `size` bytes, in
bytes. -/
theorem PAGE_ALIGN_eq (cfg : Config) (size : Nat)
    (hshift : cfg.PAGE_SHIFT < cfg.BITS_PER_LONG)
    (hlt : size + PAGE_SIZE cfg - 1 < 2 ^ cfg.BITS_PER_LONG) :
    PAGE_ALIGN cfg size = (size + PAGE_SIZE cfg - 1) / PAGE_SIZE cfg * PAGE_SIZE cfg := by
  have hP := PAGE_SIZE_eq cfg hshift
  have hpos : 0 < 2 ^ cfg.PAGE_SHIFT := Nat.two_pow_pos _
  have hlt3 : 2 ^ cfg.PAGE_SHIFT < 2 ^ cfg.BITS_PER_LONG :=
    Nat.pow_lt_pow_right (by decide) hshift
  have hdec : ulong_dec cfg (PAGE_SIZE cfg) = 2 ^ cfg.PAGE_SHIFT - 1 := by
    unfold ulong_dec
    rw [hP, show 2 ^ cfg.PAGE_SHIFT + 2 ^ cfg.BITS_PER_LONG - 1 =
      (2 ^ cfg.PAGE_SHIFT - 1) + 2 ^ cfg.BITS_PER_LONG by omega, Nat.add_mod_right]
    exact Nat.mod_eq_of_lt (by omega)
  unfold PAGE_ALIGN
  rw [hdec]
  rw [hP] at hlt ⊢
  rw [show size + (2 ^ cfg.PAGE_SHIFT - 1) = size + 2 ^ cfg.PAGE_SHIFT - 1 by omega,
    Nat.mod_eq_of_lt hlt, mask_low_eq _ _ _ hlt]
  rfl

theorem free_page_loop_spec (cfg : Config) (alloc_end : Nat)
    (hP : 0 < PAGE_SIZE cfg) (hend : alloc_end < 2 ^ cfg.BITS_PER_LONG) :
    ∀ n fuel used, 0 < used → used + n * PAGE_SIZE cfg = alloc_end → n < fuel →
      free_page_loop cfg alloc_end fuel used =
        some ((List.range n).map
          (fun i => ExactCall.__free_pages (used + i * PAGE_SIZE cfg) 0)) := by
  intro n
  induction n with
  | zero =>
    intro fuel used _ he hf
    obtain ⟨f, rfl⟩ : ∃ f, fuel = f + 1 := ⟨fuel - 1, by omega⟩
    rw [free_page_loop, if_neg (by omega)]
    rfl
  | succ n ih =>
    intro fuel used hu he hf
    obtain ⟨f, rfl⟩ : ∃ f, fuel = f + 1 := ⟨fuel - 1, by omega⟩
    have hmul : (n + 1) * PAGE_SIZE cfg = n * PAGE_SIZE cfg + PAGE_SIZE cfg := by ring
    have hlt : used < alloc_end := by omega
    have hnext : (used + PAGE_SIZE cfg) % 2 ^ cfg.BITS_PER_LONG = used + PAGE_SIZE cfg :=
      Nat.mod_eq_of_lt (by omega)
    rw [free_page_loop, if_pos hlt, hnext,
      ih f (used + PAGE_SIZE cfg) (by omega) (by omega) (by omega)]
    have hfp : free_page used = [ExactCall.__free_pages used 0] := by
      unfold free_page free_pages
      rw [if_pos (by omega)]
    rw [hfp, List.range_succ_eq_map]
    simp only [List.map_cons, List.map_map, List.singleton_append, Nat.zero_mul, Nat.add_zero]
    congr 2
    apply List.map_congr_left
    intro i _
    show ExactCall.__free_pages (used + PAGE_SIZE cfg + i * PAGE_SIZE cfg) 0 =
      ExactCall.__free_pages (used + (i + 1) * PAGE_SIZE cfg) 0
    congr 1
    ring

/-- C32: `alloc_pages_exact(size)` asks `__get_free_pages` for a block of order
`get_order(size)`, the smallest order whose block holds `size` bytes; when the
allocation succeeds (a non-null address whose block lies in the address space)
`make_alloc_exact` splits the block and then frees, one by one with order 0
and in ascending order, exactly the pages of index `ceil(size/PAGE_SIZE)` up
to `2^order - 1`, so the first `ceil(size/PAGE_SIZE)` pages are kept and the
`2^order - ceil(size/PAGE_SIZE)` tail pages are freed;
`free_pages_exact(virt, size)` on the address returned frees exactly the kept
pages of index `0` up to `ceil(size/PAGE_SIZE) - 1`, one by one with order 0. -/
theorem exact_pages_kept (cfg : Config) (__get_free_pages : Nat → Nat → Nat)
    (size gfp_mask : Nat)
    (hshift : cfg.PAGE_SHIFT < cfg.BITS_PER_LONG) (hs : 1 ≤ size)
    (hlt : size < 2 ^ cfg.BITS_PER_LONG)
    (hok : __get_free_pages gfp_mask (get_order cfg size) ≠ 0)
    (hfit : __get_free_pages gfp_mask (get_order cfg size) +
      2 ^ get_order cfg size * PAGE_SIZE cfg < 2 ^ cfg.BITS_PER_LONG) :
    (size + PAGE_SIZE cfg - 1) / PAGE_SIZE cfg ≤ 2 ^ get_order cfg size ∧
    (get_order cfg size = 0 ∨
      2 ^ (get_order cfg size - 1) < (size + PAGE_SIZE cfg - 1) / PAGE_SIZE cfg) ∧
    alloc_pages_exact cfg __get_free_pages size gfp_mask =
      some (__get_free_pages gfp_mask (get_order cfg size),
        ExactCall.split_page (__get_free_pages gfp_mask (get_order cfg size))
            (get_order cfg size) ::
          (List.range (2 ^ get_order cfg size - (size + PAGE_SIZE cfg - 1) / PAGE_SIZE cfg)).map
            (fun i => ExactCall.__free_pages
              (__get_free_pages gfp_mask (get_order cfg size) +
                ((size + PAGE_SIZE cfg - 1) / PAGE_SIZE cfg + i) * PAGE_SIZE cfg) 0)) ∧
    free_pages_exact cfg (__get_free_pages gfp_mask (get_order cfg size)) size =
      some ((List.range ((size + PAGE_SIZE cfg - 1) / PAGE_SIZE cfg)).map
        (fun i => ExactCall.__free_pages
          (__get_free_pages gfp_mask (get_order cfg size) + i * PAGE_SIZE cfg) 0)) := by
  obtain ⟨hle, hmin⟩ := get_order_spec cfg size hshift hs hlt
  have hP := PAGE_SIZE_eq cfg hshift
  have hpos : 0 < PAGE_SIZE cfg := by rw [hP]; exact Nat.two_pow_pos _
  generalize hord : get_order cfg size = order at hle hmin hfit hok ⊢
  generalize hadr : __get_free_pages gfp_mask order = addr at hok hfit ⊢
  generalize hc : (size + PAGE_SIZE cfg - 1) / PAGE_SIZE cfg = c at hle hmin ⊢
  have hcP : c * PAGE_SIZE cfg ≤ 2 ^ order * PAGE_SIZE cfg := Nat.mul_le_mul_right _ hle
  have hdvd : PAGE_SIZE cfg ∣ 2 ^ cfg.BITS_PER_LONG := by
    rw [hP]; exact Nat.pow_dvd_pow 2 (Nat.le_of_lt hshift)
  have hroom : c * PAGE_SIZE cfg + PAGE_SIZE cfg ≤ 2 ^ cfg.BITS_PER_LONG :=
    add_le_of_dvd_of_lt (Dvd.intro_left c rfl) hdvd (by omega)
  have hsz : size + PAGE_SIZE cfg - 1 < c * PAGE_SIZE cfg + PAGE_SIZE cfg := by
    rw [← hc]
    have := Nat.lt_div_mul_add (a := size + PAGE_SIZE cfg - 1) hpos
    omega
  have halign : PAGE_ALIGN cfg size = c * PAGE_SIZE cfg := by
    rw [PAGE_ALIGN_eq cfg size hshift (by omega), hc]
  have hsplit : (2 ^ order - c) * PAGE_SIZE cfg + c * PAGE_SIZE cfg =
      2 ^ order * PAGE_SIZE cfg := by
    rw [← Nat.add_mul, Nat.sub_add_cancel hle]
  refine ⟨hle, hmin, ?_, ?_⟩
  · unfold alloc_pages_exact
    simp only [hord, hadr]
    unfold make_alloc_exact
    simp only [if_pos hok]
    rw [ halign, Nat.shiftLeft_eq, Nat.mul_comm (PAGE_SIZE cfg) (2 ^ order),
      Nat.mod_eq_of_lt (a := 2 ^ order * PAGE_SIZE cfg) (by omega),
      Nat.mod_eq_of_lt hfit, Nat.mod_eq_of_lt (a := addr + c * PAGE_SIZE cfg) (by omega)]
    rw [free_page_loop_spec cfg _ hpos hfit (2 ^ order - c) _ (addr + c * PAGE_SIZE cfg)
      (by omega) (by omega) (by
        have e : addr + 2 ^ order * PAGE_SIZE cfg - (addr + c * PAGE_SIZE cfg) =
            (2 ^ order - c) * PAGE_SIZE cfg := by omega
        rw [e, Nat.mul_div_cancel _ hpos]
        omega)]
    simp only [Option.some.injEq, Prod.mk.injEq, List.cons.injEq, true_and]
    apply List.map_congr_left
    intro i _
    congr 1
    ring
  · unfold free_pages_exact
    simp only
    rw [halign, Nat.mod_eq_of_lt (a := addr + c * PAGE_SIZE cfg) (by omega)]
    rw [free_page_loop_spec cfg _ hpos (by omega) c _ addr (by omega) rfl (by
        rw [Nat.add_sub_cancel_left, Nat.mul_div_cancel _ hpos]
        omega)]

theorem exact_pages_kept_witness :
    alloc_pages_exact default_config (fun _ _ => 0x100000) (4 * 4096 + 1) 0 =
      some (0x100000,
        [ExactCall.split_page 0x100000 3, ExactCall.__free_pages 0x105000 0,
          ExactCall.__free_pages 0x106000 0, ExactCall.__free_pages 0x107000 0]) ∧
    free_pages_exact default_config 0x100000 (4 * 4096 + 1) =
      some [ExactCall.__free_pages 0x100000 0, ExactCall.__free_pages 0x101000 0,
        ExactCall.__free_pages 0x102000 0, ExactCall.__free_pages 0x103000 0,
        ExactCall.__free_pages 0x104000 0] := by
  have h := exact_pages_kept default_config (fun _ _ => 0x100000) (4 * 4096 + 1) 0
    (by decide) (by decide) (by decide) (by decide) (by decide)
  exact ⟨h.2.2.1.trans (by decide), h.2.2.2.trans (by decide)⟩

/-! ## The migrate reserve -/

theorem move_freepages_loop_flags (cfg : Config) (end_page migratetype : Nat) :
    ∀ (n page : Nat) (r : State × Nat),
      (move_freepages_loop cfg end_page migratetype n page r).1.pageblock_flags =
        r.1.pageblock_flags := by
  intro n
  induction n with
  | zero => intro page r; rfl
  | succ n ih =>
    intro page r
    obtain ⟨s, moved⟩ := r
    rw [move_freepages_loop]
    split
    · split
      · exact ih _ _
      · split
        · exact ih _ _
        · simp only []
          rw [ih]
          rfl
    · rfl

theorem move_freepages_flags {cfg : Config} {s : State}
    {start_page end_page migratetype : Nat}
    {r : State × Nat} (h : move_freepages cfg s start_page end_page migratetype = some r) :
    r.1.pageblock_flags = s.pageblock_flags := by
  unfold move_freepages at h
  split at h
  · cases h
  · cases h
    exact move_freepages_loop_flags cfg _ _ _ _ _

theorem move_freepages_block_flags {cfg : Config} {s : State} {page migratetype : Nat}
    {r : State × Nat} (h : move_freepages_block cfg s page migratetype = some r) :
    r.1.pageblock_flags = s.pageblock_flags := by
  unfold move_freepages_block at h
  simp only [] at h
  split at h
  · cases h; rfl
  · exact move_freepages_flags h

/-- Re-tagging a page-block and moving its free blocks: the call returns on
a well-formed zone, which stays well formed, and only the tag of the
page-block changes in the table of tags. -/
theorem retag_block {cfg : Config} {zid : Nat} {s : State} {pfn m : Nat}
    (hwf : WF cfg zid s) (hm : m < MIGRATE_TYPES) (hpg : s.zone_start_pfn ≤ pfn)
    (hB : pfn < 2 ^ cfg.BITS_PER_LONG) :
    ∃ r, move_freepages_block cfg (set_pageblock_migratetype cfg s pfn m) pfn m = some r ∧
      WF cfg zid r.1 ∧ r.1.pfn_valid = s.pfn_valid ∧
      r.1.zone_start_pfn = s.zone_start_pfn ∧ r.1.spanned_pages = s.spanned_pages ∧
      r.1.pageblock_flags =
        upd s.pageblock_flags (pfn >>> cfg.pageblock_order) (effective_migratetype cfg m) := by
  obtain ⟨w1, _, _, _⟩ := @WF.of_eq_view cfg zid s
    (set_pageblock_migratetype cfg s pfn m) hwf rfl rfl rfl rfl rfl
  obtain ⟨r, hr⟩ := @move_freepages_block_returns cfg zid
    (set_pageblock_migratetype cfg s pfn m) pfn m w1 hpg hB
  obtain ⟨w2, hst, _, _⟩ := move_freepages_block_wf w1 hm hpg r hr
  obtain ⟨a1, a2, a3, _⟩ := hst
  exact ⟨r, hr, w2, a1, a2, a3, move_freepages_block_flags hr⟩

theorem pageblock_is_reserved_loop_spec (cfg : Config) (s : State) (env : ReserveEnv)
    (end_pfn : Nat) (hend : end_pfn < 2 ^ cfg.BITS_PER_LONG) :
    ∀ n pfn, pfn + n ≤ end_pfn →
      pageblock_is_reserved_loop cfg s env end_pfn n pfn =
        if (List.range n).any
          (fun i => !pfn_valid_within cfg s (pfn + i) || env.PageReserved (pfn + i))
        then 1 else 0 := by
  intro n
  induction n with
  | zero => intro pfn _; rfl
  | succ n ih =>
    intro pfn h
    rw [pageblock_is_reserved_loop, if_pos (by omega), List.range_succ_eq_map, List.any_cons,
      List.any_map]
    by_cases hb : (!pfn_valid_within cfg s pfn || env.PageReserved pfn) = true
    · rw [if_pos hb]
      simp [hb]
    · rw [if_neg hb]
      have hinc : ulong_inc cfg pfn = pfn + 1 := by
        unfold ulong_inc
        exact Nat.mod_eq_of_lt (by omega)
      rw [hinc, ih (pfn + 1) (by omega)]
      have hb2 : (!pfn_valid_within cfg s pfn || env.PageReserved pfn) = false := by
        simpa using hb
      simp only [Nat.add_zero, hb2, Bool.false_or]
      have hfun : ((fun i => !pfn_valid_within cfg s (pfn + i) || env.PageReserved (pfn + i)) ∘
          Nat.succ) = (fun i => !pfn_valid_within cfg s (pfn + 1 + i) ||
            env.PageReserved (pfn + 1 + i)) := by
        funext i
        show (!pfn_valid_within cfg s (pfn + (i + 1)) || env.PageReserved (pfn + (i + 1))) = _
        rw [show pfn + (i + 1) = pfn + 1 + i by omega]
      rw [hfun]

theorem pfn_valid_within_congr (cfg : Config) {s s0 : State} (h : s.pfn_valid = s0.pfn_valid)
    (x : Nat) : pfn_valid_within cfg s x = pfn_valid_within cfg s0 x := by
  unfold pfn_valid_within
  rw [h]

/-- The test `pageblock_is_reserved(pfn, block_end_pfn)` of the walk says
whether the page-block holds a reserved frame or a hole. -/
theorem pageblock_is_reserved_eq (cfg : Config) (env : ReserveEnv) {s s0 : State} (pfn : Nat)
    (hpv : s.pfn_valid = s0.pfn_valid)
    (hlt : pfn < s0.zone_start_pfn + s0.spanned_pages)
    (hwrap : s0.zone_start_pfn + s0.spanned_pages + 2 ^ cfg.pageblock_order ≤
      2 ^ cfg.BITS_PER_LONG) :
    pageblock_is_reserved cfg s env pfn
        (min ((pfn + pageblock_nr_pages cfg) % 2 ^ cfg.BITS_PER_LONG)
          (s0.zone_start_pfn + s0.spanned_pages)) =
      if block_holds_reserved cfg env s0 pfn then 1 else 0 := by
  have hnr : pageblock_nr_pages cfg = 2 ^ cfg.pageblock_order := by
    unfold pageblock_nr_pages; rw [Nat.one_shiftLeft]
  rw [hnr, Nat.mod_eq_of_lt (by omega)]
  unfold pageblock_is_reserved block_holds_reserved
  have hpos : 0 < 2 ^ cfg.pageblock_order := Nat.two_pow_pos _
  rw [pageblock_is_reserved_loop_spec cfg s env _ (by omega) _ pfn (by omega)]
  have hfun : (fun i => !pfn_valid_within cfg s (pfn + i) || env.PageReserved (pfn + i)) =
      (fun i => !pfn_valid_within cfg s0 (pfn + i) || env.PageReserved (pfn + i)) := by
    funext i
    rw [pfn_valid_within_congr cfg hpv]
  rw [hfun]

theorem effective_reserve (cfg : Config) :
    effective_migratetype cfg MIGRATE_RESERVE = MIGRATE_RESERVE := by
  unfold effective_migratetype
  rw [if_neg]
  simp [MIGRATE_RESERVE, MIGRATE_PCPTYPES]

theorem effective_movable_ne (cfg : Config) :
    effective_migratetype cfg MIGRATE_MOVABLE ≠ MIGRATE_RESERVE := by
  unfold effective_migratetype
  split <;> decide

/-- One page-block of the walk of `setup_zone_migrate_reserve`. The body
returns on a well-formed zone; only the tag of the page-block can change;
`reserve` goes down by one exactly when the page-block ends tagged Reserve,
is looked at and holds no reserved frame; a page-block not tagged Reserve
becomes so only if it was Movable, is looked at, holds no reserved frame and
`reserve` is positive; a page-block tagged Reserve that is looked at when
`reserve` is not positive gets the tag written for Movable. -/
theorem migrate_reserve_block_spec {cfg : Config} {zid : Nat} (env : ReserveEnv)
    (s0 s : State) (pfn : Nat) (reserve : Int) (hwf : WF cfg zid s)
    (hpv : s.pfn_valid = s0.pfn_valid) (hzs : s.zone_start_pfn = s0.zone_start_pfn)
    (hsp : s.spanned_pages = s0.spanned_pages) (hpg : s.zone_start_pfn ≤ pfn)
    (hlt : pfn < s0.zone_start_pfn + s0.spanned_pages)
    (hwrap : s0.zone_start_pfn + s0.spanned_pages + 2 ^ cfg.pageblock_order ≤
      2 ^ cfg.BITS_PER_LONG) :
    ∃ r1 s1, migrate_reserve_block cfg env (s0.zone_start_pfn + s0.spanned_pages) pfn
        reserve s = some (r1, s1) ∧
      WF cfg zid s1 ∧ s1.pfn_valid = s0.pfn_valid ∧
      s1.zone_start_pfn = s0.zone_start_pfn ∧ s1.spanned_pages = s0.spanned_pages ∧
      (∀ b, b ≠ pfn >>> cfg.pageblock_order → s1.pageblock_flags b = s.pageblock_flags b) ∧
      r1.toNat + (if (block_visited env s0 pfn && !block_holds_reserved cfg env s0 pfn &&
          tagged_reserve cfg s1 pfn) = true then 1 else 0) = reserve.toNat ∧
      (get_pageblock_migratetype cfg s pfn ≠ MIGRATE_RESERVE →
        get_pageblock_migratetype cfg s1 pfn = MIGRATE_RESERVE →
        get_pageblock_migratetype cfg s pfn = MIGRATE_MOVABLE ∧
          block_visited env s0 pfn = true ∧ block_holds_reserved cfg env s0 pfn = false ∧
          0 < reserve.toNat) ∧
      (block_visited env s0 pfn = true →
        get_pageblock_migratetype cfg s pfn = MIGRATE_RESERVE → reserve.toNat = 0 →
        get_pageblock_migratetype cfg s1 pfn = effective_migratetype cfg MIGRATE_MOVABLE) := by
  have hpos : 0 < 2 ^ cfg.pageblock_order := Nat.two_pow_pos _
  have hB : pfn < 2 ^ cfg.BITS_PER_LONG := by omega
  have hvis : block_visited env s0 pfn =
      (s.pfn_valid pfn && env.page_to_nid pfn == env.zone_to_nid) := by
    unfold block_visited; rw [hpv]
  have htag : ∀ s1 : State, tagged_reserve cfg s1 pfn =
      (get_pageblock_migratetype cfg s1 pfn == MIGRATE_RESERVE) := fun _ => rfl
  -- the state reached by taking the block back
  have hret : ∀ T, T = get_pageblock_migratetype cfg s pfn →
      (T = MIGRATE_RESERVE → 0 < reserve.toNat → block_visited env s0 pfn = true →
        block_holds_reserved cfg env s0 pfn = true) →
      block_visited env s0 pfn = true → T ≠ MIGRATE_MOVABLE ∨ reserve.toNat = 0 →
      ∃ s1, migrate_reserve_return cfg s pfn T = some s1 ∧
        WF cfg zid s1 ∧ s1.pfn_valid = s0.pfn_valid ∧
        s1.zone_start_pfn = s0.zone_start_pfn ∧ s1.spanned_pages = s0.spanned_pages ∧
        (∀ b, b ≠ pfn >>> cfg.pageblock_order → s1.pageblock_flags b = s.pageblock_flags b) ∧
        reserve.toNat + (if (block_visited env s0 pfn && !block_holds_reserved cfg env s0 pfn &&
            tagged_reserve cfg s1 pfn) = true then 1 else 0) = reserve.toNat ∧
        (get_pageblock_migratetype cfg s pfn ≠ MIGRATE_RESERVE →
          get_pageblock_migratetype cfg s1 pfn = MIGRATE_RESERVE →
          get_pageblock_migratetype cfg s pfn = MIGRATE_MOVABLE ∧
            block_visited env s0 pfn = true ∧ block_holds_reserved cfg env s0 pfn = false ∧
            0 < reserve.toNat) ∧
        (block_visited env s0 pfn = true →
          get_pageblock_migratetype cfg s pfn = MIGRATE_RESERVE → reserve.toNat = 0 →
          get_pageblock_migratetype cfg s1 pfn =
            effective_migratetype cfg MIGRATE_MOVABLE) := by
    intro T hT hres hv hcase
    unfold migrate_reserve_return
    by_cases hTr : T = MIGRATE_RESERVE
    · rw [if_pos hTr]
      obtain ⟨r, hr, w, a1, a2, a3, a4⟩ :=
        retag_block (m := MIGRATE_MOVABLE) hwf (by decide) hpg hB
      rw [hr]
      have hnew : get_pageblock_migratetype cfg r.1 pfn =
          effective_migratetype cfg MIGRATE_MOVABLE := by
        unfold get_pageblock_migratetype
        rw [a4]
        simp [upd]
      refine ⟨r.1, rfl, w, a1.trans hpv, a2.trans hzs, a3.trans hsp, ?_, ?_, ?_, ?_⟩
      · intro b hb
        rw [a4]
        simp [upd, hb]
      · rw [htag, hnew]
        have := effective_movable_ne cfg
        simp [this]
      · intro h1
        exact absurd (hT ▸ hTr) h1
      · intro _ _ _
        exact hnew
    · rw [if_neg hTr]
      refine ⟨s, rfl, hwf, hpv, hzs, hsp, fun _ _ => rfl, ?_, ?_, ?_⟩
      · rw [htag, ← hT]
        simp [hTr]
      · intro h1 h2
        exact absurd h2 h1
      · intro _ h2
        exact absurd (hT ▸ h2) hTr
  unfold migrate_reserve_block
  by_cases hval : s.pfn_valid pfn = true
  swap
  · have hval2 : s.pfn_valid pfn = false := by simpa using hval
    simp only [hval2, Bool.not_false, if_true]
    refine ⟨reserve, s, rfl, hwf, hpv, hzs, hsp, fun _ _ => rfl, ?_, ?_, ?_⟩
    · rw [hvis, hval2]
      simp
    · intro h1 h2
      exact absurd h2 h1
    · intro h
      rw [hvis, hval2] at h
      simp at h
  simp only [hval, Bool.not_true, Bool.false_eq_true, if_false]
  by_cases hnid : env.page_to_nid pfn = env.zone_to_nid
  swap
  · have hne : (env.page_to_nid pfn != env.zone_to_nid) = true := by simpa using hnid
    simp only [hne, if_true]
    have hv0 : block_visited env s0 pfn = false := by
      rw [hvis, hval]
      simpa using hnid
    refine ⟨reserve, s, rfl, hwf, hpv, hzs, hsp, fun _ _ => rfl, ?_, ?_, ?_⟩
    · rw [hv0]
      simp
    · intro h1 h2
      exact absurd h2 h1
    · intro h
      rw [hv0] at h
      exact absurd h (by decide)
  have hne : (env.page_to_nid pfn != env.zone_to_nid) = false := by simpa using hnid
  simp only [hne, Bool.false_eq_true, if_false]
  have hv1 : block_visited env s0 pfn = true := by
    rw [hvis, hval]
    simpa using hnid
  by_cases hres : reserve > 0
  · rw [if_pos hres]
    have hpr := pageblock_is_reserved_eq cfg env pfn hpv hlt hwrap
    have hrn : 0 < reserve.toNat := by omega
    by_cases hhold : block_holds_reserved cfg env s0 pfn = true
    · rw [hhold, if_pos rfl] at hpr
      rw [hpr, if_pos (by decide)]
      refine ⟨reserve, s, rfl, hwf, hpv, hzs, hsp, fun _ _ => rfl, ?_, ?_, ?_⟩
      · rw [hhold]
        simp
      · intro h1 h2
        exact absurd h2 h1
      · intro _ _ h0
        omega
    · have hhold2 : block_holds_reserved cfg env s0 pfn = false := by simpa using hhold
      rw [hhold2, if_neg (by decide)] at hpr
      rw [hpr, if_neg (by decide)]
      by_cases hTr : get_pageblock_migratetype cfg s pfn = MIGRATE_RESERVE
      · rw [if_pos hTr]
        refine ⟨reserve - 1, s, rfl, hwf, hpv, hzs, hsp, fun _ _ => rfl, ?_, ?_, ?_⟩
        · rw [hv1, hhold2, htag, hTr]
          simp only [Bool.not_false, Bool.and_self, beq_self_eq_true, if_true]
          omega
        · intro h1
          exact absurd hTr h1
        · intro _ _ h0
          omega
      · rw [if_neg hTr]
        by_cases hTm : get_pageblock_migratetype cfg s pfn = MIGRATE_MOVABLE
        · rw [if_pos hTm]
          obtain ⟨r, hr, w, a1, a2, a3, a4⟩ :=
            retag_block (m := MIGRATE_RESERVE) hwf (by decide) hpg hB
          rw [hr]
          have hnew : get_pageblock_migratetype cfg r.1 pfn = MIGRATE_RESERVE := by
            unfold get_pageblock_migratetype
            rw [a4, effective_reserve]
            simp [upd]
          refine ⟨reserve - 1, r.1, rfl, w, a1.trans hpv, a2.trans hzs, a3.trans hsp,
            ?_, ?_, ?_, ?_⟩
          · intro b hb
            rw [a4]
            simp [upd, hb]
          · rw [hv1, hhold2, htag, hnew]
            simp only [Bool.not_false, Bool.and_self, beq_self_eq_true, if_true]
            omega
          · intro _ _
            exact ⟨hTm, hv1, hhold2, hrn⟩
          · intro _ h2
            exact absurd h2 hTr
        · rw [if_neg hTm]
          obtain ⟨s1, e, w, a1, a2, a3, a4, a5, a6, a7⟩ :=
            hret _ rfl (fun h => absurd h hTr) hv1 (Or.inl hTm)
          rw [e]
          exact ⟨reserve, s1, rfl, w, a1, a2, a3, a4, a5, a6, a7⟩
  · rw [if_neg hres]
    have hrn : reserve.toNat = 0 := by omega
    obtain ⟨s1, e, w, a1, a2, a3, a4, a5, a6, a7⟩ :=
      hret _ rfl (fun _ h => by omega) hv1 (Or.inr hrn)
    rw [e]
    exact ⟨reserve, s1, rfl, w, a1, a2, a3, a4, a5, a6, a7⟩

theorem pageblocks_from_get (cfg : Config) :
    ∀ (k p j q : Nat), (pageblocks_from cfg p k)[j]? = some q →
      j < k ∧ q = p + j * 2 ^ cfg.pageblock_order := by
  intro k
  induction k with
  | zero =>
    intro p j q h
    simp [pageblocks_from] at h
  | succ k ih =>
    intro p j q h
    rw [pageblocks_from] at h
    cases j with
    | zero =>
      simp only [List.getElem?_cons_zero, Option.some.injEq] at h
      exact ⟨Nat.succ_pos _, by omega⟩
    | succ j =>
      simp only [List.getElem?_cons_succ] at h
      obtain ⟨a, b⟩ := ih _ _ _ h
      refine ⟨by omega, ?_⟩
      rw [b, Nat.succ_mul]
      omega

theorem pageblock_index_ne (cfg : Config) (p j : Nat) :
    (p + 2 ^ cfg.pageblock_order + j * 2 ^ cfg.pageblock_order) >>> cfg.pageblock_order ≠
      p >>> cfg.pageblock_order := by
  rw [Nat.shiftRight_eq_div_pow, Nat.shiftRight_eq_div_pow,
    show p + 2 ^ cfg.pageblock_order + j * 2 ^ cfg.pageblock_order =
      p + (j + 1) * 2 ^ cfg.pageblock_order by rw [Nat.succ_mul]; omega,
    Nat.add_mul_div_right _ _ (Nat.two_pow_pos _)]
  omega

theorem reserve_held_cons (cfg : Config) (env : ReserveEnv) (s s1 : State) (p : Nat)
    (l : List Nat) :
    reserve_held cfg env s s1 (p :: l) = reserve_held cfg env s s1 l +
      (if (block_visited env s p && !block_holds_reserved cfg env s p &&
        tagged_reserve cfg s1 p) = true then 1 else 0) := by
  unfold reserve_held
  rw [List.countP_cons]

/-- The walk of `setup_zone_migrate_reserve` over `k` page-blocks from `pfn`
on, in a well-formed zone: the loop returns, `reserve` has gone down by the
number of page-blocks that end tagged Reserve among those looked at that hold
no reserved frame, and the tags outside the page-blocks walked are
unchanged. -/
theorem migrate_reserve_loop_spec {cfg : Config} {zid : Nat} (env : ReserveEnv) (s0 : State)
    (hwrap : s0.zone_start_pfn + s0.spanned_pages + 2 ^ cfg.pageblock_order ≤
      2 ^ cfg.BITS_PER_LONG) :
    ∀ (k fuel pfn : Nat) (reserve : Int) (s : State), WF cfg zid s →
      s.pfn_valid = s0.pfn_valid → s.zone_start_pfn = s0.zone_start_pfn →
      s.spanned_pages = s0.spanned_pages → s.zone_start_pfn ≤ pfn →
      (∀ j, j < k → pfn + j * 2 ^ cfg.pageblock_order <
        s0.zone_start_pfn + s0.spanned_pages) →
      s0.zone_start_pfn + s0.spanned_pages ≤ pfn + k * 2 ^ cfg.pageblock_order →
      k ≤ fuel →
      ∃ r s1, migrate_reserve_loop cfg env (s0.zone_start_pfn + s0.spanned_pages) fuel pfn
          (reserve, s) = some (r, s1) ∧
        reserve_held cfg env s0 s1 (pageblocks_from cfg pfn k) + r.toNat = reserve.toNat ∧
        (∀ b, (∀ j, j < k → b ≠ (pfn + j * 2 ^ cfg.pageblock_order) >>> cfg.pageblock_order) →
          s1.pageblock_flags b = s.pageblock_flags b) ∧
        (∀ j q, (pageblocks_from cfg pfn k)[j]? = some q →
          get_pageblock_migratetype cfg s q ≠ MIGRATE_RESERVE →
          get_pageblock_migratetype cfg s1 q = MIGRATE_RESERVE →
          get_pageblock_migratetype cfg s q = MIGRATE_MOVABLE ∧
            block_visited env s0 q = true ∧ block_holds_reserved cfg env s0 q = false ∧
            reserve_held cfg env s0 s1 ((pageblocks_from cfg pfn k).take j) <
              reserve.toNat) ∧
        (∀ j q, (pageblocks_from cfg pfn k)[j]? = some q →
          block_visited env s0 q = true →
          get_pageblock_migratetype cfg s q = MIGRATE_RESERVE →
          reserve.toNat ≤ reserve_held cfg env s0 s1 ((pageblocks_from cfg pfn k).take j) →
          get_pageblock_migratetype cfg s1 q = effective_migratetype cfg MIGRATE_MOVABLE) := by
  have hpos : 0 < 2 ^ cfg.pageblock_order := Nat.two_pow_pos _
  have hnr : pageblock_nr_pages cfg = 2 ^ cfg.pageblock_order := by
    unfold pageblock_nr_pages; rw [Nat.one_shiftLeft]
  intro k
  induction k with
  | zero =>
    intro fuel pfn reserve s _ _ _ _ _ _ hE _
    have hge : ¬ pfn < s0.zone_start_pfn + s0.spanned_pages := by omega
    refine ⟨reserve, s, ?_, ?_, fun _ _ => rfl, ?_, ?_⟩
    · cases fuel with
      | zero => rw [migrate_reserve_loop, if_neg hge]
      | succ f => rw [migrate_reserve_loop, if_neg hge]
    · show 0 + reserve.toNat = reserve.toNat
      omega
    · intro j q h
      simp [pageblocks_from] at h
    · intro j q h
      simp [pageblocks_from] at h
  | succ k ih =>
    intro fuel pfn reserve s hwf hpv hzs hsp hpg hin hE hfuel
    obtain ⟨f, rfl⟩ : ∃ f, fuel = f + 1 := ⟨fuel - 1, by omega⟩
    have hlt : pfn < s0.zone_start_pfn + s0.spanned_pages := by
      have := hin 0 (Nat.succ_pos _)
      omega
    obtain ⟨r1, s', hstep, w', b1, b2, b3, hframe, hcount, hB0, hC0⟩ :=
      migrate_reserve_block_spec env s0 s pfn reserve hwf hpv hzs hsp hpg hlt hwrap
    have hnext : (pfn + pageblock_nr_pages cfg) % 2 ^ cfg.BITS_PER_LONG =
        pfn + 2 ^ cfg.pageblock_order := by
      rw [hnr]
      exact Nat.mod_eq_of_lt (by omega)
    obtain ⟨r, s1, hloop, c1, c2, c3, c4⟩ :=
      ih f (pfn + 2 ^ cfg.pageblock_order) r1 s' w' b1 b2 b3 (by omega)
        (fun j hj => by
          have := hin (j + 1) (by omega)
          rw [Nat.succ_mul] at this
          omega)
        (by rw [Nat.succ_mul] at hE; omega) (by omega)
    -- the tag of the first page-block is not touched by the rest of the walk
    have hhead : s1.pageblock_flags (pfn >>> cfg.pageblock_order) =
        s'.pageblock_flags (pfn >>> cfg.pageblock_order) :=
      c2 _ (fun j _ => (pageblock_index_ne cfg pfn j).symm)
    have hheadtag : get_pageblock_migratetype cfg s1 pfn =
        get_pageblock_migratetype cfg s' pfn := hhead
    have hheadres : tagged_reserve cfg s1 pfn = tagged_reserve cfg s' pfn := by
      unfold tagged_reserve
      rw [hheadtag]
    -- the tags of the later page-blocks are not touched by the first step
    have hlater : ∀ (j q : Nat), (pageblocks_from cfg (pfn + 2 ^ cfg.pageblock_order) k)[j]? = some q →
        get_pageblock_migratetype cfg s' q = get_pageblock_migratetype cfg s q := by
      intro j q hq
      obtain ⟨_, e⟩ := pageblocks_from_get cfg _ _ _ _ hq
      subst e
      exact hframe _ (pageblock_index_ne cfg pfn j)
    rw [← hheadres] at hcount
    refine ⟨r, s1, ?_, ?_, ?_, ?_, ?_⟩
    · rw [migrate_reserve_loop, if_pos hlt]
      simp only []
      rw [hstep]
      simp only []
      rw [hnext]
      exact hloop
    · rw [pageblocks_from, reserve_held_cons]
      omega
    · intro b hb
      rw [c2 b (fun j hj => by
        have := hb (j + 1) (by omega)
        rw [Nat.succ_mul] at this
        rw [show pfn + 2 ^ cfg.pageblock_order + j * 2 ^ cfg.pageblock_order =
          pfn + (j * 2 ^ cfg.pageblock_order + 2 ^ cfg.pageblock_order) by omega]
        exact this)]
      exact hframe b (by
        have := hb 0 (Nat.succ_pos _)
        rwa [Nat.zero_mul, Nat.add_zero] at this)
    · intro j q hq h1 h2
      rw [pageblocks_from] at hq ⊢
      cases j with
      | zero =>
        simp only [List.getElem?_cons_zero, Option.some.injEq] at hq
        subst hq
        rw [hheadtag] at h2
        obtain ⟨d1, d2, d3, d4⟩ := hB0 h1 h2
        exact ⟨d1, d2, d3, d4⟩
      | succ j =>
        simp only [List.getElem?_cons_succ] at hq
        have e := hlater j q hq
        obtain ⟨d1, d2, d3, d4⟩ := c3 j q hq (by rw [e]; exact h1) h2
        refine ⟨by rw [← e]; exact d1, d2, d3, ?_⟩
        rw [List.take_succ_cons, reserve_held_cons]
        omega
    · intro j q hq hv h1 h2
      rw [pageblocks_from] at hq h2
      cases j with
      | zero =>
        simp only [List.getElem?_cons_zero, Option.some.injEq] at hq
        subst hq
        rw [hheadtag]
        have h0 : reserve.toNat = 0 := by
          have : reserve_held cfg env s0 s1 ([] : List Nat) = 0 := rfl
          rw [List.take_zero, this] at h2
          omega
        exact hC0 hv h1 h0
      | succ j =>
        simp only [List.getElem?_cons_succ] at hq
        have e := hlater j q hq
        rw [List.take_succ_cons, reserve_held_cons] at h2
        exact c4 j q hq hv (by rw [e]; exact h1) (by omega)

/-- The `reserve` that `setup_zone_migrate_reserve` starts with is at most
`min(2, ceil(min_wmark_pages / pageblock_nr_pages))`. -/
theorem reserve_start_le (cfg : Config) (env : ReserveEnv)
    (h : 2 ^ cfg.pageblock_order ≤ 2 ^ cfg.BITS_PER_LONG) :
    (min 2 (wrap_int
      ((roundup cfg env.min_wmark_pages (pageblock_nr_pages cfg) >>> cfg.pageblock_order : Nat) :
        Int))).toNat ≤ reserve_quota cfg env := by
  have hpos : 0 < 2 ^ cfg.pageblock_order := Nat.two_pow_pos _
  have hnr : pageblock_nr_pages cfg = 2 ^ cfg.pageblock_order := by
    unfold pageblock_nr_pages; rw [Nat.one_shiftLeft]
  have hdec : ulong_dec cfg (2 ^ cfg.pageblock_order) = 2 ^ cfg.pageblock_order - 1 := by
    unfold ulong_dec
    rw [show 2 ^ cfg.pageblock_order + 2 ^ cfg.BITS_PER_LONG - 1 =
      (2 ^ cfg.pageblock_order - 1) + 2 ^ cfg.BITS_PER_LONG by omega, Nat.add_mod_right]
    exact Nat.mod_eq_of_lt (by omega)
  have hX : roundup cfg env.min_wmark_pages (pageblock_nr_pages cfg) >>> cfg.pageblock_order ≤
      (env.min_wmark_pages + 2 ^ cfg.pageblock_order - 1) / 2 ^ cfg.pageblock_order := by
    unfold roundup
    rw [hnr, hdec, Nat.shiftRight_eq_div_pow]
    have h1 : (env.min_wmark_pages + (2 ^ cfg.pageblock_order - 1)) % 2 ^ cfg.BITS_PER_LONG /
        2 ^ cfg.pageblock_order ≤
        (env.min_wmark_pages + 2 ^ cfg.pageblock_order - 1) / 2 ^ cfg.pageblock_order := by
      apply Nat.div_le_div_right
      rw [show env.min_wmark_pages + 2 ^ cfg.pageblock_order - 1 =
        env.min_wmark_pages + (2 ^ cfg.pageblock_order - 1) by omega]
      exact Nat.mod_le _ _
    refine Nat.le_trans ?_ h1
    refine Nat.le_trans (Nat.div_le_div_right (Nat.mod_le _ _)) ?_
    rw [Nat.mul_div_cancel _ hpos]
  unfold reserve_quota
  generalize (env.min_wmark_pages + 2 ^ cfg.pageblock_order - 1) / 2 ^ cfg.pageblock_order = C
    at hX ⊢
  generalize roundup cfg env.min_wmark_pages (pageblock_nr_pages cfg) >>> cfg.pageblock_order = X
    at hX ⊢
  unfold wrap_int
  omega

theorem ulong_dec_pos (cfg : Config) (n : Nat) (h1 : 0 < n) (h2 : n ≤ 2 ^ cfg.BITS_PER_LONG) :
    ulong_dec cfg n = n - 1 := by
  unfold ulong_dec
  generalize 2 ^ cfg.BITS_PER_LONG = W at h2 ⊢
  rw [show n + W - 1 = (n - 1) + W by omega, Nat.add_mod_right]
  exact Nat.mod_eq_of_lt (by omega)

theorem ceil_mul_bounds (x nr : Nat) (hpos : 0 < nr) :
    x ≤ (x + nr - 1) / nr * nr ∧ (x + nr - 1) / nr * nr < x + nr := by
  have h1 := Nat.div_mul_le_self (x + nr - 1) nr
  have h2 := Nat.lt_div_mul_add (a := x + nr - 1) hpos
  generalize (x + nr - 1) / nr * nr = q at h1 h2 ⊢
  omega

theorem roundup_eq (cfg : Config) (x nr : Nat) (hpos : 0 < nr)
    (h : x + nr ≤ 2 ^ cfg.BITS_PER_LONG) :
    roundup cfg x nr = (x + nr - 1) / nr * nr := by
  obtain ⟨b1, b2⟩ := ceil_mul_bounds x nr hpos
  unfold roundup
  rw [ulong_dec_pos cfg nr hpos (by omega)]
  generalize 2 ^ cfg.BITS_PER_LONG = W at h ⊢
  have e : x + (nr - 1) = x + nr - 1 := by omega
  rw [e]
  have e2 : (x + nr - 1) % W = x + nr - 1 := Nat.mod_eq_of_lt (by omega)
  rw [e2]
  generalize (x + nr - 1) / nr * nr = q at b1 b2 ⊢
  exact Nat.mod_eq_of_lt (by omega)

/-- C31 as stated fails: while the quota is unmet the walk skips a page-block
that holds a reserved frame, whatever its tag. In a zone of four page-blocks
of 16 frames, the first tagged Reserve with frame 3 `PG_reserved`, the others
Movable, and a minimum watermark of 32 pages (quota 2),
`setup_zone_migrate_reserve` leaves the first page-block tagged Reserve and
re-tags the next two: three page-blocks are tagged Reserve. -/
theorem migrate_reserve_counterexample :
    reserve_quota steal_config reserved_env = 2 ∧
    zone_pageblocks steal_config tagged_zone = [0, 16, 32, 48] ∧
    (setup_zone_migrate_reserve steal_config reserved_env tagged_zone).map
        (fun s1 => (zone_pageblocks steal_config tagged_zone).map
          (fun pfn => get_pageblock_migratetype steal_config s1 pfn)) =
      some [MIGRATE_RESERVE, MIGRATE_RESERVE, MIGRATE_RESERVE, MIGRATE_MOVABLE] ∧
    (setup_zone_migrate_reserve steal_config reserved_env tagged_zone).map
        (fun s1 => reserve_tagged steal_config s1 (zone_pageblocks steal_config tagged_zone)) =
      some 3 := by
  decide

/-- C31, amended: on a well-formed zone whose frame numbers fit an
`unsigned long`, `setup_zone_migrate_reserve(zone)` returns, and afterwards
the number of page-blocks of the zone tagged Reserve, not counting those the
walk does not look at (first frame invalid or on another node) and those that
hold a reserved frame or a hole, is at most
`min(2, ceil(min_wmark_pages / pageblock_nr_pages))`; a page-block that was
not tagged Reserve and ends tagged Reserve was Movable, is looked at, holds
no reserved frame, and fewer such Reserve page-blocks than the quota precede
it (the quota is unmet); and every page-block tagged Reserve that the walk
looks at when the Reserve page-blocks before it already make up the quota is
given the tag that `set_pageblock_migratetype(page, MIGRATE_MOVABLE)` writes:
Movable, or Unmovable when grouping by mobility is disabled. -/
theorem migrate_reserve_bound (cfg : Config) (env : ReserveEnv) (zid : Nat) (s : State)
    (hwf : WF cfg zid s)
    (hspan : s.zone_start_pfn + s.spanned_pages + 2 ^ cfg.pageblock_order ≤
      2 ^ cfg.BITS_PER_LONG) :
    ∃ s1, setup_zone_migrate_reserve cfg env s = some s1 ∧
      reserve_held cfg env s s1 (zone_pageblocks cfg s) ≤ reserve_quota cfg env ∧
      (∀ (i pfn : Nat), (zone_pageblocks cfg s)[i]? = some pfn →
        get_pageblock_migratetype cfg s pfn ≠ MIGRATE_RESERVE →
        get_pageblock_migratetype cfg s1 pfn = MIGRATE_RESERVE →
        get_pageblock_migratetype cfg s pfn = MIGRATE_MOVABLE ∧
          block_visited env s pfn = true ∧ block_holds_reserved cfg env s pfn = false ∧
          reserve_held cfg env s s1 ((zone_pageblocks cfg s).take i) <
            reserve_quota cfg env) ∧
      (∀ (i pfn : Nat), (zone_pageblocks cfg s)[i]? = some pfn →
        block_visited env s pfn = true →
        get_pageblock_migratetype cfg s pfn = MIGRATE_RESERVE →
        reserve_quota cfg env ≤
          reserve_held cfg env s s1 ((zone_pageblocks cfg s).take i) →
        get_pageblock_migratetype cfg s1 pfn = effective_migratetype cfg MIGRATE_MOVABLE) ∧
      (effective_migratetype cfg MIGRATE_MOVABLE =
        if cfg.page_group_by_mobility_disabled then MIGRATE_UNMOVABLE else MIGRATE_MOVABLE) := by
  have hpos : 0 < 2 ^ cfg.pageblock_order := Nat.two_pow_pos _
  have hnr : pageblock_nr_pages cfg = 2 ^ cfg.pageblock_order := by
    unfold pageblock_nr_pages; rw [Nat.one_shiftLeft]
  have hquota := reserve_start_le cfg env (by omega)
  -- the first page-block of the walk
  obtain ⟨hs1, hs2⟩ := ceil_mul_bounds s.zone_start_pfn (2 ^ cfg.pageblock_order) hpos
  have hstart := roundup_eq cfg s.zone_start_pfn (2 ^ cfg.pageblock_order) hpos (by omega)
  have hend : (s.zone_start_pfn + s.spanned_pages) % 2 ^ cfg.BITS_PER_LONG =
      s.zone_start_pfn + s.spanned_pages := Nat.mod_eq_of_lt (by omega)
  unfold setup_zone_migrate_reserve zone_pageblocks
  simp only []
  rw [hend, hnr, hstart]
  rw [hnr] at hquota
  generalize (s.zone_start_pfn + 2 ^ cfg.pageblock_order - 1) / 2 ^ cfg.pageblock_order *
    2 ^ cfg.pageblock_order = start at hs1 hs2 ⊢
  generalize min 2 (wrap_int
    ((roundup cfg env.min_wmark_pages (2 ^ cfg.pageblock_order) >>> cfg.pageblock_order : Nat) :
      Int)) = reserve at hquota ⊢
  -- the number of page-blocks walked
  have hk1 := Nat.div_mul_le_self
    (s.zone_start_pfn + s.spanned_pages + 2 ^ cfg.pageblock_order - 1 - start)
    (2 ^ cfg.pageblock_order)
  have hk2 := Nat.lt_div_mul_add
    (a := s.zone_start_pfn + s.spanned_pages + 2 ^ cfg.pageblock_order - 1 - start) hpos
  have hfuel : (s.zone_start_pfn + s.spanned_pages + 2 ^ cfg.pageblock_order - 1 - start) /
      2 ^ cfg.pageblock_order ≤
      (s.zone_start_pfn + s.spanned_pages - start) / 2 ^ cfg.pageblock_order + 1 := by
    rw [← Nat.add_div_right _ hpos]
    exact Nat.div_le_div_right (by omega)
  generalize (s.zone_start_pfn + s.spanned_pages + 2 ^ cfg.pageblock_order - 1 - start) /
    2 ^ cfg.pageblock_order = k at hk1 hk2 hfuel ⊢
  obtain ⟨r, s1, hloop, c1, _, c3, c4⟩ :=
    @migrate_reserve_loop_spec cfg zid env s hspan k
      ((s.zone_start_pfn + s.spanned_pages - start) / 2 ^ cfg.pageblock_order + 1) start
      reserve s hwf rfl rfl rfl hs1
      (fun j hj => by
        have h3 : (j + 1) * 2 ^ cfg.pageblock_order ≤ k * 2 ^ cfg.pageblock_order :=
          Nat.mul_le_mul_right _ hj
        rw [Nat.succ_mul] at h3
        generalize j * 2 ^ cfg.pageblock_order = a at h3 ⊢
        generalize k * 2 ^ cfg.pageblock_order = b at h3 hk1 hk2
        omega)
      (by
        generalize k * 2 ^ cfg.pageblock_order = b at hk1 hk2 ⊢
        omega) hfuel
  rw [hloop]
  refine ⟨s1, rfl, Nat.le_trans (Nat.le_add_right _ _) (c1 ▸ hquota), ?_, ?_, ?_⟩
  · intro i pfn hq h1 h2
    obtain ⟨d1, d2, d3, d4⟩ := c3 i pfn hq h1 h2
    exact ⟨d1, d2, d3, Nat.lt_of_lt_of_le d4 hquota⟩
  · intro i pfn hq hv h1 h2
    exact c4 i pfn hq hv h1 (Nat.le_trans hquota h2)
  · unfold effective_migratetype
    simp [MIGRATE_MOVABLE, MIGRATE_PCPTYPES]

theorem migrate_reserve_bound_witness :
    ∃ s1, setup_zone_migrate_reserve steal_config reserved_env tagged_zone = some s1 ∧
      reserve_held steal_config reserved_env tagged_zone s1
          (zone_pageblocks steal_config tagged_zone) ≤
        reserve_quota steal_config reserved_env := by
  obtain ⟨s1, h1, h2, _⟩ := migrate_reserve_bound steal_config reserved_env 0 tagged_zone
    (@WF.of_eq_view steal_config 0 (zone_of_blocks 6 [] MIGRATE_MOVABLE) tagged_zone
      (zone_of_blocks_wf steal_config 6 MIGRATE_MOVABLE [] rfl (by decide) (by decide))
      rfl rfl rfl rfl rfl).1
    (by decide)
  exact ⟨s1, h1, h2⟩

end PageAlloc
